import Mathlib

/-!
# KeePass password database core (`KeePassLibCpp/PwManager.cpp`)

A shallow embedding of `CPwManager`: the group and entry arrays are lists, C
strings are lists of code units, machine integers are naturals reduced modulo
`2^w` where the code can overflow, and a pointer that may be `NULL` is an
`Option`.  Collaborators that live outside `PwManager.cpp` (ciphers, SHA-256,
the random source, the UTF-8 helpers, the file system) are fields of `Env`.
-/

namespace KeePass

/-! ## Machine integers, buffers and C strings -/

/-- The value `DWORD_MAX` (`0xFFFFFFFF`). -/
def DWORD_MAX : Nat := 4294967295

/-- Modulus of 32-bit (`DWORD`, `unsigned long`) arithmetic. -/
def U32 : Nat := 4294967296

/-- The characters of the C string stored in a buffer: the code units before
the first terminating zero (what `_tcslen`, `_tcscpy`, `_tcscmp` look at). -/
def cstr (s : List Nat) : List Nat := s.takeWhile (fun c => c != 0)

/-- The function `_tcslen` / `szlen` / `strlen`. -/
def tcslen (s : List Nat) : Nat := (cstr s).length

/-- `n` bytes read at offset `pos` of a buffer; a byte outside the buffer reads
as zero. -/
def readBytes (buf : List Nat) (pos n : Nat) : List Nat :=
  ((buf.drop pos) ++ List.replicate n 0).take n

/-- Little-endian encoding of `v` in `n` bytes (what `memcpy` of an integer
writes on the little-endian target). -/
def leBytes : Nat → Nat → List Nat
  | 0, _ => []
  | n + 1, v => (v % 256) :: leBytes n (v / 256)

/-- Little-endian value of a byte list (what `memcpy` into an integer reads). -/
def leValue : List Nat → Nat
  | [] => 0
  | b :: bs => b % 256 + 256 * leValue bs

/-- ASCII code units of a literal. -/
def tstr (s : String) : List Nat := s.toList.map Char.toNat

/-! ## Timestamps -/

/-- The record `PW_TIME`: `USHORT shYear` and five `BYTE` fields. -/
structure PW_TIME where
  shYear : Nat
  btMonth : Nat
  btDay : Nat
  btHour : Nat
  btMinute : Nat
  btSecond : Nat
deriving DecidableEq, Repr

/-- The constant `g_pwTimeNever = { 2999, 12, 28, 23, 59, 59 }`. -/
def g_pwTimeNever : PW_TIME := ⟨2999, 12, 28, 23, 59, 59⟩

/-- Modelled from the spec: `_PackTimeToStruct` (Util/PwUtil, not under src/).
The 40-bit big-endian concatenation year:14, month:4, day:5, hour:5, minute:6,
second:6 is split into 5 bytes, most significant byte first; a field is cut to
its bit width. -/
def _PackTimeToStruct (dwYear dwMonth dwDay dwHour dwMinute dwSecond : Nat) : List Nat :=
  let v := (((((dwYear % 16384) * 16 + dwMonth % 16) * 32 + dwDay % 32) * 32
    + dwHour % 32) * 64 + dwMinute % 64) * 64 + dwSecond % 64
  [v / 4294967296 % 256, v / 16777216 % 256, v / 65536 % 256, v / 256 % 256, v % 256]

/-- Modelled from the spec: `_UnpackStructToTime` (Util/PwUtil, not under
src/).  Reads the 5 bytes most significant first and cuts the 40-bit value into
year:14, month:4, day:5, hour:5, minute:6, second:6. -/
def _UnpackStructToTime (pBytes : List Nat) : Nat × Nat × Nat × Nat × Nat × Nat :=
  let v := ((((pBytes.getD 0 0 % 256) * 256 + pBytes.getD 1 0 % 256) * 256
    + pBytes.getD 2 0 % 256) * 256 + pBytes.getD 3 0 % 256) * 256 + pBytes.getD 4 0 % 256
  (v / 67108864 % 16384, v / 4194304 % 16, v / 131072 % 32, v / 4096 % 32, v / 64 % 64, v % 64)

/-- The method `CPwManager::TimeToPwTime`: unpack and narrow to `USHORT` / `BYTE`. -/
def TimeToPwTime (pCompressedTime : List Nat) : PW_TIME :=
  match _UnpackStructToTime pCompressedTime with
  | (dwYear, dwMonth, dwDay, dwHour, dwMinute, dwSecond) =>
    { shYear := dwYear % 65536, btMonth := dwMonth % 256, btDay := dwDay % 256,
      btHour := dwHour % 256, btMinute := dwMinute % 256, btSecond := dwSecond % 256 }

/-- The method `CPwManager::PwTimeToTime`: widen the fields to `DWORD` and pack. -/
def PwTimeToTime (pPwTime : PW_TIME) : List Nat :=
  _PackTimeToStruct pPwTime.shYear pPwTime.btMonth pPwTime.btDay pPwTime.btHour
    pPwTime.btMinute pPwTime.btSecond

/-! ## Groups, entries and the database object -/

/-- The record `PW_GROUP` (declared in PwManager.h); the fields are those the
code reads and writes.  `pszGroupName` is a pointer, `none` is `NULL`. -/
structure PW_GROUP where
  uGroupId : Nat
  uImageId : Nat
  pszGroupName : Option (List Nat)
  tCreation : PW_TIME
  tLastMod : PW_TIME
  tLastAccess : PW_TIME
  tExpire : PW_TIME
  usLevel : Nat
  dwFlags : Nat
deriving DecidableEq, Repr

/-- The record `PW_ENTRY` (declared in PwManager.h).  `uuid` is the `BYTE[16]`
array; every `psz…`/`p…` field is a pointer and `none` is `NULL`.  The password
buffer holds `uPasswordLen` code units followed by the terminator, which is not
part of the list. -/
structure PW_ENTRY where
  uuid : List Nat
  uGroupId : Nat
  uImageId : Nat
  pszTitle : Option (List Nat)
  pszURL : Option (List Nat)
  pszUserName : Option (List Nat)
  uPasswordLen : Nat
  pszPassword : Option (List Nat)
  pszAdditional : Option (List Nat)
  tCreation : PW_TIME
  tLastMod : PW_TIME
  tLastAccess : PW_TIME
  tExpire : PW_TIME
  pszBinaryDesc : Option (List Nat)
  pBinaryData : Option (List Nat)
  uBinaryDataLen : Nat
deriving DecidableEq, Repr

/-- A `PW_TIME` of zero bytes. -/
def PW_TIME.zero : PW_TIME := ⟨0, 0, 0, 0, 0, 0⟩

/-- The constant `g_uuidZero`. -/
def g_uuidZero : List Nat := List.replicate 16 0

/-- A `PW_GROUP` of zero bytes (`memset`, `ZeroMemory`, `mem_erase`). -/
def PW_GROUP.zero : PW_GROUP :=
  { uGroupId := 0, uImageId := 0, pszGroupName := none, tCreation := PW_TIME.zero,
    tLastMod := PW_TIME.zero, tLastAccess := PW_TIME.zero, tExpire := PW_TIME.zero,
    usLevel := 0, dwFlags := 0 }

/-- A `PW_ENTRY` of zero bytes: what an array slot past the count holds
(`_AllocEntries` clears new slots, `DeleteEntry` erases the vacated one). -/
def PW_ENTRY.zero : PW_ENTRY :=
  { uuid := g_uuidZero, uGroupId := 0, uImageId := 0, pszTitle := none, pszURL := none,
    pszUserName := none, uPasswordLen := 0, pszPassword := none, pszAdditional := none,
    tCreation := PW_TIME.zero, tLastMod := PW_TIME.zero, tLastAccess := PW_TIME.zero,
    tExpire := PW_TIME.zero, pszBinaryDesc := none, pBinaryData := none, uBinaryDataLen := 0 }

/-- The record `PWDB_META_STREAM`: a name and raw bytes. -/
structure PWDB_META_STREAM where
  strName : List Nat
  vData : List Nat
deriving DecidableEq, Repr

/-- The record `PW_DBHEADER`, 124 bytes on disk. -/
structure PW_DBHEADER where
  dwSignature1 : Nat
  dwSignature2 : Nat
  dwFlags : Nat
  dwVersion : Nat
  aMasterSeed : List Nat
  aEncryptionIV : List Nat
  dwGroups : Nat
  dwEntries : Nat
  aContentsHash : List Nat
  aMasterSeed2 : List Nat
  dwKeyEncRounds : Nat
deriving DecidableEq, Repr

/-- A header of zero bytes. -/
def PW_DBHEADER.zero : PW_DBHEADER :=
  { dwSignature1 := 0, dwSignature2 := 0, dwFlags := 0, dwVersion := 0,
    aMasterSeed := List.replicate 16 0, aEncryptionIV := List.replicate 16 0,
    dwGroups := 0, dwEntries := 0, aContentsHash := List.replicate 32 0,
    aMasterSeed2 := List.replicate 32 0, dwKeyEncRounds := 0 }

/-- The object `CPwManager`.  The arrays `m_pEntries[0 .. m_dwNumEntries)` and
`m_pGroups[0 .. m_dwNumGroups)` are the two lists (capacity is not modelled; a
slot past the count is all zero).  `m_pLastEditedEntry`, a raw pointer into the
entry array, is left out; `m_random` is threaded separately as `Rand`. -/
structure CPwManager where
  m_pEntries : List PW_ENTRY
  m_pGroups : List PW_GROUP
  m_pMasterKey : List Nat
  m_pTransformedMasterKey : List Nat
  m_pSessionKey : List Nat
  m_nAlgorithm : Nat
  m_dwKeyEncRounds : Nat
  m_dbLastHeader : PW_DBHEADER
  m_vUnknownMetaStreams : List PWDB_META_STREAM
  m_dwLastSelectedGroupId : Nat
  m_dwLastTopVisibleGroupId : Nat
  m_aLastSelectedEntryUuid : List Nat
  m_aLastTopVisibleEntryUuid : List Nat
deriving DecidableEq, Repr

/-- The random sources: the pending outputs of the process-wide `randXorShift`
(a list, so that the rejection loop of `AddGroup` is bounded by what the
generator delivers), and the UUIDs and byte buffers that `m_random` hands out,
indexed by the number of the call. -/
structure Rand where
  xorShift : List Nat
  uuidAt : Nat → List Nat
  uuidCalls : Nat
  bufferAt : Nat → Nat → List Nat
  bufferCalls : Nat

/-- The call `randCreateUUID(uuid, &m_random)`. -/
def randCreateUUID (r : Rand) : List Nat × Rand :=
  (r.uuidAt r.uuidCalls, { r with uuidCalls := r.uuidCalls + 1 })

/-- The call `m_random.GetRandomBuffer(p, n)`. -/
def GetRandomBuffer (r : Rand) (n : Nat) : List Nat × Rand :=
  (readBytes (r.bufferAt r.bufferCalls n) 0 n, { r with bufferCalls := r.bufferCalls + 1 })

/-- Result codes `PWE_…` of the file operations. -/
inductive PWE where
  | SUCCESS | UNKNOWN | INVALID_PARAM | NO_MEM | INVALID_KEY | NOFILEACCESS_READ
  | NOFILEACCESS_WRITE | FILEERROR_READ | FILEERROR_WRITE | INVALID_RANDOMSOURCE
  | INVALID_FILESTRUCTURE | CRYPT_ERROR | INVALID_FILESIZE | INVALID_FILESIGNATURE
  | INVALID_FILEHEADER | NOFILEACCESS_READ_KEY
deriving DecidableEq, Repr

/-- Collaborators of `PwManager.cpp` that are not part of it: the stream
cipher, SHA-256, the block ciphers, the UTF-8 helpers, the allocator, the file
system and the clock.  Each is taken as given. -/
structure Env where
  /-- Keystream of `ARCFourCrypt`: unit `i` of the stream initialised from the key. -/
  arcfourStream : List Nat → Nat → Nat
  /-- The digest `sha256_begin; sha256_hash…; sha256_end` of the hashed bytes. -/
  sha256 : List Nat → List Nat
  /-- The bytes `_StringToUTF8` produces for the characters of a C string. -/
  StringToUTF8 : List Nat → List Nat
  /-- The characters `_UTF8ToString` produces for the bytes of a C string. -/
  UTF8ToString : List Nat → List Nat
  /-- Whether `CRijndael::Init(ECB, EncryptDir, key, Key32Bytes, 0)` succeeds. -/
  rijndaelInitECB : List Nat → Bool
  /-- The call `BlockEncrypt` in ECB mode: key, input, output. -/
  rijndaelBlockEncrypt : List Nat → List Nat → List Nat
  /-- Whether `CRijndael::Init(CBC, dir, key, Key32Bytes, iv)` succeeds
  (`true` for `EncryptDir`). -/
  rijndaelInitCBC : Bool → List Nat → List Nat → Bool
  /-- The call `CRijndael::PadEncrypt`: key, iv, cleartext; what the output
  buffer holds afterwards and the returned size (as `unsigned long`). -/
  rijndaelPadEncrypt : List Nat → List Nat → List Nat → List Nat × Nat
  /-- The call `CRijndael::PadDecrypt`: key, iv, ciphertext; what the output
  buffer holds afterwards and the returned size (as `unsigned long`). -/
  rijndaelPadDecrypt : List Nat → List Nat → List Nat → List Nat × Nat
  /-- Whether `CTwofish::Init(key, 32, iv)` succeeds. -/
  twofishInit : List Nat → List Nat → Bool
  /-- The call `CTwofish::PadEncrypt`. -/
  twofishPadEncrypt : List Nat → List Nat → List Nat → List Nat × Nat
  /-- The call `CTwofish::PadDecrypt`. -/
  twofishPadDecrypt : List Nat → List Nat → List Nat → List Nat × Nat
  /-- Whether `new char[n]` succeeds. -/
  allocOk : Nat → Bool
  /-- The bytes of the file at a path, `none` when it cannot be opened for reading. -/
  fileRead : List Nat → Option (List Nat)
  /-- Whether the file at a path can be opened for writing. -/
  fileOpenWrite : List Nat → Bool
  /-- The number of bytes `fwrite` reports written for a path and a buffer. -/
  fileWritten : List Nat → List Nat → Nat
  /-- The call `IsBadReadPtr(p, n)` for `p` at an offset of the memory file. -/
  IsBadReadPtr : Nat → Nat → Bool
  /-- The constant `PWM_STD_KEYENCROUNDS`. -/
  PWM_STD_KEYENCROUNDS : Nat
  /-- The time `_GetCurrentPwTime` reports. -/
  tNow : PW_TIME
  /-- The legacy reader `_OpenDatabaseV1` (not part of this file). -/
  _OpenDatabaseV1 : CPwManager → List Nat → Bool × CPwManager
  /-- The legacy reader `_OpenDatabaseV2` (not part of this file). -/
  _OpenDatabaseV2 : CPwManager → List Nat → Bool × CPwManager

/-- Modelled from the spec: `_TcsSafeDupAlloc` (Util/StrUtil, not under src/),
the deep copy of a text field: a fresh copy of the C string, and a fresh empty
string for `NULL` (absent text is normalised to the empty string). -/
def _TcsSafeDupAlloc (p : Option (List Nat)) : Option (List Nat) :=
  match p with
  | none => some []
  | some s => some (cstr s)

/-- XOR of the first `n` units of a buffer with the stream `ks i, ks (i+1), …`. -/
def xorStream (ks : Nat → Nat) : Nat → Nat → List Nat → List Nat
  | _, 0, buf => buf
  | _, _ + 1, [] => []
  | i, n + 1, b :: bs => (b ^^^ ks i) :: xorStream ks (i + 1) n bs

/-- Modelled from the spec: `ARCFourCrypt` (Crypto/ARCFour, not under src/).
The buffer is XORed in place with the RC4-style keystream that the key
initialises; every call starts the stream afresh. -/
def ARCFourCrypt (E : Env) (pBuf : List Nat) (uBufLen : Nat) (pKey : List Nat) : List Nat :=
  xorStream (E.arcfourStream pKey) 0 uBufLen pBuf

namespace CPwManager

/-- The method `CPwManager::LockEntryPassword`.  The stream is indexed by code
unit (`uPasswordLen * sizeof(TCHAR)` bytes are processed). -/
def LockEntryPassword (E : Env) (m : CPwManager) (pEntry : PW_ENTRY) : PW_ENTRY :=
  match pEntry.pszPassword with
  | none => pEntry
  | some pw =>
    if pEntry.uPasswordLen != 0 then
      { pEntry with pszPassword := some (ARCFourCrypt E pw pEntry.uPasswordLen m.m_pSessionKey) }
    else pEntry

/-- The method `CPwManager::UnlockEntryPassword`: the same stream XOR. -/
def UnlockEntryPassword (E : Env) (m : CPwManager) (pEntry : PW_ENTRY) : PW_ENTRY :=
  LockEntryPassword E m pEntry

/-- The method `CPwManager::GetNumberOfEntries`. -/
def GetNumberOfEntries (m : CPwManager) : Nat := m.m_pEntries.length

/-- The method `CPwManager::GetNumberOfGroups`. -/
def GetNumberOfGroups (m : CPwManager) : Nat := m.m_pGroups.length

/-- The method `CPwManager::GetEntry`; `none` is `NULL`. -/
def GetEntry (m : CPwManager) (dwIndex : Nat) : Option PW_ENTRY := m.m_pEntries[dwIndex]?

/-- The method `CPwManager::GetGroup`; `none` is `NULL`. -/
def GetGroup (m : CPwManager) (dwIndex : Nat) : Option PW_GROUP := m.m_pGroups[dwIndex]?

/-- The loop of `GetGroupByIdN` from index `i` on. -/
def GetGroupByIdN.loop (idGroup : Nat) : Nat → List PW_GROUP → Nat
  | _, [] => DWORD_MAX
  | i, g :: gs => if g.uGroupId == idGroup then i else GetGroupByIdN.loop idGroup (i + 1) gs

/-- The method `CPwManager::GetGroupByIdN`: first index with that id, else `DWORD_MAX`. -/
def GetGroupByIdN (m : CPwManager) (idGroup : Nat) : Nat :=
  GetGroupByIdN.loop idGroup 0 m.m_pGroups

/-- The method `CPwManager::GetGroupById`; `none` is `NULL`. -/
def GetGroupById (m : CPwManager) (idGroup : Nat) : Option PW_GROUP :=
  let dwIndex := m.GetGroupByIdN idGroup
  if dwIndex == DWORD_MAX then none else m.m_pGroups[dwIndex]?

/-- The loop of `GetEntryByUuidN` from index `dw` on. -/
def GetEntryByUuidN.loop (pUuid : List Nat) : Nat → List PW_ENTRY → Nat
  | _, [] => DWORD_MAX
  | dw, e :: es => if e.uuid == pUuid then dw else GetEntryByUuidN.loop pUuid (dw + 1) es

/-- The method `CPwManager::GetEntryByUuidN`. -/
def GetEntryByUuidN (m : CPwManager) (pUuid : List Nat) : Nat :=
  GetEntryByUuidN.loop pUuid 0 m.m_pEntries

/-- The shift loop `for(i = inx; i < n - 1; i++) a[i] = a[i + 1];` followed by
erasing the last slot and decrementing the count.  For `inx` past the end the
loop does not run and the last element is the one that goes. -/
def shiftOut {α : Type} (a : List α) (inx : Nat) : List α :=
  (a.take inx ++ a.drop (inx + 1)).take (a.length - 1)

/-- The method `CPwManager::DeleteEntry`. -/
def DeleteEntry (m : CPwManager) (dwIndex : Nat) : Bool × CPwManager :=
  if dwIndex >= m.m_pEntries.length then (false, m)
  else (true, { m with m_pEntries := shiftOut m.m_pEntries dwIndex })

/-- The assignments of `SetEntry` to the slot `m_pEntries[dwIndex]`, whose
content before the call is `old`.  The buffers of the template are allocations
of their own, so the pointer comparison that guards the copy of the binary
attachment holds only when the compared pointers are all `NULL`; a template
that carries the pointers of the slot is the case `SetEntry.assign` with
`bSame` set.  On the 32-bit target `_tcslen` fits the `DWORD` it is cast
to. -/
def SetEntry.fill (E : Env) (m : CPwManager) (old pTemplate : PW_ENTRY) : PW_ENTRY :=
  let e1 : PW_ENTRY :=
    { old with
      uuid := pTemplate.uuid, uGroupId := pTemplate.uGroupId,
      uImageId := pTemplate.uImageId,
      pszTitle := _TcsSafeDupAlloc pTemplate.pszTitle,
      pszUserName := _TcsSafeDupAlloc pTemplate.pszUserName,
      pszURL := _TcsSafeDupAlloc pTemplate.pszURL,
      pszPassword := _TcsSafeDupAlloc pTemplate.pszPassword,
      pszAdditional := _TcsSafeDupAlloc pTemplate.pszAdditional }
  let samePointers := (old.pBinaryData.isNone && pTemplate.pBinaryData.isNone)
    && (old.pszBinaryDesc.isNone && pTemplate.pszBinaryDesc.isNone)
  let e2 : PW_ENTRY :=
    if !samePointers then
      let slen := pTemplate.uBinaryDataLen
      let data : Option (List Nat) :=
        match pTemplate.pBinaryData with
        | some d => if slen != 0 then some (readBytes d 0 slen) else none
        | none => none
      { e1 with
        pszBinaryDesc := _TcsSafeDupAlloc pTemplate.pszBinaryDesc,
        pBinaryData := data,
        uBinaryDataLen := if data.isNone then 0 else pTemplate.uBinaryDataLen }
    else e1
  let e3 : PW_ENTRY := { e2 with uPasswordLen := tcslen (e2.pszPassword.getD []) }
  let e4 := LockEntryPassword E m e3
  let e5 : PW_ENTRY :=
    { e4 with tCreation := pTemplate.tCreation, tLastMod := pTemplate.tLastMod,
              tLastAccess := pTemplate.tLastAccess, tExpire := pTemplate.tExpire }
  if e5.pszBinaryDesc.isNone then { e5 with pszBinaryDesc := _TcsSafeDupAlloc none } else e5

/-- The method `CPwManager::SetEntry`.  The template is a non-`NULL` pointer to
`pTemplate`. -/
def SetEntry (E : Env) (m : CPwManager) (dwIndex : Nat) (pTemplate : PW_ENTRY) :
    Bool × CPwManager :=
  match m.m_pEntries[dwIndex]? with
  | none => (false, m)
  | some old =>
    if pTemplate.uGroupId == 0 || pTemplate.uGroupId == DWORD_MAX then (false, m)
    else if pTemplate.pszTitle.isNone then (false, m)
    else if pTemplate.pszUserName.isNone then (false, m)
    else if pTemplate.pszURL.isNone then (false, m)
    else if pTemplate.pszPassword.isNone then (false, m)
    else if pTemplate.pszAdditional.isNone then (false, m)
    else (true, { m with m_pEntries := m.m_pEntries.set dwIndex (SetEntry.fill E m old pTemplate) })

/-- The assignments of `SetEntry` to the slot `m_pEntries[dwIndex]`, whose
content before the call is `old`, for either outcome `bSame` of the pointer
comparison of line 835: whether `pBinaryData` and `pszBinaryDesc` of the
template are the pointers of the slot itself.  When they are, the attachment
and its description are not copied and the slot keeps them.  On the 32-bit
target `_tcslen` fits the `DWORD` it is cast to. -/
def SetEntry.assign (E : Env) (m : CPwManager) (bSame : Bool)
    (old pTemplate : PW_ENTRY) : PW_ENTRY :=
  let e1 : PW_ENTRY :=
    { old with
      uuid := pTemplate.uuid, uGroupId := pTemplate.uGroupId,
      uImageId := pTemplate.uImageId,
      pszTitle := _TcsSafeDupAlloc pTemplate.pszTitle,
      pszUserName := _TcsSafeDupAlloc pTemplate.pszUserName,
      pszURL := _TcsSafeDupAlloc pTemplate.pszURL,
      pszPassword := _TcsSafeDupAlloc pTemplate.pszPassword,
      pszAdditional := _TcsSafeDupAlloc pTemplate.pszAdditional }
  let e2 : PW_ENTRY :=
    if !bSame then
      let slen := pTemplate.uBinaryDataLen
      let data : Option (List Nat) :=
        match pTemplate.pBinaryData with
        | some d => if slen != 0 then some (readBytes d 0 slen) else none
        | none => none
      { e1 with
        pszBinaryDesc := _TcsSafeDupAlloc pTemplate.pszBinaryDesc,
        pBinaryData := data,
        uBinaryDataLen := if data.isNone then 0 else pTemplate.uBinaryDataLen }
    else e1
  let e3 : PW_ENTRY := { e2 with uPasswordLen := tcslen (e2.pszPassword.getD []) }
  let e4 := LockEntryPassword E m e3
  let e5 : PW_ENTRY :=
    { e4 with tCreation := pTemplate.tCreation, tLastMod := pTemplate.tLastMod,
              tLastAccess := pTemplate.tLastAccess, tExpire := pTemplate.tExpire }
  if e5.pszBinaryDesc.isNone then { e5 with pszBinaryDesc := _TcsSafeDupAlloc none } else e5

/-- The method `CPwManager::SetEntry` for a template that carries the
attachment pointers of the slot `m_pEntries[dwIndex]` itself (a copy of the
entry record with texts of its own): the comparison of line 835 holds. -/
def SetEntry.aliased (E : Env) (m : CPwManager) (dwIndex : Nat)
    (pTemplate : PW_ENTRY) : Bool × CPwManager :=
  match m.m_pEntries[dwIndex]? with
  | none => (false, m)
  | some old =>
    if pTemplate.uGroupId == 0 || pTemplate.uGroupId == DWORD_MAX then (false, m)
    else if pTemplate.pszTitle.isNone then (false, m)
    else if pTemplate.pszUserName.isNone then (false, m)
    else if pTemplate.pszURL.isNone then (false, m)
    else if pTemplate.pszPassword.isNone then (false, m)
    else if pTemplate.pszAdditional.isNone then (false, m)
    else (true, { m with
      m_pEntries := m.m_pEntries.set dwIndex (SetEntry.assign E m true old pTemplate) })

/-- The string `g_pNullString` as a text pointer. -/
def g_pNullString : Option (List Nat) := some []

/-- The local copy `pT` of `AddEntry`: the template with the UUID to store and
with `NULL` text pointers mapped to the zero-length string. -/
def AddEntry.pT (pTemplate : PW_ENTRY) (uuid : List Nat) : PW_ENTRY :=
  { pTemplate with
    uuid := uuid,
    pszTitle := if pTemplate.pszTitle.isNone then g_pNullString else pTemplate.pszTitle,
    pszUserName :=
      if pTemplate.pszUserName.isNone then g_pNullString else pTemplate.pszUserName,
    pszURL := if pTemplate.pszURL.isNone then g_pNullString else pTemplate.pszURL,
    pszPassword :=
      if pTemplate.pszPassword.isNone then g_pNullString else pTemplate.pszPassword,
    pszAdditional :=
      if pTemplate.pszAdditional.isNone then g_pNullString else pTemplate.pszAdditional,
    pszBinaryDesc :=
      if pTemplate.pszBinaryDesc.isNone then g_pNullString else pTemplate.pszBinaryDesc }

/-- The method `CPwManager::AddEntry` (non-`NULL` template). -/
def AddEntry (E : Env) (m : CPwManager) (r : Rand) (pTemplate : PW_ENTRY) :
    Bool × CPwManager × Rand :=
  if pTemplate.uGroupId == 0 || pTemplate.uGroupId == DWORD_MAX then (false, m, r)
  else
    let gen := if pTemplate.uuid == g_uuidZero then randCreateUUID r else (pTemplate.uuid, r)
    let m1 : CPwManager := { m with m_pEntries := m.m_pEntries ++ [PW_ENTRY.zero] }
    let res := SetEntry E m1 (m1.m_pEntries.length - 1) (AddEntry.pT pTemplate gen.1)
    (res.1, res.2, gen.2)

/-- The assignments of `SetGroup` to the slot `m_pGroups[dwIndex]`: every field
is taken from the template, the name as a copy. -/
def SetGroup.fill (pTemplate : PW_GROUP) : PW_GROUP :=
  { pszGroupName := _TcsSafeDupAlloc pTemplate.pszGroupName,
    uGroupId := pTemplate.uGroupId, uImageId := pTemplate.uImageId,
    usLevel := pTemplate.usLevel, dwFlags := pTemplate.dwFlags,
    tCreation := pTemplate.tCreation, tLastMod := pTemplate.tLastMod,
    tLastAccess := pTemplate.tLastAccess, tExpire := pTemplate.tExpire }

/-- The method `CPwManager::SetGroup`.  `dwIndex < m_dwNumGroups` is only
asserted: a write past the count does not land in the array. -/
def SetGroup (m : CPwManager) (dwIndex : Nat) (pTemplate : PW_GROUP) : Bool × CPwManager :=
  if pTemplate.uGroupId == 0 || pTemplate.uGroupId == DWORD_MAX then (false, m)
  else (true, { m with m_pGroups := m.m_pGroups.set dwIndex (SetGroup.fill pTemplate) })

/-- The rejection loop of `AddGroup`: draw `t = randXorShift()` until it is
neither 0 nor `DWORD_MAX` nor the id of a group; `none` when the generator's
outputs run out first. -/
def AddGroup.newId (groups : List PW_GROUP) : List Nat → Option (Nat × List Nat)
  | [] => none
  | x :: xs =>
    let t := x % U32
    if t == 0 || t == DWORD_MAX then AddGroup.newId groups xs
    else if groups.any (fun g => g.uGroupId == t) then AddGroup.newId groups xs
    else some (t, xs)

/-- The method `CPwManager::AddGroup` (non-`NULL` template). -/
def AddGroup (m : CPwManager) (r : Rand) (pTemplate : PW_GROUP) :
    Option (Bool × CPwManager × Rand) :=
  let drawn : Option (Nat × List Nat) :=
    if pTemplate.uGroupId == 0 || pTemplate.uGroupId == DWORD_MAX then
      AddGroup.newId m.m_pGroups r.xorShift
    else some (pTemplate.uGroupId, r.xorShift)
  match drawn with
  | none => none
  | some (t, rest) =>
    let pT : PW_GROUP := { pTemplate with uGroupId := t }
    let m1 : CPwManager := { m with m_pGroups := m.m_pGroups ++ [PW_GROUP.zero] }
    let res := SetGroup m1 (m1.m_pGroups.length - 1) pT
    some (res.1, res.2, { r with xorShift := rest })

/-- The loop of `FixGroupTree`, carrying `usLastLevel`; `(USHORT)(usLastLevel + 1)`
wraps at 16 bits. -/
def FixGroupTree.loop : Nat → List PW_GROUP → List PW_GROUP
  | _, [] => []
  | usLastLevel, g :: gs =>
    let lvl := if g.usLevel > (usLastLevel + 1) % 65536 then (usLastLevel + 1) % 65536
               else g.usLevel
    { g with usLevel := lvl } :: FixGroupTree.loop lvl gs

/-- The method `CPwManager::FixGroupTree`.  With no group the write to slot 0
stays outside the array. -/
def FixGroupTree (m : CPwManager) : CPwManager :=
  let groups0 := match m.m_pGroups with
    | [] => []
    | g :: gs => { g with usLevel := 0 } :: gs
  { m with m_pGroups := FixGroupTree.loop 0 groups0 }

/-- The `while(1)` loop of `DeleteGroupById` that removes the entries of the
group, at index `i` (`i--; i++` after a deletion leaves `i` in place). -/
def DeleteGroupById.loop (uGroupId : Nat) : Nat → Nat → List PW_ENTRY → Option (List PW_ENTRY)
  | 0, _, _ => none
  | fuel + 1, i, es =>
    let deleted := (es.getD i PW_ENTRY.zero).uGroupId == uGroupId
    let es1 := if deleted then shiftOut es i else es
    let i1 := if deleted then i else i + 1
    if i1 >= es1.length then some es1 else DeleteGroupById.loop uGroupId fuel i1 es1

/-- The method `CPwManager::DeleteGroupById`.  The group is asserted to exist;
`none` only if the entry loop did not finish within one step per entry (it
always does). -/
def DeleteGroupById (m : CPwManager) (uGroupId : Nat) : Option (Bool × CPwManager) :=
  let entries : Option (List PW_ENTRY) :=
    if m.m_pEntries.length != 0 then
      DeleteGroupById.loop uGroupId m.m_pEntries.length 0 m.m_pEntries
    else some m.m_pEntries
  match entries with
  | none => none
  | some es =>
    let m1 : CPwManager := { m with m_pEntries := es }
    let inx := m1.GetGroupByIdN uGroupId
    let m2 : CPwManager := { m1 with m_pGroups := shiftOut m1.m_pGroups inx }
    some (true, FixGroupTree m2)

/-- The scan `for(i = 0; i < dwEntryCount; i++)` of `DeleteLostEntries`: the
first index whose entry has no group. -/
def DeleteLostEntries.scan (m : CPwManager) : Nat → List PW_ENTRY → Option Nat
  | _, [] => none
  | i, pe :: rest =>
    if (m.GetGroupById pe.uGroupId).isNone then some i
    else DeleteLostEntries.scan m (i + 1) rest

/-- The loop `while(bFixed == TRUE)` of `DeleteLostEntries`, carrying
`iDeletedCount`. -/
def DeleteLostEntries.loop : Nat → CPwManager → Nat → Option (Nat × CPwManager)
  | 0, _, _ => none
  | fuel + 1, m, iDeletedCount =>
    match DeleteLostEntries.scan m 0 m.m_pEntries with
    | none => some (iDeletedCount, m)
    | some i => DeleteLostEntries.loop fuel (m.DeleteEntry i).2 (iDeletedCount + 1)

/-- The method `CPwManager::DeleteLostEntries`; the result is the returned
count and the database.  `none` only if the loop did not finish within the
entry count plus one rounds (it always does). -/
def DeleteLostEntries (m : CPwManager) : Option (Nat × CPwManager) :=
  if m.GetNumberOfEntries == 0 then some (0, m)
  else DeleteLostEntries.loop (m.GetNumberOfEntries + 1) m 0

/-- The method `CPwManager::SubstEntryGroupIds`. -/
def SubstEntryGroupIds (m : CPwManager) (dwExistingId dwNewId : Nat) : CPwManager :=
  if dwExistingId == dwNewId then m
  else
    { m with m_pEntries := m.m_pEntries.map (fun e =>
        if e.uGroupId == dwExistingId then { e with uGroupId := dwNewId } else e) }

end CPwManager

/-! ## String comparison -/

/-- ASCII `tolower`, as the C runtime applies it in `_tcsicmp`. -/
def tolower (c : Nat) : Nat := if 65 ≤ c ∧ c ≤ 90 then c + 32 else c

/-- Lexicographic comparison of two character sequences: negative, zero or
positive like `strcmp`. -/
def compareChars : List Nat → List Nat → Int
  | [], [] => 0
  | [], b :: _ => -(b : Int)
  | a :: _, [] => (a : Int)
  | a :: as, b :: bs => if a = b then compareChars as bs else (a : Int) - (b : Int)

/-- The function `_tcscmp` on two buffers. -/
def _tcscmp (a b : List Nat) : Int := compareChars (cstr a) (cstr b)

/-- The function `_tcsicmp` on two buffers. -/
def _tcsicmp (a b : List Nat) : Int :=
  compareChars ((cstr a).map tolower) ((cstr b).map tolower)

/-! ## Constants of PwManager.h -/

/-- Modelled from the spec: `PMS_ID_BINDESC`. -/
def PMS_ID_BINDESC : List Nat := tstr "bin-stream"
/-- Modelled from the spec: `PMS_ID_TITLE`. -/
def PMS_ID_TITLE : List Nat := tstr "Meta-Info"
/-- Modelled from the spec: `PMS_ID_USER`. -/
def PMS_ID_USER : List Nat := tstr "SYSTEM"
/-- Modelled from the spec: `PMS_ID_URL`. -/
def PMS_ID_URL : List Nat := tstr "$"
/-- Modelled from the spec: `PMS_STREAM_SIMPLESTATE`. -/
def PMS_STREAM_SIMPLESTATE : List Nat := tstr "Simple UI State"
/-- Modelled from the spec: `PMS_STREAM_KPXICON2`. -/
def PMS_STREAM_KPXICON2 : List Nat := tstr "KPX_CUSTOM_ICONS_2"
/-- Modelled from the spec: `PWS_BACKUPGROUP`. -/
def PWS_BACKUPGROUP : List Nat := tstr "Backup"
/-- Modelled from the spec: `PWM_DBSIG_1`. -/
def PWM_DBSIG_1 : Nat := 0x9AA2D903
/-- Modelled from the spec: `PWM_DBSIG_2`. -/
def PWM_DBSIG_2 : Nat := 0xB54BFB65
/-- Modelled from the spec: `PWM_DBVER_DW`. -/
def PWM_DBVER_DW : Nat := 0x00030003
/-- Modelled from the spec: `PWM_FLAG_SHA2`. -/
def PWM_FLAG_SHA2 : Nat := 1
/-- Modelled from the spec: `PWM_FLAG_RIJNDAEL`. -/
def PWM_FLAG_RIJNDAEL : Nat := 2
/-- Modelled from the spec: `PWM_FLAG_TWOFISH`. -/
def PWM_FLAG_TWOFISH : Nat := 8
/-- The enumerator `ALGO_AES`. -/
def ALGO_AES : Nat := 0
/-- The enumerator `ALGO_TWOFISH`. -/
def ALGO_TWOFISH : Nat := 1
/-- The size `sizeof(PW_DBHEADER)`. -/
def sizeofHeader : Nat := 124

namespace CPwManager

/-- The loop of `GetGroupId`; a group name is never `NULL` in the array. -/
def GetGroupId.loop (pszGroupName : List Nat) : List PW_GROUP → Nat
  | [] => DWORD_MAX
  | g :: gs =>
    if _tcsicmp (g.pszGroupName.getD []) pszGroupName == 0 then g.uGroupId
    else GetGroupId.loop pszGroupName gs

/-- The method `CPwManager::GetGroupId` (non-`NULL` name). -/
def GetGroupId (m : CPwManager) (pszGroupName : List Nat) : Nat :=
  GetGroupId.loop pszGroupName m.m_pGroups

/-- Exchange of the array elements at `i` and `j`. -/
def swapAt {α : Type} (a : List α) (i j : Nat) : List α :=
  match a[i]?, a[j]? with
  | some x, some y => (a.set i y).set j x
  | _, _ => a

/-- The walk of `MoveGroup` / `MoveInternal` with `dir = 1`: `k` exchanges of
`i` and `i + 1`, `i` advancing. -/
def moveUp {α : Type} : Nat → Nat → List α → List α
  | 0, _, a => a
  | k + 1, i, a => moveUp k (i + 1) (swapAt a i (i + 1))

/-- The walk with `dir = -1`: `k` exchanges of `i` and `i - 1`, `i` retreating. -/
def moveDown {α : Type} : Nat → Nat → List α → List α
  | 0, _, a => a
  | k + 1, i, a => moveDown k (i - 1) (swapAt a i (i - 1))

/-- The method `CPwManager::MoveGroup`. -/
def MoveGroup (m : CPwManager) (dwFrom dwTo : Nat) : Bool × CPwManager :=
  if dwFrom == dwTo then (true, m)
  else if dwFrom >= m.m_pGroups.length then (false, m)
  else if dwTo >= m.m_pGroups.length then (false, m)
  else
    let groups := if dwFrom < dwTo then moveUp (dwTo - dwFrom) dwFrom m.m_pGroups
                  else moveDown (dwFrom - dwTo) dwFrom m.m_pGroups
    (true, FixGroupTree { m with m_pGroups := groups })

/-- The method `CPwManager::_IsMetaStream` (non-`NULL` entry). -/
def _IsMetaStream (p : PW_ENTRY) : Bool :=
  if p.pBinaryData.isNone then false
  else if p.pszAdditional.isNone then false
  else match p.pszBinaryDesc with
    | none => false
    | some desc =>
      if _tcscmp desc PMS_ID_BINDESC != 0 then false
      else match p.pszTitle with
        | none => false
        | some title =>
          if _tcscmp title PMS_ID_TITLE != 0 then false
          else match p.pszUserName with
            | none => false
            | some user =>
              if _tcscmp user PMS_ID_USER != 0 then false
              else match p.pszURL with
                | none => false
                | some url =>
                  if _tcscmp url PMS_ID_URL != 0 then false
                  else if p.uImageId != 0 then false
                  else true

/-- The method `CPwManager::_AddMetaStream`; `pData` may be `NULL`. -/
def _AddMetaStream (E : Env) (m : CPwManager) (r : Rand) (lpMetaDataDesc : List Nat)
    (pData : Option (List Nat)) (dwLength : Nat) : Bool × CPwManager × Rand :=
  if pData.isNone then (false, m, r)
  else if dwLength == 0 then (true, m, r)
  else match m.m_pGroups with
    | [] => (false, m, r)
    | g0 :: _ =>
      let pe : PW_ENTRY :=
        { PW_ENTRY.zero with
          uGroupId := g0.uGroupId,
          pBinaryData := pData, pszAdditional := some lpMetaDataDesc,
          pszBinaryDesc := some PMS_ID_BINDESC, pszPassword := some [],
          pszTitle := some PMS_ID_TITLE, pszURL := some PMS_ID_URL,
          pszUserName := some PMS_ID_USER,
          tCreation := g_pwTimeNever, tExpire := g_pwTimeNever,
          tLastAccess := g_pwTimeNever, tLastMod := g_pwTimeNever,
          uBinaryDataLen := dwLength }
      AddEntry E m r pe

/-- The bytes of the record `PMS_SIMPLE_UI_STATE` (two `DWORD`s, two UUIDs). -/
def simpleUiStateBytes (m : CPwManager) : List Nat :=
  leBytes 4 m.m_dwLastSelectedGroupId ++ leBytes 4 m.m_dwLastTopVisibleGroupId
    ++ readBytes m.m_aLastSelectedEntryUuid 0 16 ++ readBytes m.m_aLastTopVisibleEntryUuid 0 16

/-- The loop of `_AddAllMetaStreams` over the unknown streams; `&it->vData[0]`
of an empty vector is `NULL`. -/
def _AddAllMetaStreams.loop (E : Env) :
    List PWDB_META_STREAM → Bool → CPwManager → Rand → Bool × CPwManager × Rand
  | [], b, m, r => (b, m, r)
  | it :: rest, b, m, r =>
    let res := _AddMetaStream E m r it.strName
      (if it.vData.isEmpty then none else some it.vData) it.vData.length
    _AddAllMetaStreams.loop E rest (b && res.1) res.2.1 res.2.2

/-- The method `CPwManager::_AddAllMetaStreams`. -/
def _AddAllMetaStreams (E : Env) (m : CPwManager) (r : Rand) : Bool × CPwManager × Rand :=
  let res := _AddMetaStream E m r PMS_STREAM_SIMPLESTATE (some (simpleUiStateBytes m)) 40
  _AddAllMetaStreams.loop E m.m_vUnknownMetaStreams res.1 res.2.1 res.2.2

/-- The method `CPwManager::_CanIgnoreUnknownMetaStream`. -/
def _CanIgnoreUnknownMetaStream (m : CPwManager) (msUnknown : PWDB_META_STREAM) : Bool :=
  match m.m_vUnknownMetaStreams.getLast? with
  | none => false
  | some pLastMs =>
    if msUnknown.strName != PMS_STREAM_KPXICON2 then false
    else if msUnknown.vData.length != pLastMs.vData.length then false
    else if msUnknown.vData != pLastMs.vData then false
    else true

/-- The method `CPwManager::_ParseMetaStream` on an entry that is a meta-stream. -/
def _ParseMetaStream (m : CPwManager) (p : PW_ENTRY) (bAcceptUnknown : Bool) : CPwManager :=
  let data := p.pBinaryData.getD []
  if _tcscmp (p.pszAdditional.getD []) PMS_STREAM_SIMPLESTATE == 0 then
    let m1 := if p.uBinaryDataLen >= 4 then
      { m with m_dwLastSelectedGroupId := leValue (readBytes data 0 4) } else m
    let m2 := if p.uBinaryDataLen >= 8 then
      { m1 with m_dwLastTopVisibleGroupId := leValue (readBytes data 4 4) } else m1
    let m3 := if p.uBinaryDataLen >= 24 then
      { m2 with m_aLastSelectedEntryUuid := readBytes data 8 16 } else m2
    let m4 := if p.uBinaryDataLen >= 40 then
      { m3 with m_aLastTopVisibleEntryUuid := readBytes data 24 16 } else m3
    m4
  else if bAcceptUnknown then
    let msUnknown : PWDB_META_STREAM :=
      { strName := cstr (p.pszAdditional.getD []), vData := readBytes data 0 p.uBinaryDataLen }
    if _CanIgnoreUnknownMetaStream m msUnknown == false then
      { m with m_vUnknownMetaStreams := m.m_vUnknownMetaStreams ++ [msUnknown] }
    else m
  else m

/-- The inner `while(1)` of `_LoadAndRemoveAllMetaStreams`: walking down from
the last entry, the first index that holds a meta-stream.  The list is the
array in reverse and `i` the index of its head. -/
def _LoadAndRemoveAllMetaStreams.scan : Nat → List PW_ENTRY → Option (Nat × PW_ENTRY)
  | _, [] => none
  | i, p :: rest =>
    if _IsMetaStream p == true then some (i, p)
    else _LoadAndRemoveAllMetaStreams.scan (i - 1) rest

/-- The loop `while(bChange == TRUE)` of `_LoadAndRemoveAllMetaStreams`,
carrying `dwMetaStreamCount`. -/
def _LoadAndRemoveAllMetaStreams.loop (bAcceptUnknown : Bool) :
    Nat → CPwManager → Nat → Option (Nat × CPwManager)
  | 0, _, _ => none
  | fuel + 1, m, dwMetaStreamCount =>
    let dwEntryCount := m.GetNumberOfEntries
    if dwEntryCount == 0 then some (dwMetaStreamCount, m)
    else
      match _LoadAndRemoveAllMetaStreams.scan (dwEntryCount - 1) m.m_pEntries.reverse with
      | none => some (dwMetaStreamCount, m)
      | some (i, p) =>
        let m1 := _ParseMetaStream m p bAcceptUnknown
        _LoadAndRemoveAllMetaStreams.loop bAcceptUnknown fuel (m1.DeleteEntry i).2
          (dwMetaStreamCount + 1)

/-- The method `CPwManager::_LoadAndRemoveAllMetaStreams`; the result is the
returned count and the database.  `none` only if the loop did not finish
within the entry count plus one rounds (it always does). -/
def _LoadAndRemoveAllMetaStreams (m : CPwManager) (bAcceptUnknown : Bool) :
    Option (Nat × CPwManager) :=
  if m.GetNumberOfEntries == 0 then some (0, m)
  else if m.GetNumberOfGroups == 0 then some (0, m)
  else _LoadAndRemoveAllMetaStreams.loop bAcceptUnknown (m.GetNumberOfEntries + 1) m 0

/-- The method `CPwManager::NewDatabase`. -/
def NewDatabase (m : CPwManager) : CPwManager :=
  { m with m_pEntries := [], m_pGroups := [], m_vUnknownMetaStreams := [] }

/-! ## Key transformation and the file header -/

/-- The rounds loop of `_TransformMasterKey`. -/
def _TransformMasterKey.rounds (E : Env) (pKeySeed : List Nat) : Nat → List Nat → List Nat
  | 0, key => key
  | n + 1, key => _TransformMasterKey.rounds E pKeySeed n (E.rijndaelBlockEncrypt pKeySeed key)

/-- The test key `aKey[i] = i` of the known-answer test. -/
def _TransformMasterKey.aKey : List Nat := List.range 32

/-- The test block `aTest[i] = (i << 4) | i`. -/
def _TransformMasterKey.aTest : List Nat := (List.range 16).map (fun i => (i * 16 + i) % 256)

/-- The expected ciphertext `aRef`. -/
def _TransformMasterKey.aRef : List Nat :=
  [0x8e, 0xa2, 0xb7, 0xca, 0x51, 0x67, 0x45, 0xbf, 0xea, 0xfc, 0x49, 0x90, 0x4b, 0x49, 0x60, 0x89]

/-- The method `CPwManager::_TransformMasterKey` (non-`NULL` seed). -/
def _TransformMasterKey (E : Env) (m : CPwManager) (pKeySeed : List Nat) : Bool × CPwManager :=
  if !E.rijndaelInitECB pKeySeed then (false, m)
  else
    let key := _TransformMasterKey.rounds E pKeySeed m.m_dwKeyEncRounds
      (readBytes m.m_pMasterKey 0 32)
    let m1 : CPwManager := { m with m_pTransformedMasterKey := key }
    if !E.rijndaelInitECB _TransformMasterKey.aKey then (false, m1)
    else if E.rijndaelBlockEncrypt _TransformMasterKey.aKey _TransformMasterKey.aTest
        != _TransformMasterKey.aRef then (false, m1)
    else (true, { m1 with m_pTransformedMasterKey := E.sha256 key })

end CPwManager

/-- The 124 bytes of a header in memory (`memcpy(pVirtualFile, &hdr, …)`). -/
def PW_DBHEADER.toBytes (hdr : PW_DBHEADER) : List Nat :=
  leBytes 4 hdr.dwSignature1 ++ leBytes 4 hdr.dwSignature2 ++ leBytes 4 hdr.dwFlags
    ++ leBytes 4 hdr.dwVersion ++ readBytes hdr.aMasterSeed 0 16
    ++ readBytes hdr.aEncryptionIV 0 16 ++ leBytes 4 hdr.dwGroups ++ leBytes 4 hdr.dwEntries
    ++ readBytes hdr.aContentsHash 0 32 ++ readBytes hdr.aMasterSeed2 0 32
    ++ leBytes 4 hdr.dwKeyEncRounds

/-- The header read from the start of a buffer (`memcpy(&hdr, pVirtualFile, …)`). -/
def PW_DBHEADER.ofBytes (buf : List Nat) : PW_DBHEADER :=
  { dwSignature1 := leValue (readBytes buf 0 4),
    dwSignature2 := leValue (readBytes buf 4 4),
    dwFlags := leValue (readBytes buf 8 4),
    dwVersion := leValue (readBytes buf 12 4),
    aMasterSeed := readBytes buf 16 16,
    aEncryptionIV := readBytes buf 32 16,
    dwGroups := leValue (readBytes buf 48 4),
    dwEntries := leValue (readBytes buf 52 4),
    aContentsHash := readBytes buf 56 32,
    aMasterSeed2 := readBytes buf 88 32,
    dwKeyEncRounds := leValue (readBytes buf 120 4) }

/-! ## The TLV codec -/

/-- One field as the save loops write it: `u16` type, `u32` size, payload. -/
def tlvField (usFieldType : Nat) (payload : List Nat) : List Nat :=
  leBytes 2 usFieldType ++ leBytes 4 payload.length ++ payload

/-- The bytes `szcpy` writes for a text field: the UTF-8 string and its `NUL`. -/
def utf8Field (E : Env) (psz : Option (List Nat)) : List Nat :=
  cstr (E.StringToUTF8 (cstr (psz.getD []))) ++ [0]

/-- The body of the group loop of `SaveDatabase`: the record of one group. -/
def writeGroup (E : Env) (g : PW_GROUP) : List Nat :=
  tlvField 0x0001 (leBytes 4 g.uGroupId)
    ++ tlvField 0x0002 (utf8Field E g.pszGroupName)
    ++ tlvField 0x0003 (PwTimeToTime g.tCreation)
    ++ tlvField 0x0004 (PwTimeToTime g.tLastMod)
    ++ tlvField 0x0005 (PwTimeToTime g.tLastAccess)
    ++ tlvField 0x0006 (PwTimeToTime g.tExpire)
    ++ tlvField 0x0007 (leBytes 4 g.uImageId)
    ++ tlvField 0x0008 (leBytes 2 g.usLevel)
    ++ tlvField 0x0009 (leBytes 4 g.dwFlags)
    ++ tlvField 0xFFFF []

/-- The binary field `0x000E`: the declared size, then that many bytes when the
pointer is not `NULL` and the size is not zero (else the buffer is left as
allocated, read as zero). -/
def writeBinaryField (e : PW_ENTRY) : List Nat :=
  leBytes 2 0x000E ++ leBytes 4 e.uBinaryDataLen ++
    (match e.pBinaryData with
     | some d => if e.uBinaryDataLen != 0 then readBytes d 0 e.uBinaryDataLen
                 else List.replicate e.uBinaryDataLen 0
     | none => List.replicate e.uBinaryDataLen 0)

/-- The body of the entry loop of `SaveDatabase` between `UnlockEntryPassword`
and `LockEntryPassword`: the record of one entry whose password is unlocked. -/
def writeEntry (E : Env) (e : PW_ENTRY) : List Nat :=
  tlvField 0x0001 (readBytes e.uuid 0 16)
    ++ tlvField 0x0002 (leBytes 4 e.uGroupId)
    ++ tlvField 0x0003 (leBytes 4 e.uImageId)
    ++ tlvField 0x0004 (utf8Field E e.pszTitle)
    ++ tlvField 0x0005 (utf8Field E e.pszURL)
    ++ tlvField 0x0006 (utf8Field E e.pszUserName)
    ++ tlvField 0x0007 (utf8Field E e.pszPassword)
    ++ tlvField 0x0008 (utf8Field E e.pszAdditional)
    ++ tlvField 0x0009 (PwTimeToTime e.tCreation)
    ++ tlvField 0x000A (PwTimeToTime e.tLastMod)
    ++ tlvField 0x000B (PwTimeToTime e.tLastAccess)
    ++ tlvField 0x000C (PwTimeToTime e.tExpire)
    ++ tlvField 0x000D (utf8Field E e.pszBinaryDesc)
    ++ writeBinaryField e
    ++ tlvField 0xFFFF []

/-- The template reset `RESET_TIME_FIELD_NORMAL`. -/
def RESET_TIME_FIELD_NORMAL : PW_TIME := ⟨2004, 1, 1, 0, 0, 0⟩

/-- The template reset `RESET_TIME_FIELD_EXPIRE`. -/
def RESET_TIME_FIELD_EXPIRE : PW_TIME := ⟨4092, 12, 28, 23, 59, 59⟩

/-- The template after `RESET_PWG_TEMPLATE`. -/
def RESET_PWG_TEMPLATE : PW_GROUP :=
  { PW_GROUP.zero with
    tCreation := RESET_TIME_FIELD_NORMAL, tLastMod := RESET_TIME_FIELD_NORMAL,
    tLastAccess := RESET_TIME_FIELD_NORMAL, tExpire := RESET_TIME_FIELD_EXPIRE }

/-- The template after `RESET_PWE_TEMPLATE`. -/
def RESET_PWE_TEMPLATE : PW_ENTRY :=
  { PW_ENTRY.zero with
    tCreation := RESET_TIME_FIELD_NORMAL, tLastMod := RESET_TIME_FIELD_NORMAL,
    tLastAccess := RESET_TIME_FIELD_NORMAL, tExpire := RESET_TIME_FIELD_EXPIRE }

/-- The function `_UTF8ToString` on the C string at a pointer. -/
def _UTF8ToString (E : Env) (pData : List Nat) : Option (List Nat) :=
  some (E.UTF8ToString (cstr pData))

namespace CPwManager

/-- The method `CPwManager::ReadGroupField`.  `pData` is the memory from the
field's payload on.  The result is the returned flag, the database, the random
source and the template. -/
def ReadGroupField (E : Env) (m : CPwManager) (r : Rand) (usFieldType : Nat)
    (pData : List Nat) (pGroup : PW_GROUP) : Option (Bool × CPwManager × Rand × PW_GROUP) :=
  if usFieldType == 0x0000 then some (true, m, r, pGroup)
  else if usFieldType == 0x0001 then
    some (true, m, r, { pGroup with uGroupId := leValue (readBytes pData 0 4) })
  else if usFieldType == 0x0002 then
    some (true, m, r, { pGroup with pszGroupName := _UTF8ToString E pData })
  else if usFieldType == 0x0003 then
    some (true, m, r, { pGroup with tCreation := TimeToPwTime (readBytes pData 0 5) })
  else if usFieldType == 0x0004 then
    some (true, m, r, { pGroup with tLastMod := TimeToPwTime (readBytes pData 0 5) })
  else if usFieldType == 0x0005 then
    some (true, m, r, { pGroup with tLastAccess := TimeToPwTime (readBytes pData 0 5) })
  else if usFieldType == 0x0006 then
    some (true, m, r, { pGroup with tExpire := TimeToPwTime (readBytes pData 0 5) })
  else if usFieldType == 0x0007 then
    some (true, m, r, { pGroup with uImageId := leValue (readBytes pData 0 4) })
  else if usFieldType == 0x0008 then
    some (true, m, r, { pGroup with usLevel := leValue (readBytes pData 0 2) })
  else if usFieldType == 0x0009 then
    some (true, m, r, { pGroup with dwFlags := leValue (readBytes pData 0 4) })
  else if usFieldType == 0xFFFF then
    match m.AddGroup r pGroup with
    | none => none
    | some res => some (true, res.2.1, res.2.2, RESET_PWG_TEMPLATE)
  else some (false, m, r, pGroup)

/-- The method `CPwManager::ReadEntryField`. -/
def ReadEntryField (E : Env) (m : CPwManager) (r : Rand) (usFieldType dwFieldSize : Nat)
    (pData : List Nat) (pEntry : PW_ENTRY) : Bool × CPwManager × Rand × PW_ENTRY :=
  if usFieldType == 0x0000 then (true, m, r, pEntry)
  else if usFieldType == 0x0001 then (true, m, r, { pEntry with uuid := readBytes pData 0 16 })
  else if usFieldType == 0x0002 then
    (true, m, r, { pEntry with uGroupId := leValue (readBytes pData 0 4) })
  else if usFieldType == 0x0003 then
    (true, m, r, { pEntry with uImageId := leValue (readBytes pData 0 4) })
  else if usFieldType == 0x0004 then
    (true, m, r, { pEntry with pszTitle := _UTF8ToString E pData })
  else if usFieldType == 0x0005 then
    (true, m, r, { pEntry with pszURL := _UTF8ToString E pData })
  else if usFieldType == 0x0006 then
    (true, m, r, { pEntry with pszUserName := _UTF8ToString E pData })
  else if usFieldType == 0x0007 then
    (true, m, r, { pEntry with pszPassword := _UTF8ToString E pData })
  else if usFieldType == 0x0008 then
    (true, m, r, { pEntry with pszAdditional := _UTF8ToString E pData })
  else if usFieldType == 0x0009 then
    (true, m, r, { pEntry with tCreation := TimeToPwTime (readBytes pData 0 5) })
  else if usFieldType == 0x000A then
    (true, m, r, { pEntry with tLastMod := TimeToPwTime (readBytes pData 0 5) })
  else if usFieldType == 0x000B then
    (true, m, r, { pEntry with tLastAccess := TimeToPwTime (readBytes pData 0 5) })
  else if usFieldType == 0x000C then
    (true, m, r, { pEntry with tExpire := TimeToPwTime (readBytes pData 0 5) })
  else if usFieldType == 0x000D then
    (true, m, r, { pEntry with pszBinaryDesc := _UTF8ToString E pData })
  else if usFieldType == 0x000E then
    if dwFieldSize != 0 then
      (true, m, r, { pEntry with pBinaryData := some (readBytes pData 0 dwFieldSize),
                                 uBinaryDataLen := dwFieldSize })
    else (true, m, r, { pEntry with pBinaryData := none })
  else if usFieldType == 0xFFFF then
    let res := m.AddEntry E r pEntry
    (true, res.2.1, res.2.2, RESET_PWE_TEMPLATE)
  else (false, m, r, pEntry)

/-! ## Saving -/

/-- The macro `_OPENDB_FAIL_LIGHT` (the memory file is released). -/
def _OPENDB_FAIL_LIGHT (E : Env) (m : CPwManager) : CPwManager :=
  { m with m_dwKeyEncRounds := E.PWM_STD_KEYENCROUNDS }

/-- The size a group adds in the sizing loop of `SaveDatabase`. -/
def SaveDatabase.groupSize (E : Env) (g : PW_GROUP) : Nat :=
  94 + (tcslen (E.StringToUTF8 (cstr (g.pszGroupName.getD []))) + 1)

/-- The size an (unlocked) entry adds in the sizing loop of `SaveDatabase`. -/
def SaveDatabase.entrySize (E : Env) (e : PW_ENTRY) : Nat :=
  134 + (tcslen (E.StringToUTF8 (cstr (e.pszTitle.getD []))) + 1)
    + (tcslen (E.StringToUTF8 (cstr (e.pszUserName.getD []))) + 1)
    + (tcslen (E.StringToUTF8 (cstr (e.pszURL.getD []))) + 1)
    + (tcslen (E.StringToUTF8 (cstr (e.pszPassword.getD []))) + 1)
    + (tcslen (E.StringToUTF8 (cstr (e.pszAdditional.getD []))) + 1)
    + (tcslen (E.StringToUTF8 (cstr (e.pszBinaryDesc.getD []))) + 1)
    + e.uBinaryDataLen

/-- The cleartext the two store loops of `SaveDatabase` write after the header:
every group record, then every entry record with the password unlocked. -/
def SaveDatabase.payload (E : Env) (m : CPwManager) : List Nat :=
  (m.m_pGroups.map (writeGroup E)).flatten
    ++ (m.m_pEntries.map (fun e => writeEntry E (m.UnlockEntryPassword E e))).flatten

/-- What a loop of `SaveDatabase` leaves in the entry array: every password
unlocked and locked again. -/
def SaveDatabase.relock (E : Env) (m : CPwManager) : CPwManager :=
  { m with m_pEntries := m.m_pEntries.map (fun e =>
      m.LockEntryPassword E (m.UnlockEntryPassword E e)) }

/-- The start of `SaveDatabase`: the meta-streams are added and the sizing loop
runs, which unlocks and locks every password.  The result is the database and
the random source. -/
def SaveDatabase.prepared (E : Env) (m : CPwManager) (r : Rand) : CPwManager × Rand :=
  let added := m._AddAllMetaStreams E r
  (SaveDatabase.relock E added.2.1, added.2.2)

/-- The header `SaveDatabase` builds for the database `m2` it has prepared:
fresh seeds and IV, the counts, the hash of the cleartext, the rounds.  The
result is the header and the random source. -/
def SaveDatabase.header (E : Env) (m2 : CPwManager) (r1 : Rand) : PW_DBHEADER × Rand :=
  let dwFlags := if m2.m_nAlgorithm == ALGO_AES then PWM_FLAG_SHA2 ||| PWM_FLAG_RIJNDAEL
                 else PWM_FLAG_SHA2 ||| PWM_FLAG_TWOFISH
  let seed := GetRandomBuffer r1 16
  let iv := GetRandomBuffer seed.2 16
  let seed2 := GetRandomBuffer iv.2 32
  let payload := SaveDatabase.payload E m2
  let m3 := SaveDatabase.relock E m2
  ({ dwSignature1 := PWM_DBSIG_1, dwSignature2 := PWM_DBSIG_2, dwFlags := dwFlags,
     dwVersion := PWM_DBVER_DW, aMasterSeed := seed.1, aEncryptionIV := iv.1,
     dwGroups := m3.m_pGroups.length, dwEntries := m3.m_pEntries.length,
     aContentsHash := E.sha256 payload, aMasterSeed2 := seed2.1,
     dwKeyEncRounds := m3.m_dwKeyEncRounds }, seed2.2)

/-- The final key of `SaveDatabase`: the digest of the master seed and the
transformed master key. -/
def SaveDatabase.finalKey (E : Env) (m4 : CPwManager) (hdr : PW_DBHEADER) : List Nat :=
  E.sha256 (readBytes hdr.aMasterSeed 0 16 ++ readBytes m4.m_pTransformedMasterKey 0 32)

/-- The call `PadEncrypt` of `SaveDatabase` on the cleartext `payload`. -/
def SaveDatabase.encrypt (E : Env) (m4 : CPwManager) (hdr : PW_DBHEADER)
    (payload : List Nat) : List Nat × Nat :=
  if m4.m_nAlgorithm == ALGO_AES
  then E.rijndaelPadEncrypt (SaveDatabase.finalKey E m4 hdr) hdr.aEncryptionIV payload
  else E.twofishPadEncrypt (SaveDatabase.finalKey E m4 hdr) hdr.aEncryptionIV payload

/-- The method `CPwManager::SaveDatabase`; `pszFile` may be `NULL`.  The result
is the returned code, the database, the random source and what has been
written to the file (`none` when it was not opened).  `none` only if a
meta-stream loop did not finish (it always does). -/
def SaveDatabase (E : Env) (m : CPwManager) (r : Rand) (pszFile : Option (List Nat)) :
    Option (PWE × CPwManager × Rand × Option (List Nat)) :=
  match pszFile with
  | none => some (PWE.INVALID_PARAM, m, r, none)
  | some path =>
    if tcslen path == 0 then some (PWE.INVALID_PARAM, m, r, none)
    else
      let added := m._AddAllMetaStreams E r
      let m1 := added.2.1
      let uFileSize0 := (sizeofHeader + (m1.m_pGroups.map (SaveDatabase.groupSize E)).sum
        + (m1.m_pEntries.map (fun e =>
            SaveDatabase.entrySize E (m1.UnlockEntryPassword E e))).sum) % U32
      let m2 := (SaveDatabase.prepared E m r).1
      let r1 := (SaveDatabase.prepared E m r).2
      let uFileSize := ((uFileSize0 + 16) % U32 + U32 - uFileSize0 % 16) % U32
      let uAllocated := (uFileSize + 16) % U32
      if !E.allocOk uAllocated then
        (m2._LoadAndRemoveAllMetaStreams false).map (fun x => (PWE.NO_MEM, x.2, r1, none))
      else if m2.m_nAlgorithm != ALGO_AES && m2.m_nAlgorithm != ALGO_TWOFISH then
        (m2._LoadAndRemoveAllMetaStreams false).map (fun x => (PWE.INVALID_PARAM, x.2, r1, none))
      else
        let hdr := (SaveDatabase.header E m2 r1).1
        let r2 := (SaveDatabase.header E m2 r1).2
        let payload := SaveDatabase.payload E m2
        let m3 := SaveDatabase.relock E m2
        let tr := m3._TransformMasterKey E hdr.aMasterSeed2
        let m4 := tr.2
        if !tr.1 then
          (m4._LoadAndRemoveAllMetaStreams false).map (fun x => (PWE.CRYPT_ERROR, x.2, r2, none))
        else
          let uFinalKey := SaveDatabase.finalKey E m4 hdr
          if m4.m_nAlgorithm == ALGO_AES && !E.rijndaelInitCBC true uFinalKey hdr.aEncryptionIV then
            some (PWE.CRYPT_ERROR, m4, r2, none)
          else if m4.m_nAlgorithm != ALGO_AES && m4.m_nAlgorithm == ALGO_TWOFISH
              && !E.twofishInit uFinalKey hdr.aEncryptionIV then
            (m4._LoadAndRemoveAllMetaStreams false).map
              (fun x => (PWE.CRYPT_ERROR, x.2, r2, none))
          else if m4.m_nAlgorithm != ALGO_AES && m4.m_nAlgorithm != ALGO_TWOFISH then
            ((_OPENDB_FAIL_LIGHT E m4)._LoadAndRemoveAllMetaStreams false).map
              (fun x => (PWE.INVALID_PARAM, x.2, r2, none))
          else
            let enc := SaveDatabase.encrypt E m4 hdr payload
            let uEncryptedPartSize := enc.2 % U32
            if uEncryptedPartSize > 2147483446
                || (uEncryptedPartSize == 0 && m4.GetNumberOfGroups != 0) then
              (m4._LoadAndRemoveAllMetaStreams false).map
                (fun x => (PWE.CRYPT_ERROR, x.2, r2, none))
            else if !E.fileOpenWrite path then
              (m4._LoadAndRemoveAllMetaStreams false).map
                (fun x => (PWE.NOFILEACCESS_WRITE, x.2, r2, none))
            else
              let image := hdr.toBytes ++ readBytes enc.1 0 uEncryptedPartSize
              let written := E.fileWritten path image
              if written != uEncryptedPartSize + sizeofHeader then
                (m4._LoadAndRemoveAllMetaStreams false).map
                  (fun x => (PWE.FILEERROR_WRITE, x.2, r2, some (image.take written)))
              else
                let m5 : CPwManager := { m4 with m_dbLastHeader := hdr }
                (m5._LoadAndRemoveAllMetaStreams false).map
                  (fun x => (PWE.SUCCESS, x.2, r2, some image))

/-! ## Loading -/

end CPwManager

/-- The record `PWDB_REPAIR_INFO`. -/
structure PWDB_REPAIR_INFO where
  dwOriginalGroupCount : Nat
  dwOriginalEntryCount : Nat
  dwRecognizedMetaStreamCount : Nat
deriving DecidableEq, Repr

/-- How a parsing loop of `OpenDatabase` ends: with `_OPENDB_FAIL`, or with
the loop condition false at position `pos`. -/
inductive LoopEnd where
  | fail (m : CPwManager) (r : Rand)
  | done (pos : Nat) (m : CPwManager) (r : Rand)

namespace CPwManager

/-- The group loop of `OpenDatabase`.  `buf` is the memory file, read as zero
past its end; `pos` and the size comparisons are `unsigned long` (32 bits);
the pointer `p` is an offset into the memory file.  One unit of fuel per
field; `none` when the fuel or the random source runs out. -/
def OpenDatabase.groupLoop (E : Env) (bRepair : Bool) (buf : List Nat)
    (uFileSize dwGroups : Nat) :
    Nat → Nat → Nat → CPwManager → Rand → PW_GROUP → Option LoopEnd
  | 0, _, _, _, _, _ => none
  | fuel + 1, uCurGroup, pos, m, r, pwGroupTemplate =>
    if !(uCurGroup < dwGroups) then some (LoopEnd.done pos m r)
    else if bRepair && E.IsBadReadPtr pos 2 then some (LoopEnd.fail m r)
    else
      let usFieldType := leValue (readBytes buf pos 2)
      let pos1 := (pos + 2) % U32
      if pos1 >= uFileSize then some (LoopEnd.fail m r)
      else if bRepair && E.IsBadReadPtr (pos + 2) 4 then some (LoopEnd.fail m r)
      else
        let dwFieldSize := leValue (readBytes buf (pos + 2) 4)
        let pos2 := (pos1 + 4) % U32
        if pos2 >= (uFileSize + dwFieldSize) % U32 then some (LoopEnd.fail m r)
        else if bRepair && E.IsBadReadPtr (pos + 6) dwFieldSize then some (LoopEnd.fail m r)
        else
          match m.ReadGroupField E r usFieldType (buf.drop (pos + 6)) pwGroupTemplate with
          | none => none
          | some res =>
            let uCurGroup1 := if usFieldType == 0xFFFF && res.1 then uCurGroup + 1 else uCurGroup
            if pos + 6 + dwFieldSize < sizeofHeader then some (LoopEnd.fail res.2.1 res.2.2.1)
            else
              let pos3 := (pos2 + dwFieldSize) % U32
              if pos3 >= uFileSize then some (LoopEnd.fail res.2.1 res.2.2.1)
              else OpenDatabase.groupLoop E bRepair buf uFileSize dwGroups fuel uCurGroup1 pos3
                res.2.1 res.2.2.1 res.2.2.2

/-- The entry loop of `OpenDatabase`, like the group loop. -/
def OpenDatabase.entryLoop (E : Env) (bRepair : Bool) (buf : List Nat)
    (uFileSize dwEntries : Nat) :
    Nat → Nat → Nat → CPwManager → Rand → PW_ENTRY → Option LoopEnd
  | 0, _, _, _, _, _ => none
  | fuel + 1, uCurEntry, pos, m, r, pwEntryTemplate =>
    if !(uCurEntry < dwEntries) then some (LoopEnd.done pos m r)
    else if bRepair && E.IsBadReadPtr pos 2 then some (LoopEnd.fail m r)
    else
      let usFieldType := leValue (readBytes buf pos 2)
      let pos1 := (pos + 2) % U32
      if pos1 >= uFileSize then some (LoopEnd.fail m r)
      else if bRepair && E.IsBadReadPtr (pos + 2) 4 then some (LoopEnd.fail m r)
      else
        let dwFieldSize := leValue (readBytes buf (pos + 2) 4)
        let pos2 := (pos1 + 4) % U32
        if pos2 >= (uFileSize + dwFieldSize) % U32 then some (LoopEnd.fail m r)
        else if bRepair && E.IsBadReadPtr (pos + 6) dwFieldSize then some (LoopEnd.fail m r)
        else
          let res := m.ReadEntryField E r usFieldType dwFieldSize (buf.drop (pos + 6))
            pwEntryTemplate
          let uCurEntry1 := if usFieldType == 0xFFFF && res.1 then uCurEntry + 1 else uCurEntry
          if pos + 6 + dwFieldSize < sizeofHeader then some (LoopEnd.fail res.2.1 res.2.2.1)
          else
            let pos3 := (pos2 + dwFieldSize) % U32
            if pos3 >= uFileSize then some (LoopEnd.fail res.2.1 res.2.2.1)
            else OpenDatabase.entryLoop E bRepair buf uFileSize dwEntries fuel uCurEntry1 pos3
              res.2.1 res.2.2.1 res.2.2.2

/-- Lines 1040-1047 of `OpenDatabase`: the algorithm and the number of rounds
are taken from the header, then the master key is transformed.  The result is
what `_TransformMasterKey` returns and the database. -/
def OpenDatabase.keyed (E : Env) (m : CPwManager) (hdr : PW_DBHEADER) : Bool × CPwManager :=
  let m1 : CPwManager :=
    { m with
      m_nAlgorithm :=
        if (hdr.dwFlags &&& PWM_FLAG_RIJNDAEL) != 0 then ALGO_AES else ALGO_TWOFISH,
      m_dwKeyEncRounds := hdr.dwKeyEncRounds }
  m1._TransformMasterKey E hdr.aMasterSeed2

/-- Lines 1049-1053 of `OpenDatabase`: the final key, the digest of the master
seed of the file and the transformed master key. -/
def OpenDatabase.finalKey (E : Env) (m2 : CPwManager) (hdr : PW_DBHEADER) : List Nat :=
  E.sha256 (readBytes hdr.aMasterSeed 0 16 ++ readBytes m2.m_pTransformedMasterKey 0 32)

/-- The calls `PadDecrypt` of `OpenDatabase` (lines 1089 and 1099), in place on
the memory file past the header.  The result is the memory file afterwards and
`uEncryptedPartSize`. -/
def OpenDatabase.decrypt (E : Env) (m2 : CPwManager) (hdr : PW_DBHEADER) (file : List Nat)
    (uFileSize : Nat) : List Nat × Nat :=
  let uFinalKey := OpenDatabase.finalKey E m2 hdr
  let cipher := readBytes file sizeofHeader (uFileSize - sizeofHeader)
  let dec := if m2.m_nAlgorithm == ALGO_AES
    then E.rijndaelPadDecrypt uFinalKey hdr.aEncryptionIV cipher
    else E.twofishPadDecrypt uFinalKey hdr.aEncryptionIV cipher
  (file.take sizeofHeader ++ readBytes dec.1 0 cipher.length ++ file.drop uFileSize,
    dec.2 % U32)

/-- Lines 1141-1219 of `OpenDatabase`: `NewDatabase()`, the two parsing loops
over the decrypted memory file `buf`, then the meta streams, the lost entries
and the group tree. -/
def OpenDatabase.load (E : Env) (bRepair : Bool) (buf : List Nat) (uFileSize : Nat)
    (hdr : PW_DBHEADER) (fuel : Nat) (m2 : CPwManager) (r : Rand) (rep1 : PWDB_REPAIR_INFO) :
    Option (PWE × CPwManager × Rand × PWDB_REPAIR_INFO) :=
  let m3 := m2.NewDatabase
  match OpenDatabase.groupLoop E bRepair buf uFileSize hdr.dwGroups fuel 0
      sizeofHeader m3 r RESET_PWG_TEMPLATE with
  | none => none
  | some (LoopEnd.fail m4 r4) =>
    some (PWE.INVALID_FILESTRUCTURE, _OPENDB_FAIL_LIGHT E m4, r4, rep1)
  | some (LoopEnd.done pos m4 r4) =>
    match OpenDatabase.entryLoop E bRepair buf uFileSize hdr.dwEntries fuel 0
        pos m4 r4 RESET_PWE_TEMPLATE with
    | none => none
    | some (LoopEnd.fail m5 r5) =>
      some (PWE.INVALID_FILESTRUCTURE, _OPENDB_FAIL_LIGHT E m5, r5, rep1)
    | some (LoopEnd.done _ m5 r5) =>
      let m6 : CPwManager := { m5 with m_dbLastHeader := hdr }
      match m6._LoadAndRemoveAllMetaStreams true with
      | none => none
      | some (dwRemovedStreams, m7) =>
        let rep2 : PWDB_REPAIR_INFO :=
          if bRepair then { rep1 with dwRecognizedMetaStreamCount := dwRemovedStreams }
          else rep1
        match m7.DeleteLostEntries with
        | none => none
        | some (_, m8) => some (PWE.SUCCESS, m8.FixGroupTree, r5, rep2)

/-- The method `CPwManager::OpenDatabase`; `pszFile` may be `NULL`, `bRepair`
says whether `pRepair` is given.  `fuel` bounds the number of fields each
parsing loop may walk.  The result is the returned code, the database, the
random source and the record behind `pRepair`. -/
def OpenDatabase (E : Env) (fuel : Nat) (m : CPwManager) (r : Rand)
    (pszFile : Option (List Nat)) (bRepair : Bool) :
    Option (PWE × CPwManager × Rand × PWDB_REPAIR_INFO) :=
  let rep0 : PWDB_REPAIR_INFO := ⟨0, 0, 0⟩
  match pszFile with
  | none => some (PWE.INVALID_PARAM, m, r, rep0)
  | some path =>
    if path.getD 0 0 == 0 then some (PWE.INVALID_PARAM, m, r, rep0)
    else match E.fileRead path with
    | none => some (PWE.NOFILEACCESS_READ, m, r, rep0)
    | some file =>
      let uFileSize0 := file.length
      if uFileSize0 < sizeofHeader then some (PWE.INVALID_FILEHEADER, m, r, rep0)
      else if !E.allocOk (uFileSize0 + 16 + 1 + 8 + 4) then some (PWE.NO_MEM, m, r, rep0)
      else
        let hdr := PW_DBHEADER.ofBytes file
        if hdr.dwSignature1 != PWM_DBSIG_1 || hdr.dwSignature2 != PWM_DBSIG_2 then
          some (PWE.INVALID_FILESIGNATURE, _OPENDB_FAIL_LIGHT E m, r, rep0)
        else if (hdr.dwVersion &&& 0xFFFFFF00) != (PWM_DBVER_DW &&& 0xFFFFFF00) then
          if hdr.dwVersion == 0x00020000 || hdr.dwVersion == 0x00020001
              || hdr.dwVersion == 0x00020002 then
            let res := E._OpenDatabaseV2 m path
            some (if res.1 then PWE.SUCCESS else PWE.UNKNOWN, res.2, r, rep0)
          else if hdr.dwVersion <= 0x00010002 then
            let res := E._OpenDatabaseV1 m path
            some (if res.1 then PWE.SUCCESS else PWE.UNKNOWN, res.2, r, rep0)
          else some (PWE.INVALID_FILESTRUCTURE, _OPENDB_FAIL_LIGHT E m, r, rep0)
        else if (hdr.dwFlags &&& PWM_FLAG_RIJNDAEL) == 0
            && (hdr.dwFlags &&& PWM_FLAG_TWOFISH) == 0 then
          some (PWE.INVALID_FILESTRUCTURE, _OPENDB_FAIL_LIGHT E m, r, rep0)
        else
          let tr := OpenDatabase.keyed E m hdr
          let m2 := tr.2
          if !tr.1 then some (PWE.INVALID_FILESTRUCTURE, _OPENDB_FAIL_LIGHT E m2, r, rep0)
          else
            let uFinalKey := OpenDatabase.finalKey E m2 hdr
            if !bRepair && (uFileSize0 - sizeofHeader) % 16 != 0 then
              some (PWE.INVALID_FILESIZE, _OPENDB_FAIL_LIGHT E m2, r, rep0)
            else
              let uFileSize := if (uFileSize0 - sizeofHeader) % 16 != 0
                then (uFileSize0 - sizeofHeader) / 16 * 16 + sizeofHeader else uFileSize0
              let rep1 : PWDB_REPAIR_INFO :=
                if bRepair then ⟨hdr.dwGroups, hdr.dwEntries, 0⟩ else rep0
              if m2.m_nAlgorithm == ALGO_AES
                  && !E.rijndaelInitCBC false uFinalKey hdr.aEncryptionIV then
                some (PWE.CRYPT_ERROR, _OPENDB_FAIL_LIGHT E m2, r, rep1)
              else if m2.m_nAlgorithm != ALGO_AES && m2.m_nAlgorithm == ALGO_TWOFISH
                  && !E.twofishInit uFinalKey hdr.aEncryptionIV then
                some (PWE.INVALID_FILESTRUCTURE, _OPENDB_FAIL_LIGHT E m2, r, rep1)
              else if m2.m_nAlgorithm != ALGO_AES && m2.m_nAlgorithm != ALGO_TWOFISH then
                some (PWE.INVALID_FILESTRUCTURE, _OPENDB_FAIL_LIGHT E m2, r, rep1)
              else
                let dec := OpenDatabase.decrypt E m2 hdr file uFileSize
                let buf := dec.1
                let uEncryptedPartSize := dec.2
                if !bRepair && (uEncryptedPartSize > 2147483446
                    || (uEncryptedPartSize == 0 && (hdr.dwGroups != 0 || hdr.dwEntries != 0))) then
                  some (PWE.INVALID_KEY, _OPENDB_FAIL_LIGHT E m2, r, rep1)
                else if !bRepair
                    && readBytes hdr.aContentsHash 0 32
                      != readBytes (E.sha256 (readBytes buf sizeofHeader uEncryptedPartSize)) 0 32 then
                  some (PWE.INVALID_KEY, _OPENDB_FAIL_LIGHT E m2, r, rep1)
                else OpenDatabase.load E bRepair buf uFileSize hdr fuel m2 r rep1

/-- Lines 1103-1219 of `OpenDatabase`: the checks of the decrypted size and of
the contents hash on the memory file `buf`, of which a cipher has decrypted
`uEncryptedPartSize` bytes, and then the load. -/
def OpenDatabase.checked (E : Env) (bRepair : Bool) (buf : List Nat)
    (uEncryptedPartSize uFileSize : Nat) (hdr : PW_DBHEADER) (fuel : Nat) (m2 : CPwManager)
    (r : Rand) (rep1 : PWDB_REPAIR_INFO) : Option (PWE × CPwManager × Rand × PWDB_REPAIR_INFO) :=
  if !bRepair && (uEncryptedPartSize > 2147483446
      || (uEncryptedPartSize == 0 && (hdr.dwGroups != 0 || hdr.dwEntries != 0))) then
    some (PWE.INVALID_KEY, _OPENDB_FAIL_LIGHT E m2, r, rep1)
  else if !bRepair
      && readBytes hdr.aContentsHash 0 32
        != readBytes (E.sha256 (readBytes buf sizeofHeader uEncryptedPartSize)) 0 32 then
    some (PWE.INVALID_KEY, _OPENDB_FAIL_LIGHT E m2, r, rep1)
  else OpenDatabase.load E bRepair buf uFileSize hdr fuel m2 r rep1

/-! ## Backup, merge and sorting of the group list -/

end CPwManager

/-- Modelled from the spec: `_pwtimecmp` (Util/PwUtil, not under src/), the
chronological comparison of two timestamps: negative, zero or positive as the
first is earlier than, equal to or later than the second. -/
def _pwtimecmp (a b : PW_TIME) : Int :=
  if a.shYear != b.shYear then (if a.shYear < b.shYear then -1 else 1)
  else if a.btMonth != b.btMonth then (if a.btMonth < b.btMonth then -1 else 1)
  else if a.btDay != b.btDay then (if a.btDay < b.btDay then -1 else 1)
  else if a.btHour != b.btHour then (if a.btHour < b.btHour then -1 else 1)
  else if a.btMinute != b.btMinute then (if a.btMinute < b.btMinute then -1 else 1)
  else if a.btSecond != b.btSecond then (if a.btSecond < b.btSecond then -1 else 1)
  else 0

/-- Decimal digits of a number, most significant first (at most `fuel` of them). -/
def decimalDigits : Nat → Nat → List Nat
  | 0, _ => []
  | fuel + 1, n => if n < 10 then [48 + n] else decimalDigits fuel (n / 10) ++ [48 + n % 10]

/-- The call `_ltot_s(value, buf, size, 10)` for a 32-bit `long`. -/
def _ltot (value : Int) : List Nat :=
  if value < 0 then 45 :: decimalDigits 10 value.natAbs else decimalDigits 10 value.natAbs

/-- The digits read by `_ttol`: the value of the leading decimal digits. -/
def _ttol.digits : Nat → List Nat → Nat
  | acc, [] => acc
  | acc, c :: cs => if 48 ≤ c ∧ c ≤ 57 then _ttol.digits (acc * 10 + (c - 48)) cs else acc

/-- The function `_ttol` on a string that starts with an optional sign (the
value stays in the range of `long`). -/
def _ttol (s : List Nat) : Int :=
  match s with
  | 45 :: cs => -((_ttol.digits 0 cs : Nat) : Int)
  | 43 :: cs => ((_ttol.digits 0 cs : Nat) : Int)
  | cs => ((_ttol.digits 0 cs : Nat) : Int)

/-- The cast `(long)` of a `DWORD`. -/
def toLong (dw : Nat) : Int := if dw % U32 < 2147483648 then (dw % U32 : Nat) else (dw % U32 : Nat) - 4294967296

/-- The cast `(DWORD)` of a `long`. -/
def toDWORD (v : Int) : Nat := (v % 4294967296).toNat

namespace CPwManager

/-- The method `CPwManager::BackupEntry` (non-`NULL` entry).  The result is the
returned flag, the flag behind `pbGroupCreated`, the database and the random
source; `none` when the random source runs out in `AddGroup`. -/
def BackupEntry (E : Env) (m : CPwManager) (r : Rand) (pe : PW_ENTRY) :
    Option (Bool × Bool × CPwManager × Rand) :=
  let dwGroupId0 := m.GetGroupId PWS_BACKUPGROUP
  let step : Option (Option (Bool × Nat × CPwManager × Rand)) :=
    if dwGroupId0 == DWORD_MAX then
      let pwg : PW_GROUP :=
        { PW_GROUP.zero with
          pszGroupName := some PWS_BACKUPGROUP, tCreation := E.tNow, tLastAccess := E.tNow,
          tLastMod := E.tNow, tExpire := g_pwTimeNever, uImageId := 4 }
      match m.AddGroup r pwg with
      | none => none
      | some res =>
        if res.1 == false then some none
        else some (some (true, res.2.1.GetGroupId PWS_BACKUPGROUP, res.2.1, res.2.2))
    else some (some (false, dwGroupId0, m, r))
  match step with
  | none => none
  | some none => some (false, false, m, r)
  | some (some (created, dwGroupId, m1, r1)) =>
    if dwGroupId == DWORD_MAX then some (false, created, m1, r1)
    else
      let pwe : PW_ENTRY := { pe with tLastMod := E.tNow, uGroupId := dwGroupId, uuid := g_uuidZero }
      let res := m1.AddEntry E r1 pwe
      some (res.1, created, res.2.1, res.2.2)

/-- The retry loop `while(1)` of `MergeIn` for one source group at index `i`
when new ids are assigned.  The result is this database, the source and the
random source. -/
def MergeIn.newGroup (i : Nat) : Nat → CPwManager → CPwManager → Rand →
    Option (CPwManager × CPwManager × Rand)
  | 0, _, _, _ => none
  | fuel + 1, m, src, r =>
    match src.m_pGroups[i]? with
    | none => some (m, src, r)
    | some pgSource =>
      let dwOldId := pgSource.uGroupId
      let pgZero : PW_GROUP := { pgSource with uGroupId := 0 }
      let src1 : CPwManager := { src with m_pGroups := src.m_pGroups.set i pgZero }
      match m.AddGroup r pgZero with
      | none => none
      | some res =>
        let m1 := res.2.1
        let dwNewId := (m1.m_pGroups.getD (m1.GetNumberOfGroups - 1) PW_GROUP.zero).uGroupId
        if (src1.GetGroupById dwNewId).isNone then
          some (m1, src1.SubstEntryGroupIds dwOldId dwNewId, res.2.2)
        else
          let src2 : CPwManager := { src1 with m_pGroups := src1.m_pGroups.set i pgSource }
          match m1.DeleteGroupById dwNewId with
          | none => none
          | some del => MergeIn.newGroup i fuel del.2 src2 res.2.2

/-- The assignment `pgThis->tLastAccess = tNow` of `MergeIn` for the group at
an index (`GetGroup` may return `NULL`). -/
def MergeIn.touchGroup (E : Env) (m : CPwManager) (dwModifyIndex : Nat) : CPwManager :=
  match m.GetGroup dwModifyIndex with
  | none => m
  | some g =>
    let touched : PW_GROUP := { g with tLastAccess := E.tNow }
    { m with m_pGroups := m.m_pGroups.set dwModifyIndex touched }

/-- The assignment `peThis->tLastAccess = tNow` of `MergeIn` for the entry at
an index (`GetEntry` may return `NULL`). -/
def MergeIn.touchEntry (E : Env) (m : CPwManager) (dwModifyIndex : Nat) : CPwManager :=
  match m.GetEntry dwModifyIndex with
  | none => m
  | some e =>
    let touched : PW_ENTRY := { e with tLastAccess := E.tNow }
    { m with m_pEntries := m.m_pEntries.set dwModifyIndex touched }

/-- The body of the group loop of `MergeIn` for the source group `pgSource` at
index `i`. -/
def MergeIn.groupStep (E : Env) (bCreateNewUUIDs bCompareTimes : Bool) (i : Nat)
    (pgSource : PW_GROUP) (m src : CPwManager) (r : Rand) :
    Option (CPwManager × CPwManager × Rand) :=
  if bCreateNewUUIDs then MergeIn.newGroup i (r.xorShift.length + 1) m src r
  else
    let dwModifyIndex := m.GetGroupByIdN pgSource.uGroupId
    let pgThis := if dwModifyIndex != DWORD_MAX then m.GetGroup dwModifyIndex else none
    match pgThis with
    | none =>
      match m.AddGroup r pgSource with
      | none => none
      | some res => some (res.2.1, src, res.2.2)
    | some pgThis =>
      if bCompareTimes && _pwtimecmp pgThis.tLastMod pgSource.tLastMod >= 0 then some (m, src, r)
      else some (MergeIn.touchGroup E (m.SetGroup dwModifyIndex pgSource).2 dwModifyIndex, src, r)

/-- The group loop of `MergeIn`: `n` source groups from index `i` on. -/
def MergeIn.groupLoop (E : Env) (bCreateNewUUIDs bCompareTimes : Bool) :
    Nat → Nat → CPwManager → CPwManager → Rand → Option (CPwManager × CPwManager × Rand)
  | 0, _, m, src, r => some (m, src, r)
  | n + 1, i, m, src, r =>
    match src.GetGroup i with
    | none => MergeIn.groupLoop E bCreateNewUUIDs bCompareTimes n (i + 1) m src r
    | some pgSource =>
      match MergeIn.groupStep E bCreateNewUUIDs bCompareTimes i pgSource m src r with
      | none => none
      | some res =>
        MergeIn.groupLoop E bCreateNewUUIDs bCompareTimes n (i + 1) res.1 res.2.1 res.2.2

/-- The body of the entry loop of `MergeIn` for the source entry `peSource0` at
index `i`: the source entry is unlocked, merged and locked again. -/
def MergeIn.entryStep (E : Env) (bCreateNewUUIDs bCompareTimes : Bool) (i : Nat)
    (peSource0 : PW_ENTRY) (m src : CPwManager) (r : Rand) : CPwManager × CPwManager × Rand :=
  if _IsMetaStream peSource0 == true then (m, src, r)
  else
    let peUnlocked := src.UnlockEntryPassword E peSource0
    if bCreateNewUUIDs then
      let peSource : PW_ENTRY := { peUnlocked with uuid := g_uuidZero }
      let res := m.AddEntry E r peSource
      let src1 : CPwManager :=
        { src with m_pEntries := src.m_pEntries.set i (src.LockEntryPassword E peSource) }
      (res.2.1, src1, res.2.2)
    else
      let src1 : CPwManager :=
        { src with m_pEntries := src.m_pEntries.set i (src.LockEntryPassword E peUnlocked) }
      let dwModifyIndex := m.GetEntryByUuidN peUnlocked.uuid
      let peThis := if dwModifyIndex != DWORD_MAX then m.GetEntry dwModifyIndex else none
      match peThis with
      | none =>
        let res := m.AddEntry E r peUnlocked
        (res.2.1, src1, res.2.2)
      | some peThis =>
        if bCompareTimes && _pwtimecmp peThis.tLastMod peUnlocked.tLastMod >= 0 then (m, src1, r)
        else (MergeIn.touchEntry E (m.SetEntry E dwModifyIndex peUnlocked).2 dwModifyIndex, src1, r)

/-- The entry loop of `MergeIn`: `n` source entries from index `i` on. -/
def MergeIn.entryLoop (E : Env) (bCreateNewUUIDs bCompareTimes : Bool) :
    Nat → Nat → CPwManager → CPwManager → Rand → CPwManager × CPwManager × Rand
  | 0, _, m, src, r => (m, src, r)
  | n + 1, i, m, src, r =>
    match src.GetEntry i with
    | none => MergeIn.entryLoop E bCreateNewUUIDs bCompareTimes n (i + 1) m src r
    | some peSource0 =>
      let res := MergeIn.entryStep E bCreateNewUUIDs bCompareTimes i peSource0 m src r
      MergeIn.entryLoop E bCreateNewUUIDs bCompareTimes n (i + 1) res.1 res.2.1 res.2.2

/-- The method `CPwManager::MergeIn` for a source that is another object
(non-`NULL`).  The result is this database, the source as the merge leaves it
and the random source; `none` when the random source runs out. -/
def MergeIn (E : Env) (m pDataSource : CPwManager) (r : Rand)
    (bCreateNewUUIDs bCompareTimes : Bool) : Option (CPwManager × CPwManager × Rand) :=
  match MergeIn.groupLoop E bCreateNewUUIDs bCompareTimes pDataSource.GetNumberOfGroups 0
      m pDataSource r with
  | none => none
  | some (m1, src1, r1) =>
    let m2 := m1.FixGroupTree
    let res := MergeIn.entryLoop E bCreateNewUUIDs bCompareTimes src1.GetNumberOfEntries 0
      m2 src1 r1
    match res.1.DeleteLostEntries with
    | none => none
    | some (_, m3) => some (m3, res.2.1, res.2.2)

/-- The loop of `SortGroupList` that builds the fully qualified group names,
carrying `pParents` (a slot never assigned reads as the empty string). -/
def SortGroupList.build : List (List Nat) → List PW_GROUP → List (List Nat)
  | _, [] => []
  | pParents, p :: rest =>
    let parents := ((List.range p.usLevel).map (fun j => cstr (pParents.getD j []) ++ [10])).flatten
    let name := cstr (p.pszGroupName.getD [])
    let pParents1 := (pParents ++ List.replicate (p.usLevel + 1 - pParents.length) []).set
      p.usLevel name
    (parents ++ name ++ [10, 10] ++ _ltot (toLong p.uGroupId))
      :: SortGroupList.build pParents1 rest

/-- One pass `for(i = 0; i < n - 1; i++)` of the bubble sort from the name
`cur` at index `i` on: a name greater than its successor is exchanged with it.
The flag is `bSwapped`. -/
def SortGroupList.passFrom : List Nat → List (List Nat) → List (List Nat) × Bool
  | cur, [] => ([cur], false)
  | cur, next :: rest =>
    if _tcsicmp cur next > 0 then
      let res := SortGroupList.passFrom cur rest
      (next :: res.1, true)
    else
      let res := SortGroupList.passFrom next rest
      (cur :: res.1, res.2)

/-- One pass of the bubble sort over the names. -/
def SortGroupList.pass : List (List Nat) → List (List Nat) × Bool
  | [] => ([], false)
  | first :: rest => SortGroupList.passFrom first rest

/-- The loop `while(bSwapped == TRUE)` of the bubble sort. -/
def SortGroupList.bubble : Nat → List (List Nat) → Option (List (List Nat))
  | 0, _ => none
  | fuel + 1, pList =>
    let res := SortGroupList.pass pList
    if res.2 then SortGroupList.bubble fuel res.1 else some res.1

/-- The id at the end of a fully qualified name: `_ttol` of what follows the
last line feed. -/
def SortGroupList.idOf (fqgn : List Nat) : Nat :=
  toDWORD (_ttol ((fqgn.reverse.takeWhile (fun c => c != 10)).reverse))

/-- The search `for(j = i; j < n; j++)` for the group with id `dw`. -/
def SortGroupList.find (dw : Nat) : Nat → List PW_GROUP → Nat
  | j, [] => j
  | j, g :: gs => if g.uGroupId == dw then j else SortGroupList.find dw (j + 1) gs

/-- The loop of `SortGroupList` that puts the groups in the order of the sorted
names, for the names from index `i` on (the last name is not visited).  A
search that fails exchanges with the slot past the count, which is all zero. -/
def SortGroupList.place : Nat → List (List Nat) → List PW_GROUP → List PW_GROUP
  | i, fqgn :: next :: rest, groups =>
    let j := SortGroupList.find (SortGroupList.idOf fqgn) i (groups.drop i)
    let groups1 := if j < groups.length then swapAt groups i j else groups.set i PW_GROUP.zero
    SortGroupList.place (i + 1) (next :: rest) groups1
  | _, _, groups => groups

/-- The loop of `SortGroupList` that searches the longest group name and the
maximum level, from the values `dwMaxString` and `usMaxLevel` so far; the
length of a name is cast to `DWORD`. -/
def SortGroupList.scan : Nat → Nat → List PW_GROUP → Nat × Nat
  | dwMaxString, usMaxLevel, [] => (dwMaxString, usMaxLevel)
  | dwMaxString, usMaxLevel, p :: rest =>
    let j := tcslen (p.pszGroupName.getD []) % U32
    SortGroupList.scan (if j > dwMaxString then j else dwMaxString)
      (if p.usLevel > usMaxLevel then p.usLevel else usMaxLevel) rest

/-- The method `CPwManager::SortGroupList`.  A pointer takes four bytes and
`new TCHAR[n]` asks for `n` characters; `dwMaxString` is computed in `DWORD`
arithmetic.  When `new` fails for `pParents`, or for a name buffer `pList[i]`,
the method returns and the array is as before, without `FixGroupTree`
(`lpTemp` is a buffer of the same size as the name buffers, so it is there
when they are).  The result is `none` when the call does not return: the
pointer list `pList` is only asserted and then written through; `_tcscat_s`
does not come back for a name that does not fit `dwMaxString` characters with
its `NUL`; the bubble sort is given one pass per group plus one. -/
def SortGroupList (E : Env) (m : CPwManager) : Option CPwManager :=
  if m.m_pGroups.length <= 1 then some m
  else
    let sc := SortGroupList.scan 0 0 m.m_pGroups
    if !E.allocOk (4 * (sc.2 + 2)) then some m
    else
      let dwMaxString := ((sc.1 + 1) * (sc.2 + 1) + 13) % U32
      if !E.allocOk (4 * m.m_pGroups.length) then none
      else if !E.allocOk dwMaxString then some m
      else
        let names := SortGroupList.build [] m.m_pGroups
        if names.any (fun s => s.length >= dwMaxString) then none
        else
          match SortGroupList.bubble (m.m_pGroups.length + 1) names with
          | none => none
          | some pList =>
            some (FixGroupTree
              { m with m_pGroups := SortGroupList.place 0 pList m.m_pGroups })

end CPwManager

/-! ## Sample environment and data for the closed examples -/

/-- A padding cipher for the examples: the cleartext followed by `k` bytes of
value `k`, up to the next multiple of 16. -/
def samplePadEncrypt (d : List Nat) : List Nat × Nat :=
  (d ++ List.replicate (16 - d.length % 16) (16 - d.length % 16), d.length + (16 - d.length % 16))

/-- The inverse of `samplePadEncrypt`; a buffer that is not padded gives the
error code `-5` as `unsigned long`. -/
def samplePadDecrypt (c : List Nat) : List Nat × Nat :=
  if c.length % 16 != 0 || c.length == 0 then (c, 4294967291)
  else if c.getLastD 0 == 0 || c.getLastD 0 > 16 then (c, 4294967291)
  else (c, c.length - c.getLastD 0)

/-- An environment for the examples: a toy keystream, a toy digest, identity
text conversion, the padding cipher above, and a file system with one file. -/
def sampleEnv (file : Option (List Nat)) : Env :=
  { arcfourStream := fun key i => (key.getD (i % 32) 0 + 7 * i + 1) % 256
    sha256 := fun d => List.replicate 31 0 ++ [d.sum % 256]
    StringToUTF8 := fun s => s
    UTF8ToString := fun s => s
    rijndaelInitECB := fun _ => true
    rijndaelBlockEncrypt := fun k d =>
      if k == List.range 32 then CPwManager._TransformMasterKey.aRef
      else d.map (fun b => (b + 1) % 256)
    rijndaelInitCBC := fun _ _ _ => true
    rijndaelPadEncrypt := fun _ _ d => samplePadEncrypt d
    rijndaelPadDecrypt := fun _ _ c => samplePadDecrypt c
    twofishInit := fun _ _ => true
    twofishPadEncrypt := fun _ _ d => samplePadEncrypt d
    twofishPadDecrypt := fun _ _ c => samplePadDecrypt c
    allocOk := fun _ => true
    fileRead := fun _ => file
    fileOpenWrite := fun _ => true
    fileWritten := fun _ d => d.length
    IsBadReadPtr := fun _ _ => false
    PWM_STD_KEYENCROUNDS := 6000
    tNow := ⟨2007, 1, 2, 3, 4, 5⟩
    _OpenDatabaseV1 := fun m _ => (false, m)
    _OpenDatabaseV2 := fun m _ => (false, m) }

/-- The database a fresh `CPwManager` holds (with a fixed session key). -/
def sampleEmpty : CPwManager :=
  { m_pEntries := [], m_pGroups := [], m_pMasterKey := List.replicate 32 7,
    m_pTransformedMasterKey := List.replicate 32 0, m_pSessionKey := List.range 32,
    m_nAlgorithm := ALGO_AES, m_dwKeyEncRounds := 3, m_dbLastHeader := PW_DBHEADER.zero,
    m_vUnknownMetaStreams := [], m_dwLastSelectedGroupId := 0, m_dwLastTopVisibleGroupId := 0,
    m_aLastSelectedEntryUuid := g_uuidZero, m_aLastTopVisibleEntryUuid := g_uuidZero }

/-- A random source for the examples. -/
def sampleRand : Rand :=
  { xorShift := [0, 4294967295, 17, 17, 23], uuidAt := fun n => List.replicate 16 (n + 1),
    uuidCalls := 0, bufferAt := fun n k => List.replicate k (n + 3), bufferCalls := 0 }

/-- A timestamp for the examples. -/
def sampleTime : PW_TIME := ⟨2007, 1, 1, 1, 1, 1⟩

/-- A group template with id 5 at level 0. -/
def sampleGroup : PW_GROUP :=
  { PW_GROUP.zero with
    uGroupId := 5, pszGroupName := some (tstr "General"), tCreation := sampleTime,
    tLastMod := sampleTime, tLastAccess := sampleTime, tExpire := g_pwTimeNever }

/-- An entry template in group 5 with title "Gmail" and password "hunter2". -/
def sampleEntry : PW_ENTRY :=
  { PW_ENTRY.zero with
    uGroupId := 5, pszTitle := some (tstr "Gmail"), pszPassword := some (tstr "hunter2"),
    tCreation := sampleTime, tLastMod := sampleTime, tLastAccess := sampleTime,
    tExpire := g_pwTimeNever }

/-! ## Invariants named by the specification -/

/-- The tree invariant of a group array: `level[0] == 0` and
`level[i] <= level[i-1] + 1` for every `i >= 1`. -/
def TreeInvariant (groups : List PW_GROUP) : Prop :=
  (∀ g, groups[0]? = some g → g.usLevel = 0)
  ∧ ∀ i g h, groups[i]? = some g → groups[i + 1]? = some h → h.usLevel ≤ g.usLevel + 1

/-- A group template with a name, an id and a level. -/
def sampleGroupAt (name : String) (id level : Nat) : PW_GROUP :=
  { sampleGroup with uGroupId := id, pszGroupName := some (tstr name), usLevel := level }

/-- A database with the groups "Net" (level 0), "mail" (1), "Bank" (1) and
"Home" (0), and no entry. -/
def sampleTree : CPwManager :=
  { sampleEmpty with
    m_pGroups := [sampleGroupAt "Net" 11 0, sampleGroupAt "mail" 12 1,
      sampleGroupAt "Bank" 13 1, sampleGroupAt "Home" 14 0] }

/-- No group id of the array is 0 or `DWORD_MAX`. -/
def NoSentinelGroupId (m : CPwManager) : Prop :=
  ∀ g ∈ m.m_pGroups, g.uGroupId ≠ 0 ∧ g.uGroupId ≠ DWORD_MAX

/-- The group ids of the array are pairwise distinct. -/
def GroupIdsDistinct (m : CPwManager) : Prop :=
  (m.m_pGroups.map (fun g => g.uGroupId)).Nodup

/-- The states reachable from a database without groups through `AddGroup`,
`SetGroup`, `DeleteGroupById`, `MoveGroup`, `SortGroupList` and `MergeIn`.
Ids are `DWORD`s and the group count fits a `DWORD`; `SetGroup` and
`DeleteGroupById` are called as the code asserts (index below the count, id of
an existing group).  With `checked`, an explicit id given to `AddGroup` or
`SetGroup` is one that no other group has. -/
inductive GroupReach (E : Env) (checked : Bool) : CPwManager → Prop
  | empty (m : CPwManager) : m.m_pGroups = [] → GroupReach E checked m
  | addGroup (m : CPwManager) (r : Rand) (pTemplate : PW_GROUP)
      (res : Bool × CPwManager × Rand) :
      GroupReach E checked m → pTemplate.uGroupId < U32 →
      (checked = true → pTemplate.uGroupId = 0 ∨ pTemplate.uGroupId = DWORD_MAX
        ∨ ∀ g ∈ m.m_pGroups, g.uGroupId ≠ pTemplate.uGroupId) →
      m.AddGroup r pTemplate = some res → res.2.1.m_pGroups.length ≤ DWORD_MAX →
      GroupReach E checked res.2.1
  | setGroup (m : CPwManager) (dwIndex : Nat) (pTemplate : PW_GROUP) :
      GroupReach E checked m → dwIndex < m.m_pGroups.length → pTemplate.uGroupId < U32 →
      (checked = true → ∀ j g, j ≠ dwIndex → m.m_pGroups[j]? = some g →
        g.uGroupId ≠ pTemplate.uGroupId) →
      GroupReach E checked (m.SetGroup dwIndex pTemplate).2
  | deleteGroupById (m : CPwManager) (uGroupId : Nat) (res : Bool × CPwManager) :
      GroupReach E checked m → (∃ g ∈ m.m_pGroups, g.uGroupId = uGroupId) →
      m.DeleteGroupById uGroupId = some res → GroupReach E checked res.2
  | moveGroup (m : CPwManager) (dwFrom dwTo : Nat) :
      GroupReach E checked m → GroupReach E checked (m.MoveGroup dwFrom dwTo).2
  | sortGroupList (m m' : CPwManager) :
      GroupReach E checked m → m.SortGroupList E = some m' → GroupReach E checked m'
  | mergeIn (m pDataSource : CPwManager) (r : Rand) (bCreateNewUUIDs bCompareTimes : Bool)
      (res : CPwManager × CPwManager × Rand) :
      GroupReach E checked m → (∀ g ∈ pDataSource.m_pGroups, g.uGroupId < U32) →
      m.MergeIn E pDataSource r bCreateNewUUIDs bCompareTimes = some res →
      res.1.m_pGroups.length ≤ DWORD_MAX → GroupReach E checked res.1

/-- What the group-id claims say of a list of ids: none is 0 or `DWORD_MAX`,
each is a `DWORD`, and (with `checked`) they are pairwise distinct. -/
def GroupIdsOK (checked : Bool) (ids : List Nat) : Prop :=
  (∀ x ∈ ids, x ≠ 0 ∧ x ≠ DWORD_MAX ∧ x < U32) ∧ (checked = true → ids.Nodup)

/-- No stored entry has the all-zero UUID. -/
def NoZeroUuid (m : CPwManager) : Prop :=
  ∀ e ∈ m.m_pEntries, e.uuid ≠ g_uuidZero

/-- No two entries of the array share a UUID. -/
def UuidsDistinct (m : CPwManager) : Prop :=
  (m.m_pEntries.map (fun e => e.uuid)).Nodup

/-- The UUIDs that `randCreateUUID` returns from now on are non-zero, pairwise
distinct and none of `used`. -/
def FreshFrom (r : Rand) (used : List (List Nat)) : Prop :=
  ∀ k, r.uuidCalls ≤ k →
    r.uuidAt k ≠ g_uuidZero ∧ r.uuidAt k ∉ used
    ∧ ∀ k', r.uuidCalls ≤ k' → r.uuidAt k = r.uuidAt k' → k = k'

/-- The states reachable from a database without entries through `AddEntry`,
`SetEntry`, `DeleteEntry`, `BackupEntry` and `MergeIn`; the entry counts of a
merge fit a `DWORD`.  With `checked`, a UUID given to `SetEntry` is non-zero
and no other entry has it, a non-zero UUID given to `AddEntry` is one that no
entry has, and the UUIDs that `randCreateUUID` returns are non-zero and new
(for `MergeIn`: all it returns from the call on, new also to the source). -/
inductive EntryReach (E : Env) (checked : Bool) : CPwManager → Prop
  | empty (m : CPwManager) : m.m_pEntries = [] → EntryReach E checked m
  | addEntry (m : CPwManager) (r : Rand) (pTemplate : PW_ENTRY) :
      EntryReach E checked m →
      (checked = true → pTemplate.uuid ≠ g_uuidZero →
        ∀ e ∈ m.m_pEntries, e.uuid ≠ pTemplate.uuid) →
      (checked = true → pTemplate.uuid = g_uuidZero →
        (randCreateUUID r).1 ≠ g_uuidZero
        ∧ ∀ e ∈ m.m_pEntries, e.uuid ≠ (randCreateUUID r).1) →
      EntryReach E checked (m.AddEntry E r pTemplate).2.1
  | setEntry (m : CPwManager) (dwIndex : Nat) (pTemplate : PW_ENTRY) :
      EntryReach E checked m →
      (checked = true → pTemplate.uuid ≠ g_uuidZero
        ∧ ∀ j e, j ≠ dwIndex → m.m_pEntries[j]? = some e → e.uuid ≠ pTemplate.uuid) →
      EntryReach E checked (m.SetEntry E dwIndex pTemplate).2
  | deleteEntry (m : CPwManager) (dwIndex : Nat) :
      EntryReach E checked m → EntryReach E checked (m.DeleteEntry dwIndex).2
  | backupEntry (m : CPwManager) (r : Rand) (pe : PW_ENTRY)
      (res : Bool × Bool × CPwManager × Rand) :
      EntryReach E checked m →
      (checked = true → (randCreateUUID r).1 ≠ g_uuidZero
        ∧ ∀ e ∈ m.m_pEntries, e.uuid ≠ (randCreateUUID r).1) →
      m.BackupEntry E r pe = some res → EntryReach E checked res.2.2.1
  | mergeIn (m pDataSource : CPwManager) (r : Rand) (bCreateNewUUIDs bCompareTimes : Bool)
      (res : CPwManager × CPwManager × Rand) :
      EntryReach E checked m →
      m.m_pEntries.length + pDataSource.m_pEntries.length ≤ DWORD_MAX →
      (checked = true →
        FreshFrom r (m.m_pEntries.map (fun e => e.uuid)
          ++ pDataSource.m_pEntries.map (fun e => e.uuid))) →
      m.MergeIn E pDataSource r bCreateNewUUIDs bCompareTimes = some res →
      EntryReach E checked res.1

/-- A header for the examples: current signatures and version, AES, two rounds,
no group, no entry, and a contents hash of zero bytes. -/
def sampleHeader : PW_DBHEADER :=
  { PW_DBHEADER.zero with
    dwSignature1 := PWM_DBSIG_1, dwSignature2 := PWM_DBSIG_2,
    dwFlags := PWM_FLAG_SHA2 + PWM_FLAG_RIJNDAEL, dwVersion := PWM_DBVER_DW,
    dwKeyEncRounds := 2 }

/-- A file of one block whose payload, the bytes 1, 2, 3 before the padding,
does not hash to the contents hash of its header. -/
def sampleTampered : List Nat := sampleHeader.toBytes ++ [1, 2, 3] ++ List.replicate 13 13

/-- The record of one group, "Work" with id 21, as `SaveDatabase` writes it. -/
def sampleOneGroup : List Nat := writeGroup (sampleEnv none) (sampleGroupAt "Work" 21 0)

/-- A file with the record of one group whose header announces two groups; the
contents hash is that of the payload. -/
def sampleTruncated : List Nat :=
  PW_DBHEADER.toBytes
    { sampleHeader with
      dwGroups := 2, aContentsHash := (sampleEnv none).sha256 sampleOneGroup }
    ++ (samplePadEncrypt sampleOneGroup).1

/-- What opening the truncated file over the sample tree returns. -/
def sampleFailedLoad : PWE × CPwManager × Rand × PWDB_REPAIR_INFO :=
  (sampleTree.OpenDatabase (sampleEnv (some sampleTruncated)) 40 sampleRand
    (some (tstr "f")) false).getD (PWE.SUCCESS, sampleEmpty, sampleRand, ⟨0, 0, 0⟩)

/-! ## The records of a file and what the loader rebuilds from them -/

/-- The fields (type, payload) of the record of a group, in the order in which
the group loop of `SaveDatabase` writes them. -/
def groupFields (E : Env) (g : PW_GROUP) : List (Nat × List Nat) :=
  [(0x0001, leBytes 4 g.uGroupId), (0x0002, utf8Field E g.pszGroupName),
    (0x0003, PwTimeToTime g.tCreation), (0x0004, PwTimeToTime g.tLastMod),
    (0x0005, PwTimeToTime g.tLastAccess), (0x0006, PwTimeToTime g.tExpire),
    (0x0007, leBytes 4 g.uImageId), (0x0008, leBytes 2 g.usLevel),
    (0x0009, leBytes 4 g.dwFlags), (0xFFFF, [])]

/-- The payload of the binary field `0x000E` of an entry. -/
def binaryPayload (e : PW_ENTRY) : List Nat :=
  match e.pBinaryData with
  | some d => if e.uBinaryDataLen != 0 then readBytes d 0 e.uBinaryDataLen
              else List.replicate e.uBinaryDataLen 0
  | none => List.replicate e.uBinaryDataLen 0

/-- The fields (type, payload) of the record of an entry whose password is
unlocked, in the order in which the entry loop of `SaveDatabase` writes them. -/
def entryFields (E : Env) (e : PW_ENTRY) : List (Nat × List Nat) :=
  [(0x0001, readBytes e.uuid 0 16), (0x0002, leBytes 4 e.uGroupId),
    (0x0003, leBytes 4 e.uImageId), (0x0004, utf8Field E e.pszTitle),
    (0x0005, utf8Field E e.pszURL), (0x0006, utf8Field E e.pszUserName),
    (0x0007, utf8Field E e.pszPassword), (0x0008, utf8Field E e.pszAdditional),
    (0x0009, PwTimeToTime e.tCreation), (0x000A, PwTimeToTime e.tLastMod),
    (0x000B, PwTimeToTime e.tLastAccess), (0x000C, PwTimeToTime e.tExpire),
    (0x000D, utf8Field E e.pszBinaryDesc), (0x000E, binaryPayload e), (0xFFFF, [])]

/-- The bytes of a list of fields. -/
def fieldBytes (fs : List (Nat × List Nat)) : List Nat :=
  (fs.map (fun f => tlvField f.1 f.2)).flatten

/-- The calls of `ReadGroupField` that the group loop of `OpenDatabase` makes
on a list of fields followed by `tail` in the memory file: `pData` points at the
payload of the field, the rest of the memory file follows it.  The result is
`uCurGroup`, the database, the random source and the template. -/
def readGroupFields (E : Env) (tail : List Nat) :
    List (Nat × List Nat) → Nat → CPwManager → Rand → PW_GROUP →
      Option (Nat × CPwManager × Rand × PW_GROUP)
  | [], cur, m, r, t => some (cur, m, r, t)
  | f :: fs, cur, m, r, t =>
    match m.ReadGroupField E r f.1 (f.2 ++ (fieldBytes fs ++ tail)) t with
    | none => none
    | some res =>
      readGroupFields E tail fs (if f.1 == 0xFFFF && res.1 then cur + 1 else cur)
        res.2.1 res.2.2.1 res.2.2.2

/-- The calls of `ReadEntryField` that the entry loop of `OpenDatabase` makes
on a list of fields followed by `tail` in the memory file. -/
def readEntryFields (E : Env) (tail : List Nat) :
    List (Nat × List Nat) → Nat → CPwManager → Rand → PW_ENTRY →
      Nat × CPwManager × Rand × PW_ENTRY
  | [], cur, m, r, t => (cur, m, r, t)
  | f :: fs, cur, m, r, t =>
    let res := m.ReadEntryField E r f.1 f.2.length (f.2 ++ (fieldBytes fs ++ tail)) t
    readEntryFields E tail fs (if f.1 == 0xFFFF && res.1 then cur + 1 else cur)
      res.2.1 res.2.2.1 res.2.2.2

/-- The text the loader stores for a text field of a record. -/
def readBackText (E : Env) (psz : Option (List Nat)) : Option (List Nat) :=
  some (E.UTF8ToString (cstr (E.StringToUTF8 (cstr (psz.getD [])))))

/-- The group template at the end-of-record field of the record of `g`. -/
def readBackGroup (E : Env) (g : PW_GROUP) : PW_GROUP :=
  { uGroupId := g.uGroupId % U32, uImageId := g.uImageId % U32,
    pszGroupName := readBackText E g.pszGroupName,
    tCreation := TimeToPwTime (PwTimeToTime g.tCreation),
    tLastMod := TimeToPwTime (PwTimeToTime g.tLastMod),
    tLastAccess := TimeToPwTime (PwTimeToTime g.tLastAccess),
    tExpire := TimeToPwTime (PwTimeToTime g.tExpire),
    usLevel := g.usLevel % 65536, dwFlags := g.dwFlags % U32 }

/-- The entry template at the end-of-record field of the record of `e`. -/
def readBackEntry (E : Env) (e : PW_ENTRY) : PW_ENTRY :=
  { uuid := readBytes e.uuid 0 16, uGroupId := e.uGroupId % U32, uImageId := e.uImageId % U32,
    pszTitle := readBackText E e.pszTitle, pszURL := readBackText E e.pszURL,
    pszUserName := readBackText E e.pszUserName, uPasswordLen := 0,
    pszPassword := readBackText E e.pszPassword,
    pszAdditional := readBackText E e.pszAdditional,
    tCreation := TimeToPwTime (PwTimeToTime e.tCreation),
    tLastMod := TimeToPwTime (PwTimeToTime e.tLastMod),
    tLastAccess := TimeToPwTime (PwTimeToTime e.tLastAccess),
    tExpire := TimeToPwTime (PwTimeToTime e.tExpire),
    pszBinaryDesc := readBackText E e.pszBinaryDesc,
    pBinaryData := if e.uBinaryDataLen != 0 then some (binaryPayload e) else none,
    uBinaryDataLen := e.uBinaryDataLen }

/-! ## Databases that a file can hold -/

/-- A text that the file format keeps: no zero code unit, and the UTF-8
helpers of the environment bring it back. -/
def Utf8Safe (E : Env) (s : List Nat) : Prop :=
  cstr s = s ∧ E.UTF8ToString (cstr (E.StringToUTF8 s)) = s

/-- A timestamp within the bit widths of the packed form. -/
def TimeStorable (t : PW_TIME) : Prop :=
  t.shYear < 16384 ∧ t.btMonth < 16 ∧ t.btDay < 32 ∧ t.btHour < 32 ∧ t.btMinute < 64
    ∧ t.btSecond < 64

/-- A group as `SetGroup` stores it from well-typed values: the id is a
`DWORD` other than the two sentinels, the other numbers fit their types (the
level below the `USHORT` maximum), the name is a text the format keeps, the
timestamps fit the packed form. -/
def GroupStorable (E : Env) (g : PW_GROUP) : Prop :=
  g.uGroupId ≠ 0 ∧ g.uGroupId < DWORD_MAX ∧ g.uImageId < U32 ∧ g.usLevel < 65535
    ∧ g.dwFlags < U32 ∧ (∃ s, g.pszGroupName = some s ∧ Utf8Safe E s)
    ∧ TimeStorable g.tCreation ∧ TimeStorable g.tLastMod ∧ TimeStorable g.tLastAccess
    ∧ TimeStorable g.tExpire

/-- An entry as `SetEntry` stores it from well-typed values, in the database
`m`: the UUID has 16 bytes and is not zero, the group id is that of a group of
`m`, the numbers fit their types, the texts (the password once unlocked) are
texts the format keeps, the password length is that of the stored buffer, the
timestamps fit the packed form, the attachment is absent with length 0 or
present with its length, and the entry is not a meta-stream. -/
def EntryStorable (E : Env) (m : CPwManager) (e : PW_ENTRY) : Prop :=
  e.uuid.length = 16 ∧ e.uuid ≠ g_uuidZero
    ∧ e.uGroupId ≠ 0 ∧ e.uGroupId < DWORD_MAX ∧ (∃ g ∈ m.m_pGroups, g.uGroupId = e.uGroupId)
    ∧ e.uImageId < U32
    ∧ (∃ s, e.pszTitle = some s ∧ Utf8Safe E s) ∧ (∃ s, e.pszURL = some s ∧ Utf8Safe E s)
    ∧ (∃ s, e.pszUserName = some s ∧ Utf8Safe E s)
    ∧ (∃ s, e.pszAdditional = some s ∧ Utf8Safe E s)
    ∧ (∃ s, e.pszBinaryDesc = some s ∧ Utf8Safe E s)
    ∧ (∃ pw, e.pszPassword = some pw ∧ e.uPasswordLen = pw.length
        ∧ Utf8Safe E (xorStream (E.arcfourStream m.m_pSessionKey) 0 pw.length pw))
    ∧ TimeStorable e.tCreation ∧ TimeStorable e.tLastMod ∧ TimeStorable e.tLastAccess
    ∧ TimeStorable e.tExpire
    ∧ ((e.pBinaryData = none ∧ e.uBinaryDataLen = 0)
      ∨ (∃ d, e.pBinaryData = some d ∧ d.length = e.uBinaryDataLen ∧ e.uBinaryDataLen ≠ 0))
    ∧ CPwManager._IsMetaStream e = false

/-- The shape of the entries that `_AddMetaStream` stores: the four marker
texts, image 0, a non-empty attachment, and a group id that is no sentinel. -/
def MetaLike (x : PW_ENTRY) : Prop :=
  x.pszTitle = some PMS_ID_TITLE ∧ x.pszUserName = some PMS_ID_USER
    ∧ x.pszURL = some PMS_ID_URL ∧ x.pszBinaryDesc = some PMS_ID_BINDESC
    ∧ x.uImageId = 0 ∧ x.uBinaryDataLen ≠ 0 ∧ x.uGroupId ≠ 0 ∧ x.uGroupId < DWORD_MAX

/-- The four marker texts of a meta-stream are texts the format keeps. -/
def MarkersSafe (E : Env) : Prop :=
  Utf8Safe E PMS_ID_TITLE ∧ Utf8Safe E PMS_ID_USER ∧ Utf8Safe E PMS_ID_URL
    ∧ Utf8Safe E PMS_ID_BINDESC

/-- What `SaveDatabase` and `OpenDatabase` rely on from a padding block cipher
(`PadEncrypt` / `PadDecrypt` of `CRijndael` and `CTwofish`), for a cleartext of
at most 2147483430 bytes: the encrypted size is the next multiple of 16 above
the cleartext size, and decrypting the encrypted bytes leaves the cleartext at
the start of the output buffer and returns its size. -/
def PadContract (enc dec : List Nat → List Nat → List Nat → List Nat × Nat) : Prop :=
  ∀ key iv p, p.length ≤ 2147483430 →
    p.length < (enc key iv p).2 ∧ (enc key iv p).2 ≤ p.length + 16 ∧ (enc key iv p).2 % 16 = 0
    ∧ ∃ pad, dec key iv (readBytes (enc key iv p).1 0 (enc key iv p).2) = (p ++ pad, p.length)

/-- The contract of the two block ciphers of the environment: both are padding
ciphers as above, and a key and IV that initialise `CRijndael` for encryption
initialise it for decryption. -/
def CipherContract (E : Env) : Prop :=
  PadContract E.rijndaelPadEncrypt E.rijndaelPadDecrypt
    ∧ PadContract E.twofishPadEncrypt E.twofishPadDecrypt
    ∧ ∀ key iv, E.rijndaelInitCBC true key iv = true → E.rijndaelInitCBC false key iv = true

/-- A database whose only group is stored at level 5. -/
def sampleDeep : CPwManager :=
  { sampleEmpty with m_pGroups := [sampleGroupAt "Deep" 31 5] }

/-- The file `SaveDatabase` writes for `sampleDeep`. -/
def sampleDeepFile : List Nat :=
  ((sampleDeep.SaveDatabase (sampleEnv none) sampleRand (some (tstr "f"))).bind
    (fun x => x.2.2.2)).getD []

/-- A database with the group "General" and the entry "Gmail" that `AddEntry`
stored in it. -/
def sampleVault : CPwManager :=
  (CPwManager.AddEntry (sampleEnv none) { sampleEmpty with m_pGroups := [sampleGroup] }
    sampleRand sampleEntry).2.1

/-- What `SaveDatabase` returns for `sampleVault`. -/
def sampleVaultSaved : PWE × CPwManager × Rand × Option (List Nat) :=
  (sampleVault.SaveDatabase (sampleEnv none) sampleRand (some (tstr "f"))).getD
    (PWE.UNKNOWN, sampleEmpty, sampleRand, none)

/-- The file `SaveDatabase` writes for `sampleVault`. -/
def sampleVaultFile : List Nat := sampleVaultSaved.2.2.2.getD []

/-- The file of the sample vault with both cipher bits set in the header flags. -/
def sampleBothBits : List Nat :=
  PW_DBHEADER.toBytes
    { PW_DBHEADER.ofBytes sampleVaultFile with
      dwFlags := PWM_FLAG_SHA2 ||| PWM_FLAG_RIJNDAEL ||| PWM_FLAG_TWOFISH }
    ++ sampleVaultFile.drop sizeofHeader

/-- The sample environment with a `CRijndael::Init` that fails in CBC mode. -/
def sampleEnvNoAes : Env := { sampleEnv none with rijndaelInitCBC := fun _ _ _ => false }

/-- The sample environment with a `CTwofish::Init` that fails. -/
def sampleEnvNoTwofish : Env := { sampleEnv none with twofishInit := fun _ _ => false }

/-- The record `msUnknown` that `_ParseMetaStream` builds from an entry: the
notes as the name, `uBinaryDataLen` bytes of the attachment as the data. -/
def msUnknownOf (p : PW_ENTRY) : PWDB_META_STREAM :=
  { strName := cstr (p.pszAdditional.getD []),
    vData := readBytes (p.pBinaryData.getD []) 0 p.uBinaryDataLen }

/-- The meta-streams of an entry array in the order in which
`_LoadAndRemoveAllMetaStreams` parses them: from the last entry down. -/
def metaStreamsParsed (es : List PW_ENTRY) : List PW_ENTRY :=
  es.reverse.filter CPwManager._IsMetaStream

/-- Whether `_ParseMetaStream` takes an entry for the UI-state stream. -/
def isSimpleState (p : PW_ENTRY) : Bool :=
  _tcscmp (p.pszAdditional.getD []) PMS_STREAM_SIMPLESTATE == 0

/-- The sample vault holding two unknown meta-streams, "A" and "B". -/
def sampleTwoStreams : CPwManager :=
  { sampleVault with m_vUnknownMetaStreams := [⟨tstr "A", [1]⟩, ⟨tstr "B", [2, 3]⟩] }

/-- The sample vault holding two custom-icon streams with the same payload and
the stream "B" between them. -/
def sampleIcons : CPwManager :=
  { sampleVault with
    m_vUnknownMetaStreams :=
      [⟨PMS_STREAM_KPXICON2, [7, 7]⟩, ⟨tstr "B", [2, 3]⟩, ⟨PMS_STREAM_KPXICON2, [7, 7]⟩] }

/-- The database `_AddAllMetaStreams` makes of a database, with the vector of
unknown meta-streams emptied, as a load finds it. -/
def injected (E : Env) (m : CPwManager) (r : Rand) : CPwManager :=
  { (m._AddAllMetaStreams E r).2.1 with m_vUnknownMetaStreams := [] }

/-- The sample vault holding two custom-icon streams with the same payload,
one after the other. -/
def sampleIconPair : CPwManager :=
  { sampleVault with
    m_vUnknownMetaStreams := [⟨PMS_STREAM_KPXICON2, [7, 7]⟩, ⟨PMS_STREAM_KPXICON2, [7, 7]⟩] }

/-! ## Moving entries -/

/-- The method `CPwManager::MoveInternal`; the indices fit the `LONG` they are
cast to. -/
def CPwManager.MoveInternal (m : CPwManager) (dwFrom dwTo : Nat) : CPwManager :=
  if dwFrom == dwTo then m
  else if dwFrom >= m.m_pEntries.length then m
  else if dwTo >= m.m_pEntries.length then m
  else
    let entries := if dwFrom < dwTo then moveUp (dwTo - dwFrom) dwFrom m.m_pEntries
                   else moveDown (dwFrom - dwTo) dwFrom m.m_pEntries
    { m with m_pEntries := entries }

/-- The loop of `GetEntryByGroupN`, carrying `uCurrentEntry` and
`uEntryInGroupCounter`. -/
def CPwManager.GetEntryByGroupN.loop (idGroup dwIndex : Nat) : Nat → Nat → List PW_ENTRY → Nat
  | _, _, [] => DWORD_MAX
  | uCurrentEntry, uEntryInGroupCounter, e :: es =>
    if idGroup == e.uGroupId then
      if dwIndex == uEntryInGroupCounter then uCurrentEntry
      else CPwManager.GetEntryByGroupN.loop idGroup dwIndex (uCurrentEntry + 1)
        (uEntryInGroupCounter + 1) es
    else CPwManager.GetEntryByGroupN.loop idGroup dwIndex (uCurrentEntry + 1)
      uEntryInGroupCounter es

/-- The method `CPwManager::GetEntryByGroupN`. -/
def CPwManager.GetEntryByGroupN (m : CPwManager) (idGroup dwIndex : Nat) : Nat :=
  if idGroup == DWORD_MAX then DWORD_MAX
  else if dwIndex >= m.m_pEntries.length then DWORD_MAX
  else CPwManager.GetEntryByGroupN.loop idGroup dwIndex 0 0 m.m_pEntries

/-- The method `CPwManager::MoveInGroup`. -/
def CPwManager.MoveInGroup (m : CPwManager) (idGroup dwFrom dwTo : Nat) : CPwManager :=
  if dwFrom >= m.m_pEntries.length || dwFrom == DWORD_MAX then m
  else if dwTo >= m.m_pEntries.length || dwTo == DWORD_MAX then m
  else if dwFrom == dwTo then m
  else
    let dwFromEx := m.GetEntryByGroupN idGroup dwFrom
    let dwToEx := m.GetEntryByGroupN idGroup dwTo
    if dwFromEx == DWORD_MAX || dwToEx == DWORD_MAX then m
    else m.MoveInternal dwFromEx dwToEx

/-- A database with five entries of two groups, told apart by their image ids. -/
def sampleFive : CPwManager :=
  { sampleTree with
    m_pEntries := [{ sampleEntry with uGroupId := 11, uImageId := 0 },
                   { sampleEntry with uGroupId := 12, uImageId := 1 },
                   { sampleEntry with uGroupId := 11, uImageId := 2 },
                   { sampleEntry with uGroupId := 12, uImageId := 3 },
                   { sampleEntry with uGroupId := 11, uImageId := 4 }] }

/-! ## Searching -/

/-- The bits of the field mask of `Find` (`PWMF_TITLE` and its siblings are
macros of PwManager.h, whose values the method does not depend on). -/
structure PWMF where
  /-- The bit `PWMF_TITLE`. -/
  PWMF_TITLE : Nat
  /-- The bit `PWMF_USER`. -/
  PWMF_USER : Nat
  /-- The bit `PWMF_URL`. -/
  PWMF_URL : Nat
  /-- The bit `PWMF_PASSWORD`. -/
  PWMF_PASSWORD : Nat
  /-- The bit `PWMF_ADDITIONAL`. -/
  PWMF_ADDITIONAL : Nat
  /-- The bit `PWMF_GROUPNAME`. -/
  PWMF_GROUPNAME : Nat

/-- The text starts with the given characters. -/
def startsWith : List Nat → List Nat → Bool
  | _, [] => true
  | [], _ :: _ => false
  | h :: hs, n :: ns => h == n && startsWith hs ns

/-- The scan of `CString::Find(strSub)` from position `i` on: the position of
the first occurrence of `strSub`, or -1. -/
def CStringFind.scan (strSub : List Nat) : Nat → List Nat → Int
  | i, [] => if startsWith [] strSub then (i : Int) else -1
  | i, c :: cs => if startsWith (c :: cs) strSub then (i : Int)
                  else CStringFind.scan strSub (i + 1) cs

/-- The call `str.Find(strSub)` of `CString`. -/
def CStringFind (str strSub : List Nat) : Int := CStringFind.scan strSub 0 str

/-- The assignment of a text pointer to a `CString` (nothing for `NULL`),
followed by `MakeLower()` when the search is not case sensitive. -/
def Find.text (bCaseSensitive : Bool) (psz : Option (List Nat)) : List Nat :=
  let str := cstr (psz.getD [])
  if bCaseSensitive == false then str.map tolower else str

/-- The test `strEntry.Find(strFind) != -1` of `Find` for one field. -/
def Find.hit (bCaseSensitive : Bool) (strFind : List Nat) (psz : Option (List Nat)) : Bool :=
  CStringFind (Find.text bCaseSensitive psz) strFind != -1

/-- The body of the loop of `Find` for the entry `e` at index `i`: the flag
tells whether the method returns `i`, the database is the one the body leaves
(the password is unlocked and locked again in place).  `none` stands for the
read through the `NULL` that `GetGroup` returns when the group of the entry
does not exist, which the method only asserts not to happen. -/
def Find.step (E : Env) (F : PWMF) (m : CPwManager) (bCaseSensitive : Bool)
    (fieldFlags : Nat) (strFind : List Nat) (i : Nat) (e : PW_ENTRY) :
    Option (Bool × CPwManager) :=
  if fieldFlags &&& F.PWMF_TITLE != 0 && Find.hit bCaseSensitive strFind e.pszTitle then
    some (true, m)
  else if fieldFlags &&& F.PWMF_USER != 0 && Find.hit bCaseSensitive strFind e.pszUserName then
    some (true, m)
  else if fieldFlags &&& F.PWMF_URL != 0 && Find.hit bCaseSensitive strFind e.pszURL then
    some (true, m)
  else
    let unlocked := m.UnlockEntryPassword E e
    let e1 := if fieldFlags &&& F.PWMF_PASSWORD != 0 then m.LockEntryPassword E unlocked else e
    let m1 : CPwManager := { m with m_pEntries := m.m_pEntries.set i e1 }
    if fieldFlags &&& F.PWMF_PASSWORD != 0
        && Find.hit bCaseSensitive strFind unlocked.pszPassword then
      some (true, m1)
    else if fieldFlags &&& F.PWMF_ADDITIONAL != 0
        && Find.hit bCaseSensitive strFind e1.pszAdditional then
      some (true, m1)
    else if fieldFlags &&& F.PWMF_GROUPNAME != 0 then
      match m1.GetGroup (m1.GetGroupByIdN e1.uGroupId) with
      | none => none
      | some g =>
        if Find.hit bCaseSensitive strFind g.pszGroupName then some (true, m1)
        else some (false, m1)
    else some (false, m1)

/-- The loop `for(i = nStart; i < m_dwNumEntries; i++)` of `Find`, with the
number of entries still to visit. -/
def Find.loop (E : Env) (F : PWMF) (bCaseSensitive : Bool) (fieldFlags : Nat)
    (strFind : List Nat) : Nat → Nat → CPwManager → Option (Nat × CPwManager)
  | 0, _, m => some (DWORD_MAX, m)
  | n + 1, i, m =>
    match m.m_pEntries[i]? with
    | none => some (DWORD_MAX, m)
    | some e =>
      match Find.step E F m bCaseSensitive fieldFlags strFind i e with
      | none => none
      | some (true, m1) => some (i, m1)
      | some (false, m1) => Find.loop E F bCaseSensitive fieldFlags strFind n (i + 1) m1

/-- The method `CPwManager::Find`; the result is the returned index and the
database after the call, `none` when the method reads through `NULL`.  The
entry count fits the `int` it is cast to. -/
def CPwManager.Find (E : Env) (F : PWMF) (m : CPwManager) (pszFindString : Option (List Nat))
    (bCaseSensitive : Bool) (fieldFlags nStart : Nat) : Option (Nat × CPwManager) :=
  if nStart >= m.m_pEntries.length then some (DWORD_MAX, m)
  else
    match pszFindString with
    | none => some (DWORD_MAX, m)
    | some psz =>
      let strFind := Find.text bCaseSensitive (some psz)
      if strFind.length == 0 || strFind == tstr "*" then some (nStart, m)
      else Find.loop E F bCaseSensitive fieldFlags strFind (m.m_pEntries.length - nStart) nStart m

/-- The text `s` contains the needle as a substring, both taken in lower case
when the search is not case sensitive. -/
def Contains (bCaseSensitive : Bool) (needle : List Nat) (s : Option (List Nat)) : Prop :=
  ∃ pre post, Find.text bCaseSensitive s
    = pre ++ Find.text bCaseSensitive (some needle) ++ post

/-- Some field of the entry that the mask selects (title, user name, URL,
unlocked password, notes, name of the group of the entry) contains the needle. -/
def FindMatch (E : Env) (F : PWMF) (m : CPwManager) (bCaseSensitive : Bool) (fieldFlags : Nat)
    (needle : List Nat) (e : PW_ENTRY) : Prop :=
  (fieldFlags &&& F.PWMF_TITLE ≠ 0 ∧ Contains bCaseSensitive needle e.pszTitle)
  ∨ (fieldFlags &&& F.PWMF_USER ≠ 0 ∧ Contains bCaseSensitive needle e.pszUserName)
  ∨ (fieldFlags &&& F.PWMF_URL ≠ 0 ∧ Contains bCaseSensitive needle e.pszURL)
  ∨ (fieldFlags &&& F.PWMF_PASSWORD ≠ 0
      ∧ Contains bCaseSensitive needle (m.UnlockEntryPassword E e).pszPassword)
  ∨ (fieldFlags &&& F.PWMF_ADDITIONAL ≠ 0 ∧ Contains bCaseSensitive needle e.pszAdditional)
  ∨ (fieldFlags &&& F.PWMF_GROUPNAME ≠ 0
      ∧ ∃ g, m.GetGroupById e.uGroupId = some g ∧ Contains bCaseSensitive needle g.pszGroupName)

/-- The mask bits as PwManager.h of KeePass 1.x defines them. -/
def samplePWMF : PWMF :=
  { PWMF_TITLE := 1, PWMF_USER := 2, PWMF_URL := 4, PWMF_PASSWORD := 8, PWMF_ADDITIONAL := 16,
    PWMF_GROUPNAME := 32 }

/-- The sample tree with an entry of group 12 ("mail"), an entry of a group
that does not exist, and a second entry of group 12. -/
def sampleLost : CPwManager :=
  { sampleTree with
    m_pEntries := [{ sampleEntry with uGroupId := 12, pszTitle := some (tstr "Alpha") },
                   { sampleEntry with uGroupId := 99, pszTitle := some (tstr "Beta") },
                   { sampleEntry with uGroupId := 12, pszTitle := some (tstr "Gamma") }] }

/-- The sample tree with an entry of group 12. -/
def sampleOneEntry : CPwManager :=
  { sampleTree with m_pEntries := [{ sampleEntry with uGroupId := 12 }] }

/-! ## Sorting the entries of a group -/

/-- The comparison of the inner loop of `SortGroup` for the field selector
`dwSortByField`: whether `min = j` is assigned for the records `*p[j]` and
`*p[min]`.  Texts are compared with `_tcsicmp` (the password unlocked), times
with `_pwtimecmp`; selector 9 compares nothing and any other selector compares
the titles.  The text pointers of the records of the array are never `NULL`. -/
def SortGroup.takes (E : Env) (m : CPwManager) (dwSortByField : Nat) (pj pmin : PW_ENTRY) :
    Bool :=
  match dwSortByField with
  | 0 => decide (_tcsicmp (pj.pszTitle.getD []) (pmin.pszTitle.getD []) < 0)
  | 1 => decide (_tcsicmp (pj.pszUserName.getD []) (pmin.pszUserName.getD []) < 0)
  | 2 => decide (_tcsicmp (pj.pszURL.getD []) (pmin.pszURL.getD []) < 0)
  | 3 => decide (_tcsicmp ((m.UnlockEntryPassword E pj).pszPassword.getD [])
      ((m.UnlockEntryPassword E pmin).pszPassword.getD []) < 0)
  | 4 => decide (_tcsicmp (pj.pszAdditional.getD []) (pmin.pszAdditional.getD []) < 0)
  | 5 => decide (_pwtimecmp pj.tCreation pmin.tCreation > 0)
  | 6 => decide (_pwtimecmp pj.tLastMod pmin.tLastMod > 0)
  | 7 => decide (_pwtimecmp pj.tLastAccess pmin.tLastAccess > 0)
  | 8 => decide (_pwtimecmp pj.tExpire pmin.tExpire > 0)
  | 9 => false
  | _ => decide (_tcsicmp (pj.pszTitle.getD []) (pmin.pszTitle.getD []) < 0)

/-- The inner loop `for(j = i + 1; j < n; j++)` of `SortGroup` with `k` rounds
to go, carrying `min` and the entry array.  The pointer array `p` holds the
array indices of the entries of the group.  For selector 3 the two records are
unlocked before the comparison and locked again after it. -/
def SortGroup.inner (E : Env) (m : CPwManager) (dwSortByField : Nat) (p : List Nat) :
    Nat → Nat → Nat → List PW_ENTRY → Nat × List PW_ENTRY
  | 0, _, min, es => (min, es)
  | k + 1, j, min, es =>
    let pj := es.getD (p.getD j 0) PW_ENTRY.zero
    let pmin := es.getD (p.getD min 0) PW_ENTRY.zero
    let es1 :=
      if dwSortByField == 3 then
        (es.set (p.getD j 0) (m.LockEntryPassword E (m.UnlockEntryPassword E pj))).set
          (p.getD min 0) (m.LockEntryPassword E (m.UnlockEntryPassword E pmin))
      else es
    let min1 := if SortGroup.takes E m dwSortByField pj pmin then j else min
    SortGroup.inner E m dwSortByField p k (j + 1) min1 es1

/-- The outer loop `for(i = 0; i < (n - 1); i++)` of `SortGroup` with `k` rounds
to go: the selection of `min` and the exchange of `*p[min]` and `*p[i]`. -/
def SortGroup.outer (E : Env) (m : CPwManager) (dwSortByField : Nat) (p : List Nat) :
    Nat → Nat → List PW_ENTRY → List PW_ENTRY
  | 0, _, es => es
  | k + 1, i, es =>
    let res := SortGroup.inner E m dwSortByField p (p.length - (i + 1)) (i + 1) i es
    SortGroup.outer E m dwSortByField p k (i + 1)
      (CPwManager.swapAt res.2 (p.getD res.1 0) (p.getD i 0))

/-- The pointer array that `SortGroup` builds: the array indices of the entries
of the group, in array order. -/
def SortGroup.pointers (idGroup : Nat) (es : List PW_ENTRY) : List Nat :=
  (List.range es.length).filter (fun i => (es.getD i PW_ENTRY.zero).uGroupId == idGroup)

/-- The method `CPwManager::SortGroup`; the pointer array takes four bytes per
entry. -/
def CPwManager.SortGroup (E : Env) (m : CPwManager) (idGroup dwSortByField : Nat) : CPwManager :=
  if m.m_pEntries.length <= 1 then m
  else if !E.allocOk (4 * m.m_pEntries.length) then m
  else
    let p := SortGroup.pointers idGroup m.m_pEntries
    if p.length <= 1 then m
    else { m with m_pEntries := SortGroup.outer E m dwSortByField p (p.length - 1) 0 m.m_pEntries }

/-- The records `*p[0]`, `*p[1]`, ... that the pointer array points to. -/
def SortGroup.view (p : List Nat) (es : List PW_ENTRY) : List PW_ENTRY :=
  p.map (fun i => es.getD i PW_ENTRY.zero)

/-- The text of an entry that a selector of `SortGroup` names: 0 the title,
1 the user name, 2 the URL, 4 the notes. -/
def SortGroup.text (dwSortByField : Nat) (e : PW_ENTRY) : List Nat :=
  match dwSortByField with
  | 0 => e.pszTitle.getD []
  | 1 => e.pszUserName.getD []
  | 2 => e.pszURL.getD []
  | _ => e.pszAdditional.getD []

/-- An entry of group 12 with a title and an image id. -/
def sampleTitled (title : String) (image : Nat) : PW_ENTRY :=
  { sampleEntry with uGroupId := 12, pszTitle := some (tstr title), uImageId := image }

/-- The sample tree with three entries of group 12 titled "b", "B" and "a"
(image ids 1, 2, 3) and, between them, an entry of group 11. -/
def sampleTies : CPwManager :=
  { sampleTree with
    m_pEntries := [sampleTitled "b" 1, { sampleEntry with uGroupId := 11, uImageId := 9 },
                   sampleTitled "B" 2, sampleTitled "a" 3] }

/-! ## The outcome of a merge by UUID -/

/-- The entries of the source that a merge looks at: all but the meta-streams. -/
def mergeSource (src : CPwManager) : List PW_ENTRY :=
  src.m_pEntries.filter (fun e => !CPwManager._IsMetaStream e)

/-- The local entry `e` after `MergeIn` has replaced it by the source entry
`s`: the fields that `SetEntry` takes from the unlocked source entry, with the
time of the merge as last access. -/
def mergeReplace (E : Env) (m src : CPwManager) (e s : PW_ENTRY) : PW_ENTRY :=
  { CPwManager.SetEntry.fill E m e (src.UnlockEntryPassword E s) with tLastAccess := E.tNow }

/-- What a merge that compares times makes of the local entry `e`: the entry
is replaced by the source entry with its UUID when that one was modified
strictly later, and kept otherwise. -/
def mergeLocal (E : Env) (m src : CPwManager) (ss : List PW_ENTRY) (e : PW_ENTRY) : PW_ENTRY :=
  match ss.find? (fun s => s.uuid == e.uuid) with
  | some s => if _pwtimecmp e.tLastMod s.tLastMod < 0 then mergeReplace E m src e s else e
  | none => e

/-- The entry that `AddEntry` appends for the source entry `s`, which keeps
its UUID. -/
def mergeAppend (E : Env) (m src : CPwManager) (s : PW_ENTRY) : PW_ENTRY :=
  CPwManager.SetEntry.fill E m PW_ENTRY.zero
    (CPwManager.AddEntry.pT (src.UnlockEntryPassword E s) s.uuid)

/-- The source entries whose UUID no local entry has. -/
def mergeNew (m : CPwManager) (ss : List PW_ENTRY) : List PW_ENTRY :=
  ss.filter (fun s => !(m.m_pEntries.any (fun e => e.uuid == s.uuid)))

/-- A source entry that `SetEntry` and `AddEntry` accept as it is: a UUID, a
group id other than 0 and `DWORD_MAX`, and the five texts present. -/
def MergeReady (s : PW_ENTRY) : Prop :=
  s.uuid ≠ g_uuidZero ∧ s.uGroupId ≠ 0 ∧ s.uGroupId ≠ DWORD_MAX
  ∧ s.pszTitle.isNone = false ∧ s.pszUserName.isNone = false ∧ s.pszURL.isNone = false
  ∧ s.pszPassword.isNone = false ∧ s.pszAdditional.isNone = false

/-- An entry with every text set, for the merge examples: UUID of sixteen
bytes `u`, group 12, a title and a time of last modification. -/
def sampleMergeEntry (u : Nat) (title : String) (tLastMod : PW_TIME) : PW_ENTRY :=
  { sampleEntry with
    uuid := List.replicate 16 u, uGroupId := 12, pszTitle := some (tstr title),
    pszUserName := some (tstr "me"), pszURL := some (tstr ""), pszAdditional := some (tstr ""),
    tLastMod := tLastMod }

/-- The sample tree with one entry (UUID of bytes 1, title "old"). -/
def sampleMergeLocal : CPwManager :=
  { sampleTree with m_pEntries := [sampleMergeEntry 1 "old" sampleTime] }

/-- The sample tree with the same entry modified a year later (title "new") and
an entry with another UUID. -/
def sampleMergeSource : CPwManager :=
  { sampleTree with
    m_pEntries := [sampleMergeEntry 1 "new" ⟨2008, 1, 1, 1, 1, 1⟩,
                   sampleMergeEntry 2 "more" sampleTime] }

/-! ## Meta-stream examples -/

/-- An entry with the four marker texts and image 0 whose notes are the empty
text and whose attachment pointer is set with no byte behind it. -/
def sampleBareStream : PW_ENTRY :=
  { PW_ENTRY.zero with
    pszTitle := some PMS_ID_TITLE, pszUserName := some PMS_ID_USER, pszURL := some PMS_ID_URL,
    pszBinaryDesc := some PMS_ID_BINDESC, pszAdditional := some [], pBinaryData := some [],
    uBinaryDataLen := 0 }

/-- A meta-stream "Simple UI State" whose attachment has the ten bytes 1..10. -/
def sampleShortState : PW_ENTRY :=
  { sampleBareStream with
    pszAdditional := some PMS_STREAM_SIMPLESTATE,
    pBinaryData := some [1, 2, 3, 4, 5, 6, 7, 8, 9, 10], uBinaryDataLen := 10 }

/-! ## Walking the group tree -/

/-- The loop `while(1)` of `GetLastChildGroup` from index `i` on, over the
groups from that index; `DWORD_MAX` is returned after the `break` at the end of
the array. -/
def GetLastChildGroup.loop (usParentLevel : Nat) : Nat → List PW_GROUP → Nat
  | _, [] => DWORD_MAX
  | i, g :: rest =>
    if g.usLevel ≤ usParentLevel then i - 1
    else GetLastChildGroup.loop usParentLevel (i + 1) rest

/-- The method `CPwManager::GetLastChildGroup`. -/
def CPwManager.GetLastChildGroup (m : CPwManager) (dwParentGroupIndex : Nat) : Nat :=
  if m.m_pGroups.length ≤ 1 then 0
  else if dwParentGroupIndex == m.m_pGroups.length - 1 then m.m_pGroups.length - 1
  else if dwParentGroupIndex > m.m_pGroups.length - 1 then DWORD_MAX
  else
    let usParentLevel := (m.m_pGroups.getD dwParentGroupIndex PW_GROUP.zero).usLevel
    GetLastChildGroup.loop usParentLevel (dwParentGroupIndex + 1)
      (m.m_pGroups.drop (dwParentGroupIndex + 1))

/-- One pass of the loop `while(1)` of `GetGroupTree` at index `i`, up to the
test `i == 0`: whether the loop is left with `break`, `usLevel` and the array
`pGroupIndexes`.  The comparison `m_pGroups[i].usLevel == (usLevel - 1)` is
one of `int`s. -/
def GetGroupTree.visit (groups : List PW_GROUP) (i usLevel : Nat) (out : List Nat) :
    Bool × Nat × List Nat :=
  if (((groups.getD i PW_GROUP.zero).usLevel : Int) == (usLevel : Int) - 1) then
    (usLevel - 1 == 0, usLevel - 1, out.set (usLevel - 1) i)
  else (false, usLevel, out)

/-- The loop `while(1)` of `GetGroupTree`, with `i` counting down. -/
def GetGroupTree.loop (groups : List PW_GROUP) : Nat → Nat → List Nat → Bool × List Nat
  | 0, usLevel, out =>
    let v := GetGroupTree.visit groups 0 usLevel out
    if v.1 then (true, v.2.2) else (false, v.2.2)
  | i + 1, usLevel, out =>
    let v := GetGroupTree.visit groups (i + 1) usLevel out
    if v.1 then (true, v.2.2) else GetGroupTree.loop groups i v.2.1 v.2.2

/-- The method `CPwManager::GetGroupTree` for an array `pGroupIndexes` that is
not `NULL`, given by its slots (a write past them does not land in it).  The
result is the returned flag and the array. -/
def CPwManager.GetGroupTree (m : CPwManager) (idGroup : Nat) (pGroupIndexes : List Nat) :
    Bool × List Nat :=
  let dwGroupPos := m.GetGroupByIdN idGroup
  if dwGroupPos == DWORD_MAX then (false, pGroupIndexes)
  else
    let usLevel := ((m.m_pGroups.getD dwGroupPos PW_GROUP.zero).usLevel + 1) % 65536
    GetGroupTree.loop m.m_pGroups dwGroupPos usLevel pGroupIndexes

/-- A group with nothing but a level. -/
def levelGroup (usLevel : Nat) : PW_GROUP := { PW_GROUP.zero with usLevel := usLevel }

/-- A database of 65537 groups: the levels 0, 1, ..., 65535, then a group of
level 5. -/
def sampleStaircase : CPwManager :=
  { sampleEmpty with m_pGroups := (List.range 65536).map levelGroup ++ [levelGroup 5] }

/-- A database with the group "Net" (level 0) and its child "mail" (level 1). -/
def sampleTwoLevels : CPwManager :=
  { sampleEmpty with m_pGroups := [sampleGroupAt "Net" 11 0, sampleGroupAt "mail" 12 1] }

/-- A database with the groups "Net" (id 11, level 0), "Home" (id 12, level 0)
and "mail" (id 11 again, level 1). -/
def sampleTwins : CPwManager :=
  { sampleEmpty with
    m_pGroups := [sampleGroupAt "Net" 11 0, sampleGroupAt "Home" 12 0,
      sampleGroupAt "mail" 11 1] }

/-! ## The sizes of `SaveDatabase` -/

/-- The value of `uFileSize` after the two sizing loops of `SaveDatabase`, for
the database `m` that `_AddAllMetaStreams` has left; the sum is a `DWORD`. -/
def SaveDatabase.sized (E : Env) (m : CPwManager) : Nat :=
  (sizeofHeader + (m.m_pGroups.map (CPwManager.SaveDatabase.groupSize E)).sum
    + (m.m_pEntries.map (fun e =>
        CPwManager.SaveDatabase.entrySize E (m.UnlockEntryPassword E e))).sum) % U32

/-- The value of `uFileSize` after
`uFileSize = (uFileSize + 16) - (uFileSize % 16)`. -/
def SaveDatabase.rounded (E : Env) (m : CPwManager) : Nat :=
  ((SaveDatabase.sized E m + 16) % U32 + U32 - SaveDatabase.sized E m % 16) % U32

/-- The value of `uAllocated = uFileSize + 16`. -/
def SaveDatabase.allocated (E : Env) (m : CPwManager) : Nat :=
  (SaveDatabase.rounded E m + 16) % U32

/-- The value of `pos` after the store loops of `SaveDatabase`, a `DWORD`: it
starts at the size of the header and every field a loop writes adds its bytes
(the sizing loop has unlocked and locked every password). -/
def SaveDatabase.written (E : Env) (m : CPwManager) : Nat :=
  (sizeofHeader
    + (CPwManager.SaveDatabase.payload E (CPwManager.SaveDatabase.relock E m)).length) % U32

/-- An entry template for group 11 with an attachment of `n` zero bytes,
described as "a.bin". -/
def sampleHugeEntry (n : Nat) : PW_ENTRY :=
  { sampleEntry with
    uGroupId := 11, pszBinaryDesc := some (tstr "a.bin"),
    pBinaryData := some (List.replicate n 0), uBinaryDataLen := n }

/-- One call `AddEntry` with the template `sampleHugeEntry n`; the flag says
whether this call and the ones before have returned `TRUE`. -/
def sampleHugeStore (res : Bool × CPwManager × Rand) (n : Nat) : Bool × CPwManager × Rand :=
  let next := CPwManager.AddEntry (sampleEnv none) res.2.1 res.2.2 (sampleHugeEntry n)
  (res.1 && next.1, next.2.1, next.2.2)

/-- Four calls `AddEntry` on the sample tree: three attachments of 1 GiB and
one of 1073740448 bytes. -/
def sampleHugeStored : Bool × CPwManager × Rand :=
  [1073741824, 1073741824, 1073741824, 1073740448].foldl sampleHugeStore
    (true, sampleTree, sampleRand)

/-- The sample tree with the four entries that `AddEntry` has stored in it. -/
def sampleHuge : CPwManager := sampleHugeStored.2.1

/-! ## A file whose first field never ends -/

/-- Sixteen bytes of cleartext: a field of type `0x0000` with the declared size
`0xFFFFFFFA`, then ten zero bytes. -/
def sampleEndlessFields : List Nat := [0, 0, 0xFA, 0xFF, 0xFF, 0xFF] ++ List.replicate 10 0

/-- A file whose header announces one group and whose payload is
`sampleEndlessFields`, with the matching contents hash. -/
def sampleEndless : List Nat :=
  PW_DBHEADER.toBytes
    { sampleHeader with
      dwGroups := 1, aContentsHash := (sampleEnv none).sha256 sampleEndlessFields }
    ++ (samplePadEncrypt sampleEndlessFields).1

/-! ## Fields of unknown type -/

/-- The field types `ReadGroupField` has a case for. -/
def groupFieldTypes : List Nat :=
  [0x0000, 0x0001, 0x0002, 0x0003, 0x0004, 0x0005, 0x0006, 0x0007, 0x0008, 0x0009, 0xFFFF]

/-- The field types `ReadEntryField` has a case for. -/
def entryFieldTypes : List Nat :=
  [0x0000, 0x0001, 0x0002, 0x0003, 0x0004, 0x0005, 0x0006, 0x0007, 0x0008, 0x0009, 0x000A,
    0x000B, 0x000C, 0x000D, 0x000E, 0xFFFF]

/-- Whether the payload of a group field (type, payload) holds all that
`ReadGroupField` takes from `pData`: four bytes of an id, image id or flags, a
text up to its `NUL`, five bytes of a time, two bytes of a level. -/
def groupFieldContained (f : Nat × List Nat) : Bool :=
  if f.1 == 0x0001 || f.1 == 0x0007 || f.1 == 0x0009 then decide (4 ≤ f.2.length)
  else if f.1 == 0x0002 then f.2.contains 0
  else if f.1 == 0x0003 || f.1 == 0x0004 || f.1 == 0x0005 || f.1 == 0x0006 then
    decide (5 ≤ f.2.length)
  else if f.1 == 0x0008 then decide (2 ≤ f.2.length)
  else true

/-- Whether the payload of an entry field (type, payload) holds all that
`ReadEntryField` takes from `pData`. -/
def entryFieldContained (f : Nat × List Nat) : Bool :=
  if f.1 == 0x0001 then decide (16 ≤ f.2.length)
  else if f.1 == 0x0002 || f.1 == 0x0003 then decide (4 ≤ f.2.length)
  else if f.1 == 0x0004 || f.1 == 0x0005 || f.1 == 0x0006 || f.1 == 0x0007 || f.1 == 0x0008
      || f.1 == 0x000D then f.2.contains 0
  else if f.1 == 0x0009 || f.1 == 0x000A || f.1 == 0x000B || f.1 == 0x000C then
    decide (5 ≤ f.2.length)
  else true

/-- What the load stage of `OpenDatabase` makes of a memory file that holds the
group fields `gfs`, the entry fields `efs` and `tail` after the header: the
calls of `ReadGroupField` and `ReadEntryField` on the fields, then the
meta-streams, the lost entries and the group tree. -/
def loadFields (E : Env) (hdr : PW_DBHEADER) (gfs efs : List (Nat × List Nat))
    (tail : List Nat) (m2 : CPwManager) (r : Rand) (rep1 : PWDB_REPAIR_INFO) :
    Option (PWE × CPwManager × Rand × PWDB_REPAIR_INFO) :=
  match readGroupFields E (fieldBytes efs ++ tail) gfs 0 m2.NewDatabase r
      RESET_PWG_TEMPLATE with
  | none => none
  | some g =>
    let e := readEntryFields E tail efs 0 g.2.1 g.2.2.1 RESET_PWE_TEMPLATE
    let m6 : CPwManager := { e.2.1 with m_dbLastHeader := hdr }
    match m6._LoadAndRemoveAllMetaStreams true with
    | none => none
    | some (_, m7) =>
      match m7.DeleteLostEntries with
      | none => none
      | some (_, m8) => some (PWE.SUCCESS, m8.FixGroupTree, e.2.2.1, rep1)

/-- A memory file: `head` in place of the header, the group fields, the entry
fields, and what follows them. -/
def tlvImage (head : List Nat) (gfs efs : List (Nat × List Nat)) (tail : List Nat) : List Nat :=
  head ++ fieldBytes gfs ++ fieldBytes efs ++ tail

/-- A memory file of `uFileSize` bytes holds the group fields `gfs` and the
entry fields `efs` as its header announces them: the types are 16-bit, the
fields end with an end-of-record field, there are as many records as the header
says, the fields end before `uFileSize`, which is at most `2^31`; `fuel` is
more than the number of fields. -/
def FieldsFit (hdr : PW_DBHEADER) (gfs efs : List (Nat × List Nat)) (uFileSize fuel : Nat) :
    Prop :=
  (∀ x ∈ gfs ++ efs, x.1 < 65536)
  ∧ gfs.getLast?.all (fun x => x.1 == 0xFFFF) = true
  ∧ efs.getLast?.all (fun x => x.1 == 0xFFFF) = true
  ∧ (gfs.filter (fun x => x.1 == 0xFFFF)).length = hdr.dwGroups
  ∧ (efs.filter (fun x => x.1 == 0xFFFF)).length = hdr.dwEntries
  ∧ sizeofHeader + (fieldBytes gfs).length + (fieldBytes efs).length < uFileSize
  ∧ uFileSize ≤ 2147483648 ∧ gfs.length + efs.length < fuel

/-- The fields of a group record whose name, "ab", is stored without its `NUL`. -/
def sampleOpenName : List (Nat × List Nat) :=
  [(0x0001, leBytes 4 21), (0x0002, [97, 98]), (0xFFFF, [])]

/-- The same record with a field of the unknown type `0x1234` after the name. -/
def sampleOpenNameMore : List (Nat × List Nat) :=
  [(0x0001, leBytes 4 21), (0x0002, [97, 98]), (0x1234, []), (0xFFFF, [])]

/-- The fields of a group record whose name, "ab", is stored with its `NUL`. -/
def sampleClosedName : List (Nat × List Nat) := [(0x0001, leBytes 4 21), (0x0002, [97, 98, 0])]

/-- A header that announces one group and no entry. -/
def sampleOneGroupHeader : PW_DBHEADER := { sampleHeader with dwGroups := 1 }

/-- A memory file: 124 bytes in place of the header, the group fields, no
entry field, 16 zero bytes. -/
def sampleImage (fs : List (Nat × List Nat)) : List Nat :=
  tlvImage (List.replicate 124 0) fs [] (List.replicate 16 0)

/-- The names of the groups a load of `sampleImage fs` leaves. -/
def sampleImageNames (fs : List (Nat × List Nat)) : Option (List (Option (List Nat))) :=
  (CPwManager.OpenDatabase.load (sampleEnv none) false (sampleImage fs)
      (sampleImage fs).length sampleOneGroupHeader 10 sampleEmpty sampleRand ⟨0, 0, 0⟩).map
    (fun x => x.2.1.m_pGroups.map (fun g => g.pszGroupName))

/-! ## A merge that finds nothing to do -/

/-- The first group of `gs` with the id of `g` was modified no earlier than
`g`: a merge that compares times leaves it alone. -/
def GroupSettled (gs : List PW_GROUP) (g : PW_GROUP) : Prop :=
  ∃ (k : Nat) (grp : PW_GROUP), gs[k]? = some grp ∧ grp.uGroupId = g.uGroupId
    ∧ (∀ (j : Nat) (x : PW_GROUP), j < k → gs[j]? = some x → x.uGroupId ≠ g.uGroupId)
    ∧ 0 ≤ _pwtimecmp grp.tLastMod g.tLastMod

/-- The first entry of `es` with the UUID of `s` was modified no earlier than
`s`. -/
def EntrySettled (es : List PW_ENTRY) (s : PW_ENTRY) : Prop :=
  ∃ (k : Nat) (e : PW_ENTRY), es[k]? = some e ∧ e.uuid = s.uuid
    ∧ (∀ (j : Nat) (x : PW_ENTRY), j < k → es[j]? = some x → x.uuid ≠ s.uuid)
    ∧ 0 ≤ _pwtimecmp e.tLastMod s.tLastMod

/-- The sample environment at a later time. -/
def sampleEnvLater : Env := { sampleEnv none with tNow := ⟨2030, 6, 7, 8, 9, 10⟩ }

/-! ## A merge that assigns new ids -/

/-- How many of the values `xs` of the generator are usable as new ids when the
ids `avoid` are taken: a value is usable when, as a `DWORD`, it is none of
them, and it is taken from then on. -/
def freshCount : List Nat → List Nat → Nat
  | _, [] => 0
  | avoid, x :: xs =>
    if x % U32 ∈ avoid then freshCount avoid xs else freshCount (x % U32 :: avoid) xs + 1

/-- The group that `AddGroup` stores for the source group `g` under the id `id`. -/
def importedGroup (g : PW_GROUP) (id : Nat) : PW_GROUP :=
  CPwManager.SetGroup.fill { g with uGroupId := id }

/-- One call of `SubstEntryGroupIds` on an entry: the pair is the existing id
and the new id. -/
def substGroupId (e : PW_ENTRY) (p : Nat × Nat) : PW_ENTRY :=
  if e.uGroupId == p.1 then { e with uGroupId := p.2 } else e

/-- New ids `ids` for the source groups `R`, handled in this order while the
ids `taken` are in use locally: each id is neither 0 nor `DWORD_MAX`, is not
taken, is not the id of a source group that comes later, and is taken from
then on. -/
def FreshIds : List Nat → List PW_GROUP → List Nat → Prop
  | _, [], [] => True
  | taken, _ :: R, t :: ids =>
    t ≠ 0 ∧ t ≠ DWORD_MAX ∧ t ∉ taken ∧ (∀ h ∈ R, h.uGroupId ≠ t)
      ∧ FreshIds (taken ++ [t]) R ids
  | _, _, _ => False

/-- The entry that `AddEntry` stores for the source entry `s` when new ids are
assigned: the unlocked source entry, in the group with the new id of the first
source group that has its group id, under the UUID `u`. -/
def importedEntry (E : Env) (m src : CPwManager) (ids : List Nat) (s : PW_ENTRY)
    (u : List Nat) : PW_ENTRY :=
  let moved : PW_ENTRY :=
    { src.UnlockEntryPassword E s with
      uGroupId := ids.getD (src.GetGroupByIdN s.uGroupId) 0 }
  CPwManager.SetEntry.fill E m PW_ENTRY.zero (CPwManager.AddEntry.pT moved u)

/-- A database whose only group, id 11, stands at level 5. -/
def sampleFreshLocal : CPwManager :=
  { sampleEmpty with m_pGroups := [sampleGroupAt "Old" 11 5] }

/-- A source with one group, id 17, and one entry in it. -/
def sampleFreshSource : CPwManager :=
  { sampleEmpty with
    m_pGroups := [sampleGroupAt "In" 17 0],
    m_pEntries := [{ sampleMergeEntry 1 "new" sampleTime with uGroupId := 17 }] }

/-- A random source whose generator delivers 17, 12, 23, 31 and 37. -/
def sampleRandFresh : Rand := { sampleRand with xorShift := [17, 12, 23, 31, 37] }

/-! ## The tree of the group array -/

/-- The name of a group as a C string. -/
def groupName (g : PW_GROUP) : List Nat := cstr (g.pszGroupName.getD [])

/-- The ancestors of the groups of an array, each chain root first, given the
chain `stack` of the group before with that group appended: a group at level
`l` has the first `l` groups of it as ancestors. -/
def groupAncestors : List PW_GROUP → List PW_GROUP → List (List PW_GROUP)
  | _, [] => []
  | stack, g :: rest =>
    stack.take g.usLevel :: groupAncestors (stack.take g.usLevel ++ [g]) rest

/-- The groups of an array, each with its ancestors, root first: for every
level below its own, the last group before it at that level.  The last
ancestor is the parent group. -/
def groupsInTree (groups : List PW_GROUP) : List (PW_GROUP × List PW_GROUP) :=
  groups.zip (groupAncestors [] groups)

/-- The fully qualified group name that `SortGroupList` builds for a group
with its ancestors: the names of the ancestors, each followed by a line feed,
the name of the group, two line feeds and the id in decimal. -/
def fqgn (a : PW_GROUP × List PW_GROUP) : List Nat :=
  (a.2.map (fun p => groupName p ++ [10])).flatten ++ groupName a.1 ++ [10, 10]
    ++ _ltot (toLong a.1.uGroupId)

/-- Levels that start at `n` at most and rise by one at most from group to
group. -/
def Climbs : Nat → List PW_GROUP → Prop
  | _, [] => True
  | n, g :: rest => g.usLevel ≤ n ∧ Climbs (g.usLevel + 1) rest

/-- The name of a group as `_tcsicmp` compares it: in lower case. -/
def lowerName (g : PW_GROUP) : List Nat := (groupName g).map tolower

/-- The fully qualified group name as `_tcsicmp` compares it: in lower case. -/
def lowerKey (a : PW_GROUP × List PW_GROUP) : List Nat := (fqgn a).map tolower

/-- Group names that `SortGroupList` can tell from its separator: every name
is non-empty and made of characters above the line feed. -/
def NamesSortable (groups : List PW_GROUP) : Prop :=
  ∀ g ∈ groups, groupName g ≠ [] ∧ ∀ c ∈ groupName g, 10 < c

/-- Sibling groups have different names ignoring case: two groups with the
same ancestors whose names `_tcsicmp` takes for equal are the same group. -/
def SiblingNamesDistinct (groups : List PW_GROUP) : Prop :=
  ∀ a ∈ groupsInTree groups, ∀ b ∈ groupsInTree groups, a.2 = b.2 →
    _tcsicmp (groupName a.1) (groupName b.1) = 0 → a.1 = b.1

/-- The allocations of `SortGroupList` succeed for a group array, with sizes
that are what they are meant to be: `new` delivers the pointer list of the
parents, the pointer list of the names and the name buffers, the length of
every name is a `DWORD`, and the size `dwMaxString` of the name buffers has not
wrapped. -/
def SortGroupListAllocates (E : Env) (groups : List PW_GROUP) : Prop :=
  (∀ g ∈ groups, tcslen (g.pszGroupName.getD []) < U32)
  ∧ E.allocOk (4 * ((CPwManager.SortGroupList.scan 0 0 groups).2 + 2)) = true
  ∧ E.allocOk (4 * groups.length) = true
  ∧ E.allocOk (((CPwManager.SortGroupList.scan 0 0 groups).1 + 1)
      * ((CPwManager.SortGroupList.scan 0 0 groups).2 + 1) + 13) = true
  ∧ ((CPwManager.SortGroupList.scan 0 0 groups).1 + 1)
      * ((CPwManager.SortGroupList.scan 0 0 groups).2 + 1) + 13 < U32

/-- Two groups named "A" at level 0, ids 10 and 9, the first with the child
"X", id 11. -/
def sampleNamesakes : CPwManager :=
  { sampleEmpty with
    m_pGroups := [sampleGroupAt "A" 10 0, sampleGroupAt "X" 11 1, sampleGroupAt "A" 9 0] }

/-- The group "A", id 10, with two children: one whose name is a tabulator,
id 11, and "X", id 12. -/
def sampleTabName : CPwManager :=
  { sampleEmpty with
    m_pGroups := [sampleGroupAt "A" 10 0,
      { sampleGroupAt "T" 11 1 with pszGroupName := some [9] }, sampleGroupAt "X" 12 1] }

/-- The group "A", id 5, with a child of the empty name, id 6. -/
def sampleEmptyName : CPwManager :=
  { sampleEmpty with m_pGroups := [sampleGroupAt "A" 5 0, sampleGroupAt "" 6 1] }

/-! # Properties -/

/-! ## Timestamps -/

theorem pack_value_lt (y mo d h mi s : Nat) :
    (((((y % 16384) * 16 + mo % 16) * 32 + d % 32) * 32 + h % 32) * 64 + mi % 64) * 64 + s % 64
      < 1099511627776 := by omega

theorem bytes5_value (v : Nat) (hv : v < 1099511627776) :
    ((((v / 4294967296 % 256 % 256) * 256 + v / 16777216 % 256 % 256) * 256
      + v / 65536 % 256 % 256) * 256 + v / 256 % 256 % 256) * 256 + v % 256 % 256 = v := by
  omega

theorem bytes5_plain (v : Nat) (hv : v < 1099511627776) :
    ((((v / 4294967296 % 256) * 256 + v / 16777216 % 256) * 256
      + v / 65536 % 256) * 256 + v / 256 % 256) * 256 + v % 256 = v := by
  omega

theorem unpack_pack (y mo d h mi s : Nat) :
    _UnpackStructToTime (_PackTimeToStruct y mo d h mi s)
      = (y % 16384, mo % 16, d % 32, h % 32, mi % 64, s % 64) := by
  simp only [_UnpackStructToTime, _PackTimeToStruct, List.getD_cons_zero, List.getD_cons_succ]
  rw [bytes5_value _ (pack_value_lt y mo d h mi s)]
  generalize hv : (((((y % 16384) * 16 + mo % 16) * 32 + d % 32) * 32 + h % 32) * 64
    + mi % 64) * 64 + s % 64 = v
  have h1 : v / 67108864 % 16384 = y % 16384 := by omega
  have h2 : v / 4194304 % 16 = mo % 16 := by omega
  have h3 : v / 131072 % 32 = d % 32 := by omega
  have h4 : v / 4096 % 32 = h % 32 := by omega
  have h5 : v / 64 % 64 = mi % 64 := by omega
  have h6 : v % 64 = s % 64 := by omega
  rw [h1, h2, h3, h4, h5, h6]

/-- C10.  For every timestamp with year in [0..16383], month in [1..12], day in
[1..31], hour in [0..23], minute and second in [0..59], unpacking the packed
timestamp gives the timestamp back; the packing has 5 bytes whose big-endian
value is the concatenation year:14, month:4, day:5, hour:5, minute:6,
second:6. -/
theorem C10_time_pack_round_trip (t : PW_TIME)
    (hy : t.shYear ≤ 16383) (hmo : 1 ≤ t.btMonth ∧ t.btMonth ≤ 12)
    (hd : 1 ≤ t.btDay ∧ t.btDay ≤ 31) (hh : t.btHour ≤ 23)
    (hmi : t.btMinute ≤ 59) (hs : t.btSecond ≤ 59) :
    TimeToPwTime (PwTimeToTime t) = t
    ∧ (PwTimeToTime t).length = 5
    ∧ (∀ b ∈ PwTimeToTime t, b < 256)
    ∧ ((((((PwTimeToTime t).getD 0 0) * 256 + (PwTimeToTime t).getD 1 0) * 256
        + (PwTimeToTime t).getD 2 0) * 256 + (PwTimeToTime t).getD 3 0) * 256
        + (PwTimeToTime t).getD 4 0
        = ((((t.shYear * 16 + t.btMonth) * 32 + t.btDay) * 32 + t.btHour) * 64
            + t.btMinute) * 64 + t.btSecond) := by
  refine ⟨?_, ?_, ?_, ?_⟩
  · simp only [TimeToPwTime, PwTimeToTime, unpack_pack]
    cases t
    simp only [PW_TIME.mk.injEq] at *
    omega
  · simp [PwTimeToTime, _PackTimeToStruct]
  · intro b hb
    simp only [PwTimeToTime, _PackTimeToStruct, List.mem_cons, List.mem_singleton,
      List.not_mem_nil, or_false] at hb
    omega
  · simp only [PwTimeToTime, _PackTimeToStruct, List.getD_cons_zero, List.getD_cons_succ]
    have hlt := pack_value_lt t.shYear t.btMonth t.btDay t.btHour t.btMinute t.btSecond
    rw [bytes5_plain _ hlt]
    obtain ⟨h1, h2⟩ := hmo
    obtain ⟨h3, h4⟩ := hd
    rw [Nat.mod_eq_of_lt (show t.shYear < 16384 by omega),
      Nat.mod_eq_of_lt (show t.btMonth < 16 by omega),
      Nat.mod_eq_of_lt (show t.btDay < 32 by omega),
      Nat.mod_eq_of_lt (show t.btHour < 32 by omega),
      Nat.mod_eq_of_lt (show t.btMinute < 64 by omega),
      Nat.mod_eq_of_lt (show t.btSecond < 64 by omega)]

/-- The never-expires timestamp 2999-12-28 23:59:59 survives packing, and a
sample packing byte for byte. -/
theorem C10_time_pack_round_trip_witness :
    TimeToPwTime (PwTimeToTime g_pwTimeNever) = g_pwTimeNever
    ∧ PwTimeToTime ⟨2007, 3, 9, 14, 7, 30⟩ = [31, 92, 210, 225, 222] :=
  ⟨(C10_time_pack_round_trip g_pwTimeNever (by decide) (by decide) (by decide)
    (by decide) (by decide) (by decide)).1, by decide⟩

/-! ## Password obfuscation -/

open CPwManager

theorem xorStream_involutive (ks : Nat → Nat) (n : Nat) :
    ∀ (i : Nat) (buf : List Nat), xorStream ks i n (xorStream ks i n buf) = buf := by
  induction n with
  | zero => intro i buf; simp [xorStream]
  | succ n ih =>
    intro i buf
    cases buf with
    | nil => simp [xorStream]
    | cons b bs => simp [xorStream, ih, Nat.xor_cancel_right]

theorem xorStream_length (ks : Nat → Nat) (n : Nat) :
    ∀ (i : Nat) (buf : List Nat), (xorStream ks i n buf).length = buf.length := by
  induction n with
  | zero => intro i buf; simp [xorStream]
  | succ n ih =>
    intro i buf
    cases buf with
    | nil => simp [xorStream]
    | cons b bs => simp [xorStream, ih]

theorem cstr_idem (s : List Nat) : cstr (cstr s) = cstr s := by
  unfold cstr
  induction s with
  | nil => simp
  | cons a t ih =>
    simp only [List.takeWhile_cons]
    split
    · rename_i h
      simp only [List.takeWhile_cons, h, ih, if_true]
    · simp

theorem cstr_nil : cstr [] = [] := rfl

theorem tcslen_cstr (s : List Nat) : tcslen (cstr s) = (cstr s).length := by
  simp [tcslen, cstr_idem]

theorem dup_getD (p : Option (List Nat)) :
    _TcsSafeDupAlloc p = some (cstr (p.getD [])) := by
  cases p <;> simp [_TcsSafeDupAlloc, cstr_nil]

theorem LockEntryPassword_eq (E : Env) (m : CPwManager) (e : PW_ENTRY) (pw : List Nat)
    (hp : e.pszPassword = some pw) (hl : e.uPasswordLen = pw.length) :
    m.LockEntryPassword E e
      = { e with pszPassword := some (xorStream (E.arcfourStream m.m_pSessionKey) 0 pw.length pw) } := by
  unfold LockEntryPassword
  rw [hp]
  by_cases h0 : pw.length = 0
  · have : pw = [] := List.length_eq_zero.mp h0
    subst this
    cases e
    simp_all [xorStream]
  · simp [hl, h0, ARCFourCrypt]

theorem fill_eq (E : Env) (m : CPwManager) (old t : PW_ENTRY) :
    SetEntry.fill E m old t =
      { uuid := t.uuid, uGroupId := t.uGroupId, uImageId := t.uImageId,
        pszTitle := some (cstr (t.pszTitle.getD [])),
        pszURL := some (cstr (t.pszURL.getD [])),
        pszUserName := some (cstr (t.pszUserName.getD [])),
        uPasswordLen := (cstr (t.pszPassword.getD [])).length,
        pszPassword := some (xorStream (E.arcfourStream m.m_pSessionKey) 0
          (cstr (t.pszPassword.getD [])).length (cstr (t.pszPassword.getD []))),
        pszAdditional := some (cstr (t.pszAdditional.getD [])),
        tCreation := t.tCreation, tLastMod := t.tLastMod, tLastAccess := t.tLastAccess,
        tExpire := t.tExpire,
        pszBinaryDesc :=
          if (old.pBinaryData.isNone && t.pBinaryData.isNone)
              && (old.pszBinaryDesc.isNone && t.pszBinaryDesc.isNone) then some []
          else some (cstr (t.pszBinaryDesc.getD [])),
        pBinaryData :=
          if (old.pBinaryData.isNone && t.pBinaryData.isNone)
              && (old.pszBinaryDesc.isNone && t.pszBinaryDesc.isNone) then none
          else (match t.pBinaryData with
            | some d => if t.uBinaryDataLen != 0 then some (readBytes d 0 t.uBinaryDataLen) else none
            | none => none),
        uBinaryDataLen :=
          if (old.pBinaryData.isNone && t.pBinaryData.isNone)
              && (old.pszBinaryDesc.isNone && t.pszBinaryDesc.isNone) then old.uBinaryDataLen
          else (match t.pBinaryData with
            | some _ => if t.uBinaryDataLen != 0 then t.uBinaryDataLen else 0
            | none => 0) } := by
  unfold SetEntry.fill
  simp only [dup_getD]
  by_cases hs : ((old.pBinaryData.isNone && t.pBinaryData.isNone)
              && (old.pszBinaryDesc.isNone && t.pszBinaryDesc.isNone)) = true
  · simp only [hs, Bool.not_true, Bool.false_eq_true, if_false, if_true]
    rw [LockEntryPassword_eq E m _ (cstr (t.pszPassword.getD [])) rfl
      (by simp [tcslen, cstr_idem])]
    simp only [Bool.and_eq_true, Option.isNone_iff_eq_none] at hs
    obtain ⟨⟨h1, h2⟩, h3, h4⟩ := hs
    simp [h1, h2, h3, h4, cstr_nil, tcslen_cstr]
  · simp only [hs, Bool.not_false, if_true, Bool.false_eq_true, if_false]
    rw [LockEntryPassword_eq E m _ (cstr (t.pszPassword.getD [])) rfl
      (by simp [tcslen, cstr_idem])]
    cases hb : t.pBinaryData with
    | none => simp [tcslen_cstr]
    | some d =>
      by_cases hz : t.uBinaryDataLen = 0
      · simp [hz, tcslen_cstr]
      · simp [hz, tcslen_cstr]



/-- The assignments of `SetEntry` for a template with buffers of its own are
those of the general case, the pointers being the same only when they are all
`NULL`. -/
theorem fill_assign (E : Env) (m : CPwManager) (old t : PW_ENTRY) :
    SetEntry.fill E m old t
      = SetEntry.assign E m ((old.pBinaryData.isNone && t.pBinaryData.isNone)
          && (old.pszBinaryDesc.isNone && t.pszBinaryDesc.isNone)) old t := rfl

/-- With the attachment pointers of the slot in the template, `SetEntry` leaves
the attachment and its length as they are. -/
theorem assign_same (E : Env) (m : CPwManager) (old t : PW_ENTRY) :
    (SetEntry.assign E m true old t).pBinaryData = old.pBinaryData
    ∧ (SetEntry.assign E m true old t).uBinaryDataLen = old.uBinaryDataLen
    ∧ (SetEntry.assign E m true old t).pszBinaryDesc
        = if old.pszBinaryDesc.isNone then some [] else old.pszBinaryDesc := by
  unfold SetEntry.assign
  simp only [dup_getD, Bool.not_true, Bool.false_eq_true, if_false]
  rw [LockEntryPassword_eq E m _ (cstr (t.pszPassword.getD [])) rfl
    (by simp [tcslen, cstr_idem])]
  cases hd : old.pszBinaryDesc with
  | none => simp [hd, cstr_nil]
  | some d => simp [hd]

theorem SetEntry_valid (E : Env) (m : CPwManager) (i : Nat) (t old : PW_ENTRY)
    (ho : m.m_pEntries[i]? = some old)
    (hg : (t.uGroupId == 0 || t.uGroupId == DWORD_MAX) = false)
    (h1 : t.pszTitle.isNone = false) (h2 : t.pszUserName.isNone = false)
    (h3 : t.pszURL.isNone = false) (h4 : t.pszPassword.isNone = false)
    (h5 : t.pszAdditional.isNone = false) :
    m.SetEntry E i t
      = (true, { m with m_pEntries := m.m_pEntries.set i (SetEntry.fill E m old t) }) := by
  unfold SetEntry
  simp only [ho, hg, h1, h2, h3, h4, h5, Bool.false_eq_true, if_false]

theorem SetEntry_true (E : Env) (m : CPwManager) (i : Nat) (t : PW_ENTRY)
    (h : (m.SetEntry E i t).1 = true) :
    ∃ old, m.m_pEntries[i]? = some old
      ∧ m.SetEntry E i t
        = (true, { m with m_pEntries := m.m_pEntries.set i (SetEntry.fill E m old t) }) := by
  unfold SetEntry at h ⊢
  cases ho : m.m_pEntries[i]? with
  | none => simp [ho] at h
  | some old =>
    refine ⟨old, rfl, ?_⟩
    simp only [ho] at h ⊢
    split_ifs at h ⊢
    all_goals rfl

theorem pT_valid (t : PW_ENTRY) (u : List Nat) :
    (AddEntry.pT t u).pszTitle.isNone = false ∧ (AddEntry.pT t u).pszUserName.isNone = false
    ∧ (AddEntry.pT t u).pszURL.isNone = false ∧ (AddEntry.pT t u).pszPassword.isNone = false
    ∧ (AddEntry.pT t u).pszAdditional.isNone = false
    ∧ (AddEntry.pT t u).pszBinaryDesc.isNone = false
    ∧ (AddEntry.pT t u).uGroupId = t.uGroupId := by
  unfold AddEntry.pT g_pNullString
  refine ⟨?_, ?_, ?_, ?_, ?_, ?_, rfl⟩
  · cases t.pszTitle <;> simp
  · cases t.pszUserName <;> simp
  · cases t.pszURL <;> simp
  · cases t.pszPassword <;> simp
  · cases t.pszAdditional <;> simp
  · cases t.pszBinaryDesc <;> simp

theorem AddEntry_valid (E : Env) (m : CPwManager) (r : Rand) (t : PW_ENTRY)
    (hg : (t.uGroupId == 0 || t.uGroupId == DWORD_MAX) = false) :
    m.AddEntry E r t =
      (true,
        { m with m_pEntries := m.m_pEntries ++
            [SetEntry.fill E { m with m_pEntries := m.m_pEntries ++ [PW_ENTRY.zero] }
              PW_ENTRY.zero
              (AddEntry.pT t (if t.uuid == g_uuidZero then randCreateUUID r else (t.uuid, r)).1)] },
        (if t.uuid == g_uuidZero then randCreateUUID r else (t.uuid, r)).2) := by
  unfold AddEntry
  simp only [hg, Bool.false_eq_true, if_false]
  obtain ⟨h1, h2, h3, h4, h5, _, h7⟩ :=
    pT_valid t (if t.uuid == g_uuidZero then randCreateUUID r else (t.uuid, r)).1
  rw [SetEntry_valid E _ _ _ PW_ENTRY.zero (by simp) (by rw [h7]; exact hg) h1 h2 h3 h4 h5]
  simp only [List.length_append, List.length_singleton, Nat.add_sub_cancel]
  rw [List.set_append_right _ _ (le_refl _), Nat.sub_self, List.set_cons_zero]

theorem AddEntry_invalid (E : Env) (m : CPwManager) (r : Rand) (t : PW_ENTRY)
    (hg : (t.uGroupId == 0 || t.uGroupId == DWORD_MAX) = true) :
    m.AddEntry E r t = (false, m, r) := by
  unfold AddEntry
  simp only [hg, if_true]



theorem pT_password (t : PW_ENTRY) (u : List Nat) :
    cstr ((AddEntry.pT t u).pszPassword.getD []) = cstr (t.pszPassword.getD []) := by
  unfold AddEntry.pT g_pNullString
  cases t.pszPassword <;> simp

theorem stored_password (E : Env) (m : CPwManager) (key : List Nat) (e : PW_ENTRY)
    (p : List Nat) (hk : m.m_pSessionKey = key)
    (hp : e.pszPassword = some (xorStream (E.arcfourStream key) 0 p.length p))
    (hl : e.uPasswordLen = p.length) :
    e = m.LockEntryPassword E { e with pszPassword := some p }
    ∧ (m.UnlockEntryPassword E e).pszPassword = some p := by
  constructor
  · rw [LockEntryPassword_eq E m { e with pszPassword := some p } p rfl hl, hk]
    cases e
    simp_all
  · unfold UnlockEntryPassword
    rw [LockEntryPassword_eq E m e _ hp (by rw [hl, xorStream_length]), hk]
    simp [xorStream_length, xorStream_involutive]

theorem fill_stored (E : Env) (m1 m' : CPwManager) (old tX : PW_ENTRY) (p : List Nat)
    (hk : m'.m_pSessionKey = m1.m_pSessionKey) (hp : cstr (tX.pszPassword.getD []) = p) :
    (SetEntry.fill E m1 old tX).pszPassword
        = some (xorStream (E.arcfourStream m'.m_pSessionKey) 0 p.length p)
    ∧ SetEntry.fill E m1 old tX
        = m'.LockEntryPassword E { SetEntry.fill E m1 old tX with pszPassword := some p }
    ∧ (SetEntry.fill E m1 old tX).uPasswordLen = p.length
    ∧ (m'.UnlockEntryPassword E (SetEntry.fill E m1 old tX)).pszPassword = some p := by
  have h1 : (SetEntry.fill E m1 old tX).pszPassword
        = some (xorStream (E.arcfourStream m1.m_pSessionKey) 0 p.length p) := by
    rw [fill_eq, hp]
  have h2 : (SetEntry.fill E m1 old tX).uPasswordLen = p.length := by
    rw [fill_eq, hp]
  have h3 := stored_password E m' m1.m_pSessionKey _ p hk h1 h2
  exact ⟨by rw [hk]; exact h1, h3.1, h2, h3.2⟩

/-- C8.  After a successful `SetEntry` (at `dwIndex`) or `AddEntry` (at the
new last index) with a template whose cleartext password is `p`, the stored
password buffer is `p` XORed with the session keystream, i.e. the stored entry
is `LockEntryPassword` applied once to the entry holding `p`; the stored
`uPasswordLen` is the length of `p`; and `UnlockEntryPassword` yields `p`. -/
theorem C8_password_obfuscation_at_rest (E : Env) (m : CPwManager) (r : Rand)
    (dwIndex : Nat) (t : PW_ENTRY) (m' : CPwManager) (idx : Nat)
    (h : ((m.SetEntry E dwIndex t).1 = true ∧ m' = (m.SetEntry E dwIndex t).2 ∧ idx = dwIndex)
      ∨ ((m.AddEntry E r t).1 = true ∧ m' = (m.AddEntry E r t).2.1
          ∧ idx = m.m_pEntries.length)) :
    ∃ e, m'.m_pEntries[idx]? = some e
      ∧ e.pszPassword = some (xorStream (E.arcfourStream m'.m_pSessionKey) 0
          (cstr (t.pszPassword.getD [])).length (cstr (t.pszPassword.getD [])))
      ∧ e = m'.LockEntryPassword E { e with pszPassword := some (cstr (t.pszPassword.getD [])) }
      ∧ e.uPasswordLen = (cstr (t.pszPassword.getD [])).length
      ∧ (m'.UnlockEntryPassword E e).pszPassword = some (cstr (t.pszPassword.getD [])) := by
  rcases h with ⟨hs, hm, hi⟩ | ⟨ha, hm, hi⟩
  · obtain ⟨old, ho, heq⟩ := SetEntry_true E m dwIndex t hs
    rw [heq] at hm
    subst hm hi
    have hlt : idx < m.m_pEntries.length := by
      rcases List.getElem?_eq_some_iff.mp ho with ⟨hlt, _⟩
      exact hlt
    exact ⟨SetEntry.fill E m old t, by simp [List.getElem?_set_self hlt],
      fill_stored E m _ old t _ rfl rfl⟩
  · have hg : (t.uGroupId == 0 || t.uGroupId == DWORD_MAX) = false := by
      cases hgc : (t.uGroupId == 0 || t.uGroupId == DWORD_MAX)
      · rfl
      · rw [AddEntry_invalid E m r t hgc] at ha
        exact absurd ha (by simp)
    rw [AddEntry_valid E m r t hg] at hm
    subst hm hi
    exact ⟨SetEntry.fill E { m with m_pEntries := m.m_pEntries ++ [PW_ENTRY.zero] } PW_ENTRY.zero
        (AddEntry.pT t (if t.uuid == g_uuidZero then randCreateUUID r else (t.uuid, r)).1),
      by simp only [List.getElem?_concat_length],
      fill_stored E _ _ _ _ _ rfl (pT_password t _)⟩

theorem ARCFourCrypt_involutive (E : Env) (buf key : List Nat) (n : Nat) :
    ARCFourCrypt E (ARCFourCrypt E buf n key) n key = buf := by
  simp [ARCFourCrypt, xorStream_involutive]

theorem lock_lock (E : Env) (m : CPwManager) (e : PW_ENTRY) :
    m.LockEntryPassword E (m.LockEntryPassword E e) = e := by
  unfold LockEntryPassword
  cases hp : e.pszPassword with
  | none => simp [hp]
  | some pw =>
    by_cases hl : e.uPasswordLen = 0
    · simp [hl, hp]
    · simp [hl, hp, ARCFourCrypt_involutive]
      cases e
      simp_all

theorem lock_frame (E : Env) (m : CPwManager) (e : PW_ENTRY) :
    { m.LockEntryPassword E e with pszPassword := e.pszPassword } = e := by
  unfold LockEntryPassword
  cases hp : e.pszPassword with
  | none => cases e; simp_all
  | some pw =>
    by_cases hl : e.uPasswordLen = 0
    · cases e; simp_all
    · cases e; simp_all

/-- C9.  For every entry and session key, unlocking a locked entry and locking
an unlocked entry give the entry back, and neither operation changes
`uPasswordLen` or any field other than the password bytes. -/
theorem C9_lock_unlock_inverse (E : Env) (m : CPwManager) (e : PW_ENTRY) :
    m.UnlockEntryPassword E (m.LockEntryPassword E e) = e
    ∧ m.LockEntryPassword E (m.UnlockEntryPassword E e) = e
    ∧ (m.LockEntryPassword E e).uPasswordLen = e.uPasswordLen
    ∧ (m.UnlockEntryPassword E e).uPasswordLen = e.uPasswordLen
    ∧ { m.LockEntryPassword E e with pszPassword := e.pszPassword } = e
    ∧ { m.UnlockEntryPassword E e with pszPassword := e.pszPassword } = e := by
  have hf := lock_frame E m e
  have hlen : (m.LockEntryPassword E e).uPasswordLen = e.uPasswordLen := by
    conv_rhs => rw [← hf]
  exact ⟨lock_lock E m e, lock_lock E m e, hlen, hlen, hf, hf⟩

/-! ## Orphan entries -/

theorem shiftOut_append {α : Type} (pre post : List α) (x : α) :
    shiftOut (pre ++ x :: post) pre.length = pre ++ post := by
  unfold shiftOut
  simp [List.take_append_of_le_length, List.drop_append_of_le_length]

theorem shiftOut_eq_eraseIdx {α : Type} (a : List α) (i : Nat) (h : i < a.length) :
    shiftOut a i = a.eraseIdx i := by
  unfold shiftOut
  rw [List.eraseIdx_eq_take_drop_succ]
  apply List.take_of_length_le
  simp [List.length_take, List.length_drop]
  omega

theorem GetGroupById_congr (m1 m2 : CPwManager) (h : m1.m_pGroups = m2.m_pGroups) (id : Nat) :
    m1.GetGroupById id = m2.GetGroupById id := by
  unfold GetGroupById GetGroupByIdN
  rw [h]

/-- What the scan of `DeleteLostEntries` finds. -/
theorem scan_spec (m : CPwManager) :
    ∀ (es : List PW_ENTRY) (i : Nat),
      (DeleteLostEntries.scan m i es = none
        ∧ es.filter (fun e => (m.GetGroupById e.uGroupId).isSome) = es)
      ∨ (∃ pre x post, es = pre ++ x :: post
          ∧ DeleteLostEntries.scan m i es = some (i + pre.length)
          ∧ (m.GetGroupById x.uGroupId).isSome = false
          ∧ pre.filter (fun e => (m.GetGroupById e.uGroupId).isSome) = pre) := by
  intro es
  induction es with
  | nil => intro i; left; simp [DeleteLostEntries.scan]
  | cons e rest ih =>
    intro i
    by_cases hr : (m.GetGroupById e.uGroupId).isNone = true
    · right
      refine ⟨[], e, rest, rfl, ?_, ?_, rfl⟩
      · simp [DeleteLostEntries.scan, hr]
      · simpa [Option.isNone_iff_eq_none] using hr
    · have hs : (m.GetGroupById e.uGroupId).isSome = true := by
        cases h : m.GetGroupById e.uGroupId <;> simp_all
      rcases ih (i + 1) with ⟨h1, h2⟩ | ⟨pre, x, post, h1, h2, h3, h4⟩
      · left
        refine ⟨by simp [DeleteLostEntries.scan, hr, h1], ?_⟩
        simp [List.filter_cons, hs, h2]
      · right
        refine ⟨e :: pre, x, post, by simp [h1], ?_, h3, ?_⟩
        · simp only [DeleteLostEntries.scan, hr, Bool.false_eq_true, if_false, h2, List.length_cons]
          congr 1; omega
        · simp [List.filter_cons, hs, h4]

theorem DeleteEntry_valid (m : CPwManager) (i : Nat) (h : i < m.m_pEntries.length) :
    m.DeleteEntry i = (true, { m with m_pEntries := shiftOut m.m_pEntries i }) := by
  unfold DeleteEntry
  simp [Nat.not_le.mpr h]

theorem DeleteLostEntries_loop_spec :
    ∀ (fuel : Nat) (m : CPwManager) (c : Nat), m.m_pEntries.length < fuel →
      DeleteLostEntries.loop fuel m c
        = some (c + (m.m_pEntries.length
              - (m.m_pEntries.filter (fun e => (m.GetGroupById e.uGroupId).isSome)).length),
            { m with m_pEntries :=
                m.m_pEntries.filter (fun e => (m.GetGroupById e.uGroupId).isSome) }) := by
  intro fuel
  induction fuel with
  | zero => intro m c h; omega
  | succ fuel ih =>
    intro m c hlen
    unfold DeleteLostEntries.loop
    rcases scan_spec m m.m_pEntries 0 with ⟨h1, h2⟩ | ⟨pre, x, post, h1, h2, h3, h4⟩
    · simp only [h1, h2, Nat.sub_self, Nat.add_zero]
    · simp only [h2, Nat.zero_add]
      have hlt : pre.length < m.m_pEntries.length := by rw [h1]; simp
      rw [DeleteEntry_valid m _ hlt]
      simp only
      have hso : shiftOut m.m_pEntries pre.length = pre ++ post := by
        rw [h1]; exact shiftOut_append pre post x
      rw [hso]
      have hlen2 : (pre ++ post).length < fuel := by
        have : m.m_pEntries.length = pre.length + post.length + 1 := by rw [h1]; simp; omega
        simp only [List.length_append]; omega
      rw [ih { m with m_pEntries := pre ++ post } (c + 1) hlen2]
      have hfil : m.m_pEntries.filter (fun e => (m.GetGroupById e.uGroupId).isSome)
          = (pre ++ post).filter (fun e => (m.GetGroupById e.uGroupId).isSome) := by
        rw [h1]; simp [List.filter_append, List.filter_cons, h3]
      have hg : ∀ id, CPwManager.GetGroupById { m with m_pEntries := pre ++ post } id
          = m.GetGroupById id := fun id => GetGroupById_congr _ _ rfl id
      simp only [hg]
      rw [← hfil]
      have hle : (m.m_pEntries.filter (fun e => (m.GetGroupById e.uGroupId).isSome)).length
          ≤ (pre ++ post).length := by
        rw [hfil]; exact List.length_filter_le _ _
      have hm : m.m_pEntries.length = (pre ++ post).length + 1 := by rw [h1]; simp; omega
      congr 2
      omega

/-- C5.  For every database state `DeleteLostEntries` returns; afterwards the
group id of every remaining entry resolves to a group of the group array;
the remaining entries are exactly the entries whose group id resolved before,
in their original order; the returned count is the number of entries deleted;
and nothing but the entry array changes. -/
theorem C5_orphan_freedom (m : CPwManager) :
    ∃ count m', m.DeleteLostEntries = some (count, m')
      ∧ (∀ e ∈ m'.m_pEntries, (m'.GetGroupById e.uGroupId).isSome = true)
      ∧ m'.m_pEntries = m.m_pEntries.filter (fun e => (m.GetGroupById e.uGroupId).isSome)
      ∧ m'.m_pEntries.Sublist m.m_pEntries
      ∧ count + m'.m_pEntries.length = m.m_pEntries.length
      ∧ m' = { m with m_pEntries := m'.m_pEntries } := by
  have hle : (m.m_pEntries.filter (fun e => (m.GetGroupById e.uGroupId).isSome)).length
      ≤ m.m_pEntries.length := List.length_filter_le _ _
  refine ⟨m.m_pEntries.length
      - (m.m_pEntries.filter (fun e => (m.GetGroupById e.uGroupId).isSome)).length,
    { m with m_pEntries := m.m_pEntries.filter (fun e => (m.GetGroupById e.uGroupId).isSome) },
    ?_, ?_, rfl, List.filter_sublist _, by simp only; omega, rfl⟩
  · unfold DeleteLostEntries GetNumberOfEntries
    by_cases h0 : m.m_pEntries.length = 0
    · have hnil : m.m_pEntries = [] := List.length_eq_zero.mp h0
      simp only [hnil, List.length_nil, beq_self_eq_true, if_true, List.filter_nil, Nat.sub_self]
      cases m
      simp_all
    · have hne : (m.m_pEntries.length == 0) = false := by simpa using h0
      simp only [hne, Bool.false_eq_true, if_false]
      rw [DeleteLostEntries_loop_spec _ m 0 (Nat.lt_succ_self _)]
      simp
  · intro e he
    simp only [List.mem_filter] at he
    rw [GetGroupById_congr _ m (by rfl) e.uGroupId]
    exact he.2

/-- Adding "hunter2" to a fresh database stores seven obfuscated units that unlock to it. -/
theorem C8_password_obfuscation_at_rest_witness :
    (sampleEmpty.AddEntry (sampleEnv none) sampleRand sampleEntry).1 = true
    ∧ (sampleEmpty.AddEntry (sampleEnv none) sampleRand sampleEntry).2.1.m_pEntries.map
        (fun e => (e.pszPassword, e.uPasswordLen)) = [(some [105, 124, 127, 109, 68, 91, 3], 7)]
    ∧ ∃ e, (sampleEmpty.AddEntry (sampleEnv none) sampleRand sampleEntry).2.1.m_pEntries[0]? = some e
      ∧ e.pszPassword = some (xorStream ((sampleEnv none).arcfourStream
          (sampleEmpty.AddEntry (sampleEnv none) sampleRand sampleEntry).2.1.m_pSessionKey) 0
          (cstr (sampleEntry.pszPassword.getD [])).length (cstr (sampleEntry.pszPassword.getD [])))
      ∧ e = (sampleEmpty.AddEntry (sampleEnv none) sampleRand sampleEntry).2.1.LockEntryPassword
          (sampleEnv none) { e with pszPassword := some (cstr (sampleEntry.pszPassword.getD [])) }
      ∧ e.uPasswordLen = (cstr (sampleEntry.pszPassword.getD [])).length
      ∧ ((sampleEmpty.AddEntry (sampleEnv none) sampleRand sampleEntry).2.1.UnlockEntryPassword
          (sampleEnv none) e).pszPassword = some (cstr (sampleEntry.pszPassword.getD [])) :=
  ⟨by decide, by decide,
    C8_password_obfuscation_at_rest (sampleEnv none) sampleEmpty sampleRand 0 sampleEntry
      (sampleEmpty.AddEntry (sampleEnv none) sampleRand sampleEntry).2.1 0
      (Or.inr ⟨by decide, rfl, rfl⟩)⟩

/-! ## The tree invariant -/

theorem FixGroupTree_loop_head (last : Nat) (gs : List PW_GROUP) (g : PW_GROUP)
    (h : (FixGroupTree.loop last gs)[0]? = some g) : g.usLevel ≤ last + 1 := by
  cases gs with
  | nil => simp [FixGroupTree.loop] at h
  | cons a rest =>
    simp only [FixGroupTree.loop, List.getElem?_cons_zero, Option.some.injEq] at h
    subst h
    have hmod : (last + 1) % 65536 ≤ last + 1 := Nat.mod_le _ _
    simp only
    split_ifs with hc
    · exact hmod
    · omega

theorem FixGroupTree_loop_chain :
    ∀ (gs : List PW_GROUP) (last i : Nat) (a b : PW_GROUP),
      (FixGroupTree.loop last gs)[i]? = some a → (FixGroupTree.loop last gs)[i + 1]? = some b →
      b.usLevel ≤ a.usLevel + 1 := by
  intro gs
  induction gs with
  | nil => intro last i a b h; simp [FixGroupTree.loop] at h
  | cons g rest ih =>
    intro last i a b ha hb
    simp only [FixGroupTree.loop] at ha hb
    cases i with
    | zero =>
      simp only [List.getElem?_cons_zero, Option.some.injEq] at ha
      simp only [Nat.zero_add, List.getElem?_cons_succ] at hb
      subst ha
      exact FixGroupTree_loop_head _ rest b hb
    | succ k =>
      simp only [List.getElem?_cons_succ] at ha hb
      exact ih _ k a b ha hb

theorem FixGroupTree_tree (m : CPwManager) : TreeInvariant m.FixGroupTree.m_pGroups := by
  unfold FixGroupTree
  constructor
  · intro g hg
    cases hgs : m.m_pGroups with
    | nil => simp [hgs, FixGroupTree.loop] at hg
    | cons a rest =>
      simp only [hgs, FixGroupTree.loop, List.getElem?_cons_zero, Option.some.injEq] at hg
      subst hg
      simp
  · intro i a b ha hb
    exact FixGroupTree_loop_chain _ 0 i a b ha hb

theorem FixGroupTree_entries (m : CPwManager) : m.FixGroupTree.m_pEntries = m.m_pEntries := rfl

theorem SetEntry_cases (E : Env) (m : CPwManager) (i : Nat) (t : PW_ENTRY) :
    m.SetEntry E i t = (false, m)
    ∨ ∃ old, m.m_pEntries[i]? = some old
        ∧ m.SetEntry E i t
          = (true, { m with m_pEntries := m.m_pEntries.set i (SetEntry.fill E m old t) }) := by
  cases h : (m.SetEntry E i t).1 with
  | true => right; exact SetEntry_true E m i t h
  | false =>
    left
    unfold SetEntry at h ⊢
    cases ho : m.m_pEntries[i]? with
    | none => rfl
    | some old =>
      simp only [ho] at h ⊢
      split_ifs at h ⊢
      all_goals rfl

theorem SetEntry_groups (E : Env) (m : CPwManager) (i : Nat) (t : PW_ENTRY) :
    (m.SetEntry E i t).2.m_pGroups = m.m_pGroups := by
  rcases SetEntry_cases E m i t with h | ⟨old, _, h⟩ <;> rw [h]

theorem AddEntry_cases (E : Env) (m : CPwManager) (r : Rand) (t : PW_ENTRY) :
    m.AddEntry E r t = (false, m, r)
    ∨ ((t.uGroupId == 0 || t.uGroupId == DWORD_MAX) = false
      ∧ m.AddEntry E r t =
        (true,
          { m with m_pEntries := m.m_pEntries ++
              [SetEntry.fill E { m with m_pEntries := m.m_pEntries ++ [PW_ENTRY.zero] }
                PW_ENTRY.zero
                (AddEntry.pT t (if t.uuid == g_uuidZero then randCreateUUID r else (t.uuid, r)).1)] },
          (if t.uuid == g_uuidZero then randCreateUUID r else (t.uuid, r)).2)) := by
  cases hg : (t.uGroupId == 0 || t.uGroupId == DWORD_MAX) with
  | true => left; exact AddEntry_invalid E m r t hg
  | false => right; exact ⟨rfl, AddEntry_valid E m r t hg⟩

theorem AddEntry_groups (E : Env) (m : CPwManager) (r : Rand) (t : PW_ENTRY) :
    (m.AddEntry E r t).2.1.m_pGroups = m.m_pGroups := by
  rcases AddEntry_cases E m r t with h | ⟨_, h⟩ <;> rw [h]

theorem touchEntry_groups (E : Env) (m : CPwManager) (i : Nat) :
    (MergeIn.touchEntry E m i).m_pGroups = m.m_pGroups := by
  unfold MergeIn.touchEntry
  split <;> rfl

theorem MergeIn_entryStep_groups (E : Env) (bNew bCmp : Bool) (i : Nat) (pe : PW_ENTRY)
    (m src : CPwManager) (r : Rand) :
    (MergeIn.entryStep E bNew bCmp i pe m src r).1.m_pGroups = m.m_pGroups := by
  unfold MergeIn.entryStep
  split_ifs
  · rfl
  · simp only [AddEntry_groups]
  · simp only []
    split
    · simp only [AddEntry_groups]
    · split_ifs
      · rfl
      · simp only [touchEntry_groups, SetEntry_groups]

theorem MergeIn_entryLoop_groups (E : Env) (bNew bCmp : Bool) :
    ∀ (n i : Nat) (m src : CPwManager) (r : Rand),
      (MergeIn.entryLoop E bNew bCmp n i m src r).1.m_pGroups = m.m_pGroups := by
  intro n
  induction n with
  | zero => intro i m src r; rfl
  | succ n ih =>
    intro i m src r
    unfold MergeIn.entryLoop
    cases hs : src.GetEntry i with
    | none => simp only [ih]
    | some pe => simp only [ih, MergeIn_entryStep_groups]

theorem DeleteLostEntries_eq (m : CPwManager) :
    m.DeleteLostEntries
      = some (m.m_pEntries.length
          - (m.m_pEntries.filter (fun e => (m.GetGroupById e.uGroupId).isSome)).length,
        { m with m_pEntries :=
            m.m_pEntries.filter (fun e => (m.GetGroupById e.uGroupId).isSome) }) := by
  unfold DeleteLostEntries GetNumberOfEntries
  by_cases h0 : m.m_pEntries.length = 0
  · have hnil : m.m_pEntries = [] := List.length_eq_zero.mp h0
    simp only [hnil, List.length_nil, beq_self_eq_true, if_true, List.filter_nil, Nat.sub_self]
    cases m
    simp_all
  · have hne : (m.m_pEntries.length == 0) = false := by simpa using h0
    simp only [hne, Bool.false_eq_true, if_false]
    rw [DeleteLostEntries_loop_spec _ m 0 (Nat.lt_succ_self _)]
    simp

theorem DeleteGroupById_loop_spec (id : Nat) :
    ∀ (fuel i : Nat) (es : List PW_ENTRY), i < es.length → es.length - i ≤ fuel →
      DeleteGroupById.loop id fuel i es
        = some (es.take i ++ (es.drop i).filter (fun e => !(e.uGroupId == id))) := by
  intro fuel
  induction fuel with
  | zero => intro i es h1 h2; omega
  | succ fuel ih =>
    intro i es hi hf
    unfold DeleteGroupById.loop
    obtain ⟨pre, x, post, hes, hpre⟩ : ∃ pre x post, es = pre ++ x :: post ∧ pre.length = i := by
      refine ⟨es.take i, es[i], es.drop (i + 1), ?_, ?_⟩
      · rw [← List.drop_eq_getElem_cons hi, List.take_append_drop]
      · simp [List.length_take]; omega
    subst hpre
    have hget : es.getD pre.length PW_ENTRY.zero = x := by
      rw [hes, List.getD_eq_getElem?_getD, List.getElem?_append_right (le_refl _)]; simp
    rw [hget]
    have htake : es.take pre.length = pre := by rw [hes]; simp
    have hdrop : es.drop pre.length = x :: post := by rw [hes]; simp
    rw [htake, hdrop]
    by_cases hx : (x.uGroupId == id) = true
    · simp only [hx, if_true]
      have hso : shiftOut es pre.length = pre ++ post := by rw [hes]; exact shiftOut_append _ _ _
      rw [hso]
      by_cases hend : pre.length ≥ (pre ++ post).length
      · simp only [hend, if_true]
        have hpost : post = [] := by
          simp only [List.length_append] at hend
          exact List.length_eq_zero.mp (by omega)
        subst hpost
        simp [List.filter_cons, hx]
      · simp only [hend, if_false]
        rw [ih pre.length (pre ++ post) (by omega)
          (by rw [hes] at hf; simp only [List.length_append, List.length_cons] at hf ⊢; omega)]
        simp [List.filter_cons, hx]
    · simp only [hx, Bool.false_eq_true, if_false]
      by_cases hend : pre.length + 1 ≥ es.length
      · simp only [hend, if_true]
        have hpost : post = [] := by
          rw [hes] at hend
          simp only [List.length_append, List.length_cons] at hend
          exact List.length_eq_zero.mp (by omega)
        subst hpost
        rw [hes]
        simp [List.filter_cons, hx]
      · simp only [hend, if_false]
        rw [ih (pre.length + 1) es (by omega) (by omega)]
        rw [hes]
        simp [List.filter_cons, hx, List.take_append_eq_append_take]

theorem DeleteGroupById_eq (m : CPwManager) (id : Nat) :
    m.DeleteGroupById id
      = some (true, FixGroupTree
          { m with
            m_pEntries := m.m_pEntries.filter (fun e => !(e.uGroupId == id)),
            m_pGroups := shiftOut m.m_pGroups (m.GetGroupByIdN id) }) := by
  unfold DeleteGroupById
  by_cases h0 : m.m_pEntries.length = 0
  · have hnil : m.m_pEntries = [] := List.length_eq_zero.mp h0
    simp [hnil, GetGroupByIdN]
  · have hne : (m.m_pEntries.length != 0) = true := by simpa using h0
    simp only [hne, if_true]
    rw [DeleteGroupById_loop_spec id _ 0 m.m_pEntries (by omega) (by omega)]
    simp [GetGroupByIdN]

theorem newId_spec (groups : List PW_GROUP) :
    ∀ (xs : List Nat) (t : Nat) (rest : List Nat), AddGroup.newId groups xs = some (t, rest) →
      t ≠ 0 ∧ t ≠ DWORD_MAX ∧ t < U32 ∧ (∀ g ∈ groups, g.uGroupId ≠ t)
      ∧ rest.length < xs.length := by
  intro xs
  induction xs with
  | nil => intro t rest h; simp [AddGroup.newId] at h
  | cons x xs ih =>
    intro t rest h
    unfold AddGroup.newId at h
    simp only at h
    split_ifs at h with h1 h2
    · obtain ⟨a, b, c, d, e⟩ := ih t rest h
      exact ⟨a, b, c, d, by simp only [List.length_cons]; omega⟩
    · obtain ⟨a, b, c, d, e⟩ := ih t rest h
      exact ⟨a, b, c, d, by simp only [List.length_cons]; omega⟩
    · simp only [Option.some.injEq, Prod.mk.injEq] at h
      obtain ⟨ht, hr⟩ := h
      subst ht hr
      simp only [Bool.or_eq_true, beq_iff_eq, not_or] at h1
      refine ⟨h1.1, h1.2, Nat.mod_lt _ (by decide), ?_, by simp⟩
      intro g hg hgt
      apply h2
      simp only [List.any_eq_true, beq_iff_eq]
      exact ⟨g, hg, hgt⟩

theorem SetGroup_cases (m : CPwManager) (i : Nat) (t : PW_GROUP) :
    ((t.uGroupId == 0 || t.uGroupId == DWORD_MAX) = true ∧ m.SetGroup i t = (false, m))
    ∨ ((t.uGroupId == 0 || t.uGroupId == DWORD_MAX) = false
      ∧ m.SetGroup i t
        = (true, { m with m_pGroups := m.m_pGroups.set i (SetGroup.fill t) })) := by
  unfold SetGroup
  cases hg : (t.uGroupId == 0 || t.uGroupId == DWORD_MAX)
  · right
    simp only [Bool.false_eq_true, if_false, true_and]
  · left
    simp only [if_true, and_self]

theorem AddGroup_some (m : CPwManager) (r : Rand) (t : PW_GROUP)
    (res : Bool × CPwManager × Rand) (h : m.AddGroup r t = some res) :
    ∃ id rest,
      res = (true,
        { m with m_pGroups := m.m_pGroups ++ [SetGroup.fill { t with uGroupId := id }] },
        { r with xorShift := rest })
      ∧ id ≠ 0 ∧ id ≠ DWORD_MAX
      ∧ ((t.uGroupId == 0 || t.uGroupId == DWORD_MAX) = true →
          id < U32 ∧ (∀ g ∈ m.m_pGroups, g.uGroupId ≠ id) ∧ rest.length < r.xorShift.length)
      ∧ ((t.uGroupId == 0 || t.uGroupId == DWORD_MAX) = false →
          id = t.uGroupId ∧ rest = r.xorShift) := by
  unfold CPwManager.AddGroup at h
  simp only at h
  cases hd : (if (t.uGroupId == 0 || t.uGroupId == DWORD_MAX) = true
      then AddGroup.newId m.m_pGroups r.xorShift else some (t.uGroupId, r.xorShift)) with
  | none => rw [hd] at h; exact absurd h (by simp)
  | some p =>
    obtain ⟨id, rest⟩ := p
    rw [hd] at h
    simp only [Option.some.injEq] at h
    have hid : id ≠ 0 ∧ id ≠ DWORD_MAX := by
      split_ifs at hd with hs
      · obtain ⟨a, b, _⟩ := newId_spec _ _ _ _ hd
        exact ⟨a, b⟩
      · simp only [Option.some.injEq, Prod.mk.injEq] at hd
        rw [← hd.1]
        simpa using hs
    have hns : ((id == 0 || id == DWORD_MAX) = false) := by
      simp [hid.1, hid.2]
    have hset : CPwManager.SetGroup { m with m_pGroups := m.m_pGroups ++ [PW_GROUP.zero] }
        (m.m_pGroups.length + 1 - 1) { t with uGroupId := id }
        = (true, { m with m_pGroups := m.m_pGroups ++ [SetGroup.fill { t with uGroupId := id }] }) := by
      unfold SetGroup
      simp only [hns, Bool.false_eq_true, if_false, Nat.add_sub_cancel]
      rw [List.set_append_right _ _ (le_refl _), Nat.sub_self, List.set_cons_zero]
    simp only [List.length_append, List.length_singleton] at h
    rw [hset] at h
    refine ⟨id, rest, h.symm, hid.1, hid.2, ?_, ?_⟩
    · intro hs
      simp only [hs, if_true] at hd
      obtain ⟨_, _, c, d, e⟩ := newId_spec _ _ _ _ hd
      exact ⟨c, d, e⟩
    · intro hs
      simp only [hs, Bool.false_eq_true, if_false, Option.some.injEq, Prod.mk.injEq] at hd
      exact ⟨hd.1.symm, hd.2.symm⟩

theorem decimalDigits_digits :
    ∀ (fuel n : Nat), ∀ c ∈ decimalDigits fuel n, 48 ≤ c ∧ c ≤ 57 := by
  intro fuel
  induction fuel with
  | zero => intro n c h; simp [decimalDigits] at h
  | succ fuel ih =>
    intro n c h
    unfold decimalDigits at h
    split_ifs at h with hn
    · simp only [List.mem_singleton] at h; omega
    · simp only [List.mem_append, List.mem_singleton] at h
      rcases h with h | h
      · exact ih _ c h
      · omega

theorem ttol_digits_append :
    ∀ (ds rest : List Nat) (acc : Nat), (∀ c ∈ ds, 48 ≤ c ∧ c ≤ 57) →
      _ttol.digits acc (ds ++ rest) = _ttol.digits (_ttol.digits acc ds) rest := by
  intro ds
  induction ds with
  | nil => intro rest acc _; simp [_ttol.digits]
  | cons d ds ih =>
    intro rest acc h
    have hd := h d (List.mem_cons_self _ _)
    simp only [List.cons_append, _ttol.digits, hd, and_self, if_true]
    exact ih rest _ (fun c hc => h c (List.mem_cons_of_mem _ hc))

theorem ttol_digits_decimal :
    ∀ (fuel n : Nat), n < 10 ^ fuel → _ttol.digits 0 (decimalDigits fuel n) = n := by
  intro fuel
  induction fuel with
  | zero => intro n h; simp at h; subst h; simp [decimalDigits, _ttol.digits]
  | succ fuel ih =>
    intro n h
    unfold decimalDigits
    split_ifs with hn
    · have h1 : 48 ≤ 48 + n ∧ 48 + n ≤ 57 := by omega
      simp only [_ttol.digits, h1, and_self, if_true]
      omega
    · rw [ttol_digits_append _ _ _ (decimalDigits_digits fuel (n / 10))]
      rw [ih (n / 10) (by rw [pow_succ] at h; omega)]
      have h1 : 48 ≤ 48 + n % 10 ∧ 48 + n % 10 ≤ 57 := by omega
      simp only [_ttol.digits, h1, and_self, if_true]
      omega

theorem decimalDigits_ne_nil (fuel n : Nat) : decimalDigits (fuel + 1) n ≠ [] := by
  unfold decimalDigits
  split_ifs <;> simp

theorem ttol_of_digits (ds : List Nat) (h : ∀ c ∈ ds, 48 ≤ c ∧ c ≤ 57) :
    _ttol ds = ((_ttol.digits 0 ds : Nat) : Int) := by
  cases ds with
  | nil => rfl
  | cons d rest =>
    have hd := h d (List.mem_cons_self _ _)
    unfold _ttol
    split
    · rename_i cs heq
      simp only [List.cons.injEq] at heq
      omega
    · rename_i cs heq
      simp only [List.cons.injEq] at heq
      omega
    · rfl

theorem ttol_ltot (id : Nat) (h : id < U32) : toDWORD (_ttol (_ltot (toLong id))) = id := by
  unfold U32 at h
  unfold toLong _ltot
  have hmod : id % U32 = id := Nat.mod_eq_of_lt h
  rw [hmod]
  by_cases hlt : id < 2147483648
  · simp only [hlt, if_true]
    have hnn : ¬ ((id : Int) < 0) := by omega
    simp only [hnn, if_false, Int.natAbs_ofNat]
    rw [ttol_of_digits _ (decimalDigits_digits 10 id),
      ttol_digits_decimal 10 id (by norm_num; omega)]
    unfold toDWORD
    omega
  · simp only [hlt, if_false]
    have hneg : ((id : Int) - 4294967296 < 0) := by omega
    simp only [hneg, if_true]
    have habs : ((id : Int) - 4294967296).natAbs = 4294967296 - id := by omega
    rw [habs]
    show toDWORD (_ttol (45 :: decimalDigits 10 (4294967296 - id))) = id
    unfold _ttol
    simp only
    rw [ttol_digits_decimal 10 _ (by norm_num; omega)]
    unfold toDWORD
    omega

theorem ltot_no_newline (v : Int) : ∀ c ∈ _ltot v, c ≠ 10 := by
  intro c hc
  unfold _ltot at hc
  split_ifs at hc
  · simp only [List.mem_cons] at hc
    rcases hc with hc | hc
    · omega
    · have := decimalDigits_digits _ _ c hc; omega
  · have := decimalDigits_digits _ _ c hc; omega

theorem idOf_fqgn (pre ds : List Nat) (h : ∀ c ∈ ds, c ≠ 10) :
    SortGroupList.idOf (pre ++ [10] ++ ds) = toDWORD (_ttol ds) := by
  unfold SortGroupList.idOf
  have : ((pre ++ [10] ++ ds).reverse.takeWhile (fun c => c != 10)) = ds.reverse := by
    simp only [List.reverse_append, List.reverse_cons, List.reverse_nil, List.nil_append,
      List.singleton_append, List.append_assoc]
    rw [List.takeWhile_append_of_pos]
    · simp [List.takeWhile]
    · intro c hc
      simpa using h c (List.mem_reverse.mp hc)
  rw [this, List.reverse_reverse]

theorem build_ids :
    ∀ (groups : List PW_GROUP) (pParents : List (List Nat)),
      (∀ g ∈ groups, g.uGroupId < U32) →
      (SortGroupList.build pParents groups).map SortGroupList.idOf
        = groups.map (fun g => g.uGroupId) := by
  intro groups
  induction groups with
  | nil => intro pp _; rfl
  | cons g rest ih =>
    intro pp h
    unfold SortGroupList.build
    simp only [List.map_cons]
    rw [ih _ (fun x hx => h x (List.mem_cons_of_mem _ hx))]
    congr 1
    have hfq : ∀ (a b : List Nat) (ds : List Nat), a ++ b ++ [10, 10] ++ ds
        = (a ++ b ++ [10]) ++ [10] ++ ds := by
      intro a b ds; simp
    rw [hfq, idOf_fqgn _ _ (ltot_no_newline _), ttol_ltot _ (h g (List.mem_cons_self _ _))]

/-! ## Exchanges and permutations -/

theorem swapAt_length {α : Type} (a : List α) (i j : Nat) : (swapAt a i j).length = a.length := by
  unfold swapAt
  split <;> simp

theorem set_getElem_same {α : Type} (a : List α) (i : Nat) (hi : i < a.length) :
    a.set i a[i] = a := by
  rw [List.set_eq_take_append_cons_drop, if_pos hi, ← List.drop_eq_getElem_cons hi,
    List.take_append_drop]

theorem count_swap {α : Type} [DecidableEq α] (a : List α) (i j : Nat) (hi : i < a.length)
    (hj : j < a.length) (hij : i ≠ j) (b : α) :
    List.count b ((a.set i a[j]).set j a[i]) = List.count b a := by
  have hj' : j < (a.set i a[j]).length := by simpa using hj
  rw [List.count_set _ _ _ _ hj', List.count_set _ _ _ _ hi]
  have hg : (a.set i a[j])[j] = a[j] := List.getElem_set_ne hij _
  rw [hg]
  have hci : a[i] = b → 0 < List.count b a := fun h =>
    List.count_pos_iff.mpr (h ▸ List.getElem_mem _)
  have hcj : a[j] = b → 0 < List.count b a := fun h =>
    List.count_pos_iff.mpr (h ▸ List.getElem_mem _)
  by_cases hbi : a[i] = b <;> by_cases hbj : a[j] = b
  · have := hci hbi
    simp only [hbi, hbj, beq_self_eq_true, if_true]; omega
  · have := hci hbi
    have hne : (a[j] == b) = false := by simpa using hbj
    simp only [hbi, hne, beq_self_eq_true, if_true, Bool.false_eq_true, if_false]; omega
  · have := hcj hbj
    have hne : (a[i] == b) = false := by simpa using hbi
    simp only [hbj, hne, beq_self_eq_true, if_true, Bool.false_eq_true, if_false]; omega
  · have hne : (a[i] == b) = false := by simpa using hbi
    have hne2 : (a[j] == b) = false := by simpa using hbj
    simp only [hne, hne2, Bool.false_eq_true, if_false]; omega

theorem swapAt_perm {α : Type} (a : List α) (i j : Nat) : (swapAt a i j).Perm a := by
  classical
  unfold swapAt
  split
  · rename_i x y hx hy
    obtain ⟨hi, hxi⟩ := List.getElem?_eq_some_iff.mp hx
    obtain ⟨hj, hyj⟩ := List.getElem?_eq_some_iff.mp hy
    subst hxi hyj
    by_cases hij : i = j
    · subst hij
      rw [List.set_set, set_getElem_same a i hi]
    · rw [List.perm_iff_count]
      intro b
      exact count_swap a i j hi hj hij b
  · exact List.Perm.refl _

theorem moveUp_perm {α : Type} : ∀ (k i : Nat) (a : List α), (moveUp k i a).Perm a := by
  intro k
  induction k with
  | zero => intro i a; exact List.Perm.refl _
  | succ k ih => intro i a; exact (ih _ _).trans (swapAt_perm _ _ _)

theorem moveDown_perm {α : Type} : ∀ (k i : Nat) (a : List α), (moveDown k i a).Perm a := by
  intro k
  induction k with
  | zero => intro i a; exact List.Perm.refl _
  | succ k ih => intro i a; exact (ih _ _).trans (swapAt_perm _ _ _)

theorem FixGroupTree_loop_ids :
    ∀ (gs : List PW_GROUP) (last : Nat),
      (FixGroupTree.loop last gs).map (fun g => g.uGroupId) = gs.map (fun g => g.uGroupId) := by
  intro gs
  induction gs with
  | nil => intro last; rfl
  | cons g rest ih => intro last; simp [FixGroupTree.loop, ih]

theorem FixGroupTree_ids (m : CPwManager) :
    m.FixGroupTree.m_pGroups.map (fun g => g.uGroupId) = m.m_pGroups.map (fun g => g.uGroupId) := by
  unfold FixGroupTree
  simp only [FixGroupTree_loop_ids]
  cases m.m_pGroups <;> simp

theorem FixGroupTree_length (m : CPwManager) :
    m.FixGroupTree.m_pGroups.length = m.m_pGroups.length := by
  have := congrArg List.length (FixGroupTree_ids m)
  simpa using this

theorem passFrom_perm :
    ∀ (l : List (List Nat)) (cur : List Nat), (SortGroupList.passFrom cur l).1.Perm (cur :: l) := by
  intro l
  induction l with
  | nil => intro cur; simp [SortGroupList.passFrom]
  | cons next rest ih =>
    intro cur
    unfold SortGroupList.passFrom
    split_ifs
    · exact ((ih cur).cons next).trans (List.Perm.swap _ _ _)
    · exact (ih next).cons cur

theorem pass_perm (l : List (List Nat)) : (SortGroupList.pass l).1.Perm l := by
  cases l with
  | nil => simp [SortGroupList.pass]
  | cons a rest => exact passFrom_perm rest a

theorem bubble_perm :
    ∀ (fuel : Nat) (l l' : List (List Nat)), SortGroupList.bubble fuel l = some l' → l'.Perm l := by
  intro fuel
  induction fuel with
  | zero => intro l l' h; simp [SortGroupList.bubble] at h
  | succ fuel ih =>
    intro l l' h
    unfold SortGroupList.bubble at h
    simp only at h
    split_ifs at h
    · exact (ih _ _ h).trans (pass_perm l)
    · simp only [Option.some.injEq] at h
      rw [← h]
      exact pass_perm l

theorem find_spec (dw : Nat) :
    ∀ (gs : List PW_GROUP) (j : Nat), dw ∈ gs.map (fun g => g.uGroupId) →
      ∃ k g, SortGroupList.find dw j gs = j + k ∧ gs[k]? = some g ∧ g.uGroupId = dw := by
  intro gs
  induction gs with
  | nil => intro j h; simp at h
  | cons g rest ih =>
    intro j h
    unfold SortGroupList.find
    by_cases hg : (g.uGroupId == dw) = true
    · exact ⟨0, g, by simp [hg], by simp, by simpa using hg⟩
    · simp only [hg, Bool.false_eq_true, if_false]
      have hmem : dw ∈ rest.map (fun g => g.uGroupId) := by
        simp only [List.map_cons, List.mem_cons] at h
        rcases h with h | h
        · exact absurd (by simpa using h.symm) hg
        · exact h
      obtain ⟨k, g', h1, h2, h3⟩ := ih (j + 1) hmem
      exact ⟨k + 1, g', by rw [h1]; omega, by simpa using h2, h3⟩

theorem swapAt_drop {α : Type} (a : List α) (i k : Nat) (x y : α)
    (hx : a[i]? = some x) (hy : a[i + k]? = some y) :
    ∃ tail, (swapAt a i (i + k)).drop i = y :: tail ∧ (y :: tail).Perm (a.drop i) := by
  have hp : ((swapAt a i (i + k)).drop i).Perm (a.drop i) := by
    have hsw : (swapAt a i (i + k)).drop i = swapAt (a.drop i) 0 k := by
      unfold swapAt
      simp only [hx, hy, List.getElem?_drop, Nat.add_zero]
      rw [List.drop_set, List.drop_set]
      simp
    rw [hsw]
    exact swapAt_perm _ _ _
  have hhead : (swapAt a i (i + k))[i]? = some y := by
    unfold swapAt
    simp only [hx, hy]
    obtain ⟨hi, _⟩ := List.getElem?_eq_some_iff.mp hx
    by_cases hk : k = 0
    · subst hk
      simp only [Nat.add_zero] at hy ⊢
      rw [hx] at hy
      simp only [Option.some.injEq] at hy
      subst hy
      rw [List.getElem?_set_self (by simpa using hi)]
    · rw [List.getElem?_set_ne (by omega), List.getElem?_set_self hi]
  have hlt : i < (swapAt a i (i + k)).length := by
    obtain ⟨h, _⟩ := List.getElem?_eq_some_iff.mp hhead
    exact h
  refine ⟨(swapAt a i (i + k)).drop (i + 1), ?_, ?_⟩
  · rw [List.drop_eq_getElem_cons hlt]
    congr 1
    have := List.getElem?_eq_getElem hlt
    rw [this] at hhead
    exact Option.some.inj hhead
  · rw [List.drop_eq_getElem_cons hlt] at hp
    have hy2 : (swapAt a i (i + k))[i] = y := by
      have := List.getElem?_eq_getElem hlt
      rw [this] at hhead
      exact Option.some.inj hhead
    rw [hy2] at hp
    exact hp

theorem place_perm :
    ∀ (names : List (List Nat)) (i : Nat) (groups : List PW_GROUP),
      (names.map SortGroupList.idOf).Perm ((groups.drop i).map (fun g => g.uGroupId)) →
      (SortGroupList.place i names groups).Perm groups := by
  intro names
  induction names with
  | nil => intro i groups _; simp [SortGroupList.place]
  | cons fq rest ih =>
    intro i groups hperm
    cases rest with
    | nil => simp [SortGroupList.place]
    | cons next rest2 =>
      unfold SortGroupList.place
      have hmem : SortGroupList.idOf fq ∈ (groups.drop i).map (fun g => g.uGroupId) :=
        hperm.subset (by simp)
      obtain ⟨k, g, hfind, hgk, hgid⟩ := find_spec _ _ i hmem
      have hgk' : groups[i + k]? = some g := by simpa [List.getElem?_drop] using hgk
      have hlt : i + k < groups.length := (List.getElem?_eq_some_iff.mp hgk').1
      have hi : i < groups.length := by omega
      simp only [hfind, hlt, if_true]
      obtain ⟨tail, hdrop, htail⟩ := swapAt_drop groups i k groups[i] g
        (List.getElem?_eq_getElem hi) hgk'
      refine (ih (i + 1) _ ?_).trans (swapAt_perm _ _ _)
      have hd1 : (swapAt groups i (i + k)).drop (i + 1) = tail := by
        have := congrArg List.tail hdrop
        simpa [List.tail_drop] using this
      rw [hd1]
      have h2 : ((fq :: next :: rest2).map SortGroupList.idOf).Perm
          ((g :: tail).map (fun g => g.uGroupId)) :=
        hperm.trans (htail.map _).symm
      simp only [List.map_cons] at h2 ⊢
      rw [hgid] at h2
      exact (List.perm_cons _).mp h2

theorem SortGroupList_perm (E : Env) (m m' : CPwManager) (h : m.SortGroupList E = some m')
    (hid : ∀ g ∈ m.m_pGroups, g.uGroupId < U32) :
    (m'.m_pGroups.map (fun g => g.uGroupId)).Perm (m.m_pGroups.map (fun g => g.uGroupId))
    ∧ m'.m_pEntries = m.m_pEntries := by
  unfold SortGroupList at h
  simp only [] at h
  split_ifs at h
  · simp only [Option.some.injEq] at h
    subst h
    exact ⟨List.Perm.refl _, rfl⟩
  · simp only [Option.some.injEq] at h
    subst h
    exact ⟨List.Perm.refl _, rfl⟩
  · simp only [Option.some.injEq] at h
    subst h
    exact ⟨List.Perm.refl _, rfl⟩
  · split at h
    · exact absurd h (by simp)
    · rename_i pList hb
      simp only [Option.some.injEq] at h
      subst h
      refine ⟨?_, rfl⟩
      rw [FixGroupTree_ids]
      apply List.Perm.map
      apply place_perm
      simp only [List.drop_zero]
      rw [← build_ids m.m_pGroups [] hid]
      exact (bubble_perm _ _ _ hb).map _

/-! ## Group ids -/

theorem GroupIdsOK_perm (checked : Bool) (ids ids' : List Nat) (hp : ids'.Perm ids)
    (h : GroupIdsOK checked ids) : GroupIdsOK checked ids' :=
  ⟨fun x hx => h.1 x (hp.subset hx), fun hc => (hp.nodup_iff).mpr (h.2 hc)⟩

theorem GroupIdsOK_sublist (checked : Bool) (ids ids' : List Nat) (hs : ids'.Sublist ids)
    (h : GroupIdsOK checked ids) : GroupIdsOK checked ids' :=
  ⟨fun x hx => h.1 x (hs.subset hx), fun hc => (h.2 hc).sublist hs⟩

theorem GroupIdsOK_append (checked : Bool) (ids : List Nat) (x : Nat)
    (h : GroupIdsOK checked ids) (hx : x ≠ 0 ∧ x ≠ DWORD_MAX ∧ x < U32)
    (hfresh : checked = true → x ∉ ids) : GroupIdsOK checked (ids ++ [x]) := by
  constructor
  · intro y hy
    simp only [List.mem_append, List.mem_singleton] at hy
    rcases hy with hy | hy
    · exact h.1 y hy
    · subst hy; exact hx
  · intro hc
    rw [List.nodup_append]
    refine ⟨h.2 hc, by simp, ?_⟩
    intro a ha hb
    simp only [List.mem_singleton] at hb
    subst hb
    exact hfresh hc ha

theorem shiftOut_sublist {α : Type} (a : List α) (i : Nat) : (shiftOut a i).Sublist a := by
  unfold shiftOut
  refine (List.take_sublist _ _).trans ?_
  have h : (a.take i ++ a.drop (i + 1)).Sublist (a.take i ++ a.drop i) :=
    List.Sublist.append (List.Sublist.refl _) (List.drop_sublist_drop_left a (Nat.le_succ i))
  rw [List.take_append_drop] at h
  exact h

theorem shiftOut_length {α : Type} (a : List α) (i : Nat) (h : a ≠ []) :
    (shiftOut a i).length = a.length - 1 := by
  unfold shiftOut
  have hpos : 0 < a.length := List.length_pos.mpr h
  rw [List.length_take, List.length_append, List.length_take, List.length_drop]
  omega

theorem GetGroupByIdN_loop_spec (id : Nat) :
    ∀ (gs : List PW_GROUP) (i : Nat),
      (∃ k g, GetGroupByIdN.loop id i gs = i + k ∧ gs[k]? = some g ∧ g.uGroupId = id)
      ∨ (GetGroupByIdN.loop id i gs = DWORD_MAX ∧ ∀ g ∈ gs, g.uGroupId ≠ id) := by
  intro gs
  induction gs with
  | nil => intro i; right; simp [GetGroupByIdN.loop]
  | cons g rest ih =>
    intro i
    unfold GetGroupByIdN.loop
    by_cases hg : (g.uGroupId == id) = true
    · left
      exact ⟨0, g, by simp [hg], by simp, by simpa using hg⟩
    · simp only [hg, Bool.false_eq_true, if_false]
      rcases ih (i + 1) with ⟨k, g', h1, h2, h3⟩ | ⟨h1, h2⟩
      · left
        exact ⟨k + 1, g', by rw [h1]; omega, by simpa using h2, h3⟩
      · right
        refine ⟨h1, ?_⟩
        intro x hx
        simp only [List.mem_cons] at hx
        rcases hx with hx | hx
        · subst hx; simpa using hg
        · exact h2 x hx

theorem GetGroupByIdN_spec (m : CPwManager) (id : Nat) :
    (∃ g, m.m_pGroups[m.GetGroupByIdN id]? = some g ∧ g.uGroupId = id)
    ∨ (m.GetGroupByIdN id = DWORD_MAX ∧ ∀ g ∈ m.m_pGroups, g.uGroupId ≠ id) := by
  unfold GetGroupByIdN
  rcases GetGroupByIdN_loop_spec id m.m_pGroups 0 with ⟨k, g, h1, h2, h3⟩ | h
  · left
    rw [h1, Nat.zero_add]
    exact ⟨g, h2, h3⟩
  · right; exact h

theorem set_same_id (gs : List PW_GROUP) (i : Nat) (g g' : PW_GROUP)
    (hg : gs[i]? = some g) (hid : g'.uGroupId = g.uGroupId) :
    (gs.set i g').map (fun g => g.uGroupId) = gs.map (fun g => g.uGroupId) := by
  obtain ⟨hi, hgi⟩ := List.getElem?_eq_some_iff.mp hg
  rw [List.map_set]
  have hi' : i < (gs.map (fun g => g.uGroupId)).length := by simpa using hi
  have hval : (gs.map (fun g => g.uGroupId))[i] = g'.uGroupId := by
    simp [hgi, hid]
  rw [← hval]
  exact set_getElem_same _ i hi'

theorem touchGroup_ids (E : Env) (m : CPwManager) (i : Nat) :
    (MergeIn.touchGroup E m i).m_pGroups.map (fun g => g.uGroupId)
      = m.m_pGroups.map (fun g => g.uGroupId) := by
  unfold MergeIn.touchGroup GetGroup
  split
  · rfl
  · rename_i g hg
    exact set_same_id _ i g _ hg rfl

theorem touchGroup_entries (E : Env) (m : CPwManager) (i : Nat) :
    (MergeIn.touchGroup E m i).m_pEntries = m.m_pEntries := by
  unfold MergeIn.touchGroup
  split <;> rfl

theorem DeleteGroupById_ids (m : CPwManager) (id : Nat) (res : Bool × CPwManager)
    (h : m.DeleteGroupById id = some res) :
    (res.2.m_pGroups.map (fun g => g.uGroupId)).Sublist (m.m_pGroups.map (fun g => g.uGroupId))
    ∧ (m.m_pGroups ≠ [] → res.2.m_pGroups.length = m.m_pGroups.length - 1) := by
  rw [DeleteGroupById_eq] at h
  simp only [Option.some.injEq] at h
  subst h
  constructor
  · rw [FixGroupTree_ids]
    exact (shiftOut_sublist _ _).map _
  · intro hne
    rw [FixGroupTree_length]
    exact shiftOut_length _ _ hne

theorem newGroup_spec (checked : Bool) (i : Nat) :
    ∀ (fuel : Nat) (m src : CPwManager) (r : Rand) (res : CPwManager × CPwManager × Rand),
      MergeIn.newGroup i fuel m src r = some res →
      m.m_pGroups.length ≤ res.1.m_pGroups.length
      ∧ (GroupIdsOK checked (m.m_pGroups.map (fun g => g.uGroupId)) →
          GroupIdsOK checked (res.1.m_pGroups.map (fun g => g.uGroupId)))
      ∧ ((∀ g ∈ src.m_pGroups, g.uGroupId < U32) → ∀ g ∈ res.2.1.m_pGroups, g.uGroupId < U32) := by
  intro fuel
  induction fuel with
  | zero => intro m src r res h; simp [MergeIn.newGroup] at h
  | succ fuel ih =>
    intro m src r res h
    unfold MergeIn.newGroup at h
    cases hs : src.m_pGroups[i]? with
    | none =>
      simp only [hs, Option.some.injEq] at h
      subst h
      exact ⟨le_refl _, fun h => h, fun h => h⟩
    | some pgSource =>
      simp only [hs] at h
      cases ha : CPwManager.AddGroup m r { pgSource with uGroupId := 0 } with
      | none => simp only [ha] at h; exact absurd h (by simp)
      | some res1 =>
        simp only [ha] at h
        obtain ⟨id, rest, hres1, hid0, hidM, hsent, _⟩ := AddGroup_some m r _ res1 ha
        obtain ⟨hidU, hfresh, _⟩ := hsent (by simp)
        subst hres1
        simp only [GetNumberOfGroups, List.length_append, List.length_singleton,
          Nat.add_sub_cancel] at h
        have hnew : ((m.m_pGroups ++ [SetGroup.fill { pgSource with uGroupId := id }]).getD
            m.m_pGroups.length PW_GROUP.zero).uGroupId = id := by
          rw [List.getD_eq_getElem?_getD, List.getElem?_concat_length]
          rfl
        rw [hnew] at h
        have hok1 : GroupIdsOK checked (m.m_pGroups.map (fun g => g.uGroupId)) →
            GroupIdsOK checked ((m.m_pGroups ++ [SetGroup.fill { pgSource with uGroupId := id }]).map
              (fun g => g.uGroupId)) := by
          intro hok
          rw [List.map_append]
          refine GroupIdsOK_append checked _ id hok ⟨hid0, hidM, hidU⟩ ?_
          intro _ hmem
          simp only [List.mem_map] at hmem
          obtain ⟨g, hg, hgid⟩ := hmem
          exact hfresh g hg hgid
        have hsrcset : ∀ (g0 : PW_GROUP), g0.uGroupId < U32 →
            (∀ g ∈ src.m_pGroups, g.uGroupId < U32) →
            ∀ g ∈ src.m_pGroups.set i g0, g.uGroupId < U32 := by
          intro g0 hg0 hsrc g hg
          rcases List.mem_or_eq_of_mem_set hg with hg | hg
          · exact hsrc g hg
          · subst hg; exact hg0
        split_ifs at h with hnone
        · simp only [Option.some.injEq] at h
          subst h
          refine ⟨by simp, hok1, ?_⟩
          intro hsrc g hg
          have hg' : g ∈ src.m_pGroups.set i { pgSource with uGroupId := 0 } := by
            unfold SubstEntryGroupIds at hg
            split_ifs at hg <;> exact hg
          exact hsrcset _ (by show 0 < U32; decide) hsrc g hg'
        · cases hd : CPwManager.DeleteGroupById
              { m with m_pGroups := m.m_pGroups ++ [SetGroup.fill { pgSource with uGroupId := id }] }
              id with
          | none => simp only [hd] at h; exact absurd h (by simp)
          | some del =>
            simp only [hd] at h
            obtain ⟨hsub, hlen⟩ := DeleteGroupById_ids _ _ _ hd
            obtain ⟨h1, h2, h3⟩ := ih _ _ _ _ h
            have hlen' := hlen (by simp)
            simp only [List.length_append, List.length_singleton, Nat.add_sub_cancel] at hlen'
            refine ⟨by omega, ?_, ?_⟩
            · intro hok
              exact h2 (GroupIdsOK_sublist checked _ _ hsub (hok1 hok))
            · intro hsrc
              apply h3
              intro g hg
              simp only [List.set_set] at hg
              have hpg : pgSource.uGroupId < U32 :=
                hsrc _ (List.getElem?_mem hs)
              exact hsrcset _ hpg hsrc g hg


theorem SetGroup_fill_id (t : PW_GROUP) : (SetGroup.fill t).uGroupId = t.uGroupId := rfl

theorem groupStep_spec (E : Env) (checked bNew bCmp : Bool) (i : Nat) (pgSource : PW_GROUP)
    (m src : CPwManager) (r : Rand) (res : CPwManager × CPwManager × Rand)
    (hsrc : src.m_pGroups[i]? = some pgSource)
    (h : MergeIn.groupStep E bNew bCmp i pgSource m src r = some res) :
    m.m_pGroups.length ≤ res.1.m_pGroups.length
    ∧ (m.m_pGroups.length ≤ DWORD_MAX →
        GroupIdsOK checked (m.m_pGroups.map (fun g => g.uGroupId)) →
        (∀ g ∈ src.m_pGroups, g.uGroupId < U32) →
        GroupIdsOK checked (res.1.m_pGroups.map (fun g => g.uGroupId)))
    ∧ ((∀ g ∈ src.m_pGroups, g.uGroupId < U32) → ∀ g ∈ res.2.1.m_pGroups, g.uGroupId < U32) := by
  unfold MergeIn.groupStep at h
  cases bNew with
  | true =>
    simp only [if_true] at h
    obtain ⟨h1, h2, h3⟩ := newGroup_spec checked i _ m src r res h
    exact ⟨h1, fun _ hok _ => h2 hok, h3⟩
  | false =>
    simp only [Bool.false_eq_true, if_false] at h
    rcases GetGroupByIdN_spec m pgSource.uGroupId with ⟨g, hg, hgid⟩ | ⟨hnot, hfresh⟩
    · obtain ⟨hlt, _⟩ := List.getElem?_eq_some_iff.mp hg
      by_cases hmax : m.GetGroupByIdN pgSource.uGroupId = DWORD_MAX
      · -- the index found is the sentinel: the group is added
        have hne : (m.GetGroupByIdN pgSource.uGroupId != DWORD_MAX) = false := by
          simp [hmax]
        simp only [hne, Bool.false_eq_true, if_false] at h
        cases ha : CPwManager.AddGroup m r pgSource with
        | none => simp only [ha] at h; exact absurd h (by simp)
        | some res1 =>
          simp only [ha, Option.some.injEq] at h
          subst h
          obtain ⟨id, rest, hres1, _, _, _, _⟩ := AddGroup_some m r _ res1 ha
          subst hres1
          refine ⟨by simp, ?_, fun hs => hs⟩
          intro hle
          rw [hmax] at hlt
          omega
      · have hne : (m.GetGroupByIdN pgSource.uGroupId != DWORD_MAX) = true := by
          simp [hmax]
        simp only [hne, if_true, GetGroup, hg] at h
        split_ifs at h
        · simp only [Option.some.injEq] at h
          subst h
          exact ⟨le_refl _, fun _ hok _ => hok, fun hs => hs⟩
        · simp only [Option.some.injEq] at h
          subst h
          have hids : (MergeIn.touchGroup E
              (m.SetGroup (m.GetGroupByIdN pgSource.uGroupId) pgSource).2
              (m.GetGroupByIdN pgSource.uGroupId)).m_pGroups.map (fun g => g.uGroupId)
              = m.m_pGroups.map (fun g => g.uGroupId) := by
            rw [touchGroup_ids]
            rcases SetGroup_cases m (m.GetGroupByIdN pgSource.uGroupId) pgSource with
              ⟨_, hs⟩ | ⟨_, hs⟩
            · rw [hs]
            · rw [hs]
              exact set_same_id _ _ g _ hg (by rw [SetGroup_fill_id, hgid])
          refine ⟨?_, fun _ hok _ => by rw [hids]; exact hok, fun hs => hs⟩
          have hl := congrArg List.length hids
          simp only [List.length_map] at hl
          exact le_of_eq hl.symm
    · have hne : (m.GetGroupByIdN pgSource.uGroupId != DWORD_MAX) = false := by
        simp [hnot]
      simp only [hne, Bool.false_eq_true, if_false] at h
      cases ha : CPwManager.AddGroup m r pgSource with
      | none => simp only [ha] at h; exact absurd h (by simp)
      | some res1 =>
        simp only [ha, Option.some.injEq] at h
        subst h
        obtain ⟨id, rest, hres1, hid0, hidM, hsent, hexp⟩ := AddGroup_some m r _ res1 ha
        subst hres1
        refine ⟨by simp, ?_, fun hs => hs⟩
        intro _ hok hs
        simp only [List.map_append, List.map_cons, List.map_nil, SetGroup_fill_id]
        have hidU : id < U32 ∧ ∀ g ∈ m.m_pGroups, g.uGroupId ≠ id := by
          cases hc : (pgSource.uGroupId == 0 || pgSource.uGroupId == DWORD_MAX) with
          | true => exact ⟨(hsent hc).1, (hsent hc).2.1⟩
          | false =>
            obtain ⟨hid, _⟩ := hexp hc
            subst hid
            exact ⟨hs _ (List.getElem?_mem hsrc), hfresh⟩
        refine GroupIdsOK_append checked _ id hok ⟨hid0, hidM, hidU.1⟩ ?_
        intro _ hmem
        simp only [List.mem_map] at hmem
        obtain ⟨g, hg, hgid⟩ := hmem
        exact hidU.2 g hg hgid

theorem groupLoop_spec (E : Env) (checked bNew bCmp : Bool) :
    ∀ (n i : Nat) (m src : CPwManager) (r : Rand) (res : CPwManager × CPwManager × Rand),
      MergeIn.groupLoop E bNew bCmp n i m src r = some res →
      m.m_pGroups.length ≤ res.1.m_pGroups.length
      ∧ (res.1.m_pGroups.length ≤ DWORD_MAX →
          GroupIdsOK checked (m.m_pGroups.map (fun g => g.uGroupId)) →
          (∀ g ∈ src.m_pGroups, g.uGroupId < U32) →
          GroupIdsOK checked (res.1.m_pGroups.map (fun g => g.uGroupId))) := by
  intro n
  induction n with
  | zero =>
    intro i m src r res h
    simp only [MergeIn.groupLoop, Option.some.injEq] at h
    subst h
    exact ⟨le_refl _, fun _ hok _ => hok⟩
  | succ n ih =>
    intro i m src r res h
    unfold MergeIn.groupLoop at h
    cases hg : src.GetGroup i with
    | none =>
      simp only [hg] at h
      exact ih _ _ _ _ _ h
    | some pgSource =>
      simp only [hg] at h
      cases hs : MergeIn.groupStep E bNew bCmp i pgSource m src r with
      | none => simp only [hs] at h; exact absurd h (by simp)
      | some st =>
        simp only [hs] at h
        obtain ⟨h1, h2, h3⟩ := groupStep_spec E checked bNew bCmp i pgSource m src r st hg hs
        obtain ⟨k1, k2⟩ := ih _ _ _ _ _ h
        refine ⟨le_trans h1 k1, ?_⟩
        intro hle hok hsrc
        exact k2 hle (h2 (by omega) hok hsrc) (h3 hsrc)

theorem MergeIn_ids (E : Env) (checked bNew bCmp : Bool) (m src : CPwManager) (r : Rand)
    (res : CPwManager × CPwManager × Rand) (h : m.MergeIn E src r bNew bCmp = some res)
    (hle : res.1.m_pGroups.length ≤ DWORD_MAX)
    (hok : GroupIdsOK checked (m.m_pGroups.map (fun g => g.uGroupId)))
    (hsrc : ∀ g ∈ src.m_pGroups, g.uGroupId < U32) :
    GroupIdsOK checked (res.1.m_pGroups.map (fun g => g.uGroupId)) := by
  unfold MergeIn at h
  cases hg : MergeIn.groupLoop E bNew bCmp src.GetNumberOfGroups 0 m src r with
  | none => simp [hg] at h
  | some x =>
    obtain ⟨m1, src1, r1⟩ := x
    simp only [hg, DeleteLostEntries_eq, Option.some.injEq] at h
    subst h
    simp only [MergeIn_entryLoop_groups] at hle ⊢
    rw [FixGroupTree_length] at hle
    rw [FixGroupTree_ids]
    exact (groupLoop_spec E checked bNew bCmp _ _ _ _ _ _ hg).2 hle hok hsrc

theorem nodup_set_fresh {α : Type} : ∀ (l : List α) (i : Nat) (x : α), l.Nodup →
    (∀ j y, j ≠ i → l[j]? = some y → y ≠ x) → (l.set i x).Nodup := by
  intro l
  induction l with
  | nil => intro i x _ _; simp
  | cons a t ih =>
    intro i x hnd hfresh
    rw [List.nodup_cons] at hnd
    cases i with
    | zero =>
      rw [List.set_cons_zero, List.nodup_cons]
      refine ⟨?_, hnd.2⟩
      intro hx
      obtain ⟨j, hj⟩ := List.mem_iff_getElem?.mp hx
      exact hfresh (j + 1) x (by omega) (by simpa using hj) rfl
    | succ i =>
      rw [List.set_cons_succ, List.nodup_cons]
      refine ⟨?_, ih i x hnd.2 ?_⟩
      · intro ha
        rcases List.mem_or_eq_of_mem_set ha with ha | ha
        · exact hnd.1 ha
        · exact hfresh 0 a (by omega) (by simp) ha
      · intro j y hj hy
        exact hfresh (j + 1) y (by omega) (by simpa using hy)

theorem SetGroup_ids (checked : Bool) (m : CPwManager) (i : Nat) (t : PW_GROUP)
    (ht : t.uGroupId < U32)
    (hfresh : checked = true → ∀ j g, j ≠ i → m.m_pGroups[j]? = some g →
      g.uGroupId ≠ t.uGroupId)
    (hok : GroupIdsOK checked (m.m_pGroups.map (fun g => g.uGroupId))) :
    GroupIdsOK checked ((m.SetGroup i t).2.m_pGroups.map (fun g => g.uGroupId)) := by
  rcases SetGroup_cases m i t with ⟨_, hs⟩ | ⟨hns, hs⟩
  · rw [hs]; exact hok
  · rw [hs]
    simp only [List.map_set, SetGroup_fill_id]
    simp only [Bool.or_eq_false_iff, beq_eq_false_iff_ne, ne_eq] at hns
    constructor
    · intro x hx
      rcases List.mem_or_eq_of_mem_set hx with hx | hx
      · exact hok.1 x hx
      · subst hx; exact ⟨hns.1, hns.2, ht⟩
    · intro hc
      refine nodup_set_fresh _ i _ (hok.2 hc) ?_
      intro j y hj hy
      simp only [List.getElem?_map, Option.map_eq_some'] at hy
      obtain ⟨g, hg, hgy⟩ := hy
      subst hgy
      exact hfresh hc j g hj hg

theorem MoveGroup_ids (m : CPwManager) (dwFrom dwTo : Nat) :
    ((m.MoveGroup dwFrom dwTo).2.m_pGroups.map (fun g => g.uGroupId)).Perm
      (m.m_pGroups.map (fun g => g.uGroupId)) := by
  unfold MoveGroup
  split_ifs
  · exact List.Perm.refl _
  · exact List.Perm.refl _
  · exact List.Perm.refl _
  · rw [FixGroupTree_ids]
    exact (moveUp_perm _ _ _).map _
  · rw [FixGroupTree_ids]
    exact (moveDown_perm _ _ _).map _

theorem GroupReach_ids (E : Env) (checked : Bool) (m : CPwManager)
    (h : GroupReach E checked m) : GroupIdsOK checked (m.m_pGroups.map (fun g => g.uGroupId)) := by
  induction h with
  | empty m h0 =>
    rw [h0]
    exact ⟨by simp, fun _ => List.nodup_nil⟩
  | addGroup m r t res _ ht hfresh ha _ ih =>
    obtain ⟨id, rest, hres, hid0, hidM, hsent, hexp⟩ := AddGroup_some m r t res ha
    subst hres
    simp only [List.map_append, List.map_cons, List.map_nil, SetGroup_fill_id]
    cases hc : (t.uGroupId == 0 || t.uGroupId == DWORD_MAX) with
    | true =>
      obtain ⟨hidU, hnew, _⟩ := hsent hc
      refine GroupIdsOK_append checked _ id ih ⟨hid0, hidM, hidU⟩ ?_
      intro _ hmem
      simp only [List.mem_map] at hmem
      obtain ⟨g, hg, hgid⟩ := hmem
      exact hnew g hg hgid
    | false =>
      obtain ⟨hid, _⟩ := hexp hc
      subst hid
      refine GroupIdsOK_append checked _ _ ih ⟨hid0, hidM, ht⟩ ?_
      intro hck hmem
      simp only [List.mem_map] at hmem
      obtain ⟨g, hg, hgid⟩ := hmem
      simp only [Bool.or_eq_false_iff, beq_eq_false_iff_ne, ne_eq] at hc
      rcases hfresh hck with h0 | hM | hne
      · exact hc.1 h0
      · exact hc.2 hM
      · exact hne g hg hgid
  | setGroup m i t _ _ ht hfresh ih => exact SetGroup_ids checked m i t ht hfresh ih
  | deleteGroupById m id res _ _ hd ih =>
    exact GroupIdsOK_sublist checked _ _ (DeleteGroupById_ids m id res hd).1 ih
  | moveGroup m a b _ ih => exact GroupIdsOK_perm checked _ _ (MoveGroup_ids m a b) ih
  | sortGroupList m m' _ hs ih =>
    exact GroupIdsOK_perm checked _ _
      (SortGroupList_perm E m m' hs (fun g hg => (ih.1 _ (List.mem_map_of_mem _ hg)).2.2)).1 ih
  | mergeIn m src r bNew bCmp res _ hsrc hm hle ih =>
    exact MergeIn_ids E checked bNew bCmp m src r res hm hle ih hsrc


/-- Group ids are not unique in every reachable state: two `AddGroup` calls
with the explicit id 5, starting from the empty database, both succeed and
leave two groups with id 5. -/
theorem C7_group_id_uniqueness_counterexample :
    GroupReach (sampleEnv none) false
      { sampleEmpty with m_pGroups := [SetGroup.fill sampleGroup, SetGroup.fill sampleGroup] }
    ∧ sampleEmpty.AddGroup sampleRand sampleGroup
        = some (true, { sampleEmpty with m_pGroups := [SetGroup.fill sampleGroup] }, sampleRand)
    ∧ CPwManager.AddGroup { sampleEmpty with m_pGroups := [SetGroup.fill sampleGroup] }
          sampleRand sampleGroup
        = some (true,
            { sampleEmpty with
              m_pGroups := [SetGroup.fill sampleGroup, SetGroup.fill sampleGroup] },
            sampleRand)
    ∧ ¬ GroupIdsDistinct
      { sampleEmpty with m_pGroups := [SetGroup.fill sampleGroup, SetGroup.fill sampleGroup] } := by
  have h1 : sampleEmpty.AddGroup sampleRand sampleGroup
      = some (true, { sampleEmpty with m_pGroups := [SetGroup.fill sampleGroup] }, sampleRand) :=
    rfl
  have h2 : CPwManager.AddGroup { sampleEmpty with m_pGroups := [SetGroup.fill sampleGroup] }
        sampleRand sampleGroup
      = some (true,
          { sampleEmpty with
            m_pGroups := [SetGroup.fill sampleGroup, SetGroup.fill sampleGroup] },
          sampleRand) := rfl
  refine ⟨?_, h1, h2, by unfold GroupIdsDistinct; decide⟩
  exact GroupReach.addGroup _ sampleRand sampleGroup _
    (GroupReach.addGroup sampleEmpty sampleRand sampleGroup _ (GroupReach.empty _ rfl)
      (by decide) (fun h => absurd h (by decide)) h1 (by decide))
    (by decide) (fun h => absurd h (by decide)) h2 (by decide)

/-- C7 (amended).  In every state reachable from the empty database through
`AddGroup`, `SetGroup`, `DeleteGroupById`, `MoveGroup`, `SortGroupList` and
`MergeIn`, no group id is 0 or `DWORD_MAX`; and the group ids are pairwise
distinct when (`checked`) every explicit id handed to `AddGroup` or `SetGroup`
is one that no other group of the array has. -/
theorem C7_group_id_uniqueness (E : Env) (checked : Bool) (m : CPwManager)
    (h : GroupReach E checked m) :
    NoSentinelGroupId m ∧ (checked = true → GroupIdsDistinct m) := by
  have hok := GroupReach_ids E checked m h
  refine ⟨?_, hok.2⟩
  intro g hg
  have hx := hok.1 g.uGroupId (List.mem_map_of_mem _ hg)
  exact ⟨hx.1, hx.2.1⟩

/-- From the empty database, `AddGroup` with the explicit id 5 and then with
the template id 0, for which the id 17 is drawn: the state is reachable with
the check on explicit ids, and its ids 5 and 17 are distinct and no sentinel. -/
theorem C7_group_id_uniqueness_witness :
    GroupReach (sampleEnv none) true
      { sampleEmpty with
        m_pGroups := [SetGroup.fill sampleGroup,
          SetGroup.fill { sampleGroup with uGroupId := 17 }] }
    ∧ NoSentinelGroupId
      { sampleEmpty with
        m_pGroups := [SetGroup.fill sampleGroup,
          SetGroup.fill { sampleGroup with uGroupId := 17 }] }
    ∧ (true = true → GroupIdsDistinct
      { sampleEmpty with
        m_pGroups := [SetGroup.fill sampleGroup,
          SetGroup.fill { sampleGroup with uGroupId := 17 }] }) :=
  have h1 : sampleEmpty.AddGroup sampleRand sampleGroup
      = some (true, { sampleEmpty with m_pGroups := [SetGroup.fill sampleGroup] }, sampleRand) :=
    rfl
  have h2 : CPwManager.AddGroup { sampleEmpty with m_pGroups := [SetGroup.fill sampleGroup] }
        sampleRand { sampleGroup with uGroupId := 0 }
      = some (true,
          { sampleEmpty with
            m_pGroups := [SetGroup.fill sampleGroup,
              SetGroup.fill { sampleGroup with uGroupId := 17 }] },
          { sampleRand with xorShift := [17, 23] }) := rfl
  have hr : GroupReach (sampleEnv none) true
      { sampleEmpty with
        m_pGroups := [SetGroup.fill sampleGroup,
          SetGroup.fill { sampleGroup with uGroupId := 17 }] } :=
    GroupReach.addGroup _ sampleRand { sampleGroup with uGroupId := 0 } _
      (GroupReach.addGroup sampleEmpty sampleRand sampleGroup _ (GroupReach.empty _ rfl)
        (by decide) (fun _ => Or.inr (Or.inr (by decide))) h1 (by decide))
      (by decide) (fun _ => Or.inl rfl) h2 (by decide)
  ⟨hr, C7_group_id_uniqueness (sampleEnv none) true _ hr⟩

/-! ## Entry UUIDs -/

theorem fill_uuid (E : Env) (m : CPwManager) (old t : PW_ENTRY) :
    (SetEntry.fill E m old t).uuid = t.uuid := by
  rw [fill_eq]

theorem lock_uuid (E : Env) (m : CPwManager) (e : PW_ENTRY) :
    (m.LockEntryPassword E e).uuid = e.uuid := by
  have h := congrArg (fun x => x.uuid) (lock_frame E m e)
  exact h

theorem map_set_same {α β : Type} (f : α → β) (l : List α) (i : Nat) (a b : α)
    (h : l[i]? = some a) (hf : f b = f a) : (l.set i b).map f = l.map f := by
  obtain ⟨hi, hgi⟩ := List.getElem?_eq_some_iff.mp h
  rw [List.map_set]
  have hi' : i < (l.map f).length := by simpa using hi
  have hval : (l.map f)[i] = f b := by simp [hgi, hf]
  rw [← hval]
  exact set_getElem_same _ i hi'

theorem SetEntry_uuids (E : Env) (m : CPwManager) (i : Nat) (t : PW_ENTRY) :
    m.SetEntry E i t = (false, m)
    ∨ (i < m.m_pEntries.length
      ∧ (m.SetEntry E i t).2.m_pEntries.map (fun e => e.uuid)
        = (m.m_pEntries.map (fun e => e.uuid)).set i t.uuid) := by
  rcases SetEntry_cases E m i t with h | ⟨old, ho, h⟩
  · left; exact h
  · right
    rw [h]
    refine ⟨(List.getElem?_eq_some_iff.mp ho).1, ?_⟩
    simp only [List.map_set, fill_uuid]

theorem AddEntry_uuids (E : Env) (m : CPwManager) (r : Rand) (t : PW_ENTRY) :
    m.AddEntry E r t = (false, m, r)
    ∨ ((m.AddEntry E r t).2.1.m_pEntries.map (fun e => e.uuid)
        = m.m_pEntries.map (fun e => e.uuid)
          ++ [(if t.uuid == g_uuidZero then randCreateUUID r else (t.uuid, r)).1]
      ∧ (m.AddEntry E r t).2.2
        = (if t.uuid == g_uuidZero then randCreateUUID r else (t.uuid, r)).2) := by
  rcases AddEntry_cases E m r t with h | ⟨_, h⟩
  · left; exact h
  · right
    rw [h]
    simp only [List.map_append, List.map_cons, List.map_nil, fill_uuid, AddEntry.pT, and_self]

theorem GetEntryByUuidN_loop_spec (u : List Nat) :
    ∀ (es : List PW_ENTRY) (i : Nat),
      (∃ k e, GetEntryByUuidN.loop u i es = i + k ∧ es[k]? = some e ∧ e.uuid = u)
      ∨ (GetEntryByUuidN.loop u i es = DWORD_MAX ∧ ∀ e ∈ es, e.uuid ≠ u) := by
  intro es
  induction es with
  | nil => intro i; right; simp [GetEntryByUuidN.loop]
  | cons e rest ih =>
    intro i
    unfold GetEntryByUuidN.loop
    by_cases he : (e.uuid == u) = true
    · left
      exact ⟨0, e, by simp [he], by simp, by simpa using he⟩
    · simp only [he, Bool.false_eq_true, if_false]
      rcases ih (i + 1) with ⟨k, e', h1, h2, h3⟩ | ⟨h1, h2⟩
      · left
        exact ⟨k + 1, e', by rw [h1]; omega, by simpa using h2, h3⟩
      · right
        refine ⟨h1, ?_⟩
        intro x hx
        simp only [List.mem_cons] at hx
        rcases hx with hx | hx
        · subst hx; simpa using he
        · exact h2 x hx

theorem GetEntryByUuidN_spec (m : CPwManager) (u : List Nat) :
    (∃ e, m.m_pEntries[m.GetEntryByUuidN u]? = some e ∧ e.uuid = u)
    ∨ (m.GetEntryByUuidN u = DWORD_MAX ∧ ∀ e ∈ m.m_pEntries, e.uuid ≠ u) := by
  unfold GetEntryByUuidN
  rcases GetEntryByUuidN_loop_spec u m.m_pEntries 0 with ⟨k, e, h1, h2, h3⟩ | h
  · left
    rw [h1, Nat.zero_add]
    exact ⟨e, h2, h3⟩
  · right; exact h

theorem SubstEntryGroupIds_uuids (m : CPwManager) (a b : Nat) :
    (m.SubstEntryGroupIds a b).m_pEntries.map (fun e => e.uuid)
      = m.m_pEntries.map (fun e => e.uuid) := by
  unfold SubstEntryGroupIds
  split_ifs
  · rfl
  · simp only [List.map_map]
    apply List.map_congr_left
    intro e _
    simp only [Function.comp]
    split_ifs <;> rfl

theorem touchEntry_uuids (E : Env) (m : CPwManager) (i : Nat) :
    (MergeIn.touchEntry E m i).m_pEntries.map (fun e => e.uuid)
      = m.m_pEntries.map (fun e => e.uuid) := by
  unfold MergeIn.touchEntry GetEntry
  split
  · rfl
  · rename_i e he
    exact map_set_same _ _ i e _ he rfl

theorem nodup_append_fresh {α : Type} (l : List α) (x : α) (h : l.Nodup) (hx : x ∉ l) :
    (l ++ [x]).Nodup := by
  rw [List.nodup_append]
  refine ⟨h, by simp, ?_⟩
  intro a ha hb
  simp only [List.mem_singleton] at hb
  subst hb
  exact hx ha

theorem set_same_val {α : Type} (l : List α) (i : Nat) (x : α) (h : l[i]? = some x) :
    l.set i x = l := by
  obtain ⟨hi, hgi⟩ := List.getElem?_eq_some_iff.mp h
  rw [← hgi]
  exact set_getElem_same l i hi

theorem FreshFrom_congr (r r' : Rand) (used used' : List (List Nat))
    (hat : r'.uuidAt = r.uuidAt) (hc : r.uuidCalls ≤ r'.uuidCalls)
    (hu : ∀ k, r'.uuidCalls ≤ k → r.uuidAt k ∉ used → r.uuidAt k ∉ used')
    (h : FreshFrom r used) : FreshFrom r' used' := by
  intro k hk
  rw [hat]
  obtain ⟨h1, h2, h3⟩ := h k (le_trans hc hk)
  exact ⟨h1, hu k hk h2, fun k' hk' => h3 k' (le_trans hc hk')⟩

theorem AddEntry_inv (E : Env) (S0 : List (List Nat)) (m : CPwManager) (r : Rand)
    (t : PW_ENTRY)
    (hz : ∀ x ∈ m.m_pEntries.map (fun e => e.uuid), x ≠ g_uuidZero)
    (hnd : (m.m_pEntries.map (fun e => e.uuid)).Nodup)
    (hf : FreshFrom r (m.m_pEntries.map (fun e => e.uuid) ++ S0))
    (ht : t.uuid = g_uuidZero
      ∨ (t.uuid ∈ S0 ∧ t.uuid ∉ m.m_pEntries.map (fun e => e.uuid))) :
    (∀ x ∈ (m.AddEntry E r t).2.1.m_pEntries.map (fun e => e.uuid), x ≠ g_uuidZero)
    ∧ ((m.AddEntry E r t).2.1.m_pEntries.map (fun e => e.uuid)).Nodup
    ∧ FreshFrom (m.AddEntry E r t).2.2
        ((m.AddEntry E r t).2.1.m_pEntries.map (fun e => e.uuid) ++ S0)
    ∧ (m.AddEntry E r t).2.1.m_pEntries.length ≤ m.m_pEntries.length + 1 := by
  rcases AddEntry_uuids E m r t with h | ⟨h1, h2⟩
  · rw [h]
    exact ⟨hz, hnd, hf, Nat.le_succ _⟩
  · have hlen : (m.AddEntry E r t).2.1.m_pEntries.length ≤ m.m_pEntries.length + 1 := by
      have hl := congrArg List.length h1
      simp only [List.length_map, List.length_append, List.length_singleton] at hl
      exact le_of_eq hl
    rw [h1, h2]
    by_cases h0 : t.uuid = g_uuidZero
    · have hb : (t.uuid == g_uuidZero) = true := by simpa using h0
      simp only [hb, if_true, randCreateUUID]
      obtain ⟨g1, g2, g3⟩ := hf r.uuidCalls (le_refl _)
      simp only [List.mem_append, not_or] at g2
      refine ⟨?_, nodup_append_fresh _ _ hnd g2.1, ?_, hlen⟩
      · intro x hx
        simp only [List.mem_append, List.mem_singleton] at hx
        rcases hx with hx | hx
        · exact hz x hx
        · rw [hx]; exact g1
      · refine FreshFrom_congr r _ _ _ rfl (Nat.le_succ _) ?_ hf
        intro k hk hnot
        simp only [List.mem_append, List.mem_singleton, not_or] at hnot ⊢
        refine ⟨⟨hnot.1, ?_⟩, hnot.2⟩
        intro heq
        have := (hf k (le_trans (Nat.le_succ _) hk)).2.2 r.uuidCalls (le_refl _) heq
        simp only at hk
        omega
    · have hb : (t.uuid == g_uuidZero) = false := by simpa using h0
      simp only [hb, Bool.false_eq_true, if_false]
      rcases ht with ht | ⟨hS, hnew⟩
      · exact absurd ht h0
      · refine ⟨?_, nodup_append_fresh _ _ hnd hnew, ?_, hlen⟩
        · intro x hx
          simp only [List.mem_append, List.mem_singleton] at hx
          rcases hx with hx | hx
          · exact hz x hx
          · rw [hx]; exact h0
        · refine FreshFrom_congr r _ _ _ rfl (le_refl _) ?_ hf
          intro k hk hnot
          simp only [List.mem_append, List.mem_singleton, not_or] at hnot ⊢
          refine ⟨⟨hnot.1, ?_⟩, hnot.2⟩
          intro heq
          exact hnot.2 (heq ▸ hS)

theorem entryStep_inv (E : Env) (S0 : List (List Nat)) (bNew bCmp : Bool) (i : Nat)
    (pe : PW_ENTRY) (m src : CPwManager) (r : Rand)
    (hpe : src.m_pEntries[i]? = some pe)
    (hlen : m.m_pEntries.length ≤ DWORD_MAX)
    (hz : ∀ x ∈ m.m_pEntries.map (fun e => e.uuid), x ≠ g_uuidZero)
    (hnd : (m.m_pEntries.map (fun e => e.uuid)).Nodup)
    (hf : FreshFrom r (m.m_pEntries.map (fun e => e.uuid) ++ S0))
    (hs : ∀ e ∈ src.m_pEntries, e.uuid = g_uuidZero ∨ e.uuid ∈ S0) :
    (∀ x ∈ (MergeIn.entryStep E bNew bCmp i pe m src r).1.m_pEntries.map (fun e => e.uuid),
        x ≠ g_uuidZero)
    ∧ ((MergeIn.entryStep E bNew bCmp i pe m src r).1.m_pEntries.map (fun e => e.uuid)).Nodup
    ∧ FreshFrom (MergeIn.entryStep E bNew bCmp i pe m src r).2.2
        ((MergeIn.entryStep E bNew bCmp i pe m src r).1.m_pEntries.map (fun e => e.uuid) ++ S0)
    ∧ (MergeIn.entryStep E bNew bCmp i pe m src r).1.m_pEntries.length
        ≤ m.m_pEntries.length + 1
    ∧ (∀ e ∈ (MergeIn.entryStep E bNew bCmp i pe m src r).2.1.m_pEntries,
        e.uuid = g_uuidZero ∨ e.uuid ∈ S0)
    ∧ (MergeIn.entryStep E bNew bCmp i pe m src r).2.1.m_pEntries.length
        = src.m_pEntries.length := by
  have hpeS : pe.uuid = g_uuidZero ∨ pe.uuid ∈ S0 := hs pe (List.getElem?_mem hpe)
  have hset : ∀ (x : PW_ENTRY), (x.uuid = g_uuidZero ∨ x.uuid ∈ S0) →
      ∀ e ∈ src.m_pEntries.set i x, e.uuid = g_uuidZero ∨ e.uuid ∈ S0 := by
    intro x hx e he
    rcases List.mem_or_eq_of_mem_set he with he | he
    · exact hs e he
    · subst he; exact hx
  unfold MergeIn.entryStep
  split_ifs with hmeta hnew
  · exact ⟨hz, hnd, hf, Nat.le_succ _, hs, rfl⟩
  · obtain ⟨a1, a2, a3, a4⟩ := AddEntry_inv E S0 m r
      { src.UnlockEntryPassword E pe with uuid := g_uuidZero } hz hnd hf (Or.inl rfl)
    refine ⟨a1, a2, a3, a4, ?_, by simp⟩
    exact hset _ (Or.inl (by rw [lock_uuid]))
  · have hsrc1 : ∀ e ∈ src.m_pEntries.set i
        (src.LockEntryPassword E (src.UnlockEntryPassword E pe)),
        e.uuid = g_uuidZero ∨ e.uuid ∈ S0 := by
      apply hset
      rw [lock_uuid]
      unfold UnlockEntryPassword
      rw [lock_uuid]
      exact hpeS
    have hu : (src.UnlockEntryPassword E pe).uuid = pe.uuid := by
      unfold UnlockEntryPassword
      exact lock_uuid E src pe
    simp only []
    rcases GetEntryByUuidN_spec m (src.UnlockEntryPassword E pe).uuid with
      ⟨e, he, heu⟩ | ⟨hnot, hfresh⟩
    · obtain ⟨hlt, _⟩ := List.getElem?_eq_some_iff.mp he
      have hne : (m.GetEntryByUuidN (src.UnlockEntryPassword E pe).uuid != DWORD_MAX) = true := by
        simp only [bne_iff_ne, ne_eq]
        omega
      simp only [hne, if_true, GetEntry, he]
      split_ifs
      · exact ⟨hz, hnd, hf, Nat.le_succ _, hsrc1, by simp⟩
      · have hids : (MergeIn.touchEntry E
            (m.SetEntry E (m.GetEntryByUuidN (src.UnlockEntryPassword E pe).uuid)
              (src.UnlockEntryPassword E pe)).2
            (m.GetEntryByUuidN (src.UnlockEntryPassword E pe).uuid)).m_pEntries.map
              (fun e => e.uuid)
            = m.m_pEntries.map (fun e => e.uuid) := by
          rw [touchEntry_uuids]
          rcases SetEntry_uuids E m (m.GetEntryByUuidN (src.UnlockEntryPassword E pe).uuid)
            (src.UnlockEntryPassword E pe) with h | ⟨_, h⟩
          · rw [h]
          · rw [h]
            apply set_same_val
            rw [List.getElem?_map, he]
            simp only [Option.map_some', heu]
        have hl := congrArg List.length hids
        simp only [List.length_map] at hl
        simp only []
        rw [hids]
        exact ⟨hz, hnd, hf, by rw [hl]; exact Nat.le_succ _, hsrc1, by simp⟩
    · have hne : (m.GetEntryByUuidN (src.UnlockEntryPassword E pe).uuid != DWORD_MAX) = false := by
        simp [hnot]
      simp only [hne, Bool.false_eq_true, if_false]
      have ht : (src.UnlockEntryPassword E pe).uuid = g_uuidZero
          ∨ ((src.UnlockEntryPassword E pe).uuid ∈ S0
            ∧ (src.UnlockEntryPassword E pe).uuid ∉ m.m_pEntries.map (fun e => e.uuid)) := by
        rcases hpeS with h0 | hS
        · left; rw [hu]; exact h0
        · right
          refine ⟨by rw [hu]; exact hS, ?_⟩
          intro hmem
          simp only [List.mem_map] at hmem
          obtain ⟨e, he, heq⟩ := hmem
          exact hfresh e he heq
      obtain ⟨a1, a2, a3, a4⟩ := AddEntry_inv E S0 m r (src.UnlockEntryPassword E pe) hz hnd hf ht
      exact ⟨a1, a2, a3, a4, hsrc1, by simp⟩


theorem entryLoop_inv (E : Env) (S0 : List (List Nat)) (bNew bCmp : Bool) :
    ∀ (n i : Nat) (m src : CPwManager) (r : Rand),
      m.m_pEntries.length + n ≤ DWORD_MAX →
      (∀ x ∈ m.m_pEntries.map (fun e => e.uuid), x ≠ g_uuidZero) →
      (m.m_pEntries.map (fun e => e.uuid)).Nodup →
      FreshFrom r (m.m_pEntries.map (fun e => e.uuid) ++ S0) →
      (∀ e ∈ src.m_pEntries, e.uuid = g_uuidZero ∨ e.uuid ∈ S0) →
      (∀ x ∈ (MergeIn.entryLoop E bNew bCmp n i m src r).1.m_pEntries.map (fun e => e.uuid),
          x ≠ g_uuidZero)
      ∧ ((MergeIn.entryLoop E bNew bCmp n i m src r).1.m_pEntries.map (fun e => e.uuid)).Nodup := by
  intro n
  induction n with
  | zero =>
    intro i m src r _ hz hnd _ _
    exact ⟨hz, hnd⟩
  | succ n ih =>
    intro i m src r hlen hz hnd hf hs
    unfold MergeIn.entryLoop
    cases hg : src.GetEntry i with
    | none =>
      simp only []
      exact ih _ _ _ _ (by omega) hz hnd hf hs
    | some pe =>
      simp only []
      obtain ⟨a1, a2, a3, a4, a5, _⟩ :=
        entryStep_inv E S0 bNew bCmp i pe m src r hg (by omega) hz hnd hf hs
      exact ih _ _ _ _ (by omega) a1 a2 a3 a5

theorem newGroup_frame (i : Nat) :
    ∀ (fuel : Nat) (m src : CPwManager) (r : Rand) (res : CPwManager × CPwManager × Rand),
      MergeIn.newGroup i fuel m src r = some res →
      res.1.m_pEntries.Sublist m.m_pEntries
      ∧ res.2.1.m_pEntries.map (fun e => e.uuid) = src.m_pEntries.map (fun e => e.uuid)
      ∧ res.2.2.uuidAt = r.uuidAt ∧ res.2.2.uuidCalls = r.uuidCalls := by
  intro fuel
  induction fuel with
  | zero => intro m src r res h; simp [MergeIn.newGroup] at h
  | succ fuel ih =>
    intro m src r res h
    unfold MergeIn.newGroup at h
    cases hs : src.m_pGroups[i]? with
    | none =>
      simp only [hs, Option.some.injEq] at h
      subst h
      exact ⟨List.Sublist.refl _, rfl, rfl, rfl⟩
    | some pgSource =>
      simp only [hs] at h
      cases ha : CPwManager.AddGroup m r { pgSource with uGroupId := 0 } with
      | none => simp only [ha] at h; exact absurd h (by simp)
      | some res1 =>
        simp only [ha] at h
        obtain ⟨id, rest, hres1, _, _, _, _⟩ := AddGroup_some m r _ res1 ha
        subst hres1
        simp only [] at h
        split_ifs at h with hnone
        · simp only [Option.some.injEq] at h
          subst h
          exact ⟨List.Sublist.refl _, SubstEntryGroupIds_uuids _ _ _, rfl, rfl⟩
        · rw [DeleteGroupById_eq] at h
          simp only [] at h
          obtain ⟨h1, h2, h3, h4⟩ := ih _ _ _ _ h
          refine ⟨h1.trans ?_, h2, h3, h4⟩
          rw [FixGroupTree_entries]
          exact List.filter_sublist _

theorem groupStep_frame (E : Env) (bNew bCmp : Bool) (i : Nat) (pgSource : PW_GROUP)
    (m src : CPwManager) (r : Rand) (res : CPwManager × CPwManager × Rand)
    (h : MergeIn.groupStep E bNew bCmp i pgSource m src r = some res) :
    res.1.m_pEntries.Sublist m.m_pEntries
    ∧ res.2.1.m_pEntries.map (fun e => e.uuid) = src.m_pEntries.map (fun e => e.uuid)
    ∧ res.2.2.uuidAt = r.uuidAt ∧ res.2.2.uuidCalls = r.uuidCalls := by
  unfold MergeIn.groupStep at h
  split_ifs at h with hnew
  · exact newGroup_frame i _ m src r res h
  · simp only [] at h
    split at h
    · cases ha : CPwManager.AddGroup m r pgSource with
      | none => simp only [ha] at h; exact absurd h (by simp)
      | some res1 =>
        simp only [ha, Option.some.injEq] at h
        subst h
        obtain ⟨id, rest, hres1, _, _, _, _⟩ := AddGroup_some m r _ res1 ha
        subst hres1
        exact ⟨List.Sublist.refl _, rfl, rfl, rfl⟩
    · split_ifs at h
      · simp only [Option.some.injEq] at h
        subst h
        exact ⟨List.Sublist.refl _, rfl, rfl, rfl⟩
      · simp only [Option.some.injEq] at h
        subst h
        refine ⟨?_, rfl, rfl, rfl⟩
        simp only [touchGroup_entries]
        rcases SetGroup_cases m (m.GetGroupByIdN pgSource.uGroupId) pgSource with
          ⟨_, hs⟩ | ⟨_, hs⟩ <;> rw [hs]

theorem groupLoop_frame (E : Env) (bNew bCmp : Bool) :
    ∀ (n i : Nat) (m src : CPwManager) (r : Rand) (res : CPwManager × CPwManager × Rand),
      MergeIn.groupLoop E bNew bCmp n i m src r = some res →
      res.1.m_pEntries.Sublist m.m_pEntries
      ∧ res.2.1.m_pEntries.map (fun e => e.uuid) = src.m_pEntries.map (fun e => e.uuid)
      ∧ res.2.2.uuidAt = r.uuidAt ∧ res.2.2.uuidCalls = r.uuidCalls := by
  intro n
  induction n with
  | zero =>
    intro i m src r res h
    simp only [MergeIn.groupLoop, Option.some.injEq] at h
    subst h
    exact ⟨List.Sublist.refl _, rfl, rfl, rfl⟩
  | succ n ih =>
    intro i m src r res h
    unfold MergeIn.groupLoop at h
    cases hg : src.GetGroup i with
    | none =>
      simp only [hg] at h
      exact ih _ _ _ _ _ h
    | some pgSource =>
      simp only [hg] at h
      cases hs : MergeIn.groupStep E bNew bCmp i pgSource m src r with
      | none => simp only [hs] at h; exact absurd h (by simp)
      | some st =>
        simp only [hs] at h
        obtain ⟨h1, h2, h3, h4⟩ := groupStep_frame E bNew bCmp i pgSource m src r st hs
        obtain ⟨k1, k2, k3, k4⟩ := ih _ _ _ _ _ h
        exact ⟨k1.trans h1, k2.trans h2, k3.trans h3, k4.trans h4⟩

theorem MergeIn_uuids (E : Env) (bNew bCmp : Bool) (m src : CPwManager) (r : Rand)
    (res : CPwManager × CPwManager × Rand) (h : m.MergeIn E src r bNew bCmp = some res)
    (hlen : m.m_pEntries.length + src.m_pEntries.length ≤ DWORD_MAX)
    (hz : ∀ x ∈ m.m_pEntries.map (fun e => e.uuid), x ≠ g_uuidZero)
    (hnd : (m.m_pEntries.map (fun e => e.uuid)).Nodup)
    (hf : FreshFrom r (m.m_pEntries.map (fun e => e.uuid)
      ++ src.m_pEntries.map (fun e => e.uuid))) :
    (∀ x ∈ res.1.m_pEntries.map (fun e => e.uuid), x ≠ g_uuidZero)
    ∧ (res.1.m_pEntries.map (fun e => e.uuid)).Nodup := by
  unfold MergeIn at h
  cases hg : MergeIn.groupLoop E bNew bCmp src.GetNumberOfGroups 0 m src r with
  | none => simp [hg] at h
  | some x =>
    obtain ⟨m1, src1, r1⟩ := x
    simp only [hg, DeleteLostEntries_eq, Option.some.injEq] at h
    subst h
    obtain ⟨g1, g2, g3, g4⟩ := groupLoop_frame E bNew bCmp _ _ _ _ _ _ hg
    simp only [] at g1 g2 g3 g4
    have hsub : (m1.m_pEntries.map (fun e => e.uuid)).Sublist
        (m.m_pEntries.map (fun e => e.uuid)) := g1.map _
    have hl1 : m1.m_pEntries.length ≤ m.m_pEntries.length := g1.length_le
    have hl2 : src1.m_pEntries.length = src.m_pEntries.length := by
      have := congrArg List.length g2
      simpa using this
    obtain ⟨a1, a2⟩ := entryLoop_inv E (src.m_pEntries.map (fun e => e.uuid)) bNew bCmp
      src1.GetNumberOfEntries 0 m1.FixGroupTree src1 r1
      (by rw [FixGroupTree_entries]; unfold GetNumberOfEntries; omega)
      (by rw [FixGroupTree_entries]; exact fun x hx => hz x (hsub.subset hx))
      (by rw [FixGroupTree_entries]; exact hnd.sublist hsub)
      (by
        rw [FixGroupTree_entries]
        refine FreshFrom_congr r r1 _ _ g3 (le_of_eq g4.symm) ?_ hf
        intro k _ hnot
        simp only [List.mem_append, not_or] at hnot ⊢
        exact ⟨fun hx => hnot.1 (hsub.subset hx), hnot.2⟩)
      (by
        intro e he
        right
        rw [← g2]
        exact List.mem_map_of_mem _ he)
    simp only []
    have hsub2 : ∀ (l : List PW_ENTRY) (p : PW_ENTRY → Bool),
        ((l.filter p).map (fun e => e.uuid)).Sublist (l.map (fun e => e.uuid)) :=
      fun l p => (List.filter_sublist l).map _
    exact ⟨fun x hx => a1 x ((hsub2 _ _).subset hx), a2.sublist (hsub2 _ _)⟩

theorem BackupEntry_uuids (E : Env) (m : CPwManager) (r : Rand) (pe : PW_ENTRY)
    (res : Bool × Bool × CPwManager × Rand) (h : m.BackupEntry E r pe = some res) :
    res.2.2.1.m_pEntries.map (fun e => e.uuid) = m.m_pEntries.map (fun e => e.uuid)
    ∨ res.2.2.1.m_pEntries.map (fun e => e.uuid)
        = m.m_pEntries.map (fun e => e.uuid) ++ [(randCreateUUID r).1] := by
  have key : ∀ (m1 : CPwManager) (r1 : Rand) (t : PW_ENTRY), m1.m_pEntries = m.m_pEntries →
      r1.uuidAt = r.uuidAt → r1.uuidCalls = r.uuidCalls → t.uuid = g_uuidZero →
      (m1.AddEntry E r1 t).2.1.m_pEntries.map (fun e => e.uuid)
          = m.m_pEntries.map (fun e => e.uuid)
      ∨ (m1.AddEntry E r1 t).2.1.m_pEntries.map (fun e => e.uuid)
          = m.m_pEntries.map (fun e => e.uuid) ++ [(randCreateUUID r).1] := by
    intro m1 r1 t hm hat hc ht
    rcases AddEntry_uuids E m1 r1 t with h | ⟨h1, _⟩
    · left; rw [h, hm]
    · right
      rw [h1, hm]
      have hb : (t.uuid == g_uuidZero) = true := by simpa using ht
      simp only [hb, if_true, randCreateUUID, hat, hc]
  unfold BackupEntry at h
  simp only [] at h
  by_cases hgid : (m.GetGroupId PWS_BACKUPGROUP == DWORD_MAX) = true
  · simp only [hgid, if_true] at h
    cases ha : CPwManager.AddGroup m r
        { PW_GROUP.zero with
          pszGroupName := some PWS_BACKUPGROUP, tCreation := E.tNow, tLastAccess := E.tNow,
          tLastMod := E.tNow, tExpire := g_pwTimeNever, uImageId := 4 } with
    | none => simp only [ha] at h; exact absurd h (by simp)
    | some res1 =>
      obtain ⟨id, rest, hres1, _, _, _, _⟩ := AddGroup_some m r _ res1 ha
      subst hres1
      simp only [ha, beq_iff_eq, Bool.true_eq_false, if_false] at h
      split_ifs at h <;> simp only [Option.some.injEq] at h <;> subst h <;>
        first
        | (left; rfl)
        | exact key _ _ _ rfl rfl rfl rfl
  · simp only [hgid, Bool.false_eq_true, if_false, Option.some.injEq] at h
    subst h
    exact key _ _ _ rfl rfl rfl rfl

theorem EntryReach_uuids (E : Env) (m : CPwManager) (h : EntryReach E true m) :
    (∀ x ∈ m.m_pEntries.map (fun e => e.uuid), x ≠ g_uuidZero)
    ∧ (m.m_pEntries.map (fun e => e.uuid)).Nodup := by
  induction h with
  | empty m h0 =>
    rw [h0]
    exact ⟨by simp, List.nodup_nil⟩
  | addEntry m r t _ hexp hgen ih =>
    rcases AddEntry_uuids E m r t with h | ⟨h1, _⟩
    · rw [h]; exact ih
    · rw [h1]
      have hnew : (if t.uuid == g_uuidZero then randCreateUUID r else (t.uuid, r)).1 ≠ g_uuidZero
          ∧ ∀ e ∈ m.m_pEntries,
            e.uuid ≠ (if t.uuid == g_uuidZero then randCreateUUID r else (t.uuid, r)).1 := by
        by_cases h0 : t.uuid = g_uuidZero
        · have hb : (t.uuid == g_uuidZero) = true := by simpa using h0
          simp only [hb, if_true]
          exact hgen rfl h0
        · have hb : (t.uuid == g_uuidZero) = false := by simpa using h0
          simp only [hb, Bool.false_eq_true, if_false]
          exact ⟨h0, hexp rfl h0⟩
      constructor
      · intro x hx
        simp only [List.mem_append, List.mem_singleton] at hx
        rcases hx with hx | hx
        · exact ih.1 x hx
        · rw [hx]; exact hnew.1
      · apply nodup_append_fresh _ _ ih.2
        intro hmem
        simp only [List.mem_map] at hmem
        obtain ⟨e, he, heq⟩ := hmem
        exact hnew.2 e he heq
  | setEntry m i t _ hc ih =>
    obtain ⟨ht0, htnew⟩ := hc rfl
    rcases SetEntry_uuids E m i t with h | ⟨_, h⟩
    · rw [h]; exact ih
    · rw [h]
      constructor
      · intro x hx
        rcases List.mem_or_eq_of_mem_set hx with hx | hx
        · exact ih.1 x hx
        · rw [hx]; exact ht0
      · refine nodup_set_fresh _ i _ ih.2 ?_
        intro j y hj hy
        simp only [List.getElem?_map, Option.map_eq_some'] at hy
        obtain ⟨e, he, hey⟩ := hy
        subst hey
        exact htnew j e hj he
  | deleteEntry m i _ ih =>
    have hsub : ((m.DeleteEntry i).2.m_pEntries.map (fun e => e.uuid)).Sublist
        (m.m_pEntries.map (fun e => e.uuid)) := by
      unfold DeleteEntry
      split_ifs
      · exact List.Sublist.refl _
      · exact (shiftOut_sublist _ _).map _
    exact ⟨fun x hx => ih.1 x (hsub.subset hx), ih.2.sublist hsub⟩
  | backupEntry m r pe res _ hgen hb ih =>
    rcases BackupEntry_uuids E m r pe res hb with h | h
    · rw [h]; exact ih
    · rw [h]
      obtain ⟨g0, gnew⟩ := hgen rfl
      constructor
      · intro x hx
        simp only [List.mem_append, List.mem_singleton] at hx
        rcases hx with hx | hx
        · exact ih.1 x hx
        · rw [hx]; exact g0
      · apply nodup_append_fresh _ _ ih.2
        intro hmem
        simp only [List.mem_map] at hmem
        obtain ⟨e, he, heq⟩ := hmem
        exact gnew e he heq
  | mergeIn m src r bNew bCmp res _ hlen hf hm ih =>
    exact MergeIn_uuids E bNew bCmp m src r res hm hlen ih.1 ih.2 (hf rfl)

/-- UUIDs are not unique in every reachable state.  From the empty database,
two `AddEntry` calls with the same non-zero UUID both succeed and leave two
entries with that UUID; a `SetEntry` with a zero-UUID template then succeeds
and stores the all-zero UUID. -/
theorem C6_uuid_uniqueness_counterexample :
    EntryReach (sampleEnv none) false
      ((sampleEmpty.AddEntry (sampleEnv none) sampleRand
          { sampleEntry with uuid := List.replicate 16 9 }).2.1.AddEntry (sampleEnv none)
        sampleRand { sampleEntry with uuid := List.replicate 16 9 }).2.1
    ∧ ((sampleEmpty.AddEntry (sampleEnv none) sampleRand
          { sampleEntry with uuid := List.replicate 16 9 }).2.1.AddEntry (sampleEnv none)
        sampleRand { sampleEntry with uuid := List.replicate 16 9 }).1 = true
    ∧ ((sampleEmpty.AddEntry (sampleEnv none) sampleRand
          { sampleEntry with uuid := List.replicate 16 9 }).2.1.AddEntry (sampleEnv none)
        sampleRand { sampleEntry with uuid := List.replicate 16 9 }).2.1.m_pEntries.map
          (fun e => e.uuid) = [List.replicate 16 9, List.replicate 16 9]
    ∧ ¬ UuidsDistinct
      ((sampleEmpty.AddEntry (sampleEnv none) sampleRand
          { sampleEntry with uuid := List.replicate 16 9 }).2.1.AddEntry (sampleEnv none)
        sampleRand { sampleEntry with uuid := List.replicate 16 9 }).2.1
    ∧ EntryReach (sampleEnv none) false
      (((sampleEmpty.AddEntry (sampleEnv none) sampleRand
          { sampleEntry with uuid := List.replicate 16 9 }).2.1.SetEntry (sampleEnv none) 0
        (AddEntry.pT sampleEntry g_uuidZero)).2)
    ∧ ((sampleEmpty.AddEntry (sampleEnv none) sampleRand
          { sampleEntry with uuid := List.replicate 16 9 }).2.1.SetEntry (sampleEnv none) 0
        (AddEntry.pT sampleEntry g_uuidZero)).1 = true
    ∧ ¬ NoZeroUuid
      (((sampleEmpty.AddEntry (sampleEnv none) sampleRand
          { sampleEntry with uuid := List.replicate 16 9 }).2.1.SetEntry (sampleEnv none) 0
        (AddEntry.pT sampleEntry g_uuidZero)).2) := by
  have r1 : EntryReach (sampleEnv none) false
      (sampleEmpty.AddEntry (sampleEnv none) sampleRand
        { sampleEntry with uuid := List.replicate 16 9 }).2.1 :=
    EntryReach.addEntry _ _ _ (EntryReach.empty _ rfl) (fun h => absurd h (by decide))
      (fun h => absurd h (by decide))
  refine ⟨?_, rfl, rfl, ?_, ?_, rfl, ?_⟩
  · exact EntryReach.addEntry _ _ _ r1 (fun h => absurd h (by decide))
      (fun h => absurd h (by decide))
  · unfold UuidsDistinct
    decide
  · exact EntryReach.setEntry _ _ _ r1 (fun h => absurd h (by decide))
  · intro h
    exact h _ (List.mem_singleton.mpr rfl) rfl

/-- C6 (amended).  In every state reachable from the empty database through
`AddEntry`, `SetEntry`, `DeleteEntry`, `BackupEntry` and `MergeIn`, no two
entries share a UUID and no stored entry has the all-zero UUID, provided that
every UUID given to `SetEntry` is non-zero and not the UUID of another entry,
every non-zero UUID given to `AddEntry` is not the UUID of an entry, and the
UUIDs that `randCreateUUID` returns are non-zero and new. -/
theorem C6_uuid_uniqueness (E : Env) (m : CPwManager) (h : EntryReach E true m) :
    UuidsDistinct m ∧ NoZeroUuid m := by
  have hok := EntryReach_uuids E m h
  exact ⟨hok.2, fun e he => hok.1 e.uuid (List.mem_map_of_mem _ he)⟩

/-- From the empty database, `AddEntry` with a zero-UUID template (the UUID
generated is sixteen bytes 1) and then with the explicit UUID of sixteen bytes
9: the state is reachable with the checks, and its UUIDs are distinct and
non-zero. -/
theorem C6_uuid_uniqueness_witness :
    ((sampleEmpty.AddEntry (sampleEnv none) sampleRand sampleEntry).2.1.AddEntry
        (sampleEnv none) (sampleEmpty.AddEntry (sampleEnv none) sampleRand sampleEntry).2.2
        { sampleEntry with uuid := List.replicate 16 9 }).2.1.m_pEntries.map (fun e => e.uuid)
      = [List.replicate 16 1, List.replicate 16 9]
    ∧ UuidsDistinct
      ((sampleEmpty.AddEntry (sampleEnv none) sampleRand sampleEntry).2.1.AddEntry
        (sampleEnv none) (sampleEmpty.AddEntry (sampleEnv none) sampleRand sampleEntry).2.2
        { sampleEntry with uuid := List.replicate 16 9 }).2.1
    ∧ NoZeroUuid
      ((sampleEmpty.AddEntry (sampleEnv none) sampleRand sampleEntry).2.1.AddEntry
        (sampleEnv none) (sampleEmpty.AddEntry (sampleEnv none) sampleRand sampleEntry).2.2
        { sampleEntry with uuid := List.replicate 16 9 }).2.1 :=
  ⟨rfl,
    C6_uuid_uniqueness (sampleEnv none) _
      (EntryReach.addEntry _ _ _
        (EntryReach.addEntry _ _ _ (EntryReach.empty _ rfl)
          (fun _ h => absurd rfl h)
          (fun _ _ => ⟨by decide, fun e he => absurd he (List.not_mem_nil e)⟩))
        (fun _ _ e he => by
          have hu : e.uuid = List.replicate 16 1 := by
            have hl : (sampleEmpty.AddEntry (sampleEnv none) sampleRand sampleEntry).2.1.m_pEntries.map
                (fun e => e.uuid) = [List.replicate 16 1] := rfl
            have hm : e.uuid ∈ [List.replicate 16 1] := hl ▸ List.mem_map_of_mem _ he
            exact List.mem_singleton.mp hm
          rw [hu]
          decide)
        (fun _ h => absurd h (by decide)))⟩

/-! ## Opening a file -/

theorem TransformMasterKey_frame (E : Env) (m : CPwManager) (seed : List Nat) :
    (m._TransformMasterKey E seed).2.m_pGroups = m.m_pGroups
    ∧ (m._TransformMasterKey E seed).2.m_pEntries = m.m_pEntries
    ∧ (m._TransformMasterKey E seed).2.m_nAlgorithm = m.m_nAlgorithm := by
  unfold _TransformMasterKey
  split_ifs <;> exact ⟨rfl, rfl, rfl⟩

theorem keyed_frame (E : Env) (m : CPwManager) (hdr : PW_DBHEADER) :
    (OpenDatabase.keyed E m hdr).2.m_pGroups = m.m_pGroups
    ∧ (OpenDatabase.keyed E m hdr).2.m_pEntries = m.m_pEntries
    ∧ ((OpenDatabase.keyed E m hdr).2.m_nAlgorithm = ALGO_AES
      ∨ (OpenDatabase.keyed E m hdr).2.m_nAlgorithm = ALGO_TWOFISH) := by
  unfold OpenDatabase.keyed
  obtain ⟨h1, h2, h3⟩ := TransformMasterKey_frame E
    { m with
      m_nAlgorithm :=
        if (hdr.dwFlags &&& PWM_FLAG_RIJNDAEL) != 0 then ALGO_AES else ALGO_TWOFISH,
      m_dwKeyEncRounds := hdr.dwKeyEncRounds } hdr.aMasterSeed2
  refine ⟨h1, h2, ?_⟩
  simp only [] at h3 ⊢
  rw [h3]
  split_ifs
  · left; rfl
  · right; rfl

/-- C2.  In non-repair mode, for a file that can be read, with valid signatures,
version and cipher flags, whose payload is decrypted (key transformation and
cipher initialisation succeed, the encrypted part is a whole number of blocks):
whenever the SHA-256 of the decrypted payload differs from `aContentsHash` of
the header, `OpenDatabase` returns `PWE_INVALID_KEY`, whatever the fuel, and the
group and entry arrays are those from before the call. -/
theorem C2_wrong_key_detected (E : Env) (fuel : Nat) (m : CPwManager) (r : Rand)
    (path file : List Nat) (hdr : PW_DBHEADER)
    (hpath : path.getD 0 0 ≠ 0) (hfile : E.fileRead path = some file)
    (hhdr : hdr = PW_DBHEADER.ofBytes file)
    (hsize : sizeofHeader ≤ file.length)
    (halloc : E.allocOk (file.length + 16 + 1 + 8 + 4) = true)
    (hsig : hdr.dwSignature1 = PWM_DBSIG_1 ∧ hdr.dwSignature2 = PWM_DBSIG_2)
    (hver : hdr.dwVersion &&& 0xFFFFFF00 = PWM_DBVER_DW &&& 0xFFFFFF00)
    (hflags : hdr.dwFlags &&& PWM_FLAG_RIJNDAEL ≠ 0 ∨ hdr.dwFlags &&& PWM_FLAG_TWOFISH ≠ 0)
    (hkey : (OpenDatabase.keyed E m hdr).1 = true)
    (hblocks : (file.length - sizeofHeader) % 16 = 0)
    (hinit : if (OpenDatabase.keyed E m hdr).2.m_nAlgorithm = ALGO_AES
      then E.rijndaelInitCBC false (OpenDatabase.finalKey E (OpenDatabase.keyed E m hdr).2 hdr)
        hdr.aEncryptionIV = true
      else E.twofishInit (OpenDatabase.finalKey E (OpenDatabase.keyed E m hdr).2 hdr)
        hdr.aEncryptionIV = true)
    (hhash : readBytes hdr.aContentsHash 0 32
      ≠ readBytes (E.sha256 (readBytes
          (OpenDatabase.decrypt E (OpenDatabase.keyed E m hdr).2 hdr file file.length).1
          sizeofHeader
          (OpenDatabase.decrypt E (OpenDatabase.keyed E m hdr).2 hdr file file.length).2)) 0 32) :
    m.OpenDatabase E fuel r (some path) false
        = some (PWE.INVALID_KEY, _OPENDB_FAIL_LIGHT E (OpenDatabase.keyed E m hdr).2, r, ⟨0, 0, 0⟩)
    ∧ (_OPENDB_FAIL_LIGHT E (OpenDatabase.keyed E m hdr).2).m_pGroups = m.m_pGroups
    ∧ (_OPENDB_FAIL_LIGHT E (OpenDatabase.keyed E m hdr).2).m_pEntries = m.m_pEntries := by
  obtain ⟨f1, f2, f3⟩ := keyed_frame E m hdr
  refine ⟨?_, f1, f2⟩
  subst hhdr
  have c1 : (path.getD 0 0 == 0) = false := by simpa using hpath
  have c2 : ¬ file.length < sizeofHeader := Nat.not_lt.mpr hsize
  have c3 : ((PW_DBHEADER.ofBytes file).dwSignature1 != PWM_DBSIG_1
      || (PW_DBHEADER.ofBytes file).dwSignature2 != PWM_DBSIG_2) = false := by
    rw [hsig.1, hsig.2]; rfl
  have c4 : ((PW_DBHEADER.ofBytes file).dwVersion &&& 0xFFFFFF00
      != PWM_DBVER_DW &&& 0xFFFFFF00) = false := by
    rw [hver]; simp
  have c5 : ((PW_DBHEADER.ofBytes file).dwFlags &&& PWM_FLAG_RIJNDAEL == 0
      && (PW_DBHEADER.ofBytes file).dwFlags &&& PWM_FLAG_TWOFISH == 0) = false := by
    rcases hflags with h | h
    · simp [h]
    · simp [h]
  have c6 : (!false && (file.length - sizeofHeader) % 16 != 0) = false := by
    simp [hblocks]
  have c7 : ¬ ((file.length - sizeofHeader) % 16 != 0) = true := by
    simp [hblocks]
  unfold OpenDatabase
  simp only [c1, Bool.false_eq_true, if_false, hfile, c2, halloc, Bool.not_true, c3, c4, c5,
    hkey, c6, c7]
  rcases f3 with ha | ht
  · simp only [ha, if_true] at hinit
    have d1 : ((OpenDatabase.keyed E m (PW_DBHEADER.ofBytes file)).2.m_nAlgorithm == ALGO_AES)
        = true := by rw [ha]; rfl
    have d2 : ((OpenDatabase.keyed E m (PW_DBHEADER.ofBytes file)).2.m_nAlgorithm != ALGO_AES)
        = false := by rw [ha]; rfl
    simp only [d1, d2, hinit, Bool.not_true, Bool.and_false, Bool.false_and, Bool.false_eq_true,
      if_false, Bool.not_false, Bool.true_and]
    split_ifs with h1 h2
    · rfl
    · rfl
    · exfalso
      apply h2
      simpa using hhash
  · have hne : ¬ (OpenDatabase.keyed E m (PW_DBHEADER.ofBytes file)).2.m_nAlgorithm = ALGO_AES := by
      rw [ht]; decide
    simp only [hne, if_false] at hinit
    have d1 : ((OpenDatabase.keyed E m (PW_DBHEADER.ofBytes file)).2.m_nAlgorithm == ALGO_AES)
        = false := by rw [ht]; rfl
    have d2 : ((OpenDatabase.keyed E m (PW_DBHEADER.ofBytes file)).2.m_nAlgorithm != ALGO_AES)
        = true := by rw [ht]; rfl
    have d3 : ((OpenDatabase.keyed E m (PW_DBHEADER.ofBytes file)).2.m_nAlgorithm == ALGO_TWOFISH)
        = true := by rw [ht]; rfl
    have d4 : ((OpenDatabase.keyed E m (PW_DBHEADER.ofBytes file)).2.m_nAlgorithm != ALGO_TWOFISH)
        = false := by rw [ht]; rfl
    simp only [d1, d2, d3, d4, hinit, Bool.not_true, Bool.and_false, Bool.false_and,
      Bool.false_eq_true, if_false, Bool.not_false, Bool.true_and]
    split_ifs with h1 h2
    · rfl
    · rfl
    · exfalso
      apply h2
      simpa using hhash


set_option maxRecDepth 100000 in
/-- Opening the tampered sample file over the sample tree: the load returns
`PWE_INVALID_KEY` and the four groups are still there. -/
theorem C2_wrong_key_detected_witness :
    sampleTree.OpenDatabase (sampleEnv (some sampleTampered)) 0 sampleRand (some (tstr "f")) false
        = some (PWE.INVALID_KEY,
            _OPENDB_FAIL_LIGHT (sampleEnv (some sampleTampered))
              (OpenDatabase.keyed (sampleEnv (some sampleTampered)) sampleTree
                (PW_DBHEADER.ofBytes sampleTampered)).2,
            sampleRand, ⟨0, 0, 0⟩)
    ∧ (_OPENDB_FAIL_LIGHT (sampleEnv (some sampleTampered))
        (OpenDatabase.keyed (sampleEnv (some sampleTampered)) sampleTree
          (PW_DBHEADER.ofBytes sampleTampered)).2).m_pGroups = sampleTree.m_pGroups
    ∧ (_OPENDB_FAIL_LIGHT (sampleEnv (some sampleTampered))
        (OpenDatabase.keyed (sampleEnv (some sampleTampered)) sampleTree
          (PW_DBHEADER.ofBytes sampleTampered)).2).m_pEntries = sampleTree.m_pEntries :=
  C2_wrong_key_detected (sampleEnv (some sampleTampered)) 0 sampleTree sampleRand (tstr "f")
    sampleTampered (PW_DBHEADER.ofBytes sampleTampered) (by decide) rfl rfl (by decide) rfl
    ⟨by decide, by decide⟩ (by decide) (Or.inl (by decide)) (by decide) (by decide) (by decide)
    (by decide)

theorem ite_ind {α : Type} (P : α → Prop) (c : Prop) (inst : Decidable c) (a b : α)
    (ha : P a) (hb : P b) : P (@ite α c inst a b) := by
  cases inst with
  | isTrue h => simpa [h] using ha
  | isFalse h => simpa [h] using hb

theorem ReadGroupField_entries (E : Env) (m : CPwManager) (r : Rand) (ty : Nat)
    (pData : List Nat) (g : PW_GROUP) :
    ∀ res, m.ReadGroupField E r ty pData g = some res → res.2.1.m_pEntries = m.m_pEntries := by
  unfold ReadGroupField
  repeat' refine ite_ind (fun (x : Option (Bool × CPwManager × Rand × PW_GROUP)) =>
    ∀ y, x = some y → y.2.1.m_pEntries = m.m_pEntries) _ _ _ _ ?_ ?_
  all_goals first
    | (intro res h; simp only [Option.some.injEq] at h; subst h; rfl)
    | skip
  intro res h
  cases ha : CPwManager.AddGroup m r g with
  | none => simp only [ha] at h; exact absurd h (by simp)
  | some res1 =>
    simp only [ha, Option.some.injEq] at h
    subst h
    obtain ⟨id, rest, hres1, _, _, _, _⟩ := AddGroup_some m r _ res1 ha
    subst hres1
    rfl

theorem ReadEntryField_groups (E : Env) (m : CPwManager) (r : Rand) (ty sz : Nat)
    (pData : List Nat) (e : PW_ENTRY) :
    (m.ReadEntryField E r ty sz pData e).2.1.m_pGroups = m.m_pGroups := by
  unfold ReadEntryField
  repeat' refine ite_ind (fun (x : Bool × CPwManager × Rand × PW_ENTRY) =>
    x.2.1.m_pGroups = m.m_pGroups) _ _ _ _ ?_ ?_
  all_goals first
    | rfl
    | exact AddEntry_groups E m r e

theorem groupLoop_entries (E : Env) (bRepair : Bool) (buf : List Nat) (uFileSize dwGroups : Nat) :
    ∀ (fuel cur pos : Nat) (m : CPwManager) (r : Rand) (t : PW_GROUP) (res : LoopEnd),
      OpenDatabase.groupLoop E bRepair buf uFileSize dwGroups fuel cur pos m r t = some res →
      (∀ m4 r4, res = LoopEnd.fail m4 r4 → m4.m_pEntries = m.m_pEntries)
      ∧ (∀ p m4 r4, res = LoopEnd.done p m4 r4 → m4.m_pEntries = m.m_pEntries) := by
  intro fuel
  induction fuel with
  | zero => intro cur pos m r t res h; simp [OpenDatabase.groupLoop] at h
  | succ fuel ih =>
    intro cur pos m r t res h
    have triv : ∀ (x : LoopEnd) (m0 : CPwManager) (r0 : Rand),
        m0.m_pEntries = m.m_pEntries → (x = LoopEnd.fail m0 r0 ∨ x = LoopEnd.done pos m0 r0) →
        (∀ m4 r4, x = LoopEnd.fail m4 r4 → m4.m_pEntries = m.m_pEntries)
        ∧ (∀ p m4 r4, x = LoopEnd.done p m4 r4 → m4.m_pEntries = m.m_pEntries) := by
      intro x m0 r0 h0 hx
      rcases hx with hx | hx <;> subst hx
      · exact ⟨fun m4 r4 h => (by cases h; exact h0), fun p m4 r4 h => (by cases h)⟩
      · exact ⟨fun m4 r4 h => (by cases h), fun p m4 r4 h => (by cases h; exact h0)⟩
    unfold OpenDatabase.groupLoop at h
    simp only [] at h
    cases hr : m.ReadGroupField E r (leValue (readBytes buf pos 2)) (buf.drop (pos + 6)) t with
    | none =>
      simp only [hr] at h
      split_ifs at h
      all_goals first
        | (simp only [Option.some.injEq] at h; exact triv _ _ _ rfl (Or.inl h.symm))
        | (simp only [Option.some.injEq] at h; exact triv _ _ _ rfl (Or.inr h.symm))
    | some rf =>
      simp only [hr] at h
      have he := ReadGroupField_entries E m r _ _ _ rf hr
      split_ifs at h
      all_goals first
        | (simp only [Option.some.injEq] at h; exact triv _ _ _ rfl (Or.inl h.symm))
        | (simp only [Option.some.injEq] at h; exact triv _ _ _ rfl (Or.inr h.symm))
        | (simp only [Option.some.injEq] at h; exact triv _ _ _ he (Or.inl h.symm))
        | (obtain ⟨a, b⟩ := ih _ _ _ _ _ _ h
           exact ⟨fun m4 r4 h => (a m4 r4 h).trans he, fun p m4 r4 h => (b p m4 r4 h).trans he⟩)

theorem entryLoop_groups (E : Env) (bRepair : Bool) (buf : List Nat) (uFileSize dwEntries : Nat) :
    ∀ (fuel cur pos : Nat) (m : CPwManager) (r : Rand) (t : PW_ENTRY) (res : LoopEnd),
      OpenDatabase.entryLoop E bRepair buf uFileSize dwEntries fuel cur pos m r t = some res →
      (∀ m4 r4, res = LoopEnd.fail m4 r4 → m4.m_pGroups = m.m_pGroups)
      ∧ (∀ p m4 r4, res = LoopEnd.done p m4 r4 → m4.m_pGroups = m.m_pGroups) := by
  intro fuel
  induction fuel with
  | zero => intro cur pos m r t res h; simp [OpenDatabase.entryLoop] at h
  | succ fuel ih =>
    intro cur pos m r t res h
    have triv : ∀ (x : LoopEnd) (m0 : CPwManager) (r0 : Rand),
        m0.m_pGroups = m.m_pGroups → (x = LoopEnd.fail m0 r0 ∨ x = LoopEnd.done pos m0 r0) →
        (∀ m4 r4, x = LoopEnd.fail m4 r4 → m4.m_pGroups = m.m_pGroups)
        ∧ (∀ p m4 r4, x = LoopEnd.done p m4 r4 → m4.m_pGroups = m.m_pGroups) := by
      intro x m0 r0 h0 hx
      rcases hx with hx | hx <;> subst hx
      · exact ⟨fun m4 r4 h => (by cases h; exact h0), fun p m4 r4 h => (by cases h)⟩
      · exact ⟨fun m4 r4 h => (by cases h), fun p m4 r4 h => (by cases h; exact h0)⟩
    unfold OpenDatabase.entryLoop at h
    simp only [] at h
    have he := ReadEntryField_groups E m r (leValue (readBytes buf pos 2))
      (leValue (readBytes buf (pos + 2) 4)) (buf.drop (pos + 6)) t
    generalize m.ReadEntryField E r (leValue (readBytes buf pos 2))
      (leValue (readBytes buf (pos + 2) 4)) (buf.drop (pos + 6)) t = rf at h he
    split_ifs at h
    all_goals first
      | (simp only [Option.some.injEq] at h; exact triv _ _ _ rfl (Or.inl h.symm))
      | (simp only [Option.some.injEq] at h; exact triv _ _ _ rfl (Or.inr h.symm))
      | (simp only [Option.some.injEq] at h; exact triv _ _ _ he (Or.inl h.symm))
      | (obtain ⟨a, b⟩ := ih _ _ _ _ _ _ h
         exact ⟨fun m4 r4 h => (a m4 r4 h).trans he, fun p m4 r4 h => (b p m4 r4 h).trans he⟩)

/-! ## Failed loads -/

theorem load_cases (E : Env) (bRepair : Bool) (buf : List Nat) (uFileSize : Nat)
    (hdr : PW_DBHEADER) (fuel : Nat) (m2 : CPwManager) (r : Rand) (rep1 : PWDB_REPAIR_INFO)
    (res : PWE × CPwManager × Rand × PWDB_REPAIR_INFO)
    (h : OpenDatabase.load E bRepair buf uFileSize hdr fuel m2 r rep1 = some res) :
    res.1 = PWE.SUCCESS
    ∨ (res.1 = PWE.INVALID_FILESTRUCTURE
      ∧ ((∃ m4 r4, OpenDatabase.groupLoop E bRepair buf uFileSize hdr.dwGroups fuel 0
              sizeofHeader m2.NewDatabase r RESET_PWG_TEMPLATE = some (LoopEnd.fail m4 r4)
            ∧ res.2.1.m_pGroups = m4.m_pGroups ∧ res.2.1.m_pEntries = [])
        ∨ (∃ pos m4 r4 m5 r5, OpenDatabase.groupLoop E bRepair buf uFileSize hdr.dwGroups fuel 0
              sizeofHeader m2.NewDatabase r RESET_PWG_TEMPLATE = some (LoopEnd.done pos m4 r4)
            ∧ OpenDatabase.entryLoop E bRepair buf uFileSize hdr.dwEntries fuel 0 pos m4 r4
              RESET_PWE_TEMPLATE = some (LoopEnd.fail m5 r5)
            ∧ res.2.1.m_pGroups = m4.m_pGroups ∧ res.2.1.m_pEntries = m5.m_pEntries))) := by
  unfold OpenDatabase.load at h
  simp only [] at h
  cases hg : OpenDatabase.groupLoop E bRepair buf uFileSize hdr.dwGroups fuel 0
      sizeofHeader m2.NewDatabase r RESET_PWG_TEMPLATE with
  | none => simp only [hg] at h; exact absurd h (by simp)
  | some ge =>
    have hge := groupLoop_entries E bRepair buf uFileSize hdr.dwGroups fuel 0 sizeofHeader
      m2.NewDatabase r RESET_PWG_TEMPLATE ge hg
    cases ge with
    | fail m4 r4 =>
      simp only [hg, Option.some.injEq] at h
      subst h
      right
      refine ⟨rfl, Or.inl ⟨m4, r4, rfl, rfl, ?_⟩⟩
      exact hge.1 m4 r4 rfl
    | done pos m4 r4 =>
      simp only [hg] at h
      cases he : OpenDatabase.entryLoop E bRepair buf uFileSize hdr.dwEntries fuel 0 pos m4 r4
          RESET_PWE_TEMPLATE with
      | none => simp only [he] at h; exact absurd h (by simp)
      | some ee =>
        have hee := entryLoop_groups E bRepair buf uFileSize hdr.dwEntries fuel 0 pos m4 r4
          RESET_PWE_TEMPLATE ee he
        cases ee with
        | fail m5 r5 =>
          simp only [he, Option.some.injEq] at h
          subst h
          right
          refine ⟨rfl, Or.inr ⟨pos, m4, r4, m5, r5, rfl, he, ?_, rfl⟩⟩
          exact hee.1 m5 r5 rfl
        | done p5 m5 r5 =>
          simp only [he] at h
          left
          cases hl : CPwManager._LoadAndRemoveAllMetaStreams
              { m5 with m_dbLastHeader := hdr } true with
          | none => simp only [hl] at h; exact absurd h (by simp)
          | some x =>
            simp only [hl] at h
            cases hd : x.2.DeleteLostEntries with
            | none => simp only [hd] at h; exact absurd h (by simp)
            | some y =>
              simp only [hd, Option.some.injEq] at h
              subst h
              rfl


theorem FAIL_LIGHT_frame (E : Env) (m : CPwManager) :
    (_OPENDB_FAIL_LIGHT E m).m_pGroups = m.m_pGroups
    ∧ (_OPENDB_FAIL_LIGHT E m).m_pEntries = m.m_pEntries := ⟨rfl, rfl⟩

set_option maxRecDepth 100000 in
/-- A load that fails is not atomic.  The sample tree holds four groups; the
file announces two groups and holds the record of one, with the matching
contents hash.  `OpenDatabase` returns `PWE_INVALID_FILESTRUCTURE` and leaves
the one group of the file: neither the four groups from before nor none. -/
theorem C3_load_atomicity_counterexample :
    (sampleTree.OpenDatabase (sampleEnv (some sampleTruncated)) 40 sampleRand
      (some (tstr "f")) false).map
        (fun x => (x.1, x.2.1.m_pGroups.map (fun g => g.uGroupId), x.2.1.m_pEntries.length))
      = some (PWE.INVALID_FILESTRUCTURE, [21], 0)
    ∧ sampleTree.m_pGroups.map (fun g => g.uGroupId) = [11, 12, 13, 14] := by
  constructor
  · decide
  · decide

/-- Case analysis of `OpenDatabase`: a result is an early failure that leaves
the arrays alone, what a legacy reader returns, or what the load stage returns
on the decrypted memory file of the call, for the database with the arrays
from before the call. -/
theorem OpenDatabase_cases (E : Env) (fuel : Nat) (m : CPwManager) (r : Rand)
    (pszFile : Option (List Nat)) (bRepair : Bool)
    (Q : PWE × CPwManager × Rand × PWDB_REPAIR_INFO → Prop)
    (hsame : ∀ (code : PWE) (m0 : CPwManager) (rep : PWDB_REPAIR_INFO),
      m0.m_pGroups = m.m_pGroups → m0.m_pEntries = m.m_pEntries →
      code ≠ PWE.SUCCESS → code ≠ PWE.UNKNOWN → Q (code, m0, r, rep))
    (hlegacy : ∀ (b : Bool) (m0 : CPwManager) (rep : PWDB_REPAIR_INFO),
      Q (if b then PWE.SUCCESS else PWE.UNKNOWN, m0, r, rep))
    (hload : ∀ (path file : List Nat) (rep1 : PWDB_REPAIR_INFO)
      (res : PWE × CPwManager × Rand × PWDB_REPAIR_INFO),
      pszFile = some path → E.fileRead path = some file →
      OpenDatabase.load E bRepair
        (OpenDatabase.decrypt E (OpenDatabase.keyed E m (PW_DBHEADER.ofBytes file)).2
          (PW_DBHEADER.ofBytes file) file
          (if (file.length - sizeofHeader) % 16 != 0
            then (file.length - sizeofHeader) / 16 * 16 + sizeofHeader else file.length)).1
        (if (file.length - sizeofHeader) % 16 != 0
          then (file.length - sizeofHeader) / 16 * 16 + sizeofHeader else file.length)
        (PW_DBHEADER.ofBytes file) fuel (OpenDatabase.keyed E m (PW_DBHEADER.ofBytes file)).2
        r rep1 = some res → Q res) :
    ∀ res, m.OpenDatabase E fuel r pszFile bRepair = some res → Q res := by
  cases pszFile with
  | none =>
    intro res h
    unfold OpenDatabase at h
    simp only [Option.some.injEq] at h
    subst h
    exact hsame _ _ _ rfl rfl (by decide) (by decide)
  | some path =>
    unfold OpenDatabase
    simp only []
    generalize hfr : E.fileRead path = fr
    refine ite_ind (fun (x : Option (PWE × CPwManager × Rand × PWDB_REPAIR_INFO)) =>
      ∀ y, x = some y → Q y) _ _ _ _ ?_ ?_
    · intro res h
      simp only [Option.some.injEq] at h
      subst h
      exact hsame _ _ _ rfl rfl (by decide) (by decide)
    · cases fr with
      | none =>
        intro res h
        simp only [Option.some.injEq] at h
        subst h
        exact hsame _ _ _ rfl rfl (by decide) (by decide)
      | some file =>
        obtain ⟨k1, k2, _⟩ := keyed_frame E m (PW_DBHEADER.ofBytes file)
        simp only []
        repeat' refine ite_ind (fun (x : Option (PWE × CPwManager × Rand × PWDB_REPAIR_INFO)) =>
          ∀ y, x = some y → Q y) _ _ _ _ ?_ ?_
        all_goals first
          | (intro res h; simp only [Option.some.injEq] at h; subst h
             exact hsame _ _ _ rfl rfl (by decide) (by decide))
          | (intro res h; simp only [Option.some.injEq] at h; subst h
             exact hsame _ _ _ k1 k2 (by decide) (by decide))
          | (intro res h; simp only [Option.some.injEq] at h; subst h
             exact hlegacy _ _ _)
          | (intro res h; exact hload path file _ res rfl hfr h)

/-- C3 (amended).  Whenever `OpenDatabase` returns a value other than
`PWE_SUCCESS` (and other than `PWE_UNKNOWN`, the failure of the readers of the
legacy formats, which are not part of this file), the group and entry arrays
are exactly those from before the call, unless the failure is
`PWE_INVALID_FILESTRUCTURE` raised by a parsing loop after `NewDatabase()`.
Then the file of the call was read, and with its header `hdr`, the database
`m2` after the key transformation and the memory file `buf` as decrypted by
the call, the arrays hold what the loops of the call had added from `buf`: the
groups added so far and no entry when the group loop failed, all groups and
the entries added so far when the entry loop failed. -/
theorem C3_load_failure_states (E : Env) (fuel : Nat) (m : CPwManager) (r : Rand)
    (pszFile : Option (List Nat)) (bRepair : Bool)
    (res : PWE × CPwManager × Rand × PWDB_REPAIR_INFO)
    (h : m.OpenDatabase E fuel r pszFile bRepair = some res)
    (hfail : res.1 ≠ PWE.SUCCESS) (hlegacy : res.1 ≠ PWE.UNKNOWN) :
    (res.2.1.m_pGroups = m.m_pGroups ∧ res.2.1.m_pEntries = m.m_pEntries)
    ∨ (res.1 = PWE.INVALID_FILESTRUCTURE
      ∧ ∃ (path file : List Nat) (hdr : PW_DBHEADER) (m2 : CPwManager) (uFileSize : Nat)
          (buf : List Nat),
        pszFile = some path ∧ E.fileRead path = some file
        ∧ hdr = PW_DBHEADER.ofBytes file
        ∧ m2 = (OpenDatabase.keyed E m hdr).2
        ∧ uFileSize = (if (file.length - sizeofHeader) % 16 != 0
            then (file.length - sizeofHeader) / 16 * 16 + sizeofHeader else file.length)
        ∧ buf = (OpenDatabase.decrypt E m2 hdr file uFileSize).1
        ∧ ((∃ m4 r4, OpenDatabase.groupLoop E bRepair buf uFileSize hdr.dwGroups fuel 0
                sizeofHeader m2.NewDatabase r RESET_PWG_TEMPLATE = some (LoopEnd.fail m4 r4)
              ∧ res.2.1.m_pGroups = m4.m_pGroups ∧ res.2.1.m_pEntries = [])
          ∨ (∃ pos m4 r4 m5 r5, OpenDatabase.groupLoop E bRepair buf uFileSize hdr.dwGroups
                fuel 0 sizeofHeader m2.NewDatabase r RESET_PWG_TEMPLATE
                = some (LoopEnd.done pos m4 r4)
              ∧ OpenDatabase.entryLoop E bRepair buf uFileSize hdr.dwEntries fuel 0 pos m4 r4
                RESET_PWE_TEMPLATE = some (LoopEnd.fail m5 r5)
              ∧ res.2.1.m_pGroups = m4.m_pGroups
              ∧ res.2.1.m_pEntries = m5.m_pEntries))) := by
  revert hfail hlegacy
  refine OpenDatabase_cases E fuel m r pszFile bRepair
    (fun res => res.1 ≠ PWE.SUCCESS → res.1 ≠ PWE.UNKNOWN →
      (res.2.1.m_pGroups = m.m_pGroups ∧ res.2.1.m_pEntries = m.m_pEntries)
      ∨ (res.1 = PWE.INVALID_FILESTRUCTURE
        ∧ ∃ (path file : List Nat) (hdr : PW_DBHEADER) (m2 : CPwManager) (uFileSize : Nat)
            (buf : List Nat),
          pszFile = some path ∧ E.fileRead path = some file
          ∧ hdr = PW_DBHEADER.ofBytes file
          ∧ m2 = (OpenDatabase.keyed E m hdr).2
          ∧ uFileSize = (if (file.length - sizeofHeader) % 16 != 0
              then (file.length - sizeofHeader) / 16 * 16 + sizeofHeader else file.length)
          ∧ buf = (OpenDatabase.decrypt E m2 hdr file uFileSize).1
          ∧ ((∃ m4 r4, OpenDatabase.groupLoop E bRepair buf uFileSize hdr.dwGroups fuel 0
                  sizeofHeader m2.NewDatabase r RESET_PWG_TEMPLATE = some (LoopEnd.fail m4 r4)
                ∧ res.2.1.m_pGroups = m4.m_pGroups ∧ res.2.1.m_pEntries = [])
            ∨ (∃ pos m4 r4 m5 r5, OpenDatabase.groupLoop E bRepair buf uFileSize hdr.dwGroups
                  fuel 0 sizeofHeader m2.NewDatabase r RESET_PWG_TEMPLATE
                  = some (LoopEnd.done pos m4 r4)
                ∧ OpenDatabase.entryLoop E bRepair buf uFileSize hdr.dwEntries fuel 0 pos m4 r4
                  RESET_PWE_TEMPLATE = some (LoopEnd.fail m5 r5)
                ∧ res.2.1.m_pGroups = m4.m_pGroups
                ∧ res.2.1.m_pEntries = m5.m_pEntries))))
    ?_ ?_ ?_ res h
  · intro code m0 rep h1 h2 _ _ _ _
    exact Or.inl ⟨h1, h2⟩
  · intro b m0 rep hs hu
    cases b
    · exact absurd rfl hu
    · exact absurd rfl hs
  · intro path file rep1 res hp hf hl hs _
    rcases load_cases _ _ _ _ _ _ _ _ _ _ hl with h0 | ⟨hc, hx⟩
    · exact absurd h0 hs
    · exact Or.inr ⟨hc, path, file, _, _, _, _, hp, hf, rfl, rfl, rfl, rfl, hx⟩

set_option maxRecDepth 100000 in
/-- Opening the truncated sample file over the sample tree fails in the group
loop: the code is `PWE_INVALID_FILESTRUCTURE`, the arrays are not those from
before the call, and the theorem places the result in one of its cases. -/
theorem C3_load_failure_states_witness :
    sampleFailedLoad.1 = PWE.INVALID_FILESTRUCTURE
    ∧ sampleFailedLoad.2.1.m_pGroups.map (fun g => g.uGroupId) = [21]
    ∧ ((sampleFailedLoad.2.1.m_pGroups = sampleTree.m_pGroups
        ∧ sampleFailedLoad.2.1.m_pEntries = sampleTree.m_pEntries)
      ∨ (sampleFailedLoad.1 = PWE.INVALID_FILESTRUCTURE
        ∧ ∃ (path file : List Nat) (hdr : PW_DBHEADER) (m2 : CPwManager) (uFileSize : Nat)
            (buf : List Nat),
          some (tstr "f") = some path
          ∧ (sampleEnv (some sampleTruncated)).fileRead path = some file
          ∧ hdr = PW_DBHEADER.ofBytes file
          ∧ m2 = (OpenDatabase.keyed (sampleEnv (some sampleTruncated)) sampleTree hdr).2
          ∧ uFileSize = (if (file.length - sizeofHeader) % 16 != 0
              then (file.length - sizeofHeader) / 16 * 16 + sizeofHeader else file.length)
          ∧ buf = (OpenDatabase.decrypt (sampleEnv (some sampleTruncated)) m2 hdr file
              uFileSize).1
          ∧ ((∃ m4 r4, OpenDatabase.groupLoop (sampleEnv (some sampleTruncated)) false buf
                  uFileSize hdr.dwGroups 40 0 sizeofHeader m2.NewDatabase sampleRand
                  RESET_PWG_TEMPLATE = some (LoopEnd.fail m4 r4)
                ∧ sampleFailedLoad.2.1.m_pGroups = m4.m_pGroups
                ∧ sampleFailedLoad.2.1.m_pEntries = [])
            ∨ (∃ pos m4 r4 m5 r5, OpenDatabase.groupLoop (sampleEnv (some sampleTruncated))
                  false buf uFileSize hdr.dwGroups 40 0 sizeofHeader m2.NewDatabase sampleRand
                  RESET_PWG_TEMPLATE = some (LoopEnd.done pos m4 r4)
                ∧ OpenDatabase.entryLoop (sampleEnv (some sampleTruncated)) false buf uFileSize
                  hdr.dwEntries 40 0 pos m4 r4 RESET_PWE_TEMPLATE = some (LoopEnd.fail m5 r5)
                ∧ sampleFailedLoad.2.1.m_pGroups = m4.m_pGroups
                ∧ sampleFailedLoad.2.1.m_pEntries = m5.m_pEntries)))) :=
  ⟨by decide, by decide,
    C3_load_failure_states (sampleEnv (some sampleTruncated)) 40 sampleTree sampleRand
      (some (tstr "f")) false sampleFailedLoad rfl (by decide) (by decide)⟩

/-! ## Bytes of the memory file -/

theorem leBytes_length : ∀ (n v : Nat), (leBytes n v).length = n := by
  intro n
  induction n with
  | zero => intro v; rfl
  | succ n ih => intro v; simp [leBytes, ih]

theorem leValue_leBytes : ∀ (n v : Nat), leValue (leBytes n v) = v % 256 ^ n := by
  intro n
  induction n with
  | zero => intro v; simp [leBytes, leValue, Nat.mod_one]
  | succ n ih =>
    intro v
    simp only [leBytes, leValue, ih, Nat.mod_mod]
    rw [pow_succ, Nat.mul_comm (256 ^ n) 256, Nat.mod_mul]

theorem readBytes_length (buf : List Nat) (pos n : Nat) : (readBytes buf pos n).length = n := by
  unfold readBytes
  simp

theorem readBytes_append_le (a b : List Nat) (n : Nat) (h : n ≤ a.length) :
    readBytes (a ++ b) 0 n = a.take n := by
  unfold readBytes
  rw [List.drop_zero, List.append_assoc, List.take_append_of_le_length h]

theorem readBytes_exact (a b : List Nat) : readBytes (a ++ b) 0 a.length = a := by
  rw [readBytes_append_le a b a.length (le_refl _), List.take_length]

theorem readBytes_drop (buf : List Nat) (pos n : Nat) :
    readBytes buf pos n = readBytes (buf.drop pos) 0 n := by
  unfold readBytes
  rw [List.drop_zero]

theorem drop_add_of_drop (buf a b : List Nat) (pos : Nat) (h : buf.drop pos = a ++ b) :
    buf.drop (pos + a.length) = b := by
  rw [← List.drop_drop, h, List.drop_left]

theorem tlvField_length (ty : Nat) (data : List Nat) :
    (tlvField ty data).length = 6 + data.length := by
  unfold tlvField
  simp [leBytes_length]
  omega

theorem tlv_reads (buf : List Nat) (pos ty : Nat) (data rest : List Nat)
    (hdrop : buf.drop pos = tlvField ty data ++ rest) (hty : ty < 65536)
    (hlen : data.length < U32) :
    leValue (readBytes buf pos 2) = ty
    ∧ leValue (readBytes buf (pos + 2) 4) = data.length
    ∧ buf.drop (pos + 6) = data ++ rest
    ∧ buf.drop (pos + 6 + data.length) = rest := by
  have h2 : buf.drop pos = leBytes 2 ty ++ (leBytes 4 data.length ++ (data ++ rest)) := by
    rw [hdrop]; unfold tlvField; simp
  have h3 : buf.drop (pos + 2) = leBytes 4 data.length ++ (data ++ rest) := by
    have := drop_add_of_drop buf _ _ pos h2
    rwa [leBytes_length] at this
  have h4 : buf.drop (pos + 2 + 4) = data ++ rest := by
    have := drop_add_of_drop buf _ _ (pos + 2) h3
    rwa [leBytes_length] at this
  have h5 : buf.drop (pos + 6 + data.length) = rest := drop_add_of_drop buf _ _ (pos + 6) h4
  refine ⟨?_, ?_, h4, h5⟩
  · rw [readBytes_drop, h2]
    have := readBytes_exact (leBytes 2 ty) (leBytes 4 data.length ++ (data ++ rest))
    rw [leBytes_length] at this
    rw [this, leValue_leBytes]
    exact Nat.mod_eq_of_lt hty
  · rw [readBytes_drop, h3]
    have := readBytes_exact (leBytes 4 data.length) (data ++ rest)
    rw [leBytes_length] at this
    rw [this, leValue_leBytes]
    exact Nat.mod_eq_of_lt hlen

theorem groupLoop_step (E : Env) (buf : List Nat) (uFileSize dwGroups fuel cur pos : Nat)
    (m : CPwManager) (r : Rand) (t : PW_GROUP) (ty : Nat) (data rest : List Nat)
    (hdrop : buf.drop pos = tlvField ty data ++ rest) (hty : ty < 65536)
    (hcur : cur < dwGroups) (hpos : sizeofHeader ≤ pos)
    (hend : pos + 6 + data.length < uFileSize) (hsize : uFileSize ≤ 2147483648) :
    OpenDatabase.groupLoop E false buf uFileSize dwGroups (fuel + 1) cur pos m r t
      = match m.ReadGroupField E r ty (data ++ rest) t with
        | none => none
        | some res =>
          OpenDatabase.groupLoop E false buf uFileSize dwGroups fuel
            (if ty == 0xFFFF && res.1 then cur + 1 else cur) (pos + 6 + data.length)
            res.2.1 res.2.2.1 res.2.2.2 := by
  have hU : U32 = 4294967296 := rfl
  have hH : sizeofHeader = 124 := rfl
  obtain ⟨e1, e2, e3, _⟩ := tlv_reads buf pos ty data rest hdrop hty (by rw [hU]; omega)
  rw [OpenDatabase.groupLoop]
  have c0 : (!decide (cur < dwGroups)) = false := by simp [hcur]
  have p1 : (pos + 2) % U32 = pos + 2 := Nat.mod_eq_of_lt (by rw [hU]; omega)
  have p2 : (pos + 2 + 4) % U32 = pos + 6 := Nat.mod_eq_of_lt (by rw [hU]; omega)
  have p3 : (uFileSize + data.length) % U32 = uFileSize + data.length :=
    Nat.mod_eq_of_lt (by rw [hU]; omega)
  have p4 : (pos + 6 + data.length) % U32 = pos + 6 + data.length :=
    Nat.mod_eq_of_lt (by rw [hU]; omega)
  have c1 : ¬ (pos + 2 ≥ uFileSize) := by omega
  have c2 : ¬ (pos + 6 ≥ uFileSize + data.length) := by omega
  have c3 : ¬ (pos + 6 + data.length < sizeofHeader) := by omega
  have c4 : ¬ (pos + 6 + data.length ≥ uFileSize) := by omega
  simp only [c0, Bool.false_eq_true, if_false, Bool.false_and, e1, e2, e3, p1, p2, p3, p4, c1, c2,
    c3, c4]

theorem entryLoop_step (E : Env) (buf : List Nat) (uFileSize dwEntries fuel cur pos : Nat)
    (m : CPwManager) (r : Rand) (t : PW_ENTRY) (ty : Nat) (data rest : List Nat)
    (hdrop : buf.drop pos = tlvField ty data ++ rest) (hty : ty < 65536)
    (hcur : cur < dwEntries) (hpos : sizeofHeader ≤ pos)
    (hend : pos + 6 + data.length < uFileSize) (hsize : uFileSize ≤ 2147483648) :
    OpenDatabase.entryLoop E false buf uFileSize dwEntries (fuel + 1) cur pos m r t
      = OpenDatabase.entryLoop E false buf uFileSize dwEntries fuel
          (if ty == 0xFFFF && (m.ReadEntryField E r ty data.length (data ++ rest) t).1
            then cur + 1 else cur)
          (pos + 6 + data.length)
          (m.ReadEntryField E r ty data.length (data ++ rest) t).2.1
          (m.ReadEntryField E r ty data.length (data ++ rest) t).2.2.1
          (m.ReadEntryField E r ty data.length (data ++ rest) t).2.2.2 := by
  have hU : U32 = 4294967296 := rfl
  have hH : sizeofHeader = 124 := rfl
  obtain ⟨e1, e2, e3, _⟩ := tlv_reads buf pos ty data rest hdrop hty (by rw [hU]; omega)
  rw [OpenDatabase.entryLoop]
  have c0 : (!decide (cur < dwEntries)) = false := by simp [hcur]
  have p1 : (pos + 2) % U32 = pos + 2 := Nat.mod_eq_of_lt (by rw [hU]; omega)
  have p2 : (pos + 2 + 4) % U32 = pos + 6 := Nat.mod_eq_of_lt (by rw [hU]; omega)
  have p3 : (uFileSize + data.length) % U32 = uFileSize + data.length :=
    Nat.mod_eq_of_lt (by rw [hU]; omega)
  have p4 : (pos + 6 + data.length) % U32 = pos + 6 + data.length :=
    Nat.mod_eq_of_lt (by rw [hU]; omega)
  have c1 : ¬ (pos + 2 ≥ uFileSize) := by omega
  have c2 : ¬ (pos + 6 ≥ uFileSize + data.length) := by omega
  have c3 : ¬ (pos + 6 + data.length < sizeofHeader) := by omega
  have c4 : ¬ (pos + 6 + data.length ≥ uFileSize) := by omega
  simp only [c0, Bool.false_eq_true, if_false, Bool.false_and, e1, e2, e3, p1, p2, p3, p4, c1, c2,
    c3, c4]

/-! ## The parsing loops on a list of fields -/

theorem fieldBytes_cons (f : Nat × List Nat) (fs : List (Nat × List Nat)) :
    fieldBytes (f :: fs) = tlvField f.1 f.2 ++ fieldBytes fs := by
  simp [fieldBytes]

theorem fieldBytes_append (a b : List (Nat × List Nat)) :
    fieldBytes (a ++ b) = fieldBytes a ++ fieldBytes b := by
  simp [fieldBytes]

theorem groupLoop_fields (E : Env) (buf : List Nat) (uFileSize dwGroups : Nat)
    (tail : List Nat) (hsize : uFileSize ≤ 2147483648) :
    ∀ (fs : List (Nat × List Nat)) (fuel cur pos : Nat) (m : CPwManager) (r : Rand)
      (t : PW_GROUP),
      buf.drop pos = fieldBytes fs ++ tail → (∀ f ∈ fs, f.1 < 65536) →
      sizeofHeader ≤ pos → pos + (fieldBytes fs).length < uFileSize →
      cur + (fs.filter (fun f => f.1 == 0xFFFF)).length ≤ dwGroups →
      (fs = [] ∨ ∃ d, fs.getLast? = some (0xFFFF, d)) →
      OpenDatabase.groupLoop E false buf uFileSize dwGroups (fuel + fs.length) cur pos m r t
        = match readGroupFields E tail fs cur m r t with
          | none => none
          | some res =>
            OpenDatabase.groupLoop E false buf uFileSize dwGroups fuel res.1
              (pos + (fieldBytes fs).length) res.2.1 res.2.2.1 res.2.2.2 := by
  intro fs
  induction fs with
  | nil =>
    intro fuel cur pos m r t _ _ _ _ _ _
    simp [readGroupFields, fieldBytes]
  | cons f fs ih =>
    intro fuel cur pos m r t hdrop hty hpos hend hcount hlast
    have hlen : (fieldBytes (f :: fs)).length = 6 + f.2.length + (fieldBytes fs).length := by
      rw [fieldBytes_cons, List.length_append, tlvField_length]
    have hdrop1 : buf.drop pos = tlvField f.1 f.2 ++ (fieldBytes fs ++ tail) := by
      rw [hdrop, fieldBytes_cons, List.append_assoc]
    have hFF : 1 ≤ ((f :: fs).filter (fun f => f.1 == 0xFFFF)).length := by
      rcases hlast with h | ⟨d, h⟩
      · exact absurd h (by simp)
      · have hm : ((0xFFFF : Nat), d) ∈ (f :: fs).filter (fun f => f.1 == 0xFFFF) := by
          rw [List.mem_filter]
          exact ⟨List.mem_of_getLast?_eq_some h, by simp⟩
        exact List.length_pos_of_mem hm
    have hstep := groupLoop_step E buf uFileSize dwGroups (fuel + fs.length) cur pos m r t f.1 f.2
      (fieldBytes fs ++ tail) hdrop1 (hty f (List.mem_cons_self _ _)) (by omega) hpos
      (by omega) hsize
    have hfuel : fuel + (f :: fs).length = fuel + fs.length + 1 := by simp; omega
    rw [hfuel, hstep]
    simp only [readGroupFields]
    cases hr : m.ReadGroupField E r f.1 (f.2 ++ (fieldBytes fs ++ tail)) t with
    | none => rfl
    | some res =>
      simp only []
      have hdrop2 : buf.drop (pos + 6 + f.2.length) = fieldBytes fs ++ tail := by
        have := drop_add_of_drop buf _ _ pos hdrop1
        rw [tlvField_length] at this
        rw [← this]
        congr 1
        omega
      have hcount2 : (if (f.1 == 0xFFFF && res.1) = true then cur + 1 else cur)
          + (fs.filter (fun f => f.1 == 0xFFFF)).length ≤ dwGroups := by
        rw [List.filter_cons] at hcount
        by_cases hf : (f.1 == 0xFFFF) = true
        · simp only [hf, if_true, List.length_cons] at hcount
          split_ifs <;> omega
        · simp only [hf, Bool.false_eq_true, if_false] at hcount
          simp only [hf, Bool.false_and, Bool.false_eq_true, if_false]
          omega
      have hlast2 : fs = [] ∨ ∃ d, fs.getLast? = some (0xFFFF, d) := by
        cases fs with
        | nil => left; rfl
        | cons g gs =>
          right
          rcases hlast with h | ⟨d, h⟩
          · exact absurd h (by simp)
          · exact ⟨d, by simpa [List.getLast?_cons_cons] using h⟩
      rw [ih fuel _ (pos + 6 + f.2.length) res.2.1 res.2.2.1 res.2.2.2 hdrop2
        (fun x hx => hty x (List.mem_cons_of_mem _ hx)) (by omega) (by omega) hcount2 hlast2]
      have hp : pos + 6 + f.2.length + (fieldBytes fs).length
          = pos + (fieldBytes (f :: fs)).length := by omega
      rw [hp]

theorem entryLoop_fields (E : Env) (buf : List Nat) (uFileSize dwEntries : Nat)
    (tail : List Nat) (hsize : uFileSize ≤ 2147483648) :
    ∀ (fs : List (Nat × List Nat)) (fuel cur pos : Nat) (m : CPwManager) (r : Rand)
      (t : PW_ENTRY),
      buf.drop pos = fieldBytes fs ++ tail → (∀ f ∈ fs, f.1 < 65536) →
      sizeofHeader ≤ pos → pos + (fieldBytes fs).length < uFileSize →
      cur + (fs.filter (fun f => f.1 == 0xFFFF)).length ≤ dwEntries →
      (fs = [] ∨ ∃ d, fs.getLast? = some (0xFFFF, d)) →
      OpenDatabase.entryLoop E false buf uFileSize dwEntries (fuel + fs.length) cur pos m r t
        = OpenDatabase.entryLoop E false buf uFileSize dwEntries fuel
            (readEntryFields E tail fs cur m r t).1 (pos + (fieldBytes fs).length)
            (readEntryFields E tail fs cur m r t).2.1 (readEntryFields E tail fs cur m r t).2.2.1
            (readEntryFields E tail fs cur m r t).2.2.2 := by
  intro fs
  induction fs with
  | nil =>
    intro fuel cur pos m r t _ _ _ _ _ _
    simp [readEntryFields, fieldBytes]
  | cons f fs ih =>
    intro fuel cur pos m r t hdrop hty hpos hend hcount hlast
    have hlen : (fieldBytes (f :: fs)).length = 6 + f.2.length + (fieldBytes fs).length := by
      rw [fieldBytes_cons, List.length_append, tlvField_length]
    have hdrop1 : buf.drop pos = tlvField f.1 f.2 ++ (fieldBytes fs ++ tail) := by
      rw [hdrop, fieldBytes_cons, List.append_assoc]
    have hFF : 1 ≤ ((f :: fs).filter (fun f => f.1 == 0xFFFF)).length := by
      rcases hlast with h | ⟨d, h⟩
      · exact absurd h (by simp)
      · have hm : ((0xFFFF : Nat), d) ∈ (f :: fs).filter (fun f => f.1 == 0xFFFF) := by
          rw [List.mem_filter]
          exact ⟨List.mem_of_getLast?_eq_some h, by simp⟩
        exact List.length_pos_of_mem hm
    have hstep := entryLoop_step E buf uFileSize dwEntries (fuel + fs.length) cur pos m r t f.1 f.2
      (fieldBytes fs ++ tail) hdrop1 (hty f (List.mem_cons_self _ _)) (by omega) hpos
      (by omega) hsize
    have hfuel : fuel + (f :: fs).length = fuel + fs.length + 1 := by simp; omega
    rw [hfuel, hstep]
    simp only [readEntryFields]
    generalize m.ReadEntryField E r f.1 f.2.length (f.2 ++ (fieldBytes fs ++ tail)) t = res
    have hdrop2 : buf.drop (pos + 6 + f.2.length) = fieldBytes fs ++ tail := by
      have := drop_add_of_drop buf _ _ pos hdrop1
      rw [tlvField_length] at this
      rw [← this]
      congr 1
      omega
    have hcount2 : (if (f.1 == 0xFFFF && res.1) = true then cur + 1 else cur)
        + (fs.filter (fun f => f.1 == 0xFFFF)).length ≤ dwEntries := by
      rw [List.filter_cons] at hcount
      by_cases hf : (f.1 == 0xFFFF) = true
      · simp only [hf, if_true, List.length_cons] at hcount
        split_ifs <;> omega
      · simp only [hf, Bool.false_eq_true, if_false] at hcount
        simp only [hf, Bool.false_and, Bool.false_eq_true, if_false]
        omega
    have hlast2 : fs = [] ∨ ∃ d, fs.getLast? = some (0xFFFF, d) := by
      cases fs with
      | nil => left; rfl
      | cons g gs =>
        right
        rcases hlast with h | ⟨d, h⟩
        · exact absurd h (by simp)
        · exact ⟨d, by simpa [List.getLast?_cons_cons] using h⟩
    rw [ih fuel _ (pos + 6 + f.2.length) res.2.1 res.2.2.1 res.2.2.2 hdrop2
      (fun x hx => hty x (List.mem_cons_of_mem _ hx)) (by omega) (by omega) hcount2 hlast2]
    have hp : pos + 6 + f.2.length + (fieldBytes fs).length
        = pos + (fieldBytes (f :: fs)).length := by omega
    rw [hp]

/-! ## One record -/

theorem cstr_append_zero (a x : List Nat) : cstr (cstr a ++ 0 :: x) = cstr a := by
  unfold cstr
  induction a with
  | nil => simp
  | cons c t ih =>
    simp only [List.takeWhile_cons]
    split
    · rename_i h
      simp only [List.cons_append, List.takeWhile_cons, h, if_true, ih]
    · simp

theorem UTF8ToString_field (E : Env) (p : Option (List Nat)) (x : List Nat) :
    _UTF8ToString E (utf8Field E p ++ x) = readBackText E p := by
  unfold _UTF8ToString utf8Field readBackText
  rw [List.append_assoc, List.singleton_append, cstr_append_zero]

theorem PwTimeToTime_length (t : PW_TIME) : (PwTimeToTime t).length = 5 := rfl

theorem readBytes_time (t : PW_TIME) (x : List Nat) :
    readBytes (PwTimeToTime t ++ x) 0 5 = PwTimeToTime t := by
  have := readBytes_exact (PwTimeToTime t) x
  rwa [PwTimeToTime_length] at this

theorem readBytes_le (n v : Nat) (x : List Nat) :
    readBytes (leBytes n v ++ x) 0 n = leBytes n v := by
  have := readBytes_exact (leBytes n v) x
  rwa [leBytes_length] at this

theorem readBytes_readBytes (u x : List Nat) (n : Nat) :
    readBytes (readBytes u 0 n ++ x) 0 n = readBytes u 0 n := by
  have := readBytes_exact (readBytes u 0 n) x
  rwa [readBytes_length] at this

theorem binaryPayload_length (e : PW_ENTRY) : (binaryPayload e).length = e.uBinaryDataLen := by
  unfold binaryPayload
  split
  · split_ifs
    · exact readBytes_length _ _ _
    · simp
  · simp

theorem writeGroup_fields (E : Env) (g : PW_GROUP) : writeGroup E g = fieldBytes (groupFields E g) := by
  simp [writeGroup, fieldBytes, groupFields]

theorem writeEntry_fields (E : Env) (e : PW_ENTRY) : writeEntry E e = fieldBytes (entryFields E e) := by
  have hb : writeBinaryField e = tlvField 0x000E (binaryPayload e) := by
    unfold writeBinaryField tlvField
    rw [binaryPayload_length]
    unfold binaryPayload
    simp only [List.append_assoc]
  simp [writeEntry, fieldBytes, entryFields, hb]

theorem ReadGroupField_0001 (E : Env) (m : CPwManager) (r : Rand) (pData : List Nat)
    (t : PW_GROUP) :
    m.ReadGroupField E r 0x0001 pData t = some (true, m, r, { t with uGroupId := leValue (readBytes pData 0 4) }) := rfl

theorem ReadGroupField_0002 (E : Env) (m : CPwManager) (r : Rand) (pData : List Nat)
    (t : PW_GROUP) :
    m.ReadGroupField E r 0x0002 pData t = some (true, m, r, { t with pszGroupName := _UTF8ToString E pData }) := rfl

theorem ReadGroupField_0003 (E : Env) (m : CPwManager) (r : Rand) (pData : List Nat)
    (t : PW_GROUP) :
    m.ReadGroupField E r 0x0003 pData t = some (true, m, r, { t with tCreation := TimeToPwTime (readBytes pData 0 5) }) := rfl

theorem ReadGroupField_0004 (E : Env) (m : CPwManager) (r : Rand) (pData : List Nat)
    (t : PW_GROUP) :
    m.ReadGroupField E r 0x0004 pData t = some (true, m, r, { t with tLastMod := TimeToPwTime (readBytes pData 0 5) }) := rfl

theorem ReadGroupField_0005 (E : Env) (m : CPwManager) (r : Rand) (pData : List Nat)
    (t : PW_GROUP) :
    m.ReadGroupField E r 0x0005 pData t = some (true, m, r, { t with tLastAccess := TimeToPwTime (readBytes pData 0 5) }) := rfl

theorem ReadGroupField_0006 (E : Env) (m : CPwManager) (r : Rand) (pData : List Nat)
    (t : PW_GROUP) :
    m.ReadGroupField E r 0x0006 pData t = some (true, m, r, { t with tExpire := TimeToPwTime (readBytes pData 0 5) }) := rfl

theorem ReadGroupField_0007 (E : Env) (m : CPwManager) (r : Rand) (pData : List Nat)
    (t : PW_GROUP) :
    m.ReadGroupField E r 0x0007 pData t = some (true, m, r, { t with uImageId := leValue (readBytes pData 0 4) }) := rfl

theorem ReadGroupField_0008 (E : Env) (m : CPwManager) (r : Rand) (pData : List Nat)
    (t : PW_GROUP) :
    m.ReadGroupField E r 0x0008 pData t = some (true, m, r, { t with usLevel := leValue (readBytes pData 0 2) }) := rfl

theorem ReadGroupField_0009 (E : Env) (m : CPwManager) (r : Rand) (pData : List Nat)
    (t : PW_GROUP) :
    m.ReadGroupField E r 0x0009 pData t = some (true, m, r, { t with dwFlags := leValue (readBytes pData 0 4) }) := rfl

theorem ReadGroupField_FFFF (E : Env) (m : CPwManager) (r : Rand) (pData : List Nat)
    (t : PW_GROUP) :
    m.ReadGroupField E r 0xFFFF pData t
      = (m.AddGroup r t).map (fun res => (true, res.2.1, res.2.2, RESET_PWG_TEMPLATE)) := by
  have h : m.ReadGroupField E r 0xFFFF pData t
      = match m.AddGroup r t with
        | none => none
        | some res => some (true, res.2.1, res.2.2, RESET_PWG_TEMPLATE) := rfl
  rw [h]
  cases m.AddGroup r t <;> rfl

theorem ReadEntryField_0001 (E : Env) (m : CPwManager) (r : Rand) (sz : Nat)
    (pData : List Nat) (t : PW_ENTRY) :
    m.ReadEntryField E r 0x0001 sz pData t = (true, m, r, { t with uuid := readBytes pData 0 16 }) := rfl

theorem ReadEntryField_0002 (E : Env) (m : CPwManager) (r : Rand) (sz : Nat)
    (pData : List Nat) (t : PW_ENTRY) :
    m.ReadEntryField E r 0x0002 sz pData t = (true, m, r, { t with uGroupId := leValue (readBytes pData 0 4) }) := rfl

theorem ReadEntryField_0003 (E : Env) (m : CPwManager) (r : Rand) (sz : Nat)
    (pData : List Nat) (t : PW_ENTRY) :
    m.ReadEntryField E r 0x0003 sz pData t = (true, m, r, { t with uImageId := leValue (readBytes pData 0 4) }) := rfl

theorem ReadEntryField_0004 (E : Env) (m : CPwManager) (r : Rand) (sz : Nat)
    (pData : List Nat) (t : PW_ENTRY) :
    m.ReadEntryField E r 0x0004 sz pData t = (true, m, r, { t with pszTitle := _UTF8ToString E pData }) := rfl

theorem ReadEntryField_0005 (E : Env) (m : CPwManager) (r : Rand) (sz : Nat)
    (pData : List Nat) (t : PW_ENTRY) :
    m.ReadEntryField E r 0x0005 sz pData t = (true, m, r, { t with pszURL := _UTF8ToString E pData }) := rfl

theorem ReadEntryField_0006 (E : Env) (m : CPwManager) (r : Rand) (sz : Nat)
    (pData : List Nat) (t : PW_ENTRY) :
    m.ReadEntryField E r 0x0006 sz pData t = (true, m, r, { t with pszUserName := _UTF8ToString E pData }) := rfl

theorem ReadEntryField_0007 (E : Env) (m : CPwManager) (r : Rand) (sz : Nat)
    (pData : List Nat) (t : PW_ENTRY) :
    m.ReadEntryField E r 0x0007 sz pData t = (true, m, r, { t with pszPassword := _UTF8ToString E pData }) := rfl

theorem ReadEntryField_0008 (E : Env) (m : CPwManager) (r : Rand) (sz : Nat)
    (pData : List Nat) (t : PW_ENTRY) :
    m.ReadEntryField E r 0x0008 sz pData t = (true, m, r, { t with pszAdditional := _UTF8ToString E pData }) := rfl

theorem ReadEntryField_0009 (E : Env) (m : CPwManager) (r : Rand) (sz : Nat)
    (pData : List Nat) (t : PW_ENTRY) :
    m.ReadEntryField E r 0x0009 sz pData t = (true, m, r, { t with tCreation := TimeToPwTime (readBytes pData 0 5) }) := rfl

theorem ReadEntryField_000A (E : Env) (m : CPwManager) (r : Rand) (sz : Nat)
    (pData : List Nat) (t : PW_ENTRY) :
    m.ReadEntryField E r 0x000A sz pData t = (true, m, r, { t with tLastMod := TimeToPwTime (readBytes pData 0 5) }) := rfl

theorem ReadEntryField_000B (E : Env) (m : CPwManager) (r : Rand) (sz : Nat)
    (pData : List Nat) (t : PW_ENTRY) :
    m.ReadEntryField E r 0x000B sz pData t = (true, m, r, { t with tLastAccess := TimeToPwTime (readBytes pData 0 5) }) := rfl

theorem ReadEntryField_000C (E : Env) (m : CPwManager) (r : Rand) (sz : Nat)
    (pData : List Nat) (t : PW_ENTRY) :
    m.ReadEntryField E r 0x000C sz pData t = (true, m, r, { t with tExpire := TimeToPwTime (readBytes pData 0 5) }) := rfl

theorem ReadEntryField_000D (E : Env) (m : CPwManager) (r : Rand) (sz : Nat)
    (pData : List Nat) (t : PW_ENTRY) :
    m.ReadEntryField E r 0x000D sz pData t = (true, m, r, { t with pszBinaryDesc := _UTF8ToString E pData }) := rfl

theorem ReadEntryField_000E (E : Env) (m : CPwManager) (r : Rand) (sz : Nat)
    (pData : List Nat) (t : PW_ENTRY) :
    m.ReadEntryField E r 0x000E sz pData t
      = if sz != 0 then
          (true, m, r, { t with pBinaryData := some (readBytes pData 0 sz), uBinaryDataLen := sz })
        else (true, m, r, { t with pBinaryData := none }) := rfl

theorem ReadEntryField_FFFF (E : Env) (m : CPwManager) (r : Rand) (sz : Nat)
    (pData : List Nat) (t : PW_ENTRY) :
    m.ReadEntryField E r 0xFFFF sz pData t
      = (true, (m.AddEntry E r t).2.1, (m.AddEntry E r t).2.2, RESET_PWE_TEMPLATE) := rfl

theorem readGroupFields_record (E : Env) (tail : List Nat) (g : PW_GROUP) (cur : Nat)
    (m : CPwManager) (r : Rand) :
    readGroupFields E tail (groupFields E g) cur m r RESET_PWG_TEMPLATE
      = (m.AddGroup r (readBackGroup E g)).map
          (fun res => (cur + 1, res.2.1, res.2.2, RESET_PWG_TEMPLATE)) := by
  have h256 : (256 : Nat) ^ 4 = U32 := rfl
  have h65 : (256 : Nat) ^ 2 = 65536 := rfl
  simp only [groupFields, readGroupFields, ReadGroupField_0001, ReadGroupField_0002,
    ReadGroupField_0003, ReadGroupField_0004, ReadGroupField_0005, ReadGroupField_0006,
    ReadGroupField_0007, ReadGroupField_0008, ReadGroupField_0009, ReadGroupField_FFFF,
    readBytes_le, readBytes_time, UTF8ToString_field, leValue_leBytes, h256, h65]
  simp only [RESET_PWG_TEMPLATE, readBackGroup]
  cases m.AddGroup r _ <;> rfl

theorem readEntryFields_record (E : Env) (tail : List Nat) (e : PW_ENTRY) (cur : Nat)
    (m : CPwManager) (r : Rand) :
    readEntryFields E tail (entryFields E e) cur m r RESET_PWE_TEMPLATE
      = (cur + 1, (m.AddEntry E r (readBackEntry E e)).2.1,
          (m.AddEntry E r (readBackEntry E e)).2.2, RESET_PWE_TEMPLATE) := by
  have h256 : (256 : Nat) ^ 4 = U32 := rfl
  have hb : readBytes (binaryPayload e ++ (fieldBytes [(0xFFFF, [])] ++ tail)) 0 e.uBinaryDataLen
      = binaryPayload e := by
    have := readBytes_exact (binaryPayload e) (fieldBytes [(0xFFFF, [])] ++ tail)
    rwa [binaryPayload_length] at this
  simp only [entryFields, readEntryFields, ReadEntryField_0001, ReadEntryField_0002,
    ReadEntryField_0003, ReadEntryField_0004, ReadEntryField_0005, ReadEntryField_0006,
    ReadEntryField_0007, ReadEntryField_0008, ReadEntryField_0009, ReadEntryField_000A,
    ReadEntryField_000B, ReadEntryField_000C, ReadEntryField_000D, ReadEntryField_000E,
    ReadEntryField_FFFF, readBytes_le, readBytes_time, readBytes_readBytes, UTF8ToString_field,
    leValue_leBytes, h256, binaryPayload_length, hb]
  by_cases h0 : e.uBinaryDataLen = 0
  · simp [h0, RESET_PWE_TEMPLATE, readBackEntry, PW_ENTRY.zero]
  · simp [h0, RESET_PWE_TEMPLATE, readBackEntry, PW_ENTRY.zero]

/-! ## The records of storable groups -/

theorem time_round_trip (t : PW_TIME) (h : TimeStorable t) : TimeToPwTime (PwTimeToTime t) = t := by
  obtain ⟨h1, h2, h3, h4, h5, h6⟩ := h
  simp only [TimeToPwTime, PwTimeToTime, unpack_pack]
  cases t
  simp only [PW_TIME.mk.injEq] at *
  refine ⟨?_, ?_, ?_, ?_, ?_, ?_⟩ <;> omega

theorem readBackText_safe (E : Env) (s : List Nat) (h : Utf8Safe E s) :
    readBackText E (some s) = some s := by
  unfold readBackText
  simp only [Option.getD_some, h.1, h.2]

theorem AddGroup_explicit (m : CPwManager) (r : Rand) (t : PW_GROUP)
    (h0 : t.uGroupId ≠ 0) (hM : t.uGroupId ≠ DWORD_MAX) :
    m.AddGroup r t
      = some (true, { m with m_pGroups := m.m_pGroups ++ [SetGroup.fill t] }, r) := by
  have hs : (t.uGroupId == 0 || t.uGroupId == DWORD_MAX) = false := by simp [h0, hM]
  unfold CPwManager.AddGroup
  simp only [hs, Bool.false_eq_true, if_false]
  rcases SetGroup_cases { m with m_pGroups := m.m_pGroups ++ [PW_GROUP.zero] }
    (m.m_pGroups.length + 1 - 1) { t with uGroupId := t.uGroupId } with ⟨hc, _⟩ | ⟨_, hset⟩
  · simp only [hs] at hc
    exact absurd hc (by simp)
  · simp only [List.length_append, List.length_singleton]
    rw [hset]
    simp only [Nat.add_sub_cancel, Option.some.injEq, Prod.mk.injEq, true_and, and_true]
    congr 1
    rw [List.set_append_right _ _ (le_refl _)]
    simp

theorem readBackGroup_storable (E : Env) (g : PW_GROUP) (h : GroupStorable E g) :
    SetGroup.fill (readBackGroup E g) = g
    ∧ (readBackGroup E g).uGroupId ≠ 0 ∧ (readBackGroup E g).uGroupId ≠ DWORD_MAX := by
  obtain ⟨h0, hM, hi, hl, hf, ⟨s, hs, hsafe⟩, t1, t2, t3, t4⟩ := h
  have hU : U32 = DWORD_MAX + 1 := rfl
  have hid : g.uGroupId % U32 = g.uGroupId := Nat.mod_eq_of_lt (by omega)
  refine ⟨?_, ?_, ?_⟩
  · unfold SetGroup.fill readBackGroup
    have hl' : g.usLevel < 65536 := by omega
    simp only [hid, Nat.mod_eq_of_lt hi, Nat.mod_eq_of_lt hl', Nat.mod_eq_of_lt hf,
      time_round_trip _ t1, time_round_trip _ t2, time_round_trip _ t3, time_round_trip _ t4,
      hs, readBackText_safe E s hsafe, dup_getD, Option.getD_some, hsafe.1]
    cases g
    simp_all
  · simp only [readBackGroup, hid]; exact h0
  · simp only [readBackGroup, hid]; omega

theorem readGroupFields_append (E : Env) (tail : List Nat) :
    ∀ (a b : List (Nat × List Nat)) (cur : Nat) (m : CPwManager) (r : Rand) (t : PW_GROUP),
      readGroupFields E tail (a ++ b) cur m r t
        = match readGroupFields E (fieldBytes b ++ tail) a cur m r t with
          | none => none
          | some res => readGroupFields E tail b res.1 res.2.1 res.2.2.1 res.2.2.2 := by
  intro a
  induction a with
  | nil => intro b cur m r t; simp [readGroupFields]
  | cons f fs ih =>
    intro b cur m r t
    simp only [List.cons_append, readGroupFields, List.append_eq, fieldBytes_append,
      List.append_assoc]
    cases m.ReadGroupField E r f.1 (f.2 ++ (fieldBytes fs ++ (fieldBytes b ++ tail))) t with
    | none => rfl
    | some res => exact ih b _ _ _ _

theorem readGroupFields_groups (E : Env) :
    ∀ (gs : List PW_GROUP) (tail : List Nat) (cur : Nat) (m : CPwManager) (r : Rand),
      (∀ g ∈ gs, GroupStorable E g) →
      readGroupFields E tail (gs.flatMap (groupFields E)) cur m r RESET_PWG_TEMPLATE
        = some (cur + gs.length, { m with m_pGroups := m.m_pGroups ++ gs }, r,
            RESET_PWG_TEMPLATE) := by
  intro gs
  induction gs with
  | nil =>
    intro tail cur m r _
    simp [readGroupFields]
  | cons g gs ih =>
    intro tail cur m r h
    obtain ⟨hfill, h0, hM⟩ := readBackGroup_storable E g (h g (List.mem_cons_self _ _))
    rw [List.flatMap_cons, readGroupFields_append, readGroupFields_record,
      AddGroup_explicit m r _ h0 hM, hfill]
    simp only [Option.map_some']
    rw [ih tail (cur + 1) _ r (fun x hx => h x (List.mem_cons_of_mem _ hx))]
    simp only [List.length_cons, List.append_assoc, List.singleton_append, Option.some.injEq,
      Prod.mk.injEq, and_true]
    omega

/-! ## The records of storable entries -/

theorem readBytes_full (l : List Nat) (n : Nat) (h : l.length = n) : readBytes l 0 n = l := by
  have := readBytes_exact l []
  rw [List.append_nil, h] at this
  exact this

theorem readEntryFields_append (E : Env) (tail : List Nat) :
    ∀ (a b : List (Nat × List Nat)) (cur : Nat) (m : CPwManager) (r : Rand) (t : PW_ENTRY),
      readEntryFields E tail (a ++ b) cur m r t
        = readEntryFields E tail b
            (readEntryFields E (fieldBytes b ++ tail) a cur m r t).1
            (readEntryFields E (fieldBytes b ++ tail) a cur m r t).2.1
            (readEntryFields E (fieldBytes b ++ tail) a cur m r t).2.2.1
            (readEntryFields E (fieldBytes b ++ tail) a cur m r t).2.2.2 := by
  intro a
  induction a with
  | nil => intro b cur m r t; simp [readEntryFields]
  | cons f fs ih =>
    intro b cur m r t
    simp only [List.cons_append, readEntryFields, List.append_eq, fieldBytes_append,
      List.append_assoc]
    exact ih b _ _ _ _

theorem unlock_storable (E : Env) (m : CPwManager) (e : PW_ENTRY) (pw : List Nat)
    (hp : e.pszPassword = some pw) (hl : e.uPasswordLen = pw.length) :
    m.UnlockEntryPassword E e
      = { e with pszPassword := some (xorStream (E.arcfourStream m.m_pSessionKey) 0 pw.length pw) } := by
  unfold UnlockEntryPassword
  exact LockEntryPassword_eq E m e pw hp hl

theorem AddEntry_storable (E : Env) (m mo : CPwManager) (ro : Rand) (e : PW_ENTRY)
    (h : EntryStorable E m e) :
    mo.AddEntry E ro (readBackEntry E (m.UnlockEntryPassword E e))
      = (true,
          { mo with m_pEntries := mo.m_pEntries
              ++ [mo.LockEntryPassword E (m.UnlockEntryPassword E e)] }, ro) := by
  obtain ⟨hu16, huz, hg0, hgM, _, himg, ⟨s1, hs1, u1⟩, ⟨s2, hs2, u2⟩, ⟨s3, hs3, u3⟩,
    ⟨s4, hs4, u4⟩, ⟨s5, hs5, u5⟩, ⟨pw, hpw, hlen, up⟩, t1, t2, t3, t4, hbin, _⟩ := h
  have hU : U32 = DWORD_MAX + 1 := rfl
  have hx := unlock_storable E m e pw hpw hlen
  have hplen : (xorStream (E.arcfourStream m.m_pSessionKey) 0 pw.length pw).length = pw.length :=
    xorStream_length _ _ _ _
  generalize xorStream (E.arcfourStream m.m_pSessionKey) 0 pw.length pw = p at hx up hplen
  rw [hx]
  have hgid : e.uGroupId % U32 = e.uGroupId := Nat.mod_eq_of_lt (by omega)
  have hvalid : ((readBackEntry E { e with pszPassword := some p }).uGroupId == 0
      || (readBackEntry E { e with pszPassword := some p }).uGroupId == DWORD_MAX) = false := by
    simp only [readBackEntry, hgid]
    have : e.uGroupId ≠ DWORD_MAX := by omega
    simp [hg0, this]
  have huuid : (readBackEntry E { e with pszPassword := some p }).uuid = e.uuid := by
    simp only [readBackEntry]
    exact readBytes_full _ _ hu16
  have hnz : ((readBackEntry E { e with pszPassword := some p }).uuid == g_uuidZero) = false := by
    rw [huuid]; simpa using huz
  rw [AddEntry_valid E mo ro _ hvalid]
  simp only [hnz, Bool.false_eq_true, if_false]
  rw [fill_eq]
  rw [LockEntryPassword_eq E mo { e with pszPassword := some p } p rfl (by simp [hlen, hplen])]
  have hb : (PW_ENTRY.zero.pBinaryData.isNone
        && (AddEntry.pT (readBackEntry E { e with pszPassword := some p })
          (readBackEntry E { e with pszPassword := some p }).uuid).pBinaryData.isNone
      && (PW_ENTRY.zero.pszBinaryDesc.isNone
        && (AddEntry.pT (readBackEntry E { e with pszPassword := some p })
          (readBackEntry E { e with pszPassword := some p }).uuid).pszBinaryDesc.isNone))
      = false := by
    simp [AddEntry.pT, readBackEntry, readBackText, g_pNullString]
  simp only [hb, Bool.false_eq_true, if_false]
  simp only [AddEntry.pT, readBackEntry, g_pNullString, hs1, hs2, hs3, hs4, hs5,
    readBackText_safe E _ u1, readBackText_safe E _ u2, readBackText_safe E _ u3,
    readBackText_safe E _ u4, readBackText_safe E _ u5, readBackText_safe E _ up,
    Option.isNone_some, Bool.false_eq_true, if_false, Option.getD_some, u1.1, u2.1, u3.1, u4.1,
    u5.1, up.1, hgid, Nat.mod_eq_of_lt himg, time_round_trip _ t1, time_round_trip _ t2,
    time_round_trip _ t3, time_round_trip _ t4, readBytes_full _ _ hu16, hplen]
  rcases hbin with ⟨hn, h0⟩ | ⟨d, hd, hdl, hne⟩
  · simp [hn, h0, binaryPayload]
    cases e
    simp_all
  · have hne' : (e.uBinaryDataLen != 0) = true := by simpa using hne
    simp [hd, hne', hne, binaryPayload, readBytes_full _ _ hdl, readBytes_length]
    cases e
    simp_all

theorem lock_congr (E : Env) (m1 m2 : CPwManager) (e : PW_ENTRY)
    (h : m1.m_pSessionKey = m2.m_pSessionKey) :
    m1.LockEntryPassword E e = m2.LockEntryPassword E e := by
  unfold LockEntryPassword
  rw [h]

theorem readEntryFields_entries (E : Env) (m : CPwManager) :
    ∀ (D : List PW_ENTRY) (tail : List Nat) (cur : Nat) (mo : CPwManager) (ro : Rand),
      (∀ e ∈ D, EntryStorable E m e) →
      readEntryFields E tail ((D.map (m.UnlockEntryPassword E)).flatMap (entryFields E)) cur mo ro
          RESET_PWE_TEMPLATE
        = (cur + D.length,
            { mo with m_pEntries := mo.m_pEntries
                ++ D.map (fun e => mo.LockEntryPassword E (m.UnlockEntryPassword E e)) },
            ro, RESET_PWE_TEMPLATE) := by
  intro D
  induction D with
  | nil =>
    intro tail cur mo ro _
    simp [readEntryFields]
  | cons e D ih =>
    intro tail cur mo ro h
    rw [List.map_cons, List.flatMap_cons, readEntryFields_append, readEntryFields_record,
      AddEntry_storable E m mo ro e (h e (List.mem_cons_self _ _))]
    simp only []
    rw [ih tail (cur + 1) _ ro (fun x hx => h x (List.mem_cons_of_mem _ hx))]
    simp only [List.length_cons, List.append_assoc, List.singleton_append, List.map_cons,
      Prod.mk.injEq, and_true]
    refine ⟨by omega, ?_⟩
    rfl

theorem compareChars_self : ∀ (a : List Nat), compareChars a a = 0 := by
  intro a
  induction a with
  | nil => rfl
  | cons c t ih => simp [compareChars, ih]

theorem tcscmp_self (a : List Nat) : _tcscmp a a = 0 := compareChars_self _

theorem IsMetaStream_of (x : PW_ENTRY) (h1 : x.pBinaryData.isNone = false)
    (h2 : x.pszAdditional.isNone = false) (h3 : x.pszBinaryDesc = some PMS_ID_BINDESC)
    (h4 : x.pszTitle = some PMS_ID_TITLE) (h5 : x.pszUserName = some PMS_ID_USER)
    (h6 : x.pszURL = some PMS_ID_URL) (h7 : x.uImageId = 0) :
    _IsMetaStream x = true := by
  unfold _IsMetaStream
  simp [h1, h2, h3, h4, h5, h6, h7, tcscmp_self]

theorem AddEntry_meta (E : Env) (mo : CPwManager) (ro : Rand) (x : PW_ENTRY)
    (hE : MarkersSafe E) (h : MetaLike x) :
    ∃ y ro', mo.AddEntry E ro (readBackEntry E x)
          = (true, { mo with m_pEntries := mo.m_pEntries ++ [y] }, ro')
      ∧ _IsMetaStream y = true ∧ y.uGroupId = x.uGroupId := by
  obtain ⟨h1, h2, h3, h4, h5, h6, h7, h8⟩ := h
  obtain ⟨e1, e2, e3, e4⟩ := hE
  have hU : U32 = DWORD_MAX + 1 := rfl
  have hgid : x.uGroupId % U32 = x.uGroupId := Nat.mod_eq_of_lt (by omega)
  have hvalid : ((readBackEntry E x).uGroupId == 0
      || (readBackEntry E x).uGroupId == DWORD_MAX) = false := by
    simp only [readBackEntry, hgid]
    have : x.uGroupId ≠ DWORD_MAX := by omega
    simp [h7, this]
  refine ⟨_, _, AddEntry_valid E mo ro _ hvalid, ?_, ?_⟩
  · rw [fill_eq]
    have hne : (x.uBinaryDataLen != 0) = true := by simpa using h6
    apply IsMetaStream_of
    · simp [AddEntry.pT, readBackEntry, readBackText, g_pNullString, hne]
    · rfl
    · simp [AddEntry.pT, readBackEntry, g_pNullString, h4, readBackText_safe E _ e4, e4.1]
    · simp [AddEntry.pT, readBackEntry, g_pNullString, h1, readBackText_safe E _ e1, e1.1]
    · simp [AddEntry.pT, readBackEntry, g_pNullString, h2, readBackText_safe E _ e2, e2.1]
    · simp [AddEntry.pT, readBackEntry, g_pNullString, h3, readBackText_safe E _ e3, e3.1]
    · simp [AddEntry.pT, readBackEntry, h5]
  · rw [fill_eq]
    simp [AddEntry.pT, readBackEntry, hgid]

theorem readEntryFields_metas (E : Env) (hE : MarkersSafe E) :
    ∀ (M : List PW_ENTRY) (tail : List Nat) (cur : Nat) (mo : CPwManager) (ro : Rand),
      (∀ x ∈ M, MetaLike x) →
      ∃ ys ro', readEntryFields E tail (M.flatMap (entryFields E)) cur mo ro RESET_PWE_TEMPLATE
          = (cur + M.length, { mo with m_pEntries := mo.m_pEntries ++ ys }, ro',
              RESET_PWE_TEMPLATE)
        ∧ ∀ y ∈ ys, _IsMetaStream y = true := by
  intro M
  induction M with
  | nil =>
    intro tail cur mo ro _
    exact ⟨[], ro, by simp [readEntryFields], by simp⟩
  | cons x M ih =>
    intro tail cur mo ro h
    obtain ⟨y, ro1, hadd, hmeta, _⟩ := AddEntry_meta E mo ro x hE (h x (List.mem_cons_self _ _))
    obtain ⟨ys, ro2, hrest, hys⟩ := ih tail (cur + 1) { mo with m_pEntries := mo.m_pEntries ++ [y] }
      ro1 (fun z hz => h z (List.mem_cons_of_mem _ hz))
    refine ⟨y :: ys, ro2, ?_, ?_⟩
    · rw [List.flatMap_cons, readEntryFields_append, readEntryFields_record, hadd]
      simp only []
      rw [hrest]
      simp only [List.length_cons, List.append_assoc, List.singleton_append, Prod.mk.injEq,
        and_true]
      omega
    · intro z hz
      rcases List.mem_cons.mp hz with hz | hz
      · rw [hz]; exact hmeta
      · exact hys z hz

/-! ## Removing the meta-streams -/

theorem meta_scan_spec :
    ∀ (l : List PW_ENTRY),
      (_LoadAndRemoveAllMetaStreams.scan (l.length - 1) l = none
        ∧ ∀ e ∈ l, _IsMetaStream e = false)
      ∨ (∃ j p, _LoadAndRemoveAllMetaStreams.scan (l.length - 1) l = some (j, p)
          ∧ l.reverse[j]? = some p ∧ _IsMetaStream p = true) := by
  intro l
  induction l with
  | nil => left; simp [_LoadAndRemoveAllMetaStreams.scan]
  | cons p rest ih =>
    unfold _LoadAndRemoveAllMetaStreams.scan
    by_cases hm : _IsMetaStream p = true
    · right
      refine ⟨rest.length, p, by simp [hm], ?_, hm⟩
      simp [List.getElem?_append_right]
    · have hm' : _IsMetaStream p = false := by simpa using hm
      simp only [hm', beq_iff_eq, Bool.false_eq_true, if_false, List.length_cons,
        Nat.add_sub_cancel]
      rcases ih with ⟨h1, h2⟩ | ⟨j, q, h1, h2, h3⟩
      · left
        refine ⟨h1, ?_⟩
        intro e he
        rcases List.mem_cons.mp he with he | he
        · rw [he]; exact hm'
        · exact h2 e he
      · right
        refine ⟨j, q, h1, ?_, h3⟩
        rw [List.reverse_cons]
        have hj : j < rest.reverse.length := (List.getElem?_eq_some_iff.mp h2).1
        rw [List.getElem?_append_left hj]
        exact h2

theorem filter_eraseIdx {α : Type} (P : α → Bool) :
    ∀ (l : List α) (i : Nat) (x : α), l[i]? = some x → P x = false →
      (l.eraseIdx i).filter P = l.filter P := by
  intro l
  induction l with
  | nil => intro i x h; simp at h
  | cons a t ih =>
    intro i x h hx
    cases i with
    | zero =>
      simp only [List.getElem?_cons_zero, Option.some.injEq] at h
      subst h
      simp [List.filter_cons, hx]
    | succ i =>
      simp only [List.getElem?_cons_succ] at h
      simp only [List.eraseIdx_cons_succ, List.filter_cons, ih i x h hx]

theorem ParseMetaStream_frame (m : CPwManager) (p : PW_ENTRY) (b : Bool) :
    (_ParseMetaStream m p b).m_pEntries = m.m_pEntries
    ∧ (_ParseMetaStream m p b).m_pGroups = m.m_pGroups
    ∧ (_ParseMetaStream m p b).m_pSessionKey = m.m_pSessionKey := by
  unfold _ParseMetaStream
  simp only []
  split_ifs <;> exact ⟨rfl, rfl, rfl⟩

theorem meta_loop_spec (b : Bool) :
    ∀ (fuel : Nat) (m : CPwManager) (c : Nat), m.m_pEntries.length < fuel →
      ∃ k m', _LoadAndRemoveAllMetaStreams.loop b fuel m c = some (k, m')
        ∧ m'.m_pEntries = m.m_pEntries.filter (fun e => !_IsMetaStream e)
        ∧ m'.m_pGroups = m.m_pGroups ∧ m'.m_pSessionKey = m.m_pSessionKey := by
  intro fuel
  induction fuel with
  | zero => intro m c h; omega
  | succ fuel ih =>
    intro m c hlen
    unfold _LoadAndRemoveAllMetaStreams.loop
    simp only [GetNumberOfEntries]
    by_cases h0 : m.m_pEntries.length = 0
    · have hnil : m.m_pEntries = [] := List.length_eq_zero.mp h0
      exact ⟨c, m, by simp [h0], by simp [hnil], rfl, rfl⟩
    · have hne : (m.m_pEntries.length == 0) = false := by simpa using h0
      simp only [hne, Bool.false_eq_true, if_false]
      have hsp := meta_scan_spec m.m_pEntries.reverse
      rw [List.length_reverse, List.reverse_reverse] at hsp
      rcases hsp with ⟨h1, h2⟩ | ⟨j, p, h1, h2, h3⟩
      · refine ⟨c, m, by rw [h1], ?_, rfl, rfl⟩
        symm
        rw [List.filter_eq_self]
        intro e he
        have := h2 e (List.mem_reverse.mpr he)
        simp [this]
      · rw [h1]
        simp only []
        obtain ⟨f1, f2, f3⟩ := ParseMetaStream_frame m p b
        have hj : j < m.m_pEntries.length := (List.getElem?_eq_some_iff.mp h2).1
        have hdel : ((_ParseMetaStream m p b).DeleteEntry j)
            = (true, { _ParseMetaStream m p b with
                m_pEntries := shiftOut (_ParseMetaStream m p b).m_pEntries j }) :=
          DeleteEntry_valid _ j (by rw [f1]; exact hj)
        rw [hdel]
        simp only []
        obtain ⟨k, m', e1, e2, e3, e4⟩ := ih
          { _ParseMetaStream m p b with
            m_pEntries := shiftOut (_ParseMetaStream m p b).m_pEntries j } (c + 1) (by
            simp only []
            rw [f1, shiftOut_length _ _ (by intro hn; rw [hn] at hj; simp at hj)]
            omega)
        refine ⟨k, m', e1, ?_, e3.trans f2, e4.trans f3⟩
        rw [e2]
        simp only []
        rw [f1, shiftOut_eq_eraseIdx _ _ hj]
        exact filter_eraseIdx _ _ j p h2 (by simp [h3])

theorem LoadAndRemoveAllMetaStreams_spec (m : CPwManager) (b : Bool)
    (hg : m.m_pGroups = [] → m.m_pEntries = []) :
    ∃ k m', m._LoadAndRemoveAllMetaStreams b = some (k, m')
      ∧ m'.m_pEntries = m.m_pEntries.filter (fun e => !_IsMetaStream e)
      ∧ m'.m_pGroups = m.m_pGroups ∧ m'.m_pSessionKey = m.m_pSessionKey := by
  unfold _LoadAndRemoveAllMetaStreams
  simp only [GetNumberOfEntries, GetNumberOfGroups]
  by_cases h0 : m.m_pEntries.length = 0
  · have hnil : m.m_pEntries = [] := List.length_eq_zero.mp h0
    exact ⟨0, m, by simp [h0], by simp [hnil], rfl, rfl⟩
  · have hne : (m.m_pEntries.length == 0) = false := by simpa using h0
    by_cases hg0 : m.m_pGroups.length = 0
    · have hnil : m.m_pEntries = [] := hg (List.length_eq_zero.mp hg0)
      rw [hnil] at h0
      exact absurd rfl h0
    · have hgne : (m.m_pGroups.length == 0) = false := by simpa using hg0
      simp only [hne, hgne, Bool.false_eq_true, if_false]
      exact meta_loop_spec b _ m 0 (Nat.lt_succ_self _)

/-! ## A group tree that needs no fixing -/

theorem FixGroupTree_loop_id :
    ∀ (gs : List PW_GROUP) (last : Nat), last < 65535 →
      (∀ g ∈ gs, g.usLevel < 65535) →
      (∀ g, gs[0]? = some g → g.usLevel ≤ last + 1) →
      (∀ i g h, gs[i]? = some g → gs[i + 1]? = some h → h.usLevel ≤ g.usLevel + 1) →
      FixGroupTree.loop last gs = gs := by
  intro gs
  induction gs with
  | nil => intro last _ _ _ _; rfl
  | cons g gs ih =>
    intro last hl hlv h0 hch
    unfold FixGroupTree.loop
    have hg := h0 g (List.getElem?_cons_zero)
    have hmod : (last + 1) % 65536 = last + 1 := Nat.mod_eq_of_lt (by omega)
    have hnot : ¬ g.usLevel > (last + 1) % 65536 := by rw [hmod]; omega
    simp only [hnot, if_false]
    have hih := ih g.usLevel (hlv g (List.mem_cons_self _ _))
      (fun x hx => hlv x (List.mem_cons_of_mem _ hx))
      (fun x hx => hch 0 g x (List.getElem?_cons_zero) (by simpa using hx))
      (fun i a b ha hb => hch (i + 1) a b (by simpa using ha) (by simpa using hb))
    rw [hih]

theorem FixGroupTree_id (m : CPwManager) (hlv : ∀ g ∈ m.m_pGroups, g.usLevel < 65535)
    (ht : TreeInvariant m.m_pGroups) : m.FixGroupTree = m := by
  unfold FixGroupTree
  obtain ⟨h0, hch⟩ := ht
  cases hgs : m.m_pGroups with
  | nil =>
    simp only [FixGroupTree.loop]
    cases m
    simp_all
  | cons g gs =>
    rw [hgs] at h0 hch hlv
    have hz : g.usLevel = 0 := h0 g (List.getElem?_cons_zero)
    have hg : ({ g with usLevel := 0 } : PW_GROUP) = g := by
      cases g
      simp_all
    simp only [hg]
    rw [FixGroupTree_loop_id (g :: gs) 0 (by omega) hlv (fun x hx => by
      simp only [List.getElem?_cons_zero, Option.some.injEq] at hx
      rw [← hx, hz]; omega) hch]
    cases m
    simp_all

/-! ## The meta-streams that `SaveDatabase` adds -/

theorem with_entries_self (m : CPwManager) :
    ({ m with m_pEntries := m.m_pEntries ++ [] } : CPwManager) = m := by
  cases m
  simp

theorem AddMetaStream_spec (E : Env) (m : CPwManager) (r : Rand) (desc : List Nat)
    (pData : Option (List Nat)) (len : Nat)
    (hid : ∀ g ∈ m.m_pGroups, g.uGroupId ≤ DWORD_MAX) :
    ∃ ms, (_AddMetaStream E m r desc pData len).2.1
          = { m with m_pEntries := m.m_pEntries ++ ms }
      ∧ ∀ x ∈ ms, MetaLike x := by
  unfold _AddMetaStream
  have hnone : ∃ ms, m = { m with m_pEntries := m.m_pEntries ++ ms } ∧ ∀ x ∈ ms, MetaLike x :=
    ⟨[], (with_entries_self m).symm, by simp⟩
  split_ifs with h1 h2
  · exact hnone
  · exact hnone
  · cases hgs : m.m_pGroups with
    | nil =>
      simp only []
      rw [← hgs]
      exact hnone
    | cons g0 gs =>
      simp only []
      rw [← hgs]
      have hg0 : g0.uGroupId ≤ DWORD_MAX := hid g0 (by rw [hgs]; exact List.mem_cons_self _ _)
      rcases AddEntry_cases E m r
        { PW_ENTRY.zero with
          uGroupId := g0.uGroupId,
          pBinaryData := pData, pszAdditional := some desc,
          pszBinaryDesc := some PMS_ID_BINDESC, pszPassword := some [],
          pszTitle := some PMS_ID_TITLE, pszURL := some PMS_ID_URL,
          pszUserName := some PMS_ID_USER,
          tCreation := g_pwTimeNever, tExpire := g_pwTimeNever,
          tLastAccess := g_pwTimeNever, tLastMod := g_pwTimeNever,
          uBinaryDataLen := len } with h | ⟨hv, h⟩
      · rw [h]; exact hnone
      · rw [h]
        refine ⟨[_], rfl, ?_⟩
        intro x hx
        rw [List.mem_singleton] at hx
        subst hx
        rw [fill_eq]
        simp only [Bool.or_eq_false_iff, beq_eq_false_iff_ne, ne_eq] at hv
        have hlen : (len != 0) = true := by simpa using h2
        cases pData with
        | none => simp at h1
        | some d =>
          refine ⟨?_, ?_, ?_, ?_, ?_, ?_, ?_, ?_⟩
          · rfl
          · rfl
          · rfl
          · simp [AddEntry.pT, PW_ENTRY.zero]
            rfl
          · rfl
          · simp [AddEntry.pT, PW_ENTRY.zero, hlen]
            simpa using h2
          · exact hv.1
          · simp only [AddEntry.pT]
            have := hv.2
            omega

theorem AddAllMetaStreams_loop_spec (E : Env) :
    ∀ (its : List PWDB_META_STREAM) (b : Bool) (m : CPwManager) (r : Rand),
      (∀ g ∈ m.m_pGroups, g.uGroupId ≤ DWORD_MAX) →
      ∃ ms, (_AddAllMetaStreams.loop E its b m r).2.1
            = { m with m_pEntries := m.m_pEntries ++ ms }
        ∧ ∀ x ∈ ms, MetaLike x := by
  intro its
  induction its with
  | nil =>
    intro b m r _
    exact ⟨[], (with_entries_self m).symm, by simp⟩
  | cons it rest ih =>
    intro b m r hid
    unfold _AddAllMetaStreams.loop
    simp only []
    obtain ⟨ms1, h1, hm1⟩ := AddMetaStream_spec E m r it.strName
      (if it.vData.isEmpty then none else some it.vData) it.vData.length hid
    obtain ⟨ms2, h2, hm2⟩ := ih
      (b && (_AddMetaStream E m r it.strName
        (if it.vData.isEmpty then none else some it.vData) it.vData.length).1)
      (_AddMetaStream E m r it.strName
        (if it.vData.isEmpty then none else some it.vData) it.vData.length).2.1
      (_AddMetaStream E m r it.strName
        (if it.vData.isEmpty then none else some it.vData) it.vData.length).2.2
      (by rw [h1]; exact hid)
    refine ⟨ms1 ++ ms2, ?_, ?_⟩
    · rw [h2, h1]
      simp only [List.append_assoc]
    · intro x hx
      rcases List.mem_append.mp hx with hx | hx
      · exact hm1 x hx
      · exact hm2 x hx

theorem AddAllMetaStreams_spec (E : Env) (m : CPwManager) (r : Rand)
    (hid : ∀ g ∈ m.m_pGroups, g.uGroupId ≤ DWORD_MAX) :
    ∃ ms, (m._AddAllMetaStreams E r).2.1 = { m with m_pEntries := m.m_pEntries ++ ms }
      ∧ ∀ x ∈ ms, MetaLike x := by
  unfold _AddAllMetaStreams
  simp only []
  obtain ⟨ms1, h1, hm1⟩ := AddMetaStream_spec E m r PMS_STREAM_SIMPLESTATE
    (some (simpleUiStateBytes m)) 40 hid
  obtain ⟨ms2, h2, hm2⟩ := AddAllMetaStreams_loop_spec E m.m_vUnknownMetaStreams
    (_AddMetaStream E m r PMS_STREAM_SIMPLESTATE (some (simpleUiStateBytes m)) 40).1
    (_AddMetaStream E m r PMS_STREAM_SIMPLESTATE (some (simpleUiStateBytes m)) 40).2.1
    (_AddMetaStream E m r PMS_STREAM_SIMPLESTATE (some (simpleUiStateBytes m)) 40).2.2
    (by rw [h1]; exact hid)
  refine ⟨ms1 ++ ms2, ?_, ?_⟩
  · rw [h2, h1]
    simp only [List.append_assoc]
  · intro x hx
    rcases List.mem_append.mp hx with hx | hx
    · exact hm1 x hx
    · exact hm2 x hx

/-! ## The header of a file -/

theorem readBytes_at (pre piece post : List Nat) (o n : Nat) (ho : pre.length = o)
    (hn : piece.length = n) : readBytes (pre ++ (piece ++ post)) o n = piece := by
  rw [readBytes_drop, ← ho, List.drop_left, ← hn]
  exact readBytes_exact piece post

theorem header_round_trip (hdr : PW_DBHEADER) (rest : List Nat)
    (h1 : hdr.dwSignature1 < U32) (h2 : hdr.dwSignature2 < U32) (h3 : hdr.dwFlags < U32)
    (h4 : hdr.dwVersion < U32) (h5 : hdr.dwGroups < U32) (h6 : hdr.dwEntries < U32)
    (h7 : hdr.dwKeyEncRounds < U32) :
    PW_DBHEADER.ofBytes (hdr.toBytes ++ rest)
      = { hdr with
          aMasterSeed := readBytes hdr.aMasterSeed 0 16,
          aEncryptionIV := readBytes hdr.aEncryptionIV 0 16,
          aContentsHash := readBytes hdr.aContentsHash 0 32,
          aMasterSeed2 := readBytes hdr.aMasterSeed2 0 32 } := by
  have hU : (256 : Nat) ^ 4 = U32 := rfl
  have e : hdr.toBytes ++ rest
      = leBytes 4 hdr.dwSignature1 ++ (leBytes 4 hdr.dwSignature2 ++ (leBytes 4 hdr.dwFlags
        ++ (leBytes 4 hdr.dwVersion ++ (readBytes hdr.aMasterSeed 0 16
        ++ (readBytes hdr.aEncryptionIV 0 16 ++ (leBytes 4 hdr.dwGroups
        ++ (leBytes 4 hdr.dwEntries ++ (readBytes hdr.aContentsHash 0 32
        ++ (readBytes hdr.aMasterSeed2 0 32 ++ (leBytes 4 hdr.dwKeyEncRounds ++ rest)))))))))) := by
    unfold PW_DBHEADER.toBytes
    simp only [List.append_assoc]
  generalize hA : leBytes 4 hdr.dwSignature1 = A at e
  generalize hB : leBytes 4 hdr.dwSignature2 = B at e
  generalize hC : leBytes 4 hdr.dwFlags = C at e
  generalize hD : leBytes 4 hdr.dwVersion = D at e
  generalize hE : readBytes hdr.aMasterSeed 0 16 = S at e
  generalize hF : readBytes hdr.aEncryptionIV 0 16 = I at e
  generalize hG : leBytes 4 hdr.dwGroups = G at e
  generalize hH : leBytes 4 hdr.dwEntries = N at e
  generalize hI : readBytes hdr.aContentsHash 0 32 = H at e
  generalize hJ : readBytes hdr.aMasterSeed2 0 32 = S2 at e
  generalize hK : leBytes 4 hdr.dwKeyEncRounds = K at e
  have lA : A.length = 4 := by rw [← hA]; exact leBytes_length _ _
  have lB : B.length = 4 := by rw [← hB]; exact leBytes_length _ _
  have lC : C.length = 4 := by rw [← hC]; exact leBytes_length _ _
  have lD : D.length = 4 := by rw [← hD]; exact leBytes_length _ _
  have lS : S.length = 16 := by rw [← hE]; exact readBytes_length _ _ _
  have lI : I.length = 16 := by rw [← hF]; exact readBytes_length _ _ _
  have lG : G.length = 4 := by rw [← hG]; exact leBytes_length _ _
  have lN : N.length = 4 := by rw [← hH]; exact leBytes_length _ _
  have lH : H.length = 32 := by rw [← hI]; exact readBytes_length _ _ _
  have lS2 : S2.length = 32 := by rw [← hJ]; exact readBytes_length _ _ _
  have lK : K.length = 4 := by rw [← hK]; exact leBytes_length _ _
  have r1 : readBytes (hdr.toBytes ++ rest) 0 4 = A := by
    rw [e]; exact readBytes_at [] A _ 0 4 rfl lA
  have r2 : readBytes (hdr.toBytes ++ rest) 4 4 = B := by
    rw [e]
    have := readBytes_at A B (C ++ (D ++ (S ++ (I ++ (G ++ (N ++ (H ++ (S2 ++ (K ++ rest)))))))))
      4 4 lA lB
    simpa only [List.append_assoc] using this
  have r3 : readBytes (hdr.toBytes ++ rest) 8 4 = C := by
    rw [e]
    have := readBytes_at (A ++ B) C (D ++ (S ++ (I ++ (G ++ (N ++ (H ++ (S2 ++ (K ++ rest))))))))
      8 4 (by simp [lA, lB]) lC
    simpa only [List.append_assoc] using this
  have r4 : readBytes (hdr.toBytes ++ rest) 12 4 = D := by
    rw [e]
    have := readBytes_at (A ++ B ++ C) D (S ++ (I ++ (G ++ (N ++ (H ++ (S2 ++ (K ++ rest)))))))
      12 4 (by simp [lA, lB, lC]) lD
    simpa only [List.append_assoc] using this
  have r5 : readBytes (hdr.toBytes ++ rest) 16 16 = S := by
    rw [e]
    have := readBytes_at (A ++ B ++ C ++ D) S (I ++ (G ++ (N ++ (H ++ (S2 ++ (K ++ rest))))))
      16 16 (by simp [lA, lB, lC, lD]) lS
    simpa only [List.append_assoc] using this
  have r6 : readBytes (hdr.toBytes ++ rest) 32 16 = I := by
    rw [e]
    have := readBytes_at (A ++ B ++ C ++ D ++ S) I (G ++ (N ++ (H ++ (S2 ++ (K ++ rest)))))
      32 16 (by simp [lA, lB, lC, lD, lS]) lI
    simpa only [List.append_assoc] using this
  have r7 : readBytes (hdr.toBytes ++ rest) 48 4 = G := by
    rw [e]
    have := readBytes_at (A ++ B ++ C ++ D ++ S ++ I) G (N ++ (H ++ (S2 ++ (K ++ rest))))
      48 4 (by simp [lA, lB, lC, lD, lS, lI]) lG
    simpa only [List.append_assoc] using this
  have r8 : readBytes (hdr.toBytes ++ rest) 52 4 = N := by
    rw [e]
    have := readBytes_at (A ++ B ++ C ++ D ++ S ++ I ++ G) N (H ++ (S2 ++ (K ++ rest)))
      52 4 (by simp [lA, lB, lC, lD, lS, lI, lG]) lN
    simpa only [List.append_assoc] using this
  have r9 : readBytes (hdr.toBytes ++ rest) 56 32 = H := by
    rw [e]
    have := readBytes_at (A ++ B ++ C ++ D ++ S ++ I ++ G ++ N) H (S2 ++ (K ++ rest))
      56 32 (by simp [lA, lB, lC, lD, lS, lI, lG, lN]) lH
    simpa only [List.append_assoc] using this
  have r10 : readBytes (hdr.toBytes ++ rest) 88 32 = S2 := by
    rw [e]
    have := readBytes_at (A ++ B ++ C ++ D ++ S ++ I ++ G ++ N ++ H) S2 (K ++ rest)
      88 32 (by simp [lA, lB, lC, lD, lS, lI, lG, lN, lH]) lS2
    simpa only [List.append_assoc] using this
  have r11 : readBytes (hdr.toBytes ++ rest) 120 4 = K := by
    rw [e]
    have := readBytes_at (A ++ B ++ C ++ D ++ S ++ I ++ G ++ N ++ H ++ S2) K rest
      120 4 (by simp [lA, lB, lC, lD, lS, lI, lG, lN, lH, lS2]) lK
    simpa only [List.append_assoc] using this
  unfold PW_DBHEADER.ofBytes
  rw [r1, r2, r3, r4, r5, r6, r7, r8, r9, r10, r11, ← hA, ← hB, ← hC, ← hD, ← hG, ← hH, ← hK]
  simp only [leValue_leBytes, hU, Nat.mod_eq_of_lt h1, Nat.mod_eq_of_lt h2, Nat.mod_eq_of_lt h3,
    Nat.mod_eq_of_lt h4, Nat.mod_eq_of_lt h5, Nat.mod_eq_of_lt h6, Nat.mod_eq_of_lt h7]

theorem toBytes_length (hdr : PW_DBHEADER) : hdr.toBytes.length = sizeofHeader := by
  unfold PW_DBHEADER.toBytes
  simp only [List.length_append, leBytes_length, readBytes_length]
  rfl

/-! ## A save that succeeds -/

theorem ite_cases {α : Type} (P : α → Prop) (c : Prop) (inst : Decidable c) (a b : α)
    (ha : c → P a) (hb : ¬ c → P b) : P (@ite α c inst a b) := by
  cases inst with
  | isTrue h => simpa [h] using ha h
  | isFalse h => simpa [h] using hb h

theorem map_code {α β : Type} (o : Option α) (c : PWE) (g : α → β) (y : PWE × β)
    (h : o.map (fun x => (c, g x)) = some y) : y.1 = c := by
  cases o with
  | none => simp at h
  | some a =>
    simp only [Option.map_some', Option.some.injEq] at h
    rw [← h]

theorem SaveDatabase_success (E : Env) (m : CPwManager) (r : Rand) (path : List Nat)
    (ms : CPwManager) (rs : Rand) (file : List Nat) (m2 m4 : CPwManager) (hdr : PW_DBHEADER)
    (enc : List Nat × Nat)
    (hm2 : m2 = (SaveDatabase.prepared E m r).1)
    (hhdr : hdr = (SaveDatabase.header E m2 (SaveDatabase.prepared E m r).2).1)
    (hm4 : m4 = ((SaveDatabase.relock E m2)._TransformMasterKey E hdr.aMasterSeed2).2)
    (henc : enc = SaveDatabase.encrypt E m4 hdr (SaveDatabase.payload E m2))
    (h : m.SaveDatabase E r (some path) = some (PWE.SUCCESS, ms, rs, some file)) :
    tcslen path ≠ 0
    ∧ (m2.m_nAlgorithm = ALGO_AES ∨ m2.m_nAlgorithm = ALGO_TWOFISH)
    ∧ ((SaveDatabase.relock E m2)._TransformMasterKey E hdr.aMasterSeed2).1 = true
    ∧ (m4.m_nAlgorithm = ALGO_AES →
        E.rijndaelInitCBC true (SaveDatabase.finalKey E m4 hdr) hdr.aEncryptionIV = true)
    ∧ (m4.m_nAlgorithm = ALGO_TWOFISH →
        E.twofishInit (SaveDatabase.finalKey E m4 hdr) hdr.aEncryptionIV = true)
    ∧ enc.2 % U32 ≤ 2147483446
    ∧ file = hdr.toBytes ++ readBytes enc.1 0 (enc.2 % U32) := by
  subst hm2 hhdr hm4 henc
  revert h
  unfold SaveDatabase
  simp only []
  refine ite_cases (fun (x : Option (PWE × CPwManager × Rand × Option (List Nat))) =>
    x = some (PWE.SUCCESS, ms, rs, some file) → _) _ _ _ _ (fun _ h => ?_) (fun c1 => ?_)
  · simp at h
  refine ite_cases (fun (x : Option (PWE × CPwManager × Rand × Option (List Nat))) =>
    x = some (PWE.SUCCESS, ms, rs, some file) → _) _ _ _ _ (fun _ h => ?_) (fun c2 => ?_)
  · exact PWE.noConfusion (map_code _ _ _ _ h)
  refine ite_cases (fun (x : Option (PWE × CPwManager × Rand × Option (List Nat))) =>
    x = some (PWE.SUCCESS, ms, rs, some file) → _) _ _ _ _ (fun _ h => ?_) (fun c3 => ?_)
  · exact PWE.noConfusion (map_code _ _ _ _ h)
  refine ite_cases (fun (x : Option (PWE × CPwManager × Rand × Option (List Nat))) =>
    x = some (PWE.SUCCESS, ms, rs, some file) → _) _ _ _ _ (fun _ h => ?_) (fun c4 => ?_)
  · exact PWE.noConfusion (map_code _ _ _ _ h)
  refine ite_cases (fun (x : Option (PWE × CPwManager × Rand × Option (List Nat))) =>
    x = some (PWE.SUCCESS, ms, rs, some file) → _) _ _ _ _ (fun _ h => ?_) (fun c5 => ?_)
  · simp at h
  refine ite_cases (fun (x : Option (PWE × CPwManager × Rand × Option (List Nat))) =>
    x = some (PWE.SUCCESS, ms, rs, some file) → _) _ _ _ _ (fun _ h => ?_) (fun c6 => ?_)
  · exact PWE.noConfusion (map_code _ _ _ _ h)
  refine ite_cases (fun (x : Option (PWE × CPwManager × Rand × Option (List Nat))) =>
    x = some (PWE.SUCCESS, ms, rs, some file) → _) _ _ _ _ (fun _ h => ?_) (fun c7 => ?_)
  · exact PWE.noConfusion (map_code _ _ _ _ h)
  refine ite_cases (fun (x : Option (PWE × CPwManager × Rand × Option (List Nat))) =>
    x = some (PWE.SUCCESS, ms, rs, some file) → _) _ _ _ _ (fun _ h => ?_) (fun c8 => ?_)
  · exact PWE.noConfusion (map_code _ _ _ _ h)
  refine ite_cases (fun (x : Option (PWE × CPwManager × Rand × Option (List Nat))) =>
    x = some (PWE.SUCCESS, ms, rs, some file) → _) _ _ _ _ (fun _ h => ?_) (fun c9 => ?_)
  · exact PWE.noConfusion (map_code _ _ _ _ h)
  refine ite_cases (fun (x : Option (PWE × CPwManager × Rand × Option (List Nat))) =>
    x = some (PWE.SUCCESS, ms, rs, some file) → _) _ _ _ _ (fun _ h => ?_) (fun c10 => ?_)
  · exact PWE.noConfusion (map_code _ _ _ _ h)
  intro h
  have e3 : (SaveDatabase.prepared E m r).1.m_nAlgorithm = ALGO_AES
      ∨ (SaveDatabase.prepared E m r).1.m_nAlgorithm = ALGO_TWOFISH := by
    by_cases ha : (SaveDatabase.prepared E m r).1.m_nAlgorithm = ALGO_AES
    · exact Or.inl ha
    · right
      by_contra ht
      exact c3 (by simp [ha, ht])
  refine ⟨by simpa using c1, e3, by simpa using c4, fun ha => ?_, fun ht => ?_, ?_, ?_⟩
  · by_contra hn
    exact c5 (by simp [ha, hn])
  · by_contra hn
    have hne : ¬ ALGO_TWOFISH = ALGO_AES := by decide
    exact c6 (by simp [ht, hn, hne])
  · by_contra hn
    exact c8 (by simp; left; omega)
  · cases hx : CPwManager._LoadAndRemoveAllMetaStreams
        { ((SaveDatabase.relock E (SaveDatabase.prepared E m r).1)._TransformMasterKey E
            (SaveDatabase.header E (SaveDatabase.prepared E m r).1
              (SaveDatabase.prepared E m r).2).1.aMasterSeed2).2 with
          m_dbLastHeader := (SaveDatabase.header E (SaveDatabase.prepared E m r).1
              (SaveDatabase.prepared E m r).2).1 } false with
    | none => rw [hx] at h; simp at h
    | some x =>
      rw [hx] at h
      simp only [Option.map_some', Option.some.injEq, Prod.mk.injEq, true_and] at h
      exact h.2.2.symm

/-! ## The fields of the records of a database -/

theorem tlvField_pos (ty : Nat) (d : List Nat) : 1 ≤ (tlvField ty d).length := by
  rw [tlvField_length]; omega

theorem fieldBytes_length_ge : ∀ (fs : List (Nat × List Nat)), fs.length ≤ (fieldBytes fs).length := by
  intro fs
  induction fs with
  | nil => simp
  | cons f fs ih =>
    rw [fieldBytes_cons, List.length_append, List.length_cons]
    have := tlvField_pos f.1 f.2
    omega

theorem flatten_fieldBytes {α : Type} (f : α → List (Nat × List Nat)) :
    ∀ (l : List α), (l.map (fun x => fieldBytes (f x))).flatten = fieldBytes (l.flatMap f) := by
  intro l
  induction l with
  | nil => rfl
  | cons a l ih =>
    rw [List.map_cons, List.flatten_cons, ih, List.flatMap_cons, fieldBytes_append]

theorem groupFields_types (E : Env) (gs : List PW_GROUP) :
    ∀ f ∈ gs.flatMap (groupFields E), f.1 < 65536 := by
  intro f hf
  rw [List.mem_flatMap] at hf
  obtain ⟨g, _, hf⟩ := hf
  simp only [groupFields, List.mem_cons, List.mem_singleton, List.not_mem_nil, or_false] at hf
  rcases hf with h | h | h | h | h | h | h | h | h | h <;> (rw [h]; first | decide | simp)

theorem entryFields_types (E : Env) (xs : List PW_ENTRY) :
    ∀ f ∈ xs.flatMap (entryFields E), f.1 < 65536 := by
  intro f hf
  rw [List.mem_flatMap] at hf
  obtain ⟨g, _, hf⟩ := hf
  simp only [entryFields, List.mem_cons, List.mem_singleton, List.not_mem_nil, or_false] at hf
  rcases hf with h | h | h | h | h | h | h | h | h | h | h | h | h | h | h <;>
    (rw [h]; first | decide | simp)

theorem groupFields_count (E : Env) :
    ∀ (gs : List PW_GROUP),
      ((gs.flatMap (groupFields E)).filter (fun f => f.1 == 0xFFFF)).length = gs.length := by
  intro gs
  induction gs with
  | nil => rfl
  | cons g gs ih =>
    rw [List.flatMap_cons, List.filter_append, List.length_append, ih, List.length_cons]
    have : ((groupFields E g).filter (fun f => f.1 == 0xFFFF)).length = 1 := by
      simp [groupFields, List.filter]
    omega

theorem entryFields_count (E : Env) :
    ∀ (xs : List PW_ENTRY),
      ((xs.flatMap (entryFields E)).filter (fun f => f.1 == 0xFFFF)).length = xs.length := by
  intro xs
  induction xs with
  | nil => rfl
  | cons g gs ih =>
    rw [List.flatMap_cons, List.filter_append, List.length_append, ih, List.length_cons]
    have : ((entryFields E g).filter (fun f => f.1 == 0xFFFF)).length = 1 := by
      simp [entryFields, List.filter]
    omega

theorem groupFields_last (E : Env) :
    ∀ (gs : List PW_GROUP), gs.flatMap (groupFields E) = []
      ∨ ∃ d, (gs.flatMap (groupFields E)).getLast? = some (0xFFFF, d) := by
  intro gs
  induction gs with
  | nil => left; rfl
  | cons g gs ih =>
    right
    rw [List.flatMap_cons]
    rcases ih with h | ⟨d, h⟩
    · rw [h, List.append_nil]
      exact ⟨[], rfl⟩
    · refine ⟨d, ?_⟩
      rw [List.getLast?_append, h]
      rfl

theorem entryFields_last (E : Env) :
    ∀ (xs : List PW_ENTRY), xs.flatMap (entryFields E) = []
      ∨ ∃ d, (xs.flatMap (entryFields E)).getLast? = some (0xFFFF, d) := by
  intro gs
  induction gs with
  | nil => left; rfl
  | cons g gs ih =>
    right
    rw [List.flatMap_cons]
    rcases ih with h | ⟨d, h⟩
    · rw [h, List.append_nil]
      exact ⟨[], rfl⟩
    · refine ⟨d, ?_⟩
      rw [List.getLast?_append, h]
      rfl

theorem payload_fields (E : Env) (m : CPwManager) :
    SaveDatabase.payload E m
      = fieldBytes (m.m_pGroups.flatMap (groupFields E))
        ++ fieldBytes ((m.m_pEntries.map (m.UnlockEntryPassword E)).flatMap (entryFields E)) := by
  unfold SaveDatabase.payload
  have h1 : m.m_pGroups.map (writeGroup E)
      = m.m_pGroups.map (fun g => fieldBytes (groupFields E g)) :=
    List.map_congr_left (fun g _ => writeGroup_fields E g)
  have h2 : m.m_pEntries.map (fun e => writeEntry E (m.UnlockEntryPassword E e))
      = (m.m_pEntries.map (m.UnlockEntryPassword E)).map (fun e => fieldBytes (entryFields E e)) := by
    rw [List.map_map]
    exact List.map_congr_left (fun e _ => writeEntry_fields E _)
  rw [h1, h2, flatten_fieldBytes, flatten_fieldBytes]

/-! ## The parsing loops on the records of a database -/

theorem groupLoop_done (E : Env) (b : Bool) (buf : List Nat) (uFileSize dwGroups fuel cur pos : Nat)
    (m : CPwManager) (r : Rand) (t : PW_GROUP) (h : dwGroups ≤ cur) :
    OpenDatabase.groupLoop E b buf uFileSize dwGroups (fuel + 1) cur pos m r t
      = some (LoopEnd.done pos m r) := by
  unfold OpenDatabase.groupLoop
  have : ¬ cur < dwGroups := Nat.not_lt.mpr h
  simp [this]

theorem entryLoop_done (E : Env) (b : Bool) (buf : List Nat) (uFileSize dwEntries fuel cur pos : Nat)
    (m : CPwManager) (r : Rand) (t : PW_ENTRY) (h : dwEntries ≤ cur) :
    OpenDatabase.entryLoop E b buf uFileSize dwEntries (fuel + 1) cur pos m r t
      = some (LoopEnd.done pos m r) := by
  unfold OpenDatabase.entryLoop
  have : ¬ cur < dwEntries := Nat.not_lt.mpr h
  simp [this]

theorem groupLoop_groups (E : Env) (buf : List Nat) (uFileSize fuel : Nat) (tail : List Nat)
    (gs : List PW_GROUP) (m : CPwManager) (r : Rand)
    (hsize : uFileSize ≤ 2147483648)
    (hbuf : buf.drop sizeofHeader = fieldBytes (gs.flatMap (groupFields E)) ++ tail)
    (hlen : sizeofHeader + (fieldBytes (gs.flatMap (groupFields E))).length < uFileSize)
    (hfuel : uFileSize ≤ fuel) (hG : ∀ g ∈ gs, GroupStorable E g) :
    OpenDatabase.groupLoop E false buf uFileSize gs.length fuel 0 sizeofHeader m r
        RESET_PWG_TEMPLATE
      = some (LoopEnd.done (sizeofHeader + (fieldBytes (gs.flatMap (groupFields E))).length)
          { m with m_pGroups := m.m_pGroups ++ gs } r) := by
  have hl := fieldBytes_length_ge (gs.flatMap (groupFields E))
  obtain ⟨k, hk⟩ : ∃ k, fuel = (k + 1) + (gs.flatMap (groupFields E)).length :=
    ⟨fuel - (gs.flatMap (groupFields E)).length - 1, by omega⟩
  rw [hk, groupLoop_fields E buf uFileSize gs.length tail hsize (gs.flatMap (groupFields E))
    (k + 1) 0 sizeofHeader m r RESET_PWG_TEMPLATE hbuf (groupFields_types E gs) (le_refl _) hlen
    (by rw [groupFields_count]; omega) (groupFields_last E gs),
    readGroupFields_groups E gs tail 0 m r hG]
  simp only []
  rw [groupLoop_done]
  omega

theorem entryLoop_entries (E : Env) (hE : MarkersSafe E) (buf : List Nat) (uFileSize fuel pos : Nat)
    (tail : List Nat) (m : CPwManager) (D M : List PW_ENTRY) (mo : CPwManager) (ro : Rand)
    (hsize : uFileSize ≤ 2147483648) (hpos : sizeofHeader ≤ pos)
    (hbuf : buf.drop pos
      = fieldBytes (((D ++ M).map (m.UnlockEntryPassword E)).flatMap (entryFields E)) ++ tail)
    (hlen : pos
      + (fieldBytes (((D ++ M).map (m.UnlockEntryPassword E)).flatMap (entryFields E))).length
        < uFileSize)
    (hfuel : uFileSize ≤ fuel) (hD : ∀ e ∈ D, EntryStorable E m e)
    (hM : ∀ x ∈ M, MetaLike (m.UnlockEntryPassword E x)) :
    ∃ ys ro' pos', OpenDatabase.entryLoop E false buf uFileSize (D.length + M.length) fuel 0 pos
          mo ro RESET_PWE_TEMPLATE
        = some (LoopEnd.done pos'
            { mo with m_pEntries := mo.m_pEntries
              ++ D.map (fun e => mo.LockEntryPassword E (m.UnlockEntryPassword E e)) ++ ys } ro')
      ∧ (∀ y ∈ ys, _IsMetaStream y = true) ∧ (M = [] → ys = []) := by
  have hl := fieldBytes_length_ge
    (((D ++ M).map (m.UnlockEntryPassword E)).flatMap (entryFields E))
  obtain ⟨k, hk⟩ : ∃ k, fuel
      = (k + 1) + (((D ++ M).map (m.UnlockEntryPassword E)).flatMap (entryFields E)).length :=
    ⟨fuel - (((D ++ M).map (m.UnlockEntryPassword E)).flatMap (entryFields E)).length - 1,
      by omega⟩
  have hcount := entryFields_count E ((D ++ M).map (m.UnlockEntryPassword E))
  rw [List.length_map, List.length_append] at hcount
  have hsplit : ((D ++ M).map (m.UnlockEntryPassword E)).flatMap (entryFields E)
      = (D.map (m.UnlockEntryPassword E)).flatMap (entryFields E)
        ++ (M.map (m.UnlockEntryPassword E)).flatMap (entryFields E) := by
    rw [List.map_append, List.flatMap_append]
  have hloop := entryLoop_fields E buf uFileSize (D.length + M.length) tail hsize
    (((D ++ M).map (m.UnlockEntryPassword E)).flatMap (entryFields E))
    (k + 1) 0 pos mo ro RESET_PWE_TEMPLATE hbuf (entryFields_types E _) hpos hlen
    (by rw [hcount]; omega) (entryFields_last E _)
  rw [hk, hloop]
  have hread : ∃ ys ro', readEntryFields E tail
        (((D ++ M).map (m.UnlockEntryPassword E)).flatMap (entryFields E)) 0 mo ro
        RESET_PWE_TEMPLATE
      = (D.length + M.length,
          { mo with
            m_pEntries := mo.m_pEntries
              ++ D.map (fun e => mo.LockEntryPassword E (m.UnlockEntryPassword E e)) ++ ys },
          ro', RESET_PWE_TEMPLATE)
      ∧ (∀ y ∈ ys, _IsMetaStream y = true) ∧ (M = [] → ys = []) := by
    rw [hsplit, readEntryFields_append, readEntryFields_entries E m D _ 0 mo ro hD]
    simp only []
    obtain ⟨ys, ro', h1, h2⟩ := readEntryFields_metas E hE (M.map (m.UnlockEntryPassword E)) tail
      (0 + D.length)
      { mo with m_pEntries := mo.m_pEntries
          ++ D.map (fun e => mo.LockEntryPassword E (m.UnlockEntryPassword E e)) } ro
      (by
        intro x hx
        rw [List.mem_map] at hx
        obtain ⟨y, hy, rfl⟩ := hx
        exact hM y hy)
    refine ⟨ys, ro', ?_, h2, ?_⟩
    · rw [h1, List.length_map, Nat.zero_add]
    · intro hnil
      subst hnil
      simp only [List.map_nil, List.flatMap_nil, readEntryFields, Prod.mk.injEq] at h1
      have := congrArg CPwManager.m_pEntries h1.2.1
      simp only [] at this
      exact (List.self_eq_append_right.mp this)
  obtain ⟨ys, ro', h1, h2, h3⟩ := hread
  refine ⟨ys, ro', pos + (fieldBytes
    (((D ++ M).map (m.UnlockEntryPassword E)).flatMap (entryFields E))).length, ?_, h2, h3⟩
  rw [h1]
  simp only []
  rw [entryLoop_done]
  exact le_refl _

/-! ## Loading the records of a database -/

theorem MetaLike_lock (E : Env) (m : CPwManager) (x : PW_ENTRY) (h : MetaLike x) :
    MetaLike (m.UnlockEntryPassword E x) := by
  have hf := lock_frame E m x
  unfold UnlockEntryPassword
  generalize m.LockEntryPassword E x = y at hf
  have key : MetaLike { y with pszPassword := x.pszPassword } := by rw [hf]; exact h
  exact key

theorem IsMetaStream_lock (E : Env) (m : CPwManager) (x : PW_ENTRY) :
    _IsMetaStream (m.LockEntryPassword E x) = _IsMetaStream x := by
  have hf := lock_frame E m x
  generalize m.LockEntryPassword E x = y at hf
  have key : _IsMetaStream { y with pszPassword := x.pszPassword } = _IsMetaStream x := by rw [hf]
  exact key

theorem lock_group (E : Env) (m : CPwManager) (x : PW_ENTRY) :
    (m.LockEntryPassword E x).uGroupId = x.uGroupId := by
  have hf := lock_frame E m x
  generalize m.LockEntryPassword E x = y at hf
  have key : ({ y with pszPassword := x.pszPassword } : PW_ENTRY).uGroupId = x.uGroupId := by
    rw [hf]
  exact key

theorem GetGroupById_isSome (m : CPwManager) (id : Nat) (hn : m.m_pGroups.length ≤ DWORD_MAX)
    (h : ∃ g ∈ m.m_pGroups, g.uGroupId = id) : (m.GetGroupById id).isSome = true := by
  unfold GetGroupById
  simp only []
  rcases GetGroupByIdN_spec m id with ⟨g, hg, _⟩ | ⟨_, hno⟩
  · have hlt : m.GetGroupByIdN id < m.m_pGroups.length := by
      by_contra hge
      rw [List.getElem?_eq_none (Nat.not_lt.mp hge)] at hg
      exact Option.noConfusion hg
    have hne : (m.GetGroupByIdN id == DWORD_MAX) = false := by
      rw [beq_eq_false_iff_ne]
      omega
    rw [hne, hg]
    rfl
  · obtain ⟨g, hg, hid⟩ := h
    exact absurd hid (hno g hg)

theorem load_round_trip (E : Env) (hE : MarkersSafe E) (m : CPwManager) (ms : List PW_ENTRY)
    (buf tail : List Nat) (uFileSize fuel : Nat) (hdr : PW_DBHEADER) (m2 : CPwManager) (r : Rand)
    (rep1 : PWDB_REPAIR_INFO)
    (hG : ∀ g ∈ m.m_pGroups, GroupStorable E g) (hD : ∀ e ∈ m.m_pEntries, EntryStorable E m e)
    (hM : ∀ x ∈ ms, MetaLike x) (hms : m.m_pGroups = [] → ms = [])
    (ht : TreeInvariant m.m_pGroups)
    (hbuf : buf.drop sizeofHeader
      = SaveDatabase.payload E { m with m_pEntries := m.m_pEntries ++ ms } ++ tail)
    (hlen : sizeofHeader
      + (SaveDatabase.payload E { m with m_pEntries := m.m_pEntries ++ ms }).length < uFileSize)
    (hsize : uFileSize ≤ 2147483648) (hfuel : uFileSize ≤ fuel)
    (hg : hdr.dwGroups = m.m_pGroups.length)
    (he : hdr.dwEntries = m.m_pEntries.length + ms.length) :
    ∃ m' r', OpenDatabase.load E false buf uFileSize hdr fuel m2 r rep1
          = some (PWE.SUCCESS, m', r', rep1)
      ∧ m'.m_pGroups = m.m_pGroups
      ∧ m'.m_pEntries
        = m.m_pEntries.map (fun e => m2.LockEntryPassword E (m.UnlockEntryPassword E e))
      ∧ m'.m_pSessionKey = m2.m_pSessionKey := by
  rw [payload_fields] at hbuf hlen
  have hu : UnlockEntryPassword E { m with m_pEntries := m.m_pEntries ++ ms }
      = UnlockEntryPassword E m := rfl
  simp only [hu] at hbuf hlen
  rw [List.append_assoc] at hbuf
  rw [List.length_append] at hlen
  have hgl := fieldBytes_length_ge (m.m_pGroups.flatMap (groupFields E))
  have hgc := groupFields_count E m.m_pGroups
  have hgn : m.m_pGroups.length ≤ DWORD_MAX := by
    have h1 := List.length_filter_le (fun (f : Nat × List Nat) => f.1 == 0xFFFF)
      (m.m_pGroups.flatMap (groupFields E))
    have h2 : (2147483648 : Nat) ≤ DWORD_MAX := by decide
    omega
  have hgroups := groupLoop_groups E buf uFileSize fuel _ m.m_pGroups m2.NewDatabase r hsize hbuf
    (by omega) hfuel hG
  obtain ⟨ys, ro', pos', hentries, hys, hnil⟩ := entryLoop_entries E hE buf uFileSize fuel
    (sizeofHeader + (fieldBytes (m.m_pGroups.flatMap (groupFields E))).length) tail m
    m.m_pEntries ms
    { m2.NewDatabase with m_pGroups := m2.NewDatabase.m_pGroups ++ m.m_pGroups } r hsize
    (by omega) (drop_add_of_drop buf _ _ sizeofHeader hbuf) (by omega) hfuel hD
    (fun x hx => MetaLike_lock E m x (hM x hx))
  unfold OpenDatabase.load
  simp only []
  rw [hg, hgroups]
  simp only []
  rw [he, hentries]
  simp only []
  obtain ⟨k, m7, h7, he7, hg7, hs7⟩ := LoadAndRemoveAllMetaStreams_spec
    { ({ ({ m2.NewDatabase with m_pGroups := m2.NewDatabase.m_pGroups ++ m.m_pGroups }
          : CPwManager) with
        m_pEntries := m2.NewDatabase.m_pEntries
          ++ m.m_pEntries.map (fun e =>
            LockEntryPassword E
              { m2.NewDatabase with m_pGroups := m2.NewDatabase.m_pGroups ++ m.m_pGroups }
              (m.UnlockEntryPassword E e)) ++ ys } : CPwManager) with
      m_dbLastHeader := hdr } true
    (by
      intro hnone
      have hgs : m.m_pGroups = [] := by simpa [NewDatabase] using hnone
      have hds : m.m_pEntries = [] := by
        cases hd : m.m_pEntries with
        | nil => rfl
        | cons e es =>
          obtain ⟨_, _, _, _, ⟨g, hgm, _⟩, _⟩ := hD e (by rw [hd]; exact List.mem_cons_self _ _)
          rw [hgs] at hgm
          exact absurd hgm (List.not_mem_nil g)
      simp [NewDatabase, hds, hnil (hms hgs)])
  rw [h7]
  simp only []
  rw [DeleteLostEntries_eq]
  simp only [Bool.false_eq_true, if_false]
  simp only [NewDatabase, List.nil_append] at he7 hg7 hs7
  have he7' : m7.m_pEntries
      = (m.m_pEntries.map (fun e => m2.LockEntryPassword E (m.UnlockEntryPassword E e))
          ++ ys).filter (fun e => !_IsMetaStream e) := he7
  have hfilter1 : m7.m_pEntries
      = m.m_pEntries.map (fun e => m2.LockEntryPassword E (m.UnlockEntryPassword E e)) := by
    rw [he7', List.filter_append]
    have a1 : (m.m_pEntries.map (fun e => m2.LockEntryPassword E (m.UnlockEntryPassword E e))).filter
        (fun e => !_IsMetaStream e)
        = m.m_pEntries.map (fun e => m2.LockEntryPassword E (m.UnlockEntryPassword E e)) := by
      rw [List.filter_eq_self]
      intro x hx
      rw [List.mem_map] at hx
      obtain ⟨e, hem, rfl⟩ := hx
      have hnm := (hD e hem).2.2.2.2.2.2.2.2.2.2.2.2.2.2.2.2.2
      unfold UnlockEntryPassword
      rw [IsMetaStream_lock, IsMetaStream_lock, hnm]
      rfl
    have a2 : ys.filter (fun e => !_IsMetaStream e) = [] := by
      rw [List.filter_eq_nil_iff]
      intro y hy
      rw [hys y hy]
      decide
    rw [a1, a2, List.append_nil]
  have hfilter2 : m7.m_pEntries.filter (fun e => (m7.GetGroupById e.uGroupId).isSome)
      = m7.m_pEntries := by
    rw [List.filter_eq_self]
    intro x hx
    rw [hfilter1, List.mem_map] at hx
    obtain ⟨e, hem, rfl⟩ := hx
    have hgrp := (hD e hem).2.2.2.2.1
    unfold UnlockEntryPassword
    rw [lock_group, lock_group]
    exact GetGroupById_isSome m7 e.uGroupId (by rw [hg7]; exact hgn) (by rw [hg7]; exact hgrp)
  rw [hfilter2]
  have hself : ({ m7 with m_pEntries := m7.m_pEntries } : CPwManager) = m7 := by
    cases m7; rfl
  rw [hself, FixGroupTree_id m7 (by rw [hg7]; exact fun g hgm => (hG g hgm).2.2.2.1)
    (by rw [hg7]; exact ht)]
  exact ⟨m7, ro', rfl, hg7, hfilter1, hs7⟩

/-! ## The encrypted part of a file -/

theorem readBytes_append_ge (p pad : List Nat) (n : Nat) (h : p.length ≤ n) :
    ∃ tail, readBytes (p ++ pad) 0 n = p ++ tail := by
  refine ⟨(pad ++ List.replicate n 0).take (n - p.length), ?_⟩
  unfold readBytes
  rw [List.drop_zero, List.append_assoc]
  obtain ⟨k, rfl⟩ : ∃ k, n = p.length + k := ⟨n - p.length, by omega⟩
  rw [List.take_append, Nat.add_sub_cancel_left]

theorem pad_round_trip (enc dec : List Nat → List Nat → List Nat → List Nat × Nat)
    (hc : PadContract enc dec) (key iv P head : List Nat) (hP : P.length ≤ 2147483430)
    (hh : head.length = sizeofHeader) (file : List Nat)
    (hfile : file = head ++ readBytes (enc key iv P).1 0 ((enc key iv P).2 % U32)) :
    (∃ tail, (file.take sizeofHeader
        ++ readBytes (dec key iv (readBytes file sizeofHeader (file.length - sizeofHeader))).1 0
            (readBytes file sizeofHeader (file.length - sizeofHeader)).length
        ++ file.drop file.length).drop sizeofHeader = P ++ tail)
    ∧ (dec key iv (readBytes file sizeofHeader (file.length - sizeofHeader))).2 % U32 = P.length
    ∧ sizeofHeader + P.length < file.length ∧ file.length ≤ 2147483648
    ∧ (file.length - sizeofHeader) % 16 = 0 := by
  obtain ⟨h1, h2, h3, pad, h4⟩ := hc key iv P hP
  have hU : U32 = 4294967296 := rfl
  have hs : sizeofHeader = 124 := rfl
  have hn : (enc key iv P).2 % U32 = (enc key iv P).2 := Nat.mod_eq_of_lt (by omega)
  rw [hn] at hfile
  have hlen : file.length = sizeofHeader + (enc key iv P).2 := by
    rw [hfile, List.length_append, readBytes_length, hh]
  have hcipher : readBytes file sizeofHeader (file.length - sizeofHeader)
      = readBytes (enc key iv P).1 0 (enc key iv P).2 := by
    rw [hlen, Nat.add_sub_cancel_left, readBytes_drop, hfile, ← hh, List.drop_left]
    exact readBytes_full _ _ (readBytes_length _ _ _)
  rw [hcipher, h4]
  simp only []
  refine ⟨?_, Nat.mod_eq_of_lt (by omega), by omega, by omega, by omega⟩
  obtain ⟨tail, ht⟩ := readBytes_append_ge P pad (enc key iv P).2 (by omega)
  refine ⟨tail ++ file.drop file.length, ?_⟩
  have htake : (file.take sizeofHeader).length = sizeofHeader := by
    rw [List.length_take]; omega
  rw [readBytes_length, ht, List.append_assoc]
  generalize file.take sizeofHeader = T at htake ⊢
  rw [← htake, List.drop_left, List.append_assoc]

/-! ## What `SaveDatabase` prepares -/

theorem relock_id (E : Env) (m : CPwManager) : SaveDatabase.relock E m = m := by
  unfold SaveDatabase.relock
  have h : m.m_pEntries.map (fun e => m.LockEntryPassword E (m.UnlockEntryPassword E e))
      = m.m_pEntries := by
    conv_rhs => rw [← List.map_id m.m_pEntries]
    exact List.map_congr_left (fun e _ => lock_lock E m e)
  rw [h]

theorem AddMetaStream_nogroups (E : Env) (m : CPwManager) (r : Rand) (desc : List Nat)
    (pData : Option (List Nat)) (len : Nat) (h : m.m_pGroups = []) :
    (_AddMetaStream E m r desc pData len).2.1 = m := by
  unfold _AddMetaStream
  rw [h]
  split_ifs <;> rfl

theorem AddAllMetaStreams_loop_nogroups (E : Env) :
    ∀ (its : List PWDB_META_STREAM) (b : Bool) (m : CPwManager) (r : Rand),
      m.m_pGroups = [] → (_AddAllMetaStreams.loop E its b m r).2.1 = m := by
  intro its
  induction its with
  | nil => intro b m r _; rfl
  | cons it rest ih =>
    intro b m r h
    unfold _AddAllMetaStreams.loop
    simp only []
    have h1 := AddMetaStream_nogroups E m r it.strName
      (if it.vData.isEmpty then none else some it.vData) it.vData.length h
    rw [ih _ _ _ (by rw [h1]; exact h), h1]

theorem AddAllMetaStreams_nogroups (E : Env) (m : CPwManager) (r : Rand) (h : m.m_pGroups = []) :
    (m._AddAllMetaStreams E r).2.1 = m := by
  unfold _AddAllMetaStreams
  simp only []
  have h1 := AddMetaStream_nogroups E m r PMS_STREAM_SIMPLESTATE (some (simpleUiStateBytes m)) 40 h
  rw [AddAllMetaStreams_loop_nogroups E _ _ _ _ (by rw [h1]; exact h), h1]

theorem prepared_spec (E : Env) (m : CPwManager) (r : Rand)
    (hid : ∀ g ∈ m.m_pGroups, g.uGroupId ≤ DWORD_MAX) :
    ∃ ms, (SaveDatabase.prepared E m r).1 = { m with m_pEntries := m.m_pEntries ++ ms }
      ∧ (∀ x ∈ ms, MetaLike x) ∧ (m.m_pGroups = [] → ms = []) := by
  obtain ⟨ms, h1, h2⟩ := AddAllMetaStreams_spec E m r hid
  refine ⟨ms, ?_, h2, ?_⟩
  · unfold SaveDatabase.prepared
    simp only []
    rw [relock_id, h1]
  · intro hg
    have h3 := AddAllMetaStreams_nogroups E m r hg
    rw [h1] at h3
    have := congrArg CPwManager.m_pEntries h3
    simp only [] at this
    exact List.append_right_eq_self.mp this

theorem TransformMasterKey_same (E : Env) (a b : CPwManager) (seed : List Nat)
    (hr : a.m_dwKeyEncRounds = b.m_dwKeyEncRounds) (hk : a.m_pMasterKey = b.m_pMasterKey) :
    (a._TransformMasterKey E seed).1 = (b._TransformMasterKey E seed).1
    ∧ ((a._TransformMasterKey E seed).1 = true →
      (a._TransformMasterKey E seed).2.m_pTransformedMasterKey
        = (b._TransformMasterKey E seed).2.m_pTransformedMasterKey) := by
  unfold _TransformMasterKey
  rw [hr, hk]
  split_ifs <;> simp

theorem tcslen_getD (path : List Nat) (h : tcslen path ≠ 0) : path.getD 0 0 ≠ 0 := by
  cases path with
  | nil => exact absurd rfl h
  | cons c cs =>
    intro hc
    simp only [List.getD_cons_zero] at hc
    subst hc
    exact h rfl

/-! ## A load that reaches the parsing loops -/

theorem OpenDatabase_reaches_load (E : Env) (fuel : Nat) (m : CPwManager) (r : Rand)
    (path file : List Nat) (hdr : PW_DBHEADER)
    (hpath : path.getD 0 0 ≠ 0) (hfile : E.fileRead path = some file)
    (hhdr : hdr = PW_DBHEADER.ofBytes file)
    (hsize : sizeofHeader ≤ file.length)
    (halloc : E.allocOk (file.length + 16 + 1 + 8 + 4) = true)
    (hsig : hdr.dwSignature1 = PWM_DBSIG_1 ∧ hdr.dwSignature2 = PWM_DBSIG_2)
    (hver : hdr.dwVersion &&& 0xFFFFFF00 = PWM_DBVER_DW &&& 0xFFFFFF00)
    (hflags : hdr.dwFlags &&& PWM_FLAG_RIJNDAEL ≠ 0 ∨ hdr.dwFlags &&& PWM_FLAG_TWOFISH ≠ 0)
    (hkey : (OpenDatabase.keyed E m hdr).1 = true)
    (hblocks : (file.length - sizeofHeader) % 16 = 0)
    (hinit : if (OpenDatabase.keyed E m hdr).2.m_nAlgorithm = ALGO_AES
      then E.rijndaelInitCBC false (OpenDatabase.finalKey E (OpenDatabase.keyed E m hdr).2 hdr)
        hdr.aEncryptionIV = true
      else E.twofishInit (OpenDatabase.finalKey E (OpenDatabase.keyed E m hdr).2 hdr)
        hdr.aEncryptionIV = true)
    (hplaus : (OpenDatabase.decrypt E (OpenDatabase.keyed E m hdr).2 hdr file file.length).2
        ≤ 2147483446
      ∧ ((OpenDatabase.decrypt E (OpenDatabase.keyed E m hdr).2 hdr file file.length).2 = 0 →
        hdr.dwGroups = 0 ∧ hdr.dwEntries = 0))
    (hhash : readBytes hdr.aContentsHash 0 32
      = readBytes (E.sha256 (readBytes
          (OpenDatabase.decrypt E (OpenDatabase.keyed E m hdr).2 hdr file file.length).1
          sizeofHeader
          (OpenDatabase.decrypt E (OpenDatabase.keyed E m hdr).2 hdr file file.length).2)) 0 32) :
    m.OpenDatabase E fuel r (some path) false
      = OpenDatabase.load E false
          (OpenDatabase.decrypt E (OpenDatabase.keyed E m hdr).2 hdr file file.length).1
          file.length hdr fuel (OpenDatabase.keyed E m hdr).2 r ⟨0, 0, 0⟩ := by
  obtain ⟨f1, f2, f3⟩ := keyed_frame E m hdr
  subst hhdr
  have c1 : (path.getD 0 0 == 0) = false := by simpa using hpath
  have c2 : ¬ file.length < sizeofHeader := Nat.not_lt.mpr hsize
  have c3 : ((PW_DBHEADER.ofBytes file).dwSignature1 != PWM_DBSIG_1
      || (PW_DBHEADER.ofBytes file).dwSignature2 != PWM_DBSIG_2) = false := by
    rw [hsig.1, hsig.2]; rfl
  have c4 : ((PW_DBHEADER.ofBytes file).dwVersion &&& 0xFFFFFF00
      != PWM_DBVER_DW &&& 0xFFFFFF00) = false := by
    rw [hver]; simp
  have c5 : ((PW_DBHEADER.ofBytes file).dwFlags &&& PWM_FLAG_RIJNDAEL == 0
      && (PW_DBHEADER.ofBytes file).dwFlags &&& PWM_FLAG_TWOFISH == 0) = false := by
    rcases hflags with h | h
    · simp [h]
    · simp [h]
  have c6 : (!false && (file.length - sizeofHeader) % 16 != 0) = false := by
    simp [hblocks]
  have c7 : ¬ ((file.length - sizeofHeader) % 16 != 0) = true := by
    simp [hblocks]
  unfold OpenDatabase
  simp only [c1, Bool.false_eq_true, if_false, hfile, c2, halloc, Bool.not_true, c3, c4, c5,
    hkey, c6, c7]
  rcases f3 with ha | ht
  · simp only [ha, if_true] at hinit
    have d1 : ((OpenDatabase.keyed E m (PW_DBHEADER.ofBytes file)).2.m_nAlgorithm == ALGO_AES)
        = true := by rw [ha]; rfl
    have d2 : ((OpenDatabase.keyed E m (PW_DBHEADER.ofBytes file)).2.m_nAlgorithm != ALGO_AES)
        = false := by rw [ha]; rfl
    simp only [d1, d2, hinit, Bool.not_true, Bool.and_false, Bool.false_and, Bool.false_eq_true,
      if_false, Bool.not_false, Bool.true_and]
    split_ifs with h1 h2
    · exfalso
      simp only [Bool.or_eq_true, decide_eq_true_eq, Bool.and_eq_true, beq_iff_eq, bne_iff_ne,
        ne_eq] at h1
      rcases h1 with h1 | ⟨h0, h1⟩
      · exact absurd hplaus.1 (by omega)
      · have := hplaus.2 h0
        rcases h1 with h1 | h1
        · exact h1 this.1
        · exact h1 this.2
    · exfalso
      simp only [bne_iff_ne, ne_eq] at h2
      exact h2 hhash
    · rfl
  · have hne : ¬ (OpenDatabase.keyed E m (PW_DBHEADER.ofBytes file)).2.m_nAlgorithm = ALGO_AES := by
      rw [ht]; decide
    simp only [hne, if_false] at hinit
    have d1 : ((OpenDatabase.keyed E m (PW_DBHEADER.ofBytes file)).2.m_nAlgorithm == ALGO_AES)
        = false := by rw [ht]; rfl
    have d2 : ((OpenDatabase.keyed E m (PW_DBHEADER.ofBytes file)).2.m_nAlgorithm != ALGO_AES)
        = true := by rw [ht]; rfl
    have d3 : ((OpenDatabase.keyed E m (PW_DBHEADER.ofBytes file)).2.m_nAlgorithm == ALGO_TWOFISH)
        = true := by rw [ht]; rfl
    have d4 : ((OpenDatabase.keyed E m (PW_DBHEADER.ofBytes file)).2.m_nAlgorithm != ALGO_TWOFISH)
        = false := by rw [ht]; rfl
    simp only [d1, d2, d3, d4, hinit, Bool.not_true, Bool.and_false, Bool.false_and,
      Bool.false_eq_true, if_false, Bool.not_false, Bool.true_and]
    split_ifs with h1 h2
    · exfalso
      simp only [Bool.or_eq_true, decide_eq_true_eq, Bool.and_eq_true, beq_iff_eq, bne_iff_ne,
        ne_eq] at h1
      rcases h1 with h1 | ⟨h0, h1⟩
      · exact absurd hplaus.1 (by omega)
      · have := hplaus.2 h0
        rcases h1 with h1 | h1
        · exact h1 this.1
        · exact h1 this.2
    · exfalso
      simp only [bne_iff_ne, ne_eq] at h2
      exact h2 hhash
    · rfl

/-! ## Opening the file that `SaveDatabase` wrote -/

theorem payload_counts (E : Env) (m : CPwManager) :
    m.m_pGroups.length + m.m_pEntries.length ≤ (SaveDatabase.payload E m).length := by
  rw [payload_fields, List.length_append]
  have h1 := fieldBytes_length_ge (m.m_pGroups.flatMap (groupFields E))
  have h2 := fieldBytes_length_ge
    ((m.m_pEntries.map (m.UnlockEntryPassword E)).flatMap (entryFields E))
  have h3 := groupFields_count E m.m_pGroups
  have h4 := entryFields_count E (m.m_pEntries.map (m.UnlockEntryPassword E))
  have h5 := List.length_filter_le (fun (f : Nat × List Nat) => f.1 == 0xFFFF)
    (m.m_pGroups.flatMap (groupFields E))
  have h6 := List.length_filter_le (fun (f : Nat × List Nat) => f.1 == 0xFFFF)
    ((m.m_pEntries.map (m.UnlockEntryPassword E)).flatMap (entryFields E))
  rw [List.length_map] at h4
  omega

theorem readBytes_idem (buf : List Nat) (pos n : Nat) :
    readBytes (readBytes buf pos n) 0 n = readBytes buf pos n :=
  readBytes_full _ _ (readBytes_length _ _ _)

theorem header_fields (E : Env) (m1 : CPwManager) (r1 : Rand) :
    (SaveDatabase.header E m1 r1).1.dwSignature1 = PWM_DBSIG_1
    ∧ (SaveDatabase.header E m1 r1).1.dwSignature2 = PWM_DBSIG_2
    ∧ (SaveDatabase.header E m1 r1).1.dwVersion = PWM_DBVER_DW
    ∧ (SaveDatabase.header E m1 r1).1.dwFlags
      = (if m1.m_nAlgorithm = ALGO_AES then PWM_FLAG_SHA2 ||| PWM_FLAG_RIJNDAEL
         else PWM_FLAG_SHA2 ||| PWM_FLAG_TWOFISH)
    ∧ (SaveDatabase.header E m1 r1).1.dwGroups = m1.m_pGroups.length
    ∧ (SaveDatabase.header E m1 r1).1.dwEntries = m1.m_pEntries.length
    ∧ (SaveDatabase.header E m1 r1).1.dwKeyEncRounds = m1.m_dwKeyEncRounds
    ∧ (SaveDatabase.header E m1 r1).1.aContentsHash = E.sha256 (SaveDatabase.payload E m1) := by
  refine ⟨rfl, rfl, rfl, ?_, rfl, ?_, rfl, rfl⟩
  · by_cases h : m1.m_nAlgorithm = ALGO_AES
    · simp [SaveDatabase.header, h]
    · simp [SaveDatabase.header, h]
  · show (SaveDatabase.relock E m1).m_pEntries.length = _
    rw [relock_id]

theorem saved_header (E : Env) (m1 : CPwManager) (r1 : Rand) (C : List Nat)
    (hg : m1.m_pGroups.length < U32) (he : m1.m_pEntries.length < U32)
    (hr : m1.m_dwKeyEncRounds < U32) :
    PW_DBHEADER.ofBytes ((SaveDatabase.header E m1 r1).1.toBytes ++ C)
      = { (SaveDatabase.header E m1 r1).1 with
          aContentsHash := readBytes (E.sha256 (SaveDatabase.payload E m1)) 0 32 } := by
  obtain ⟨h1, h2, h3, h4, h5, h6, h7, h8⟩ := header_fields E m1 r1
  rw [header_round_trip _ _ (by rw [h1]; decide) (by rw [h2]; decide)
    (by rw [h4]; split_ifs <;> decide) (by rw [h3]; decide) (by rw [h5]; exact hg)
    (by rw [h6]; exact he) (by rw [h7]; exact hr), h8]
  unfold SaveDatabase.header GetRandomBuffer
  simp only [readBytes_idem]

theorem decrypt_saved (E : Env) (hC : CipherContract E) (m2 m4 : CPwManager)
    (hdr hdrS : PW_DBHEADER) (P file : List Nat) (hP : P.length ≤ 2147483430)
    (halg : m2.m_nAlgorithm = m4.m_nAlgorithm)
    (hkey : OpenDatabase.finalKey E m2 hdr = SaveDatabase.finalKey E m4 hdrS)
    (hiv : hdr.aEncryptionIV = hdrS.aEncryptionIV)
    (hfile : file = hdrS.toBytes ++ readBytes (SaveDatabase.encrypt E m4 hdrS P).1 0
      ((SaveDatabase.encrypt E m4 hdrS P).2 % U32)) :
    (∃ tail, (OpenDatabase.decrypt E m2 hdr file file.length).1.drop sizeofHeader = P ++ tail)
    ∧ (OpenDatabase.decrypt E m2 hdr file file.length).2 = P.length
    ∧ sizeofHeader + P.length < file.length ∧ file.length ≤ 2147483648
    ∧ (file.length - sizeofHeader) % 16 = 0 := by
  unfold OpenDatabase.decrypt
  unfold SaveDatabase.encrypt at hfile
  simp only []
  rw [hkey, hiv, halg]
  by_cases ha : m4.m_nAlgorithm = ALGO_AES
  · have hb : (m4.m_nAlgorithm == ALGO_AES) = true := by rw [ha]; rfl
    simp only [hb, if_true] at hfile ⊢
    exact pad_round_trip _ _ hC.1 _ _ P hdrS.toBytes hP (toBytes_length hdrS) file hfile
  · have hb : (m4.m_nAlgorithm == ALGO_AES) = false := by simpa using ha
    simp only [hb, Bool.false_eq_true, if_false] at hfile ⊢
    exact pad_round_trip _ _ hC.2.1 _ _ P hdrS.toBytes hP (toBytes_length hdrS) file hfile

theorem open_saved (E : Env) (m mo : CPwManager) (r ro : Rand) (path file : List Nat)
    (msv : CPwManager) (rs : Rand) (fuel : Nat)
    (hE : MarkersSafe E) (hC : CipherContract E)
    (hG : ∀ g ∈ m.m_pGroups, GroupStorable E g)
    (hD : ∀ e ∈ m.m_pEntries, EntryStorable E m e)
    (ht : TreeInvariant m.m_pGroups)
    (hrounds : m.m_dwKeyEncRounds < U32)
    (hbound : (SaveDatabase.payload E (SaveDatabase.prepared E m r).1).length ≤ 2147483430)
    (hsave : m.SaveDatabase E r (some path) = some (PWE.SUCCESS, msv, rs, some file))
    (hread : E.fileRead path = some file)
    (hkey : mo.m_pMasterKey = m.m_pMasterKey)
    (halloc : E.allocOk (file.length + 16 + 1 + 8 + 4) = true)
    (hfuel : file.length ≤ fuel) :
    ∃ mo' ro' rep, mo.OpenDatabase E fuel ro (some path) false
          = some (PWE.SUCCESS, mo', ro', rep)
      ∧ mo'.m_pGroups = m.m_pGroups
      ∧ mo'.m_pEntries.map (mo'.UnlockEntryPassword E)
        = m.m_pEntries.map (m.UnlockEntryPassword E) := by
  have hid : ∀ g ∈ m.m_pGroups, g.uGroupId ≤ DWORD_MAX := fun g hg => le_of_lt (hG g hg).2.1
  obtain ⟨ms, hprep, hM, hms⟩ := prepared_spec E m r hid
  obtain ⟨s1, s2, s3, s4, s5, s6, s7⟩ :=
    SaveDatabase_success E m r path msv rs file _ _ _ _ rfl rfl rfl rfl hsave
  generalize (SaveDatabase.prepared E m r).2 = r1 at s3 s4 s5 s6 s7
  generalize (SaveDatabase.prepared E m r).1 = m1 at hprep hbound s2 s3 s4 s5 s6 s7
  have g1 : m1.m_pGroups = m.m_pGroups := by rw [hprep]
  have g2 : m1.m_pEntries = m.m_pEntries ++ ms := by rw [hprep]
  have g3 : m1.m_dwKeyEncRounds = m.m_dwKeyEncRounds := by rw [hprep]
  have g4 : m1.m_pMasterKey = m.m_pMasterKey := by rw [hprep]
  rw [relock_id] at s3 s4 s5 s6 s7
  have hcnt := payload_counts E m1
  have hU : U32 = 4294967296 := rfl
  obtain ⟨q1, q2, q3, q4, q5, q6, q7, q8⟩ := header_fields E m1 r1
  have hof := saved_header E m1 r1
    (readBytes (SaveDatabase.encrypt E
      (m1._TransformMasterKey E (SaveDatabase.header E m1 r1).1.aMasterSeed2).2
      (SaveDatabase.header E m1 r1).1 (SaveDatabase.payload E m1)).1 0
      ((SaveDatabase.encrypt E
        (m1._TransformMasterKey E (SaveDatabase.header E m1 r1).1.aMasterSeed2).2
        (SaveDatabase.header E m1 r1).1 (SaveDatabase.payload E m1)).2 % U32))
    (by omega) (by omega) (by rw [g3]; exact hrounds)
  rw [← s7] at hof
  generalize (SaveDatabase.header E m1 r1).1 = hdrS at q1 q2 q3 q4 q5 q6 q7 q8 hof s3 s4 s5 s6 s7
  -- the header of the file
  have k1 : (PW_DBHEADER.ofBytes file).dwSignature1 = PWM_DBSIG_1 := by rw [hof]; exact q1
  have k2 : (PW_DBHEADER.ofBytes file).dwSignature2 = PWM_DBSIG_2 := by rw [hof]; exact q2
  have k3 : (PW_DBHEADER.ofBytes file).dwVersion = PWM_DBVER_DW := by rw [hof]; exact q3
  have k4 : (PW_DBHEADER.ofBytes file).dwFlags = hdrS.dwFlags := by rw [hof]
  have k5 : (PW_DBHEADER.ofBytes file).dwGroups = m.m_pGroups.length := by
    rw [hof, ← g1]; exact q5
  have k6 : (PW_DBHEADER.ofBytes file).dwEntries = m.m_pEntries.length + ms.length := by
    rw [hof, ← List.length_append, ← g2]; exact q6
  have k7 : (PW_DBHEADER.ofBytes file).dwKeyEncRounds = m1.m_dwKeyEncRounds := by
    rw [hof]; exact q7
  have k8 : (PW_DBHEADER.ofBytes file).aContentsHash
      = readBytes (E.sha256 (SaveDatabase.payload E m1)) 0 32 := by rw [hof]
  have k9 : (PW_DBHEADER.ofBytes file).aMasterSeed2 = hdrS.aMasterSeed2 := by rw [hof]
  have k10 : (PW_DBHEADER.ofBytes file).aMasterSeed = hdrS.aMasterSeed := by rw [hof]
  have k11 : (PW_DBHEADER.ofBytes file).aEncryptionIV = hdrS.aEncryptionIV := by rw [hof]
  -- the key
  have hkeyed : OpenDatabase.keyed E mo (PW_DBHEADER.ofBytes file)
      = CPwManager._TransformMasterKey E
          { mo with
            m_nAlgorithm :=
              if ((PW_DBHEADER.ofBytes file).dwFlags &&& PWM_FLAG_RIJNDAEL) != 0 then ALGO_AES
              else ALGO_TWOFISH,
            m_dwKeyEncRounds := (PW_DBHEADER.ofBytes file).dwKeyEncRounds }
          (PW_DBHEADER.ofBytes file).aMasterSeed2 := rfl
  obtain ⟨t1, t2⟩ := TransformMasterKey_same E
    { mo with
      m_nAlgorithm :=
        if ((PW_DBHEADER.ofBytes file).dwFlags &&& PWM_FLAG_RIJNDAEL) != 0 then ALGO_AES
        else ALGO_TWOFISH,
      m_dwKeyEncRounds := (PW_DBHEADER.ofBytes file).dwKeyEncRounds } m1 hdrS.aMasterSeed2
    k7 (by rw [g4]; exact hkey)
  rw [← k9, ← hkeyed] at t1 t2
  rw [k9] at t1 t2
  have u1 : (OpenDatabase.keyed E mo (PW_DBHEADER.ofBytes file)).1 = true := by rw [t1]; exact s3
  have u2 := t2 u1
  have u3 : (OpenDatabase.keyed E mo (PW_DBHEADER.ofBytes file)).2.m_nAlgorithm
      = (m1._TransformMasterKey E hdrS.aMasterSeed2).2.m_nAlgorithm := by
    rw [hkeyed, (TransformMasterKey_frame E _ _).2.2, (TransformMasterKey_frame E _ _).2.2]
    simp only []
    rw [k4, q4]
    rcases s2 with h | h
    · rw [h]; rfl
    · rw [h]; rfl
  have u4 : OpenDatabase.finalKey E (OpenDatabase.keyed E mo (PW_DBHEADER.ofBytes file)).2
        (PW_DBHEADER.ofBytes file)
      = SaveDatabase.finalKey E (m1._TransformMasterKey E hdrS.aMasterSeed2).2 hdrS := by
    unfold OpenDatabase.finalKey SaveDatabase.finalKey
    rw [k10, u2]
  have hb : (SaveDatabase.payload E m1).length ≤ 2147483430 := hbound
  obtain ⟨⟨tail, v1⟩, v2, v3, v4, v5⟩ := decrypt_saved E hC
    (OpenDatabase.keyed E mo (PW_DBHEADER.ofBytes file)).2
    (m1._TransformMasterKey E hdrS.aMasterSeed2).2 (PW_DBHEADER.ofBytes file) hdrS
    (SaveDatabase.payload E m1) file hb u3 u4 k11 s7
  have hs : sizeofHeader = 124 := rfl
  have hload := OpenDatabase_reaches_load E fuel mo ro path file (PW_DBHEADER.ofBytes file)
    (tcslen_getD path s1) hread rfl (by omega) halloc ⟨k1, k2⟩ (by rw [k3])
    (by
      rw [k4, q4]
      rcases s2 with h | h
      · left; rw [h]; decide
      · right; rw [h]; decide)
    u1 v5
    (by
      rw [u3, u4, k11]
      have a3 := (TransformMasterKey_frame E m1 hdrS.aMasterSeed2).2.2
      by_cases ha : (m1._TransformMasterKey E hdrS.aMasterSeed2).2.m_nAlgorithm = ALGO_AES
      · rw [if_pos ha]
        exact hC.2.2 _ _ (s4 ha)
      · rw [if_neg ha]
        apply s5
        rw [a3] at ha ⊢
        rcases s2 with h | h
        · exact absurd h ha
        · exact h)
    (by
      rw [v2, k5, k6]
      refine ⟨by omega, fun h0 => ?_⟩
      rw [g1, g2, List.length_append] at hcnt
      omega)
    (by
      rw [v2, k8, readBytes_idem, readBytes_drop _ sizeofHeader, v1, readBytes_exact])
  rw [hprep] at v1 v3
  obtain ⟨m', r', w1, w2, w3, w4⟩ := load_round_trip E hE m ms
    (OpenDatabase.decrypt E (OpenDatabase.keyed E mo (PW_DBHEADER.ofBytes file)).2
      (PW_DBHEADER.ofBytes file) file file.length).1 tail file.length fuel
    (PW_DBHEADER.ofBytes file) (OpenDatabase.keyed E mo (PW_DBHEADER.ofBytes file)).2 ro
    ⟨0, 0, 0⟩ hG hD hM hms ht v1 v3 v4 hfuel k5 k6
  refine ⟨m', r', ⟨0, 0, 0⟩, by rw [hload]; exact w1, w2, ?_⟩
  rw [w3, List.map_map]
  apply List.map_congr_left
  intro e _
  show m'.LockEntryPassword E (LockEntryPassword E _ (m.UnlockEntryPassword E e)) = _
  rw [lock_congr E m' _ _ w4, lock_lock]

/-! ## The sample environment and the sample vault -/

theorem samplePad_contract :
    PadContract (fun _ _ d => samplePadEncrypt d) (fun _ _ c => samplePadDecrypt c) := by
  intro key iv p hp
  simp only [samplePadEncrypt]
  have hk1 : 1 ≤ 16 - p.length % 16 := by omega
  have hk2 : 16 - p.length % 16 ≤ 16 := by omega
  generalize hk : 16 - p.length % 16 = k at hk1 hk2
  refine ⟨by omega, by omega, by omega, List.replicate k k, ?_⟩
  have hlen : (p ++ List.replicate k k).length = p.length + k := by simp
  rw [readBytes_full _ _ hlen]
  unfold samplePadDecrypt
  have hne : List.replicate k k ≠ [] := by
    intro h
    have := congrArg List.length h
    simp at this
    omega
  have hlast : (p ++ List.replicate k k).getLastD 0 = k := by
    rw [List.getLastD_eq_getLast?, List.getLast?_append_of_ne_nil _ hne,
      List.getLast?_eq_getLast _ hne]
    simp
  rw [hlast, hlen]
  have c1 : ((p.length + k) % 16 != 0 || p.length + k == 0) = false := by
    simp
    omega
  have c2 : (k == 0 || decide (k > 16)) = false := by
    simp
    omega
  simp only [c1, c2, Bool.false_eq_true, if_false, Nat.add_sub_cancel]

theorem sampleEnv_contract (file : Option (List Nat)) : CipherContract (sampleEnv file) :=
  ⟨samplePad_contract, samplePad_contract, fun _ _ _ => rfl⟩

theorem sampleEnv_utf8 (file : Option (List Nat)) (s : List Nat) (h : cstr s = s) :
    Utf8Safe (sampleEnv file) s := by
  refine ⟨h, ?_⟩
  show cstr s = s
  exact h

theorem sampleEnv_markers (file : Option (List Nat)) : MarkersSafe (sampleEnv file) :=
  ⟨sampleEnv_utf8 file _ (by decide), sampleEnv_utf8 file _ (by decide),
    sampleEnv_utf8 file _ (by decide), sampleEnv_utf8 file _ (by decide)⟩

theorem sampleVault_groups (file : Option (List Nat)) :
    ∀ g ∈ sampleVault.m_pGroups, GroupStorable (sampleEnv file) g := by
  intro g hg
  have h : sampleVault.m_pGroups = [sampleGroup] := by decide
  rw [h, List.mem_singleton] at hg
  subst hg
  refine ⟨by decide, by decide, by decide, by decide, by decide,
    ⟨tstr "General", rfl, sampleEnv_utf8 file _ (by decide)⟩, ?_, ?_, ?_, ?_⟩ <;>
  (unfold TimeStorable; decide)

set_option maxRecDepth 100000 in
theorem sampleVault_entries (file : Option (List Nat)) :
    ∀ e ∈ sampleVault.m_pEntries, EntryStorable (sampleEnv file) sampleVault e := by
  intro e he
  have h : sampleVault.m_pEntries = [sampleVault.m_pEntries.getD 0 PW_ENTRY.zero] := by decide
  rw [h, List.mem_singleton] at he
  subst he
  refine ⟨by decide, by decide, by decide, by decide, ⟨sampleGroup, by decide, by decide⟩,
    by decide, ⟨tstr "Gmail", by decide, sampleEnv_utf8 file _ (by decide)⟩,
    ⟨[], by decide, sampleEnv_utf8 file _ (by decide)⟩, ⟨[], by decide, sampleEnv_utf8 file _ (by decide)⟩,
    ⟨[], by decide, sampleEnv_utf8 file _ (by decide)⟩, ⟨[], by decide, sampleEnv_utf8 file _ (by decide)⟩,
    ⟨[105, 124, 127, 109, 68, 91, 3], by decide, by decide,
      sampleEnv_utf8 file _ (by
        show cstr (xorStream ((sampleEnv none).arcfourStream sampleVault.m_pSessionKey) 0 7
            [105, 124, 127, 109, 68, 91, 3])
          = xorStream ((sampleEnv none).arcfourStream sampleVault.m_pSessionKey) 0 7
            [105, 124, 127, 109, 68, 91, 3]
        decide)⟩,
    by unfold TimeStorable; decide, by unfold TimeStorable; decide,
    by unfold TimeStorable; decide, by unfold TimeStorable; decide,
    Or.inl ⟨by decide, by decide⟩, by decide⟩

theorem sampleVault_tree : TreeInvariant sampleVault.m_pGroups := by
  have h : sampleVault.m_pGroups = [sampleGroup] := by decide
  rw [h]
  refine ⟨fun g hg => ?_, fun i g k hg hk => ?_⟩
  · simp only [List.getElem?_cons_zero, Option.some.injEq] at hg
    subst hg
    rfl
  · simp at hk

set_option maxRecDepth 100000 in
theorem C1_round_trip_counterexample :
    (sampleDeep.SaveDatabase (sampleEnv none) sampleRand (some (tstr "f"))).map
        (fun x => (x.1, x.2.2.2)) = some (PWE.SUCCESS, some sampleDeepFile)
    ∧ (sampleEmpty.OpenDatabase (sampleEnv (some sampleDeepFile)) 100 sampleRand
        (some (tstr "f")) false).map (fun x => (x.1, x.2.1.m_pGroups.map (fun g => g.usLevel)))
      = some (PWE.SUCCESS, [0])
    ∧ sampleDeep.m_pGroups.map (fun g => g.usLevel) = [5] := by
  decide

/-- C1 (amended).  For a database whose groups and entries are storable (the
numbers fit their types, the ids are no sentinels, the texts are kept by the
UTF-8 helpers, every entry has a non-zero UUID, lies in a group of the database
and is no meta-stream), whose group levels respect the tree invariant and whose
records fit the file, under the contract of the padding ciphers: when
`SaveDatabase` returns `PWE_SUCCESS` and has written `file`, then `OpenDatabase`
on that file with the same master key, given fuel for the length of the file,
returns `PWE_SUCCESS`, the groups are those of the database in the same order,
and the entries, their passwords unlocked, are those of the database with their
passwords unlocked, in the same order. -/
theorem C1_save_load_round_trip (E : Env) (m mo : CPwManager) (r ro : Rand)
    (path file : List Nat) (fuel : Nat)
    (hE : MarkersSafe E) (hC : CipherContract E)
    (hG : ∀ g ∈ m.m_pGroups, GroupStorable E g)
    (hD : ∀ e ∈ m.m_pEntries, EntryStorable E m e)
    (ht : TreeInvariant m.m_pGroups)
    (hrounds : m.m_dwKeyEncRounds < U32)
    (hbound : (SaveDatabase.payload E (SaveDatabase.prepared E m r).1).length ≤ 2147483430)
    (hsave : (m.SaveDatabase E r (some path)).map (fun x => (x.1, x.2.2.2))
      = some (PWE.SUCCESS, some file))
    (hread : E.fileRead path = some file)
    (hkey : mo.m_pMasterKey = m.m_pMasterKey)
    (halloc : E.allocOk (file.length + 16 + 1 + 8 + 4) = true)
    (hfuel : file.length ≤ fuel) :
    ∃ mo' ro' rep, mo.OpenDatabase E fuel ro (some path) false
          = some (PWE.SUCCESS, mo', ro', rep)
      ∧ mo'.m_pGroups = m.m_pGroups
      ∧ mo'.m_pEntries.map (mo'.UnlockEntryPassword E)
        = m.m_pEntries.map (m.UnlockEntryPassword E) := by
  cases hS : m.SaveDatabase E r (some path) with
  | none => rw [hS] at hsave; exact Option.noConfusion hsave
  | some x =>
    obtain ⟨c, msv, rs, f⟩ := x
    rw [hS] at hsave
    simp only [Option.map_some', Option.some.injEq, Prod.mk.injEq] at hsave
    obtain ⟨rfl, rfl⟩ := hsave
    exact open_saved E m mo r ro path file msv rs fuel hE hC hG hD ht hrounds hbound hS hread
      hkey halloc hfuel

set_option maxRecDepth 100000 in
/-- The sample vault, one group and one entry, saved and opened again in the
sample environment: the load returns `PWE_SUCCESS` with the group and the entry
of the vault. -/
theorem C1_save_load_round_trip_witness :
    ∃ mo' ro' rep, sampleEmpty.OpenDatabase (sampleEnv (some sampleVaultFile)) 1000 sampleRand
          (some (tstr "f")) false = some (PWE.SUCCESS, mo', ro', rep)
      ∧ mo'.m_pGroups = sampleVault.m_pGroups
      ∧ mo'.m_pEntries.map (mo'.UnlockEntryPassword (sampleEnv (some sampleVaultFile)))
        = sampleVault.m_pEntries.map
            (sampleVault.UnlockEntryPassword (sampleEnv (some sampleVaultFile))) :=
  C1_save_load_round_trip (sampleEnv (some sampleVaultFile)) sampleVault sampleEmpty sampleRand
    sampleRand (tstr "f") sampleVaultFile 1000 (sampleEnv_markers _) (sampleEnv_contract _)
    (sampleVault_groups _) (sampleVault_entries _) sampleVault_tree (by decide) (by decide)
    (by decide) rfl rfl rfl (by decide)

/-! ## Key derivation -/

theorem rounds_iterate (E : Env) (seed : List Nat) :
    ∀ (n : Nat) (key : List Nat),
      _TransformMasterKey.rounds E seed n key = Nat.iterate (E.rijndaelBlockEncrypt seed) n key := by
  intro n
  induction n with
  | zero => intro key; rfl
  | succ n ih => intro key; simp only [_TransformMasterKey.rounds, ih, Function.iterate_succ_apply]

theorem TransformMasterKey_true (E : Env) (m : CPwManager) (seed : List Nat)
    (h : (m._TransformMasterKey E seed).1 = true) :
    m._TransformMasterKey E seed
      = (true,
          { m with
            m_pTransformedMasterKey :=
              E.sha256 (_TransformMasterKey.rounds E seed m.m_dwKeyEncRounds
                (readBytes m.m_pMasterKey 0 32)) }) := by
  unfold _TransformMasterKey at h ⊢
  split_ifs at h ⊢
  rfl

/-- C11.  When `_TransformMasterKey` returns `TRUE` for the seed `aMasterSeed2`
of a header, the transformed key is the SHA-256 of the master key (32 bytes)
encrypted `m_dwKeyEncRounds` times with AES-256 in ECB mode under the seed, and
the master key is unchanged; `SaveDatabase` and `OpenDatabase` both take as
final key the SHA-256 of the 16 bytes of `aMasterSeed` followed by the
transformed key, so a loader with the same master key derives, from the header
the saver wrote, the final key of the saver. -/
theorem C11_key_derivation (E : Env) (m mo : CPwManager) (hdr : PW_DBHEADER)
    (hok : (m._TransformMasterKey E hdr.aMasterSeed2).1 = true)
    (hk : mo.m_pMasterKey = m.m_pMasterKey)
    (hr : m.m_dwKeyEncRounds = hdr.dwKeyEncRounds) :
    (m._TransformMasterKey E hdr.aMasterSeed2).2.m_pTransformedMasterKey
        = E.sha256 (Nat.iterate (E.rijndaelBlockEncrypt hdr.aMasterSeed2) m.m_dwKeyEncRounds
            (readBytes m.m_pMasterKey 0 32))
    ∧ (m._TransformMasterKey E hdr.aMasterSeed2).2.m_pMasterKey = m.m_pMasterKey
    ∧ SaveDatabase.finalKey E (m._TransformMasterKey E hdr.aMasterSeed2).2 hdr
        = E.sha256 (readBytes hdr.aMasterSeed 0 16
            ++ readBytes (m._TransformMasterKey E hdr.aMasterSeed2).2.m_pTransformedMasterKey 0 32)
    ∧ (OpenDatabase.keyed E mo hdr).1 = true
    ∧ OpenDatabase.finalKey E (OpenDatabase.keyed E mo hdr).2 hdr
        = E.sha256 (readBytes hdr.aMasterSeed 0 16
            ++ readBytes (OpenDatabase.keyed E mo hdr).2.m_pTransformedMasterKey 0 32)
    ∧ OpenDatabase.finalKey E (OpenDatabase.keyed E mo hdr).2 hdr
        = SaveDatabase.finalKey E (m._TransformMasterKey E hdr.aMasterSeed2).2 hdr := by
  have h1 := TransformMasterKey_true E m hdr.aMasterSeed2 hok
  obtain ⟨t1, t2⟩ := TransformMasterKey_same E
    { mo with
      m_nAlgorithm :=
        if (hdr.dwFlags &&& PWM_FLAG_RIJNDAEL) != 0 then ALGO_AES else ALGO_TWOFISH,
      m_dwKeyEncRounds := hdr.dwKeyEncRounds } m hdr.aMasterSeed2 hr.symm hk
  have hkeyed : OpenDatabase.keyed E mo hdr
      = CPwManager._TransformMasterKey E
          { mo with
            m_nAlgorithm :=
              if (hdr.dwFlags &&& PWM_FLAG_RIJNDAEL) != 0 then ALGO_AES else ALGO_TWOFISH,
            m_dwKeyEncRounds := hdr.dwKeyEncRounds }
          hdr.aMasterSeed2 := rfl
  rw [← hkeyed] at t1 t2
  have u1 : (OpenDatabase.keyed E mo hdr).1 = true := by rw [t1]; exact hok
  refine ⟨?_, ?_, rfl, u1, rfl, ?_⟩
  · rw [h1, rounds_iterate]
  · rw [h1]
  · unfold OpenDatabase.finalKey SaveDatabase.finalKey
    rw [t2 u1]

/-- The sample database and a sample header in the sample environment: the
transformation succeeds and both sides derive the same final key. -/
theorem C11_key_derivation_witness :
    (sampleEmpty._TransformMasterKey (sampleEnv none) sampleHeader.aMasterSeed2).2.m_pMasterKey
        = sampleEmpty.m_pMasterKey
    ∧ OpenDatabase.finalKey (sampleEnv none)
        (OpenDatabase.keyed (sampleEnv none) sampleTree { sampleHeader with dwKeyEncRounds := 3 }).2
        { sampleHeader with dwKeyEncRounds := 3 }
      = SaveDatabase.finalKey (sampleEnv none)
          (sampleEmpty._TransformMasterKey (sampleEnv none) sampleHeader.aMasterSeed2).2
          { sampleHeader with dwKeyEncRounds := 3 } :=
  ⟨(C11_key_derivation (sampleEnv none) sampleEmpty sampleTree
      { sampleHeader with dwKeyEncRounds := 3 } (by decide) rfl rfl).2.1,
    (C11_key_derivation (sampleEnv none) sampleEmpty sampleTree
      { sampleHeader with dwKeyEncRounds := 3 } (by decide) rfl rfl).2.2.2.2.2⟩

/-! ## Cipher selection -/

set_option maxRecDepth 100000 in
/-- C12 (as stated) fails: the file of the sample vault with both the RIJNDAEL
and the TWOFISH bit set in the header flags is of the current version and is
opened with `PWE_SUCCESS`. -/
theorem C12_cipher_selection_counterexample :
    (PW_DBHEADER.ofBytes sampleBothBits).dwFlags &&& PWM_FLAG_RIJNDAEL ≠ 0
    ∧ (PW_DBHEADER.ofBytes sampleBothBits).dwFlags &&& PWM_FLAG_TWOFISH ≠ 0
    ∧ (PW_DBHEADER.ofBytes sampleBothBits).dwVersion = PWM_DBVER_DW
    ∧ (sampleEmpty.OpenDatabase (sampleEnv (some sampleBothBits)) 1000 sampleRand
        (some (tstr "f")) false).map (fun x => (x.1, x.2.1.m_nAlgorithm))
      = some (PWE.SUCCESS, ALGO_AES) := by
  decide

/-- C12 (amended).  For a readable file with the current signatures and
version, `hdr` being its header, `m2` the database after the key
transformation, `uFinalKey` the final key and `cipher` the encrypted part of
the file.  When neither the RIJNDAEL nor the TWOFISH bit of the header flags is
set, `OpenDatabase` returns `PWE_INVALID_FILESTRUCTURE` and the arrays are
untouched: the selection has rejected the header.  When the RIJNDAEL bit is
set, the TWOFISH bit set or not, the header passes the selection and the file
is read with AES: the call returns what the stages after the selection return
with `CRijndael` (the key transformation, the test of the block size,
`CRijndael::Init`, then the checks and the load on the memory file that
`CRijndael::PadDecrypt` has decrypted).  When only the TWOFISH bit is set, the
same holds with `CTwofish`. -/
theorem C12_cipher_selection (E : Env) (fuel : Nat) (m : CPwManager) (r : Rand)
    (path file : List Nat) (bRepair : Bool) (hdr : PW_DBHEADER) (m2 : CPwManager)
    (uFileSize : Nat) (uFinalKey cipher : List Nat) (rep1 : PWDB_REPAIR_INFO)
    (hpath : path.getD 0 0 ≠ 0) (hfile : E.fileRead path = some file)
    (hsize : sizeofHeader ≤ file.length)
    (halloc : E.allocOk (file.length + 16 + 1 + 8 + 4) = true)
    (hhdr : hdr = PW_DBHEADER.ofBytes file)
    (hsig : hdr.dwSignature1 = PWM_DBSIG_1 ∧ hdr.dwSignature2 = PWM_DBSIG_2)
    (hver : hdr.dwVersion &&& 0xFFFFFF00 = PWM_DBVER_DW &&& 0xFFFFFF00)
    (hm2 : m2 = (OpenDatabase.keyed E m hdr).2)
    (hkey : uFinalKey = OpenDatabase.finalKey E m2 hdr)
    (hus : uFileSize = if (file.length - sizeofHeader) % 16 != 0
      then (file.length - sizeofHeader) / 16 * 16 + sizeofHeader else file.length)
    (hcipher : cipher = readBytes file sizeofHeader (uFileSize - sizeofHeader))
    (hrep : rep1 = if bRepair then ⟨hdr.dwGroups, hdr.dwEntries, 0⟩ else ⟨0, 0, 0⟩) :
    (hdr.dwFlags &&& PWM_FLAG_RIJNDAEL = 0 → hdr.dwFlags &&& PWM_FLAG_TWOFISH = 0 →
      m.OpenDatabase E fuel r (some path) bRepair
        = some (PWE.INVALID_FILESTRUCTURE, _OPENDB_FAIL_LIGHT E m, r, ⟨0, 0, 0⟩))
    ∧ (hdr.dwFlags &&& PWM_FLAG_RIJNDAEL ≠ 0 →
      m.OpenDatabase E fuel r (some path) bRepair
        = if (OpenDatabase.keyed E m hdr).1 = false then
            some (PWE.INVALID_FILESTRUCTURE, _OPENDB_FAIL_LIGHT E m2, r, ⟨0, 0, 0⟩)
          else if bRepair = false ∧ (file.length - sizeofHeader) % 16 ≠ 0 then
            some (PWE.INVALID_FILESIZE, _OPENDB_FAIL_LIGHT E m2, r, ⟨0, 0, 0⟩)
          else if E.rijndaelInitCBC false uFinalKey hdr.aEncryptionIV = false then
            some (PWE.CRYPT_ERROR, _OPENDB_FAIL_LIGHT E m2, r, rep1)
          else
            OpenDatabase.checked E bRepair
              (file.take sizeofHeader
                ++ readBytes (E.rijndaelPadDecrypt uFinalKey hdr.aEncryptionIV cipher).1 0
                  cipher.length
                ++ file.drop uFileSize)
              ((E.rijndaelPadDecrypt uFinalKey hdr.aEncryptionIV cipher).2 % U32)
              uFileSize hdr fuel m2 r rep1)
    ∧ (hdr.dwFlags &&& PWM_FLAG_RIJNDAEL = 0 → hdr.dwFlags &&& PWM_FLAG_TWOFISH ≠ 0 →
      m.OpenDatabase E fuel r (some path) bRepair
        = if (OpenDatabase.keyed E m hdr).1 = false then
            some (PWE.INVALID_FILESTRUCTURE, _OPENDB_FAIL_LIGHT E m2, r, ⟨0, 0, 0⟩)
          else if bRepair = false ∧ (file.length - sizeofHeader) % 16 ≠ 0 then
            some (PWE.INVALID_FILESIZE, _OPENDB_FAIL_LIGHT E m2, r, ⟨0, 0, 0⟩)
          else if E.twofishInit uFinalKey hdr.aEncryptionIV = false then
            some (PWE.INVALID_FILESTRUCTURE, _OPENDB_FAIL_LIGHT E m2, r, rep1)
          else
            OpenDatabase.checked E bRepair
              (file.take sizeofHeader
                ++ readBytes (E.twofishPadDecrypt uFinalKey hdr.aEncryptionIV cipher).1 0
                  cipher.length
                ++ file.drop uFileSize)
              ((E.twofishPadDecrypt uFinalKey hdr.aEncryptionIV cipher).2 % U32)
              uFileSize hdr fuel m2 r rep1) := by
  subst hhdr hm2 hkey hcipher hrep
  have c1 : (path.getD 0 0 == 0) = false := by simpa using hpath
  have c2 : ¬ file.length < sizeofHeader := Nat.not_lt.mpr hsize
  have c3 : ((PW_DBHEADER.ofBytes file).dwSignature1 != PWM_DBSIG_1
      || (PW_DBHEADER.ofBytes file).dwSignature2 != PWM_DBSIG_2) = false := by
    rw [hsig.1, hsig.2]; rfl
  have c4 : ((PW_DBHEADER.ofBytes file).dwVersion &&& 0xFFFFFF00
      != PWM_DBVER_DW &&& 0xFFFFFF00) = false := by
    rw [hver]; simp
  have halg : (OpenDatabase.keyed E m (PW_DBHEADER.ofBytes file)).2.m_nAlgorithm
      = if ((PW_DBHEADER.ofBytes file).dwFlags &&& PWM_FLAG_RIJNDAEL) != 0 then ALGO_AES
        else ALGO_TWOFISH := by
    unfold OpenDatabase.keyed
    simp only []
    rw [(TransformMasterKey_frame E _ _).2.2]
  refine ⟨fun h1 h2 => ?_, fun h1 => ?_, fun h1 h2 => ?_⟩
  · have c5 : ((PW_DBHEADER.ofBytes file).dwFlags &&& PWM_FLAG_RIJNDAEL == 0
        && (PW_DBHEADER.ofBytes file).dwFlags &&& PWM_FLAG_TWOFISH == 0) = true := by
      simp [h1, h2]
    unfold OpenDatabase
    simp only [c1, Bool.false_eq_true, if_false, hfile, c2, halloc, Bool.not_true, c3, c4, c5,
      if_true]
  · have c5 : ((PW_DBHEADER.ofBytes file).dwFlags &&& PWM_FLAG_RIJNDAEL == 0
        && (PW_DBHEADER.ofBytes file).dwFlags &&& PWM_FLAG_TWOFISH == 0) = false := by
      simp [h1]
    have ha : (OpenDatabase.keyed E m (PW_DBHEADER.ofBytes file)).2.m_nAlgorithm = ALGO_AES := by
      rw [halg]; simp [h1]
    have d1 : OpenDatabase.decrypt E (OpenDatabase.keyed E m (PW_DBHEADER.ofBytes file)).2
        (PW_DBHEADER.ofBytes file) file uFileSize
        = (file.take sizeofHeader
            ++ readBytes (E.rijndaelPadDecrypt
                (OpenDatabase.finalKey E (OpenDatabase.keyed E m (PW_DBHEADER.ofBytes file)).2
                  (PW_DBHEADER.ofBytes file))
                (PW_DBHEADER.ofBytes file).aEncryptionIV
                (readBytes file sizeofHeader (uFileSize - sizeofHeader))).1 0
              (readBytes file sizeofHeader (uFileSize - sizeofHeader)).length
            ++ file.drop uFileSize,
          (E.rijndaelPadDecrypt
                (OpenDatabase.finalKey E (OpenDatabase.keyed E m (PW_DBHEADER.ofBytes file)).2
                  (PW_DBHEADER.ofBytes file))
                (PW_DBHEADER.ofBytes file).aEncryptionIV
                (readBytes file sizeofHeader (uFileSize - sizeofHeader))).2 % U32) := by
      unfold OpenDatabase.decrypt
      simp only [ha, beq_self_eq_true, if_true]
    unfold OpenDatabase OpenDatabase.checked
    simp only [c1, Bool.false_eq_true, if_false, hfile, c2, halloc, Bool.not_true, c3, c4, c5,
      ← hus, d1, ha]
    cases hk : (OpenDatabase.keyed E m (PW_DBHEADER.ofBytes file)).1
    · simp
    · cases bRepair
      · by_cases hb : (file.length - sizeofHeader) % 16 = 0
        · simp [hb]
        · simp [hb]
      · simp
  · have c5 : ((PW_DBHEADER.ofBytes file).dwFlags &&& PWM_FLAG_RIJNDAEL == 0
        && (PW_DBHEADER.ofBytes file).dwFlags &&& PWM_FLAG_TWOFISH == 0) = false := by
      simp [h2]
    have ha : (OpenDatabase.keyed E m (PW_DBHEADER.ofBytes file)).2.m_nAlgorithm
        = ALGO_TWOFISH := by
      rw [halg]; simp [h1]
    have hne : (ALGO_TWOFISH == ALGO_AES) = false := by decide
    have hne2 : ALGO_TWOFISH ≠ ALGO_AES := by decide
    have d1 : OpenDatabase.decrypt E (OpenDatabase.keyed E m (PW_DBHEADER.ofBytes file)).2
        (PW_DBHEADER.ofBytes file) file uFileSize
        = (file.take sizeofHeader
            ++ readBytes (E.twofishPadDecrypt
                (OpenDatabase.finalKey E (OpenDatabase.keyed E m (PW_DBHEADER.ofBytes file)).2
                  (PW_DBHEADER.ofBytes file))
                (PW_DBHEADER.ofBytes file).aEncryptionIV
                (readBytes file sizeofHeader (uFileSize - sizeofHeader))).1 0
              (readBytes file sizeofHeader (uFileSize - sizeofHeader)).length
            ++ file.drop uFileSize,
          (E.twofishPadDecrypt
                (OpenDatabase.finalKey E (OpenDatabase.keyed E m (PW_DBHEADER.ofBytes file)).2
                  (PW_DBHEADER.ofBytes file))
                (PW_DBHEADER.ofBytes file).aEncryptionIV
                (readBytes file sizeofHeader (uFileSize - sizeofHeader))).2 % U32) := by
      unfold OpenDatabase.decrypt
      simp only [ha, hne, Bool.false_eq_true, if_false]
    unfold OpenDatabase OpenDatabase.checked
    simp only [c1, Bool.false_eq_true, if_false, hfile, c2, halloc, Bool.not_true, c3, c4, c5,
      ← hus, d1, ha, hne]
    cases hk : (OpenDatabase.keyed E m (PW_DBHEADER.ofBytes file)).1
    · simp [hne2]
    · cases bRepair
      · by_cases hb : (file.length - sizeofHeader) % 16 = 0
        · simp [hb, hne2]
        · simp [hb, hne2]
      · simp [hne2]

set_option maxRecDepth 100000 in
/-- The file of the sample vault with both cipher bits set passes the selection
and is read with AES: the result of `OpenDatabase` is that of the stages after
the selection with `CRijndael`. -/
theorem C12_cipher_selection_witness :
    sampleEmpty.OpenDatabase (sampleEnv (some sampleBothBits)) 1000 sampleRand
        (some (tstr "f")) false
      = if (OpenDatabase.keyed (sampleEnv (some sampleBothBits)) sampleEmpty
            (PW_DBHEADER.ofBytes sampleBothBits)).1 = false then
          some (PWE.INVALID_FILESTRUCTURE,
            _OPENDB_FAIL_LIGHT (sampleEnv (some sampleBothBits))
              (OpenDatabase.keyed (sampleEnv (some sampleBothBits)) sampleEmpty
                (PW_DBHEADER.ofBytes sampleBothBits)).2, sampleRand, ⟨0, 0, 0⟩)
        else if false = false ∧ (sampleBothBits.length - sizeofHeader) % 16 ≠ 0 then
          some (PWE.INVALID_FILESIZE,
            _OPENDB_FAIL_LIGHT (sampleEnv (some sampleBothBits))
              (OpenDatabase.keyed (sampleEnv (some sampleBothBits)) sampleEmpty
                (PW_DBHEADER.ofBytes sampleBothBits)).2, sampleRand, ⟨0, 0, 0⟩)
        else if (sampleEnv (some sampleBothBits)).rijndaelInitCBC false
            (OpenDatabase.finalKey (sampleEnv (some sampleBothBits))
              (OpenDatabase.keyed (sampleEnv (some sampleBothBits)) sampleEmpty
                (PW_DBHEADER.ofBytes sampleBothBits)).2 (PW_DBHEADER.ofBytes sampleBothBits))
            (PW_DBHEADER.ofBytes sampleBothBits).aEncryptionIV = false then
          some (PWE.CRYPT_ERROR,
            _OPENDB_FAIL_LIGHT (sampleEnv (some sampleBothBits))
              (OpenDatabase.keyed (sampleEnv (some sampleBothBits)) sampleEmpty
                (PW_DBHEADER.ofBytes sampleBothBits)).2, sampleRand,
            if false then ⟨(PW_DBHEADER.ofBytes sampleBothBits).dwGroups,
              (PW_DBHEADER.ofBytes sampleBothBits).dwEntries, 0⟩ else ⟨0, 0, 0⟩)
        else
          OpenDatabase.checked (sampleEnv (some sampleBothBits)) false
            (sampleBothBits.take sizeofHeader
              ++ readBytes ((sampleEnv (some sampleBothBits)).rijndaelPadDecrypt
                  (OpenDatabase.finalKey (sampleEnv (some sampleBothBits))
                    (OpenDatabase.keyed (sampleEnv (some sampleBothBits)) sampleEmpty
                      (PW_DBHEADER.ofBytes sampleBothBits)).2
                    (PW_DBHEADER.ofBytes sampleBothBits))
                  (PW_DBHEADER.ofBytes sampleBothBits).aEncryptionIV
                  (readBytes sampleBothBits sizeofHeader
                    ((if (sampleBothBits.length - sizeofHeader) % 16 != 0
                      then (sampleBothBits.length - sizeofHeader) / 16 * 16 + sizeofHeader
                      else sampleBothBits.length) - sizeofHeader))).1 0
                (readBytes sampleBothBits sizeofHeader
                    ((if (sampleBothBits.length - sizeofHeader) % 16 != 0
                      then (sampleBothBits.length - sizeofHeader) / 16 * 16 + sizeofHeader
                      else sampleBothBits.length) - sizeofHeader)).length
              ++ sampleBothBits.drop (if (sampleBothBits.length - sizeofHeader) % 16 != 0
                      then (sampleBothBits.length - sizeofHeader) / 16 * 16 + sizeofHeader
                      else sampleBothBits.length))
            (((sampleEnv (some sampleBothBits)).rijndaelPadDecrypt
                  (OpenDatabase.finalKey (sampleEnv (some sampleBothBits))
                    (OpenDatabase.keyed (sampleEnv (some sampleBothBits)) sampleEmpty
                      (PW_DBHEADER.ofBytes sampleBothBits)).2
                    (PW_DBHEADER.ofBytes sampleBothBits))
                  (PW_DBHEADER.ofBytes sampleBothBits).aEncryptionIV
                  (readBytes sampleBothBits sizeofHeader
                    ((if (sampleBothBits.length - sizeofHeader) % 16 != 0
                      then (sampleBothBits.length - sizeofHeader) / 16 * 16 + sizeofHeader
                      else sampleBothBits.length) - sizeofHeader))).2 % U32)
            (if (sampleBothBits.length - sizeofHeader) % 16 != 0
                      then (sampleBothBits.length - sizeofHeader) / 16 * 16 + sizeofHeader
                      else sampleBothBits.length)
            (PW_DBHEADER.ofBytes sampleBothBits) 1000
            (OpenDatabase.keyed (sampleEnv (some sampleBothBits)) sampleEmpty
              (PW_DBHEADER.ofBytes sampleBothBits)).2 sampleRand
            (if false then ⟨(PW_DBHEADER.ofBytes sampleBothBits).dwGroups,
              (PW_DBHEADER.ofBytes sampleBothBits).dwEntries, 0⟩ else ⟨0, 0, 0⟩) :=
  (C12_cipher_selection (sampleEnv (some sampleBothBits)) 1000 sampleEmpty sampleRand (tstr "f")
    sampleBothBits false _ _ _ _ _ _ (by decide) rfl (by decide) rfl rfl
    ⟨by decide, by decide⟩ (by decide) rfl rfl rfl rfl rfl).2.1 (by decide)

/-! ## The contracts of the entry operations -/

/-- C16.  `AddEntry` returns `FALSE` exactly when the group id of the template
is 0 or `DWORD_MAX`, and then the database is unchanged; otherwise it returns
`TRUE`, the groups are unchanged, and the entry array is the old one followed
by one entry that carries the group id, the image id and the four timestamps of
the template and its texts as C strings, a `NULL` text as the empty string; the
password is stored obfuscated and unlocks to the password of the template. -/
theorem C16_add_entry_contract (E : Env) (m : CPwManager) (r : Rand) (t : PW_ENTRY) :
    ((m.AddEntry E r t).1 = false ↔ (t.uGroupId = 0 ∨ t.uGroupId = DWORD_MAX))
    ∧ ((m.AddEntry E r t).1 = false → (m.AddEntry E r t).2.1 = m)
    ∧ ((m.AddEntry E r t).1 = true →
        (m.AddEntry E r t).2.1.m_pGroups = m.m_pGroups
        ∧ (m.AddEntry E r t).2.1.m_pEntries.length = m.m_pEntries.length + 1
        ∧ ∃ e, (m.AddEntry E r t).2.1.m_pEntries = m.m_pEntries ++ [e]
          ∧ e.uGroupId = t.uGroupId ∧ e.uImageId = t.uImageId
          ∧ e.tCreation = t.tCreation ∧ e.tLastMod = t.tLastMod
          ∧ e.tLastAccess = t.tLastAccess ∧ e.tExpire = t.tExpire
          ∧ e.pszTitle = some (cstr (t.pszTitle.getD []))
          ∧ e.pszUserName = some (cstr (t.pszUserName.getD []))
          ∧ e.pszURL = some (cstr (t.pszURL.getD []))
          ∧ e.pszAdditional = some (cstr (t.pszAdditional.getD []))
          ∧ e.pszBinaryDesc = some (cstr (t.pszBinaryDesc.getD []))
          ∧ e.uPasswordLen = (cstr (t.pszPassword.getD [])).length
          ∧ ((m.AddEntry E r t).2.1.UnlockEntryPassword E e).pszPassword
            = some (cstr (t.pszPassword.getD []))) := by
  by_cases hg : (t.uGroupId == 0 || t.uGroupId == DWORD_MAX) = true
  · have h := AddEntry_invalid E m r t hg
    have hg' : t.uGroupId = 0 ∨ t.uGroupId = DWORD_MAX := by simpa using hg
    rw [h]
    exact ⟨⟨fun _ => hg', fun _ => rfl⟩, fun _ => rfl, fun hc => absurd hc (by simp)⟩
  · have hgf : (t.uGroupId == 0 || t.uGroupId == DWORD_MAX) = false := by simpa using hg
    have hg' : ¬ (t.uGroupId = 0 ∨ t.uGroupId = DWORD_MAX) := by simpa using hg
    have h := AddEntry_valid E m r t hgf
    rw [h]
    refine ⟨⟨fun hc => absurd hc (by simp), fun hc => absurd hc hg'⟩,
      fun hc => absurd hc (by simp), fun _ => ⟨rfl, by simp, _, rfl, ?_⟩⟩
    generalize (if t.uuid == g_uuidZero then randCreateUUID r else (t.uuid, r)).1 = u
    obtain ⟨_, _, _, _, _, h6, _⟩ := pT_valid t u
    obtain ⟨_, _, f3, f4⟩ := fill_stored E { m with m_pEntries := m.m_pEntries ++ [PW_ENTRY.zero] }
      { m with m_pEntries := m.m_pEntries ++
          [SetEntry.fill E { m with m_pEntries := m.m_pEntries ++ [PW_ENTRY.zero] }
            PW_ENTRY.zero (AddEntry.pT t u)] }
      PW_ENTRY.zero (AddEntry.pT t u) _ rfl (pT_password t u)
    rw [fill_eq] at f3 f4 ⊢
    refine ⟨rfl, rfl, rfl, rfl, rfl, rfl, ?_, ?_, ?_, ?_, ?_, f3, f4⟩
    · simp only [AddEntry.pT, g_pNullString]
      cases t.pszTitle <;> rfl
    · simp only [AddEntry.pT, g_pNullString]
      cases t.pszUserName <;> rfl
    · simp only [AddEntry.pT, g_pNullString]
      cases t.pszURL <;> rfl
    · simp only [AddEntry.pT, g_pNullString]
      cases t.pszAdditional <;> rfl
    · simp only [h6, Bool.and_false, Bool.false_eq_true, if_false]
      simp only [AddEntry.pT, g_pNullString]
      cases t.pszBinaryDesc <;> rfl

/-- C18.  `SetEntry` returns `FALSE` and leaves the database unchanged when the
index is not below the entry count, when the group id of the template is 0 or
`DWORD_MAX`, or when the title, the user name, the URL, the password or the
notes of the template are `NULL`; otherwise it returns `TRUE`, the groups and
the entry count are unchanged and every entry at another index is unchanged. -/
theorem C18_set_entry_contract (E : Env) (m : CPwManager) (dwIndex : Nat) (t : PW_ENTRY) :
    ((m.m_pEntries.length ≤ dwIndex ∨ t.uGroupId = 0 ∨ t.uGroupId = DWORD_MAX
        ∨ t.pszTitle = none ∨ t.pszUserName = none ∨ t.pszURL = none ∨ t.pszPassword = none
        ∨ t.pszAdditional = none) → m.SetEntry E dwIndex t = (false, m))
    ∧ (¬ (m.m_pEntries.length ≤ dwIndex ∨ t.uGroupId = 0 ∨ t.uGroupId = DWORD_MAX
        ∨ t.pszTitle = none ∨ t.pszUserName = none ∨ t.pszURL = none ∨ t.pszPassword = none
        ∨ t.pszAdditional = none) →
      (m.SetEntry E dwIndex t).1 = true
      ∧ (m.SetEntry E dwIndex t).2.m_pGroups = m.m_pGroups
      ∧ (m.SetEntry E dwIndex t).2.m_pEntries.length = m.m_pEntries.length
      ∧ ∀ j, j ≠ dwIndex → (m.SetEntry E dwIndex t).2.m_pEntries[j]? = m.m_pEntries[j]?) := by
  constructor
  · intro h
    unfold SetEntry
    cases ho : m.m_pEntries[dwIndex]? with
    | none => rfl
    | some old =>
      simp only []
      have hlt : dwIndex < m.m_pEntries.length := by
        by_contra hge
        rw [List.getElem?_eq_none (Nat.not_lt.mp hge)] at ho
        exact Option.noConfusion ho
      rcases h with h | h | h | h | h | h | h | h
      · omega
      · simp [h]
      · simp [h]
      · simp [h]
      · split_ifs <;> first | rfl | simp_all
      · split_ifs <;> first | rfl | simp_all
      · split_ifs <;> first | rfl | simp_all
      · split_ifs <;> first | rfl | simp_all
  · intro h
    simp only [not_or, not_le] at h
    obtain ⟨h0, h1, h2, h3, h4, h5, h6, h7⟩ := h
    obtain ⟨old, ho⟩ : ∃ old, m.m_pEntries[dwIndex]? = some old :=
      ⟨m.m_pEntries[dwIndex], List.getElem?_eq_getElem h0⟩
    have hv := SetEntry_valid E m dwIndex t old ho (by simp [h1, h2])
      (by cases hx : t.pszTitle <;> simp_all) (by cases hx : t.pszUserName <;> simp_all)
      (by cases hx : t.pszURL <;> simp_all) (by cases hx : t.pszPassword <;> simp_all)
      (by cases hx : t.pszAdditional <;> simp_all)
    rw [hv]
    refine ⟨rfl, rfl, by simp, fun j hj => ?_⟩
    simp only []
    rw [List.getElem?_set_ne (Ne.symm hj)]

/-- C19.  `DeleteEntry` returns `FALSE` and changes nothing when the index is
not below the entry count; otherwise it returns `TRUE`, the groups are
unchanged and the entry array is the old one with exactly the element at the
index removed: the entries before it, then the entries after it, in their
order, one fewer in all. -/
theorem C19_delete_entry_contract (m : CPwManager) (dwIndex : Nat) :
    (m.m_pEntries.length ≤ dwIndex → m.DeleteEntry dwIndex = (false, m))
    ∧ (dwIndex < m.m_pEntries.length →
      (m.DeleteEntry dwIndex).1 = true
      ∧ (m.DeleteEntry dwIndex).2.m_pGroups = m.m_pGroups
      ∧ (m.DeleteEntry dwIndex).2.m_pEntries = m.m_pEntries.eraseIdx dwIndex
      ∧ (m.DeleteEntry dwIndex).2.m_pEntries
        = m.m_pEntries.take dwIndex ++ m.m_pEntries.drop (dwIndex + 1)
      ∧ (m.DeleteEntry dwIndex).2.m_pEntries.length = m.m_pEntries.length - 1) := by
  constructor
  · intro h
    unfold DeleteEntry
    simp [h]
  · intro h
    rw [DeleteEntry_valid m dwIndex h]
    refine ⟨rfl, rfl, shiftOut_eq_eraseIdx _ _ h, ?_, ?_⟩
    · show shiftOut m.m_pEntries dwIndex = _
      rw [shiftOut_eq_eraseIdx _ _ h]
      exact List.eraseIdx_eq_take_drop_succ _ _
    · show (shiftOut m.m_pEntries dwIndex).length = _
      rw [shiftOut_eq_eraseIdx _ _ h, List.length_eraseIdx, if_pos h]

/-! ## The contracts of the group operations -/

/-- C17.  Whenever `AddGroup` returns, it returns `TRUE`, the entries are
unchanged and the group array is the old one followed by one group whose id is
neither 0 nor `DWORD_MAX`; for a template id of 0 or `DWORD_MAX` that id is a
`DWORD` that no group had before the call, for any other template id it is the
template id. -/
theorem C17_add_group_id_assignment (m : CPwManager) (r : Rand) (t : PW_GROUP)
    (res : Bool × CPwManager × Rand) (h : m.AddGroup r t = some res) :
    res.1 = true ∧ res.2.1.m_pEntries = m.m_pEntries
    ∧ res.2.1.m_pGroups.length = m.m_pGroups.length + 1
    ∧ ∃ g, res.2.1.m_pGroups = m.m_pGroups ++ [g]
      ∧ g.uGroupId ≠ 0 ∧ g.uGroupId ≠ DWORD_MAX
      ∧ ((t.uGroupId = 0 ∨ t.uGroupId = DWORD_MAX) →
          g.uGroupId < U32 ∧ ∀ g' ∈ m.m_pGroups, g'.uGroupId ≠ g.uGroupId)
      ∧ (t.uGroupId ≠ 0 → t.uGroupId ≠ DWORD_MAX → g.uGroupId = t.uGroupId) := by
  obtain ⟨id, rest, hres, h0, hM, hnew, hkeep⟩ := AddGroup_some m r t res h
  subst hres
  refine ⟨rfl, rfl, by simp, _, rfl, h0, hM, fun hs => ?_, fun a b => ?_⟩
  · have := hnew (by simpa using hs)
    exact ⟨this.1, this.2.1⟩
  · exact (hkeep (by simp [a, b])).1

/-- Adding a group with template id 0 to the sample tree: the generator's
outputs 0 and `DWORD_MAX` are passed over and the group gets the id 17. -/
theorem C17_add_group_id_assignment_witness :
    ((sampleTree.AddGroup sampleRand { sampleGroup with uGroupId := 0 }).getD
        (false, sampleEmpty, sampleRand)).1 = true
    ∧ ((sampleTree.AddGroup sampleRand { sampleGroup with uGroupId := 0 }).getD
        (false, sampleEmpty, sampleRand)).2.1.m_pGroups.map (fun g => g.uGroupId)
      = [11, 12, 13, 14, 17] :=
  ⟨(C17_add_group_id_assignment sampleTree sampleRand { sampleGroup with uGroupId := 0 }
      ((sampleTree.AddGroup sampleRand { sampleGroup with uGroupId := 0 }).getD
        (false, sampleEmpty, sampleRand)) rfl).1, by decide⟩

theorem eraseIdx_filter_id :
    ∀ (gs : List PW_GROUP) (i : Nat) (g : PW_GROUP) (id : Nat),
      gs[i]? = some g → g.uGroupId = id → (gs.map (fun x => x.uGroupId)).Nodup →
      gs.eraseIdx i = gs.filter (fun x => !(x.uGroupId == id)) := by
  intro gs
  induction gs with
  | nil => intro i g id h; simp at h
  | cons a rest ih =>
    intro i g id h hid hnd
    simp only [List.map_cons, List.nodup_cons, List.mem_map, not_exists, not_and] at hnd
    cases i with
    | zero =>
      simp only [List.getElem?_cons_zero, Option.some.injEq] at h
      subst h
      simp only [List.eraseIdx_cons_zero, List.filter_cons, hid, beq_self_eq_true, Bool.not_true,
        Bool.false_eq_true, if_false]
      symm
      rw [List.filter_eq_self]
      intro x hx
      have := hnd.1 x hx
      rw [hid] at this
      simpa using this
    | succ k =>
      simp only [List.getElem?_cons_succ] at h
      have hne : a.uGroupId ≠ id := by
        intro ha
        exact hnd.1 g (List.getElem?_mem h) (by rw [hid, ha])
      simp only [List.eraseIdx_cons_succ, List.filter_cons]
      have : (!(a.uGroupId == id)) = true := by simpa using hne
      rw [if_pos this, ih k g id h hid hnd.2]

theorem FixGroupTree_loop_fields :
    ∀ (gs : List PW_GROUP) (last : Nat),
      (FixGroupTree.loop last gs).map (fun g => { g with usLevel := 0 })
        = gs.map (fun g => { g with usLevel := 0 }) := by
  intro gs
  induction gs with
  | nil => intro last; rfl
  | cons g rest ih => intro last; simp [FixGroupTree.loop, ih]

theorem FixGroupTree_fields (m : CPwManager) :
    m.FixGroupTree.m_pGroups.map (fun g => { g with usLevel := 0 })
      = m.m_pGroups.map (fun g => { g with usLevel := 0 }) := by
  unfold FixGroupTree
  simp only [FixGroupTree_loop_fields]
  cases m.m_pGroups <;> simp

/-- C20.  For a database whose group ids are pairwise distinct and the id of
one of its groups, `DeleteGroupById` returns `TRUE`; afterwards no entry has
that group id and the entries are the old ones with another group id, in their
order; no group has that id and the groups are the old ones with another id,
in their order, every field other than the level unchanged; and the levels
satisfy the tree invariant. -/
theorem C20_delete_group_by_id_contract (m : CPwManager) (uGroupId : Nat)
    (hd : GroupIdsDistinct m) (hex : ∃ g ∈ m.m_pGroups, g.uGroupId = uGroupId) :
    ∃ m', m.DeleteGroupById uGroupId = some (true, m')
      ∧ (∀ e ∈ m'.m_pEntries, e.uGroupId ≠ uGroupId)
      ∧ m'.m_pEntries = m.m_pEntries.filter (fun e => !(e.uGroupId == uGroupId))
      ∧ (∀ g ∈ m'.m_pGroups, g.uGroupId ≠ uGroupId)
      ∧ m'.m_pGroups.map (fun g => { g with usLevel := 0 })
        = (m.m_pGroups.filter (fun g => !(g.uGroupId == uGroupId))).map
            (fun g => { g with usLevel := 0 })
      ∧ m'.m_pGroups.length = m.m_pGroups.length - 1
      ∧ TreeInvariant m'.m_pGroups := by
  refine ⟨_, DeleteGroupById_eq m uGroupId, ?_, rfl, ?_, ?_, ?_, FixGroupTree_tree _⟩
  · intro e he
    rw [FixGroupTree_entries] at he
    simp only [List.mem_filter] at he
    simpa using he.2
  all_goals
    have hshift : shiftOut m.m_pGroups (m.GetGroupByIdN uGroupId)
        = m.m_pGroups.filter (fun g => !(g.uGroupId == uGroupId)) := by
      rcases GetGroupByIdN_spec m uGroupId with ⟨g, hg, hid⟩ | ⟨_, hno⟩
      · have hlt : m.GetGroupByIdN uGroupId < m.m_pGroups.length := by
          by_contra hge
          rw [List.getElem?_eq_none (Nat.not_lt.mp hge)] at hg
          exact Option.noConfusion hg
        rw [shiftOut_eq_eraseIdx _ _ hlt]
        exact eraseIdx_filter_id _ _ g uGroupId hg hid hd
      · obtain ⟨g, hg, hid⟩ := hex
        exact absurd hid (hno g hg)
  · intro g hg
    have hm : g.uGroupId ∈ (FixGroupTree
        { m with
          m_pEntries := m.m_pEntries.filter (fun e => !(e.uGroupId == uGroupId)),
          m_pGroups := shiftOut m.m_pGroups (m.GetGroupByIdN uGroupId) }).m_pGroups.map
          (fun g => g.uGroupId) := List.mem_map_of_mem _ hg
    rw [FixGroupTree_ids] at hm
    simp only [hshift, List.mem_map, List.mem_filter] at hm
    obtain ⟨x, ⟨_, hx⟩, hxe⟩ := hm
    rw [← hxe]
    simpa using hx
  · rw [FixGroupTree_fields]
    simp only [hshift]
  · rw [FixGroupTree_length]
    simp only []
    obtain ⟨g, hg, _⟩ := hex
    exact shiftOut_length _ _ (List.ne_nil_of_mem hg)

/-- Deleting the group 12 from the sample tree leaves the groups 11, 13 and 14. -/
theorem C20_delete_group_by_id_contract_witness :
    ∃ m', sampleTree.DeleteGroupById 12 = some (true, m')
      ∧ (∀ e ∈ m'.m_pEntries, e.uGroupId ≠ 12)
      ∧ m'.m_pEntries = sampleTree.m_pEntries.filter (fun e => !(e.uGroupId == 12))
      ∧ (∀ g ∈ m'.m_pGroups, g.uGroupId ≠ 12)
      ∧ m'.m_pGroups.map (fun g => { g with usLevel := 0 })
        = (sampleTree.m_pGroups.filter (fun g => !(g.uGroupId == 12))).map
            (fun g => { g with usLevel := 0 })
      ∧ m'.m_pGroups.length = sampleTree.m_pGroups.length - 1
      ∧ TreeInvariant m'.m_pGroups :=
  C20_delete_group_by_id_contract sampleTree 12 (by unfold GroupIdsDistinct; decide)
    ⟨sampleGroupAt "mail" 12 1, by decide, rfl⟩

/-! ## Meta-streams left behind by a failed save -/

set_option maxRecDepth 100000 in
/-- C15 fails on the code.  The sample vault, whose one entry is no
meta-stream, is saved with AES in an environment whose `CRijndael::Init` fails:
`SaveDatabase` returns `PWE_CRYPT_ERROR` and the entry array holds a second
entry, the injected meta-stream.  The same failure of `CTwofish::Init` on the
Twofish path leaves the one entry. -/
theorem C15_meta_streams_linger :
    sampleVault.m_pEntries.map _IsMetaStream = [false]
    ∧ (sampleVault.SaveDatabase sampleEnvNoAes sampleRand (some (tstr "f"))).map
        (fun x => (x.1, x.2.1.m_pEntries.map _IsMetaStream))
      = some (PWE.CRYPT_ERROR, [false, true])
    ∧ (CPwManager.SaveDatabase sampleEnvNoTwofish { sampleVault with m_nAlgorithm := ALGO_TWOFISH }
        sampleRand (some (tstr "f"))).map (fun x => (x.1, x.2.1.m_pEntries.map _IsMetaStream))
      = some (PWE.CRYPT_ERROR, [false]) := by
  decide

/-! ## The order in which meta-streams are parsed -/

theorem meta_scan_last :
    ∀ (l : List PW_ENTRY),
      (_LoadAndRemoveAllMetaStreams.scan (l.length - 1) l = none
        ∧ ∀ e ∈ l, _IsMetaStream e = false)
      ∨ (∃ post p pre, l = post ++ p :: pre
          ∧ _LoadAndRemoveAllMetaStreams.scan (l.length - 1) l = some (pre.length, p)
          ∧ _IsMetaStream p = true ∧ ∀ e ∈ post, _IsMetaStream e = false) := by
  intro l
  induction l with
  | nil => left; simp [_LoadAndRemoveAllMetaStreams.scan]
  | cons q rest ih =>
    unfold _LoadAndRemoveAllMetaStreams.scan
    by_cases hm : _IsMetaStream q = true
    · right
      exact ⟨[], q, rest, rfl, by simp [hm], hm, by simp⟩
    · have hm' : _IsMetaStream q = false := by simpa using hm
      simp only [hm', beq_iff_eq, Bool.false_eq_true, if_false, List.length_cons,
        Nat.add_sub_cancel]
      rcases ih with ⟨h1, h2⟩ | ⟨post, p, pre, h1, h2, h3, h4⟩
      · left
        refine ⟨h1, ?_⟩
        intro e he
        rcases List.mem_cons.mp he with he | he
        · rw [he]; exact hm'
        · exact h2 e he
      · right
        refine ⟨q :: post, p, pre, by rw [h1]; rfl, h2, h3, ?_⟩
        intro e he
        rcases List.mem_cons.mp he with he | he
        · rw [he]; exact hm'
        · exact h4 e he

theorem ParseMetaStream_entries (m : CPwManager) (p : PW_ENTRY) (b : Bool) (x : List PW_ENTRY) :
    _ParseMetaStream { m with m_pEntries := x } p b
      = { _ParseMetaStream m p b with m_pEntries := x } := by
  unfold _ParseMetaStream _CanIgnoreUnknownMetaStream
  simp only []
  split_ifs <;> rfl

theorem foldl_parse_entries (b : Bool) :
    ∀ (ps : List PW_ENTRY) (m : CPwManager) (x : List PW_ENTRY),
      ps.foldl (fun acc p => _ParseMetaStream acc p b) { m with m_pEntries := x }
        = { ps.foldl (fun acc p => _ParseMetaStream acc p b) m with m_pEntries := x } := by
  intro ps
  induction ps with
  | nil => intro m x; rfl
  | cons p rest ih =>
    intro m x
    simp only [List.foldl_cons]
    rw [ParseMetaStream_entries, ih]

theorem foldl_parse_frame (b : Bool) :
    ∀ (ps : List PW_ENTRY) (m : CPwManager),
      (ps.foldl (fun acc p => _ParseMetaStream acc p b) m).m_pEntries = m.m_pEntries
      ∧ (ps.foldl (fun acc p => _ParseMetaStream acc p b) m).m_pGroups = m.m_pGroups := by
  intro ps
  induction ps with
  | nil => intro m; exact ⟨rfl, rfl⟩
  | cons p rest ih =>
    intro m
    simp only [List.foldl_cons]
    obtain ⟨f1, f2, _⟩ := ParseMetaStream_frame m p b
    exact ⟨(ih _).1.trans f1, (ih _).2.trans f2⟩

theorem meta_loop_eq (b : Bool) :
    ∀ (fuel : Nat) (m : CPwManager) (c : Nat), m.m_pEntries.length < fuel →
      _LoadAndRemoveAllMetaStreams.loop b fuel m c
        = some (c + (metaStreamsParsed m.m_pEntries).length,
            { (metaStreamsParsed m.m_pEntries).foldl (fun acc p => _ParseMetaStream acc p b) m with
              m_pEntries := m.m_pEntries.filter (fun e => !_IsMetaStream e) }) := by
  intro fuel
  induction fuel with
  | zero => intro m c h; omega
  | succ fuel ih =>
    intro m c hlen
    unfold _LoadAndRemoveAllMetaStreams.loop
    simp only [GetNumberOfEntries]
    by_cases h0 : m.m_pEntries.length = 0
    · have hnil : m.m_pEntries = [] := List.length_eq_zero.mp h0
      simp only [h0, beq_self_eq_true, if_true, hnil, metaStreamsParsed, List.reverse_nil,
        List.filter_nil, List.length_nil, Nat.add_zero, List.foldl_nil]
      congr 2
      cases m
      simp only [] at hnil
      subst hnil
      rfl
    · have hne : (m.m_pEntries.length == 0) = false := by simpa using h0
      simp only [hne, Bool.false_eq_true, if_false]
      have hsp := meta_scan_last m.m_pEntries.reverse
      rw [List.length_reverse] at hsp
      rcases hsp with ⟨h1, h2⟩ | ⟨post, p, pre, h1, h2, h3, h4⟩
      · rw [h1]
        simp only []
        have hno : ∀ e ∈ m.m_pEntries, _IsMetaStream e = false :=
          fun e he => h2 e (List.mem_reverse.mpr he)
        have hmeta : metaStreamsParsed m.m_pEntries = [] := by
          unfold metaStreamsParsed
          rw [List.filter_eq_nil_iff]
          intro e he
          rw [h2 e he]
          decide
        have hfil : m.m_pEntries.filter (fun e => !_IsMetaStream e) = m.m_pEntries := by
          rw [List.filter_eq_self]
          intro e he
          rw [hno e he]
          rfl
        rw [hmeta, hfil]
        simp only [List.length_nil, Nat.add_zero, List.foldl_nil]
      · rw [h2]
        simp only []
        have harr : m.m_pEntries = pre.reverse ++ p :: post.reverse := by
          have := congrArg List.reverse h1
          rw [List.reverse_reverse] at this
          rw [this]
          simp
        obtain ⟨f1, f2, f3⟩ := ParseMetaStream_frame m p b
        have hj : pre.length < m.m_pEntries.length := by
          rw [harr]; simp
        have hdel : ((_ParseMetaStream m p b).DeleteEntry pre.length)
            = (true, { _ParseMetaStream m p b with
                m_pEntries := shiftOut (_ParseMetaStream m p b).m_pEntries pre.length }) :=
          DeleteEntry_valid _ pre.length (by rw [f1]; exact hj)
        have hshift : shiftOut (_ParseMetaStream m p b).m_pEntries pre.length
            = pre.reverse ++ post.reverse := by
          rw [f1, harr]
          have := shiftOut_append pre.reverse post.reverse p
          rw [List.length_reverse] at this
          exact this
        rw [hdel, hshift]
        simp only []
        rw [ih _ (c + 1) (by
          simp only [List.length_append, List.length_reverse]
          rw [harr] at hlen
          simp only [List.length_append, List.length_reverse, List.length_cons] at hlen
          omega)]
        simp only []
        have hpost : post.filter _IsMetaStream = [] := by
          rw [List.filter_eq_nil_iff]
          intro e he
          rw [h4 e he]
          decide
        have hm1 : metaStreamsParsed (pre.reverse ++ post.reverse)
            = pre.filter _IsMetaStream := by
          unfold metaStreamsParsed
          simp [List.filter_append, hpost]
        have hm2 : metaStreamsParsed m.m_pEntries = p :: pre.filter _IsMetaStream := by
          unfold metaStreamsParsed
          rw [harr]
          simp [List.filter_append, hpost, List.filter_cons, h3]
        have hf1 : (pre.reverse ++ post.reverse).filter (fun e => !_IsMetaStream e)
            = m.m_pEntries.filter (fun e => !_IsMetaStream e) := by
          rw [harr]
          simp [List.filter_append, List.filter_cons, h3]
        rw [hm1, hm2, hf1, foldl_parse_entries]
        simp only [List.foldl_cons, List.length_cons]
        congr 2
        omega

theorem LoadAndRemoveAllMetaStreams_eq (m : CPwManager) (b : Bool) (hg : m.m_pGroups ≠ []) :
    m._LoadAndRemoveAllMetaStreams b
      = some ((metaStreamsParsed m.m_pEntries).length,
          { (metaStreamsParsed m.m_pEntries).foldl (fun acc p => _ParseMetaStream acc p b) m with
            m_pEntries := m.m_pEntries.filter (fun e => !_IsMetaStream e) }) := by
  unfold _LoadAndRemoveAllMetaStreams
  simp only [GetNumberOfEntries, GetNumberOfGroups]
  have hgne : (m.m_pGroups.length == 0) = false := by
    simpa using hg
  by_cases h0 : m.m_pEntries.length = 0
  · have hnil : m.m_pEntries = [] := List.length_eq_zero.mp h0
    simp only [h0, beq_self_eq_true, if_true, hnil, metaStreamsParsed, List.reverse_nil,
      List.filter_nil, List.length_nil, List.foldl_nil]
    congr 2
    cases m
    simp only [] at hnil
    subst hnil
    rfl
  · have hne : (m.m_pEntries.length == 0) = false := by simpa using h0
    simp only [hne, hgne, Bool.false_eq_true, if_false]
    rw [meta_loop_eq b _ m 0 (Nat.lt_succ_self _), Nat.zero_add]

/-! ## The vector of unknown meta-streams -/

theorem parse_unknown (m : CPwManager) (p : PW_ENTRY) :
    (_ParseMetaStream m p true).m_vUnknownMetaStreams
      = if isSimpleState p then m.m_vUnknownMetaStreams
        else if m._CanIgnoreUnknownMetaStream (msUnknownOf p) then m.m_vUnknownMetaStreams
        else m.m_vUnknownMetaStreams ++ [msUnknownOf p] := by
  unfold _ParseMetaStream isSimpleState msUnknownOf
  simp only []
  by_cases h : (_tcscmp (p.pszAdditional.getD []) PMS_STREAM_SIMPLESTATE == 0) = true
  · simp only [h, if_true]
    split_ifs <;> rfl
  · simp only [h, Bool.false_eq_true, if_false, if_true]
    cases hc : m._CanIgnoreUnknownMetaStream
        { strName := cstr (p.pszAdditional.getD []),
          vData := readBytes (p.pBinaryData.getD []) 0 p.uBinaryDataLen } <;> simp

theorem canIgnore_none (m : CPwManager) (s : PWDB_META_STREAM)
    (h : m.m_vUnknownMetaStreams = []) : m._CanIgnoreUnknownMetaStream s = false := by
  unfold _CanIgnoreUnknownMetaStream
  rw [h]
  rfl

theorem canIgnore_name (m : CPwManager) (s : PWDB_META_STREAM)
    (h : s.strName ≠ PMS_STREAM_KPXICON2) : m._CanIgnoreUnknownMetaStream s = false := by
  unfold _CanIgnoreUnknownMetaStream
  cases m.m_vUnknownMetaStreams.getLast? with
  | none => rfl
  | some l => simp [h]

theorem canIgnore_last (m : CPwManager) (s l : PWDB_META_STREAM) (v : List PWDB_META_STREAM)
    (h : m.m_vUnknownMetaStreams = v ++ [l]) :
    m._CanIgnoreUnknownMetaStream s
      = (decide (s.strName = PMS_STREAM_KPXICON2) && decide (s.vData = l.vData)) := by
  unfold _CanIgnoreUnknownMetaStream
  rw [h, List.getLast?_concat]
  simp only []
  by_cases h1 : s.strName = PMS_STREAM_KPXICON2
  · by_cases h2 : s.vData = l.vData
    · simp [h1, h2]
    · have : ¬ (s.vData.length = l.vData.length ∧ s.vData = l.vData) := fun c => h2 c.2
      simp only [h1, bne_self_eq_false, Bool.false_eq_true, if_false, decide_True, h2,
        decide_False, Bool.and_false]
      split_ifs <;> simp_all
  · simp [h1]

theorem foldl_parse_congr :
    ∀ (es : List PW_ENTRY) (m m' : CPwManager),
      m.m_vUnknownMetaStreams = m'.m_vUnknownMetaStreams →
      (es.foldl (fun acc p => _ParseMetaStream acc p true) m).m_vUnknownMetaStreams
        = (es.foldl (fun acc p => _ParseMetaStream acc p true) m').m_vUnknownMetaStreams := by
  intro es
  induction es with
  | nil => intro m m' h; exact h
  | cons p rest ih =>
    intro m m' h
    simp only [List.foldl_cons]
    apply ih
    rw [parse_unknown, parse_unknown]
    have hc : m._CanIgnoreUnknownMetaStream (msUnknownOf p)
        = m'._CanIgnoreUnknownMetaStream (msUnknownOf p) := by
      unfold _CanIgnoreUnknownMetaStream
      rw [h]
    rw [hc, h]

theorem foldl_parse_skip :
    ∀ (es : List PW_ENTRY) (m : CPwManager),
      (es.foldl (fun acc p => _ParseMetaStream acc p true) m).m_vUnknownMetaStreams
        = ((es.filter (fun p => !isSimpleState p)).foldl
            (fun acc p => _ParseMetaStream acc p true) m).m_vUnknownMetaStreams := by
  intro es
  induction es with
  | nil => intro m; rfl
  | cons p rest ih =>
    intro m
    by_cases hs : isSimpleState p = true
    · simp only [List.foldl_cons, List.filter_cons, hs, Bool.not_true, Bool.false_eq_true,
        if_false]
      rw [ih]
      apply foldl_parse_congr
      rw [parse_unknown, if_pos hs]
    · have hs' : isSimpleState p = false := by simpa using hs
      simp only [List.foldl_cons, List.filter_cons, hs', Bool.not_false, if_true]
      exact ih _

theorem foldl_parse_push :
    ∀ (es : List PW_ENTRY) (m : CPwManager),
      (∀ p ∈ es, isSimpleState p = false) →
      List.Chain' (fun x y => ¬ (y.strName = PMS_STREAM_KPXICON2 ∧ y.vData = x.vData))
        (m.m_vUnknownMetaStreams.getLast?.toList ++ es.map msUnknownOf) →
      (es.foldl (fun acc p => _ParseMetaStream acc p true) m).m_vUnknownMetaStreams
        = m.m_vUnknownMetaStreams ++ es.map msUnknownOf := by
  intro es
  induction es with
  | nil => intro m _ _; simp
  | cons p rest ih =>
    intro m hs hch
    have hsp : isSimpleState p = false := hs p (List.mem_cons_self _ _)
    have hpush : (_ParseMetaStream m p true).m_vUnknownMetaStreams
        = m.m_vUnknownMetaStreams ++ [msUnknownOf p] := by
      rw [parse_unknown]
      simp only [hsp, Bool.false_eq_true, if_false]
      have hc : m._CanIgnoreUnknownMetaStream (msUnknownOf p) = false := by
        rcases List.eq_nil_or_concat m.m_vUnknownMetaStreams with hn | ⟨v, l, hv⟩
        · exact canIgnore_none m _ hn
        · rw [List.concat_eq_append] at hv
          rw [canIgnore_last m _ l v hv]
          rw [hv, List.getLast?_concat] at hch
          simp only [Option.toList, List.map_cons, List.singleton_append,
            List.chain'_cons] at hch
          have := hch.1
          by_cases h1 : (msUnknownOf p).strName = PMS_STREAM_KPXICON2
          · have h2 : ¬ (msUnknownOf p).vData = l.vData := fun c => this ⟨h1, c⟩
            simp [h1, h2]
          · simp [h1]
      simp [hc]
    simp only [List.foldl_cons]
    rw [ih _ (fun q hq => hs q (List.mem_cons_of_mem _ hq)) ?_, hpush]
    · simp
    · rw [hpush, List.getLast?_concat]
      simp only [Option.toList, List.map_cons, List.singleton_append]
      cases hl : m.m_vUnknownMetaStreams.getLast? with
      | none =>
        rw [hl] at hch
        simpa using hch
      | some l =>
        rw [hl] at hch
        simp only [Option.toList, List.map_cons, List.singleton_append] at hch
        exact (List.chain'_cons'.mp hch).2

theorem foldl_parse_ignore (X : List Nat) :
    ∀ (es : List PW_ENTRY) (m : CPwManager) (v : List PWDB_META_STREAM),
      m.m_vUnknownMetaStreams = v ++ [⟨PMS_STREAM_KPXICON2, X⟩] →
      (∀ p ∈ es, isSimpleState p = false ∧ msUnknownOf p = ⟨PMS_STREAM_KPXICON2, X⟩) →
      (es.foldl (fun acc p => _ParseMetaStream acc p true) m).m_vUnknownMetaStreams
        = v ++ [⟨PMS_STREAM_KPXICON2, X⟩] := by
  intro es
  induction es with
  | nil => intro m v h _; exact h
  | cons p rest ih =>
    intro m v h hs
    obtain ⟨h1, h2⟩ := hs p (List.mem_cons_self _ _)
    simp only [List.foldl_cons]
    apply ih _ v _ (fun q hq => hs q (List.mem_cons_of_mem _ hq))
    rw [parse_unknown]
    simp only [h1, Bool.false_eq_true, if_false]
    rw [canIgnore_last m _ _ v h, h2]
    simp [h]

/-! ## Custom-icon streams -/

theorem metaStreamsParsed_unknown (es : List PW_ENTRY) :
    (metaStreamsParsed es).filter (fun p => !isSimpleState p)
      = (es.filter (fun p => _IsMetaStream p && !isSimpleState p)).reverse := by
  unfold metaStreamsParsed
  rw [List.filter_filter, ← List.filter_reverse]
  congr 1
  funext p
  exact Bool.and_comm _ _

theorem foldl_parse_names :
    ∀ (es : List PW_ENTRY) (m : CPwManager),
      (∀ p ∈ es, isSimpleState p = false ∧ (msUnknownOf p).strName ≠ PMS_STREAM_KPXICON2) →
      (es.foldl (fun acc p => _ParseMetaStream acc p true) m).m_vUnknownMetaStreams
        = m.m_vUnknownMetaStreams ++ es.map msUnknownOf := by
  intro es
  induction es with
  | nil => intro m _; simp
  | cons p rest ih =>
    intro m hs
    obtain ⟨h1, h2⟩ := hs p (List.mem_cons_self _ _)
    simp only [List.foldl_cons]
    rw [ih _ (fun q hq => hs q (List.mem_cons_of_mem _ hq)), parse_unknown]
    simp [h1, canIgnore_name m _ h2]

set_option maxRecDepth 100000 in
/-- C14 (as stated) fails: an entry array with two custom-icon streams of the
same payload and the unknown stream "B" between them leaves the payload twice
in the vector of unknown meta-streams. -/
theorem C14_custom_icon_dedup_counterexample :
    ((injected (sampleEnv none) sampleIcons sampleRand).m_pEntries.filter _IsMetaStream).map
        (fun p => ((msUnknownOf p).strName == PMS_STREAM_KPXICON2, (msUnknownOf p).vData))
      = [(false, List.replicate 40 0), (true, [7, 7]), (false, [2, 3]), (true, [7, 7])]
    ∧ ((injected (sampleEnv none) sampleIcons sampleRand)._LoadAndRemoveAllMetaStreams true).map
        (fun x => x.2.m_vUnknownMetaStreams.map
          (fun s => (s.strName == PMS_STREAM_KPXICON2, s.vData)))
      = some [(true, [7, 7]), (false, [2, 3]), (true, [7, 7])] := by
  decide

/-- C14 (amended).  In a database with a group and an empty vector of unknown
meta-streams, let the meta-streams of the entry array other than the UI state
be, in array order, the streams `A`, then one or more custom-icon streams
(`KPX_CUSTOM_ICONS_2`) all with the payload `X`, then the streams `B`, where no
stream of `A` or `B` is named `KPX_CUSTOM_ICONS_2` and the first stream of `B`
(the one parsed just before the icon streams) does not carry `X`.  Then
`_LoadAndRemoveAllMetaStreams` with unknown streams accepted leaves in the
vector the streams of `B` from the last to the first, the icon stream once, and
the streams of `A` from the last to the first: the payload `X` is there under
the icon name exactly once. -/
theorem C14_custom_icon_dedup (m : CPwManager) (X : List Nat) (A K B : List PW_ENTRY)
    (hg : m.m_pGroups ≠ []) (hv : m.m_vUnknownMetaStreams = [])
    (hU : m.m_pEntries.filter (fun p => _IsMetaStream p && !isSimpleState p) = A ++ K ++ B)
    (hK : K ≠ []) (hKX : ∀ p ∈ K, msUnknownOf p = ⟨PMS_STREAM_KPXICON2, X⟩)
    (hA : ∀ p ∈ A, (msUnknownOf p).strName ≠ PMS_STREAM_KPXICON2)
    (hB : ∀ p ∈ B, (msUnknownOf p).strName ≠ PMS_STREAM_KPXICON2)
    (hB0 : ∀ p, B.head? = some p → (msUnknownOf p).vData ≠ X) :
    ∃ k m', m._LoadAndRemoveAllMetaStreams true = some (k, m')
      ∧ m'.m_vUnknownMetaStreams
        = B.reverse.map msUnknownOf ++ [⟨PMS_STREAM_KPXICON2, X⟩] ++ A.reverse.map msUnknownOf
      ∧ m'.m_vUnknownMetaStreams.filter (fun s => s.strName == PMS_STREAM_KPXICON2)
        = [⟨PMS_STREAM_KPXICON2, X⟩] := by
  have hns : ∀ p ∈ A ++ K ++ B, isSimpleState p = false := by
    intro p hp
    rw [← hU, List.mem_filter] at hp
    have h2 := hp.2
    simp only [Bool.and_eq_true, Bool.not_eq_true'] at h2
    exact h2.2
  have hnsA : ∀ p ∈ A, isSimpleState p = false :=
    fun p hp => hns p (List.mem_append_left _ (List.mem_append_left _ hp))
  have hnsK : ∀ p ∈ K, isSimpleState p = false :=
    fun p hp => hns p (List.mem_append_left _ (List.mem_append_right _ hp))
  have hnsB : ∀ p ∈ B, isSimpleState p = false :=
    fun p hp => hns p (List.mem_append_right _ hp)
  have hvec : ((metaStreamsParsed m.m_pEntries).foldl
        (fun acc p => _ParseMetaStream acc p true) m).m_vUnknownMetaStreams
      = B.reverse.map msUnknownOf ++ [⟨PMS_STREAM_KPXICON2, X⟩] ++ A.reverse.map msUnknownOf := by
    rw [foldl_parse_skip, metaStreamsParsed_unknown, hU]
    simp only [List.reverse_append, List.foldl_append, List.append_assoc]
    -- the streams of `B`
    have eB := foldl_parse_names B.reverse m (fun p hp =>
      ⟨hnsB p (List.mem_reverse.mp hp), hB p (List.mem_reverse.mp hp)⟩)
    rw [hv, List.nil_append] at eB
    -- the first icon stream that is parsed
    obtain ⟨k1, ks, hks⟩ : ∃ k1 ks, K.reverse = k1 :: ks := by
      cases hr : K.reverse with
      | nil => exact absurd (List.reverse_eq_nil_iff.mp hr) hK
      | cons k1 ks => exact ⟨k1, ks, rfl⟩
    have hk1 : k1 ∈ K := List.mem_reverse.mp (by rw [hks]; exact List.mem_cons_self _ _)
    have hksm : ∀ q ∈ ks, q ∈ K :=
      fun q hq => List.mem_reverse.mp (by rw [hks]; exact List.mem_cons_of_mem _ hq)
    rw [hks]
    simp only [List.foldl_cons]
    have e1 : (_ParseMetaStream (B.reverse.foldl (fun acc p => _ParseMetaStream acc p true) m)
          k1 true).m_vUnknownMetaStreams
        = B.reverse.map msUnknownOf ++ [⟨PMS_STREAM_KPXICON2, X⟩] := by
      rw [parse_unknown]
      simp only [hnsK k1 hk1, Bool.false_eq_true, if_false]
      have hc : (B.reverse.foldl (fun acc p => _ParseMetaStream acc p true)
          m)._CanIgnoreUnknownMetaStream (msUnknownOf k1) = false := by
        rcases List.eq_nil_or_concat B.reverse with hn | ⟨v, l, hl⟩
        · apply canIgnore_none
          rw [eB, hn]
          rfl
        · rw [List.concat_eq_append] at hl
          rw [canIgnore_last _ _ (msUnknownOf l) (v.map msUnknownOf)
            (by rw [eB, hl]; simp), hKX k1 hk1]
          have hhead : B.head? = some l := by
            have := congrArg List.reverse hl
            rw [List.reverse_reverse] at this
            rw [this]
            simp
          have := hB0 l hhead
          simp only [decide_True, Bool.true_and, decide_eq_false_iff_not]
          exact fun c => this c.symm
      rw [hc, eB, hKX k1 hk1]
      simp
    have e2 := foldl_parse_ignore X ks _ (B.reverse.map msUnknownOf) e1
      (fun q hq => ⟨hnsK q (hksm q hq), hKX q (hksm q hq)⟩)
    have e3 := foldl_parse_names A.reverse
      (ks.foldl (fun acc p => _ParseMetaStream acc p true)
        (_ParseMetaStream (B.reverse.foldl (fun acc p => _ParseMetaStream acc p true) m) k1 true))
      (fun p hp => ⟨hnsA p (List.mem_reverse.mp hp), hA p (List.mem_reverse.mp hp)⟩)
    rw [e3, e2]
    simp only [List.append_assoc]
  refine ⟨_, _, LoadAndRemoveAllMetaStreams_eq m true hg, hvec, ?_⟩
  show List.filter _ ((metaStreamsParsed m.m_pEntries).foldl
    (fun acc p => _ParseMetaStream acc p true) m).m_vUnknownMetaStreams = _
  rw [hvec, List.filter_append, List.filter_append]
  have fB : (B.reverse.map msUnknownOf).filter (fun s => s.strName == PMS_STREAM_KPXICON2)
      = [] := by
    rw [List.filter_eq_nil_iff]
    intro s hs
    rw [List.mem_map] at hs
    obtain ⟨p, hp, rfl⟩ := hs
    simpa using hB p (List.mem_reverse.mp hp)
  have fA : (A.reverse.map msUnknownOf).filter (fun s => s.strName == PMS_STREAM_KPXICON2)
      = [] := by
    rw [List.filter_eq_nil_iff]
    intro s hs
    rw [List.mem_map] at hs
    obtain ⟨p, hp, rfl⟩ := hs
    simpa using hA p (List.mem_reverse.mp hp)
  rw [fB, fA]
  simp

set_option maxRecDepth 100000 in
/-- Two custom-icon streams with the payload 7, 7, one after the other in the
entry array, leave one icon stream in the vector. -/
theorem C14_custom_icon_dedup_witness :
    ∃ k m', (injected (sampleEnv none) sampleIconPair sampleRand)._LoadAndRemoveAllMetaStreams true
        = some (k, m')
      ∧ m'.m_vUnknownMetaStreams
        = ([] : List PW_ENTRY).reverse.map msUnknownOf ++ [⟨PMS_STREAM_KPXICON2, [7, 7]⟩]
          ++ ([] : List PW_ENTRY).reverse.map msUnknownOf
      ∧ m'.m_vUnknownMetaStreams.filter (fun s => s.strName == PMS_STREAM_KPXICON2)
        = [⟨PMS_STREAM_KPXICON2, [7, 7]⟩] :=
  C14_custom_icon_dedup (injected (sampleEnv none) sampleIconPair sampleRand) [7, 7] []
    ((injected (sampleEnv none) sampleIconPair sampleRand).m_pEntries.filter
      (fun p => _IsMetaStream p && !isSimpleState p)) []
    (by decide) rfl (by simp) (by decide) (by decide)
    (fun p hp => absurd hp (List.not_mem_nil p)) (fun p hp => absurd hp (List.not_mem_nil p))
    (fun p hp => Option.noConfusion hp)

/-! ## Unknown meta-streams through a save and a load -/

theorem cstr_markers :
    cstr PMS_ID_BINDESC = PMS_ID_BINDESC ∧ cstr PMS_ID_TITLE = PMS_ID_TITLE
    ∧ cstr PMS_ID_USER = PMS_ID_USER ∧ cstr PMS_ID_URL = PMS_ID_URL := by
  decide

theorem AddMetaStream_exact (E : Env) (m : CPwManager) (r : Rand) (desc d : List Nat)
    (g0 : PW_GROUP) (gs : List PW_GROUP) (hg : m.m_pGroups = g0 :: gs)
    (h0 : g0.uGroupId ≠ 0) (hM : g0.uGroupId ≠ DWORD_MAX) (hd : d ≠ []) :
    ∃ e r', _AddMetaStream E m r desc (some d) d.length
        = (true, { m with m_pEntries := m.m_pEntries ++ [e] }, r')
      ∧ _IsMetaStream e = true ∧ msUnknownOf e = ⟨cstr desc, d⟩ := by
  unfold _AddMetaStream
  have hlen : (d.length == 0) = false := by
    simpa using hd
  simp only [Option.isNone_some, Bool.false_eq_true, if_false, hlen]
  cases hgs : m.m_pGroups with
  | nil => rw [hgs] at hg; exact List.noConfusion hg
  | cons a b =>
  simp only []
  rw [← hgs]
  have ha : a = g0 := by
    rw [hgs] at hg
    exact (List.cons.inj hg).1
  subst ha
  have hvalid : (a.uGroupId == 0 || a.uGroupId == DWORD_MAX) = false := by
    simp [h0, hM]
  refine ⟨_, _, AddEntry_valid E m r _ hvalid, ?_, ?_⟩
  · rw [fill_eq]
    obtain ⟨c1, c2, c3, c4⟩ := cstr_markers
    have hne : (d.length != 0) = true := by simpa using hd
    apply IsMetaStream_of
    · simp [AddEntry.pT, PW_ENTRY.zero, hne]
    · rfl
    · simp [AddEntry.pT, PW_ENTRY.zero, c1]
    · simp [AddEntry.pT, c2]
    · simp [AddEntry.pT, c3]
    · simp [AddEntry.pT, c4]
    · rfl
  · rw [fill_eq]
    have hne : (d.length != 0) = true := by simpa using hd
    simp only [msUnknownOf, AddEntry.pT, PW_ENTRY.zero, Option.isNone_some, Option.isNone_none,
      Bool.and_false, Bool.false_and, Bool.false_eq_true, if_false, hne, if_true,
      Option.getD_some, cstr_idem, readBytes_idem, readBytes_full d d.length rfl]

theorem simpleUiStateBytes_length (m : CPwManager) : (simpleUiStateBytes m).length = 40 := by
  unfold simpleUiStateBytes
  simp only [List.length_append, leBytes_length, readBytes_length]

theorem isSimpleState_eq (e : PW_ENTRY) :
    isSimpleState e = (_tcscmp (msUnknownOf e).strName PMS_STREAM_SIMPLESTATE == 0) := by
  unfold isSimpleState msUnknownOf _tcscmp
  simp only [cstr_idem]

theorem AddAllMetaStreams_loop_exact (E : Env) :
    ∀ (V : List PWDB_META_STREAM) (b : Bool) (m : CPwManager) (r : Rand) (g0 : PW_GROUP)
      (gs : List PW_GROUP), m.m_pGroups = g0 :: gs → g0.uGroupId ≠ 0 → g0.uGroupId ≠ DWORD_MAX →
      (∀ s ∈ V, s.vData ≠ [] ∧ cstr s.strName = s.strName) →
      ∃ ms, (_AddAllMetaStreams.loop E V b m r).2.1 = { m with m_pEntries := m.m_pEntries ++ ms }
        ∧ List.Forall₂ (fun e s => _IsMetaStream e = true ∧ msUnknownOf e = s) ms V := by
  intro V
  induction V with
  | nil =>
    intro b m r g0 gs _ _ _ _
    exact ⟨[], (with_entries_self m).symm, List.Forall₂.nil⟩
  | cons it rest ih =>
    intro b m r g0 gs hg h0 hM hV
    obtain ⟨hd, hn⟩ := hV it (List.mem_cons_self _ _)
    unfold _AddAllMetaStreams.loop
    simp only []
    have hemp : it.vData.isEmpty = false := by
      cases hv : it.vData with
      | nil => exact absurd hv hd
      | cons a l => rfl
    simp only [hemp, Bool.false_eq_true, if_false]
    obtain ⟨e, r', h1, h2, h3⟩ := AddMetaStream_exact E m r it.strName it.vData g0 gs hg h0 hM hd
    rw [h1]
    simp only []
    obtain ⟨ms, h4, h5⟩ := ih (b && true) { m with m_pEntries := m.m_pEntries ++ [e] } r' g0 gs
      hg h0 hM (fun s hs => hV s (List.mem_cons_of_mem _ hs))
    refine ⟨e :: ms, ?_, List.Forall₂.cons ⟨h2, ?_⟩ h5⟩
    · rw [h4]
      simp only [List.append_assoc, List.singleton_append]
    · rw [h3, hn]

theorem forall2_map_unknown :
    ∀ (ms : List PW_ENTRY) (V : List PWDB_META_STREAM),
      List.Forall₂ (fun e s => _IsMetaStream e = true ∧ msUnknownOf e = s) ms V →
      ms.map msUnknownOf = V ∧ ∀ e ∈ ms, _IsMetaStream e = true := by
  intro ms V h
  induction h with
  | nil => exact ⟨rfl, by simp⟩
  | cons hab _ ih =>
    refine ⟨by rw [List.map_cons, hab.2, ih.1], ?_⟩
    intro e he
    rcases List.mem_cons.mp he with he | he
    · rw [he]; exact hab.1
    · exact ih.2 e he

set_option maxRecDepth 100000 in
/-- C13 (as stated) fails: the sample vault holds the unknown streams "A" and
"B"; after `_AddAllMetaStreams` and `_LoadAndRemoveAllMetaStreams` into an empty
vector the vector holds "B" and then "A". -/
theorem C13_unknown_meta_streams_counterexample :
    sampleTwoStreams.m_vUnknownMetaStreams = [⟨tstr "A", [1]⟩, ⟨tstr "B", [2, 3]⟩]
    ∧ ((injected (sampleEnv none) sampleTwoStreams sampleRand)._LoadAndRemoveAllMetaStreams
        true).map (fun x => x.2.m_vUnknownMetaStreams)
      = some [⟨tstr "B", [2, 3]⟩, ⟨tstr "A", [1]⟩] := by
  decide

/-- C13 (amended).  In a database whose first group has an id other than 0 and
`DWORD_MAX` and none of whose entries is a meta-stream, let every unknown
meta-stream of the vector have a non-empty payload and a name without a zero
unit that is not the name of the UI state, and let no custom-icon stream
(`KPX_CUSTOM_ICONS_2`) be followed in the vector by a stream with the same
payload.  Then `_AddAllMetaStreams` followed by `_LoadAndRemoveAllMetaStreams`,
unknown streams accepted, into an empty vector returns, leaves the entries as
they were and the vector with the same streams, names and bytes, in the reverse
order. -/
theorem C13_unknown_meta_streams (E : Env) (m : CPwManager) (r : Rand)
    (hg : ∃ g0 gs, m.m_pGroups = g0 :: gs ∧ g0.uGroupId ≠ 0 ∧ g0.uGroupId ≠ DWORD_MAX)
    (hD : ∀ e ∈ m.m_pEntries, _IsMetaStream e = false)
    (hV : ∀ s ∈ m.m_vUnknownMetaStreams, s.vData ≠ [] ∧ cstr s.strName = s.strName
      ∧ _tcscmp s.strName PMS_STREAM_SIMPLESTATE ≠ 0)
    (hdup : List.Chain' (fun a b => ¬ (a.strName = PMS_STREAM_KPXICON2 ∧ a.vData = b.vData))
      m.m_vUnknownMetaStreams) :
    ∃ k m', (injected E m r)._LoadAndRemoveAllMetaStreams true = some (k, m')
      ∧ m'.m_vUnknownMetaStreams = m.m_vUnknownMetaStreams.reverse
      ∧ m'.m_pEntries = m.m_pEntries ∧ m'.m_pGroups = m.m_pGroups := by
  obtain ⟨g0, gs, hg0, h0, hM⟩ := hg
  -- the entries after `_AddAllMetaStreams`
  obtain ⟨u, r1, a1, a2, a3⟩ := AddMetaStream_exact E m r PMS_STREAM_SIMPLESTATE
    (simpleUiStateBytes m) g0 gs hg0 h0 hM (by
      intro hn
      have := simpleUiStateBytes_length m
      rw [hn] at this
      exact absurd this (by decide))
  rw [simpleUiStateBytes_length] at a1
  obtain ⟨ms, b1, b2⟩ := AddAllMetaStreams_loop_exact E m.m_vUnknownMetaStreams true
    { m with m_pEntries := m.m_pEntries ++ [u] } r1 g0 gs hg0 h0 hM
    (fun s hs => ⟨(hV s hs).1, (hV s hs).2.1⟩)
  obtain ⟨c1, c2⟩ := forall2_map_unknown ms _ b2
  have hadd : (m._AddAllMetaStreams E r).2.1
      = { m with m_pEntries := m.m_pEntries ++ [u] ++ ms } := by
    unfold _AddAllMetaStreams
    simp only []
    rw [a1]
    exact b1
  have hinj : injected E m r
      = { m with m_pEntries := m.m_pEntries ++ [u] ++ ms, m_vUnknownMetaStreams := [] } := by
    unfold injected
    rw [hadd]
  have hgne : (injected E m r).m_pGroups ≠ [] := by
    rw [hinj]
    simp only []
    rw [hg0]
    exact List.cons_ne_nil _ _
  have hDf : m.m_pEntries.filter _IsMetaStream = [] := by
    rw [List.filter_eq_nil_iff]
    intro e he
    rw [hD e he]
    decide
  have hmsf : ms.filter _IsMetaStream = ms := by
    rw [List.filter_eq_self]
    exact c2
  have hparsed : metaStreamsParsed (m.m_pEntries ++ [u] ++ ms) = ms.reverse ++ [u] := by
    unfold metaStreamsParsed
    rw [List.filter_reverse, List.filter_append, List.filter_append, hDf, hmsf]
    simp [List.filter_cons, a2]
  have hsu : isSimpleState u = true := by
    rw [isSimpleState_eq, a3]
    simp only [_tcscmp, cstr_idem, compareChars_self]
    rfl
  have hsms : ∀ p ∈ ms.reverse, isSimpleState p = false := by
    intro p hp
    have hp' : p ∈ ms := List.mem_reverse.mp hp
    have hmem : msUnknownOf p ∈ m.m_vUnknownMetaStreams := by
      rw [← c1]
      exact List.mem_map_of_mem _ hp'
    rw [isSimpleState_eq]
    have := (hV _ hmem).2.2
    simpa using this
  have hvec : ((ms.reverse ++ [u]).foldl (fun acc p => _ParseMetaStream acc p true)
        (injected E m r)).m_vUnknownMetaStreams = m.m_vUnknownMetaStreams.reverse := by
    rw [List.foldl_append]
    simp only [List.foldl_cons, List.foldl_nil]
    rw [parse_unknown, if_pos hsu, foldl_parse_push ms.reverse (injected E m r) hsms]
    · rw [hinj]
      simp only [List.nil_append]
      rw [List.map_reverse, c1]
    · rw [hinj]
      simp only [List.getLast?_nil, Option.toList, List.nil_append]
      rw [List.map_reverse, c1, List.chain'_reverse]
      exact hdup
  have hentries : (injected E m r).m_pEntries = m.m_pEntries ++ [u] ++ ms := by
    rw [hinj]
  refine ⟨_, _, LoadAndRemoveAllMetaStreams_eq (injected E m r) true hgne, ?_, ?_, ?_⟩
  · show ((metaStreamsParsed (injected E m r).m_pEntries).foldl
      (fun acc p => _ParseMetaStream acc p true) (injected E m r)).m_vUnknownMetaStreams = _
    rw [hentries, hparsed]
    exact hvec
  · show (injected E m r).m_pEntries.filter (fun e => !_IsMetaStream e) = _
    rw [hentries, List.filter_append, List.filter_append]
    have f1 : m.m_pEntries.filter (fun e => !_IsMetaStream e) = m.m_pEntries := by
      rw [List.filter_eq_self]
      intro e he
      rw [hD e he]
      rfl
    have f2 : ms.filter (fun e => !_IsMetaStream e) = [] := by
      rw [List.filter_eq_nil_iff]
      intro e he
      rw [c2 e he]
      decide
    rw [f1, f2]
    simp [List.filter_cons, a2]
  · show ((metaStreamsParsed (injected E m r).m_pEntries).foldl
      (fun acc p => _ParseMetaStream acc p true) (injected E m r)).m_pGroups = _
    rw [(foldl_parse_frame true _ _).2, hinj]

set_option maxRecDepth 100000 in
/-- The streams "A" and "B" of the sample vault come back as "B", "A". -/
theorem C13_unknown_meta_streams_witness :
    ∃ k m', (injected (sampleEnv none) sampleTwoStreams sampleRand)._LoadAndRemoveAllMetaStreams
        true = some (k, m')
      ∧ m'.m_vUnknownMetaStreams = sampleTwoStreams.m_vUnknownMetaStreams.reverse
      ∧ m'.m_pEntries = sampleTwoStreams.m_pEntries
      ∧ m'.m_pGroups = sampleTwoStreams.m_pGroups :=
  C13_unknown_meta_streams (sampleEnv none) sampleTwoStreams sampleRand
    ⟨sampleGroup, [], by decide, by decide, by decide⟩ (by decide) (by decide)
    (List.chain'_cons.mpr ⟨by decide, List.chain'_singleton _⟩)

/-! ## Moving entries and groups -/

theorem swapAt_adjacent {α : Type} (pre post : List α) (x y : α) :
    swapAt (pre ++ x :: y :: post) pre.length (pre.length + 1) = pre ++ y :: x :: post := by
  unfold swapAt
  have h1 : (pre ++ x :: y :: post)[pre.length]? = some x := by
    rw [List.getElem?_append_right (le_refl _)]
    simp
  have h2 : (pre ++ x :: y :: post)[pre.length + 1]? = some y := by
    rw [List.getElem?_append_right (by omega)]
    simp
  rw [h1, h2]
  simp only []
  rw [List.set_append_right _ _ (le_refl _)]
  simp only [Nat.sub_self, List.set_cons_zero]
  rw [List.set_append_right _ _ (by omega)]
  simp

theorem moveUp_append {α : Type} (x : α) (post : List α) :
    ∀ (mid pre : List α),
      moveUp mid.length pre.length (pre ++ x :: mid ++ post) = pre ++ mid ++ x :: post := by
  intro mid
  induction mid with
  | nil => intro pre; simp [moveUp]
  | cons y mid ih =>
    intro pre
    simp only [List.length_cons, moveUp]
    have hsw : swapAt (pre ++ x :: (y :: mid) ++ post) pre.length (pre.length + 1)
        = (pre ++ [y]) ++ x :: mid ++ post := by
      have := swapAt_adjacent pre (mid ++ post) x y
      simpa using this
    rw [hsw]
    have := ih (pre ++ [y])
    simp only [List.length_append, List.length_singleton] at this
    rw [this]
    simp

theorem moveDown_append {α : Type} (x : α) (pre : List α) :
    ∀ (k : Nat) (mid post : List α), mid.length = k →
      moveDown k (pre.length + k) (pre ++ mid ++ x :: post) = pre ++ x :: mid ++ post := by
  intro k
  induction k with
  | zero =>
    intro mid post h
    have : mid = [] := List.length_eq_zero.mp h
    subst this
    simp [moveDown]
  | succ k ih =>
    intro mid post h
    obtain ⟨mid', y, rfl⟩ : ∃ mid' y, mid = mid' ++ [y] := by
      rcases List.eq_nil_or_concat mid with h0 | ⟨l, b, hb⟩
      · subst h0; simp at h
      · exact ⟨l, b, by rw [hb, List.concat_eq_append]⟩
    have hk : mid'.length = k := by
      simp only [List.length_append, List.length_singleton] at h
      omega
    simp only [moveDown]
    have hsw : swapAt (pre ++ (mid' ++ [y]) ++ x :: post) (pre.length + (k + 1))
        (pre.length + (k + 1) - 1) = pre ++ mid' ++ x :: (y :: post) := by
      have h1 := swapAt_adjacent (pre ++ mid') post y x
      have e1 : (pre ++ mid').length = pre.length + k := by simp [hk]
      rw [e1] at h1
      have e2 : pre.length + (k + 1) - 1 = pre.length + k := by omega
      rw [e2]
      have e3 : pre ++ (mid' ++ [y]) ++ x :: post = pre ++ mid' ++ y :: x :: post := by simp
      rw [e3]
      have hswap : ∀ (a : List α) (i j : Nat), swapAt a i j = swapAt a j i := by
        intro a i j
        unfold swapAt
        cases hi : a[i]? <;> cases hj : a[j]? <;> simp only []
        rename_i u v
        by_cases hij : i = j
        · subst hij
          rw [hi] at hj
          cases hj
          rfl
        · exact List.set_comm _ _ _ hij
      rw [hswap, show pre.length + (k + 1) = pre.length + k + 1 by omega, h1]
    rw [hsw]
    have e4 : pre.length + (k + 1) - 1 = pre.length + k := by omega
    rw [e4, ih mid' (y :: post) hk]
    simp

theorem insertIdx_append_length {α : Type} (x : α) (r : List α) :
    ∀ l : List α, List.insertIdx l.length x (l ++ r) = l ++ x :: r := by
  intro l
  induction l with
  | nil => simp
  | cons a l ih => simp [List.insertIdx_succ_cons, ih]

theorem eraseIdx_append_length {α : Type} (x : α) (r : List α) :
    ∀ l : List α, (l ++ x :: r).eraseIdx l.length = l ++ r := by
  intro l
  induction l with
  | nil => simp
  | cons a l ih => simp [ih]

theorem split_at_two {α : Type} (a : List α) (i j : Nat) (x : α) (hi : a[i]? = some x)
    (hij : i ≤ j) (hj : j < a.length) :
    a = a.take i ++ x :: (a.drop (i + 1)).take (j - i) ++ a.drop (j + 1) := by
  have hil : i < a.length := by omega
  have hx : a[i] = x := by
    rw [List.getElem?_eq_getElem hil] at hi
    exact Option.some.inj hi
  conv_lhs => rw [← List.take_append_drop i a]
  rw [List.append_assoc]
  congr 1
  rw [List.drop_eq_getElem_cons hil, hx, List.cons_append]
  congr 1
  conv_lhs => rw [← List.take_append_drop (j - i) (a.drop (i + 1))]
  rw [List.drop_drop]
  congr 2
  omega

theorem split_at_two_down {α : Type} (a : List α) (i j : Nat) (x : α) (hi : a[i]? = some x)
    (hji : j ≤ i) :
    a = a.take j ++ (a.drop j).take (i - j) ++ x :: a.drop (i + 1) := by
  have hil : i < a.length := by
    by_contra h
    rw [List.getElem?_eq_none (Nat.not_lt.mp h)] at hi
    exact Option.noConfusion hi
  have hx : a[i] = x := by
    rw [List.getElem?_eq_getElem hil] at hi
    exact Option.some.inj hi
  conv_lhs => rw [← List.take_append_drop j a]
  rw [List.append_assoc]
  congr 1
  conv_lhs => rw [← List.take_append_drop (i - j) (a.drop j)]
  congr 1
  rw [List.drop_drop]
  have e : j + (i - j) = i := by omega
  rw [e, List.drop_eq_getElem_cons hil, hx]

/-- The walk from index `i` to index `j` of the same array: the element at
`i` is taken out and put in again at `j`. -/
theorem move_eq {α : Type} (a : List α) (i j : Nat) (x : α) (hi : a[i]? = some x)
    (hj : j < a.length) :
    (if i < j then moveUp (j - i) i a else moveDown (i - j) i a)
      = List.insertIdx j x (a.eraseIdx i) := by
  have hil : i < a.length := by
    by_contra h
    rw [List.getElem?_eq_none (Nat.not_lt.mp h)] at hi
    exact Option.noConfusion hi
  by_cases hlt : i < j
  · rw [if_pos hlt]
    have hdec := split_at_two a i j x hi (Nat.le_of_lt hlt) hj
    have hmid : ((a.drop (i + 1)).take (j - i)).length = j - i := by
      rw [List.length_take, List.length_drop]
      omega
    have hpre : (a.take i).length = i := by
      rw [List.length_take]; omega
    generalize a.take i = pre at hdec hpre
    generalize (a.drop (i + 1)).take (j - i) = mid at hdec hmid
    generalize a.drop (j + 1) = post at hdec
    subst hdec
    have h1 := moveUp_append x post mid pre
    rw [hmid, hpre] at h1
    rw [h1]
    have h2 := eraseIdx_append_length x (mid ++ post) pre
    rw [hpre] at h2
    have h2' : (pre ++ x :: mid ++ post).eraseIdx i = pre ++ mid ++ post := by
      rw [← List.append_assoc] at h2
      simpa using h2
    rw [h2']
    have h3 := insertIdx_append_length x post (pre ++ mid)
    have hl : (pre ++ mid).length = j := by
      rw [List.length_append, hmid, hpre]; omega
    rw [hl] at h3
    exact h3.symm
  · rw [if_neg hlt]
    have hji : j ≤ i := Nat.not_lt.mp hlt
    have hdec := split_at_two_down a i j x hi hji
    have hmid : ((a.drop j).take (i - j)).length = i - j := by
      rw [List.length_take, List.length_drop]
      omega
    have hpre : (a.take j).length = j := by
      rw [List.length_take]; omega
    generalize a.take j = pre at hdec hpre
    generalize (a.drop j).take (i - j) = mid at hdec hmid
    generalize a.drop (i + 1) = post at hdec
    subst hdec
    have h1 := moveDown_append x pre (i - j) mid post hmid
    have e : pre.length + (i - j) = i := by omega
    rw [e] at h1
    rw [h1]
    have h2 := eraseIdx_append_length x post (pre ++ mid)
    have hl : (pre ++ mid).length = i := by
      rw [List.length_append, hmid, hpre]; omega
    rw [hl] at h2
    rw [h2]
    have h3 := insertIdx_append_length x (mid ++ post) pre
    rw [hpre] at h3
    rw [List.append_assoc pre mid post, h3]
    simp

theorem getElem?_insertIdx_self {α : Type} (x : α) :
    ∀ (l : List α) (j : Nat), j ≤ l.length → (List.insertIdx j x l)[j]? = some x := by
  intro l j h
  rw [List.getElem?_eq_getElem (by rw [List.length_insertIdx _ _ h]; omega)]
  rw [List.getElem_insertIdx_self _ _ _ h]

/-- C22.  `MoveInternal(from, to)` with both indices below the entry count
leaves the array with the entry of index `from` taken out and put in again at
index `to`: that entry is then at index `to`, and without it the array is the
original without it, so all other entries keep their order.  With an index at
or past the count nothing changes; the groups are never touched. -/
theorem C22_move_internal_contract (m : CPwManager) (dwFrom dwTo : Nat) :
    (∀ e, m.m_pEntries[dwFrom]? = some e → dwTo < m.m_pEntries.length →
        (m.MoveInternal dwFrom dwTo).m_pEntries
            = List.insertIdx dwTo e (m.m_pEntries.eraseIdx dwFrom)
          ∧ (m.MoveInternal dwFrom dwTo).m_pEntries[dwTo]? = some e
          ∧ (m.MoveInternal dwFrom dwTo).m_pEntries.eraseIdx dwTo
              = m.m_pEntries.eraseIdx dwFrom
          ∧ (m.MoveInternal dwFrom dwTo).m_pEntries.length = m.m_pEntries.length)
    ∧ ((m.m_pEntries.length ≤ dwFrom ∨ m.m_pEntries.length ≤ dwTo) →
        m.MoveInternal dwFrom dwTo = m)
    ∧ (m.MoveInternal dwFrom dwTo).m_pGroups = m.m_pGroups := by
  refine ⟨fun e he hto => ?_, fun h => ?_, ?_⟩
  · have hfrom : dwFrom < m.m_pEntries.length := by
      by_contra h
      rw [List.getElem?_eq_none (Nat.not_lt.mp h)] at he
      exact Option.noConfusion he
    have hlen : dwTo ≤ (m.m_pEntries.eraseIdx dwFrom).length := by
      rw [List.length_eraseIdx_of_lt hfrom]; omega
    have key : (m.MoveInternal dwFrom dwTo).m_pEntries
        = List.insertIdx dwTo e (m.m_pEntries.eraseIdx dwFrom) := by
      unfold MoveInternal
      by_cases heq : dwFrom = dwTo
      · subst heq
        simp only [beq_self_eq_true, if_true]
        have hdec := split_at_two_down m.m_pEntries dwFrom dwFrom e he (le_refl _)
        simp only [Nat.sub_self, List.take_zero, List.append_nil] at hdec
        have hpre : (m.m_pEntries.take dwFrom).length = dwFrom := by
          rw [List.length_take]; omega
        generalize m.m_pEntries.take dwFrom = pre at hdec hpre
        generalize m.m_pEntries.drop (dwFrom + 1) = post at hdec
        rw [hdec, ← hpre, eraseIdx_append_length, insertIdx_append_length]
      · have h1 : (dwFrom == dwTo) = false := by simpa using heq
        simp only [h1, Bool.false_eq_true, if_false, ge_iff_le, Nat.not_le.mpr hfrom,
          Nat.not_le.mpr hto]
        exact move_eq m.m_pEntries dwFrom dwTo e he hto
    refine ⟨key, ?_, ?_, ?_⟩
    · rw [key]; exact getElem?_insertIdx_self e _ _ hlen
    · rw [key, List.eraseIdx_insertIdx]
    · rw [key, List.length_insertIdx _ _ hlen, List.length_eraseIdx_of_lt hfrom]; omega
  · unfold MoveInternal
    rcases h with h | h
    · split_ifs <;> rfl
    · split_ifs <;> rfl
  · unfold MoveInternal
    split_ifs <;> rfl

theorem map_eraseIdx {α β : Type} (f : α → β) (l : List α) (i : Nat) :
    (l.eraseIdx i).map f = (l.map f).eraseIdx i := by
  rw [List.eraseIdx_eq_take_drop_succ, List.eraseIdx_eq_take_drop_succ, List.map_append,
    List.map_take, List.map_drop]

/-- C24.  `MoveGroup(from, to)` with `from != to` returns `FALSE` and changes
nothing when an index is at or past the group count.  Otherwise it returns
`TRUE`; apart from the levels the group array is the original with the group of
index `from` taken out and put in again at index `to`, so that group is at index
`to` and the other groups keep their order and every field other than the level;
the levels satisfy the tree invariant; the entries are untouched. -/
theorem C24_move_group_contract (m : CPwManager) (dwFrom dwTo : Nat) (hne : dwFrom ≠ dwTo) :
    ((m.m_pGroups.length ≤ dwFrom ∨ m.m_pGroups.length ≤ dwTo) →
        m.MoveGroup dwFrom dwTo = (false, m))
    ∧ (∀ g, m.m_pGroups[dwFrom]? = some g → dwTo < m.m_pGroups.length →
        (m.MoveGroup dwFrom dwTo).1 = true
        ∧ (m.MoveGroup dwFrom dwTo).2.m_pGroups.map (fun x => { x with usLevel := 0 })
            = (List.insertIdx dwTo g (m.m_pGroups.eraseIdx dwFrom)).map
                (fun x => { x with usLevel := 0 })
        ∧ ((m.MoveGroup dwFrom dwTo).2.m_pGroups[dwTo]?).map (fun x => { x with usLevel := 0 })
            = some { g with usLevel := 0 }
        ∧ ((m.MoveGroup dwFrom dwTo).2.m_pGroups.eraseIdx dwTo).map
              (fun x => { x with usLevel := 0 })
            = (m.m_pGroups.eraseIdx dwFrom).map (fun x => { x with usLevel := 0 })
        ∧ (m.MoveGroup dwFrom dwTo).2.m_pGroups.length = m.m_pGroups.length
        ∧ TreeInvariant (m.MoveGroup dwFrom dwTo).2.m_pGroups
        ∧ (m.MoveGroup dwFrom dwTo).2.m_pEntries = m.m_pEntries) := by
  have h1 : (dwFrom == dwTo) = false := by simpa using hne
  refine ⟨fun h => ?_, fun g hg hto => ?_⟩
  · unfold MoveGroup
    simp only [h1, Bool.false_eq_true, if_false, ge_iff_le]
    rcases h with h | h
    · rw [if_pos h]
    · split_ifs <;> rfl
  · have hfrom : dwFrom < m.m_pGroups.length := by
      by_contra h
      rw [List.getElem?_eq_none (Nat.not_lt.mp h)] at hg
      exact Option.noConfusion hg
    have hlen : dwTo ≤ (m.m_pGroups.eraseIdx dwFrom).length := by
      rw [List.length_eraseIdx_of_lt hfrom]; omega
    have hres : m.MoveGroup dwFrom dwTo
        = (true, FixGroupTree
            { m with m_pGroups := List.insertIdx dwTo g (m.m_pGroups.eraseIdx dwFrom) }) := by
      unfold MoveGroup
      simp only [h1, Bool.false_eq_true, if_false, ge_iff_le, Nat.not_le.mpr hfrom,
        Nat.not_le.mpr hto]
      rw [move_eq m.m_pGroups dwFrom dwTo g hg hto]
    have hmap : (m.MoveGroup dwFrom dwTo).2.m_pGroups.map (fun x => { x with usLevel := 0 })
        = (List.insertIdx dwTo g (m.m_pGroups.eraseIdx dwFrom)).map
            (fun x => { x with usLevel := 0 }) := by
      rw [hres]
      exact FixGroupTree_fields _
    refine ⟨by rw [hres], hmap, ?_, ?_, ?_, ?_, ?_⟩
    · rw [← List.getElem?_map, hmap, List.getElem?_map, getElem?_insertIdx_self g _ _ hlen]
      rfl
    · rw [map_eraseIdx, hmap, ← map_eraseIdx, List.eraseIdx_insertIdx]
    · have := congrArg List.length hmap
      simp only [List.length_map] at this
      rw [this, List.length_insertIdx _ _ hlen, List.length_eraseIdx_of_lt hfrom]
      omega
    · rw [hres]
      exact FixGroupTree_tree _
    · rw [hres]
      exact FixGroupTree_entries _

/-- Moving the group "mail" of the sample tree from index 1 to index 3: the
order becomes Net, Bank, Home, mail, and "mail" is lifted to level 1 under
"Home". -/
theorem C24_move_group_contract_witness :
    (sampleTree.MoveGroup 1 3).1 = true
    ∧ (sampleTree.MoveGroup 1 3).2.m_pGroups.map (fun x => { x with usLevel := 0 })
        = (List.insertIdx 3 (sampleGroupAt "mail" 12 1) (sampleTree.m_pGroups.eraseIdx 1)).map
            (fun x => { x with usLevel := 0 })
    ∧ TreeInvariant (sampleTree.MoveGroup 1 3).2.m_pGroups :=
  have h := (C24_move_group_contract sampleTree 1 3 (by decide)).2 (sampleGroupAt "mail" 12 1)
    rfl (by decide)
  ⟨h.1, h.2.1, h.2.2.2.2.2.1⟩

theorem GetEntryByGroupN_loop_spec (idGroup dwIndex : Nat) :
    ∀ (es : List PW_ENTRY) (cur cnt : Nat), cnt ≤ dwIndex →
      (∃ pre y post, es = pre ++ y :: post ∧ y.uGroupId = idGroup
          ∧ (pre.filter (fun e => e.uGroupId == idGroup)).length + cnt = dwIndex
          ∧ GetEntryByGroupN.loop idGroup dwIndex cur cnt es = cur + pre.length)
      ∨ ((es.filter (fun e => e.uGroupId == idGroup)).length + cnt ≤ dwIndex
          ∧ GetEntryByGroupN.loop idGroup dwIndex cur cnt es = DWORD_MAX) := by
  intro es
  induction es with
  | nil =>
    intro cur cnt h
    right
    exact ⟨by simpa using h, rfl⟩
  | cons e es ih =>
    intro cur cnt h
    unfold GetEntryByGroupN.loop
    by_cases hg : e.uGroupId = idGroup
    · have hb : (idGroup == e.uGroupId) = true := by simp [hg]
      rw [if_pos hb]
      by_cases hc : dwIndex = cnt
      · left
        refine ⟨[], e, es, rfl, hg, by simp [hc], ?_⟩
        simp [hc]
      · have hb2 : (dwIndex == cnt) = false := by simpa using hc
        simp only [hb2, Bool.false_eq_true, if_false]
        rcases ih (cur + 1) (cnt + 1) (by omega) with ⟨pre, y, post, h1, h2, h3, h4⟩ | ⟨h1, h2⟩
        · left
          refine ⟨e :: pre, y, post, by rw [h1]; rfl, h2, ?_, ?_⟩
          · simp only [List.filter_cons, hg, beq_self_eq_true, if_true, List.length_cons]
            omega
          · rw [h4, List.length_cons]; omega
        · right
          refine ⟨?_, h2⟩
          simp only [List.filter_cons, hg, beq_self_eq_true, if_true, List.length_cons]
          omega
    · have hb : (idGroup == e.uGroupId) = false := by
        simp only [beq_eq_false_iff_ne, ne_eq]
        exact fun h => hg h.symm
      simp only [hb, Bool.false_eq_true, if_false]
      have hf : (e.uGroupId == idGroup) = false := by simpa using hg
      rcases ih (cur + 1) cnt h with ⟨pre, y, post, h1, h2, h3, h4⟩ | ⟨h1, h2⟩
      · left
        refine ⟨e :: pre, y, post, by rw [h1]; rfl, h2, ?_, ?_⟩
        · simp only [List.filter_cons, hf, Bool.false_eq_true, if_false]
          exact h3
        · rw [h4, List.length_cons]; omega
      · right
        refine ⟨?_, h2⟩
        simp only [List.filter_cons, hf, Bool.false_eq_true, if_false]
        exact h1

/-- What `GetEntryByGroupN` returns for a group id other than `DWORD_MAX`: the
array index of the entry number `dwIndex` of the group, or `DWORD_MAX` when the
group has no more than `dwIndex` entries. -/
theorem GetEntryByGroupN_spec (m : CPwManager) (idGroup dwIndex : Nat)
    (hid : idGroup ≠ DWORD_MAX) :
    (∃ i y, m.GetEntryByGroupN idGroup dwIndex = i ∧ m.m_pEntries[i]? = some y
        ∧ y.uGroupId = idGroup
        ∧ ((m.m_pEntries.take i).filter (fun e => e.uGroupId == idGroup)).length = dwIndex
        ∧ (m.m_pEntries.filter (fun e => e.uGroupId == idGroup))[dwIndex]? = some y)
    ∨ ((m.m_pEntries.filter (fun e => e.uGroupId == idGroup)).length ≤ dwIndex
        ∧ m.GetEntryByGroupN idGroup dwIndex = DWORD_MAX) := by
  unfold GetEntryByGroupN
  have h1 : (idGroup == DWORD_MAX) = false := by simpa using hid
  simp only [h1, Bool.false_eq_true, if_false, ge_iff_le]
  by_cases hlen : m.m_pEntries.length ≤ dwIndex
  · right
    rw [if_pos hlen]
    exact ⟨le_trans (List.length_filter_le _ _) hlen, rfl⟩
  · rw [if_neg hlen]
    rcases GetEntryByGroupN_loop_spec idGroup dwIndex m.m_pEntries 0 0 (Nat.zero_le _) with
      ⟨pre, y, post, h1, h2, h3, h4⟩ | ⟨h1, h2⟩
    · left
      refine ⟨pre.length, y, by rw [h4]; omega, ?_, h2, ?_, ?_⟩
      · rw [h1, List.getElem?_append_right (le_refl _)]
        simp
      · rw [h1, List.take_left]
        omega
      · rw [h1, List.filter_append, List.getElem?_append_right (by omega)]
        have hy : (y.uGroupId == idGroup) = true := by simp [h2]
        simp only [List.filter_cons, hy, if_true]
        have : dwIndex - (pre.filter (fun e => e.uGroupId == idGroup)).length = 0 := by omega
        rw [this]
        simp
    · right
      exact ⟨by omega, h2⟩

theorem filter_move_up {α : Type} (p : α → Bool) (pre mid post : List α) (x : α)
    (hp : p x = true) :
    (pre ++ mid ++ x :: post).filter p
      = List.insertIdx ((pre ++ mid).filter p).length x
          (((pre ++ x :: mid ++ post).filter p).eraseIdx (pre.filter p).length) := by
  have e1 : (pre ++ x :: mid ++ post).filter p
      = pre.filter p ++ x :: (mid.filter p ++ post.filter p) := by
    simp [List.filter_append, List.filter_cons, hp]
  have e2 : ((pre ++ x :: mid ++ post).filter p).eraseIdx (pre.filter p).length
      = (pre ++ mid).filter p ++ post.filter p := by
    rw [e1, eraseIdx_append_length]
    simp [List.filter_append]
  rw [e2, insertIdx_append_length]
  simp [List.filter_append, List.filter_cons, hp]

theorem filter_move_down {α : Type} (p : α → Bool) (pre mid post : List α) (x : α)
    (hp : p x = true) :
    (pre ++ x :: mid ++ post).filter p
      = List.insertIdx (pre.filter p).length x
          (((pre ++ mid ++ x :: post).filter p).eraseIdx ((pre ++ mid).filter p).length) := by
  have e1 : (pre ++ mid ++ x :: post).filter p
      = (pre ++ mid).filter p ++ x :: post.filter p := by
    simp [List.filter_append, List.filter_cons, hp]
  have e2 : ((pre ++ mid ++ x :: post).filter p).eraseIdx ((pre ++ mid).filter p).length
      = pre.filter p ++ (mid.filter p ++ post.filter p) := by
    rw [e1, eraseIdx_append_length]
    simp [List.filter_append]
  rw [e2, insertIdx_append_length]
  simp [List.filter_append, List.filter_cons, hp]

theorem filter_move_others {α : Type} (p : α → Bool) (pre mid post : List α) (x : α)
    (hp : p x = true) :
    (pre ++ mid ++ x :: post).filter (fun e => !p e)
      = (pre ++ x :: mid ++ post).filter (fun e => !p e) := by
  simp [List.filter_append, List.filter_cons, hp]

theorem filter_take_succ {α : Type} (p : α → Bool) (l : List α) (j : Nat) (y : α)
    (hj : l[j]? = some y) (hp : p y = true) :
    ((l.take (j + 1)).filter p).length = ((l.take j).filter p).length + 1 := by
  rw [List.take_succ, hj]
  simp [List.filter_append, List.filter_cons, hp]

theorem exists_split_up {α : Type} (a : List α) (i j : Nat) (x : α) (hi : a[i]? = some x)
    (hij : i ≤ j) (hj : j < a.length) :
    ∃ pre mid post, a = pre ++ x :: mid ++ post ∧ pre.length = i ∧ mid.length = j - i := by
  refine ⟨a.take i, (a.drop (i + 1)).take (j - i), a.drop (j + 1),
    split_at_two a i j x hi hij hj, ?_, ?_⟩
  · rw [List.length_take]; omega
  · rw [List.length_take, List.length_drop]; omega

theorem exists_split_down {α : Type} (a : List α) (i j : Nat) (x : α) (hi : a[i]? = some x)
    (hji : j ≤ i) :
    ∃ pre mid post, a = pre ++ mid ++ x :: post ∧ pre.length = j ∧ mid.length = i - j := by
  have hil : i < a.length := by
    by_contra h
    rw [List.getElem?_eq_none (Nat.not_lt.mp h)] at hi
    exact Option.noConfusion hi
  refine ⟨a.take j, (a.drop j).take (i - j), a.drop (i + 1),
    split_at_two_down a i j x hi hji, ?_, ?_⟩
  · rw [List.length_take]; omega
  · rw [List.length_take, List.length_drop]; omega

/-- The walk of `MoveInternal` between two entries that satisfy `p`, seen
through the filter: within the entries that satisfy `p` the moved entry goes
from its place to the place of the other, and the entries that do not satisfy
`p` keep their sequence. -/
theorem filter_move {α : Type} (p : α → Bool) (a : List α) (i j : Nat) (x y : α)
    (hi : a[i]? = some x) (hj : a[j]? = some y) (hx : p x = true) (hy : p y = true) :
    (List.insertIdx j x (a.eraseIdx i)).filter p
        = List.insertIdx ((a.take j).filter p).length x
            ((a.filter p).eraseIdx ((a.take i).filter p).length)
    ∧ (List.insertIdx j x (a.eraseIdx i)).filter (fun e => !p e)
        = a.filter (fun e => !p e) := by
  have hjl : j < a.length := by
    by_contra h
    rw [List.getElem?_eq_none (Nat.not_lt.mp h)] at hj
    exact Option.noConfusion hj
  rw [← move_eq a i j x hi hjl]
  by_cases hlt : i < j
  · rw [if_pos hlt]
    have hcount := filter_take_succ p a j y hj hy
    obtain ⟨pre, mid, post, hdec, hpre, hmid⟩ := exists_split_up a i j x hi (Nat.le_of_lt hlt) hjl
    subst hdec
    have ht1 : (pre ++ x :: mid ++ post).take (j + 1) = pre ++ x :: mid := by
      apply List.take_left'
      simp only [List.length_append, List.length_cons]
      omega
    have ht2 : (pre ++ x :: mid ++ post).take i = pre := by
      rw [List.append_assoc]
      exact List.take_left' hpre
    rw [ht1] at hcount
    have hk : (((pre ++ x :: mid ++ post).take j).filter p).length
        = ((pre ++ mid).filter p).length := by
      simp only [List.filter_append, List.filter_cons, hx, if_true, List.length_append,
        List.length_cons] at hcount ⊢
      omega
    rw [hk, ht2]
    have h1 := moveUp_append x post mid pre
    rw [hmid, hpre] at h1
    rw [h1]
    exact ⟨filter_move_up p pre mid post x hx, filter_move_others p pre mid post x hx⟩
  · rw [if_neg hlt]
    have hji : j ≤ i := Nat.not_lt.mp hlt
    obtain ⟨pre, mid, post, hdec, hpre, hmid⟩ := exists_split_down a i j x hi hji
    subst hdec
    have ht1 : (pre ++ mid ++ x :: post).take i = pre ++ mid := by
      apply List.take_left'
      simp only [List.length_append]
      omega
    have ht2 : (pre ++ mid ++ x :: post).take j = pre := by
      rw [List.append_assoc]
      exact List.take_left' hpre
    rw [ht1, ht2]
    have h1 := moveDown_append x pre (i - j) mid post hmid
    have e : pre.length + (i - j) = i := by omega
    rw [e] at h1
    rw [h1]
    exact ⟨filter_move_down p pre mid post x hx, (filter_move_others p pre mid post x hx).symm⟩

/-- C23.  For a group id other than `DWORD_MAX` (the value that stands for no
group) and group-relative indices `from` and `to` below the number of entries of
the group, `MoveInGroup` leaves the entries of the group, read in array order,
as the original sequence with its element number `from` taken out and put in
again at place `to`, and the sequence of the entries of all other groups as it
was.  When a group-relative index is not below the number of entries of the
group the database is unchanged. -/
theorem C23_move_in_group_contract (m : CPwManager) (idGroup dwFrom dwTo : Nat)
    (hid : idGroup ≠ DWORD_MAX) (hn : m.m_pEntries.length ≤ DWORD_MAX) :
    (∀ x, (m.m_pEntries.filter (fun e => e.uGroupId == idGroup))[dwFrom]? = some x →
        dwTo < (m.m_pEntries.filter (fun e => e.uGroupId == idGroup)).length →
        (m.MoveInGroup idGroup dwFrom dwTo).m_pEntries.filter (fun e => e.uGroupId == idGroup)
            = List.insertIdx dwTo x
                ((m.m_pEntries.filter (fun e => e.uGroupId == idGroup)).eraseIdx dwFrom)
          ∧ (m.MoveInGroup idGroup dwFrom dwTo).m_pEntries.filter
                (fun e => !(e.uGroupId == idGroup))
              = m.m_pEntries.filter (fun e => !(e.uGroupId == idGroup))
          ∧ (m.MoveInGroup idGroup dwFrom dwTo).m_pGroups = m.m_pGroups)
    ∧ (((m.m_pEntries.filter (fun e => e.uGroupId == idGroup)).length ≤ dwFrom
          ∨ (m.m_pEntries.filter (fun e => e.uGroupId == idGroup)).length ≤ dwTo) →
        m.MoveInGroup idGroup dwFrom dwTo = m) := by
  have hsub : (m.m_pEntries.filter (fun e => e.uGroupId == idGroup)).length
      ≤ m.m_pEntries.length := List.length_filter_le _ _
  refine ⟨fun x hx hto => ?_, fun h => ?_⟩
  · have hfrom : dwFrom < (m.m_pEntries.filter (fun e => e.uGroupId == idGroup)).length := by
      by_contra h
      rw [List.getElem?_eq_none (Nat.not_lt.mp h)] at hx
      exact Option.noConfusion hx
    by_cases heq : dwFrom = dwTo
    · subst heq
      have hm : m.MoveInGroup idGroup dwFrom dwFrom = m := by
        unfold MoveInGroup
        split_ifs <;> first | rfl | simp_all
      rw [hm]
      refine ⟨?_, rfl, rfl⟩
      obtain ⟨pre, mid, post, hdec, hpre, hmid⟩ :=
        exists_split_down _ dwFrom dwFrom x hx (le_refl _)
      rw [hdec]
      have hl : (pre ++ mid).length = dwFrom := by
        simp only [List.length_append]
        omega
      rw [← hl, eraseIdx_append_length, insertIdx_append_length]
    · rcases GetEntryByGroupN_spec m idGroup dwFrom hid with
        ⟨i, a, hi, hia, hga, hca, hsa⟩ | ⟨hc, -⟩
      · rcases GetEntryByGroupN_spec m idGroup dwTo hid with
          ⟨j, b, hj, hjb, hgb, hcb, hsb⟩ | ⟨hc, -⟩
        · have hil : i < m.m_pEntries.length := by
            by_contra h
            rw [List.getElem?_eq_none (Nat.not_lt.mp h)] at hia
            exact Option.noConfusion hia
          have hjl : j < m.m_pEntries.length := by
            by_contra h
            rw [List.getElem?_eq_none (Nat.not_lt.mp h)] at hjb
            exact Option.noConfusion hjb
          have hax : a = x := by
            rw [hx] at hsa
            exact (Option.some.inj hsa).symm
          subst hax
          have hij : i ≠ j := by
            intro h
            subst h
            rw [hca] at hcb
            exact heq hcb
          have hm : (m.MoveInGroup idGroup dwFrom dwTo).m_pEntries
              = List.insertIdx j a (m.m_pEntries.eraseIdx i)
              ∧ (m.MoveInGroup idGroup dwFrom dwTo).m_pGroups = m.m_pGroups := by
            unfold MoveInGroup
            have c1 : ¬ (m.m_pEntries.length ≤ dwFrom) := by omega
            have c2 : ¬ (m.m_pEntries.length ≤ dwTo) := by omega
            have c3 : dwFrom ≠ DWORD_MAX := by omega
            have c4 : dwTo ≠ DWORD_MAX := by omega
            have c5 : i ≠ DWORD_MAX := by omega
            have c6 : j ≠ DWORD_MAX := by omega
            have b3 : (dwFrom == DWORD_MAX) = false := by simpa using c3
            have b4 : (dwTo == DWORD_MAX) = false := by simpa using c4
            have b5 : (i == DWORD_MAX) = false := by simpa using c5
            have b6 : (j == DWORD_MAX) = false := by simpa using c6
            have b7 : (dwFrom == dwTo) = false := by simpa using heq
            simp only [ge_iff_le, c1, c2, b3, b4, b5, b6, b7, hi, hj, decide_False,
              Bool.or_self, Bool.false_eq_true, if_false]
            unfold MoveInternal
            have c7 : (i == j) = false := by simpa using hij
            simp only [c7, Bool.false_eq_true, if_false, ge_iff_le, Nat.not_le.mpr hil,
              Nat.not_le.mpr hjl]
            exact ⟨move_eq m.m_pEntries i j a hia hjl, trivial⟩
          have hpa : (fun e : PW_ENTRY => e.uGroupId == idGroup) a = true := by
            simp [hga]
          have hpb : (fun e : PW_ENTRY => e.uGroupId == idGroup) b = true := by
            simp [hgb]
          have key := filter_move (fun e : PW_ENTRY => e.uGroupId == idGroup) m.m_pEntries i j a b
            hia hjb hpa hpb
          rw [hca, hcb] at key
          rw [hm.1]
          exact ⟨key.1, key.2, hm.2⟩
        · omega
      · omega
  · unfold MoveInGroup
    by_cases c1 : m.m_pEntries.length ≤ dwFrom
    · simp [c1]
    by_cases c2 : m.m_pEntries.length ≤ dwTo
    · simp [c2]
    have hres : m.GetEntryByGroupN idGroup dwFrom = DWORD_MAX
        ∨ m.GetEntryByGroupN idGroup dwTo = DWORD_MAX := by
      rcases h with h | h
      · left
        rcases GetEntryByGroupN_spec m idGroup dwFrom hid with
          ⟨i, a, hi, hia, hga, hca, hsa⟩ | ⟨-, hr⟩
        · rw [List.getElem?_eq_none h] at hsa
          exact Option.noConfusion hsa
        · exact hr
      · right
        rcases GetEntryByGroupN_spec m idGroup dwTo hid with
          ⟨i, a, hi, hia, hga, hca, hsa⟩ | ⟨-, hr⟩
        · rw [List.getElem?_eq_none h] at hsa
          exact Option.noConfusion hsa
        · exact hr
    rcases hres with hr | hr
    · simp [hr]
    · simp [hr]

/-- In the sample with five entries, of which those at the array indices 0, 2
and 4 belong to group 11, moving the first entry of the group to its last
place gives the order 2, 4, 0 within the group (image ids) and leaves the
entries of group 12 in the order 1, 3. -/
theorem C23_move_in_group_contract_witness :
    ((sampleFive.MoveInGroup 11 0 2).m_pEntries.filter (fun e => e.uGroupId == 11)).map
        (fun e => e.uImageId) = [2, 4, 0]
    ∧ ((sampleFive.MoveInGroup 11 0 2).m_pEntries.filter (fun e => !(e.uGroupId == 11))).map
        (fun e => e.uImageId) = [1, 3]
    ∧ (sampleFive.MoveInGroup 11 0 2).m_pEntries.map (fun e => e.uImageId) = [1, 2, 3, 4, 0] :=
  have h := (C23_move_in_group_contract sampleFive 11 0 2 (by decide) (by decide)).1
    { sampleEntry with uGroupId := 11, uImageId := 0 } (by decide) (by decide)
  ⟨by rw [h.1]; decide, by rw [h.2.1]; decide, by decide⟩

/-! ## Searching -/

theorem startsWith_iff : ∀ (hay needle : List Nat),
    startsWith hay needle = true ↔ ∃ post, hay = needle ++ post := by
  intro hay needle
  induction needle generalizing hay with
  | nil =>
    cases hay <;> simp [startsWith]
  | cons n ns ih =>
    cases hay with
    | nil => simp [startsWith]
    | cons h hs =>
      simp only [startsWith, Bool.and_eq_true, beq_iff_eq, ih, List.cons_append,
        List.cons.injEq]
      constructor
      · rintro ⟨h1, post, h2⟩
        exact ⟨post, h1, h2⟩
      · rintro ⟨post, h1, h2⟩
        exact ⟨h1, post, h2⟩

theorem CStringFind_scan_spec (needle : List Nat) : ∀ (hay : List Nat) (i : Nat),
    (CStringFind.scan needle i hay ≠ -1 ↔ ∃ pre post, hay = pre ++ needle ++ post)
    ∧ (CStringFind.scan needle i hay ≠ -1 → (i : Int) ≤ CStringFind.scan needle i hay) := by
  intro hay
  induction hay with
  | nil =>
    intro i
    unfold CStringFind.scan
    by_cases h : startsWith [] needle = true
    · rw [if_pos h]
      refine ⟨⟨fun _ => ?_, fun _ => by omega⟩, fun _ => le_refl _⟩
      obtain ⟨post, hp⟩ := (startsWith_iff _ _).mp h
      exact ⟨[], post, by simpa using hp⟩
    · rw [if_neg h]
      refine ⟨⟨fun hc => absurd rfl hc, ?_⟩, fun hc => absurd rfl hc⟩
      rintro ⟨pre, post, hp⟩
      exfalso
      apply h
      rw [startsWith_iff]
      have h1 : pre = [] := by
        cases pre with
        | nil => rfl
        | cons a b => simp at hp
      subst h1
      exact ⟨post, by simpa using hp⟩
  | cons c cs ih =>
    intro i
    unfold CStringFind.scan
    by_cases h : startsWith (c :: cs) needle = true
    · rw [if_pos h]
      refine ⟨⟨fun _ => ?_, fun _ => by omega⟩, fun _ => le_refl _⟩
      obtain ⟨post, hp⟩ := (startsWith_iff _ _).mp h
      exact ⟨[], post, by simpa using hp⟩
    · rw [if_neg h]
      obtain ⟨ih1, ih2⟩ := ih (i + 1)
      refine ⟨⟨fun hc => ?_, ?_⟩, fun hc => ?_⟩
      · obtain ⟨pre, post, hp⟩ := ih1.mp hc
        exact ⟨c :: pre, post, by simp [hp]⟩
      · rintro ⟨pre, post, hp⟩
        apply ih1.mpr
        cases pre with
        | nil =>
          exfalso
          apply h
          rw [startsWith_iff]
          exact ⟨post, by simpa using hp⟩
        | cons a pre =>
          simp only [List.cons_append, List.cons.injEq] at hp
          exact ⟨pre, post, hp.2⟩
      · have := ih2 hc
        push_cast at this
        omega

theorem hit_iff (bCaseSensitive : Bool) (needle : List Nat) (psz : Option (List Nat)) :
    Find.hit bCaseSensitive (Find.text bCaseSensitive (some needle)) psz = true
      ↔ Contains bCaseSensitive needle psz := by
  unfold Find.hit Contains CStringFind
  rw [bne_iff_ne]
  exact (CStringFind_scan_spec _ _ 0).1

theorem tolower_star (c : Nat) : tolower c = 42 ↔ c = 42 := by
  unfold tolower
  split_ifs <;> omega

theorem text_star (bCaseSensitive : Bool) (needle : List Nat) :
    Find.text bCaseSensitive (some needle) = tstr "*" ↔ cstr needle = tstr "*" := by
  unfold Find.text
  have ht : tstr "*" = [42] := by decide
  rw [ht]
  cases bCaseSensitive
  · simp only [Option.getD_some, beq_self_eq_true, if_true]
    constructor
    · intro h
      cases hc : cstr needle with
      | nil => rw [hc] at h; simp at h
      | cons a t =>
        rw [hc] at h
        cases t with
        | nil =>
          simp only [List.map_cons, List.map_nil, List.cons.injEq, and_true] at h
          rw [(tolower_star a).mp h]
        | cons b t => simp at h
    · intro h
      rw [h]
      decide
  · simp

theorem text_nil (bCaseSensitive : Bool) (needle : List Nat) :
    (Find.text bCaseSensitive (some needle)).length = 0 ↔ cstr needle = [] := by
  unfold Find.text
  cases bCaseSensitive <;> simp

/-- The body of the loop of `Find` on an entry whose group exists whenever the
mask selects the group name: the database is left as it was, and the flag
tells whether a selected field contains the needle. -/
theorem Find_step_spec (E : Env) (F : PWMF) (m : CPwManager) (bCaseSensitive : Bool)
    (fieldFlags : Nat) (needle : List Nat) (i : Nat) (e : PW_ENTRY)
    (he : m.m_pEntries[i]? = some e)
    (hgrp : fieldFlags &&& F.PWMF_GROUPNAME ≠ 0 → (m.GetGroupById e.uGroupId).isSome = true) :
    ∃ b, Find.step E F m bCaseSensitive fieldFlags (Find.text bCaseSensitive (some needle)) i e
        = some (b, m)
      ∧ (b = true ↔ FindMatch E F m bCaseSensitive fieldFlags needle e) := by
  have he1 : (if fieldFlags &&& F.PWMF_PASSWORD != 0
      then m.LockEntryPassword E (m.UnlockEntryPassword E e) else e) = e := by
    split_ifs
    · exact lock_lock E m e
    · rfl
  have hm1 : ({ m with m_pEntries := m.m_pEntries.set i e } : CPwManager) = m := by
    rw [set_same_val _ _ _ he]
  unfold Find.step
  simp only [he1, hm1]
  unfold FindMatch
  by_cases c1 : (fieldFlags &&& F.PWMF_TITLE != 0
      && Find.hit bCaseSensitive (Find.text bCaseSensitive (some needle)) e.pszTitle) = true
  · rw [if_pos c1]
    refine ⟨true, rfl, fun _ => Or.inl ?_, fun _ => rfl⟩
    simpa [hit_iff] using c1
  rw [if_neg c1]
  have n1 : ¬ (fieldFlags &&& F.PWMF_TITLE ≠ 0 ∧ Contains bCaseSensitive needle e.pszTitle) := by
    simpa [hit_iff] using c1
  by_cases c2 : (fieldFlags &&& F.PWMF_USER != 0
      && Find.hit bCaseSensitive (Find.text bCaseSensitive (some needle)) e.pszUserName) = true
  · rw [if_pos c2]
    refine ⟨true, rfl, fun _ => Or.inr (Or.inl ?_), fun _ => rfl⟩
    simpa [hit_iff] using c2
  rw [if_neg c2]
  have n2 : ¬ (fieldFlags &&& F.PWMF_USER ≠ 0 ∧ Contains bCaseSensitive needle e.pszUserName) := by
    simpa [hit_iff] using c2
  by_cases c3 : (fieldFlags &&& F.PWMF_URL != 0
      && Find.hit bCaseSensitive (Find.text bCaseSensitive (some needle)) e.pszURL) = true
  · rw [if_pos c3]
    refine ⟨true, rfl, fun _ => Or.inr (Or.inr (Or.inl ?_)), fun _ => rfl⟩
    simpa [hit_iff] using c3
  rw [if_neg c3]
  have n3 : ¬ (fieldFlags &&& F.PWMF_URL ≠ 0 ∧ Contains bCaseSensitive needle e.pszURL) := by
    simpa [hit_iff] using c3
  by_cases c4 : (fieldFlags &&& F.PWMF_PASSWORD != 0
      && Find.hit bCaseSensitive (Find.text bCaseSensitive (some needle))
        (m.UnlockEntryPassword E e).pszPassword) = true
  · rw [if_pos c4]
    refine ⟨true, rfl, fun _ => Or.inr (Or.inr (Or.inr (Or.inl ?_))), fun _ => rfl⟩
    simpa [hit_iff] using c4
  rw [if_neg c4]
  have n4 : ¬ (fieldFlags &&& F.PWMF_PASSWORD ≠ 0
      ∧ Contains bCaseSensitive needle (m.UnlockEntryPassword E e).pszPassword) := by
    simpa [hit_iff] using c4
  by_cases c5 : (fieldFlags &&& F.PWMF_ADDITIONAL != 0
      && Find.hit bCaseSensitive (Find.text bCaseSensitive (some needle)) e.pszAdditional) = true
  · rw [if_pos c5]
    refine ⟨true, rfl, fun _ => Or.inr (Or.inr (Or.inr (Or.inr (Or.inl ?_)))), fun _ => rfl⟩
    simpa [hit_iff] using c5
  rw [if_neg c5]
  have n5 : ¬ (fieldFlags &&& F.PWMF_ADDITIONAL ≠ 0
      ∧ Contains bCaseSensitive needle e.pszAdditional) := by
    simpa [hit_iff] using c5
  by_cases c6 : (fieldFlags &&& F.PWMF_GROUPNAME != 0) = true
  · rw [if_pos c6]
    have hflag : fieldFlags &&& F.PWMF_GROUPNAME ≠ 0 := by simpa using c6
    have hsome := hgrp hflag
    obtain ⟨g, hg⟩ := Option.isSome_iff_exists.mp hsome
    have hgg : m.GetGroup (m.GetGroupByIdN e.uGroupId) = some g := by
      unfold GetGroupById at hg
      simp only [] at hg
      split_ifs at hg
      exact hg
    rw [hgg]
    simp only []
    by_cases c7 : Find.hit bCaseSensitive (Find.text bCaseSensitive (some needle))
        g.pszGroupName = true
    · rw [if_pos c7]
      refine ⟨true, rfl, fun _ => ?_, fun _ => rfl⟩
      exact Or.inr (Or.inr (Or.inr (Or.inr (Or.inr ⟨hflag, g, hg, (hit_iff _ _ _).mp c7⟩))))
    · rw [if_neg c7]
      refine ⟨false, rfl, fun h => Bool.noConfusion h, fun h => ?_⟩
      rcases h with h | h | h | h | h | ⟨_, g', hg', hc⟩
      · exact absurd h n1
      · exact absurd h n2
      · exact absurd h n3
      · exact absurd h n4
      · exact absurd h n5
      · rw [hg] at hg'
        cases hg'
        exact absurd ((hit_iff _ _ _).mpr hc) c7
  · rw [if_neg c6]
    refine ⟨false, rfl, fun h => Bool.noConfusion h, fun h => ?_⟩
    rcases h with h | h | h | h | h | ⟨hf, _⟩
    · exact absurd h n1
    · exact absurd h n2
    · exact absurd h n3
    · exact absurd h n4
    · exact absurd h n5
    · exact absurd (by simpa using hf) c6

theorem Find_loop_spec (E : Env) (F : PWMF) (m : CPwManager) (bCaseSensitive : Bool)
    (fieldFlags : Nat) (needle : List Nat)
    (hgrp : fieldFlags &&& F.PWMF_GROUPNAME ≠ 0 →
      ∀ e ∈ m.m_pEntries, (m.GetGroupById e.uGroupId).isSome = true) :
    ∀ (n i : Nat), i + n = m.m_pEntries.length →
      ∃ r, Find.loop E F bCaseSensitive fieldFlags (Find.text bCaseSensitive (some needle)) n i m
          = some (r, m)
        ∧ ((i ≤ r ∧ r < m.m_pEntries.length
              ∧ (∃ e, m.m_pEntries[r]? = some e
                  ∧ FindMatch E F m bCaseSensitive fieldFlags needle e)
              ∧ ∀ k e, i ≤ k → k < r → m.m_pEntries[k]? = some e →
                  ¬ FindMatch E F m bCaseSensitive fieldFlags needle e)
          ∨ (r = DWORD_MAX ∧ ∀ k e, i ≤ k → m.m_pEntries[k]? = some e →
                  ¬ FindMatch E F m bCaseSensitive fieldFlags needle e)) := by
  intro n
  induction n with
  | zero =>
    intro i hi
    refine ⟨DWORD_MAX, rfl, Or.inr ⟨rfl, fun k e hk he => ?_⟩⟩
    have : k < m.m_pEntries.length := by
      by_contra h
      rw [List.getElem?_eq_none (Nat.not_lt.mp h)] at he
      exact Option.noConfusion he
    omega
  | succ n ih =>
    intro i hi
    unfold Find.loop
    have hil : i < m.m_pEntries.length := by omega
    have hei : m.m_pEntries[i]? = some m.m_pEntries[i] := List.getElem?_eq_getElem hil
    rw [hei]
    simp only []
    obtain ⟨b, hb, hbm⟩ := Find_step_spec E F m bCaseSensitive fieldFlags needle i _ hei
      (fun hf => hgrp hf _ (List.getElem_mem hil))
    rw [hb]
    cases b with
    | true =>
      simp only []
      refine ⟨i, rfl, Or.inl ⟨le_refl _, hil, ⟨_, hei, hbm.mp rfl⟩, fun k e h1 h2 => ?_⟩⟩
      omega
    | false =>
      simp only []
      have hno : ¬ FindMatch E F m bCaseSensitive fieldFlags needle m.m_pEntries[i] := by
        intro h
        exact Bool.noConfusion (hbm.mpr h)
      obtain ⟨r, hr, hcase⟩ := ih (i + 1) (by omega)
      refine ⟨r, hr, ?_⟩
      rcases hcase with ⟨h1, h2, h3, h4⟩ | ⟨h1, h2⟩
      · left
        refine ⟨by omega, h2, h3, fun k e hk1 hk2 hke => ?_⟩
        by_cases hki : k = i
        · subst hki
          rw [hei] at hke
          cases hke
          exact hno
        · exact h4 k e (by omega) hk2 hke
      · right
        refine ⟨h1, fun k e hk1 hke => ?_⟩
        by_cases hki : k = i
        · subst hki
          rw [hei] at hke
          cases hke
          exact hno
        · exact h2 k e (by omega) hke

set_option maxRecDepth 100000 in
/-- C21, the claim as stated fails: in the sample tree with an entry whose
group does not exist, a search of the group names for "home" from index 0
reaches that entry and reads the name through the `NULL` that `GetGroup`
returns; no index is returned. -/
theorem C21_find_first_match_counterexample :
    sampleLost.Find (sampleEnv none) samplePWMF (some (tstr "home")) false
        samplePWMF.PWMF_GROUPNAME 0 = none
    ∧ cstr (tstr "home") ≠ [] ∧ cstr (tstr "home") ≠ tstr "*"
    ∧ (sampleLost.m_pEntries.map (fun e => (sampleLost.GetGroupById e.uGroupId).isSome))
        = [true, false, true] := by
  decide

/-- C21.  For a needle that is neither empty nor "*" and a database in which
every entry has a group whenever the mask selects the group name, `Find`
returns without changing the database (every locked password included); the
value returned is the least index `i >= nStart` whose entry has a field selected
by the mask (title, user name, URL, unlocked password, notes, name of its
group) that contains the needle, both in lower case when the search is not
case sensitive; it is `DWORD_MAX` exactly when there is no such index. -/
theorem C21_find_first_match (E : Env) (F : PWMF) (m : CPwManager) (needle : List Nat)
    (bCaseSensitive : Bool) (fieldFlags nStart : Nat)
    (hne : cstr needle ≠ []) (hstar : cstr needle ≠ tstr "*")
    (hn : m.m_pEntries.length ≤ DWORD_MAX)
    (hgrp : fieldFlags &&& F.PWMF_GROUPNAME ≠ 0 →
      ∀ e ∈ m.m_pEntries, (m.GetGroupById e.uGroupId).isSome = true) :
    ∃ r, m.Find E F (some needle) bCaseSensitive fieldFlags nStart = some (r, m)
      ∧ ((nStart ≤ r ∧ r ≠ DWORD_MAX
            ∧ (∃ e, m.m_pEntries[r]? = some e
                ∧ FindMatch E F m bCaseSensitive fieldFlags needle e)
            ∧ ∀ k e, nStart ≤ k → k < r → m.m_pEntries[k]? = some e →
                ¬ FindMatch E F m bCaseSensitive fieldFlags needle e)
        ∨ (r = DWORD_MAX ∧ ∀ k e, nStart ≤ k → m.m_pEntries[k]? = some e →
                ¬ FindMatch E F m bCaseSensitive fieldFlags needle e)) := by
  unfold Find
  by_cases hs : nStart ≥ m.m_pEntries.length
  · rw [if_pos hs]
    refine ⟨DWORD_MAX, rfl, Or.inr ⟨rfl, fun k e hk he => ?_⟩⟩
    have : k < m.m_pEntries.length := by
      by_contra h
      rw [List.getElem?_eq_none (Nat.not_lt.mp h)] at he
      exact Option.noConfusion he
    omega
  · rw [if_neg hs]
    simp only []
    have h1 : ((Find.text bCaseSensitive (some needle)).length == 0) = false := by
      rw [beq_eq_false_iff_ne]
      exact fun h => hne ((text_nil _ _).mp h)
    have h2 : (Find.text bCaseSensitive (some needle) == tstr "*") = false := by
      rw [beq_eq_false_iff_ne]
      exact fun h => hstar ((text_star _ _).mp h)
    simp only [h1, h2, Bool.or_self, Bool.false_eq_true, if_false]
    obtain ⟨r, hr, hcase⟩ := Find_loop_spec E F m bCaseSensitive fieldFlags needle hgrp
      (m.m_pEntries.length - nStart) nStart (by omega)
    refine ⟨r, hr, ?_⟩
    rcases hcase with ⟨h1, h2, h3, h4⟩ | h
    · exact Or.inl ⟨h1, by omega, h3, h4⟩
    · exact Or.inr h

set_option maxRecDepth 100000 in
/-- On the sample with the lost entry a search of the titles for "MM", not
case sensitive, from index 0 returns index 2 (the entry "Gamma"). -/
theorem C21_find_first_match_witness :
    ∃ r, sampleLost.Find (sampleEnv none) samplePWMF (some (tstr "MM")) false
        samplePWMF.PWMF_TITLE 0 = some (r, sampleLost) ∧ r = 2 := by
  obtain ⟨r, hr, h⟩ := C21_find_first_match (sampleEnv none) samplePWMF sampleLost (tstr "MM")
    false samplePWMF.PWMF_TITLE 0 (by decide) (by decide) (by decide)
    (fun h => absurd (by decide) h)
  refine ⟨r, hr, ?_⟩
  have hv : (sampleLost.Find (sampleEnv none) samplePWMF (some (tstr "MM")) false
      samplePWMF.PWMF_TITLE 0).map (fun x => x.1) = some 2 := by decide
  rw [hr] at hv
  exact Option.some.inj hv

/-! ## Backup of an entry -/

theorem getElem?_swapAt {α : Type} (l : List α) (i j t : Nat) (hi : i < l.length)
    (hj : j < l.length) :
    (swapAt l i j)[t]? = if t = j then l[i]? else if t = i then l[j]? else l[t]? := by
  unfold swapAt
  rw [List.getElem?_eq_getElem hi, List.getElem?_eq_getElem hj]
  simp only [List.getElem?_set, List.length_set]
  by_cases h1 : t = j
  · subst h1
    simp [hi, hj]
  · by_cases h2 : t = i
    · subst h2
      simp [hi, hj, h1, Ne.symm h1]
    · simp [h1, h2, Ne.symm h1, Ne.symm h2]

theorem swapAt_self {α : Type} (l : List α) (i : Nat) : swapAt l i i = l := by
  unfold swapAt
  cases h : l[i]? with
  | none => rfl
  | some x =>
    simp only []
    rw [set_same_val l i x h, set_same_val l i x h]

theorem swapAt_comm {α : Type} (l : List α) (i j : Nat) : swapAt l i j = swapAt l j i := by
  unfold swapAt
  cases hi : l[i]? <;> cases hj : l[j]? <;> simp only []
  rename_i u v
  by_cases hij : i = j
  · subst hij
    rw [hi] at hj
    cases hj
    rfl
  · exact List.set_comm _ _ _ hij

theorem getD_swapAt {α : Type} (l : List α) (i j t : Nat) (d : α) (hi : i < l.length)
    (hj : j < l.length) :
    (swapAt l i j).getD t d = if t = j then l.getD i d else if t = i then l.getD j d
      else l.getD t d := by
  simp only [List.getD_eq_getElem?_getD, getElem?_swapAt l i j t hi hj]
  split_ifs <;> rfl

theorem set_getD_self {α : Type} (l : List α) (i : Nat) (d : α) : l.set i (l.getD i d) = l := by
  by_cases h : i < l.length
  · rw [List.getD_eq_getElem _ _ h]
    exact set_getElem_same l i h
  · exact List.set_eq_of_length_le (Nat.not_lt.mp h)

theorem SortGroup_relock (E : Env) (m : CPwManager) (f : Nat) (i j : Nat) (es : List PW_ENTRY) :
    (if f == 3 then
        (es.set i (m.LockEntryPassword E (m.UnlockEntryPassword E (es.getD i PW_ENTRY.zero)))).set
          j (m.LockEntryPassword E (m.UnlockEntryPassword E (es.getD j PW_ENTRY.zero)))
      else es) = es := by
  split_ifs
  · have h1 : m.LockEntryPassword E (m.UnlockEntryPassword E (es.getD i PW_ENTRY.zero))
        = es.getD i PW_ENTRY.zero := lock_lock E m _
    have h2 : m.LockEntryPassword E (m.UnlockEntryPassword E (es.getD j PW_ENTRY.zero))
        = es.getD j PW_ENTRY.zero := lock_lock E m _
    rw [h1, h2, set_getD_self, set_getD_self]
  · rfl

theorem SortGroup_inner_step (E : Env) (m : CPwManager) (f : Nat) (p : List Nat)
    (k j min : Nat) (es : List PW_ENTRY) :
    SortGroup.inner E m f p (k + 1) j min es
      = SortGroup.inner E m f p k (j + 1)
          (if SortGroup.takes E m f (es.getD (p.getD j 0) PW_ENTRY.zero)
            (es.getD (p.getD min 0) PW_ENTRY.zero) then j else min) es := by
  conv_lhs => unfold SortGroup.inner
  simp only [SortGroup_relock]

theorem SortGroup_inner_snd (E : Env) (m : CPwManager) (f : Nat) (p : List Nat) :
    ∀ (k j min : Nat) (es : List PW_ENTRY), (SortGroup.inner E m f p k j min es).2 = es := by
  intro k
  induction k with
  | zero => intro j min es; rfl
  | succ k ih =>
    intro j min es
    rw [SortGroup_inner_step, ih]

/-- The selection of the inner loop of `SortGroup`: the index returned is
`min` or one of the indices visited, and when the comparison is transitive no
record visited, nor the one at `min`, is taken before the record at it. -/
theorem SortGroup_inner_fst (E : Env) (m : CPwManager) (f : Nat) (p : List Nat)
    (es : List PW_ENTRY)
    (htr : ∀ a b c, SortGroup.takes E m f a b = true → SortGroup.takes E m f b c = true →
      SortGroup.takes E m f a c = true)
    (hirr : ∀ a, SortGroup.takes E m f a a = false) :
    ∀ (k j min : Nat) (P : Nat → Prop),
      (∀ t, P t → SortGroup.takes E m f (es.getD (p.getD t 0) PW_ENTRY.zero)
        (es.getD (p.getD min 0) PW_ENTRY.zero) = false) →
      ((SortGroup.inner E m f p k j min es).1 = min
        ∨ (j ≤ (SortGroup.inner E m f p k j min es).1
            ∧ (SortGroup.inner E m f p k j min es).1 < j + k))
      ∧ ∀ t, (P t ∨ (j ≤ t ∧ t < j + k)) →
          SortGroup.takes E m f (es.getD (p.getD t 0) PW_ENTRY.zero)
            (es.getD (p.getD (SortGroup.inner E m f p k j min es).1 0) PW_ENTRY.zero) = false := by
  intro k
  induction k with
  | zero =>
    intro j min P hP
    refine ⟨Or.inl rfl, fun t ht => ?_⟩
    rcases ht with ht | ht
    · exact hP t ht
    · omega
  | succ k ih =>
    intro j min P hP
    rw [SortGroup_inner_step]
    by_cases hc : SortGroup.takes E m f (es.getD (p.getD j 0) PW_ENTRY.zero)
        (es.getD (p.getD min 0) PW_ENTRY.zero) = true
    · rw [if_pos hc]
      have hP' : ∀ t, (P t ∨ t = j) → SortGroup.takes E m f (es.getD (p.getD t 0) PW_ENTRY.zero)
          (es.getD (p.getD j 0) PW_ENTRY.zero) = false := by
        intro t ht
        rcases ht with ht | ht
        · by_contra hcon
          have h1 : SortGroup.takes E m f (es.getD (p.getD t 0) PW_ENTRY.zero)
              (es.getD (p.getD j 0) PW_ENTRY.zero) = true := by simpa using hcon
          have := htr _ _ _ h1 hc
          rw [hP t ht] at this
          exact Bool.noConfusion this
        · rw [ht]
          exact hirr _
      obtain ⟨h1, h2⟩ := ih (j + 1) j (fun t => P t ∨ t = j) hP'
      refine ⟨?_, fun t ht => h2 t ?_⟩
      · rcases h1 with h1 | h1
        · right; rw [h1]; omega
        · right; omega
      · rcases ht with ht | ht
        · exact Or.inl (Or.inl ht)
        · by_cases hj : t = j
          · exact Or.inl (Or.inr hj)
          · right; omega
    · rw [if_neg hc]
      have hcf : SortGroup.takes E m f (es.getD (p.getD j 0) PW_ENTRY.zero)
          (es.getD (p.getD min 0) PW_ENTRY.zero) = false := by simpa using hc
      have hP' : ∀ t, (P t ∨ t = j) → SortGroup.takes E m f (es.getD (p.getD t 0) PW_ENTRY.zero)
          (es.getD (p.getD min 0) PW_ENTRY.zero) = false := by
        intro t ht
        rcases ht with ht | ht
        · exact hP t ht
        · rw [ht]; exact hcf
      obtain ⟨h1, h2⟩ := ih (j + 1) min (fun t => P t ∨ t = j) hP'
      refine ⟨?_, fun t ht => h2 t ?_⟩
      · rcases h1 with h1 | h1
        · left; exact h1
        · right; omega
      · rcases ht with ht | ht
        · exact Or.inl (Or.inl ht)
        · by_cases hj : t = j
          · exact Or.inl (Or.inr hj)
          · right; omega

/-- The inner loop keeps `min` when no record visited is taken before the one
at `min`. -/
theorem SortGroup_inner_keep (E : Env) (m : CPwManager) (f : Nat) (p : List Nat)
    (es : List PW_ENTRY) :
    ∀ (k j min : Nat),
      (∀ t, j ≤ t → t < j + k → SortGroup.takes E m f (es.getD (p.getD t 0) PW_ENTRY.zero)
        (es.getD (p.getD min 0) PW_ENTRY.zero) = false) →
      SortGroup.inner E m f p k j min es = (min, es) := by
  intro k
  induction k with
  | zero => intro j min _; rfl
  | succ k ih =>
    intro j min h
    rw [SortGroup_inner_step, h j (le_refl _) (by omega)]
    simp only [Bool.false_eq_true, if_false]
    exact ih (j + 1) min (fun t h1 h3 => h t (by omega) (by omega))

theorem getD_inj_of_nodup (p : List Nat) (hp : p.Nodup) (a b : Nat) (ha : a < p.length)
    (hb : b < p.length) : p.getD a 0 = p.getD b 0 ↔ a = b := by
  rw [List.getD_eq_getElem _ _ ha, List.getD_eq_getElem _ _ hb]
  exact hp.getElem_inj_iff

theorem getD_mem (p : List Nat) (a : Nat) (ha : a < p.length) : p.getD a 0 ∈ p := by
  rw [List.getD_eq_getElem _ _ ha]
  exact List.getElem_mem ha

/-- The record behind `p[t]` after the exchange of `*p[r]` and `*p[i]`. -/
theorem SortGroup_swap_read (p : List Nat) (hp : p.Nodup) (es : List PW_ENTRY)
    (hv : ∀ x ∈ p, x < es.length) (i r t : Nat) (hi : i < p.length) (hr : r < p.length)
    (ht : t < p.length) :
    (swapAt es (p.getD r 0) (p.getD i 0)).getD (p.getD t 0) PW_ENTRY.zero
      = if t = i then es.getD (p.getD r 0) PW_ENTRY.zero
        else if t = r then es.getD (p.getD i 0) PW_ENTRY.zero
        else es.getD (p.getD t 0) PW_ENTRY.zero := by
  rw [getD_swapAt es _ _ _ _ (hv _ (getD_mem p r hr)) (hv _ (getD_mem p i hi))]
  simp only [getD_inj_of_nodup p hp t i ht hi, getD_inj_of_nodup p hp t r ht hr]

theorem view_swap (p : List Nat) (hp : p.Nodup) (es : List PW_ENTRY)
    (hv : ∀ x ∈ p, x < es.length) (i r : Nat) (hi : i < p.length) (hr : r < p.length) :
    SortGroup.view p (swapAt es (p.getD r 0) (p.getD i 0))
      = swapAt (SortGroup.view p es) r i := by
  apply List.ext_getElem?
  intro t
  have hlen : (SortGroup.view p es).length = p.length := by
    unfold SortGroup.view
    simp
  rw [getElem?_swapAt _ r i t (by omega) (by omega)]
  unfold SortGroup.view
  simp only [List.getElem?_map]
  by_cases ht : t < p.length
  · have e1 : p[t]? = some (p.getD t 0) := by
      rw [List.getElem?_eq_getElem ht, List.getD_eq_getElem _ _ ht]
    have e2 : p[i]? = some (p.getD i 0) := by
      rw [List.getElem?_eq_getElem hi, List.getD_eq_getElem _ _ hi]
    have e3 : p[r]? = some (p.getD r 0) := by
      rw [List.getElem?_eq_getElem hr, List.getD_eq_getElem _ _ hr]
    rw [e1, e2, e3]
    simp only [Option.map_some']
    rw [SortGroup_swap_read p hp es hv i r t hi hr ht]
    split_ifs <;> rfl
  · have e1 : p[t]? = none := List.getElem?_eq_none (Nat.not_lt.mp ht)
    rw [e1]
    have h1 : t ≠ i := by omega
    have h2 : t ≠ r := by omega
    simp [h1, h2]

/-- The outer loop of `SortGroup` for a comparison that is transitive and never
takes a record before itself: when the records before `p[i]` are in their
final order, the loop leaves the records behind the pointers in order, as a
rearrangement of what they were, and every other slot of the array as it was. -/
theorem SortGroup_outer_spec (E : Env) (m : CPwManager) (f : Nat) (p : List Nat)
    (hp : p.Nodup)
    (htr : ∀ a b c, SortGroup.takes E m f a b = true → SortGroup.takes E m f b c = true →
      SortGroup.takes E m f a c = true)
    (hirr : ∀ a, SortGroup.takes E m f a a = false) :
    ∀ (k i : Nat) (es : List PW_ENTRY), i + k + 1 = p.length → (∀ x ∈ p, x < es.length) →
      (∀ a b, a < i → a < b → b < p.length →
        SortGroup.takes E m f (es.getD (p.getD b 0) PW_ENTRY.zero)
          (es.getD (p.getD a 0) PW_ENTRY.zero) = false) →
      (∀ a b, a < b → b < p.length →
        SortGroup.takes E m f
          ((SortGroup.outer E m f p k i es).getD (p.getD b 0) PW_ENTRY.zero)
          ((SortGroup.outer E m f p k i es).getD (p.getD a 0) PW_ENTRY.zero) = false)
      ∧ (SortGroup.view p (SortGroup.outer E m f p k i es)).Perm (SortGroup.view p es)
      ∧ (SortGroup.outer E m f p k i es).length = es.length
      ∧ ∀ t, t ∉ p → (SortGroup.outer E m f p k i es).getD t PW_ENTRY.zero
          = es.getD t PW_ENTRY.zero := by
  intro k
  induction k with
  | zero =>
    intro i es hik hv hinv
    refine ⟨fun a b hab hb => hinv a b (by omega) hab hb, List.Perm.refl _, rfl, fun t _ => rfl⟩
  | succ k ih =>
    intro i es hik hv hinv
    unfold SortGroup.outer
    simp only []
    rw [SortGroup_inner_snd]
    obtain ⟨hr1, hr2⟩ := SortGroup_inner_fst E m f p es htr hirr (p.length - (i + 1)) (i + 1) i
      (fun t => t = i) (fun t ht => by rw [ht]; exact hirr _)
    generalize (SortGroup.inner E m f p (p.length - (i + 1)) (i + 1) i es).1 = r at hr1 hr2
    have hi : i < p.length := by omega
    have hr : r < p.length := by omega
    have hri : i ≤ r := by omega
    have hv1 : ∀ x ∈ p, x < (swapAt es (p.getD r 0) (p.getD i 0)).length := by
      intro x hx
      rw [swapAt_length]
      exact hv x hx
    have hinv1 : ∀ a b, a < i + 1 → a < b → b < p.length →
        SortGroup.takes E m f
          ((swapAt es (p.getD r 0) (p.getD i 0)).getD (p.getD b 0) PW_ENTRY.zero)
          ((swapAt es (p.getD r 0) (p.getD i 0)).getD (p.getD a 0) PW_ENTRY.zero) = false := by
      intro a b ha hab hb
      rw [SortGroup_swap_read p hp es hv i r a hi hr (by omega),
        SortGroup_swap_read p hp es hv i r b hi hr hb]
      by_cases hai : a = i
      · have hbi : b ≠ i := by omega
        rw [if_pos hai, if_neg hbi]
        by_cases hbr : b = r
        · rw [if_pos hbr]
          exact hr2 i (Or.inl rfl)
        · rw [if_neg hbr]
          exact hr2 b (Or.inr ⟨by omega, by omega⟩)
      · have hal : a < i := by omega
        have har : a ≠ r := by omega
        rw [if_neg hai, if_neg har]
        by_cases hbi : b = i
        · rw [if_pos hbi]
          exact hinv a r hal (by omega) hr
        · rw [if_neg hbi]
          by_cases hbr : b = r
          · rw [if_pos hbr]
            exact hinv a i hal hal hi
          · rw [if_neg hbr]
            exact hinv a b hal hab hb
    obtain ⟨h1, h2, h3, h4⟩ := ih (i + 1) (swapAt es (p.getD r 0) (p.getD i 0)) (by omega) hv1 hinv1
    refine ⟨h1, ?_, ?_, ?_⟩
    · refine h2.trans ?_
      rw [view_swap p hp es hv i r hi hr]
      exact swapAt_perm _ _ _
    · rw [h3, swapAt_length]
    · intro t ht
      rw [h4 t ht, getD_swapAt es _ _ _ _ (hv _ (getD_mem p r hr)) (hv _ (getD_mem p i hi))]
      have n1 : t ≠ p.getD i 0 := fun h => ht (h ▸ getD_mem p i hi)
      have n2 : t ≠ p.getD r 0 := fun h => ht (h ▸ getD_mem p r hr)
      rw [if_neg n1, if_neg n2]

/-- The outer loop of `SortGroup` moves nothing when no record behind a later
pointer is taken before the record behind an earlier one. -/
theorem SortGroup_outer_keep (E : Env) (m : CPwManager) (f : Nat) (p : List Nat)
    (es : List PW_ENTRY)
    (hord : ∀ a b, a < b → b < p.length →
      SortGroup.takes E m f (es.getD (p.getD b 0) PW_ENTRY.zero)
        (es.getD (p.getD a 0) PW_ENTRY.zero) = false) :
    ∀ (k i : Nat), i + k + 1 = p.length → SortGroup.outer E m f p k i es = es := by
  intro k
  induction k with
  | zero => intro i _; rfl
  | succ k ih =>
    intro i hik
    unfold SortGroup.outer
    simp only []
    rw [SortGroup_inner_keep E m f p es (p.length - (i + 1)) (i + 1) i
      (fun t h1 h2 => hord i t (by omega) (by omega))]
    simp only []
    rw [swapAt_self]
    exact ih (i + 1) (by omega)

theorem compareChars_neg : ∀ (a b : List Nat), compareChars a b = -compareChars b a := by
  intro a
  induction a with
  | nil =>
    intro b
    cases b with
    | nil => simp [compareChars]
    | cons y ys => simp [compareChars]
  | cons x xs ih =>
    intro b
    cases b with
    | nil => simp [compareChars]
    | cons y ys =>
      simp only [compareChars]
      by_cases h : x = y
      · subst h
        simp only [if_true]
        exact ih ys
      · rw [if_neg h, if_neg (fun h' => h h'.symm)]
        omega

theorem compareChars_lt_trans : ∀ (a b c : List Nat), (∀ x ∈ c, x ≠ 0) →
    compareChars a b < 0 → compareChars b c < 0 → compareChars a c < 0 := by
  intro a
  induction a with
  | nil =>
    intro b c hc h1 h2
    cases c with
    | nil =>
      cases b with
      | nil => simp [compareChars] at h1
      | cons y ys =>
        simp only [compareChars] at h2
        omega
    | cons z zs =>
      simp only [compareChars]
      have := hc z (List.mem_cons_self _ _)
      omega
  | cons x xs ih =>
    intro b c hc h1 h2
    cases b with
    | nil =>
      simp only [compareChars] at h1
      omega
    | cons y ys =>
      cases c with
      | nil =>
        simp only [compareChars] at h2
        omega
      | cons z zs =>
        simp only [compareChars] at h1 h2 ⊢
        by_cases hxy : x = y
        · subst hxy
          simp only [if_true] at h1
          by_cases hxz : x = z
          · subst hxz
            simp only [if_true] at h2 ⊢
            exact ih ys zs (fun w hw => hc w (List.mem_cons_of_mem _ hw)) h1 h2
          · rw [if_neg hxz] at h2 ⊢
            exact h2
        · rw [if_neg hxy] at h1
          by_cases hyz : y = z
          · subst hyz
            rw [if_neg hxy]
            exact h1
          · rw [if_neg hyz] at h2
            have hxz : x ≠ z := by omega
            rw [if_neg hxz]
            omega

theorem tolower_ne_zero (c : Nat) (h : c ≠ 0) : tolower c ≠ 0 := by
  unfold tolower
  split_ifs <;> omega

theorem lower_cstr_ne_zero (s : List Nat) : ∀ x ∈ (cstr s).map tolower, x ≠ 0 := by
  intro x hx
  obtain ⟨c, hc, rfl⟩ := List.mem_map.mp hx
  apply tolower_ne_zero
  unfold cstr at hc
  have := List.mem_takeWhile_imp hc
  simpa using this

theorem tcsicmp_lt_trans (a b c : List Nat) :
    _tcsicmp a b < 0 → _tcsicmp b c < 0 → _tcsicmp a c < 0 :=
  compareChars_lt_trans _ _ _ (lower_cstr_ne_zero c)

theorem tcsicmp_self (a : List Nat) : _tcsicmp a a = 0 := compareChars_self _

theorem tcsicmp_neg (a b : List Nat) : _tcsicmp a b = -_tcsicmp b a := compareChars_neg _ _

theorem takes_text (E : Env) (m : CPwManager) (f : Nat) (hf : f = 0 ∨ f = 1 ∨ f = 2 ∨ f = 4)
    (a b : PW_ENTRY) :
    SortGroup.takes E m f a b
      = decide (_tcsicmp (SortGroup.text f a) (SortGroup.text f b) < 0) := by
  rcases hf with h | h | h | h <;> subst h <;> rfl

theorem mem_pointers (g : Nat) (es : List PW_ENTRY) (t : Nat) :
    t ∈ SortGroup.pointers g es
      ↔ t < es.length ∧ (es.getD t PW_ENTRY.zero).uGroupId = g := by
  unfold SortGroup.pointers
  simp [List.mem_filter]

theorem pointers_nodup (g : Nat) (es : List PW_ENTRY) : (SortGroup.pointers g es).Nodup :=
  (List.nodup_range _).filter _

theorem pointers_append (g : Nat) (l : List PW_ENTRY) (a : PW_ENTRY) :
    SortGroup.pointers g (l ++ [a])
      = SortGroup.pointers g l ++ (if a.uGroupId == g then [l.length] else []) := by
  unfold SortGroup.pointers
  rw [List.length_append, List.length_singleton, List.range_succ, List.filter_append]
  congr 1
  · apply List.filter_congr
    intro x hx
    have hx' : x < l.length := List.mem_range.mp hx
    rw [List.getD_append _ _ _ _ hx']
  · simp only [List.filter_cons, List.filter_nil]
    have : (l ++ [a]).getD l.length PW_ENTRY.zero = a := by
      rw [List.getD_append_right _ _ _ _ (le_refl _)]
      simp
    rw [this]

/-- The records behind the pointers are the entries of the group, in array
order. -/
theorem view_pointers (g : Nat) : ∀ es : List PW_ENTRY,
    SortGroup.view (SortGroup.pointers g es) es = es.filter (fun e => e.uGroupId == g) := by
  intro es
  induction es using List.reverseRecOn with
  | nil => rfl
  | append_singleton l a ih =>
    rw [pointers_append, List.filter_append]
    unfold SortGroup.view at ih ⊢
    rw [List.map_append]
    congr 1
    · rw [← ih]
      apply List.map_congr_left
      intro x hx
      have hx' : x < l.length := ((mem_pointers g l x).mp hx).1
      rw [List.getD_append _ _ _ _ hx']
    · by_cases h : (a.uGroupId == g) = true
      · rw [if_pos h]
        simp only [List.map_cons, List.map_nil, List.filter_cons, h, if_true, List.filter_nil]
        rw [List.getD_append_right _ _ _ _ (le_refl _)]
        simp
      · rw [if_neg h]
        simp [List.filter_cons, h]

theorem pointers_congr (g : Nat) (es es' : List PW_ENTRY) (hl : es'.length = es.length)
    (h : ∀ t, t < es.length →
      ((es'.getD t PW_ENTRY.zero).uGroupId = g ↔ (es.getD t PW_ENTRY.zero).uGroupId = g)) :
    SortGroup.pointers g es' = SortGroup.pointers g es := by
  unfold SortGroup.pointers
  rw [hl]
  apply List.filter_congr
  intro x hx
  have := h x (List.mem_range.mp hx)
  rw [Bool.eq_iff_iff]
  simp only [beq_iff_eq]
  exact this

theorem pairwise_of_length_le_one {α : Type} (R : α → α → Prop) (l : List α)
    (h : l.length ≤ 1) : l.Pairwise R := by
  match l, h with
  | [], _ => exact List.Pairwise.nil
  | [a], _ => exact List.pairwise_singleton R a
  | _ :: _ :: _, h => simp at h

theorem getElem?_of_getD {α : Type} (l : List α) (i : Nat) (d x : α) (hi : i < l.length)
    (h : l.getD i d = x) : l[i]? = some x := by
  rw [List.getD_eq_getElem _ _ hi] at h
  rw [List.getElem?_eq_getElem hi, h]

theorem getD_of_getElem? {α : Type} (l : List α) (i : Nat) (d x : α) (h : l[i]? = some x) :
    i < l.length ∧ l.getD i d = x := by
  obtain ⟨hi, hx⟩ := List.getElem?_eq_some_iff.mp h
  exact ⟨hi, by rw [List.getD_eq_getElem _ _ hi, hx]⟩

/-- What `SortGroup` does when the allocation of the pointer array succeeds,
for a comparison that is transitive and never takes a record before itself:
the entries of the group, read in array order, come out in the order of the
comparison, as a rearrangement of what they were; the array keeps its length,
every slot that held an entry of another group holds it still, and the slots
of the group hold entries of the group. -/
theorem SortGroup_spec (E : Env) (m : CPwManager) (g f : Nat)
    (htr : ∀ a b c, SortGroup.takes E m f a b = true → SortGroup.takes E m f b c = true →
      SortGroup.takes E m f a c = true)
    (hirr : ∀ a, SortGroup.takes E m f a a = false)
    (halloc : E.allocOk (4 * m.m_pEntries.length) = true) :
    ((m.SortGroup E g f).m_pEntries.filter (fun e => e.uGroupId == g)).Pairwise
        (fun a b => SortGroup.takes E m f b a = false)
    ∧ ((m.SortGroup E g f).m_pEntries.filter (fun e => e.uGroupId == g)).Perm
        (m.m_pEntries.filter (fun e => e.uGroupId == g))
    ∧ (m.SortGroup E g f).m_pEntries.length = m.m_pEntries.length
    ∧ (∀ t, (m.m_pEntries.getD t PW_ENTRY.zero).uGroupId ≠ g →
        (m.SortGroup E g f).m_pEntries.getD t PW_ENTRY.zero = m.m_pEntries.getD t PW_ENTRY.zero)
    ∧ (∀ t, t < m.m_pEntries.length →
        (((m.SortGroup E g f).m_pEntries.getD t PW_ENTRY.zero).uGroupId = g
          ↔ (m.m_pEntries.getD t PW_ENTRY.zero).uGroupId = g))
    ∧ (m.SortGroup E g f).m_pGroups = m.m_pGroups := by
  have hview := view_pointers g m.m_pEntries
  have hplen : (SortGroup.pointers g m.m_pEntries).length
      = (m.m_pEntries.filter (fun e => e.uGroupId == g)).length := by
    rw [← hview]
    unfold SortGroup.view
    simp
  have hsame : ∀ (h : (m.m_pEntries.filter (fun e => e.uGroupId == g)).length ≤ 1),
      m.SortGroup E g f = m →
      ((m.SortGroup E g f).m_pEntries.filter (fun e => e.uGroupId == g)).Pairwise
          (fun a b => SortGroup.takes E m f b a = false)
      ∧ ((m.SortGroup E g f).m_pEntries.filter (fun e => e.uGroupId == g)).Perm
          (m.m_pEntries.filter (fun e => e.uGroupId == g))
      ∧ (m.SortGroup E g f).m_pEntries.length = m.m_pEntries.length
      ∧ (∀ t, (m.m_pEntries.getD t PW_ENTRY.zero).uGroupId ≠ g →
          (m.SortGroup E g f).m_pEntries.getD t PW_ENTRY.zero
            = m.m_pEntries.getD t PW_ENTRY.zero)
      ∧ (∀ t, t < m.m_pEntries.length →
          (((m.SortGroup E g f).m_pEntries.getD t PW_ENTRY.zero).uGroupId = g
            ↔ (m.m_pEntries.getD t PW_ENTRY.zero).uGroupId = g))
      ∧ (m.SortGroup E g f).m_pGroups = m.m_pGroups := by
    intro h heq
    rw [heq]
    exact ⟨pairwise_of_length_le_one _ _ h, List.Perm.refl _, rfl, fun _ _ => rfl,
      fun _ _ => Iff.rfl, rfl⟩
  by_cases h1 : m.m_pEntries.length ≤ 1
  · refine hsame (le_trans (List.length_filter_le _ _) h1) ?_
    unfold SortGroup
    rw [if_pos h1]
  by_cases h2 : (SortGroup.pointers g m.m_pEntries).length ≤ 1
  · refine hsame (by rw [← hplen]; exact h2) ?_
    unfold SortGroup
    rw [if_neg h1]
    simp only [halloc, Bool.not_true, Bool.false_eq_true, if_false, h2, if_true]
  obtain ⟨res, hdef⟩ : ∃ res, res = SortGroup.outer E m f (SortGroup.pointers g m.m_pEntries)
      ((SortGroup.pointers g m.m_pEntries).length - 1) 0 m.m_pEntries := ⟨_, rfl⟩
  have hres : m.SortGroup E g f = { m with m_pEntries := res } := by
    unfold SortGroup
    rw [if_neg h1, hdef]
    simp only [halloc, Bool.not_true, Bool.false_eq_true, if_false, h2]
  have hvalid : ∀ x ∈ SortGroup.pointers g m.m_pEntries, x < m.m_pEntries.length :=
    fun x hx => ((mem_pointers g _ x).mp hx).1
  obtain ⟨s1, s2, s3, s4⟩ := SortGroup_outer_spec E m f (SortGroup.pointers g m.m_pEntries)
    (pointers_nodup g _) htr hirr ((SortGroup.pointers g m.m_pEntries).length - 1) 0
    m.m_pEntries (by omega) hvalid (fun a b ha => absurd ha (Nat.not_lt_zero _))
  rw [← hdef] at s1 s2 s3 s4
  rw [hres]
  simp only []
  have hpat : ∀ t, t < m.m_pEntries.length →
      ((res.getD t PW_ENTRY.zero).uGroupId = g ↔ (m.m_pEntries.getD t PW_ENTRY.zero).uGroupId = g) := by
    intro t ht
    by_cases htp : t ∈ SortGroup.pointers g m.m_pEntries
    · have hin : res.getD t PW_ENTRY.zero ∈ SortGroup.view (SortGroup.pointers g m.m_pEntries) res :=
        List.mem_map.mpr ⟨t, htp, rfl⟩
      have hin2 := s2.subset hin
      rw [hview] at hin2
      have hg : (res.getD t PW_ENTRY.zero).uGroupId = g := by
        simpa using (List.mem_filter.mp hin2).2
      exact ⟨fun _ => ((mem_pointers g _ t).mp htp).2, fun _ => hg⟩
    · rw [s4 t htp]
  have hpt : SortGroup.pointers g res = SortGroup.pointers g m.m_pEntries :=
    pointers_congr g m.m_pEntries res s3 hpat
  have hfilter : res.filter (fun e => e.uGroupId == g)
      = SortGroup.view (SortGroup.pointers g m.m_pEntries) res := by
    rw [← view_pointers g res, hpt]
  refine ⟨?_, ?_, s3, ?_, hpat, by first | rfl | trivial⟩
  · rw [hfilter, List.pairwise_iff_getElem]
    intro a b ha hb hab
    have hlen : (SortGroup.view (SortGroup.pointers g m.m_pEntries) res).length
        = (SortGroup.pointers g m.m_pEntries).length := by
      unfold SortGroup.view
      simp
    have hb' : b < (SortGroup.pointers g m.m_pEntries).length := by omega
    have key := s1 a b hab hb'
    have ha' : a < (SortGroup.pointers g m.m_pEntries).length := by omega
    have pa : (SortGroup.pointers g m.m_pEntries).getD a 0
        = (SortGroup.pointers g m.m_pEntries)[a] := List.getD_eq_getElem _ _ ha'
    have pb : (SortGroup.pointers g m.m_pEntries).getD b 0
        = (SortGroup.pointers g m.m_pEntries)[b] := List.getD_eq_getElem _ _ hb'
    rw [pa, pb] at key
    unfold SortGroup.view
    rw [List.getElem_map, List.getElem_map]
    exact key
  · rw [hfilter, ← hview]
    exact s2
  · intro t ht
    apply s4
    intro htp
    exact ht ((mem_pointers g _ t).mp htp).2

/-- C25.  For a field selector among title (0), user name (1), URL (2) and
notes (4), when the pointer array can be allocated: after `SortGroup` the
entries of the group, read in array order, are in non-decreasing order of that
field as `_tcsicmp` compares it (without regard to case); they are a
rearrangement of the entries the group had and occupy the same array indices;
every entry of another group is unchanged at its index; the groups are
untouched. -/
theorem C25_sort_group_sorted (E : Env) (m : CPwManager) (idGroup dwSortByField : Nat)
    (hf : dwSortByField = 0 ∨ dwSortByField = 1 ∨ dwSortByField = 2 ∨ dwSortByField = 4)
    (halloc : E.allocOk (4 * m.m_pEntries.length) = true) :
    ((m.SortGroup E idGroup dwSortByField).m_pEntries.filter
        (fun e => e.uGroupId == idGroup)).Pairwise
      (fun a b => _tcsicmp (SortGroup.text dwSortByField a) (SortGroup.text dwSortByField b) ≤ 0)
    ∧ ((m.SortGroup E idGroup dwSortByField).m_pEntries.filter
        (fun e => e.uGroupId == idGroup)).Perm
        (m.m_pEntries.filter (fun e => e.uGroupId == idGroup))
    ∧ (m.SortGroup E idGroup dwSortByField).m_pEntries.length = m.m_pEntries.length
    ∧ (∀ (i : Nat) (e : PW_ENTRY), m.m_pEntries[i]? = some e → e.uGroupId = idGroup →
        ∃ e' : PW_ENTRY, (m.SortGroup E idGroup dwSortByField).m_pEntries[i]? = some e'
          ∧ e'.uGroupId = idGroup)
    ∧ (∀ (i : Nat) (e : PW_ENTRY), m.m_pEntries[i]? = some e → e.uGroupId ≠ idGroup →
        (m.SortGroup E idGroup dwSortByField).m_pEntries[i]? = some e)
    ∧ (m.SortGroup E idGroup dwSortByField).m_pGroups = m.m_pGroups := by
  have htr : ∀ a b c, SortGroup.takes E m dwSortByField a b = true →
      SortGroup.takes E m dwSortByField b c = true →
      SortGroup.takes E m dwSortByField a c = true := by
    intro a b c h1 h2
    rw [takes_text E m _ hf] at h1 h2 ⊢
    simp only [decide_eq_true_eq] at h1 h2 ⊢
    exact tcsicmp_lt_trans _ _ _ h1 h2
  have hirr : ∀ a, SortGroup.takes E m dwSortByField a a = false := by
    intro a
    rw [takes_text E m _ hf, tcsicmp_self]
    rfl
  obtain ⟨s1, s2, s3, s4, s5, s6⟩ := SortGroup_spec E m idGroup dwSortByField htr hirr halloc
  refine ⟨?_, s2, s3, ?_, ?_, s6⟩
  · refine s1.imp ?_
    intro a b h
    rw [takes_text E m _ hf] at h
    simp only [decide_eq_false_iff_not, not_lt] at h
    rw [tcsicmp_neg]
    omega
  · intro i e he hg
    obtain ⟨hi, hd⟩ := getD_of_getElem? _ i PW_ENTRY.zero e he
    have hres := (s5 i hi).mpr (by rw [hd]; exact hg)
    exact ⟨_, getElem?_of_getD _ i PW_ENTRY.zero _ (by rw [s3]; exact hi) rfl, hres⟩
  · intro i e he hg
    obtain ⟨hi, hd⟩ := getD_of_getElem? _ i PW_ENTRY.zero e he
    have hres := s4 i (by rw [hd]; exact hg)
    exact getElem?_of_getD _ i PW_ENTRY.zero _ (by rw [s3]; exact hi) (by rw [hres, hd])

set_option maxRecDepth 100000 in
/-- On the sample with the titles "b", "B" and "a" in group 12 the sort by
title puts "a" first; the entry of group 11 stays at index 1. -/
theorem C25_sort_group_sorted_witness :
    ((sampleTies.SortGroup (sampleEnv none) 12 0).m_pEntries.filter
        (fun e => e.uGroupId == 12)).Pairwise
      (fun a b => _tcsicmp (SortGroup.text 0 a) (SortGroup.text 0 b) ≤ 0)
    ∧ (sampleTies.SortGroup (sampleEnv none) 12 0).m_pEntries.map (fun e => e.uImageId)
        = [3, 9, 2, 1] :=
  ⟨(C25_sort_group_sorted (sampleEnv none) sampleTies 12 0 (Or.inl rfl) rfl).1, by decide⟩

set_option maxRecDepth 100000 in
/-- C26, the claim as stated fails: in the sample the entries titled "b" and
"B" of group 12 compare equal by title, "b" (image id 1) standing before "B"
(image id 2); after `SortGroup` by title "B" stands before "b". -/
theorem C26_sort_group_stable_counterexample :
    (sampleTies.m_pEntries.filter (fun e => e.uGroupId == 12)).map (fun e => e.uImageId)
        = [1, 2, 3]
    ∧ _tcsicmp (tstr "b") (tstr "B") = 0
    ∧ ((sampleTies.SortGroup (sampleEnv none) 12 0).m_pEntries.filter
        (fun e => e.uGroupId == 12)).map (fun e => e.uImageId) = [3, 2, 1] := by
  decide

/-- C26.  `SortGroup` keeps the order of a group that is already in order: for
every field selector, when no entry of the group has to go before an earlier
entry of the group by the comparison of that field, `SortGroup` leaves the
database as it is, so that any two entries of the group, those that compare
equal included, keep their relative order. -/
theorem C26_sort_group_stable (E : Env) (m : CPwManager) (idGroup dwSortByField : Nat)
    (hord : (m.m_pEntries.filter (fun e => e.uGroupId == idGroup)).Pairwise
      (fun a b => SortGroup.takes E m dwSortByField b a = false)) :
    m.SortGroup E idGroup dwSortByField = m := by
  unfold SortGroup
  by_cases h1 : m.m_pEntries.length ≤ 1
  · rw [if_pos h1]
  rw [if_neg h1]
  by_cases h2 : (!E.allocOk (4 * m.m_pEntries.length)) = true
  · rw [if_pos h2]
  rw [if_neg h2]
  simp only []
  by_cases h3 : (SortGroup.pointers idGroup m.m_pEntries).length ≤ 1
  · rw [if_pos h3]
  rw [if_neg h3]
  have hview := view_pointers idGroup m.m_pEntries
  rw [← hview, List.pairwise_iff_getElem] at hord
  have hlen : (SortGroup.view (SortGroup.pointers idGroup m.m_pEntries) m.m_pEntries).length
      = (SortGroup.pointers idGroup m.m_pEntries).length := by
    unfold SortGroup.view
    simp
  rw [SortGroup_outer_keep E m dwSortByField _ m.m_pEntries ?_ _ 0 (by omega)]
  intro a b hab hb
  have ha : a < (SortGroup.pointers idGroup m.m_pEntries).length := by omega
  have key := hord a b (by omega) (by omega) hab
  unfold SortGroup.view at key
  rw [List.getElem_map, List.getElem_map] at key
  have pa : (SortGroup.pointers idGroup m.m_pEntries).getD a 0
      = (SortGroup.pointers idGroup m.m_pEntries)[a] := List.getD_eq_getElem _ _ ha
  have pb : (SortGroup.pointers idGroup m.m_pEntries).getD b 0
      = (SortGroup.pointers idGroup m.m_pEntries)[b] := List.getD_eq_getElem _ _ hb
  rw [pa, pb]
  exact key

set_option maxRecDepth 100000 in
/-- The sample with five entries has equal titles throughout, so every group
is in order by title and `SortGroup` leaves the database as it is. -/
theorem C26_sort_group_stable_witness :
    sampleFive.SortGroup (sampleEnv none) 11 0 = sampleFive :=
  C26_sort_group_stable (sampleEnv none) sampleFive 11 0 (by decide)

/-! ## Merging by UUID -/

theorem rand_eta (r : Rand) : ({ r with xorShift := r.xorShift } : Rand) = r := by
  cases r
  rfl

/-- The body of the group loop of `MergeIn` without new ids, for a source group
with a regular id: it returns, touches only the group array, keeps every group
id that was there, and leaves a group with the id of the source group. -/
theorem groupStep_false (E : Env) (bCmp : Bool) (i : Nat) (pg : PW_GROUP)
    (m src : CPwManager) (r : Rand) (h0 : pg.uGroupId ≠ 0) (hM : pg.uGroupId ≠ DWORD_MAX) :
    ∃ m', MergeIn.groupStep E false bCmp i pg m src r = some (m', src, r)
      ∧ m'.m_pEntries = m.m_pEntries ∧ m'.m_pSessionKey = m.m_pSessionKey
      ∧ m'.m_pGroups.length ≤ m.m_pGroups.length + 1
      ∧ (∀ x ∈ m.m_pGroups.map (fun g => g.uGroupId), x ∈ m'.m_pGroups.map (fun g => g.uGroupId))
      ∧ pg.uGroupId ∈ m'.m_pGroups.map (fun g => g.uGroupId) := by
  have hvalid : (pg.uGroupId == 0 || pg.uGroupId == DWORD_MAX) = false := by simp [h0, hM]
  unfold MergeIn.groupStep
  simp only [Bool.false_eq_true, if_false]
  cases hthis : (if (m.GetGroupByIdN pg.uGroupId != DWORD_MAX) = true
      then m.GetGroup (m.GetGroupByIdN pg.uGroupId) else none) with
  | none =>
    simp only []
    cases ha : CPwManager.AddGroup m r pg with
    | none =>
      exfalso
      unfold CPwManager.AddGroup at ha
      simp [hvalid] at ha
    | some res =>
      obtain ⟨id, rest, hres, _, _, _, hkeep⟩ := AddGroup_some m r pg res ha
      obtain ⟨hid, hrest⟩ := hkeep hvalid
      subst hres
      simp only []
      rw [hrest, rand_eta]
      refine ⟨_, rfl, rfl, rfl, by simp, ?_, ?_⟩
      · intro x hx
        simp only [List.map_append, List.mem_append]
        exact Or.inl hx
      · simp only [List.map_append, List.mem_append, List.map_cons, List.map_nil,
          List.mem_singleton]
        right
        rw [SetGroup_fill_id, hid]
  | some pgThis =>
    simp only []
    have hidx : m.m_pGroups[m.GetGroupByIdN pg.uGroupId]? = some pgThis := by
      split_ifs at hthis
      exact hthis
    have hthisid : pgThis.uGroupId = pg.uGroupId := by
      rcases GetGroupByIdN_spec m pg.uGroupId with ⟨g, hg, hgid⟩ | ⟨hno, _⟩
      · rw [hidx] at hg
        cases hg
        exact hgid
      · split_ifs at hthis with hc
        rw [hno] at hc
        simp at hc
    have hmem : pg.uGroupId ∈ m.m_pGroups.map (fun g => g.uGroupId) :=
      List.mem_map.mpr ⟨pgThis, List.getElem?_mem hidx, hthisid⟩
    split_ifs
    · exact ⟨m, rfl, rfl, rfl, by omega, fun x hx => hx, hmem⟩
    · rcases SetGroup_cases m (m.GetGroupByIdN pg.uGroupId) pg with ⟨hbad, _⟩ | ⟨_, hset⟩
      · rw [hvalid] at hbad
        exact Bool.noConfusion hbad
      · rw [hset]
        simp only []
        obtain ⟨gs1, hgs1⟩ : ∃ gs1, gs1 = m.m_pGroups.set (m.GetGroupByIdN pg.uGroupId)
            (SetGroup.fill pg) := ⟨_, rfl⟩
        rw [← hgs1]
        have hids : (MergeIn.touchGroup E { m with m_pGroups := gs1 }
            (m.GetGroupByIdN pg.uGroupId)).m_pGroups.map (fun g => g.uGroupId)
              = m.m_pGroups.map (fun g => g.uGroupId) := by
          rw [touchGroup_ids, hgs1]
          exact set_same_id _ _ pgThis _ hidx (by rw [SetGroup_fill_id, hthisid])
        refine ⟨_, rfl, ?_, ?_, ?_, ?_, ?_⟩
        · unfold MergeIn.touchGroup
          split <;> rfl
        · unfold MergeIn.touchGroup
          split <;> rfl
        · have := congrArg List.length hids
          simp only [List.length_map] at this
          omega
        · intro x hx
          rw [hids]
          exact hx
        · rw [hids]
          exact hmem

theorem groupLoop_false (E : Env) (bCmp : Bool) (src : CPwManager) (r : Rand)
    (hsrc : ∀ g ∈ src.m_pGroups, g.uGroupId ≠ 0 ∧ g.uGroupId ≠ DWORD_MAX) :
    ∀ (n i : Nat) (m : CPwManager),
      ∃ m', MergeIn.groupLoop E false bCmp n i m src r = some (m', src, r)
        ∧ m'.m_pEntries = m.m_pEntries ∧ m'.m_pSessionKey = m.m_pSessionKey
        ∧ m'.m_pGroups.length ≤ m.m_pGroups.length + n
        ∧ (∀ x ∈ m.m_pGroups.map (fun g => g.uGroupId),
            x ∈ m'.m_pGroups.map (fun g => g.uGroupId))
        ∧ (∀ j g, i ≤ j → j < i + n → src.m_pGroups[j]? = some g →
            g.uGroupId ∈ m'.m_pGroups.map (fun g => g.uGroupId)) := by
  intro n
  induction n with
  | zero =>
    intro i m
    exact ⟨m, rfl, rfl, rfl, by omega, fun x hx => hx, fun j g h1 h2 => by omega⟩
  | succ n ih =>
    intro i m
    unfold MergeIn.groupLoop
    cases hg : src.GetGroup i with
    | none =>
      simp only []
      obtain ⟨m', h1, h2, h3, h4, h5, h6⟩ := ih (i + 1) m
      refine ⟨m', h1, h2, h3, by omega, h5, fun j g hj1 hj2 hj3 => ?_⟩
      by_cases hji : j = i
      · subst hji
        unfold GetGroup at hg
        rw [hg] at hj3
        exact Option.noConfusion hj3
      · exact h6 j g (by omega) (by omega) hj3
    | some pg =>
      simp only []
      have hpg : src.m_pGroups[i]? = some pg := hg
      have hv := hsrc pg (List.getElem?_mem hpg)
      obtain ⟨m1, e1, e2, e3, e4, e5, e6⟩ := groupStep_false E bCmp i pg m src r hv.1 hv.2
      rw [e1]
      simp only []
      obtain ⟨m', h1, h2, h3, h4, h5, h6⟩ := ih (i + 1) m1
      refine ⟨m', h1, by rw [h2, e2], by rw [h3, e3], by omega, fun x hx => h5 x (e5 x hx),
        fun j g hj1 hj2 hj3 => ?_⟩
      by_cases hji : j = i
      · subst hji
        rw [hpg] at hj3
        cases hj3
        exact h5 _ e6
      · exact h6 j g (by omega) (by omega) hj3

theorem fill_congr (E : Env) (m1 m2 : CPwManager) (old t : PW_ENTRY)
    (h : m1.m_pSessionKey = m2.m_pSessionKey) :
    SetEntry.fill E m1 old t = SetEntry.fill E m2 old t := by
  unfold SetEntry.fill
  simp only [lock_congr E m1 m2 _ h]

theorem src_relock (E : Env) (src : CPwManager) (i : Nat) (s : PW_ENTRY)
    (hs : src.m_pEntries[i]? = some s) :
    ({ src with
        m_pEntries := src.m_pEntries.set i
          (src.LockEntryPassword E (src.UnlockEntryPassword E s)) } : CPwManager) = src := by
  have h1 : src.LockEntryPassword E (src.UnlockEntryPassword E s) = s := lock_lock E src s
  rw [h1, set_same_val _ _ _ hs]

theorem unlock_fields (E : Env) (src : CPwManager) (s : PW_ENTRY) :
    (src.UnlockEntryPassword E s).uuid = s.uuid
    ∧ (src.UnlockEntryPassword E s).uGroupId = s.uGroupId
    ∧ (src.UnlockEntryPassword E s).tLastMod = s.tLastMod
    ∧ (src.UnlockEntryPassword E s).pszTitle = s.pszTitle
    ∧ (src.UnlockEntryPassword E s).pszUserName = s.pszUserName
    ∧ (src.UnlockEntryPassword E s).pszURL = s.pszURL
    ∧ (src.UnlockEntryPassword E s).pszAdditional = s.pszAdditional
    ∧ (src.UnlockEntryPassword E s).pszPassword.isNone = s.pszPassword.isNone := by
  unfold UnlockEntryPassword LockEntryPassword
  cases hp : s.pszPassword with
  | none => simp [hp]
  | some pw =>
    simp only []
    split_ifs <;> simp [hp]

theorem GetEntryByUuidN_loop_first (u : List Nat) :
    ∀ (es : List PW_ENTRY) (i k : Nat) (e : PW_ENTRY), es[k]? = some e → e.uuid = u →
      (∀ j e', j < k → es[j]? = some e' → e'.uuid ≠ u) →
      GetEntryByUuidN.loop u i es = i + k := by
  intro es
  induction es with
  | nil => intro i k e h; simp at h
  | cons a rest ih =>
    intro i k e hk hu hfirst
    unfold GetEntryByUuidN.loop
    cases k with
    | zero =>
      simp only [List.getElem?_cons_zero, Option.some.injEq] at hk
      subst hk
      simp [hu]
    | succ k =>
      have ha : a.uuid ≠ u := hfirst 0 a (Nat.succ_pos _) (by simp)
      have hb : (a.uuid == u) = false := by simpa using ha
      simp only [hb, Bool.false_eq_true, if_false]
      rw [ih (i + 1) k e (by simpa using hk) hu
        (fun j e' hj he' => hfirst (j + 1) e' (by omega) (by simpa using he'))]
      omega

theorem GetEntryByUuidN_first (m : CPwManager) (u : List Nat) (k : Nat) (e : PW_ENTRY)
    (hk : m.m_pEntries[k]? = some e) (hu : e.uuid = u)
    (hfirst : ∀ j e', j < k → m.m_pEntries[j]? = some e' → e'.uuid ≠ u) :
    m.GetEntryByUuidN u = k := by
  unfold GetEntryByUuidN
  rw [GetEntryByUuidN_loop_first u _ 0 k e hk hu hfirst]
  omega

/-- The body of the entry loop of `MergeIn` by UUID with comparison of times,
for a source entry that is no meta-stream and that `SetEntry` and `AddEntry`
accept: without a local entry of its UUID the entry is appended; with one, that
entry is replaced when the source entry was modified strictly later and kept
otherwise.  Groups, session key, source and random source stay as they are. -/
theorem entryStep_false (E : Env) (m src : CPwManager) (r : Rand) (i : Nat) (s : PW_ENTRY)
    (hs : src.m_pEntries[i]? = some s) (hmeta : _IsMetaStream s = false) (hr : MergeReady s)
    (hlen : m.m_pEntries.length ≤ DWORD_MAX) :
    (MergeIn.entryStep E false true i s m src r).2 = (src, r)
    ∧ (MergeIn.entryStep E false true i s m src r).1.m_pGroups = m.m_pGroups
    ∧ (MergeIn.entryStep E false true i s m src r).1.m_pSessionKey = m.m_pSessionKey
    ∧ ((∀ e ∈ m.m_pEntries, e.uuid ≠ s.uuid) →
        (MergeIn.entryStep E false true i s m src r).1.m_pEntries
          = m.m_pEntries ++ [mergeAppend E m src s])
    ∧ (∀ k e, m.m_pEntries[k]? = some e → e.uuid = s.uuid →
        (∀ j e', j < k → m.m_pEntries[j]? = some e' → e'.uuid ≠ s.uuid) →
        (MergeIn.entryStep E false true i s m src r).1.m_pEntries
          = if _pwtimecmp e.tLastMod s.tLastMod < 0
            then m.m_pEntries.set k (mergeReplace E m src e s) else m.m_pEntries) := by
  obtain ⟨hu, hg0, hgM, t1, t2, t3, t4, t5⟩ := hr
  obtain ⟨u1, u2, u3, u4, u5, u6, u7, u8⟩ := unlock_fields E src s
  have hvalid : ((src.UnlockEntryPassword E s).uGroupId == 0
      || (src.UnlockEntryPassword E s).uGroupId == DWORD_MAX) = false := by
    rw [u2]
    simp [hg0, hgM]
  have hnz : ((src.UnlockEntryPassword E s).uuid == g_uuidZero) = false := by
    rw [u1]
    simpa using hu
  have hm2 : (_IsMetaStream s == true) = false := by
    rw [hmeta]
    rfl
  unfold MergeIn.entryStep
  simp only [hm2, Bool.false_eq_true, if_false, src_relock E src i s hs, u1, u3]
  rcases GetEntryByUuidN_spec m s.uuid with ⟨e0, he0, hu0⟩ | ⟨hno, hall⟩
  · have hN : m.GetEntryByUuidN s.uuid < m.m_pEntries.length := by
      by_contra h
      rw [List.getElem?_eq_none (Nat.not_lt.mp h)] at he0
      exact Option.noConfusion he0
    have hne : (m.GetEntryByUuidN s.uuid != DWORD_MAX) = true := by
      simp only [bne_iff_ne, ne_eq]
      omega
    have hget : m.GetEntry (m.GetEntryByUuidN s.uuid) = some e0 := he0
    simp only [hne, if_true, hget]
    have hv := SetEntry_valid E m (m.GetEntryByUuidN s.uuid) (src.UnlockEntryPassword E s) e0
      he0 hvalid (by rw [u4]; exact t1) (by rw [u5]; exact t2) (by rw [u6]; exact t3)
      (by rw [u8]; exact t4) (by rw [u7]; exact t5)
    have htouch : (MergeIn.touchEntry E (m.SetEntry E (m.GetEntryByUuidN s.uuid)
          (src.UnlockEntryPassword E s)).2 (m.GetEntryByUuidN s.uuid))
        = { m with
            m_pEntries := m.m_pEntries.set (m.GetEntryByUuidN s.uuid)
              (mergeReplace E m src e0 s) } := by
      rw [hv]
      unfold MergeIn.touchEntry GetEntry
      simp only [List.getElem?_set_self hN, List.set_set]
      rfl
    rw [htouch]
    refine ⟨?_, ?_, ?_, fun hall => absurd hu0 (hall e0 (List.getElem?_mem he0)), ?_⟩
    · split_ifs <;> rfl
    · split_ifs <;> rfl
    · split_ifs <;> rfl
    · intro k e hk hku hfirst
      have hkN : m.GetEntryByUuidN s.uuid = k := GetEntryByUuidN_first m s.uuid k e hk hku hfirst
      rw [hkN] at he0 ⊢
      rw [hk] at he0
      cases he0
      by_cases hc : _pwtimecmp e0.tLastMod s.tLastMod < 0
      · have hc' : ¬ (_pwtimecmp e0.tLastMod s.tLastMod ≥ 0) := by omega
        simp [hc, hc']
      · have hc' : _pwtimecmp e0.tLastMod s.tLastMod ≥ 0 := by omega
        simp [hc, hc']
  · have hne : (m.GetEntryByUuidN s.uuid != DWORD_MAX) = false := by
      rw [hno]
      simp
    simp only [hne, Bool.false_eq_true, if_false]
    have hadd := AddEntry_valid E m r (src.UnlockEntryPassword E s) hvalid
    simp only [hnz, Bool.false_eq_true, if_false] at hadd
    rw [hadd]
    refine ⟨rfl, rfl, rfl, fun _ => ?_, fun k e hk hku _ => ?_⟩
    · simp only []
      unfold mergeAppend
      rw [fill_congr E { m with m_pEntries := m.m_pEntries ++ [PW_ENTRY.zero] } m _ _ rfl, u1]
    · exact absurd hku (hall e (List.getElem?_mem hk))

theorem entryStep_meta (E : Env) (m src : CPwManager) (r : Rand) (i : Nat) (s : PW_ENTRY)
    (bNew bCmp : Bool) (hmeta : _IsMetaStream s = true) :
    MergeIn.entryStep E bNew bCmp i s m src r = (m, src, r) := by
  unfold MergeIn.entryStep
  simp [hmeta]

theorem mergeReplace_congr (E : Env) (m1 m2 src : CPwManager) (e s : PW_ENTRY)
    (h : m1.m_pSessionKey = m2.m_pSessionKey) :
    mergeReplace E m1 src e s = mergeReplace E m2 src e s := by
  unfold mergeReplace
  rw [fill_congr E m1 m2 _ _ h]

theorem mergeAppend_congr (E : Env) (m1 m2 src : CPwManager) (s : PW_ENTRY)
    (h : m1.m_pSessionKey = m2.m_pSessionKey) :
    mergeAppend E m1 src s = mergeAppend E m2 src s := by
  unfold mergeAppend
  rw [fill_congr E m1 m2 _ _ h]

theorem mergeReplace_uuid (E : Env) (m src : CPwManager) (e s : PW_ENTRY) :
    (mergeReplace E m src e s).uuid = s.uuid := by
  unfold mergeReplace
  show (SetEntry.fill E m e (src.UnlockEntryPassword E s)).uuid = s.uuid
  rw [fill_uuid]
  exact (unlock_fields E src s).1

theorem mergeAppend_uuid (E : Env) (m src : CPwManager) (s : PW_ENTRY) :
    (mergeAppend E m src s).uuid = s.uuid := by
  unfold mergeAppend
  rw [fill_uuid]
  rfl

theorem mergeLocal_uuid (E : Env) (m src : CPwManager) (ss : List PW_ENTRY) (e : PW_ENTRY) :
    (mergeLocal E m src ss e).uuid = e.uuid := by
  unfold mergeLocal
  cases hf : ss.find? (fun s => s.uuid == e.uuid) with
  | none => rfl
  | some s =>
    simp only []
    split_ifs
    · rw [mergeReplace_uuid]
      have := List.find?_some hf
      simpa using this
    · rfl

theorem mergeLocal_none (E : Env) (m src : CPwManager) (ss : List PW_ENTRY) (e : PW_ENTRY)
    (h : ∀ s ∈ ss, s.uuid ≠ e.uuid) : mergeLocal E m src ss e = e := by
  unfold mergeLocal
  have : ss.find? (fun s => s.uuid == e.uuid) = none := by
    rw [List.find?_eq_none]
    intro s hs
    simpa using h s hs
  rw [this]

theorem mergeLocal_append_ne (E : Env) (m src : CPwManager) (ss : List PW_ENTRY)
    (s e : PW_ENTRY) (h : s.uuid ≠ e.uuid) :
    mergeLocal E m src (ss ++ [s]) e = mergeLocal E m src ss e := by
  unfold mergeLocal
  rw [List.find?_append]
  have hs : [s].find? (fun s => s.uuid == e.uuid) = none := by
    simp [List.find?_cons, h]
  rw [hs]
  cases ss.find? (fun s => s.uuid == e.uuid) <;> rfl

theorem mergeLocal_append_eq (E : Env) (m src : CPwManager) (ss : List PW_ENTRY)
    (s e : PW_ENTRY) (h : s.uuid = e.uuid) (hno : ∀ s' ∈ ss, s'.uuid ≠ e.uuid) :
    mergeLocal E m src (ss ++ [s]) e
      = if _pwtimecmp e.tLastMod s.tLastMod < 0 then mergeReplace E m src e s else e := by
  unfold mergeLocal
  rw [List.find?_append]
  have h1 : ss.find? (fun s => s.uuid == e.uuid) = none := by
    rw [List.find?_eq_none]
    intro s' hs'
    simpa using hno s' hs'
  have h2 : [s].find? (fun s => s.uuid == e.uuid) = some s := by
    simp [List.find?_cons, h]
  rw [h1, h2]
  rfl

theorem map_set_of_unique {α β : Type} (l : List α) (f f' : α → β) (k : Nat) (e : α)
    (hk : l[k]? = some e)
    (hother : ∀ j e', j ≠ k → l[j]? = some e' → f' e' = f e') :
    l.map f' = (l.map f).set k (f' e) := by
  apply List.ext_getElem?
  intro j
  rw [List.getElem?_set, List.getElem?_map, List.getElem?_map]
  by_cases hjk : k = j
  · subst hjk
    have hlt : k < l.length := (List.getElem?_eq_some_iff.mp hk).1
    simp [hk, hlt]
  · rw [if_neg hjk]
    cases hj : l[j]? with
    | none => rfl
    | some e' =>
      simp only [Option.map_some']
      rw [hother j e' (fun h => hjk h.symm) hj]

theorem nodup_uuid_ne (l : List PW_ENTRY) (hnd : (l.map (fun e => e.uuid)).Nodup)
    (j k : Nat) (a b : PW_ENTRY) (hj : l[j]? = some a) (hk : l[k]? = some b) (hjk : j ≠ k) :
    a.uuid ≠ b.uuid := by
  intro h
  obtain ⟨hjl, hja⟩ := List.getElem?_eq_some_iff.mp hj
  obtain ⟨hkl, hkb⟩ := List.getElem?_eq_some_iff.mp hk
  have hjl' : j < (l.map (fun e => e.uuid)).length := by simpa using hjl
  have hkl' : k < (l.map (fun e => e.uuid)).length := by simpa using hkl
  have h1 : (l.map (fun e => e.uuid))[j] = (l.map (fun e => e.uuid))[k] := by
    simp only [List.getElem_map, hja, hkb, h]
  exact hjk ((List.Nodup.getElem_inj_iff hnd).mp h1)

theorem mergeNew_append (m : CPwManager) (ss : List PW_ENTRY) (s : PW_ENTRY) :
    mergeNew m (ss ++ [s])
      = mergeNew m ss ++ (if m.m_pEntries.any (fun e => e.uuid == s.uuid) then [] else [s]) := by
  unfold mergeNew
  rw [List.filter_append]
  congr 1
  by_cases h : m.m_pEntries.any (fun e => e.uuid == s.uuid) = true
  · simp [List.filter_cons, h]
  · simp [List.filter_cons, h]

theorem take_succ_filter {α : Type} (p : α → Bool) (l : List α) (i : Nat) (x : α)
    (h : l[i]? = some x) :
    (l.take (i + 1)).filter p = (l.take i).filter p ++ (if p x then [x] else []) := by
  rw [List.take_succ, h, List.filter_append]
  congr 1
  by_cases hp : p x = true
  · simp [List.filter_cons, hp]
  · simp [List.filter_cons, hp]

/-- The entry loop of `MergeIn` by UUID with comparison of times, from the
source entry of index `i` on: when the entries hold what the source entries
before `i` make of the local ones, the loop leaves what all source entries make
of them. -/
theorem entryLoop_false (E : Env) (m0 src : CPwManager)
    (hS : ∀ s ∈ mergeSource src, MergeReady s)
    (hSn : ((mergeSource src).map (fun e => e.uuid)).Nodup)
    (hB : (m0.m_pEntries.map (fun e => e.uuid)).Nodup)
    (hlen : m0.m_pEntries.length + src.m_pEntries.length ≤ DWORD_MAX) :
    ∀ (n i : Nat) (m : CPwManager) (r : Rand), i + n = src.m_pEntries.length →
      m.m_pSessionKey = m0.m_pSessionKey →
      m.m_pEntries
        = m0.m_pEntries.map
            (mergeLocal E m0 src ((src.m_pEntries.take i).filter (fun e => !_IsMetaStream e)))
          ++ (mergeNew m0 ((src.m_pEntries.take i).filter (fun e => !_IsMetaStream e))).map
              (mergeAppend E m0 src) →
      (MergeIn.entryLoop E false true n i m src r).1.m_pEntries
          = m0.m_pEntries.map (mergeLocal E m0 src (mergeSource src))
            ++ (mergeNew m0 (mergeSource src)).map (mergeAppend E m0 src)
      ∧ (MergeIn.entryLoop E false true n i m src r).1.m_pGroups = m.m_pGroups
      ∧ (MergeIn.entryLoop E false true n i m src r).2 = (src, r) := by
  intro n
  induction n with
  | zero =>
    intro i m r hi hkey hinv
    unfold MergeIn.entryLoop
    have : src.m_pEntries.take i = src.m_pEntries := List.take_of_length_le (by omega)
    rw [this] at hinv
    exact ⟨hinv, rfl, rfl⟩
  | succ n ih =>
    intro i m r hi hkey hinv
    have hil : i < src.m_pEntries.length := by omega
    have hsi : src.m_pEntries[i]? = some src.m_pEntries[i] := List.getElem?_eq_getElem hil
    generalize src.m_pEntries[i] = s at hsi
    unfold MergeIn.entryLoop
    have hget : src.GetEntry i = some s := hsi
    rw [hget]
    simp only []
    have hpre := take_succ_filter (fun e => !_IsMetaStream e) src.m_pEntries i s hsi
    generalize hss : (src.m_pEntries.take i).filter (fun e => !_IsMetaStream e) = ss at hinv hpre
    by_cases hmeta : _IsMetaStream s = true
    · rw [entryStep_meta E m src r i s false true hmeta]
      simp only []
      have hpre' : (src.m_pEntries.take (i + 1)).filter (fun e => !_IsMetaStream e) = ss := by
        rw [hpre]
        simp [hmeta]
      exact ih (i + 1) m r (by omega) hkey (by rw [hpre']; exact hinv)
    · have hmf : _IsMetaStream s = false := by simpa using hmeta
      have hpre' : (src.m_pEntries.take (i + 1)).filter (fun e => !_IsMetaStream e)
          = ss ++ [s] := by
        rw [hpre]
        simp [hmf]
      have hsub : (ss ++ [s]).Sublist (mergeSource src) := by
        rw [← hpre']
        unfold mergeSource
        exact (List.take_sublist _ _).filter _
      have hsS : s ∈ mergeSource src := hsub.subset (by simp)
      have hnd2 : ((ss ++ [s]).map (fun e => e.uuid)).Nodup := hSn.sublist (hsub.map _)
      have hsnew : ∀ s' ∈ ss, s'.uuid ≠ s.uuid := by
        intro s' hs' heq
        rw [List.map_append, List.nodup_append] at hnd2
        exact hnd2.2.2 (List.mem_map_of_mem _ hs') (by simp [heq])
      have hmlen : m.m_pEntries.length ≤ DWORD_MAX := by
        have h1 : (mergeNew m0 ss).length ≤ ss.length := by
          unfold mergeNew
          exact List.length_filter_le _ _
        have h2 : ss.length ≤ i := by
          rw [← hss]
          exact le_trans (List.length_filter_le _ _) (by rw [List.length_take]; omega)
        rw [hinv]
        simp only [List.length_append, List.length_map]
        omega
      obtain ⟨q1, q2, q3, q4, q5⟩ := entryStep_false E m src r i s hsi hmf (hS s hsS) hmlen
      have hres : MergeIn.entryStep E false true i s m src r
          = ((MergeIn.entryStep E false true i s m src r).1, src, r) := by
        rw [← q1]
      rw [hres]
      simp only []
      have hnext : (MergeIn.entryStep E false true i s m src r).1.m_pEntries
          = m0.m_pEntries.map (mergeLocal E m0 src (ss ++ [s]))
            ++ (mergeNew m0 (ss ++ [s])).map (mergeAppend E m0 src) := by
        by_cases hin : ∃ e ∈ m0.m_pEntries, e.uuid = s.uuid
        · obtain ⟨e, he, heu⟩ := hin
          obtain ⟨k, hk⟩ := List.getElem?_of_mem he
          have hklt : k < m0.m_pEntries.length := (List.getElem?_eq_some_iff.mp hk).1
          have hlocal : mergeLocal E m0 src ss e = e :=
            mergeLocal_none E m0 src ss e (fun s' hs' => by rw [heu]; exact hsnew s' hs')
          have hmk : m.m_pEntries[k]? = some e := by
            rw [hinv, List.getElem?_append_left (by simpa using hklt), List.getElem?_map, hk]
            simp [hlocal]
          have hfirst : ∀ j e', j < k → m.m_pEntries[j]? = some e' → e'.uuid ≠ s.uuid := by
            intro j e' hj he'
            rw [hinv, List.getElem?_append_left (by simp; omega), List.getElem?_map] at he'
            cases hbj : m0.m_pEntries[j]? with
            | none => rw [hbj] at he'; simp at he'
            | some b =>
              rw [hbj] at he'
              simp only [Option.map_some', Option.some.injEq] at he'
              rw [← he', mergeLocal_uuid, ← heu]
              exact nodup_uuid_ne _ hB j k b e hbj hk (by omega)
          rw [q5 k e hmk heu hfirst]
          have hany : m0.m_pEntries.any (fun e => e.uuid == s.uuid) = true := by
            rw [List.any_eq_true]
            exact ⟨e, he, by simp [heu]⟩
          rw [mergeNew_append, hany]
          simp only [if_true, List.append_nil]
          have hmap : m0.m_pEntries.map (mergeLocal E m0 src (ss ++ [s]))
              = (m0.m_pEntries.map (mergeLocal E m0 src ss)).set k
                  (mergeLocal E m0 src (ss ++ [s]) e) := by
            apply map_set_of_unique _ _ _ k e hk
            intro j e' hjk hj
            apply mergeLocal_append_ne
            rw [← heu]
            exact fun h => nodup_uuid_ne _ hB j k e' e hj hk hjk h.symm
          rw [hmap, mergeLocal_append_eq E m0 src ss s e heu.symm
            (fun s' hs' => by rw [heu]; exact hsnew s' hs')]
          by_cases hc : _pwtimecmp e.tLastMod s.tLastMod < 0
          · rw [if_pos hc, if_pos hc, hinv, List.set_append_left _ _ (by simpa using hklt),
              mergeReplace_congr E m m0 src e s hkey]
          · rw [if_neg hc, if_neg hc, hinv]
            congr 1
            rw [set_same_val]
            rw [List.getElem?_map, hk]
            simp [hlocal]
        · have hall : ∀ e ∈ m0.m_pEntries, e.uuid ≠ s.uuid := by
            intro e he heu
            exact hin ⟨e, he, heu⟩
          have hallm : ∀ e ∈ m.m_pEntries, e.uuid ≠ s.uuid := by
            intro e he
            rw [hinv, List.mem_append] at he
            rcases he with he | he
            · obtain ⟨b, hb, rfl⟩ := List.mem_map.mp he
              rw [mergeLocal_uuid]
              exact hall b hb
            · obtain ⟨b, hb, rfl⟩ := List.mem_map.mp he
              rw [mergeAppend_uuid]
              unfold mergeNew at hb
              exact hsnew b (List.mem_filter.mp hb).1
          rw [q4 hallm]
          have hany : m0.m_pEntries.any (fun e => e.uuid == s.uuid) = false := by
            rw [Bool.eq_false_iff]
            intro h
            rw [List.any_eq_true] at h
            obtain ⟨e, he, heq⟩ := h
            exact hall e he (by simpa using heq)
          rw [mergeNew_append, hany]
          simp only [Bool.false_eq_true, if_false, List.map_append, List.map_cons, List.map_nil]
          have hmap : m0.m_pEntries.map (mergeLocal E m0 src (ss ++ [s]))
              = m0.m_pEntries.map (mergeLocal E m0 src ss) := by
            apply List.map_congr_left
            intro e he
            exact mergeLocal_append_ne E m0 src ss s e (fun h => hall e he h.symm)
          rw [hmap, hinv, List.append_assoc, mergeAppend_congr E m m0 src s hkey]
      obtain ⟨r1, r2, r3⟩ := ih (i + 1) (MergeIn.entryStep E false true i s m src r).1 r
        (by omega) (by rw [q3, hkey]) (by rw [hpre']; exact hnext)
      exact ⟨r1, by rw [r2, q2], r3⟩

theorem mergeReplace_group (E : Env) (m src : CPwManager) (e s : PW_ENTRY) :
    (mergeReplace E m src e s).uGroupId = s.uGroupId := by
  unfold mergeReplace
  show (SetEntry.fill E m e (src.UnlockEntryPassword E s)).uGroupId = s.uGroupId
  rw [fill_eq]
  exact (unlock_fields E src s).2.1

theorem mergeAppend_group (E : Env) (m src : CPwManager) (s : PW_ENTRY) :
    (mergeAppend E m src s).uGroupId = s.uGroupId := by
  unfold mergeAppend
  rw [fill_eq]
  exact (unlock_fields E src s).2.1

theorem mergeLocal_group (E : Env) (m src : CPwManager) (ss : List PW_ENTRY) (e : PW_ENTRY) :
    (mergeLocal E m src ss e).uGroupId = e.uGroupId
    ∨ ∃ s ∈ ss, (mergeLocal E m src ss e).uGroupId = s.uGroupId := by
  unfold mergeLocal
  cases hf : ss.find? (fun s => s.uuid == e.uuid) with
  | none => left; rfl
  | some s =>
    simp only []
    split_ifs
    · right
      exact ⟨s, List.mem_of_find?_eq_some hf, mergeReplace_group E m src e s⟩
    · left; rfl

theorem MergeIn_false_entries (E : Env) (m src : CPwManager) (r : Rand)
    (hS : ∀ s ∈ mergeSource src, MergeReady s)
    (hSn : ((mergeSource src).map (fun e => e.uuid)).Nodup)
    (hSg : ∀ s ∈ mergeSource src, ∃ g ∈ src.m_pGroups, g.uGroupId = s.uGroupId)
    (hG : ∀ g ∈ src.m_pGroups, g.uGroupId ≠ 0 ∧ g.uGroupId ≠ DWORD_MAX)
    (hB : (m.m_pEntries.map (fun e => e.uuid)).Nodup)
    (hBg : ∀ e ∈ m.m_pEntries, ∃ g ∈ m.m_pGroups, g.uGroupId = e.uGroupId)
    (hlen : m.m_pEntries.length + src.m_pEntries.length ≤ DWORD_MAX)
    (hglen : m.m_pGroups.length + src.m_pGroups.length ≤ DWORD_MAX) :
    ∃ res, MergeIn E m src r false true = some res
      ∧ res.1.m_pEntries
          = m.m_pEntries.map (mergeLocal E m src (mergeSource src))
            ++ (mergeNew m (mergeSource src)).map (mergeAppend E m src) := by
  obtain ⟨m1, g1, g2, g3, g4, g5, g6⟩ :=
    groupLoop_false E true src r hG src.m_pGroups.length 0 m
  unfold MergeIn
  have hn : src.GetNumberOfGroups = src.m_pGroups.length := rfl
  rw [hn, g1]
  simp only []
  have hne : src.GetNumberOfEntries = src.m_pEntries.length := rfl
  rw [hne]
  have hinv0 : m1.FixGroupTree.m_pEntries
      = m.m_pEntries.map
          (mergeLocal E m src ((src.m_pEntries.take 0).filter (fun e => !_IsMetaStream e)))
        ++ (mergeNew m ((src.m_pEntries.take 0).filter (fun e => !_IsMetaStream e))).map
            (mergeAppend E m src) := by
    rw [FixGroupTree_entries, g2]
    have hid : (mergeLocal E m src ([] : List PW_ENTRY)) = id := by
      funext e
      exact mergeLocal_none E m src [] e (fun s hs => absurd hs (List.not_mem_nil s))
    simp [mergeNew, hid]
  have hkey : m1.FixGroupTree.m_pSessionKey = m.m_pSessionKey := by
    rw [← g3]
    rfl
  obtain ⟨l1, l2, l3⟩ := entryLoop_false E m src hS hSn hB hlen src.m_pEntries.length 0
    m1.FixGroupTree r (by omega) hkey hinv0
  generalize MergeIn.entryLoop E false true src.m_pEntries.length 0 m1.FixGroupTree src r = out
    at l1 l2 l3
  rw [DeleteLostEntries_eq]
  simp only []
  refine ⟨_, rfl, ?_⟩
  simp only []
  have hgl : out.1.m_pGroups.length ≤ DWORD_MAX := by
    rw [l2, FixGroupTree_length]
    omega
  have hids : ∀ x, x ∈ m.m_pGroups.map (fun g => g.uGroupId)
      ∨ x ∈ src.m_pGroups.map (fun g => g.uGroupId) →
      ∃ g ∈ out.1.m_pGroups, g.uGroupId = x := by
    intro x hx
    have hx1 : x ∈ m1.m_pGroups.map (fun g => g.uGroupId) := by
      rcases hx with hx | hx
      · exact g5 x hx
      · obtain ⟨g, hg, rfl⟩ := List.mem_map.mp hx
        obtain ⟨j, hj⟩ := List.getElem?_of_mem hg
        have hjl : j < src.m_pGroups.length := (List.getElem?_eq_some_iff.mp hj).1
        exact g6 j g (Nat.zero_le _) (by omega) hj
    rw [← FixGroupTree_ids, ← l2] at hx1
    obtain ⟨g, hg, hgx⟩ := List.mem_map.mp hx1
    exact ⟨g, hg, hgx⟩
  have hsrcid : ∀ s ∈ mergeSource src, ∃ g ∈ out.1.m_pGroups, g.uGroupId = s.uGroupId := by
    intro s hs
    obtain ⟨g, hg, hgs⟩ := hSg s hs
    exact hids _ (Or.inr (List.mem_map.mpr ⟨g, hg, hgs⟩))
  have hfil : out.1.m_pEntries.filter (fun e => (out.1.GetGroupById e.uGroupId).isSome)
      = out.1.m_pEntries := by
    rw [List.filter_eq_self]
    intro e he
    apply GetGroupById_isSome _ _ hgl
    rw [l1, List.mem_append] at he
    rcases he with he | he
    · obtain ⟨b, hb, rfl⟩ := List.mem_map.mp he
      rcases mergeLocal_group E m src (mergeSource src) b with h | ⟨s, hs, h⟩
      · rw [h]
        obtain ⟨g, hg, hgs⟩ := hBg b hb
        exact hids _ (Or.inl (List.mem_map.mpr ⟨g, hg, hgs⟩))
      · rw [h]
        exact hsrcid s hs
    · obtain ⟨b, hb, rfl⟩ := List.mem_map.mp he
      rw [mergeAppend_group]
      unfold mergeNew at hb
      exact hsrcid b (List.mem_filter.mp hb).1
  rw [hfil, l1]

set_option maxRecDepth 100000 in
/-- C28, as stated, fails: merging by UUID with comparison of times replaces
the local entry titled "old" by the source entry titled "new", modified a year
later, but the time of last access of the replaced entry is the current time,
not the one of the source entry. -/
theorem C28_merge_replace_or_keep_counterexample :
    (MergeIn (sampleEnv none) sampleMergeLocal sampleMergeSource sampleRand false true).map
        (fun res => res.1.m_pEntries.map (fun e => (e.pszTitle, e.tLastMod, e.tLastAccess)))
      = some [(some (tstr "new"), ⟨2008, 1, 1, 1, 1, 1⟩, (sampleEnv none).tNow),
              (some (tstr "more"), sampleTime, sampleTime)]
    ∧ sampleMergeSource.m_pEntries.map (fun e => (e.pszTitle, e.tLastMod, e.tLastAccess))
      = [(some (tstr "new"), ⟨2008, 1, 1, 1, 1, 1⟩, sampleTime),
         (some (tstr "more"), sampleTime, sampleTime)]
    ∧ (sampleEnv none).tNow ≠ sampleTime := by
  decide

/-- C28, amended.  `MergeIn` by UUID with comparison of times, for a source
whose entries other than meta-streams have pairwise distinct non-zero UUIDs,
non-`NULL` texts and a group of the source, whose group ids are neither 0 nor
`DWORD_MAX`, and a database with pairwise distinct UUIDs and no entry without
group (the counts fitting a `DWORD`), returns and leaves these entries: each
local entry, in its place, left as it was when no source entry other than a
meta-stream has its UUID or when the one that has it was not modified strictly
later, and otherwise holding the fields of that source entry with the current
time as time of last access; after them, in the order of the source, the
source entries other than meta-streams whose UUID no local entry has. -/
theorem C28_merge_replace_or_keep (E : Env) (m src : CPwManager) (r : Rand)
    (hS : ∀ s ∈ mergeSource src, MergeReady s)
    (hSn : ((mergeSource src).map (fun e => e.uuid)).Nodup)
    (hSg : ∀ s ∈ mergeSource src, ∃ g ∈ src.m_pGroups, g.uGroupId = s.uGroupId)
    (hG : ∀ g ∈ src.m_pGroups, g.uGroupId ≠ 0 ∧ g.uGroupId ≠ DWORD_MAX)
    (hB : (m.m_pEntries.map (fun e => e.uuid)).Nodup)
    (hBg : ∀ e ∈ m.m_pEntries, ∃ g ∈ m.m_pGroups, g.uGroupId = e.uGroupId)
    (hlen : m.m_pEntries.length + src.m_pEntries.length ≤ DWORD_MAX)
    (hglen : m.m_pGroups.length + src.m_pGroups.length ≤ DWORD_MAX) :
    ∃ res, MergeIn E m src r false true = some res
      ∧ res.1.m_pEntries
          = m.m_pEntries.map (fun e =>
              match (src.m_pEntries.filter (fun s => !_IsMetaStream s)).find?
                  (fun s => s.uuid == e.uuid) with
              | some s =>
                if _pwtimecmp e.tLastMod s.tLastMod < 0 then
                  { SetEntry.fill E m e (src.UnlockEntryPassword E s) with tLastAccess := E.tNow }
                else e
              | none => e)
            ++ ((src.m_pEntries.filter (fun s => !_IsMetaStream s)).filter
                  (fun s => !(m.m_pEntries.any (fun e => e.uuid == s.uuid)))).map
                (fun s => SetEntry.fill E m PW_ENTRY.zero
                  (AddEntry.pT (src.UnlockEntryPassword E s) s.uuid)) :=
  MergeIn_false_entries E m src r hS hSn hSg hG hB hBg hlen hglen

set_option maxRecDepth 100000 in
/-- The amended C28 at the sample databases. -/
theorem C28_merge_replace_or_keep_witness :
    ∃ res, MergeIn (sampleEnv none) sampleMergeLocal sampleMergeSource sampleRand false true
        = some res
      ∧ res.1.m_pEntries.map (fun e => e.pszTitle) = [some (tstr "new"), some (tstr "more")] := by
  obtain ⟨res, h1, h2⟩ := C28_merge_replace_or_keep (sampleEnv none) sampleMergeLocal
    sampleMergeSource sampleRand
    (by unfold MergeReady; decide) (by decide) (by decide) (by decide) (by decide) (by decide)
    (by decide) (by decide)
  refine ⟨res, h1, ?_⟩
  rw [h2]
  decide

theorem cstr_no_zero (s : List Nat) : ∀ x ∈ cstr s, x ≠ 0 := by
  intro x hx
  unfold cstr at hx
  have := List.mem_takeWhile_imp hx
  simpa using this

theorem compareChars_eq_zero : ∀ (a b : List Nat), (∀ x ∈ a, x ≠ 0) → (∀ x ∈ b, x ≠ 0) →
    (compareChars a b = 0 ↔ a = b) := by
  intro a
  induction a with
  | nil =>
    intro b _ hb
    cases b with
    | nil => simp [compareChars]
    | cons y ys =>
      have hy := hb y (List.mem_cons_self _ _)
      simp only [compareChars]
      constructor
      · intro h; omega
      · intro h; exact absurd h (by simp)
  | cons x xs ih =>
    intro b ha hb
    cases b with
    | nil =>
      have hx := ha x (List.mem_cons_self _ _)
      simp only [compareChars]
      constructor
      · intro h; omega
      · intro h; exact absurd h (by simp)
    | cons y ys =>
      simp only [compareChars]
      by_cases hxy : x = y
      · subst hxy
        simp only [if_true, List.cons.injEq, true_and]
        exact ih ys (fun z hz => ha z (List.mem_cons_of_mem _ hz))
          (fun z hz => hb z (List.mem_cons_of_mem _ hz))
      · simp only [hxy, if_false, List.cons.injEq, false_and, iff_false]
        omega

theorem tcscmp_eq_zero (a b : List Nat) : _tcscmp a b = 0 ↔ cstr a = cstr b :=
  compareChars_eq_zero _ _ (cstr_no_zero a) (cstr_no_zero b)

set_option maxRecDepth 100000 in
/-- C36, as stated, fails: `_IsMetaStream` is `TRUE` for an entry with the
marker texts and image 0 whose notes are the empty text and whose attachment
has length 0. -/
theorem C36_meta_stream_recognition_counterexample :
    _IsMetaStream sampleBareStream = true
    ∧ sampleBareStream.pszAdditional = some []
    ∧ sampleBareStream.pBinaryData = some [] ∧ sampleBareStream.uBinaryDataLen = 0 := by
  decide

/-- C36, amended.  For every entry, `_IsMetaStream` is `TRUE` if and only if
the title is "Meta-Info", the user name "SYSTEM", the URL "$", the attachment
description "bin-stream" (each compared as a C string), the image id 0, and the
attachment pointer and the notes pointer are not `NULL`. -/
theorem C36_meta_stream_recognition (e : PW_ENTRY) :
    _IsMetaStream e = true ↔
      ((∃ t, e.pszTitle = some t ∧ cstr t = PMS_ID_TITLE)
        ∧ (∃ u, e.pszUserName = some u ∧ cstr u = PMS_ID_USER)
        ∧ (∃ u, e.pszURL = some u ∧ cstr u = PMS_ID_URL)
        ∧ (∃ d, e.pszBinaryDesc = some d ∧ cstr d = PMS_ID_BINDESC)
        ∧ e.uImageId = 0 ∧ e.pBinaryData.isSome = true ∧ e.pszAdditional.isSome = true) := by
  obtain ⟨c1, c2, c3, c4⟩ := cstr_markers
  unfold _IsMetaStream
  cases hb : e.pBinaryData with
  | none => simp
  | some bd =>
    cases ha : e.pszAdditional with
    | none => simp
    | some ad =>
      cases hd : e.pszBinaryDesc with
      | none => simp
      | some d =>
        cases ht : e.pszTitle with
        | none => simp
        | some t =>
          cases hu : e.pszUserName with
          | none => simp
          | some u =>
            cases hl : e.pszURL with
            | none => simp
            | some l =>
              simp only [Option.isNone_some, Bool.false_eq_true, if_false, bne_iff_ne, ne_eq,
                ite_not, Option.some.injEq, exists_eq_left', Option.isSome_some, and_true]
              rw [← c1, ← c2, ← c3, ← c4]
              simp only [← tcscmp_eq_zero]
              split_ifs <;> simp_all

/-- C37.  For every database and every entry whose notes are "Simple UI State"
(as a C string), with attachment length `L`: `_ParseMetaStream` takes the last
selected group id from bytes 0..3 if `L >= 4`, the last top visible group id
from bytes 4..7 if `L >= 8`, the UUID of the last selected entry from bytes
8..23 if `L >= 24` and the UUID of the last top visible entry from bytes 24..39
if `L >= 40`; a field whose threshold is not met keeps its value, and the
unknown meta-streams, the entries and the groups stay as they are. -/
theorem C37_progressive_ui_state (m : CPwManager) (p : PW_ENTRY) (bAcceptUnknown : Bool)
    (hname : cstr (p.pszAdditional.getD []) = PMS_STREAM_SIMPLESTATE) :
    (m._ParseMetaStream p bAcceptUnknown).m_dwLastSelectedGroupId
        = (if 4 ≤ p.uBinaryDataLen then leValue (readBytes (p.pBinaryData.getD []) 0 4)
            else m.m_dwLastSelectedGroupId)
    ∧ (m._ParseMetaStream p bAcceptUnknown).m_dwLastTopVisibleGroupId
        = (if 8 ≤ p.uBinaryDataLen then leValue (readBytes (p.pBinaryData.getD []) 4 4)
            else m.m_dwLastTopVisibleGroupId)
    ∧ (m._ParseMetaStream p bAcceptUnknown).m_aLastSelectedEntryUuid
        = (if 24 ≤ p.uBinaryDataLen then readBytes (p.pBinaryData.getD []) 8 16
            else m.m_aLastSelectedEntryUuid)
    ∧ (m._ParseMetaStream p bAcceptUnknown).m_aLastTopVisibleEntryUuid
        = (if 40 ≤ p.uBinaryDataLen then readBytes (p.pBinaryData.getD []) 24 16
            else m.m_aLastTopVisibleEntryUuid)
    ∧ (m._ParseMetaStream p bAcceptUnknown).m_vUnknownMetaStreams = m.m_vUnknownMetaStreams
    ∧ (m._ParseMetaStream p bAcceptUnknown).m_pEntries = m.m_pEntries
    ∧ (m._ParseMetaStream p bAcceptUnknown).m_pGroups = m.m_pGroups := by
  have hc : cstr PMS_STREAM_SIMPLESTATE = PMS_STREAM_SIMPLESTATE := by decide
  have h0 : (_tcscmp (p.pszAdditional.getD []) PMS_STREAM_SIMPLESTATE == 0) = true := by
    rw [beq_iff_eq, tcscmp_eq_zero, hname, hc]
  unfold _ParseMetaStream
  simp only [h0, if_true, ge_iff_le]
  refine ⟨?_, ?_, ?_, ?_, ?_, ?_, ?_⟩ <;> split_ifs <;> rfl

set_option maxRecDepth 100000 in
/-- C37 at a "Simple UI State" stream of ten bytes: the two group ids are
taken from the bytes, the two UUIDs keep their values. -/
theorem C37_progressive_ui_state_witness :
    (sampleEmpty._ParseMetaStream sampleShortState true).m_dwLastSelectedGroupId
        = (if 4 ≤ sampleShortState.uBinaryDataLen
            then leValue (readBytes (sampleShortState.pBinaryData.getD []) 0 4)
            else sampleEmpty.m_dwLastSelectedGroupId)
    ∧ (sampleEmpty._ParseMetaStream sampleShortState true).m_aLastSelectedEntryUuid
        = g_uuidZero :=
  ⟨(C37_progressive_ui_state sampleEmpty sampleShortState true (by decide)).1, by decide⟩

theorem FixGroupTree_loop_le (last : Nat) (g : PW_GROUP) :
    (if g.usLevel > (last + 1) % 65536 then (last + 1) % 65536 else g.usLevel)
      ≤ (last + 1) % 65536 := by
  split_ifs <;> omega

theorem FixGroupTree_loop_cons (last : Nat) (g : PW_GROUP) (gs : List PW_GROUP) :
    FixGroupTree.loop last (g :: gs)
      = { g with
          usLevel := if g.usLevel > (last + 1) % 65536 then (last + 1) % 65536 else g.usLevel }
        :: FixGroupTree.loop
            (if g.usLevel > (last + 1) % 65536 then (last + 1) % 65536 else g.usLevel) gs :=
  rfl

theorem FixGroupTree_loop_idem :
    ∀ (gs : List PW_GROUP) (last : Nat),
      FixGroupTree.loop last (FixGroupTree.loop last gs) = FixGroupTree.loop last gs := by
  intro gs
  induction gs with
  | nil => intro last; rfl
  | cons g gs ih =>
    intro last
    have hle := FixGroupTree_loop_le last g
    rw [FixGroupTree_loop_cons last g gs]
    generalize (if g.usLevel > (last + 1) % 65536 then (last + 1) % 65536 else g.usLevel)
      = lvl at hle
    rw [FixGroupTree_loop_cons]
    have hnot : ¬ lvl > (last + 1) % 65536 := by omega
    simp only [hnot, if_false]
    rw [ih lvl]

/-- C39.  For every database, applying `FixGroupTree` twice gives the same
groups (and the same database) as applying it once, whatever the number of
groups and their levels. -/
theorem C39_fix_group_tree_idempotent (m : CPwManager) :
    m.FixGroupTree.FixGroupTree = m.FixGroupTree := by
  unfold FixGroupTree
  cases hgs : m.m_pGroups with
  | nil => simp [FixGroupTree.loop]
  | cons g gs =>
    simp only []
    have h1 : FixGroupTree.loop 0 ({ g with usLevel := 0 } :: gs)
        = { g with usLevel := 0 } :: FixGroupTree.loop 0 gs := by
      rw [FixGroupTree_loop_cons]
      simp
    rw [h1]
    simp only []
    rw [← h1, FixGroupTree_loop_idem]

/-- C32: the code at a parent whose children reach the end of the array.  In
the array of the group "Net" (level 0) and its child "mail" (level 1),
`GetLastChildGroup(0)` is `DWORD_MAX`, not the index 1 of the last child; in
the sample tree, where the group "Home" of level 0 follows the two children of
"Net", it is the index 2 of the last child. -/
theorem C32_last_child_at_end :
    sampleTwoLevels.GetLastChildGroup 0 = DWORD_MAX
    ∧ sampleTwoLevels.m_pGroups.map (fun g => g.usLevel) = [0, 1]
    ∧ sampleTree.GetLastChildGroup 0 = 2 := by
  decide

theorem levelGroup_self (a : Nat) : ({ levelGroup a with usLevel := a } : PW_GROUP) = levelGroup a :=
  rfl

theorem FixGroupTree_loop_stairs (rest : List PW_GROUP) :
    ∀ (n a last : Nat), a ≤ last + 1 → last + 1 < 65536 → a + n ≤ 65536 → 0 < n →
      FixGroupTree.loop last ((List.range' a n).map levelGroup ++ rest)
        = (List.range' a n).map levelGroup ++ FixGroupTree.loop (a + n - 1) rest := by
  intro n
  induction n with
  | zero => intro a last _ _ _ h; omega
  | succ n ih =>
    intro a last h1 h2 h3 _
    rw [List.range'_succ, List.map_cons, List.cons_append, FixGroupTree_loop_cons]
    have hmod : (last + 1) % 65536 = last + 1 := Nat.mod_eq_of_lt h2
    have hlv : (levelGroup a).usLevel = a := rfl
    have hnot : ¬ (levelGroup a).usLevel > (last + 1) % 65536 := by rw [hmod, hlv]; omega
    simp only [hnot, if_false]
    rw [hlv, levelGroup_self]
    by_cases hn : n = 0
    · subst hn
      simp
    · rw [ih (a + 1) a (le_refl _) (by omega) (by omega) (by omega)]
      have : a + 1 + n - 1 = a + (n + 1) - 1 := by omega
      rw [this]
      rfl

theorem sampleStaircase_fixed :
    sampleStaircase.FixGroupTree.m_pGroups = (List.range 65536).map levelGroup ++ [levelGroup 0] := by
  unfold FixGroupTree sampleStaircase
  simp only []
  rw [List.range_eq_range']
  have hsplit : List.range' 0 65536 = 0 :: List.range' 1 65535 := List.range'_succ 0 65535 1
  rw [hsplit]
  simp only [List.map_cons, List.cons_append]
  have hz : ({ levelGroup 0 with usLevel := 0 } : PW_GROUP) = levelGroup 0 := rfl
  rw [hz, FixGroupTree_loop_cons]
  have hlv : (levelGroup 0).usLevel = 0 := rfl
  simp only [hlv, hz]
  have h0 : ¬ (0 > (0 + 1) % 65536) := by decide
  simp only [h0, if_false, hz]
  rw [FixGroupTree_loop_stairs [levelGroup 5] 65535 1 0 (by omega) (by omega) (by omega)
    (by omega)]
  rw [FixGroupTree_loop_cons]
  have h5 : (levelGroup 5).usLevel = 5 := rfl
  have hw : (1 + 65535 - 1 + 1) % 65536 = 0 := by decide
  simp only [h5, hw]
  rfl

theorem sampleStaircase_groups :
    sampleStaircase.m_pGroups = (List.range 65536).map levelGroup ++ [levelGroup 5] := rfl

theorem sampleStaircase_tree : TreeInvariant sampleStaircase.m_pGroups := by
  have hml : ((List.range 65536).map levelGroup).length = 65536 := by
    rw [List.length_map, List.length_range]
  have hg : ∀ i, i < 65536 →
      sampleStaircase.m_pGroups[i]? = some (levelGroup i) := by
    intro i hi
    rw [sampleStaircase_groups, List.getElem?_append_left (by rw [hml]; exact hi),
      List.getElem?_map, List.getElem?_range hi]
    rfl
  have hlast : sampleStaircase.m_pGroups[65536]? = some (levelGroup 5) := by
    rw [sampleStaircase_groups, List.getElem?_append_right (by rw [hml]), hml]
    rfl
  have hlen : sampleStaircase.m_pGroups.length = 65537 := by
    rw [sampleStaircase_groups, List.length_append, hml]
    rfl
  refine ⟨fun g h => ?_, fun i g h hg1 hg2 => ?_⟩
  · rw [hg 0 (by omega)] at h
    cases h
    rfl
  · have hi : i + 1 < 65537 := by
      rw [← hlen]
      exact (List.getElem?_eq_some_iff.mp hg2).1
    rw [hg i (by omega)] at hg1
    cases hg1
    by_cases hi2 : i + 1 < 65536
    · rw [hg (i + 1) hi2] at hg2
      cases hg2
      show i + 1 ≤ i + 1
      omega
    · have : i + 1 = 65536 := by omega
      rw [this, hlast] at hg2
      cases hg2
      show 5 ≤ i + 1
      omega

/-- C33: the code at an array in which a level reaches 65535.  The 65537 groups
of levels 0, 1, ..., 65535, 5 satisfy the tree invariant, and `FixGroupTree`
sets the level of the last group to 0: `(USHORT)(usLastLevel + 1)` is 0 after
level 65535, where the reference `min(5, 65535 + 1)` keeps 5. -/
theorem C33_fix_group_tree_wraps :
    TreeInvariant sampleStaircase.m_pGroups
    ∧ sampleStaircase.m_pGroups = (List.range 65536).map levelGroup ++ [levelGroup 5]
    ∧ sampleStaircase.FixGroupTree.m_pGroups
        = (List.range 65536).map levelGroup ++ [levelGroup 0] :=
  ⟨sampleStaircase_tree, sampleStaircase_groups, sampleStaircase_fixed⟩

theorem GetGroupByIdN_loop_first (id : Nat) :
    ∀ (gs : List PW_GROUP) (i k : Nat) (g : PW_GROUP), gs[k]? = some g → g.uGroupId = id →
      (∀ j x, j < k → gs[j]? = some x → x.uGroupId ≠ id) →
      GetGroupByIdN.loop id i gs = i + k := by
  intro gs
  induction gs with
  | nil => intro i k g h; simp at h
  | cons a rest ih =>
    intro i k g hk hid hfirst
    unfold GetGroupByIdN.loop
    cases k with
    | zero =>
      simp only [List.getElem?_cons_zero, Option.some.injEq] at hk
      subst hk
      simp [hid]
    | succ k =>
      have ha : a.uGroupId ≠ id := hfirst 0 a (by omega) (by simp)
      have hb : (a.uGroupId == id) = false := by simpa using ha
      simp only [hb, Bool.false_eq_true, if_false]
      rw [ih (i + 1) k g (by simpa using hk) hid
        (fun j x hj hx => hfirst (j + 1) x (by omega) (by simpa using hx))]
      omega

theorem GetGroupByIdN_first (m : CPwManager) (id k : Nat) (g : PW_GROUP)
    (hk : m.m_pGroups[k]? = some g) (hid : g.uGroupId = id)
    (hfirst : ∀ j x, j < k → m.m_pGroups[j]? = some x → x.uGroupId ≠ id) :
    m.GetGroupByIdN id = k := by
  unfold GetGroupByIdN
  rw [GetGroupByIdN_loop_first id m.m_pGroups 0 k g hk hid hfirst]
  omega

theorem getD_level (groups : List PW_GROUP) (i : Nat) (g : PW_GROUP) (h : groups[i]? = some g) :
    (groups.getD i PW_GROUP.zero).usLevel = g.usLevel := by
  rw [List.getD_eq_getElem?_getD, h]
  rfl

theorem tree_levels (groups : List PW_GROUP) (ht : TreeInvariant groups) :
    (0 < groups.length → (groups.getD 0 PW_GROUP.zero).usLevel = 0)
    ∧ ∀ j, j + 1 < groups.length →
        (groups.getD (j + 1) PW_GROUP.zero).usLevel ≤ (groups.getD j PW_GROUP.zero).usLevel + 1 := by
  obtain ⟨h0, hs⟩ := ht
  constructor
  · intro hn
    have hg : groups[0]? = some groups[0] := List.getElem?_eq_getElem hn
    rw [getD_level groups 0 _ hg]
    exact h0 _ hg
  · intro j hj
    have hg1 : groups[j]? = some groups[j] := List.getElem?_eq_getElem (by omega)
    have hg2 : groups[j + 1]? = some groups[j + 1] := List.getElem?_eq_getElem hj
    rw [getD_level groups _ _ hg1, getD_level groups _ _ hg2]
    exact hs j _ _ hg1 hg2

theorem GetGroupTree_loop_spec (groups : List PW_GROUP) (ht : TreeInvariant groups) :
    ∀ (i u : Nat) (out : List Nat), i < groups.length → 1 ≤ u →
      u ≤ (groups.getD i PW_GROUP.zero).usLevel + 1 → u ≤ out.length →
      ∃ res, GetGroupTree.loop groups i u out = (true, res) ∧ res.length = out.length
        ∧ (∀ k, u ≤ k → res[k]? = out[k]?)
        ∧ ∀ k, k < u → ∃ a, res[k]? = some a
            ∧ a < (if k + 1 < u then res.getD (k + 1) 0 else i + 1)
            ∧ (groups.getD a PW_GROUP.zero).usLevel = k
            ∧ ∀ j, a < j → j < (if k + 1 < u then res.getD (k + 1) 0 else i + 1) →
                (groups.getD j PW_GROUP.zero).usLevel ≠ k := by
  obtain ⟨lvz, lvs⟩ := tree_levels groups ht
  intro i
  induction i with
  | zero =>
    intro u out hi hu1 hu2 hlen
    have h0 := lvz hi
    have hu : u = 1 := by omega
    subst hu
    unfold GetGroupTree.loop GetGroupTree.visit
    have hhit : (((groups.getD 0 PW_GROUP.zero).usLevel : Int) == ((1 : Nat) : Int) - 1) = true := by
      rw [h0]
      rfl
    simp only [hhit, if_true, Nat.sub_self, beq_self_eq_true]
    refine ⟨_, rfl, by simp, ?_, ?_⟩
    · intro k hk
      rw [List.getElem?_set_ne (by omega)]
    · intro k hk
      have hk0 : k = 0 := by omega
      subst hk0
      refine ⟨0, ?_, by simp, h0, ?_⟩
      · rw [List.getElem?_set_self (by omega)]
      · intro j h1 h2
        simp at h2
        omega
  | succ i ih =>
    intro u out hi hu1 hu2 hlen
    have hstep := lvs i hi
    unfold GetGroupTree.loop GetGroupTree.visit
    by_cases hhit : (groups.getD (i + 1) PW_GROUP.zero).usLevel + 1 = u
    · have hb : (((groups.getD (i + 1) PW_GROUP.zero).usLevel : Int) == (u : Int) - 1) = true := by
        rw [beq_iff_eq]
        omega
      simp only [hb, if_true]
      by_cases hz : u - 1 = 0
      · have hzb : (u - 1 == 0) = true := by simpa using hz
        simp only [hzb, if_true]
        have hu : u = 1 := by omega
        subst hu
        refine ⟨_, rfl, by simp, ?_, ?_⟩
        · intro k hk
          rw [List.getElem?_set_ne (by omega)]
        · intro k hk
          have hk0 : k = 0 := by omega
          subst hk0
          refine ⟨i + 1, ?_, by simp, by omega, ?_⟩
          · rw [List.getElem?_set_self (by omega)]
          · intro j h1 h2
            simp at h2
            omega
      · have hzb : (u - 1 == 0) = false := by simpa using hz
        simp only [hzb, Bool.false_eq_true, if_false]
        obtain ⟨res, r1, r2, r3, r4⟩ := ih (u - 1) (out.set (u - 1) (i + 1)) (by omega)
          (by omega) (by omega) (by simp; omega)
        have htop : res[u - 1]? = some (i + 1) := by
          rw [r3 (u - 1) (le_refl _), List.getElem?_set_self (by omega)]
        refine ⟨res, r1, by simpa using r2, ?_, ?_⟩
        · intro k hk
          rw [r3 k (by omega), List.getElem?_set_ne (by omega)]
        · intro k hk
          by_cases hku : k = u - 1
          · subst hku
            have hn : ¬ (u - 1 + 1 < u) := by omega
            simp only [hn, if_false]
            exact ⟨i + 1, htop, by omega, by omega, fun j h1 h2 => by omega⟩
          · obtain ⟨a, a1, a2, a3, a4⟩ := r4 k (by omega)
            have hup : (if k + 1 < u - 1 then res.getD (k + 1) 0 else i + 1)
                = (if k + 1 < u then res.getD (k + 1) 0 else i + 1 + 1) := by
              have hlt : k + 1 < u := by omega
              simp only [hlt, if_true]
              by_cases hk2 : k + 1 < u - 1
              · simp only [hk2, if_true]
              · simp only [hk2, if_false]
                have : k + 1 = u - 1 := by omega
                rw [this, List.getD_eq_getElem?_getD, htop]
                rfl
            rw [hup] at a2 a4
            exact ⟨a, a1, a2, a3, a4⟩
    · have hb : (((groups.getD (i + 1) PW_GROUP.zero).usLevel : Int) == (u : Int) - 1) = false := by
        rw [beq_eq_false_iff_ne]
        omega
      simp only [hb, Bool.false_eq_true, if_false]
      obtain ⟨res, r1, r2, r3, r4⟩ := ih u out (by omega) hu1 (by omega) hlen
      refine ⟨res, r1, r2, r3, ?_⟩
      intro k hk
      obtain ⟨a, a1, a2, a3, a4⟩ := r4 k hk
      by_cases hk2 : k + 1 < u
      · simp only [hk2, if_true] at a2 a4 ⊢
        exact ⟨a, a1, a2, a3, a4⟩
      · simp only [hk2, if_false] at a2 a4 ⊢
        refine ⟨a, a1, by omega, a3, ?_⟩
        intro j h1 h2
        by_cases hj : j < i + 1
        · exact a4 j h1 hj
        · have : j = i + 1 := by omega
          subst this
          omega

theorem sampleTwins_tree : TreeInvariant sampleTwins.m_pGroups := by
  have h : sampleTwins.m_pGroups.map (fun g => g.usLevel) = [0, 0, 1] := by decide
  have hl : ∀ (i : Nat) (g : PW_GROUP), sampleTwins.m_pGroups[i]? = some g →
      [0, 0, 1][i]? = some g.usLevel := by
    intro i g hg
    rw [← h, List.getElem?_map, hg]
    rfl
  refine ⟨fun g hg => ?_, fun i g k hg hk => ?_⟩
  · have := hl 0 g hg
    simp at this
    omega
  · have h1 := hl i g hg
    have h2 := hl (i + 1) k hk
    match i with
    | 0 => simp at h1 h2; omega
    | 1 => simp at h1 h2; omega
    | i + 2 => simp at h2

theorem sampleTree_tree : TreeInvariant sampleTree.m_pGroups := by
  have h : sampleTree.m_pGroups.map (fun g => g.usLevel) = [0, 1, 1, 0] := by decide
  have hl : ∀ (i : Nat) (g : PW_GROUP), sampleTree.m_pGroups[i]? = some g →
      [0, 1, 1, 0][i]? = some g.usLevel := by
    intro i g hg
    rw [← h, List.getElem?_map, hg]
    rfl
  refine ⟨fun g hg => ?_, fun i g k hg hk => ?_⟩
  · have := hl 0 g hg
    simp at this
    omega
  · have h1 := hl i g hg
    have h2 := hl (i + 1) k hk
    match i with
    | 0 => simp at h1 h2; omega
    | 1 => simp at h1 h2; omega
    | 2 => simp at h1 h2; omega
    | i + 3 => simp at h2

theorem first_of_take (gs : List PW_GROUP) (id g : Nat)
    (h : (gs.take g).all (fun x => x.uGroupId != id) = true) :
    ∀ (j : Nat) (x : PW_GROUP), j < g → gs[j]? = some x → x.uGroupId ≠ id := by
  intro j x hj hx
  rw [List.all_eq_true] at h
  have hh : (gs.take g)[j]? = some x := by
    rw [List.getElem?_take_of_lt hj]
    exact hx
  have hm : x ∈ gs.take g := List.getElem?_mem hh
  simpa using h x hm

set_option maxRecDepth 100000 in
/-- C31, as stated, fails: in the tree of "Net" (id 11, level 0), "Home"
(id 12, level 0) and "mail" (id 11 again, level 1), the id 11 is the id of the
group at index 2 with level 1, and `GetGroupTree(11, out)` returns `TRUE` with
`out[0] = 0` and `out[1]` as it was: it walks from the first group with the id. -/
theorem C31_group_tree_chain_counterexample :
    TreeInvariant sampleTwins.m_pGroups
    ∧ sampleTwins.m_pGroups.map (fun g => (g.uGroupId, g.usLevel)) = [(11, 0), (12, 0), (11, 1)]
    ∧ sampleTwins.GetGroupTree 11 [9, 9] = (true, [0, 9]) :=
  ⟨sampleTwins_tree, by decide, by decide⟩

/-- C31, amended.  For every group array of at most `DWORD_MAX` groups that
satisfies the tree invariant: for every id whose first group is at index `g`
and has a level `L < 65535`, and an array `out` of more than `L` slots,
`GetGroupTree` returns `TRUE` with `out[L] = g` and, for each `k < L`, `out[k]`
equal to the greatest index below `out[k+1]` whose level is `k`; and it returns
`FALSE`, leaving `out` as it was, when no group has the id. -/
theorem C31_group_tree_chain (m : CPwManager) (idGroup : Nat) (out : List Nat)
    (ht : TreeInvariant m.m_pGroups) (hn : m.m_pGroups.length ≤ DWORD_MAX) :
    (∀ (g : Nat) (grp : PW_GROUP), m.m_pGroups[g]? = some grp → grp.uGroupId = idGroup →
      (∀ (j : Nat) (x : PW_GROUP), j < g → m.m_pGroups[j]? = some x → x.uGroupId ≠ idGroup) →
      grp.usLevel < 65535 → grp.usLevel < out.length →
      ∃ res, m.GetGroupTree idGroup out = (true, res) ∧ res.length = out.length
        ∧ res[grp.usLevel]? = some g
        ∧ ∀ k, k < grp.usLevel → ∃ (a b : Nat) (x : PW_GROUP),
            res[k]? = some a ∧ res[k + 1]? = some b ∧ a < b
            ∧ m.m_pGroups[a]? = some x ∧ x.usLevel = k
            ∧ ∀ (j : Nat) (y : PW_GROUP), a < j → j < b → m.m_pGroups[j]? = some y →
                y.usLevel ≠ k)
    ∧ ((∀ grp ∈ m.m_pGroups, grp.uGroupId ≠ idGroup) →
        m.GetGroupTree idGroup out = (false, out)) := by
  constructor
  · intro g grp hg hid hfirst hL hout
    have hpos := GetGroupByIdN_first m idGroup g grp hg hid hfirst
    have hgl : g < m.m_pGroups.length := (List.getElem?_eq_some_iff.mp hg).1
    have hlv := getD_level m.m_pGroups g grp hg
    unfold GetGroupTree
    have hne : (g == DWORD_MAX) = false := by
      rw [beq_eq_false_iff_ne]
      omega
    simp only [hpos, hne, Bool.false_eq_true, if_false, hlv]
    have hmod : (grp.usLevel + 1) % 65536 = grp.usLevel + 1 := Nat.mod_eq_of_lt (by omega)
    rw [hmod]
    obtain ⟨res, r1, r2, r3, r4⟩ := GetGroupTree_loop_spec m.m_pGroups ht g (grp.usLevel + 1) out
      hgl (by omega) (by rw [hlv]) (by omega)
    have hsome0 : ∀ d k, grp.usLevel - k = d → k < grp.usLevel + 1 → ∃ a, res[k]? = some a
        ∧ a ≤ g ∧ (m.m_pGroups.getD a PW_GROUP.zero).usLevel = k := by
      intro d
      induction d with
      | zero =>
        intro k hd hk
        have hk2 : k = grp.usLevel := by omega
        subst hk2
        obtain ⟨a, a1, a2, a3, _⟩ := r4 grp.usLevel (by omega)
        simp only [lt_self_iff_false, if_false] at a2
        exact ⟨a, a1, by omega, a3⟩
      | succ d ihd =>
        intro k hd hk
        obtain ⟨b, b1, b2, _⟩ := ihd (k + 1) (by omega) (by omega)
        obtain ⟨a, a1, a2, a3, _⟩ := r4 k hk
        have hlt : k + 1 < grp.usLevel + 1 := by omega
        simp only [hlt, if_true] at a2
        rw [List.getD_eq_getElem?_getD, b1] at a2
        simp only [Option.getD_some] at a2
        exact ⟨a, a1, by omega, a3⟩
    have hsome : ∀ k, k < grp.usLevel + 1 → ∃ a, res[k]? = some a ∧ a ≤ g
        ∧ (m.m_pGroups.getD a PW_GROUP.zero).usLevel = k := fun k hk => hsome0 _ k rfl hk
    refine ⟨res, r1, r2, ?_, ?_⟩
    · obtain ⟨a, a1, a2, a3, a4⟩ := r4 grp.usLevel (by omega)
      simp only [lt_self_iff_false, if_false] at a2 a4
      by_cases hag : a = g
      · rw [a1, hag]
      · exact absurd hlv (a4 g (by omega) (by omega))
    · intro k hk
      obtain ⟨a, a1, a2, a3, a4⟩ := r4 k (by omega)
      obtain ⟨b, b1, b2, _⟩ := hsome (k + 1) (by omega)
      have hlt : k + 1 < grp.usLevel + 1 := by omega
      simp only [hlt, if_true] at a2 a4
      rw [List.getD_eq_getElem?_getD, b1] at a2 a4
      simp only [Option.getD_some] at a2 a4
      have hal : a < m.m_pGroups.length := by omega
      refine ⟨a, b, m.m_pGroups[a], a1, b1, a2, List.getElem?_eq_getElem hal, ?_, ?_⟩
      · rw [← getD_level m.m_pGroups a _ (List.getElem?_eq_getElem hal)]
        exact a3
      · intro j y h1 h2 hy
        rw [← getD_level m.m_pGroups j y hy]
        exact a4 j h1 h2
  · intro hno
    unfold GetGroupTree
    rcases GetGroupByIdN_spec m idGroup with ⟨g, hg, hid⟩ | ⟨h1, _⟩
    · have hmem : g ∈ m.m_pGroups := List.getElem?_mem hg
      exact absurd hid (hno g hmem)
    · simp [h1]

set_option maxRecDepth 100000 in
/-- The amended C31 at the sample tree: for the id 13 of "Bank" (index 2,
level 1) the call returns `TRUE` with `out[1] = 2`. -/
theorem C31_group_tree_chain_witness :
    ∃ res, sampleTree.GetGroupTree 13 [9, 9] = (true, res) ∧ res.length = 2
      ∧ res[1]? = some 2 := by
  obtain ⟨res, h1, h2, h3, _⟩ :=
    (C31_group_tree_chain sampleTree 13 [9, 9] sampleTree_tree (by decide)).1 2
      (sampleGroupAt "Bank" 13 1) (by decide) (by decide)
      (first_of_take _ 13 2 (by decide)) (by decide) (by decide)
  exact ⟨res, h1, h2, h3⟩

theorem utf8Field_length (E : Env) (psz : Option (List Nat)) :
    (utf8Field E psz).length = tcslen (E.StringToUTF8 (cstr (psz.getD []))) + 1 := by
  unfold utf8Field tcslen
  simp

theorem writeGroup_length (E : Env) (g : PW_GROUP) :
    (writeGroup E g).length = SaveDatabase.groupSize E g := by
  unfold writeGroup SaveDatabase.groupSize
  simp only [List.length_append, tlvField_length, leBytes_length, PwTimeToTime_length,
    utf8Field_length, List.length_nil]
  omega

theorem writeBinaryField_length (e : PW_ENTRY) :
    (writeBinaryField e).length = 6 + e.uBinaryDataLen := by
  unfold writeBinaryField
  cases e.pBinaryData with
  | none => simp [leBytes_length]; omega
  | some d =>
    simp only [List.length_append, leBytes_length]
    split_ifs <;> simp [readBytes_length]

theorem writeEntry_length (E : Env) (e : PW_ENTRY) :
    (writeEntry E e).length = SaveDatabase.entrySize E e := by
  unfold writeEntry SaveDatabase.entrySize
  simp only [List.length_append, tlvField_length, leBytes_length, PwTimeToTime_length,
    utf8Field_length, List.length_nil, readBytes_length, writeBinaryField_length]
  omega

theorem length_flatten_map {α : Type} (f : α → List Nat) (g : α → Nat)
    (h : ∀ x, (f x).length = g x) :
    ∀ (l : List α), ((l.map f).flatten).length = (l.map g).sum := by
  intro l
  induction l with
  | nil => rfl
  | cons a l ih =>
    simp only [List.map_cons, List.flatten_cons, List.length_append, List.sum_cons, ih, h]

theorem payload_length (E : Env) (m : CPwManager) :
    (SaveDatabase.payload E m).length
      = (m.m_pGroups.map (SaveDatabase.groupSize E)).sum
        + (m.m_pEntries.map (fun e =>
            SaveDatabase.entrySize E (m.UnlockEntryPassword E e))).sum := by
  unfold SaveDatabase.payload
  rw [List.length_append, length_flatten_map _ _ (writeGroup_length E),
    length_flatten_map (fun e => writeEntry E (m.UnlockEntryPassword E e))
      (fun e => SaveDatabase.entrySize E (m.UnlockEntryPassword E e))
      (fun e => writeEntry_length E _)]

theorem written_eq (E : Env) (m : CPwManager) :
    SaveDatabase.written E m
      = (sizeofHeader + (m.m_pGroups.map (SaveDatabase.groupSize E)).sum
        + (m.m_pEntries.map (fun e =>
            SaveDatabase.entrySize E (m.UnlockEntryPassword E e))).sum) % U32 := by
  unfold SaveDatabase.written
  rw [relock_id, payload_length, Nat.add_assoc]

/-- The count the sizing loops of `SaveDatabase` reach is the offset the store
loops reach, for every database: both are sums of the same sizes in `DWORD`
arithmetic. -/
theorem sized_eq_written (E : Env) (m : CPwManager) :
    SaveDatabase.sized E m = SaveDatabase.written E m := by
  rw [written_eq]
  rfl

/-- The sizes of `SaveDatabase` are the ones the function computes: when the
allocation of `uAllocated` bytes fails, the call returns `PWE_NO_MEM`. -/
theorem SaveDatabase_no_mem (E : Env) (m : CPwManager) (r : Rand) (path : List Nat)
    (hp : tcslen path ≠ 0)
    (ha : E.allocOk (SaveDatabase.allocated E (m._AddAllMetaStreams E r).2.1) = false) :
    (m.SaveDatabase E r (some path)).map (fun x => x.1) =
      ((SaveDatabase.prepared E m r).1._LoadAndRemoveAllMetaStreams false).map
        (fun _ => PWE.NO_MEM) := by
  have hp2 : (tcslen path == 0) = false := by simpa using hp
  unfold SaveDatabase.allocated SaveDatabase.rounded SaveDatabase.sized at ha
  unfold CPwManager.SaveDatabase
  simp only [hp2, Bool.false_eq_true, if_false, ha, Bool.not_false, if_true, Option.map_map]
  rfl

set_option maxRecDepth 100000 in
/-- C38 does not hold of the code.  Four calls of `AddEntry` store in the
sample tree four entries with attachments of 1 GiB, 1 GiB, 1 GiB and
1073740448 bytes; each call returns `TRUE`.  For the database that
`_AddAllMetaStreams` then leaves, the sizing loops of `SaveDatabase` count
4294967288 bytes, and that is the offset the store loops reach; but the
rounding `(uFileSize + 16) - (uFileSize % 16)` wraps to 0 and `uAllocated` is
16: the offset is beyond the rounded size and beyond the allocated bytes, and
`pos <= uFileSize` is false. -/
theorem C38_cleartext_sizing_wraps :
    sampleHugeStored.1 = true
    ∧ sampleHuge.m_pEntries.map (fun e => (e.uBinaryDataLen, e.pBinaryData.isSome))
        = [(1073741824, true), (1073741824, true), (1073741824, true), (1073740448, true)]
    ∧ SaveDatabase.sized (sampleEnv none)
        (sampleHuge._AddAllMetaStreams (sampleEnv none) sampleHugeStored.2.2).2.1 = 4294967288
    ∧ SaveDatabase.written (sampleEnv none)
        (sampleHuge._AddAllMetaStreams (sampleEnv none) sampleHugeStored.2.2).2.1 = 4294967288
    ∧ SaveDatabase.rounded (sampleEnv none)
        (sampleHuge._AddAllMetaStreams (sampleEnv none) sampleHugeStored.2.2).2.1 = 0
    ∧ SaveDatabase.allocated (sampleEnv none)
        (sampleHuge._AddAllMetaStreams (sampleEnv none) sampleHugeStored.2.2).2.1 = 16
    ∧ ¬ (SaveDatabase.written (sampleEnv none)
          (sampleHuge._AddAllMetaStreams (sampleEnv none) sampleHugeStored.2.2).2.1
        ≤ SaveDatabase.rounded (sampleEnv none)
          (sampleHuge._AddAllMetaStreams (sampleEnv none) sampleHugeStored.2.2).2.1)
    ∧ ¬ (SaveDatabase.written (sampleEnv none)
          (sampleHuge._AddAllMetaStreams (sampleEnv none) sampleHugeStored.2.2).2.1
        ≤ SaveDatabase.allocated (sampleEnv none)
          (sampleHuge._AddAllMetaStreams (sampleEnv none) sampleHugeStored.2.2).2.1) := by
  have hs : SaveDatabase.sized (sampleEnv none)
        (sampleHuge._AddAllMetaStreams (sampleEnv none) sampleHugeStored.2.2).2.1
        = 4294967288 := by
    decide
  have hw : SaveDatabase.written (sampleEnv none)
        (sampleHuge._AddAllMetaStreams (sampleEnv none) sampleHugeStored.2.2).2.1
        = 4294967288 := by
    rw [← sized_eq_written]
    exact hs
  have hr : SaveDatabase.rounded (sampleEnv none)
        (sampleHuge._AddAllMetaStreams (sampleEnv none) sampleHugeStored.2.2).2.1 = 0 := by
    unfold SaveDatabase.rounded
    rw [hs]
    decide
  have ha : SaveDatabase.allocated (sampleEnv none)
        (sampleHuge._AddAllMetaStreams (sampleEnv none) sampleHugeStored.2.2).2.1 = 16 := by
    unfold SaveDatabase.allocated
    rw [hr]
    decide
  refine ⟨by decide, by decide, hs, hw, hr, ha, ?_, ?_⟩
  · rw [hw, hr]
    decide
  · rw [hw, ha]
    decide

/-- Where the sizes do not wrap, the sizing of `SaveDatabase` is exact.  For
every database whose sizes (124 for the header, 94 plus the UTF-8 length of
the name plus 1 for each group, 134 plus, for each of the six texts, its UTF-8
length plus 1, plus the declared attachment length for each entry) add up to
less than `2^32 - 32`: the count the sizing loops of `SaveDatabase` reach is
the offset the store loops reach after the last record; that offset is not
beyond `uFileSize` rounded up to the next multiple of 16, nor beyond the
`uAllocated` bytes, and `pos + 33 > uAllocated`. -/
theorem SaveDatabase_sizes_fit (E : Env) (m : CPwManager)
    (hfit : sizeofHeader + (m.m_pGroups.map (SaveDatabase.groupSize E)).sum
      + (m.m_pEntries.map (fun e =>
          SaveDatabase.entrySize E (m.UnlockEntryPassword E e))).sum + 32 < U32) :
    SaveDatabase.sized E m = SaveDatabase.written E m
    ∧ SaveDatabase.written E m ≤ SaveDatabase.rounded E m
    ∧ SaveDatabase.rounded E m % 16 = 0
    ∧ SaveDatabase.rounded E m ≤ SaveDatabase.written E m + 16
    ∧ SaveDatabase.written E m ≤ SaveDatabase.allocated E m
    ∧ SaveDatabase.written E m + 33 > SaveDatabase.allocated E m
    ∧ (∀ g, SaveDatabase.groupSize E g
        = 94 + (tcslen (E.StringToUTF8 (cstr (g.pszGroupName.getD []))) + 1))
    ∧ (∀ g, (writeGroup E g).length = SaveDatabase.groupSize E g)
    ∧ (∀ e, (writeEntry E e).length = SaveDatabase.entrySize E e) := by
  have hU : U32 = 4294967296 := rfl
  have hw : SaveDatabase.written E m
      = sizeofHeader + (m.m_pGroups.map (SaveDatabase.groupSize E)).sum
        + (m.m_pEntries.map (fun e =>
            SaveDatabase.entrySize E (m.UnlockEntryPassword E e))).sum := by
    rw [written_eq]
    exact Nat.mod_eq_of_lt (by omega)
  have hs : SaveDatabase.sized E m = SaveDatabase.written E m := sized_eq_written E m
  have hr : SaveDatabase.rounded E m
      = SaveDatabase.written E m + 16 - SaveDatabase.written E m % 16 := by
    unfold SaveDatabase.rounded
    rw [hs]
    have h1 : (SaveDatabase.written E m + 16) % U32 = SaveDatabase.written E m + 16 :=
      Nat.mod_eq_of_lt (by omega)
    rw [h1]
    have h2 := Nat.mod_lt (SaveDatabase.written E m) (by decide : 0 < 16)
    have h3 : SaveDatabase.written E m + 16 + U32 - SaveDatabase.written E m % 16
        = (SaveDatabase.written E m + 16 - SaveDatabase.written E m % 16) + U32 := by omega
    rw [h3, Nat.add_mod_right]
    exact Nat.mod_eq_of_lt (by omega)
  have ha : SaveDatabase.allocated E m = SaveDatabase.rounded E m + 16 := by
    unfold SaveDatabase.allocated
    exact Nat.mod_eq_of_lt (by omega)
  refine ⟨hs, by omega, by omega, by omega, by omega, by omega, fun g => rfl,
    writeGroup_length E, writeEntry_length E⟩

set_option maxRecDepth 100000 in
/-- The sizing is exact at the sample vault. -/
theorem SaveDatabase_sizes_fit_sample :
    SaveDatabase.sized (sampleEnv none) sampleVault
      = SaveDatabase.written (sampleEnv none) sampleVault
    ∧ SaveDatabase.written (sampleEnv none) sampleVault + 33
      > SaveDatabase.allocated (sampleEnv none) sampleVault :=
  ⟨(SaveDatabase_sizes_fit (sampleEnv none) sampleVault (by decide)).1,
    (SaveDatabase_sizes_fit (sampleEnv none) sampleVault (by decide)).2.2.2.2.2.1⟩

theorem groupLoop_stuck (E : Env) (buf : List Nat) (uFileSize dwGroups cur pos sz : Nat)
    (m : CPwManager) (r : Rand) (t : PW_GROUP)
    (hcur : cur < dwGroups) (hty : leValue (readBytes buf pos 2) = 0)
    (hsz : leValue (readBytes buf (pos + 2) 4) = sz)
    (h1 : (pos + 2) % U32 < uFileSize)
    (h2 : ((pos + 2) % U32 + 4) % U32 < (uFileSize + sz) % U32)
    (h3 : sizeofHeader ≤ pos + 6 + sz)
    (h4 : (((pos + 2) % U32 + 4) % U32 + sz) % U32 = pos)
    (h5 : pos < uFileSize) :
    ∀ fuel, OpenDatabase.groupLoop E false buf uFileSize dwGroups fuel cur pos m r t = none := by
  intro fuel
  induction fuel with
  | zero => rfl
  | succ fuel ih =>
    unfold OpenDatabase.groupLoop
    have c1 : ¬ (pos + 2) % U32 ≥ uFileSize := by omega
    have c2 : ¬ ((pos + 2) % U32 + 4) % U32 ≥ (uFileSize + sz) % U32 := by omega
    have c3 : ¬ pos + 6 + sz < sizeofHeader := by omega
    have c5 : ¬ pos ≥ uFileSize := by omega
    have hread : m.ReadGroupField E r 0 (buf.drop (pos + 6)) t = some (true, m, r, t) := by
      unfold ReadGroupField
      simp
    simp only [hcur, decide_True, Bool.not_true, Bool.false_eq_true, if_false, Bool.false_and,
      hty, hsz, c1, c2, c3, hread, h4, c5]
    exact ih

set_option maxRecDepth 100000 in
/-- C34: the code at a field whose declared size wraps the position.  The file
announces one group; its payload starts with a field of type `0x0000` and
declared size `0xFFFFFFFA`.  The 32-bit test `pos >= uFileSize + dwFieldSize`
passes (130 against 150), `pos += dwFieldSize` brings the position back to the
start of the field, and the group loop of `OpenDatabase` does not end: for
every number of fields the loop is allowed to walk, it is still running. -/
theorem C34_tlv_walk_endless (fuel : Nat) :
    sampleTree.OpenDatabase (sampleEnv (some sampleEndless)) fuel sampleRand
      (some (tstr "f")) false = none := by
  have hfile : (sampleEnv (some sampleEndless)).fileRead (tstr "f") = some sampleEndless := rfl
  rw [OpenDatabase_reaches_load (sampleEnv (some sampleEndless)) fuel sampleTree sampleRand
    (tstr "f") sampleEndless (PW_DBHEADER.ofBytes sampleEndless) (by decide) hfile rfl
    (by decide) (by decide) (by decide) (by decide) (by decide) (by decide) (by decide)
    (by decide) (by decide) (by decide)]
  unfold OpenDatabase.load
  have hg : (PW_DBHEADER.ofBytes sampleEndless).dwGroups = 1 := by decide
  have hl : sampleEndless.length = 156 := by decide
  rw [hg, hl]
  simp only []
  rw [groupLoop_stuck (sampleEnv (some sampleEndless)) _ 156 1 0 sizeofHeader 4294967290 _ _ _
    (by decide) (by decide) (by decide) (by decide) (by decide) (by decide) (by decide)
    (by decide) fuel]

theorem readGroupFields_count (E : Env) (tail : List Nat) :
    ∀ (fs : List (Nat × List Nat)) (cur : Nat) (m : CPwManager) (r : Rand) (t : PW_GROUP)
      (res : Nat × CPwManager × Rand × PW_GROUP),
      readGroupFields E tail fs cur m r t = some res →
      res.1 = cur + (fs.filter (fun f => f.1 == 0xFFFF)).length := by
  intro fs
  induction fs with
  | nil =>
    intro cur m r t res h
    simp only [readGroupFields, Option.some.injEq] at h
    subst h
    simp
  | cons f fs ih =>
    intro cur m r t res h
    simp only [readGroupFields] at h
    cases hr : m.ReadGroupField E r f.1 (f.2 ++ (fieldBytes fs ++ tail)) t with
    | none => rw [hr] at h; exact absurd h (by simp)
    | some x =>
      rw [hr] at h
      simp only [] at h
      have := ih _ _ _ _ _ h
      rw [this, List.filter_cons]
      by_cases hf : (f.1 == 0xFFFF) = true
      · have hf2 : f.1 = 0xFFFF := by simpa using hf
        rw [hf2, ReadGroupField_FFFF] at hr
        have hx : x.1 = true := by
          cases ha : m.AddGroup r t with
          | none => rw [ha] at hr; simp at hr
          | some y =>
            rw [ha] at hr
            simp only [Option.map_some', Option.some.injEq] at hr
            rw [← hr]
        simp only [hf, hx, Bool.and_self, if_true, List.length_cons]
        omega
      · simp only [hf, Bool.false_and, Bool.false_eq_true, if_false]

theorem readEntryFields_count (E : Env) (tail : List Nat) :
    ∀ (fs : List (Nat × List Nat)) (cur : Nat) (m : CPwManager) (r : Rand) (t : PW_ENTRY),
      (readEntryFields E tail fs cur m r t).1
        = cur + (fs.filter (fun f => f.1 == 0xFFFF)).length := by
  intro fs
  induction fs with
  | nil => intro cur m r t; simp [readEntryFields]
  | cons f fs ih =>
    intro cur m r t
    simp only [readEntryFields]
    rw [ih, List.filter_cons]
    by_cases hf : (f.1 == 0xFFFF) = true
    · have hf2 : f.1 = 0xFFFF := by simpa using hf
      simp only [hf, Bool.true_and, if_true, List.length_cons]
      rw [hf2, ReadEntryField_FFFF]
      simp only [if_true]
      omega
    · simp only [hf, Bool.false_and, Bool.false_eq_true, if_false]

theorem load_fields (E : Env) (buf tail : List Nat) (uFileSize fuel : Nat) (hdr : PW_DBHEADER)
    (m2 : CPwManager) (r : Rand) (rep1 : PWDB_REPAIR_INFO) (gfs efs : List (Nat × List Nat))
    (hbuf : buf.drop sizeofHeader = fieldBytes gfs ++ (fieldBytes efs ++ tail))
    (hgt : ∀ f ∈ gfs, f.1 < 65536) (het : ∀ f ∈ efs, f.1 < 65536)
    (hlen : sizeofHeader + (fieldBytes gfs).length + (fieldBytes efs).length < uFileSize)
    (hsize : uFileSize ≤ 2147483648)
    (hgc : (gfs.filter (fun f => f.1 == 0xFFFF)).length = hdr.dwGroups)
    (hec : (efs.filter (fun f => f.1 == 0xFFFF)).length = hdr.dwEntries)
    (hgl : gfs = [] ∨ ∃ d, gfs.getLast? = some (0xFFFF, d))
    (hel : efs = [] ∨ ∃ d, efs.getLast? = some (0xFFFF, d))
    (hfuel : gfs.length + efs.length < fuel) :
    OpenDatabase.load E false buf uFileSize hdr fuel m2 r rep1
      = loadFields E hdr gfs efs tail m2 r rep1 := by
  unfold OpenDatabase.load loadFields
  simp only []
  have hG := groupLoop_fields E buf uFileSize hdr.dwGroups (fieldBytes efs ++ tail) hsize gfs
    (fuel - gfs.length) 0 sizeofHeader m2.NewDatabase r RESET_PWG_TEMPLATE hbuf hgt (le_refl _)
    (by omega) (by omega) hgl
  have hf1 : fuel - gfs.length + gfs.length = fuel := by omega
  rw [hf1] at hG
  rw [hG]
  cases hrg : readGroupFields E (fieldBytes efs ++ tail) gfs 0 m2.NewDatabase r
      RESET_PWG_TEMPLATE with
  | none => rfl
  | some g =>
    simp only []
    have hcnt := readGroupFields_count E _ gfs 0 _ _ _ g hrg
    have hf2 : fuel - gfs.length = (fuel - gfs.length - 1) + 1 := by omega
    rw [hf2, groupLoop_done E false buf uFileSize hdr.dwGroups _ g.1 _ _ _ _ (by omega)]
    simp only []
    have hdrop2 : buf.drop (sizeofHeader + (fieldBytes gfs).length) = fieldBytes efs ++ tail :=
      drop_add_of_drop buf _ _ sizeofHeader hbuf
    have hEl := entryLoop_fields E buf uFileSize hdr.dwEntries tail hsize efs
      (fuel - efs.length) 0 (sizeofHeader + (fieldBytes gfs).length) g.2.1 g.2.2.1
      RESET_PWE_TEMPLATE hdrop2 het (by omega) (by omega) (by omega) hel
    have hf3 : fuel - efs.length + efs.length = fuel := by omega
    rw [hf3] at hEl
    rw [hEl]
    have hcnt2 := readEntryFields_count E tail efs 0 g.2.1 g.2.2.1 RESET_PWE_TEMPLATE
    have hf4 : fuel - efs.length = (fuel - efs.length - 1) + 1 := by omega
    rw [hf4, entryLoop_done E false buf uFileSize hdr.dwEntries _ _ _ _ _ _ (by omega)]
    simp only [Bool.false_eq_true, if_false]

theorem cstr_contained : ∀ (d x : List Nat), 0 ∈ d → cstr (d ++ x) = cstr d := by
  intro d
  induction d with
  | nil => intro x h; simp at h
  | cons c t ih =>
    intro x h
    unfold cstr at ih ⊢
    by_cases hc : c = 0
    · subst hc
      simp
    · have ht : 0 ∈ t := by
        rcases List.mem_cons.mp h with h | h
        · exact absurd h.symm hc
        · exact h
      simp only [List.cons_append, List.takeWhile_cons, bne_iff_ne, ne_eq, hc, not_false_eq_true,
        decide_True, if_true, List.cons.injEq, true_and]
      exact ih x ht

theorem utf8_contained (E : Env) (d x y : List Nat) (h : d.contains 0 = true) :
    _UTF8ToString E (d ++ x) = _UTF8ToString E (d ++ y) := by
  have hm : 0 ∈ d := by simpa using h
  unfold _UTF8ToString
  rw [cstr_contained d x hm, cstr_contained d y hm]

theorem readBytes_contained (d x y : List Nat) (n : Nat) (h : n ≤ d.length) :
    readBytes (d ++ x) 0 n = readBytes (d ++ y) 0 n := by
  rw [readBytes_append_le d x n h, readBytes_append_le d y n h]

theorem ReadGroupField_nodata (E : Env) (m : CPwManager) (r : Rand) (ty : Nat)
    (a b : List Nat) (t : PW_GROUP)
    (h : ty ∉ [0x0001, 0x0002, 0x0003, 0x0004, 0x0005, 0x0006, 0x0007, 0x0008, 0x0009]) :
    m.ReadGroupField E r ty a t = m.ReadGroupField E r ty b t := by
  simp only [List.mem_cons, List.mem_singleton, List.not_mem_nil, or_false, not_or] at h
  obtain ⟨h1, h2, h3, h4, h5, h6, h7, h8, h9⟩ := h
  have b1 : (ty == 0x0001) = false := by simpa using h1
  have b2 : (ty == 0x0002) = false := by simpa using h2
  have b3 : (ty == 0x0003) = false := by simpa using h3
  have b4 : (ty == 0x0004) = false := by simpa using h4
  have b5 : (ty == 0x0005) = false := by simpa using h5
  have b6 : (ty == 0x0006) = false := by simpa using h6
  have b7 : (ty == 0x0007) = false := by simpa using h7
  have b8 : (ty == 0x0008) = false := by simpa using h8
  have b9 : (ty == 0x0009) = false := by simpa using h9
  unfold ReadGroupField
  simp only [b1, b2, b3, b4, b5, b6, b7, b8, b9, Bool.false_eq_true, if_false]

theorem ReadGroupField_contained (E : Env) (m : CPwManager) (r : Rand) (ty : Nat)
    (d x y : List Nat) (t : PW_GROUP) (h : groupFieldContained (ty, d) = true) :
    m.ReadGroupField E r ty (d ++ x) t = m.ReadGroupField E r ty (d ++ y) t := by
  by_cases hm : ty ∈ [0x0001, 0x0002, 0x0003, 0x0004, 0x0005, 0x0006, 0x0007, 0x0008, 0x0009]
  · simp only [List.mem_cons, List.mem_singleton, List.not_mem_nil, or_false] at hm
    rcases hm with e | e | e | e | e | e | e | e | e <;> subst e <;>
      simp only [groupFieldContained] at h
    · rw [ReadGroupField_0001, ReadGroupField_0001,
        readBytes_contained d x y 4 (by simpa using h)]
    · rw [ReadGroupField_0002, ReadGroupField_0002, utf8_contained E d x y (by simpa using h)]
    · rw [ReadGroupField_0003, ReadGroupField_0003,
        readBytes_contained d x y 5 (by simpa using h)]
    · rw [ReadGroupField_0004, ReadGroupField_0004,
        readBytes_contained d x y 5 (by simpa using h)]
    · rw [ReadGroupField_0005, ReadGroupField_0005,
        readBytes_contained d x y 5 (by simpa using h)]
    · rw [ReadGroupField_0006, ReadGroupField_0006,
        readBytes_contained d x y 5 (by simpa using h)]
    · rw [ReadGroupField_0007, ReadGroupField_0007,
        readBytes_contained d x y 4 (by simpa using h)]
    · rw [ReadGroupField_0008, ReadGroupField_0008,
        readBytes_contained d x y 2 (by simpa using h)]
    · rw [ReadGroupField_0009, ReadGroupField_0009,
        readBytes_contained d x y 4 (by simpa using h)]
  · exact ReadGroupField_nodata E m r ty _ _ t hm

theorem ReadEntryField_nodata (E : Env) (m : CPwManager) (r : Rand) (ty sz : Nat)
    (a b : List Nat) (t : PW_ENTRY)
    (h : ty ∉ [0x0001, 0x0002, 0x0003, 0x0004, 0x0005, 0x0006, 0x0007, 0x0008, 0x0009, 0x000A,
      0x000B, 0x000C, 0x000D, 0x000E]) :
    m.ReadEntryField E r ty sz a t = m.ReadEntryField E r ty sz b t := by
  simp only [List.mem_cons, List.mem_singleton, List.not_mem_nil, or_false, not_or] at h
  obtain ⟨h1, h2, h3, h4, h5, h6, h7, h8, h9, hA, hB, hC, hD, hE⟩ := h
  have b1 : (ty == 0x0001) = false := by simpa using h1
  have b2 : (ty == 0x0002) = false := by simpa using h2
  have b3 : (ty == 0x0003) = false := by simpa using h3
  have b4 : (ty == 0x0004) = false := by simpa using h4
  have b5 : (ty == 0x0005) = false := by simpa using h5
  have b6 : (ty == 0x0006) = false := by simpa using h6
  have b7 : (ty == 0x0007) = false := by simpa using h7
  have b8 : (ty == 0x0008) = false := by simpa using h8
  have b9 : (ty == 0x0009) = false := by simpa using h9
  have bA : (ty == 0x000A) = false := by simpa using hA
  have bB : (ty == 0x000B) = false := by simpa using hB
  have bC : (ty == 0x000C) = false := by simpa using hC
  have bD : (ty == 0x000D) = false := by simpa using hD
  have bE : (ty == 0x000E) = false := by simpa using hE
  unfold ReadEntryField
  simp only [b1, b2, b3, b4, b5, b6, b7, b8, b9, bA, bB, bC, bD, bE, Bool.false_eq_true,
    if_false]

theorem ReadEntryField_contained (E : Env) (m : CPwManager) (r : Rand) (ty : Nat)
    (d x y : List Nat) (t : PW_ENTRY) (h : entryFieldContained (ty, d) = true) :
    m.ReadEntryField E r ty d.length (d ++ x) t = m.ReadEntryField E r ty d.length (d ++ y) t := by
  by_cases hm : ty ∈ [0x0001, 0x0002, 0x0003, 0x0004, 0x0005, 0x0006, 0x0007, 0x0008, 0x0009,
      0x000A, 0x000B, 0x000C, 0x000D, 0x000E]
  · simp only [List.mem_cons, List.mem_singleton, List.not_mem_nil, or_false] at hm
    rcases hm with e | e | e | e | e | e | e | e | e | e | e | e | e | e <;> subst e <;>
      simp only [entryFieldContained] at h
    · rw [ReadEntryField_0001, ReadEntryField_0001,
        readBytes_contained d x y 16 (by simpa using h)]
    · rw [ReadEntryField_0002, ReadEntryField_0002,
        readBytes_contained d x y 4 (by simpa using h)]
    · rw [ReadEntryField_0003, ReadEntryField_0003,
        readBytes_contained d x y 4 (by simpa using h)]
    · rw [ReadEntryField_0004, ReadEntryField_0004, utf8_contained E d x y (by simpa using h)]
    · rw [ReadEntryField_0005, ReadEntryField_0005, utf8_contained E d x y (by simpa using h)]
    · rw [ReadEntryField_0006, ReadEntryField_0006, utf8_contained E d x y (by simpa using h)]
    · rw [ReadEntryField_0007, ReadEntryField_0007, utf8_contained E d x y (by simpa using h)]
    · rw [ReadEntryField_0008, ReadEntryField_0008, utf8_contained E d x y (by simpa using h)]
    · rw [ReadEntryField_0009, ReadEntryField_0009,
        readBytes_contained d x y 5 (by simpa using h)]
    · rw [ReadEntryField_000A, ReadEntryField_000A,
        readBytes_contained d x y 5 (by simpa using h)]
    · rw [ReadEntryField_000B, ReadEntryField_000B,
        readBytes_contained d x y 5 (by simpa using h)]
    · rw [ReadEntryField_000C, ReadEntryField_000C,
        readBytes_contained d x y 5 (by simpa using h)]
    · rw [ReadEntryField_000D, ReadEntryField_000D, utf8_contained E d x y (by simpa using h)]
    · rw [ReadEntryField_000E, ReadEntryField_000E,
        readBytes_contained d x y d.length (le_refl _)]
  · exact ReadEntryField_nodata E m r ty _ _ _ t hm

theorem ReadGroupField_unknown (E : Env) (m : CPwManager) (r : Rand) (ty : Nat)
    (a : List Nat) (t : PW_GROUP) (h : ty ∉ groupFieldTypes) :
    m.ReadGroupField E r ty a t = some (false, m, r, t) := by
  simp only [groupFieldTypes, List.mem_cons, List.mem_singleton, List.not_mem_nil, or_false,
    not_or] at h
  obtain ⟨h0, h1, h2, h3, h4, h5, h6, h7, h8, h9, hF⟩ := h
  have b0 : (ty == 0x0000) = false := by simpa using h0
  have b1 : (ty == 0x0001) = false := by simpa using h1
  have b2 : (ty == 0x0002) = false := by simpa using h2
  have b3 : (ty == 0x0003) = false := by simpa using h3
  have b4 : (ty == 0x0004) = false := by simpa using h4
  have b5 : (ty == 0x0005) = false := by simpa using h5
  have b6 : (ty == 0x0006) = false := by simpa using h6
  have b7 : (ty == 0x0007) = false := by simpa using h7
  have b8 : (ty == 0x0008) = false := by simpa using h8
  have b9 : (ty == 0x0009) = false := by simpa using h9
  have bF : (ty == 0xFFFF) = false := by simpa using hF
  unfold ReadGroupField
  simp only [b0, b1, b2, b3, b4, b5, b6, b7, b8, b9, bF, Bool.false_eq_true, if_false]

theorem ReadEntryField_unknown (E : Env) (m : CPwManager) (r : Rand) (ty sz : Nat)
    (a : List Nat) (t : PW_ENTRY) (h : ty ∉ entryFieldTypes) :
    m.ReadEntryField E r ty sz a t = (false, m, r, t) := by
  simp only [entryFieldTypes, List.mem_cons, List.mem_singleton, List.not_mem_nil, or_false,
    not_or] at h
  obtain ⟨h0, h1, h2, h3, h4, h5, h6, h7, h8, h9, hA, hB, hC, hD, hE, hF⟩ := h
  have b0 : (ty == 0x0000) = false := by simpa using h0
  have b1 : (ty == 0x0001) = false := by simpa using h1
  have b2 : (ty == 0x0002) = false := by simpa using h2
  have b3 : (ty == 0x0003) = false := by simpa using h3
  have b4 : (ty == 0x0004) = false := by simpa using h4
  have b5 : (ty == 0x0005) = false := by simpa using h5
  have b6 : (ty == 0x0006) = false := by simpa using h6
  have b7 : (ty == 0x0007) = false := by simpa using h7
  have b8 : (ty == 0x0008) = false := by simpa using h8
  have b9 : (ty == 0x0009) = false := by simpa using h9
  have bA : (ty == 0x000A) = false := by simpa using hA
  have bB : (ty == 0x000B) = false := by simpa using hB
  have bC : (ty == 0x000C) = false := by simpa using hC
  have bD : (ty == 0x000D) = false := by simpa using hD
  have bE : (ty == 0x000E) = false := by simpa using hE
  have bF : (ty == 0xFFFF) = false := by simpa using hF
  unfold ReadEntryField
  simp only [b0, b1, b2, b3, b4, b5, b6, b7, b8, b9, bA, bB, bC, bD, bE, bF, Bool.false_eq_true,
    if_false]

theorem readGroupFields_tail (E : Env) (T T' : List Nat) :
    ∀ (a : List (Nat × List Nat)) (cur : Nat) (m : CPwManager) (r : Rand) (t : PW_GROUP),
      (∀ x ∈ a, groupFieldContained x = true) →
      readGroupFields E T a cur m r t = readGroupFields E T' a cur m r t := by
  intro a
  induction a with
  | nil => intro cur m r t _; rfl
  | cons f fs ih =>
    intro cur m r t h
    simp only [readGroupFields]
    rw [ReadGroupField_contained E m r f.1 f.2 (fieldBytes fs ++ T) (fieldBytes fs ++ T') t
      (h f (List.mem_cons_self _ _))]
    cases m.ReadGroupField E r f.1 (f.2 ++ (fieldBytes fs ++ T')) t with
    | none => rfl
    | some res =>
      simp only []
      exact ih _ _ _ _ (fun x hx => h x (List.mem_cons_of_mem _ hx))

theorem readEntryFields_tail (E : Env) (T T' : List Nat) :
    ∀ (a : List (Nat × List Nat)) (cur : Nat) (m : CPwManager) (r : Rand) (t : PW_ENTRY),
      (∀ x ∈ a, entryFieldContained x = true) →
      readEntryFields E T a cur m r t = readEntryFields E T' a cur m r t := by
  intro a
  induction a with
  | nil => intro cur m r t _; rfl
  | cons f fs ih =>
    intro cur m r t h
    simp only [readEntryFields]
    rw [ReadEntryField_contained E m r f.1 f.2 (fieldBytes fs ++ T) (fieldBytes fs ++ T') t
      (h f (List.mem_cons_self _ _))]
    exact ih _ _ _ _ (fun x hx => h x (List.mem_cons_of_mem _ hx))

theorem readGroupFields_insert (E : Env) (tail : List Nat) (a b : List (Nat × List Nat))
    (f : Nat × List Nat) (cur : Nat) (m : CPwManager) (r : Rand) (t : PW_GROUP)
    (ha : ∀ x ∈ a, groupFieldContained x = true) (hf : f.1 ∉ groupFieldTypes) :
    readGroupFields E tail (a ++ f :: b) cur m r t = readGroupFields E tail (a ++ b) cur m r t := by
  rw [readGroupFields_append, readGroupFields_append,
    readGroupFields_tail E (fieldBytes (f :: b) ++ tail) (fieldBytes b ++ tail) a cur m r t ha]
  cases readGroupFields E (fieldBytes b ++ tail) a cur m r t with
  | none => rfl
  | some res =>
    simp only [readGroupFields]
    rw [ReadGroupField_unknown E _ _ f.1 _ _ hf]
    have hF : (f.1 == 0xFFFF) = false := by
      rw [beq_eq_false_iff_ne]
      intro e
      exact hf (by rw [e]; decide)
    simp only [hF, Bool.false_and, Bool.false_eq_true, if_false]

theorem readEntryFields_insert (E : Env) (tail : List Nat) (a b : List (Nat × List Nat))
    (f : Nat × List Nat) (cur : Nat) (m : CPwManager) (r : Rand) (t : PW_ENTRY)
    (ha : ∀ x ∈ a, entryFieldContained x = true) (hf : f.1 ∉ entryFieldTypes) :
    readEntryFields E tail (a ++ f :: b) cur m r t = readEntryFields E tail (a ++ b) cur m r t := by
  rw [readEntryFields_append, readEntryFields_append,
    readEntryFields_tail E (fieldBytes (f :: b) ++ tail) (fieldBytes b ++ tail) a cur m r t ha]
  simp only [readEntryFields]
  rw [ReadEntryField_unknown E _ _ f.1 _ _ _ hf]
  have hF : (f.1 == 0xFFFF) = false := by
    rw [beq_eq_false_iff_ne]
    intro e
    exact hf (by rw [e]; decide)
  simp only [hF, Bool.false_and, Bool.false_eq_true, if_false]

theorem filter_insert_unknown (a b : List (Nat × List Nat)) (f : Nat × List Nat)
    (hf : f.1 ≠ 0xFFFF) :
    ((a ++ f :: b).filter (fun f => f.1 == 0xFFFF)).length
      = ((a ++ b).filter (fun f => f.1 == 0xFFFF)).length := by
  have hF : (f.1 == 0xFFFF) = false := by simpa using hf
  simp [List.filter_append, List.filter_cons, hF]

theorem getLast_insert (a b : List (Nat × List Nat)) (f x : Nat × List Nat)
    (hb : b.getLast? = some x) :
    (a ++ f :: b).getLast? = some x ∧ (a ++ b).getLast? = some x := by
  have hne : b ≠ [] := by
    intro h
    rw [h] at hb
    simp at hb
  constructor
  · rw [List.getLast?_append_of_ne_nil _ (by simp)]
    cases b with
    | nil => exact absurd rfl hne
    | cons y ys =>
      rw [List.getLast?_cons_cons]
      exact hb
  · rw [List.getLast?_append_of_ne_nil _ hne]
    exact hb

theorem last_terminator (fs : List (Nat × List Nat))
    (h : fs.getLast?.all (fun x => x.1 == 0xFFFF) = true) :
    fs = [] ∨ ∃ d, fs.getLast? = some (0xFFFF, d) := by
  cases hl : fs.getLast? with
  | none => left; exact List.getLast?_eq_none_iff.mp hl
  | some x =>
    right
    rw [hl] at h
    simp only [Option.all_some, beq_iff_eq] at h
    exact ⟨x.2, by rw [← h]⟩

theorem load_image (E : Env) (head tail : List Nat) (gfs efs : List (Nat × List Nat))
    (hdr : PW_DBHEADER) (uFileSize fuel : Nat) (m2 : CPwManager) (r : Rand)
    (rep1 : PWDB_REPAIR_INFO) (hh : head.length = sizeofHeader)
    (hfit : FieldsFit hdr gfs efs uFileSize fuel) :
    OpenDatabase.load E false (tlvImage head gfs efs tail) uFileSize hdr fuel m2 r rep1
      = loadFields E hdr gfs efs tail m2 r rep1 := by
  obtain ⟨h1, h2, h3, h4, h5, h6, h7, h8⟩ := hfit
  apply load_fields E _ tail uFileSize fuel hdr m2 r rep1 gfs efs
  · unfold tlvImage
    rw [← hh, List.append_assoc, List.append_assoc, List.drop_left]
  · exact fun f hf => h1 f (List.mem_append_left _ hf)
  · exact fun f hf => h1 f (List.mem_append_right _ hf)
  · exact h6
  · exact h7
  · exact h4
  · exact h5
  · exact last_terminator gfs h2
  · exact last_terminator efs h3
  · exact h8

set_option maxRecDepth 100000 in
/-- A name field that holds "ab" without its `NUL` (which a file that
`SaveDatabase` has written never does) is read up to the next zero byte, into
the field that follows: `ReadGroupField` does not look at the field size. -/
theorem open_name_read_past_field :
    sampleImageNames sampleOpenName = some [some [97, 98, 255, 255]]
    ∧ sampleImageNames sampleOpenNameMore = some [some [97, 98, 52, 18]]
    ∧ FieldsFit sampleOneGroupHeader sampleOpenName [] (sampleImage sampleOpenName).length 10
    ∧ FieldsFit sampleOneGroupHeader sampleOpenNameMore []
        (sampleImage sampleOpenNameMore).length 10 := by
  refine ⟨by decide, by decide, ?_, ?_⟩
  · unfold FieldsFit
    decide
  · unfold FieldsFit
    decide

/-- C35.  For well-formed memory files, which hold the records their header
announces, before and after the insertion: a field of a type `ReadGroupField`
has no case for, inserted into the group fields after fields whose payloads
hold all that `ReadGroupField` takes from them (texts with their `NUL`, numbers
and times in full, as the format lays them down), does not change what the
load stage of `OpenDatabase` returns; the same holds for a field of a type
`ReadEntryField` has no case for inserted into the entry fields (the group
fields and the entry fields before it holding all that is taken from them).  And the cleartext `SaveDatabase`
writes is a sequence of fields of the defined types, each record ending with
the field of type `0xFFFF` and size 0. -/
theorem C35_unknown_fields_skipped (E : Env) :
    (∀ (head tail : List Nat) (a b efs : List (Nat × List Nat)) (f : Nat × List Nat)
        (hdr : PW_DBHEADER) (uFileSize uFileSize1 fuel fuel1 : Nat) (m2 : CPwManager) (r : Rand)
        (rep1 : PWDB_REPAIR_INFO),
      head.length = sizeofHeader → f.1 ∉ groupFieldTypes →
      (∀ x ∈ a, groupFieldContained x = true) →
      FieldsFit hdr (a ++ b) efs uFileSize fuel →
      FieldsFit hdr (a ++ f :: b) efs uFileSize1 fuel1 →
      OpenDatabase.load E false (tlvImage head (a ++ f :: b) efs tail) uFileSize1 hdr fuel1
          m2 r rep1
        = OpenDatabase.load E false (tlvImage head (a ++ b) efs tail) uFileSize hdr fuel
          m2 r rep1)
    ∧ (∀ (head tail : List Nat) (gfs c d : List (Nat × List Nat)) (f : Nat × List Nat)
        (hdr : PW_DBHEADER) (uFileSize uFileSize1 fuel fuel1 : Nat) (m2 : CPwManager) (r : Rand)
        (rep1 : PWDB_REPAIR_INFO),
      head.length = sizeofHeader → f.1 ∉ entryFieldTypes →
      (∀ x ∈ gfs, groupFieldContained x = true) → (∀ x ∈ c, entryFieldContained x = true) →
      FieldsFit hdr gfs (c ++ d) uFileSize fuel →
      FieldsFit hdr gfs (c ++ f :: d) uFileSize1 fuel1 →
      OpenDatabase.load E false (tlvImage head gfs (c ++ f :: d) tail) uFileSize1 hdr fuel1
          m2 r rep1
        = OpenDatabase.load E false (tlvImage head gfs (c ++ d) tail) uFileSize hdr fuel
          m2 r rep1)
    ∧ (∀ (m : CPwManager),
        SaveDatabase.payload E m
          = fieldBytes (m.m_pGroups.flatMap (groupFields E))
            ++ fieldBytes ((m.m_pEntries.map (m.UnlockEntryPassword E)).flatMap (entryFields E)))
    ∧ (∀ (g : PW_GROUP), (∀ f ∈ groupFields E g, f.1 ∈ groupFieldTypes)
        ∧ (groupFields E g).getLast? = some (0xFFFF, []))
    ∧ (∀ (e : PW_ENTRY), (∀ f ∈ entryFields E e, f.1 ∈ entryFieldTypes)
        ∧ (entryFields E e).getLast? = some (0xFFFF, [])) := by
  refine ⟨?_, ?_, payload_fields E, ?_, ?_⟩
  · intro head tail a b efs f hdr uFileSize uFileSize1 fuel fuel1 m2 r rep1 hh hf ha h1 h2
    rw [load_image E head tail _ efs hdr uFileSize1 fuel1 m2 r rep1 hh h2,
      load_image E head tail _ efs hdr uFileSize fuel m2 r rep1 hh h1]
    unfold loadFields
    rw [readGroupFields_insert E _ a b f 0 _ _ _ ha hf]
  · intro head tail gfs c d f hdr uFileSize uFileSize1 fuel fuel1 m2 r rep1 hh hf hg hc h1 h2
    rw [load_image E head tail gfs _ hdr uFileSize1 fuel1 m2 r rep1 hh h2,
      load_image E head tail gfs _ hdr uFileSize fuel m2 r rep1 hh h1]
    unfold loadFields
    rw [readGroupFields_tail E (fieldBytes (c ++ f :: d) ++ tail) (fieldBytes (c ++ d) ++ tail)
      gfs 0 _ _ _ hg]
    cases readGroupFields E (fieldBytes (c ++ d) ++ tail) gfs 0 m2.NewDatabase r
        RESET_PWG_TEMPLATE with
    | none => rfl
    | some g =>
      simp only []
      rw [readEntryFields_insert E tail c d f 0 _ _ _ hc hf]
  · intro g
    constructor
    · intro f hf
      simp only [groupFields, List.mem_cons, List.mem_singleton, List.not_mem_nil,
        or_false] at hf
      rcases hf with h | h | h | h | h | h | h | h | h | h <;>
        (rw [h]; simp [groupFieldTypes])
    · rfl
  · intro e
    constructor
    · intro f hf
      simp only [entryFields, List.mem_cons, List.mem_singleton, List.not_mem_nil,
        or_false] at hf
      rcases hf with h | h | h | h | h | h | h | h | h | h | h | h | h | h | h <;>
        (rw [h]; simp [entryFieldTypes])
    · rfl

set_option maxRecDepth 100000 in
/-- C35 at a record whose name "ab" is stored with its `NUL`: a
field of the unknown type `0x1234` with one byte, inserted before the
end-of-record field, does not change what the load returns. -/
theorem C35_unknown_fields_skipped_witness :
    OpenDatabase.load (sampleEnv none) false
        (tlvImage (List.replicate 124 0) (sampleClosedName ++ (0x1234, [7]) :: [(0xFFFF, [])])
          [] (List.replicate 16 0)) 200 sampleOneGroupHeader 10 sampleEmpty sampleRand ⟨0, 0, 0⟩
      = OpenDatabase.load (sampleEnv none) false
        (tlvImage (List.replicate 124 0) (sampleClosedName ++ [(0xFFFF, [])])
          [] (List.replicate 16 0)) 190 sampleOneGroupHeader 10 sampleEmpty sampleRand ⟨0, 0, 0⟩ :=
  (C35_unknown_fields_skipped (sampleEnv none)).1 (List.replicate 124 0) (List.replicate 16 0)
    sampleClosedName [(0xFFFF, [])] [] (0x1234, [7]) sampleOneGroupHeader 190 200 10 10
    sampleEmpty sampleRand ⟨0, 0, 0⟩ (by decide) (by decide) (by decide)
    (by unfold FieldsFit; decide) (by unfold FieldsFit; decide)

theorem pwtimecmp_self (a : PW_TIME) : _pwtimecmp a a = 0 := by
  unfold _pwtimecmp
  simp

theorem pwtimecmp_lt_iff (a b : PW_TIME) :
    _pwtimecmp a b < 0 ↔
      (a.shYear < b.shYear ∨ (a.shYear = b.shYear ∧ (a.btMonth < b.btMonth
        ∨ (a.btMonth = b.btMonth ∧ (a.btDay < b.btDay ∨ (a.btDay = b.btDay
        ∧ (a.btHour < b.btHour ∨ (a.btHour = b.btHour ∧ (a.btMinute < b.btMinute
        ∨ (a.btMinute = b.btMinute ∧ a.btSecond < b.btSecond)))))))))) := by
  unfold _pwtimecmp
  simp only [bne_iff_ne, ne_eq, ite_not]
  split_ifs <;> omega

theorem pwtimecmp_trans (a b c : PW_TIME) (h1 : _pwtimecmp a b < 0)
    (h2 : 0 ≤ _pwtimecmp a c) : 0 ≤ _pwtimecmp b c := by
  have k1 := (pwtimecmp_lt_iff a b).mp h1
  have k2 : ¬ _pwtimecmp a c < 0 := by omega
  rw [pwtimecmp_lt_iff] at k2
  have k3 : ¬ _pwtimecmp b c < 0 := by
    rw [pwtimecmp_lt_iff]
    omega
  omega

theorem GetGroupByIdN_loop_min (id : Nat) :
    ∀ (gs : List PW_GROUP) (i j : Nat) (x : PW_GROUP),
      i + j < GetGroupByIdN.loop id i gs → gs[j]? = some x → x.uGroupId ≠ id := by
  intro gs
  induction gs with
  | nil => intro i j x _ h; simp at h
  | cons a rest ih =>
    intro i j x hlt hx
    unfold GetGroupByIdN.loop at hlt
    by_cases ha : (a.uGroupId == id) = true
    · simp only [ha, if_true] at hlt
      omega
    · simp only [ha, Bool.false_eq_true, if_false] at hlt
      cases j with
      | zero =>
        simp only [List.getElem?_cons_zero, Option.some.injEq] at hx
        subst hx
        simpa using ha
      | succ j =>
        exact ih (i + 1) j x (by omega) (by simpa using hx)

theorem GetGroupByIdN_min (m : CPwManager) (id : Nat) :
    ∀ (j : Nat) (x : PW_GROUP), j < m.GetGroupByIdN id → m.m_pGroups[j]? = some x →
      x.uGroupId ≠ id := by
  intro j x hj hx
  unfold GetGroupByIdN at hj
  exact GetGroupByIdN_loop_min id m.m_pGroups 0 j x (by omega) hx

theorem settled_append (gs : List PW_GROUP) (x g : PW_GROUP) (h : GroupSettled gs g) :
    GroupSettled (gs ++ [x]) g := by
  obtain ⟨k, grp, h1, h2, h3, h4⟩ := h
  have hk : k < gs.length := (List.getElem?_eq_some_iff.mp h1).1
  refine ⟨k, grp, by rw [List.getElem?_append_left hk]; exact h1, h2, ?_, h4⟩
  intro j y hj hy
  rw [List.getElem?_append_left (by omega)] at hy
  exact h3 j y hj hy

theorem settled_append_new (gs : List PW_GROUP) (x g : PW_GROUP)
    (hno : ∀ y ∈ gs, y.uGroupId ≠ g.uGroupId) (hid : x.uGroupId = g.uGroupId)
    (hc : 0 ≤ _pwtimecmp x.tLastMod g.tLastMod) : GroupSettled (gs ++ [x]) g := by
  refine ⟨gs.length, x, by simp, hid, ?_, hc⟩
  intro j y hj hy
  rw [List.getElem?_append_left hj] at hy
  exact hno y (List.getElem?_mem hy)

theorem settled_set (gs : List PW_GROUP) (k : Nat) (old x g : PW_GROUP)
    (hold : gs[k]? = some old) (hid : x.uGroupId = old.uGroupId)
    (hc : 0 ≤ _pwtimecmp old.tLastMod g.tLastMod → 0 ≤ _pwtimecmp x.tLastMod g.tLastMod)
    (h : GroupSettled gs g) : GroupSettled (gs.set k x) g := by
  obtain ⟨k', grp, h1, h2, h3, h4⟩ := h
  have hk : k < gs.length := (List.getElem?_eq_some_iff.mp hold).1
  have hfirst : ∀ (j : Nat) (y : PW_GROUP), j < k' → (gs.set k x)[j]? = some y →
      y.uGroupId ≠ g.uGroupId := by
    intro j y hj hy
    by_cases hjk : j = k
    · subst hjk
      rw [List.getElem?_set_self hk] at hy
      cases hy
      rw [hid]
      exact h3 j old hj hold
    · rw [List.getElem?_set_ne (fun e => hjk e.symm)] at hy
      exact h3 j y hj hy
  by_cases hkk : k' = k
  · subst hkk
    rw [hold] at h1
    cases h1
    exact ⟨k', x, List.getElem?_set_self hk, by rw [hid, h2], hfirst, hc h4⟩
  · exact ⟨k', grp, by rw [List.getElem?_set_ne (fun e => hkk e.symm)]; exact h1, h2, hfirst, h4⟩

theorem settled_congr (gs gs' : List PW_GROUP) (g : PW_GROUP)
    (h : gs.map (fun x => { x with usLevel := 0 }) = gs'.map (fun x => { x with usLevel := 0 }))
    (hs : GroupSettled gs g) : GroupSettled gs' g := by
  have hget : ∀ (j : Nat) (y : PW_GROUP), gs'[j]? = some y →
      ∃ z, gs[j]? = some z ∧ z.uGroupId = y.uGroupId ∧ z.tLastMod = y.tLastMod := by
    intro j y hy
    have hj := congrArg (fun l => l[j]?) h
    simp only [List.getElem?_map, hy, Option.map_some'] at hj
    cases hz : gs[j]? with
    | none => rw [hz] at hj; simp at hj
    | some z =>
      rw [hz] at hj
      simp only [Option.map_some', Option.some.injEq] at hj
      have e1 := congrArg (fun (q : PW_GROUP) => q.uGroupId) hj
      have e2 := congrArg (fun (q : PW_GROUP) => q.tLastMod) hj
      exact ⟨z, rfl, e1, e2⟩
  obtain ⟨k, grp, h1, h2, h3, h4⟩ := hs
  have hlen : gs.length = gs'.length := by
    have := congrArg List.length h
    simpa using this
  have hk : k < gs'.length := by
    rw [← hlen]
    exact (List.getElem?_eq_some_iff.mp h1).1
  obtain ⟨z, z1, z2, z3⟩ := hget k gs'[k] (List.getElem?_eq_getElem hk)
  rw [h1] at z1
  cases z1
  refine ⟨k, gs'[k], List.getElem?_eq_getElem hk, by rw [← z2, h2], ?_, by rw [← z3]; exact h4⟩
  intro j y hj hy
  obtain ⟨w, w1, w2, _⟩ := hget j y hy
  rw [← w2]
  exact h3 j w hj w1

/-- The body of the group loop of `MergeIn` without new ids and with comparison
of times: afterwards the source group is settled, and so is every group that
was settled before. -/
theorem groupStep_settled (E : Env) (i : Nat) (pg : PW_GROUP) (m src : CPwManager) (r : Rand)
    (h0 : pg.uGroupId ≠ 0) (hM : pg.uGroupId ≠ DWORD_MAX)
    (hlen : m.m_pGroups.length ≤ DWORD_MAX) :
    ∃ m', MergeIn.groupStep E false true i pg m src r = some (m', src, r)
      ∧ GroupSettled m'.m_pGroups pg
      ∧ ∀ g, GroupSettled m.m_pGroups g → GroupSettled m'.m_pGroups g := by
  have hvalid : (pg.uGroupId == 0 || pg.uGroupId == DWORD_MAX) = false := by simp [h0, hM]
  unfold MergeIn.groupStep
  simp only [Bool.false_eq_true, if_false, Bool.true_and]
  rcases GetGroupByIdN_spec m pg.uGroupId with ⟨g0, hg0, hid0⟩ | ⟨hno, hall⟩
  · have hN : m.GetGroupByIdN pg.uGroupId < m.m_pGroups.length :=
      (List.getElem?_eq_some_iff.mp hg0).1
    have hne : (m.GetGroupByIdN pg.uGroupId != DWORD_MAX) = true := by
      simp only [bne_iff_ne, ne_eq]
      omega
    have hget : m.GetGroup (m.GetGroupByIdN pg.uGroupId) = some g0 := hg0
    simp only [hne, if_true, hget]
    by_cases hc : 0 ≤ _pwtimecmp g0.tLastMod pg.tLastMod
    · have hcb : decide (_pwtimecmp g0.tLastMod pg.tLastMod ≥ 0) = true := by simpa using hc
      simp only [hcb, if_true]
      exact ⟨m, rfl, ⟨_, g0, hg0, hid0, GetGroupByIdN_min m pg.uGroupId, hc⟩, fun g hg => hg⟩
    · have hcb : decide (_pwtimecmp g0.tLastMod pg.tLastMod ≥ 0) = false := by simpa using hc
      simp only [hcb, Bool.false_eq_true, if_false]
      rcases SetGroup_cases m (m.GetGroupByIdN pg.uGroupId) pg with ⟨hbad, _⟩ | ⟨_, hset⟩
      · rw [hvalid] at hbad
        exact Bool.noConfusion hbad
      · rw [hset]
        simp only []
        have htouch : (MergeIn.touchGroup E
            { m with m_pGroups := m.m_pGroups.set (m.GetGroupByIdN pg.uGroupId) (SetGroup.fill pg) }
            (m.GetGroupByIdN pg.uGroupId)).m_pGroups
            = m.m_pGroups.set (m.GetGroupByIdN pg.uGroupId)
                { SetGroup.fill pg with tLastAccess := E.tNow } := by
          unfold MergeIn.touchGroup GetGroup
          simp only [List.getElem?_set_self hN, List.set_set]
        refine ⟨_, rfl, ?_, ?_⟩
        · rw [htouch]
          refine ⟨_, _, List.getElem?_set_self hN, rfl, ?_, ?_⟩
          · intro j x hj hx
            rw [List.getElem?_set_ne (by omega)] at hx
            exact GetGroupByIdN_min m pg.uGroupId j x hj hx
          · show 0 ≤ _pwtimecmp pg.tLastMod pg.tLastMod
            rw [pwtimecmp_self]
        · intro g hg
          rw [htouch]
          apply settled_set _ _ g0 _ g hg0 (by rw [hid0]; rfl) _ hg
          intro hold
          show 0 ≤ _pwtimecmp pg.tLastMod g.tLastMod
          exact pwtimecmp_trans g0.tLastMod pg.tLastMod g.tLastMod (by omega) hold
  · have hnone : (if (m.GetGroupByIdN pg.uGroupId != DWORD_MAX) = true
        then m.GetGroup (m.GetGroupByIdN pg.uGroupId) else none) = none := by
      rw [hno]
      simp
    rw [hnone]
    simp only []
    rw [AddGroup_explicit m r pg h0 hM]
    simp only []
    refine ⟨_, rfl, ?_, ?_⟩
    · exact settled_append_new m.m_pGroups (SetGroup.fill pg) pg hall rfl
        (by show 0 ≤ _pwtimecmp pg.tLastMod pg.tLastMod; rw [pwtimecmp_self])
    · intro g hg
      exact settled_append _ _ _ hg

theorem groupLoop_settled (E : Env) (src : CPwManager) (r : Rand)
    (hsrc : ∀ g ∈ src.m_pGroups, g.uGroupId ≠ 0 ∧ g.uGroupId ≠ DWORD_MAX) :
    ∀ (n i : Nat) (m : CPwManager), m.m_pGroups.length + n ≤ DWORD_MAX →
      (∀ (j : Nat) (g : PW_GROUP), j < i → src.m_pGroups[j]? = some g →
        GroupSettled m.m_pGroups g) →
      ∃ m', MergeIn.groupLoop E false true n i m src r = some (m', src, r)
        ∧ ∀ (j : Nat) (g : PW_GROUP), j < i + n → src.m_pGroups[j]? = some g →
            GroupSettled m'.m_pGroups g := by
  intro n
  induction n with
  | zero =>
    intro i m _ h
    exact ⟨m, rfl, h⟩
  | succ n ih =>
    intro i m hlen h
    unfold MergeIn.groupLoop
    cases hg : src.GetGroup i with
    | none =>
      simp only []
      obtain ⟨m', h1, h2⟩ := ih (i + 1) m (by omega) (fun j g hj hjg => by
        by_cases hji : j = i
        · subst hji
          unfold GetGroup at hg
          rw [hg] at hjg
          exact Option.noConfusion hjg
        · exact h j g (by omega) hjg)
      exact ⟨m', h1, fun j g hj hjg => h2 j g (by omega) hjg⟩
    | some pg =>
      simp only []
      have hpg : src.m_pGroups[i]? = some pg := hg
      have hv := hsrc pg (List.getElem?_mem hpg)
      obtain ⟨m1, e1, e2, e3⟩ := groupStep_settled E i pg m src r hv.1 hv.2 (by omega)
      obtain ⟨m1', f1, _, _, f4, _, _⟩ := groupStep_false E true i pg m src r hv.1 hv.2
      have hsame : m1' = m1 := by
        rw [f1] at e1
        simp only [Option.some.injEq, Prod.mk.injEq, and_true] at e1
        exact e1
      subst hsame
      rw [e1]
      simp only []
      obtain ⟨m', h1, h2⟩ := ih (i + 1) m1' (by omega) (fun j g hj hjg => by
        by_cases hji : j = i
        · subst hji
          rw [hpg] at hjg
          cases hjg
          exact e2
        · exact e3 g (h j g (by omega) hjg))
      exact ⟨m', h1, fun j g hj hjg => h2 j g (by omega) hjg⟩

/-- The group loop of `MergeIn` without new ids and with comparison of times
leaves a database alone in which every source group is settled. -/
theorem groupLoop_fixed (E : Env) (m src : CPwManager) (r : Rand)
    (hlen : m.m_pGroups.length ≤ DWORD_MAX)
    (hset : ∀ g ∈ src.m_pGroups, GroupSettled m.m_pGroups g) :
    ∀ (n i : Nat), MergeIn.groupLoop E false true n i m src r = some (m, src, r) := by
  intro n
  induction n with
  | zero => intro i; rfl
  | succ n ih =>
    intro i
    unfold MergeIn.groupLoop
    cases hg : src.GetGroup i with
    | none => exact ih (i + 1)
    | some pg =>
      simp only []
      have hpg : src.m_pGroups[i]? = some pg := hg
      obtain ⟨k, grp, h1, h2, h3, h4⟩ := hset pg (List.getElem?_mem hpg)
      have hk := GetGroupByIdN_first m pg.uGroupId k grp h1 h2 h3
      have hkl : k < m.m_pGroups.length := (List.getElem?_eq_some_iff.mp h1).1
      have hstep : MergeIn.groupStep E false true i pg m src r = some (m, src, r) := by
        unfold MergeIn.groupStep
        have hne : (k != DWORD_MAX) = true := by
          simp only [bne_iff_ne, ne_eq]
          omega
        have hget : m.GetGroup k = some grp := h1
        have hcb : decide (_pwtimecmp grp.tLastMod pg.tLastMod ≥ 0) = true := by simpa using h4
        simp only [Bool.false_eq_true, if_false, hk, hne, if_true, hget, Bool.true_and, hcb]
      rw [hstep]
      exact ih (i + 1)

/-- The entry loop of `MergeIn` by UUID with comparison of times leaves a
database alone in which every source entry other than a meta-stream is
settled. -/
theorem entryLoop_fixed (E : Env) (m src : CPwManager) (r : Rand)
    (hlen : m.m_pEntries.length ≤ DWORD_MAX)
    (hset : ∀ s ∈ mergeSource src, EntrySettled m.m_pEntries s) :
    ∀ (n i : Nat), MergeIn.entryLoop E false true n i m src r = (m, src, r) := by
  intro n
  induction n with
  | zero => intro i; rfl
  | succ n ih =>
    intro i
    unfold MergeIn.entryLoop
    cases hs : src.GetEntry i with
    | none => exact ih (i + 1)
    | some s =>
      simp only []
      have hsi : src.m_pEntries[i]? = some s := hs
      have hstep : MergeIn.entryStep E false true i s m src r = (m, src, r) := by
        by_cases hmeta : _IsMetaStream s = true
        · exact entryStep_meta E m src r i s false true hmeta
        · have hmf : _IsMetaStream s = false := by simpa using hmeta
          have hmem : s ∈ mergeSource src := by
            unfold mergeSource
            rw [List.mem_filter]
            exact ⟨List.getElem?_mem hsi, by simp [hmf]⟩
          obtain ⟨k, e, h1, h2, h3, h4⟩ := hset s hmem
          obtain ⟨u1, _, u3, _⟩ := unlock_fields E src s
          have hk := GetEntryByUuidN_first m s.uuid k e h1 h2 h3
          have hkl : k < m.m_pEntries.length := (List.getElem?_eq_some_iff.mp h1).1
          have hne : (k != DWORD_MAX) = true := by
            simp only [bne_iff_ne, ne_eq]
            omega
          have hget : m.GetEntry k = some e := h1
          have hcb : decide (_pwtimecmp e.tLastMod s.tLastMod ≥ 0) = true := by simpa using h4
          have hm2 : (_IsMetaStream s == true) = false := by
            rw [hmf]
            rfl
          unfold MergeIn.entryStep
          simp only [hm2, Bool.false_eq_true, if_false, src_relock E src i s hsi, u1, u3, hk, hne,
            if_true, hget, Bool.true_and, hcb]
      rw [hstep]
      exact ih (i + 1)

theorem with_entries_eq (m : CPwManager) (es : List PW_ENTRY) (h : es = m.m_pEntries) :
    ({ m with m_pEntries := es } : CPwManager) = m := by
  subst h
  rfl

/-- `MergeIn` by UUID with comparison of times returns a database as it is when
the source has nothing newer: every source group and every source entry other
than a meta-stream is settled, the group tree is fixed and no entry is without
group. -/
theorem MergeIn_fixed (E : Env) (m src : CPwManager) (r : Rand)
    (hgl : m.m_pGroups.length ≤ DWORD_MAX) (hel : m.m_pEntries.length ≤ DWORD_MAX)
    (hg : ∀ g ∈ src.m_pGroups, GroupSettled m.m_pGroups g)
    (he : ∀ s ∈ mergeSource src, EntrySettled m.m_pEntries s)
    (hfix : m.FixGroupTree = m)
    (hno : ∀ e ∈ m.m_pEntries, (m.GetGroupById e.uGroupId).isSome = true) :
    MergeIn E m src r false true = some (m, src, r) := by
  unfold MergeIn
  rw [groupLoop_fixed E m src r hgl hg]
  simp only []
  rw [hfix, entryLoop_fixed E m src r hel he, DeleteLostEntries_eq]
  simp only []
  have hfil : m.m_pEntries.filter (fun e => (m.GetGroupById e.uGroupId).isSome) = m.m_pEntries := by
    rw [List.filter_eq_self]
    exact hno
  rw [hfil, with_entries_eq m _ rfl]

theorem FixGroupTree_twice (m : CPwManager) : m.FixGroupTree.FixGroupTree = m.FixGroupTree := by
  unfold FixGroupTree
  cases hgs : m.m_pGroups with
  | nil => simp [FixGroupTree.loop]
  | cons g gs =>
    simp only []
    have h1 : FixGroupTree.loop 0 ({ g with usLevel := 0 } :: gs)
        = { g with usLevel := 0 } :: FixGroupTree.loop 0 gs := by
      rw [FixGroupTree_loop_cons]
      simp
    rw [h1]
    simp only []
    rw [← h1, FixGroupTree_loop_idem]

theorem FixGroupTree_of_fixed (m x : CPwManager) (h : m.m_pGroups = x.FixGroupTree.m_pGroups) :
    m.FixGroupTree = m := by
  have h1 : m.FixGroupTree.m_pGroups = x.FixGroupTree.FixGroupTree.m_pGroups := by
    unfold FixGroupTree
    simp only []
    rw [h]
    rfl
  rw [FixGroupTree_twice, ← h] at h1
  have h2 : m.FixGroupTree = { m with m_pGroups := m.FixGroupTree.m_pGroups } := rfl
  rw [h2, h1]

theorem mergeReplace_time (E : Env) (m src : CPwManager) (e s : PW_ENTRY) :
    (mergeReplace E m src e s).tLastMod = s.tLastMod := by
  unfold mergeReplace
  show (SetEntry.fill E m e (src.UnlockEntryPassword E s)).tLastMod = s.tLastMod
  rw [fill_eq]
  exact (unlock_fields E src s).2.2.1

theorem mergeAppend_time (E : Env) (m src : CPwManager) (s : PW_ENTRY) :
    (mergeAppend E m src s).tLastMod = s.tLastMod := by
  unfold mergeAppend
  rw [fill_eq]
  exact (unlock_fields E src s).2.2.1

theorem uuid_inj_of_nodup (l : List PW_ENTRY) (hnd : (l.map (fun e => e.uuid)).Nodup)
    (a b : PW_ENTRY) (ha : a ∈ l) (hb : b ∈ l) (h : a.uuid = b.uuid) : a = b := by
  obtain ⟨i, hi⟩ := List.getElem?_of_mem ha
  obtain ⟨j, hj⟩ := List.getElem?_of_mem hb
  by_cases hij : i = j
  · subst hij
    rw [hi] at hj
    exact Option.some.inj hj
  · exact absurd h (nodup_uuid_ne l hnd i j a b hi hj hij)

theorem mergeLocal_time (E : Env) (m src : CPwManager) (ss : List PW_ENTRY) (e s : PW_ENTRY)
    (hnd : (ss.map (fun e => e.uuid)).Nodup) (hs : s ∈ ss) (hu : e.uuid = s.uuid) :
    0 ≤ _pwtimecmp (mergeLocal E m src ss e).tLastMod s.tLastMod := by
  unfold mergeLocal
  cases hf : ss.find? (fun x => x.uuid == e.uuid) with
  | none =>
    rw [List.find?_eq_none] at hf
    have := hf s hs
    simp [hu] at this
  | some s' =>
    have hs' : s' ∈ ss := List.mem_of_find?_eq_some hf
    have hu' : s'.uuid = e.uuid := by
      have := List.find?_some hf
      simpa using this
    have hss : s' = s := uuid_inj_of_nodup ss hnd s' s hs' hs (by rw [hu', hu])
    subst hss
    simp only []
    by_cases hc : _pwtimecmp e.tLastMod s'.tLastMod < 0
    · rw [if_pos hc, mergeReplace_time, pwtimecmp_self]
    · rw [if_neg hc]
      omega

/-- In the entries a merge by UUID with comparison of times leaves, every
source entry other than a meta-stream is settled. -/
theorem merged_settled (E : Env) (m src : CPwManager) (ss : List PW_ENTRY)
    (hB : (m.m_pEntries.map (fun e => e.uuid)).Nodup)
    (hSn : (ss.map (fun e => e.uuid)).Nodup) (s : PW_ENTRY) (hs : s ∈ ss) :
    EntrySettled (m.m_pEntries.map (mergeLocal E m src ss)
      ++ (mergeNew m ss).map (mergeAppend E m src)) s := by
  by_cases hin : ∃ e ∈ m.m_pEntries, e.uuid = s.uuid
  · obtain ⟨e, he, heu⟩ := hin
    obtain ⟨k, hk⟩ := List.getElem?_of_mem he
    have hkl : k < m.m_pEntries.length := (List.getElem?_eq_some_iff.mp hk).1
    refine ⟨k, mergeLocal E m src ss e, ?_, ?_, ?_, mergeLocal_time E m src ss e s hSn hs heu⟩
    · rw [List.getElem?_append_left (by simpa using hkl), List.getElem?_map, hk]
      rfl
    · rw [mergeLocal_uuid, heu]
    · intro j x hj hx
      rw [List.getElem?_append_left (by simp; omega), List.getElem?_map] at hx
      cases hb : m.m_pEntries[j]? with
      | none => rw [hb] at hx; simp at hx
      | some b =>
        rw [hb] at hx
        simp only [Option.map_some', Option.some.injEq] at hx
        rw [← hx, mergeLocal_uuid, ← heu]
        exact nodup_uuid_ne _ hB j k b e hb hk (by omega)
  · have hall : ∀ e ∈ m.m_pEntries, e.uuid ≠ s.uuid := fun e he heu => hin ⟨e, he, heu⟩
    have hnew : s ∈ mergeNew m ss := by
      unfold mergeNew
      rw [List.mem_filter]
      refine ⟨hs, ?_⟩
      simp only [Bool.not_eq_true', List.any_eq_false, beq_iff_eq]
      exact fun e he => hall e he
    obtain ⟨p, hp⟩ := List.getElem?_of_mem hnew
    have hnd2 : ((mergeNew m ss).map (fun e => e.uuid)).Nodup := by
      unfold mergeNew
      exact hSn.sublist ((List.filter_sublist _).map _)
    refine ⟨m.m_pEntries.length + p, mergeAppend E m src s, ?_, mergeAppend_uuid E m src s, ?_,
      by rw [mergeAppend_time, pwtimecmp_self]⟩
    · rw [List.getElem?_append_right (by simp), List.length_map, Nat.add_sub_cancel_left,
        List.getElem?_map, hp]
      rfl
    · intro j x hj hx
      by_cases hjl : j < m.m_pEntries.length
      · rw [List.getElem?_append_left (by simpa using hjl), List.getElem?_map] at hx
        cases hb : m.m_pEntries[j]? with
        | none => rw [hb] at hx; simp at hx
        | some b =>
          rw [hb] at hx
          simp only [Option.map_some', Option.some.injEq] at hx
          rw [← hx, mergeLocal_uuid]
          exact hall b (List.getElem?_mem hb)
      · rw [List.getElem?_append_right (by simp; omega), List.length_map, List.getElem?_map] at hx
        cases hb : (mergeNew m ss)[j - m.m_pEntries.length]? with
        | none => rw [hb] at hx; simp at hx
        | some b =>
          rw [hb] at hx
          simp only [Option.map_some', Option.some.injEq] at hx
          rw [← hx, mergeAppend_uuid]
          exact nodup_uuid_ne _ hnd2 _ p b s hb hp (by omega)

/-- `MergeIn` by UUID with comparison of times, in full: it returns with the
source and the random source as they were, the entries of C28, a fixed group
tree in which every source group is settled, and no entry without group. -/
theorem MergeIn_false_full (E : Env) (m src : CPwManager) (r : Rand)
    (hS : ∀ s ∈ mergeSource src, MergeReady s)
    (hSn : ((mergeSource src).map (fun e => e.uuid)).Nodup)
    (hSg : ∀ s ∈ mergeSource src, ∃ g ∈ src.m_pGroups, g.uGroupId = s.uGroupId)
    (hG : ∀ g ∈ src.m_pGroups, g.uGroupId ≠ 0 ∧ g.uGroupId ≠ DWORD_MAX)
    (hB : (m.m_pEntries.map (fun e => e.uuid)).Nodup)
    (hBg : ∀ e ∈ m.m_pEntries, ∃ g ∈ m.m_pGroups, g.uGroupId = e.uGroupId)
    (hlen : m.m_pEntries.length + src.m_pEntries.length ≤ DWORD_MAX)
    (hglen : m.m_pGroups.length + src.m_pGroups.length ≤ DWORD_MAX) :
    ∃ m', MergeIn E m src r false true = some (m', src, r)
      ∧ m'.m_pEntries
          = m.m_pEntries.map (mergeLocal E m src (mergeSource src))
            ++ (mergeNew m (mergeSource src)).map (mergeAppend E m src)
      ∧ m'.m_pGroups.length ≤ m.m_pGroups.length + src.m_pGroups.length
      ∧ (∀ g ∈ src.m_pGroups, GroupSettled m'.m_pGroups g)
      ∧ m'.FixGroupTree = m'
      ∧ ∀ e ∈ m'.m_pEntries, (m'.GetGroupById e.uGroupId).isSome = true := by
  obtain ⟨m1, g1, g2, g3, g4, g5, g6⟩ :=
    groupLoop_false E true src r hG src.m_pGroups.length 0 m
  obtain ⟨m1', s1, s2⟩ := groupLoop_settled E src r hG src.m_pGroups.length 0 m (by omega)
    (fun j g hj => by omega)
  have hsame : m1' = m1 := by
    rw [g1] at s1
    simp only [Option.some.injEq, Prod.mk.injEq, and_true] at s1
    exact s1.symm
  subst hsame
  unfold MergeIn
  have hn : src.GetNumberOfGroups = src.m_pGroups.length := rfl
  rw [hn, g1]
  simp only []
  have hne : src.GetNumberOfEntries = src.m_pEntries.length := rfl
  rw [hne]
  have hinv0 : m1'.FixGroupTree.m_pEntries
      = m.m_pEntries.map
          (mergeLocal E m src ((src.m_pEntries.take 0).filter (fun e => !_IsMetaStream e)))
        ++ (mergeNew m ((src.m_pEntries.take 0).filter (fun e => !_IsMetaStream e))).map
            (mergeAppend E m src) := by
    rw [FixGroupTree_entries, g2]
    have hid : (mergeLocal E m src ([] : List PW_ENTRY)) = id := by
      funext e
      exact mergeLocal_none E m src [] e (fun s hs => absurd hs (List.not_mem_nil s))
    simp [mergeNew, hid]
  have hkey : m1'.FixGroupTree.m_pSessionKey = m.m_pSessionKey := by
    rw [← g3]
    rfl
  obtain ⟨l1, l2, l3⟩ := entryLoop_false E m src hS hSn hB hlen src.m_pEntries.length 0
    m1'.FixGroupTree r (by omega) hkey hinv0
  generalize MergeIn.entryLoop E false true src.m_pEntries.length 0 m1'.FixGroupTree src r = out
    at l1 l2 l3
  rw [DeleteLostEntries_eq]
  simp only []
  have hgl : out.1.m_pGroups.length ≤ DWORD_MAX := by
    rw [l2, FixGroupTree_length]
    omega
  have hids : ∀ x, x ∈ m.m_pGroups.map (fun g => g.uGroupId)
      ∨ x ∈ src.m_pGroups.map (fun g => g.uGroupId) →
      ∃ g ∈ out.1.m_pGroups, g.uGroupId = x := by
    intro x hx
    have hx1 : x ∈ m1'.m_pGroups.map (fun g => g.uGroupId) := by
      rcases hx with hx | hx
      · exact g5 x hx
      · obtain ⟨g, hg, rfl⟩ := List.mem_map.mp hx
        obtain ⟨j, hj⟩ := List.getElem?_of_mem hg
        have hjl : j < src.m_pGroups.length := (List.getElem?_eq_some_iff.mp hj).1
        exact g6 j g (Nat.zero_le _) (by omega) hj
    rw [← FixGroupTree_ids, ← l2] at hx1
    obtain ⟨g, hg, hgx⟩ := List.mem_map.mp hx1
    exact ⟨g, hg, hgx⟩
  have hsrcid : ∀ s ∈ mergeSource src, ∃ g ∈ out.1.m_pGroups, g.uGroupId = s.uGroupId := by
    intro s hs
    obtain ⟨g, hg, hgs⟩ := hSg s hs
    exact hids _ (Or.inr (List.mem_map.mpr ⟨g, hg, hgs⟩))
  have hall : ∀ e ∈ out.1.m_pEntries, (out.1.GetGroupById e.uGroupId).isSome = true := by
    intro e he
    apply GetGroupById_isSome _ _ hgl
    rw [l1, List.mem_append] at he
    rcases he with he | he
    · obtain ⟨b, hb, rfl⟩ := List.mem_map.mp he
      rcases mergeLocal_group E m src (mergeSource src) b with h | ⟨s, hs, h⟩
      · rw [h]
        obtain ⟨g, hg, hgs⟩ := hBg b hb
        exact hids _ (Or.inl (List.mem_map.mpr ⟨g, hg, hgs⟩))
      · rw [h]
        exact hsrcid s hs
    · obtain ⟨b, hb, rfl⟩ := List.mem_map.mp he
      rw [mergeAppend_group]
      unfold mergeNew at hb
      exact hsrcid b (List.mem_filter.mp hb).1
  have hfil : out.1.m_pEntries.filter (fun e => (out.1.GetGroupById e.uGroupId).isSome)
      = out.1.m_pEntries := by
    rw [List.filter_eq_self]
    exact hall
  rw [hfil, with_entries_eq out.1 _ rfl]
  have hout : out = (out.1, src, r) := by
    rw [← l3]
  refine ⟨out.1, by rw [← hout], l1, ?_, ?_, ?_, hall⟩
  · rw [l2, FixGroupTree_length]
    omega
  · intro g hg
    obtain ⟨j, hj⟩ := List.getElem?_of_mem hg
    have hjl : j < src.m_pGroups.length := (List.getElem?_eq_some_iff.mp hj).1
    rw [l2]
    exact settled_congr _ _ g (FixGroupTree_fields m1').symm (s2 j g (by omega) hj)
  · exact FixGroupTree_of_fixed out.1 m1' l2

set_option maxRecDepth 100000 in
/-- C40, as stated, fails: a source entry without UUID is given a fresh UUID by
`AddEntry` each time, so the second merge with the same source appends a second
copy. -/
theorem C40_merge_idempotent_counterexample :
    ((MergeIn (sampleEnv none) sampleTree sampleOneEntry sampleRand false true).map
        (fun res => res.1.m_pEntries.length)) = some 1
    ∧ ((MergeIn (sampleEnv none) sampleTree sampleOneEntry sampleRand false true).bind
        (fun res => (MergeIn (sampleEnv none) res.1 res.2.1 res.2.2 false true).map
          (fun res2 => res2.1.m_pEntries.length))) = some 2
    ∧ sampleOneEntry.m_pEntries.map (fun e => e.uuid) = [g_uuidZero] := by
  decide

/-- C40, amended.  For a source whose entries other than meta-streams have
pairwise distinct non-zero UUIDs, non-`NULL` texts and a group of the source,
whose group ids are neither 0 nor `DWORD_MAX`, and a database with pairwise
distinct UUIDs and no entry without group (the counts of both together fitting
a `DWORD`): `MergeIn` by UUID with comparison of times returns, and a second
`MergeIn` with the same source, at whatever time, returns the database exactly
as the first left it. -/
theorem C40_merge_idempotent (E : Env) (m src : CPwManager) (r : Rand)
    (hS : ∀ s ∈ mergeSource src, MergeReady s)
    (hSn : ((mergeSource src).map (fun e => e.uuid)).Nodup)
    (hSg : ∀ s ∈ mergeSource src, ∃ g ∈ src.m_pGroups, g.uGroupId = s.uGroupId)
    (hG : ∀ g ∈ src.m_pGroups, g.uGroupId ≠ 0 ∧ g.uGroupId ≠ DWORD_MAX)
    (hB : (m.m_pEntries.map (fun e => e.uuid)).Nodup)
    (hBg : ∀ e ∈ m.m_pEntries, ∃ g ∈ m.m_pGroups, g.uGroupId = e.uGroupId)
    (hlen : m.m_pEntries.length + src.m_pEntries.length ≤ DWORD_MAX)
    (hglen : m.m_pGroups.length + src.m_pGroups.length ≤ DWORD_MAX) :
    ∃ m', MergeIn E m src r false true = some (m', src, r)
      ∧ ∀ E2 : Env, MergeIn E2 m' src r false true = some (m', src, r) := by
  obtain ⟨m', h1, h2, h3, h4, h5, h6⟩ :=
    MergeIn_false_full E m src r hS hSn hSg hG hB hBg hlen hglen
  refine ⟨m', h1, fun E2 => ?_⟩
  apply MergeIn_fixed E2 m' src r (by omega) ?_ h4 ?_ h5 h6
  · rw [h2]
    have hn : (mergeNew m (mergeSource src)).length ≤ (mergeSource src).length := by
      unfold mergeNew
      exact List.length_filter_le _ _
    have hs : (mergeSource src).length ≤ src.m_pEntries.length := by
      unfold mergeSource
      exact List.length_filter_le _ _
    simp only [List.length_append, List.length_map]
    omega
  · intro s hs
    rw [h2]
    exact merged_settled E m src (mergeSource src) hB hSn s hs

set_option maxRecDepth 100000 in
/-- The amended C40 at the sample databases. -/
theorem C40_merge_idempotent_witness :
    ∃ m', MergeIn (sampleEnv none) sampleMergeLocal sampleMergeSource sampleRand false true
        = some (m', sampleMergeSource, sampleRand)
      ∧ MergeIn sampleEnvLater m' sampleMergeSource sampleRand false true
        = some (m', sampleMergeSource, sampleRand) := by
  obtain ⟨m', h1, h2⟩ := C40_merge_idempotent (sampleEnv none) sampleMergeLocal
    sampleMergeSource sampleRand
    (by unfold MergeReady; decide) (by decide) (by decide) (by decide) (by decide) (by decide)
    (by decide) (by decide)
  exact ⟨m', h1, h2 sampleEnvLater⟩

theorem FixGroupTree_loop_append :
    ∀ (a b : List PW_GROUP) (last : Nat),
      FixGroupTree.loop last (a ++ b)
        = FixGroupTree.loop last a
          ++ FixGroupTree.loop
              (((FixGroupTree.loop last a).getLast?.map (fun g => g.usLevel)).getD last) b := by
  intro a
  induction a with
  | nil => intro b last; rfl
  | cons g gs ih =>
    intro b last
    rw [List.cons_append, FixGroupTree_loop_cons, FixGroupTree_loop_cons, ih]
    generalize (if g.usLevel > (last + 1) % 65536 then (last + 1) % 65536 else g.usLevel) = lvl
    rw [List.cons_append]
    congr 2
    cases hl : (FixGroupTree.loop lvl gs).getLast? with
    | none =>
      have hnil : FixGroupTree.loop lvl gs = [] := List.getLast?_eq_none_iff.mp hl
      rw [hnil]
      rfl
    | some x =>
      have hne : FixGroupTree.loop lvl gs ≠ [] := by
        intro h
        rw [h] at hl
        simp at hl
      obtain ⟨y, ys, hy⟩ := List.exists_cons_of_ne_nil hne
      rw [hy, List.getLast?_cons_cons, ← hy, hl]
      rfl

theorem FixGroupTree_keep (m : CPwManager) (X N : List PW_GROUP) (hg : m.m_pGroups = X ++ N)
    (ht : TreeInvariant X) (hlv : ∀ g ∈ X, g.usLevel < 65535) :
    ∃ N', m.FixGroupTree = { m with m_pGroups := X ++ N' }
      ∧ N'.map (fun g => { g with usLevel := 0 }) = N.map (fun g => { g with usLevel := 0 }) := by
  cases hX : X with
  | nil =>
    refine ⟨m.FixGroupTree.m_pGroups, rfl, ?_⟩
    rw [FixGroupTree_fields, hg, hX]
    rfl
  | cons g gs =>
    obtain ⟨h0, hch⟩ := ht
    rw [hX] at h0 hch hlv
    have hz : g.usLevel = 0 := h0 g (List.getElem?_cons_zero)
    have hgz : ({ g with usLevel := 0 } : PW_GROUP) = g := by
      cases g
      simp_all
    unfold FixGroupTree
    rw [hg, hX]
    simp only [List.cons_append, hgz]
    rw [← List.cons_append, FixGroupTree_loop_append,
      FixGroupTree_loop_id (g :: gs) 0 (by omega) hlv (fun x hx => by
        simp only [List.getElem?_cons_zero, Option.some.injEq] at hx
        rw [← hx, hz]; omega) hch]
    exact ⟨_, rfl, FixGroupTree_loop_fields _ _⟩

theorem freshCount_mono : ∀ (xs avoid avoid' : List Nat), (∀ x ∈ avoid, x ∈ avoid') →
    freshCount avoid' xs ≤ freshCount avoid xs := by
  intro xs
  induction xs with
  | nil => intro _ _ _; simp [freshCount]
  | cons x xs ih =>
    intro avoid avoid' h
    unfold freshCount
    by_cases h1 : x % U32 ∈ avoid
    · have h2 : x % U32 ∈ avoid' := h _ h1
      simp only [h1, h2, if_true]
      exact ih avoid avoid' h
    · simp only [h1, if_false]
      by_cases h2 : x % U32 ∈ avoid'
      · simp only [h2, if_true]
        have := ih (x % U32 :: avoid) avoid' (fun y hy => by
          rcases List.mem_cons.mp hy with e | e
          · rw [e]; exact h2
          · exact h y e)
        omega
      · simp only [h2, if_false]
        have := ih (x % U32 :: avoid) (x % U32 :: avoid') (fun y hy => by
          rcases List.mem_cons.mp hy with e | e
          · rw [e]; exact List.mem_cons_self _ _
          · exact List.mem_cons_of_mem _ (h y e))
        omega

/-- The rejection loop of `AddGroup` finds an id when the generator still has a
usable value, and uses up at most one of them. -/
theorem newId_fresh (groups : List PW_GROUP) :
    ∀ (xs avoid : List Nat), 0 ∈ avoid → DWORD_MAX ∈ avoid →
      (∀ g ∈ groups, g.uGroupId ∈ avoid) → 0 < freshCount avoid xs →
      ∃ t rest, AddGroup.newId groups xs = some (t, rest) ∧ rest.length < xs.length
        ∧ freshCount avoid xs ≤ freshCount (t :: avoid) rest + 1
        ∧ (t ∈ avoid → freshCount avoid xs ≤ freshCount avoid rest) := by
  intro xs
  induction xs with
  | nil => intro avoid _ _ _ h; simp [freshCount] at h
  | cons x xs ih =>
    intro avoid h0 hM hg hc
    unfold AddGroup.newId
    simp only []
    by_cases hs : (x % U32 == 0 || x % U32 == DWORD_MAX) = true
    · have hin : x % U32 ∈ avoid := by
        simp only [Bool.or_eq_true, beq_iff_eq] at hs
        rcases hs with e | e
        · rw [e]; exact h0
        · rw [e]; exact hM
      have hcount : freshCount avoid (x :: xs) = freshCount avoid xs := by
        conv_lhs => unfold freshCount
        simp only [hin, if_true]
      rw [hcount] at hc ⊢
      obtain ⟨t, rest, e1, e2, e3, e4⟩ := ih avoid h0 hM hg hc
      simp only [hs, if_true]
      exact ⟨t, rest, e1, by simp only [List.length_cons]; omega, e3, e4⟩
    · simp only [hs, Bool.false_eq_true, if_false]
      by_cases ha : groups.any (fun g => g.uGroupId == x % U32) = true
      · have hin : x % U32 ∈ avoid := by
          rw [List.any_eq_true] at ha
          obtain ⟨g, hg1, hg2⟩ := ha
          have : g.uGroupId = x % U32 := by simpa using hg2
          rw [← this]
          exact hg g hg1
        have hcount : freshCount avoid (x :: xs) = freshCount avoid xs := by
          conv_lhs => unfold freshCount
          simp only [hin, if_true]
        rw [hcount] at hc ⊢
        obtain ⟨t, rest, e1, e2, e3, e4⟩ := ih avoid h0 hM hg hc
        simp only [ha, if_true]
        exact ⟨t, rest, e1, by simp only [List.length_cons]; omega, e3, e4⟩
      · simp only [ha, Bool.false_eq_true, if_false]
        refine ⟨x % U32, xs, rfl, by simp, ?_, ?_⟩
        swap
        · intro hin
          conv_lhs => unfold freshCount
          simp only [hin, if_true]
          exact le_refl _
        conv_lhs => unfold freshCount
        by_cases hin : x % U32 ∈ avoid
        · simp only [hin, if_true]
          have := freshCount_mono xs avoid (x % U32 :: avoid)
            (fun y hy => List.mem_cons_of_mem _ hy)
          have h2 : freshCount (x % U32 :: avoid) xs = freshCount avoid xs := by
            apply Nat.le_antisymm this
            exact freshCount_mono xs (x % U32 :: avoid) avoid (fun y hy => by
              rcases List.mem_cons.mp hy with e | e
              · rw [e]; exact hin
              · exact e)
          omega
        · simp only [hin, if_false]
          omega

theorem erase_ids (A B : List PW_GROUP)
    (h : A.map (fun g => ({ g with usLevel := 0 } : PW_GROUP))
      = B.map (fun g => ({ g with usLevel := 0 } : PW_GROUP))) :
    A.map (fun g => g.uGroupId) = B.map (fun g => g.uGroupId) := by
  have h2 := congrArg (List.map (fun g : PW_GROUP => g.uGroupId)) h
  simpa [List.map_map, Function.comp_def] using h2

theorem substGroupId_same (e : PW_ENTRY) (a : Nat) : substGroupId e (a, a) = e := by
  unfold substGroupId
  by_cases h : (e.uGroupId == a) = true
  · simp only [h, if_true]
    have : e.uGroupId = a := by simpa using h
    cases e
    simp_all
  · simp only [h, Bool.false_eq_true, if_false]

theorem SubstEntryGroupIds_eq (m : CPwManager) (a b : Nat) :
    m.SubstEntryGroupIds a b
      = { m with m_pEntries := m.m_pEntries.map (fun e => substGroupId e (a, b)) } := by
  unfold SubstEntryGroupIds
  by_cases h : (a == b) = true
  · have hab : a = b := by simpa using h
    subst hab
    simp only [beq_self_eq_true, if_true]
    have hid : m.m_pEntries.map (fun e => substGroupId e (a, a)) = m.m_pEntries := by
      simp [substGroupId_same]
    rw [hid]
  · simp only [h, Bool.false_eq_true, if_false]
    rfl

theorem AddGroup_zero (m : CPwManager) (r : Rand) (pg : PW_GROUP) (t : Nat) (rest : List Nat)
    (hz : pg.uGroupId = 0) (hnew : AddGroup.newId m.m_pGroups r.xorShift = some (t, rest))
    (h0 : t ≠ 0) (hM : t ≠ DWORD_MAX) :
    m.AddGroup r pg
      = some (true, { m with m_pGroups := m.m_pGroups ++ [importedGroup pg t] },
          { r with xorShift := rest }) := by
  have hs : (t == 0 || t == DWORD_MAX) = false := by simp [h0, hM]
  unfold CPwManager.AddGroup importedGroup
  simp only [hz, beq_self_eq_true, Bool.true_or, if_true, hnew]
  rcases SetGroup_cases { m with m_pGroups := m.m_pGroups ++ [PW_GROUP.zero] }
    (m.m_pGroups.length + 1 - 1) { pg with uGroupId := t } with ⟨hc, _⟩ | ⟨_, hset⟩
  · simp only [hs] at hc
    exact absurd hc (by simp)
  · simp only [List.length_append, List.length_singleton]
    rw [hset]
    simp only [Nat.add_sub_cancel, Option.some.injEq, Prod.mk.injEq, true_and, and_true]
    congr 1
    rw [List.set_append_right _ _ (le_refl _)]
    simp

theorem with_groups_eta (src : CPwManager) (i : Nat) (pg x : PW_GROUP)
    (hs : src.m_pGroups[i]? = some pg) :
    ({ src with m_pGroups := (src.m_pGroups.set i x).set i pg } : CPwManager) = src := by
  rw [List.set_set, set_same_val _ _ _ hs]

theorem GetGroupById_none_of (m : CPwManager) (id : Nat)
    (h : ∀ g ∈ m.m_pGroups, g.uGroupId ≠ id) : (m.GetGroupById id).isNone = true := by
  unfold GetGroupById
  rcases GetGroupByIdN_spec m id with ⟨g, hg, hgid⟩ | ⟨hmax, _⟩
  · exact absurd hgid (h g (List.getElem?_mem hg))
  · simp [hmax]

theorem GetGroupById_mem (m : CPwManager) (id : Nat)
    (h : (m.GetGroupById id).isNone = false) : ∃ g ∈ m.m_pGroups, g.uGroupId = id := by
  by_contra hno
  have h2 := GetGroupById_none_of m id (fun g hg hid => hno ⟨g, hg, hid⟩)
  rw [h2] at h
  exact absurd h (by simp)

theorem delete_added (m : CPwManager) (G : PW_GROUP) (t : Nat) (hG : G.uGroupId = t)
    (hfresh : ∀ g ∈ m.m_pGroups, g.uGroupId ≠ t) (hE : ∀ e ∈ m.m_pEntries, e.uGroupId ≠ t) :
    ({ m with m_pGroups := m.m_pGroups ++ [G] } : CPwManager).DeleteGroupById t
      = some (true, m.FixGroupTree) := by
  rw [DeleteGroupById_eq]
  have h1 : ({ m with m_pGroups := m.m_pGroups ++ [G] } : CPwManager).GetGroupByIdN t
      = m.m_pGroups.length := by
    apply GetGroupByIdN_first _ t _ G
    · simp
    · exact hG
    · intro j x hj hx
      have hx2 : m.m_pGroups[j]? = some x := by
        have h3 : (m.m_pGroups ++ [G])[j]? = some x := hx
        rwa [List.getElem?_append_left hj] at h3
      exact hfresh x (List.getElem?_mem hx2)
  rw [h1]
  have h2 : ({ m with m_pGroups := m.m_pGroups ++ [G] } : CPwManager).m_pEntries.filter
      (fun e => !(e.uGroupId == t)) = m.m_pEntries := by
    apply List.filter_eq_self.mpr
    intro e he
    have := hE e he
    simpa using this
  rw [h2]
  have h3 : shiftOut ({ m with m_pGroups := m.m_pGroups ++ [G] } : CPwManager).m_pGroups
      m.m_pGroups.length = m.m_pGroups := by
    have := shiftOut_append m.m_pGroups [] G
    simpa using this
  rw [h3]

theorem ids_of_erase (X N N' : List PW_GROUP)
    (h : N'.map (fun g => ({ g with usLevel := 0 } : PW_GROUP))
      = N.map (fun g => ({ g with usLevel := 0 } : PW_GROUP)))
    (P : Nat → Prop) (hP : ∀ g ∈ X ++ N, P g.uGroupId) : ∀ g ∈ X ++ N', P g.uGroupId := by
  intro g hg
  rcases List.mem_append.mp hg with h1 | h1
  · exact hP g (List.mem_append_left _ h1)
  · have h2 : g.uGroupId ∈ N'.map (fun g => g.uGroupId) := List.mem_map_of_mem _ h1
    rw [erase_ids N' N h] at h2
    obtain ⟨g0, hg0, hid⟩ := List.mem_map.mp h2
    rw [← hid]
    exact hP g0 (List.mem_append_right _ hg0)

/-- The retry loop of `MergeIn` for one source group: it ends with the group
appended under an id that no local group and no source group has, the local
prefix `X` intact. -/
theorem newGroup_fresh (X : List PW_GROUP) (ht : TreeInvariant X)
    (hlv : ∀ g ∈ X, g.usLevel < 65535) (i : Nat) (pg : PW_GROUP) (avoid : List Nat)
    (h0 : 0 ∈ avoid) (hM : DWORD_MAX ∈ avoid) :
    ∀ (n : Nat) (xs : List Nat) (fuel : Nat) (m src : CPwManager) (r : Rand)
      (N : List PW_GROUP),
      xs.length ≤ n → xs.length < fuel → r.xorShift = xs → m.m_pGroups = X ++ N →
      (∀ e ∈ m.m_pEntries, ∃ g ∈ X, g.uGroupId = e.uGroupId) →
      src.m_pGroups[i]? = some pg → src.m_pGroups.length ≤ DWORD_MAX →
      (∀ g ∈ X ++ N, g.uGroupId ∈ avoid) → (∀ g ∈ src.m_pGroups, g.uGroupId ∈ avoid) →
      0 < freshCount avoid xs →
      ∃ t rest N',
        MergeIn.newGroup i fuel m src r
          = some ({ m with m_pGroups := X ++ N' ++ [importedGroup pg t] },
              { src with
                m_pGroups := src.m_pGroups.set i { pg with uGroupId := 0 },
                m_pEntries := src.m_pEntries.map (fun e => substGroupId e (pg.uGroupId, t)) },
              { r with xorShift := rest })
        ∧ N'.map (fun g => ({ g with usLevel := 0 } : PW_GROUP))
            = N.map (fun g => ({ g with usLevel := 0 } : PW_GROUP))
        ∧ t ≠ 0 ∧ t ≠ DWORD_MAX ∧ (∀ g ∈ X ++ N, g.uGroupId ≠ t)
        ∧ (∀ g ∈ src.m_pGroups.set i { pg with uGroupId := 0 }, g.uGroupId ≠ t)
        ∧ freshCount avoid xs ≤ freshCount (t :: avoid) rest + 1 := by
  intro n
  induction n with
  | zero =>
    intro xs fuel m src r N hn hf hr hg hE hs hlen hA hS hc
    have hnil : xs = [] := List.length_eq_zero.mp (by omega)
    rw [hnil] at hc
    simp [freshCount] at hc
  | succ n ih =>
    intro xs fuel m src r N hn hf hr hg hE hs hlen hA hS hc
    obtain ⟨t, rest, hnew, hlt, hle, hin⟩ :=
      newId_fresh m.m_pGroups xs avoid h0 hM (by rw [hg]; exact hA) hc
    obtain ⟨t0, tM, _, tG, _⟩ := newId_spec _ _ _ _ hnew
    cases fuel with
    | zero => omega
    | succ f =>
      unfold MergeIn.newGroup
      simp only [hs]
      rw [AddGroup_zero m r { pg with uGroupId := 0 } t rest rfl (by rw [hr]; exact hnew) t0 tM]
      simp only []
      have hlast : (({ m with m_pGroups := m.m_pGroups
              ++ [importedGroup { pg with uGroupId := 0 } t] } : CPwManager).m_pGroups.getD
            (({ m with m_pGroups := m.m_pGroups
              ++ [importedGroup { pg with uGroupId := 0 } t] } : CPwManager).GetNumberOfGroups - 1)
            PW_GROUP.zero).uGroupId = t := by
        simp [GetNumberOfGroups, importedGroup, SetGroup.fill]
      rw [hlast]
      have hset : ∀ g ∈ src.m_pGroups.set i { pg with uGroupId := 0 }, g.uGroupId ∈ avoid := by
        intro g hgm
        rcases List.mem_or_eq_of_mem_set hgm with h1 | h1
        · exact hS g h1
        · rw [h1]; exact h0
      by_cases hb : (({ src with m_pGroups := src.m_pGroups.set i { pg with uGroupId := 0 } }
          : CPwManager).GetGroupById t).isNone = true
      · simp only [hb, if_true]
        refine ⟨t, rest, N, ?_, rfl, t0, tM, ?_, ?_, hle⟩
        · rw [SubstEntryGroupIds_eq, hg]
          rfl
        · intro g hgm
          exact tG g (by rw [hg]; exact hgm)
        · intro g hgm hgt
          have h2 := GetGroupById_isSome
            ({ src with m_pGroups := src.m_pGroups.set i { pg with uGroupId := 0 } } : CPwManager)
            t (by simp only [List.length_set]; exact hlen) ⟨g, hgm, hgt⟩
          rw [Option.isNone_iff_eq_none] at hb
          rw [hb] at h2
          exact absurd h2 (by simp)
      · have hb2 : (({ src with m_pGroups := src.m_pGroups.set i { pg with uGroupId := 0 } }
            : CPwManager).GetGroupById t).isNone = false := Bool.eq_false_iff.mpr hb
        simp only [hb2, Bool.false_eq_true, if_false]
        obtain ⟨g, hgm, hgt⟩ := GetGroupById_mem _ t hb2
        have htin : t ∈ avoid := by rw [← hgt]; exact hset g hgm
        rw [delete_added m _ t rfl tG
          (fun e he heq => by
            obtain ⟨g1, hg1, hid1⟩ := hE e he
            exact tG g1 (by rw [hg]; exact List.mem_append_left _ hg1) (by rw [hid1, heq]))]
        simp only []
        rw [with_groups_eta src i pg _ hs]
        obtain ⟨N1, hfix, hN1⟩ := FixGroupTree_keep m X N hg ht hlv
        rw [hfix]
        obtain ⟨t2, rest2, N2, e1, e2, e3, e4, e5, e6, e7⟩ :=
          ih rest f { m with m_pGroups := X ++ N1 } src { r with xorShift := rest } N1
            (by omega) (by omega) rfl rfl hE hs hlen
            (ids_of_erase X N N1 hN1 (fun x => x ∈ avoid) hA) hS
            (by have := hin htin; omega)
        refine ⟨t2, rest2, N2, ?_, by rw [e2, hN1], e3, e4, ?_, e6, ?_⟩
        · rw [e1]
        · exact ids_of_erase X N1 N hN1.symm (fun x => x ≠ t2) e5
        · have h1 := hin htin
          omega

/-- The group loop of `MergeIn` with new ids, for the source groups `R` that
follow the groups `Z` already handled. -/
theorem groupLoop_fresh (E : Env) (bCmp : Bool) (X : List PW_GROUP) (ht : TreeInvariant X)
    (hlv : ∀ g ∈ X, g.usLevel < 65535) :
    ∀ (R Z : List PW_GROUP) (m src : CPwManager) (r : Rand) (N : List PW_GROUP)
      (avoid : List Nat),
      src.m_pGroups = Z ++ R → m.m_pGroups = X ++ N →
      (∀ e ∈ m.m_pEntries, ∃ g ∈ X, g.uGroupId = e.uGroupId) →
      (Z ++ R).length ≤ DWORD_MAX → 0 ∈ avoid → DWORD_MAX ∈ avoid →
      (∀ g ∈ X ++ N, g.uGroupId ∈ avoid) → (∀ g ∈ R, g.uGroupId ∈ avoid) →
      (∀ g ∈ Z, g.uGroupId = 0) → R.length ≤ freshCount avoid r.xorShift →
      ∃ ids rest N',
        MergeIn.groupLoop E true bCmp R.length Z.length m src r
          = some ({ m with m_pGroups := X ++ N' },
              { src with
                m_pGroups := Z ++ R.map (fun g => ({ g with uGroupId := 0 } : PW_GROUP)),
                m_pEntries := src.m_pEntries.map (fun e =>
                  ((R.map (fun g => g.uGroupId)).zip ids).foldl substGroupId e) },
              { r with xorShift := rest })
        ∧ N'.map (fun g => ({ g with usLevel := 0 } : PW_GROUP))
            = (N ++ List.zipWith importedGroup R ids).map
                (fun g => ({ g with usLevel := 0 } : PW_GROUP))
        ∧ FreshIds ((X ++ N).map (fun g => g.uGroupId)) R ids := by
  intro R
  induction R with
  | nil =>
    intro Z m src r N avoid hsrc hg hE hlen h0 hM hA hR hZ hc
    refine ⟨[], r.xorShift, N, ?_, by simp, by simp [FreshIds]⟩
    have hmap : src.m_pEntries.map (fun e =>
        ((([] : List PW_GROUP).map (fun g => g.uGroupId)).zip ([] : List Nat)).foldl
          substGroupId e) = src.m_pEntries := by simp
    rw [hmap]
    simp only [List.append_nil] at hsrc
    simp only [List.length_nil, MergeIn.groupLoop, List.map_nil, List.append_nil]
    rw [← hg, ← hsrc]
  | cons pg R ih =>
    intro Z m src r N avoid hsrc hg hE hlen h0 hM hA hR hZ hc
    have hget : src.m_pGroups[Z.length]? = some pg := by
      rw [hsrc, List.getElem?_append_right (le_refl _), Nat.sub_self]
      exact List.getElem?_cons_zero
    have hS : ∀ g ∈ src.m_pGroups, g.uGroupId ∈ avoid := by
      intro g hgm
      rw [hsrc] at hgm
      rcases List.mem_append.mp hgm with h1 | h1
      · rw [hZ g h1]; exact h0
      · exact hR g h1
    have hpos : 0 < freshCount avoid r.xorShift := by
      simp only [List.length_cons] at hc
      omega
    obtain ⟨t, rest, N1, e1, e2, e3, e4, e5, e6, e7⟩ :=
      newGroup_fresh X ht hlv Z.length pg avoid h0 hM r.xorShift.length r.xorShift
        (r.xorShift.length + 1) m src r N (le_refl _) (by omega) rfl hg hE hget
        (by rw [hsrc]; exact hlen) hA hS hpos
    have hset : src.m_pGroups.set Z.length { pg with uGroupId := 0 }
        = (Z ++ [({ pg with uGroupId := 0 } : PW_GROUP)]) ++ R := by
      rw [hsrc, List.set_append_right _ _ (le_refl _), Nat.sub_self, List.set_cons_zero]
      simp
    rw [hset] at e1 e6
    obtain ⟨ids, rest2, N2, f1, f2, f3⟩ :=
      ih (Z ++ [({ pg with uGroupId := 0 } : PW_GROUP)])
        { m with m_pGroups := X ++ N1 ++ [importedGroup pg t] }
        { src with
          m_pGroups := (Z ++ [({ pg with uGroupId := 0 } : PW_GROUP)]) ++ R,
          m_pEntries := src.m_pEntries.map (fun e => substGroupId e (pg.uGroupId, t)) }
        { r with xorShift := rest } (N1 ++ [importedGroup pg t]) (t :: avoid)
        rfl (by simp) hE (by simpa using hlen) (List.mem_cons_of_mem _ h0)
        (List.mem_cons_of_mem _ hM)
        (by
          intro g hgm
          rw [← List.append_assoc] at hgm
          rcases List.mem_append.mp hgm with h1 | h1
          · exact List.mem_cons_of_mem _
              (ids_of_erase X N N1 e2 (fun x => x ∈ avoid) hA g h1)
          · simp only [List.mem_singleton] at h1
            rw [h1]
            exact List.mem_cons_self _ _)
        (fun g hgm => List.mem_cons_of_mem _ (hR g (List.mem_cons_of_mem _ hgm)))
        (by
          intro g hgm
          rcases List.mem_append.mp hgm with h1 | h1
          · exact hZ g h1
          · simp only [List.mem_singleton] at h1
            rw [h1])
        (by
          simp only [List.length_cons] at hc
          show R.length ≤ freshCount (t :: avoid) rest
          omega)
    refine ⟨t :: ids, rest2, N2, ?_, ?_, ?_⟩
    · simp only [List.length_cons]
      unfold MergeIn.groupLoop
      have hgg : src.GetGroup Z.length = some pg := hget
      simp only [hgg]
      unfold MergeIn.groupStep
      simp only [if_true, e1]
      have hl : (Z ++ [({ pg with uGroupId := 0 } : PW_GROUP)]).length = Z.length + 1 := by simp
      rw [hl] at f1
      rw [f1]
      simp only [Option.some.injEq, Prod.mk.injEq, List.map_map, List.map_cons, List.zip_cons_cons,
        List.foldl_cons, List.append_assoc, List.singleton_append, Function.comp_def, and_true,
        true_and]
    · rw [f2]
      simp only [List.zipWith_cons_cons, List.map_append, List.map_cons, List.map_nil, e2,
        List.append_assoc, List.singleton_append]
    · unfold FreshIds
      refine ⟨e3, e4, ?_, ?_, ?_⟩
      · intro hmem
        obtain ⟨g, hgm, hid⟩ := List.mem_map.mp hmem
        exact e5 g hgm hid
      · intro h hh
        exact e6 h (List.mem_append_right _ hh)
      · have hids : (X ++ (N1 ++ [importedGroup pg t])).map (fun g => g.uGroupId)
            = (X ++ N).map (fun g => g.uGroupId) ++ [t] := by
          simp only [List.map_append, List.map_cons, List.map_nil, erase_ids N1 N e2,
            List.append_assoc]
          rfl
        rw [hids] at f3
        exact f3

theorem subst_none : ∀ (pairs : List (Nat × Nat)) (e : PW_ENTRY),
    (∀ p ∈ pairs, p.1 ≠ e.uGroupId) → pairs.foldl substGroupId e = e := by
  intro pairs
  induction pairs with
  | nil => intro e _; rfl
  | cons p ps ih =>
    intro e h
    have hp : (e.uGroupId == p.1) = false := by
      have := h p (List.mem_cons_self _ _)
      simpa using fun heq => this heq.symm
    rw [List.foldl_cons]
    have hstep : substGroupId e p = e := by
      unfold substGroupId
      simp only [hp, Bool.false_eq_true, if_false]
    rw [hstep]
    exact ih e (fun q hq => h q (List.mem_cons_of_mem _ hq))

theorem subst_frame : ∀ (pairs : List (Nat × Nat)) (e : PW_ENTRY),
    pairs.foldl substGroupId e
      = { e with uGroupId := (pairs.foldl substGroupId e).uGroupId } := by
  intro pairs
  induction pairs with
  | nil => intro e; rfl
  | cons p ps ih =>
    intro e
    rw [List.foldl_cons]
    by_cases hp : (e.uGroupId == p.1) = true
    · have hstep : substGroupId e p = { e with uGroupId := p.2 } := by
        unfold substGroupId
        simp only [hp, if_true]
      rw [hstep]
      have h1 := ih { e with uGroupId := p.2 }
      generalize List.foldl substGroupId { e with uGroupId := p.2 } ps = y at h1 ⊢
      rw [h1]
    · have hstep : substGroupId e p = e := by
        unfold substGroupId
        simp only [hp, Bool.false_eq_true, if_false]
      rw [hstep]
      exact ih e

theorem GetGroupByIdN_loop_shift (id : Nat) :
    ∀ (R : List PW_GROUP) (i : Nat), (∃ g ∈ R, g.uGroupId = id) →
      GetGroupByIdN.loop id (i + 1) R = GetGroupByIdN.loop id i R + 1 := by
  intro R
  induction R with
  | nil => intro i h; obtain ⟨g, hg, _⟩ := h; simp at hg
  | cons a R ih =>
    intro i h
    unfold GetGroupByIdN.loop
    by_cases ha : (a.uGroupId == id) = true
    · simp only [ha, if_true]
    · simp only [ha, Bool.false_eq_true, if_false]
      apply ih
      obtain ⟨g, hg, hid⟩ := h
      rcases List.mem_cons.mp hg with h1 | h1
      · subst h1
        exact absurd (by simpa using hid) ha
      · exact ⟨g, h1, hid⟩

theorem GetGroupByIdN_loop_lt (id : Nat) :
    ∀ (R : List PW_GROUP), (∃ g ∈ R, g.uGroupId = id) →
      GetGroupByIdN.loop id 0 R < R.length := by
  intro R
  induction R with
  | nil => intro h; obtain ⟨g, hg, _⟩ := h; simp at hg
  | cons a R ih =>
    intro h
    unfold GetGroupByIdN.loop
    by_cases ha : (a.uGroupId == id) = true
    · simp only [ha, if_true, List.length_cons]
      omega
    · simp only [ha, Bool.false_eq_true, if_false]
      have hex : ∃ g ∈ R, g.uGroupId = id := by
        obtain ⟨g, hg, hid⟩ := h
        rcases List.mem_cons.mp hg with h1 | h1
        · subst h1
          exact absurd (by simpa using hid) ha
        · exact ⟨g, h1, hid⟩
      rw [GetGroupByIdN_loop_shift id R 0 hex]
      have := ih hex
      simp only [List.length_cons]
      omega

/-- The rewriting of the source entries' group ids over the whole group loop:
an entry of a source group ends with the new id of the first source group that
has its group id. -/
theorem subst_first : ∀ (R : List PW_GROUP) (ids taken : List Nat) (e : PW_ENTRY),
    FreshIds taken R ids → (∃ g ∈ R, g.uGroupId = e.uGroupId) →
    ((R.map (fun g => g.uGroupId)).zip ids).foldl substGroupId e
      = { e with uGroupId := ids.getD (GetGroupByIdN.loop e.uGroupId 0 R) 0 } := by
  intro R
  induction R with
  | nil => intro ids taken e _ h; obtain ⟨g, hg, _⟩ := h; simp at hg
  | cons a R ih =>
    intro ids taken e hf h
    cases ids with
    | nil => simp [FreshIds] at hf
    | cons t ids =>
      unfold FreshIds at hf
      obtain ⟨_, _, _, hlater, hrest⟩ := hf
      simp only [List.map_cons, List.zip_cons_cons, List.foldl_cons]
      unfold GetGroupByIdN.loop
      by_cases ha : (a.uGroupId == e.uGroupId) = true
      · have ha2 : (e.uGroupId == a.uGroupId) = true := by
          have : a.uGroupId = e.uGroupId := by simpa using ha
          simp [this]
        have hstep : substGroupId e (a.uGroupId, t) = { e with uGroupId := t } := by
          unfold substGroupId
          simp only [ha2, if_true]
        rw [hstep]
        simp only [ha, if_true, List.getD_cons_zero]
        apply subst_none
        intro p hp
        have h1 : p.1 ∈ R.map (fun g => g.uGroupId) := (List.of_mem_zip hp).1
        obtain ⟨g, hg, hid⟩ := List.mem_map.mp h1
        rw [← hid]
        exact hlater g hg
      · have ha2 : (e.uGroupId == a.uGroupId) = false := by
          have : a.uGroupId ≠ e.uGroupId := by simpa using ha
          simpa using fun heq => this heq.symm
        have hstep : substGroupId e (a.uGroupId, t) = e := by
          unfold substGroupId
          simp only [ha2, Bool.false_eq_true, if_false]
        rw [hstep]
        simp only [ha, Bool.false_eq_true, if_false]
        have hex : ∃ g ∈ R, g.uGroupId = e.uGroupId := by
          obtain ⟨g, hg, hid⟩ := h
          rcases List.mem_cons.mp hg with h1 | h1
          · subst h1
            exact absurd (by simpa using hid) ha
          · exact ⟨g, h1, hid⟩
        rw [ih ids _ e hrest hex, GetGroupByIdN_loop_shift e.uGroupId R 0 hex,
          List.getD_cons_succ]

theorem FreshIds_spec : ∀ (R : List PW_GROUP) (ids taken : List Nat), FreshIds taken R ids →
    ids.length = R.length
    ∧ (∀ t ∈ ids, t ≠ 0 ∧ t ≠ DWORD_MAX ∧ t ∉ taken)
    ∧ ids.Nodup
    ∧ (∀ (j k : Nat) (g : PW_GROUP), j < k → R[k]? = some g → ids[j]? ≠ some g.uGroupId) := by
  intro R
  induction R with
  | nil =>
    intro ids taken hf
    cases ids with
    | nil => simp
    | cons t ids => simp [FreshIds] at hf
  | cons a R ih =>
    intro ids taken hf
    cases ids with
    | nil => simp [FreshIds] at hf
    | cons t ids =>
      unfold FreshIds at hf
      obtain ⟨h0, hM, hnt, hlater, hrest⟩ := hf
      obtain ⟨i1, i2, i3, i4⟩ := ih ids _ hrest
      refine ⟨by simp [i1], ?_, ?_, ?_⟩
      · intro x hx
        rcases List.mem_cons.mp hx with h1 | h1
        · subst h1
          exact ⟨h0, hM, hnt⟩
        · obtain ⟨a1, a2, a3⟩ := i2 x h1
          exact ⟨a1, a2, fun hmem => a3 (List.mem_append_left _ hmem)⟩
      · rw [List.nodup_cons]
        refine ⟨?_, i3⟩
        intro hmem
        exact (i2 t hmem).2.2 (List.mem_append_right _ (List.mem_singleton_self _))
      · intro j k g hjk hk
        cases k with
        | zero => omega
        | succ k =>
          have hk2 : R[k]? = some g := by simpa using hk
          cases j with
          | zero =>
            simp only [List.getElem?_cons_zero, ne_eq, Option.some.injEq]
            intro heq
            exact hlater g (List.getElem?_mem hk2) heq.symm
          | succ j =>
            simp only [List.getElem?_cons_succ]
            exact i4 j k g (by omega) hk2

theorem IsMetaStream_group (s : PW_ENTRY) (x : Nat) :
    _IsMetaStream { s with uGroupId := x } = _IsMetaStream s := rfl

theorem unlock_group (E : Env) (m1 m2 : CPwManager) (s : PW_ENTRY) (x : Nat)
    (h : m1.m_pSessionKey = m2.m_pSessionKey) :
    m1.UnlockEntryPassword E { s with uGroupId := x }
      = { m2.UnlockEntryPassword E s with uGroupId := x } := by
  unfold UnlockEntryPassword LockEntryPassword
  rw [h]
  cases hp : s.pszPassword with
  | none => simp [hp]
  | some pw =>
    simp only [hp]
    by_cases hl : (s.uPasswordLen != 0) = true
    · simp only [hl, if_true]
    · simp only [hl, Bool.false_eq_true, if_false]
      rw [hp]

theorem entryStep_new (E : Env) (bCmp : Bool) (m src : CPwManager) (r : Rand) (i : Nat)
    (s : PW_ENTRY) (hm : _IsMetaStream s = false)
    (hv : s.uGroupId ≠ 0 ∧ s.uGroupId ≠ DWORD_MAX) :
    MergeIn.entryStep E true bCmp i s m src r
      = ({ m with
            m_pEntries :=
              m.m_pEntries
                ++ [SetEntry.fill E m PW_ENTRY.zero
                     (AddEntry.pT (src.UnlockEntryPassword E s) (r.uuidAt r.uuidCalls))] },
          { src with
            m_pEntries :=
              src.m_pEntries.set i
                (src.LockEntryPassword E
                  { src.UnlockEntryPassword E s with uuid := g_uuidZero }) },
          { r with uuidCalls := r.uuidCalls + 1 }) := by
  unfold MergeIn.entryStep
  simp only [hm, Bool.false_eq_true, if_false, if_true]
  have hg : (({ src.UnlockEntryPassword E s with uuid := g_uuidZero } : PW_ENTRY).uGroupId == 0
      || ({ src.UnlockEntryPassword E s with uuid := g_uuidZero } : PW_ENTRY).uGroupId
        == DWORD_MAX) = false := by
    have h1 : ({ src.UnlockEntryPassword E s with uuid := g_uuidZero } : PW_ENTRY).uGroupId
        = s.uGroupId := (unlock_fields E src s).2.1
    rw [h1]
    simp [hv.1, hv.2]
  rw [AddEntry_valid E m r _ hg]
  simp only [beq_self_eq_true, if_true, randCreateUUID]
  rw [fill_congr E { m with m_pEntries := m.m_pEntries ++ [PW_ENTRY.zero] } m _ _ rfl]
  rfl

/-- The entry loop of `MergeIn` with new ids, for the source entries `Q` that
follow the entries `P` already handled. -/
theorem entryLoop_new (E : Env) (bCmp : Bool) (m0 src0 : CPwManager) (uuidAt : Nat → List Nat) :
    ∀ (Q P : List PW_ENTRY) (m src : CPwManager) (r : Rand),
      src.m_pEntries = P ++ Q → src.m_pSessionKey = src0.m_pSessionKey →
      m.m_pSessionKey = m0.m_pSessionKey → r.uuidAt = uuidAt →
      (∀ s ∈ Q, _IsMetaStream s = false → s.uGroupId ≠ 0 ∧ s.uGroupId ≠ DWORD_MAX) →
      (MergeIn.entryLoop E true bCmp Q.length P.length m src r).1
        = { m with
            m_pEntries :=
              m.m_pEntries
                ++ List.zipWith
                    (fun s u => SetEntry.fill E m0 PW_ENTRY.zero
                      (AddEntry.pT (src0.UnlockEntryPassword E s) u))
                    (Q.filter (fun e => !_IsMetaStream e))
                    ((List.range' r.uuidCalls
                      (Q.filter (fun e => !_IsMetaStream e)).length).map uuidAt) } := by
  intro Q
  induction Q with
  | nil =>
    intro P m src r hsrc hk hmk hu hv
    simp only [List.length_nil, MergeIn.entryLoop, List.filter_nil, List.zipWith_nil_left,
      List.append_nil]
  | cons s Q ih =>
    intro P m src r hsrc hk hmk hu hv
    have hget : src.GetEntry P.length = some s := by
      unfold GetEntry
      rw [hsrc, List.getElem?_append_right (le_refl _), Nat.sub_self]
      exact List.getElem?_cons_zero
    simp only [List.length_cons]
    unfold MergeIn.entryLoop
    simp only [hget]
    have hnext : ∀ x : PW_ENTRY, src.m_pEntries.set P.length x = (P ++ [x]) ++ Q := by
      intro x
      rw [hsrc, List.set_append_right _ _ (le_refl _), Nat.sub_self, List.set_cons_zero]
      simp
    have hlen1 : ∀ x : PW_ENTRY, (P ++ [x]).length = P.length + 1 := by
      intro x; simp
    by_cases hm : _IsMetaStream s = true
    · rw [entryStep_meta E m src r P.length s true bCmp hm]
      simp only []
      have h2 := ih (P ++ [s]) m src r (by rw [hsrc]; simp) hk hmk hu
        (fun x hx => hv x (List.mem_cons_of_mem _ hx))
      rw [hlen1] at h2
      rw [h2]
      simp [hm]
    · have hmf : _IsMetaStream s = false := Bool.eq_false_iff.mpr hm
      rw [entryStep_new E bCmp m src r P.length s hmf (hv s (List.mem_cons_self _ _) hmf)]
      simp only []
      have h2 := ih (P ++ [src.LockEntryPassword E
            { src.UnlockEntryPassword E s with uuid := g_uuidZero }])
        { m with
          m_pEntries :=
            m.m_pEntries
              ++ [SetEntry.fill E m PW_ENTRY.zero
                   (AddEntry.pT (src.UnlockEntryPassword E s) (r.uuidAt r.uuidCalls))] }
        { src with
          m_pEntries :=
            src.m_pEntries.set P.length
              (src.LockEntryPassword E
                { src.UnlockEntryPassword E s with uuid := g_uuidZero }) }
        { r with uuidCalls := r.uuidCalls + 1 }
        (hnext _) hk hmk hu (fun x hx => hv x (List.mem_cons_of_mem _ hx))
      rw [hlen1] at h2
      rw [h2]
      have hfil : (s :: Q).filter (fun e => !_IsMetaStream e)
          = s :: Q.filter (fun e => !_IsMetaStream e) := by
        simp [hmf]
      rw [hfil, List.length_cons, List.range'_succ, List.map_cons, List.zipWith_cons_cons]
      have hfill : SetEntry.fill E m PW_ENTRY.zero
            (AddEntry.pT (src.UnlockEntryPassword E s) (r.uuidAt r.uuidCalls))
          = SetEntry.fill E m0 PW_ENTRY.zero
            (AddEntry.pT (src0.UnlockEntryPassword E s) (uuidAt r.uuidCalls)) := by
        rw [fill_congr E m m0 _ _ hmk, hu]
        unfold UnlockEntryPassword
        rw [lock_congr E src src0 s hk]
      rw [hfill]
      simp only [List.append_assoc, List.singleton_append]

theorem MergeIn_steps (E : Env) (m src : CPwManager) (r : Rand) (bNew bCmp : Bool)
    (m1 src1 : CPwManager) (r1 : Rand) (m3 : CPwManager)
    (hgl : MergeIn.groupLoop E bNew bCmp src.m_pGroups.length 0 m src r = some (m1, src1, r1))
    (hel : (MergeIn.entryLoop E bNew bCmp src1.m_pEntries.length 0 m1.FixGroupTree src1 r1).1
      = m3)
    (hdl : ∀ e ∈ m3.m_pEntries, (m3.GetGroupById e.uGroupId).isSome = true) :
    ∃ res, MergeIn E m src r bNew bCmp = some res ∧ res.1 = m3 := by
  unfold MergeIn GetNumberOfGroups GetNumberOfEntries
  rw [hgl]
  simp only []
  rw [hel, DeleteLostEntries_eq]
  simp only []
  have hfil : m3.m_pEntries.filter (fun e => (m3.GetGroupById e.uGroupId).isSome)
      = m3.m_pEntries := List.filter_eq_self.mpr hdl
  rw [hfil]
  exact ⟨_, rfl, rfl⟩

theorem mem_zipWith_of {α β γ : Type} (f : α → β → γ) :
    ∀ (l1 : List α) (l2 : List β) (x : γ), x ∈ List.zipWith f l1 l2 →
      ∃ a ∈ l1, ∃ b ∈ l2, x = f a b := by
  intro l1
  induction l1 with
  | nil => intro l2 x h; simp at h
  | cons a l1 ih =>
    intro l2 x h
    cases l2 with
    | nil => simp at h
    | cons b l2 =>
      rw [List.zipWith_cons_cons] at h
      rcases List.mem_cons.mp h with h1 | h1
      · exact ⟨a, List.mem_cons_self _ _, b, List.mem_cons_self _ _, h1⟩
      · obtain ⟨a', ha, b', hb, hx⟩ := ih l2 x h1
        exact ⟨a', List.mem_cons_of_mem _ ha, b', List.mem_cons_of_mem _ hb, hx⟩

theorem zipWith_congr_mem {α β γ : Type} (f g : α → β → γ) :
    ∀ (l1 : List α) (l2 : List β), (∀ a ∈ l1, ∀ b, f a b = g a b) →
      List.zipWith f l1 l2 = List.zipWith g l1 l2 := by
  intro l1
  induction l1 with
  | nil => intro l2 _; simp
  | cons a l1 ih =>
    intro l2 h
    cases l2 with
    | nil => simp
    | cons b l2 =>
      rw [List.zipWith_cons_cons, List.zipWith_cons_cons, h a (List.mem_cons_self _ _) b,
        ih l2 (fun a' ha' => h a' (List.mem_cons_of_mem _ ha'))]

theorem imported_ids : ∀ (R : List PW_GROUP) (ids : List Nat), ids.length = R.length →
    (List.zipWith importedGroup R ids).map (fun g => g.uGroupId) = ids := by
  intro R
  induction R with
  | nil =>
    intro ids h
    have : ids = [] := List.length_eq_zero.mp h
    simp [this]
  | cons a R ih =>
    intro ids h
    cases ids with
    | nil => simp at h
    | cons t ids =>
      rw [List.zipWith_cons_cons, List.map_cons, ih ids (by simpa using h)]
      rfl

theorem importedEntry_group (E : Env) (m src : CPwManager) (ids : List Nat) (s : PW_ENTRY)
    (u : List Nat) :
    (importedEntry E m src ids s u).uGroupId = ids.getD (src.GetGroupByIdN s.uGroupId) 0 := by
  unfold importedEntry
  simp only []
  rw [fill_eq]
  rfl

theorem subst_meta (pairs : List (Nat × Nat)) (e : PW_ENTRY) :
    _IsMetaStream (pairs.foldl substGroupId e) = _IsMetaStream e := by
  rw [subst_frame pairs e]
  rfl

/-- The entries that the entry loop appends, in terms of the source as it was
before the group loop rewrote the group ids. -/
theorem imported_eq (E : Env) (m src : CPwManager) (ids taken : List Nat)
    (us : List (List Nat)) (hf : FreshIds taken src.m_pGroups ids)
    (hS : ∀ s ∈ mergeSource src, ∃ g ∈ src.m_pGroups, g.uGroupId = s.uGroupId) :
    List.zipWith
        (fun s u => SetEntry.fill E m PW_ENTRY.zero (AddEntry.pT (src.UnlockEntryPassword E s) u))
        ((src.m_pEntries.map (fun e =>
          ((src.m_pGroups.map (fun g => g.uGroupId)).zip ids).foldl substGroupId e)).filter
            (fun e => !_IsMetaStream e)) us
      = List.zipWith (importedEntry E m src ids) (mergeSource src) us := by
  rw [List.filter_map]
  have hcomp : ((fun e => !_IsMetaStream e) ∘ (fun e =>
      ((src.m_pGroups.map (fun g => g.uGroupId)).zip ids).foldl substGroupId e))
      = (fun e => !_IsMetaStream e) := by
    funext e
    simp only [Function.comp, subst_meta]
  rw [hcomp, List.zipWith_map_left]
  apply zipWith_congr_mem
  intro s hs u
  have hs2 : s ∈ mergeSource src := hs
  rw [subst_first src.m_pGroups ids taken s hf (hS s hs2)]
  unfold importedEntry
  simp only []
  rw [unlock_group E src src s _ rfl]
  rfl

/-- What `MergeIn` with new ids computes. -/
theorem MergeIn_fresh (E : Env) (m src : CPwManager) (r : Rand) (bCmp : Bool)
    (ht : TreeInvariant m.m_pGroups) (hlv : ∀ g ∈ m.m_pGroups, g.usLevel < 65535)
    (hE : ∀ e ∈ m.m_pEntries, ∃ g ∈ m.m_pGroups, g.uGroupId = e.uGroupId)
    (hS : ∀ s ∈ mergeSource src, ∃ g ∈ src.m_pGroups, g.uGroupId = s.uGroupId)
    (hglen : m.m_pGroups.length + src.m_pGroups.length ≤ DWORD_MAX)
    (hfresh : src.m_pGroups.length
      ≤ freshCount (0 :: DWORD_MAX :: (m.m_pGroups ++ src.m_pGroups).map (fun g => g.uGroupId))
          r.xorShift) :
    ∃ res ids news,
      MergeIn E m src r true bCmp = some res
      ∧ res.1 = { m with
          m_pGroups := m.m_pGroups ++ news,
          m_pEntries :=
            m.m_pEntries ++ List.zipWith (importedEntry E m src ids) (mergeSource src)
              ((List.range' r.uuidCalls (mergeSource src).length).map r.uuidAt) }
      ∧ news.map (fun g => ({ g with usLevel := 0 } : PW_GROUP))
          = (List.zipWith importedGroup src.m_pGroups ids).map
              (fun g => ({ g with usLevel := 0 } : PW_GROUP))
      ∧ FreshIds (m.m_pGroups.map (fun g => g.uGroupId)) src.m_pGroups ids := by
  have hmem : ∀ g ∈ m.m_pGroups ++ src.m_pGroups,
      g.uGroupId ∈ 0 :: DWORD_MAX :: (m.m_pGroups ++ src.m_pGroups).map (fun g => g.uGroupId) :=
    fun g hg => List.mem_cons_of_mem _ (List.mem_cons_of_mem _ (List.mem_map_of_mem _ hg))
  obtain ⟨ids, rest, N1, g1, g2, g3⟩ :=
    groupLoop_fresh E bCmp m.m_pGroups ht hlv src.m_pGroups [] m src r []
      (0 :: DWORD_MAX :: (m.m_pGroups ++ src.m_pGroups).map (fun g => g.uGroupId))
      rfl (by simp) hE (by simp only [List.nil_append]; omega) (List.mem_cons_self _ _)
      (List.mem_cons_of_mem _ (List.mem_cons_self _ _))
      (fun g hg => hmem g (by
        simp only [List.append_nil] at hg
        exact List.mem_append_left _ hg))
      (fun g hg => hmem g (List.mem_append_right _ hg))
      (by simp) hfresh
  simp only [List.append_nil, List.nil_append] at g2 g3
  obtain ⟨i1, i2, i3, i4⟩ := FreshIds_spec _ _ _ g3
  obtain ⟨N2, hfix, hN2⟩ := FixGroupTree_keep
    ({ m with m_pGroups := m.m_pGroups ++ N1 } : CPwManager) m.m_pGroups N1 rfl ht hlv
  have hfix2 : ({ m with m_pGroups := m.m_pGroups ++ N1 } : CPwManager).FixGroupTree
      = { m with m_pGroups := m.m_pGroups ++ N2 } := by rw [hfix]
  have hN2ids : N2.map (fun g => g.uGroupId) = ids := by
    rw [erase_ids N2 N1 hN2, erase_ids N1 _ g2, imported_ids _ _ i1]
  have hN2len : N2.length = src.m_pGroups.length := by
    have := congrArg List.length hN2ids
    simpa [i1] using this
  have hidx : ∀ s ∈ mergeSource src,
      ids.getD (src.GetGroupByIdN s.uGroupId) 0 ∈ ids := by
    intro s hs
    have hlt : src.GetGroupByIdN s.uGroupId < ids.length := by
      rw [i1]
      exact GetGroupByIdN_loop_lt s.uGroupId src.m_pGroups (hS s hs)
    rw [List.getD_eq_getElem _ _ hlt]
    exact List.getElem_mem _
  obtain ⟨res, h1, h2⟩ := MergeIn_steps E m src r true bCmp _ _ _
    ({ m with
        m_pGroups := m.m_pGroups ++ N2,
        m_pEntries :=
          m.m_pEntries ++ List.zipWith (importedEntry E m src ids) (mergeSource src)
            ((List.range' r.uuidCalls (mergeSource src).length).map r.uuidAt) } : CPwManager)
    g1
    (by
      rw [hfix2]
      have h := entryLoop_new E bCmp m src r.uuidAt
        (src.m_pEntries.map (fun e =>
          ((src.m_pGroups.map (fun g => g.uGroupId)).zip ids).foldl substGroupId e)) []
        ({ m with m_pGroups := m.m_pGroups ++ N2 } : CPwManager)
        ({ src with
            m_pGroups := [] ++ src.m_pGroups.map
              (fun g => ({ g with uGroupId := 0 } : PW_GROUP)),
            m_pEntries := src.m_pEntries.map (fun e =>
              ((src.m_pGroups.map (fun g => g.uGroupId)).zip ids).foldl substGroupId e) }
          : CPwManager)
        ({ r with xorShift := rest } : Rand) (List.nil_append _).symm rfl rfl rfl
        (by
          intro s hs hm
          obtain ⟨s0, hs0, hs0e⟩ := List.mem_map.mp hs
          have hm0 : _IsMetaStream s0 = false := by
            rw [← hs0e, subst_meta] at hm
            exact hm
          have hin : s0 ∈ mergeSource src := by
            unfold mergeSource
            exact List.mem_filter.mpr ⟨hs0, by simp [hm0]⟩
          rw [← hs0e, subst_first src.m_pGroups ids _ s0 g3 (hS s0 hin)]
          have := i2 _ (hidx s0 hin)
          exact ⟨this.1, this.2.1⟩)
      rw [List.length_nil] at h
      rw [h, imported_eq E m src ids _ _ g3 hS]
      have hl : ((src.m_pEntries.map (fun e =>
          ((src.m_pGroups.map (fun g => g.uGroupId)).zip ids).foldl substGroupId e)).filter
            (fun e => !_IsMetaStream e)).length = (mergeSource src).length := by
        rw [List.filter_map, List.length_map]
        have hcomp : ((fun e => !_IsMetaStream e) ∘ (fun e =>
            ((src.m_pGroups.map (fun g => g.uGroupId)).zip ids).foldl substGroupId e))
            = (fun e => !_IsMetaStream e) := by
          funext e
          simp only [Function.comp, subst_meta]
        rw [hcomp]
        rfl
      rw [hl])
    (by
      intro e he
      apply GetGroupById_isSome _ _ (by
        show (m.m_pGroups ++ N2).length ≤ DWORD_MAX
        rw [List.length_append, hN2len]
        exact hglen)
      show ∃ g ∈ m.m_pGroups ++ N2, g.uGroupId = e.uGroupId
      have he2 : e ∈ m.m_pEntries ++ List.zipWith (importedEntry E m src ids) (mergeSource src)
            ((List.range' r.uuidCalls (mergeSource src).length).map r.uuidAt) := he
      rcases List.mem_append.mp he2 with h1 | h1
      · obtain ⟨g, hg, hid⟩ := hE e h1
        exact ⟨g, List.mem_append_left _ hg, hid⟩
      · obtain ⟨s, hs, u, _, hx⟩ := mem_zipWith_of _ _ _ _ h1
        have hgid : e.uGroupId ∈ N2.map (fun g => g.uGroupId) := by
          rw [hx, importedEntry_group, hN2ids]
          exact hidx s hs
        obtain ⟨g, hg, hid⟩ := List.mem_map.mp hgid
        exact ⟨g, List.mem_append_right _ hg, hid⟩)
  exact ⟨res, ids, N2, h1, h2, by rw [hN2, g2], g3⟩

set_option maxRecDepth 100000 in
/-- C29, as stated, fails: merging with new ids a source whose only group has
the id 17 into a database whose only group, id 11, stands at level 5 resets
the local group to level 0, and the group that is appended gets the id 17,
which was in use in the source: the source group's id is set to 0 before the
new id is looked up among the source's groups. -/
theorem C29_merge_fresh_ids_counterexample :
    (MergeIn (sampleEnv none) sampleFreshLocal sampleFreshSource sampleRand true false).map
        (fun res => (res.1.m_pGroups.map (fun g => (g.uGroupId, g.usLevel)),
          res.1.m_pEntries.map (fun e => e.uGroupId)))
      = some ([(11, 0), (17, 0)], [17])
    ∧ sampleFreshLocal.m_pGroups.map (fun g => (g.uGroupId, g.usLevel)) = [(11, 5)]
    ∧ sampleFreshSource.m_pGroups.map (fun g => g.uGroupId) = [17] := by
  decide

/-- C29, amended.  `MergeIn` with new ids, for a local database whose groups
satisfy the tree invariant with levels below 65535 and whose entries all have
a group, a source whose entries other than meta-streams all have a group in
the source, at most `DWORD_MAX` groups in all, and a generator that still
delivers one usable value per source group: the call returns; the database is
afterwards the one before with groups and entries appended, so every group and
entry present before is unchanged; one group per source group is appended, in
the order of the source, the group that `AddGroup` stores for the source group
under its new id, but for the level; the new ids are pairwise different, none is 0 or `DWORD_MAX`, none is
in use locally and none is the id of a source group that comes later in the
source; one entry per source entry other than a meta-stream is appended, in the
order of the source, the unlocked source entry under a new UUID, and it is in
the appended copy of a source group that has the group id of the source
entry. -/
theorem C29_merge_fresh_ids (E : Env) (m src : CPwManager) (r : Rand) (bCmp : Bool)
    (ht : TreeInvariant m.m_pGroups) (hlv : ∀ g ∈ m.m_pGroups, g.usLevel < 65535)
    (hE : ∀ e ∈ m.m_pEntries, ∃ g ∈ m.m_pGroups, g.uGroupId = e.uGroupId)
    (hS : ∀ s ∈ mergeSource src, ∃ g ∈ src.m_pGroups, g.uGroupId = s.uGroupId)
    (hglen : m.m_pGroups.length + src.m_pGroups.length ≤ DWORD_MAX)
    (hfresh : src.m_pGroups.length
      ≤ freshCount (0 :: DWORD_MAX :: (m.m_pGroups ++ src.m_pGroups).map (fun g => g.uGroupId))
          r.xorShift) :
    ∃ res ids news,
      MergeIn E m src r true bCmp = some res
      ∧ res.1 = { m with
          m_pGroups := m.m_pGroups ++ news,
          m_pEntries :=
            m.m_pEntries ++ List.zipWith (importedEntry E m src ids) (mergeSource src)
              ((List.range' r.uuidCalls (mergeSource src).length).map r.uuidAt) }
      ∧ news.map (fun g => ({ g with usLevel := 0 } : PW_GROUP))
          = (List.zipWith importedGroup src.m_pGroups ids).map
              (fun g => ({ g with usLevel := 0 } : PW_GROUP))
      ∧ ids.length = src.m_pGroups.length ∧ ids.Nodup
      ∧ (∀ t ∈ ids, t ≠ 0 ∧ t ≠ DWORD_MAX ∧ ∀ g ∈ m.m_pGroups, g.uGroupId ≠ t)
      ∧ (∀ (j k : Nat) (g : PW_GROUP), j < k → src.m_pGroups[k]? = some g →
          ids[j]? ≠ some g.uGroupId)
      ∧ (∀ s ∈ mergeSource src, ∀ u : List Nat, ∃ (j : Nat) (sg ng : PW_GROUP),
          src.m_pGroups[j]? = some sg ∧ sg.uGroupId = s.uGroupId ∧ news[j]? = some ng
          ∧ (importedEntry E m src ids s u).uGroupId = ng.uGroupId) := by
  obtain ⟨res, ids, news, h1, h2, h3, h4⟩ := MergeIn_fresh E m src r bCmp ht hlv hE hS hglen hfresh
  obtain ⟨i1, i2, i3, i4⟩ := FreshIds_spec _ _ _ h4
  have hids : news.map (fun g => g.uGroupId) = ids := by
    rw [erase_ids news _ h3, imported_ids _ _ i1]
  refine ⟨res, ids, news, h1, h2, h3, i1, i3, ?_, i4, ?_⟩
  · intro t htm
    obtain ⟨a1, a2, a3⟩ := i2 t htm
    exact ⟨a1, a2, fun g hg hid => a3 (by rw [← hid]; exact List.mem_map_of_mem _ hg)⟩
  · intro s hs u
    have hlt : src.GetGroupByIdN s.uGroupId < src.m_pGroups.length :=
      GetGroupByIdN_loop_lt s.uGroupId src.m_pGroups (hS s hs)
    rcases GetGroupByIdN_spec src s.uGroupId with ⟨sg, hsg, hsid⟩ | ⟨_, hno⟩
    · have hnl : src.GetGroupByIdN s.uGroupId < news.length := by
        have := congrArg List.length hids
        simp only [List.length_map] at this
        omega
      refine ⟨src.GetGroupByIdN s.uGroupId, sg, news[src.GetGroupByIdN s.uGroupId], hsg, hsid,
        List.getElem?_eq_getElem hnl, ?_⟩
      rw [importedEntry_group]
      have hil : src.GetGroupByIdN s.uGroupId < ids.length := by omega
      rw [List.getD_eq_getElem _ _ hil]
      have h5 : (news.map (fun g => g.uGroupId))[src.GetGroupByIdN s.uGroupId]?
          = ids[src.GetGroupByIdN s.uGroupId]? := by rw [hids]
      rw [List.getElem?_map, List.getElem?_eq_getElem hnl, List.getElem?_eq_getElem hil] at h5
      simp only [Option.map_some', Option.some.injEq] at h5
      exact h5.symm
    · obtain ⟨g, hg, hid⟩ := hS s hs
      exact absurd hid (hno g hg)

set_option maxRecDepth 100000 in
/-- The amended C29 at the sample tree with one entry, merged with the source
of the same four groups and two entries: four groups and two entries are
appended. -/
theorem C29_merge_fresh_ids_witness :
    ∃ res, MergeIn (sampleEnv none) sampleMergeLocal sampleMergeSource sampleRandFresh true false
        = some res
      ∧ res.1.m_pGroups.map (fun g => g.uGroupId) = [11, 12, 13, 14, 17, 23, 31, 37]
      ∧ res.1.m_pEntries.map (fun e => e.uGroupId) = [12, 23, 23] := by
  obtain ⟨res, ids, news, h1, _⟩ := C29_merge_fresh_ids (sampleEnv none) sampleMergeLocal
    sampleMergeSource sampleRandFresh false sampleTree_tree (by decide) (by decide) (by decide)
    (by decide) (by decide)
  have hd : (MergeIn (sampleEnv none) sampleMergeLocal sampleMergeSource sampleRandFresh
      true false).map (fun res => (res.1.m_pGroups.map (fun g => g.uGroupId),
        res.1.m_pEntries.map (fun e => e.uGroupId)))
      = some ([11, 12, 13, 14, 17, 23, 31, 37], [12, 23, 23]) := by decide
  rw [h1] at hd
  simp only [Option.map_some', Option.some.injEq, Prod.mk.injEq] at hd
  exact ⟨res, h1, hd.1, hd.2⟩

/-! ## The bubble sort of `SortGroupList` -/

theorem compareChars_le_trans (a b c : List Nat) (ha : ∀ x ∈ a, x ≠ 0) (hb : ∀ x ∈ b, x ≠ 0)
    (hc : ∀ x ∈ c, x ≠ 0) (h1 : compareChars a b ≤ 0) (h2 : compareChars b c ≤ 0) :
    compareChars a c ≤ 0 := by
  rcases lt_or_eq_of_le h1 with h1 | h1
  · rcases lt_or_eq_of_le h2 with h2 | h2
    · exact le_of_lt (compareChars_lt_trans a b c hc h1 h2)
    · have := (compareChars_eq_zero b c hb hc).mp h2
      rw [← this]
      exact le_of_lt h1
  · have := (compareChars_eq_zero a b ha hb).mp h1
    rw [this]
    exact h2

theorem tcsicmp_le_trans (a b c : List Nat) (h1 : _tcsicmp a b ≤ 0) (h2 : _tcsicmp b c ≤ 0) :
    _tcsicmp a c ≤ 0 :=
  compareChars_le_trans _ _ _ (lower_cstr_ne_zero a) (lower_cstr_ne_zero b)
    (lower_cstr_ne_zero c) h1 h2

theorem passFrom_sorted : ∀ (l : List (List Nat)) (cur : List Nat),
    List.Pairwise (fun a b => _tcsicmp a b ≤ 0) (cur :: l) →
    SortGroupList.passFrom cur l = (cur :: l, false) := by
  intro l
  induction l with
  | nil => intro cur _; rfl
  | cons next rest ih =>
    intro cur h
    unfold SortGroupList.passFrom
    have h1 : _tcsicmp cur next ≤ 0 := (List.pairwise_cons.mp h).1 next (List.mem_cons_self _ _)
    have h2 : ¬ (_tcsicmp cur next > 0) := by omega
    simp only [h2, if_false]
    rw [ih next (List.pairwise_cons.mp h).2]

theorem passFrom_false : ∀ (l : List (List Nat)) (cur : List Nat),
    (SortGroupList.passFrom cur l).2 = false →
    List.Pairwise (fun a b => _tcsicmp a b ≤ 0) (cur :: l) := by
  intro l
  induction l with
  | nil => intro cur _; simp
  | cons next rest ih =>
    intro cur h
    unfold SortGroupList.passFrom at h
    by_cases hc : _tcsicmp cur next > 0
    · simp only [hc, if_true] at h
      exact absurd h (by simp)
    · simp only [hc, if_false] at h
      have hp := ih next h
      have hle : _tcsicmp cur next ≤ 0 := by omega
      rw [List.pairwise_cons]
      refine ⟨?_, hp⟩
      intro x hx
      rcases List.mem_cons.mp hx with h1 | h1
      · rw [h1]; exact hle
      · exact tcsicmp_le_trans _ _ _ hle ((List.pairwise_cons.mp hp).1 x h1)

theorem passFrom_max : ∀ (rest : List (List Nat)) (cur : List Nat) (suf : List (List Nat)),
    (∀ x ∈ cur :: rest, ∀ y ∈ suf, _tcsicmp x y ≤ 0) →
    List.Pairwise (fun a b => _tcsicmp a b ≤ 0) suf →
    ∃ pre mx, (SortGroupList.passFrom cur (rest ++ suf)).1 = pre ++ mx :: suf
      ∧ (pre ++ [mx]).Perm (cur :: rest) ∧ ∀ x ∈ pre, _tcsicmp x mx ≤ 0 := by
  intro rest
  induction rest with
  | nil =>
    intro cur suf h hs
    refine ⟨[], cur, ?_, by simp, by simp⟩
    rw [List.nil_append, passFrom_sorted suf cur
      (List.pairwise_cons.mpr ⟨fun y hy => h cur (List.mem_cons_self _ _) y hy, hs⟩)]
    rfl
  | cons next rest ih =>
    intro cur suf h hs
    rw [List.cons_append]
    unfold SortGroupList.passFrom
    by_cases hc : _tcsicmp cur next > 0
    · simp only [hc, if_true]
      obtain ⟨pre, mx, e1, e2, e3⟩ := ih cur suf
        (fun x hx => by
          rcases List.mem_cons.mp hx with h1 | h1
          · rw [h1]; exact h cur (List.mem_cons_self _ _)
          · exact h x (List.mem_cons_of_mem _ (List.mem_cons_of_mem _ h1))) hs
      refine ⟨next :: pre, mx, by rw [e1]; rfl, ?_, ?_⟩
      · rw [List.cons_append]
        exact (e2.cons next).trans (List.Perm.swap _ _ _)
      · intro x hx
        have hcur : _tcsicmp cur mx ≤ 0 := by
          have hm : cur ∈ pre ++ [mx] := e2.symm.subset (List.mem_cons_self _ _)
          rcases List.mem_append.mp hm with h1 | h1
          · exact e3 cur h1
          · simp only [List.mem_singleton] at h1
            rw [h1, tcsicmp_self]
        rcases List.mem_cons.mp hx with h1 | h1
        · rw [h1]
          have hnc : _tcsicmp next cur ≤ 0 := by
            have := tcsicmp_neg next cur
            omega
          exact tcsicmp_le_trans _ _ _ hnc hcur
        · exact e3 x h1
    · simp only [hc, if_false]
      obtain ⟨pre, mx, e1, e2, e3⟩ := ih next suf
        (fun x hx => h x (List.mem_cons_of_mem _ hx)) hs
      refine ⟨cur :: pre, mx, by rw [e1]; rfl, ?_, ?_⟩
      · rw [List.cons_append]
        exact e2.cons cur
      · intro x hx
        have hnext : _tcsicmp next mx ≤ 0 := by
          have hm : next ∈ pre ++ [mx] := e2.symm.subset (List.mem_cons_self _ _)
          rcases List.mem_append.mp hm with h1 | h1
          · exact e3 next h1
          · simp only [List.mem_singleton] at h1
            rw [h1, tcsicmp_self]
        rcases List.mem_cons.mp hx with h1 | h1
        · rw [h1]
          exact tcsicmp_le_trans _ _ _ (by omega) hnext
        · exact e3 x h1

/-- The bubble sort ends within one pass per name of the part not yet in place
plus one, and returns the names in order. -/
theorem bubble_sorts : ∀ (fuel : Nat) (pre suf : List (List Nat)),
    (∀ x ∈ pre, ∀ y ∈ suf, _tcsicmp x y ≤ 0) →
    List.Pairwise (fun a b => _tcsicmp a b ≤ 0) suf → pre.length < fuel →
    ∃ l', SortGroupList.bubble fuel (pre ++ suf) = some l' ∧ l'.Perm (pre ++ suf)
      ∧ List.Pairwise (fun a b => _tcsicmp a b ≤ 0) l' := by
  intro fuel
  induction fuel with
  | zero => intro pre suf _ _ h; omega
  | succ fuel ih =>
    intro pre suf h hs hf
    unfold SortGroupList.bubble
    simp only []
    cases pre with
    | nil =>
      rw [List.nil_append]
      cases suf with
      | nil => exact ⟨[], by simp [SortGroupList.pass], List.Perm.refl _, List.Pairwise.nil⟩
      | cons a r =>
        have hp : SortGroupList.pass (a :: r) = (a :: r, false) := passFrom_sorted r a hs
        rw [hp]
        exact ⟨a :: r, by simp, List.Perm.refl _, hs⟩
    | cons cur rest =>
      have hpass : SortGroupList.pass (cur :: rest ++ suf)
          = SortGroupList.passFrom cur (rest ++ suf) := rfl
      rw [hpass]
      by_cases hflag : (SortGroupList.passFrom cur (rest ++ suf)).2 = true
      · simp only [hflag, if_true]
        obtain ⟨pre2, mx, e1, e2, e3⟩ := passFrom_max rest cur suf h hs
        have hmx : mx ∈ cur :: rest := e2.subset (by simp)
        have hlen : pre2.length = rest.length := by
          have h9 := e2.length_eq
          rw [List.length_append, List.length_singleton, List.length_cons] at h9
          exact Nat.succ_injective h9
        obtain ⟨l', f1, f2, f3⟩ := ih pre2 (mx :: suf)
          (fun x hx y hy => by
            rcases List.mem_cons.mp hy with h1 | h1
            · rw [h1]; exact e3 x hx
            · exact h x (e2.subset (List.mem_append_left _ hx)) y h1)
          (List.pairwise_cons.mpr ⟨fun y hy => h mx hmx y hy, hs⟩)
          (by simp only [List.length_cons] at hf; omega)
        rw [e1, f1]
        refine ⟨l', rfl, f2.trans ?_, f3⟩
        have h3 : (pre2 ++ mx :: suf).Perm ((pre2 ++ [mx]) ++ suf) := by simp
        exact h3.trans (e2.append_right suf)
      · have hfalse : (SortGroupList.passFrom cur (rest ++ suf)).2 = false :=
          Bool.eq_false_iff.mpr hflag
        simp only [hfalse, Bool.false_eq_true, if_false]
        have hsorted := passFrom_false _ _ hfalse
        rw [passFrom_sorted _ _ hsorted]
        exact ⟨_, rfl, List.Perm.refl _, hsorted⟩

/-! ## The placement loop of `SortGroupList` -/

theorem swapAt_take {α : Type} (a : List α) (i k : Nat) :
    (swapAt a i (i + k)).take i = a.take i := by
  unfold swapAt
  cases hx : a[i]? with
  | none => rfl
  | some x =>
    cases hy : a[i + k]? with
    | none => rfl
    | some y =>
      simp only []
      apply List.ext_getElem?
      intro t
      rw [List.getElem?_take, List.getElem?_take]
      by_cases ht : t < i
      · simp only [ht, if_true]
        rw [List.getElem?_set_ne (by omega), List.getElem?_set_ne (by omega)]
      · simp only [ht, if_false]

/-- The placement loop puts the groups in the order of the ids of the names. -/
theorem place_spec :
    ∀ (names : List (List Nat)) (i : Nat) (groups : List PW_GROUP),
      (names.map SortGroupList.idOf).Perm ((groups.drop i).map (fun g => g.uGroupId)) →
      (SortGroupList.place i names groups).take i = groups.take i
      ∧ ((SortGroupList.place i names groups).drop i).map (fun g => g.uGroupId)
          = names.map SortGroupList.idOf := by
  intro names
  induction names with
  | nil =>
    intro i groups hperm
    have hnil : (groups.drop i).map (fun g => g.uGroupId) = [] := by
      simpa using hperm.symm.eq_nil
    simp only [SortGroupList.place, hnil, List.map_nil, and_self]
  | cons fq rest ih =>
    intro i groups hperm
    cases rest with
    | nil =>
      simp only [SortGroupList.place, true_and]
      have := List.perm_singleton.mp hperm.symm
      simpa using this
    | cons next rest2 =>
      unfold SortGroupList.place
      have hmem : SortGroupList.idOf fq ∈ (groups.drop i).map (fun g => g.uGroupId) :=
        hperm.subset (by simp)
      obtain ⟨k, g, hfind, hgk, hgid⟩ := find_spec _ _ i hmem
      have hgk' : groups[i + k]? = some g := by simpa [List.getElem?_drop] using hgk
      have hlt : i + k < groups.length := (List.getElem?_eq_some_iff.mp hgk').1
      have hi : i < groups.length := by omega
      simp only [hfind, hlt, if_true]
      obtain ⟨tail, hdrop, htail⟩ := swapAt_drop groups i k groups[i] g
        (List.getElem?_eq_getElem hi) hgk'
      have hd1 : (swapAt groups i (i + k)).drop (i + 1) = tail := by
        have := congrArg List.tail hdrop
        simpa [List.tail_drop] using this
      have h2 : ((fq :: next :: rest2).map SortGroupList.idOf).Perm
          ((g :: tail).map (fun g => g.uGroupId)) :=
        hperm.trans (htail.map _).symm
      have h3 : ((next :: rest2).map SortGroupList.idOf).Perm
          (((swapAt groups i (i + k)).drop (i + 1)).map (fun g => g.uGroupId)) := by
        rw [hd1]
        simp only [List.map_cons] at h2 ⊢
        rw [hgid] at h2
        exact (List.perm_cons _).mp h2
      obtain ⟨r1, r2⟩ := ih (i + 1) (swapAt groups i (i + k)) h3
      generalize SortGroupList.place (i + 1) (next :: rest2) (swapAt groups i (i + k)) = R
        at r1 r2
      have hRi : R.take i = groups.take i := by
        have := congrArg (List.take i) r1
        rw [List.take_take, List.take_take] at this
        simp only [Nat.min_def, Nat.le_succ, if_true] at this
        rw [this, swapAt_take]
      have hRlen : i < R.length := by
        have := congrArg List.length r1
        simp only [List.length_take] at this
        have h5 : i + 1 ≤ (swapAt groups i (i + k)).length := by
          rw [(swapAt_perm groups i (i + k)).length_eq]
          omega
        omega
      have hRhead : R[i]? = some g := by
        have h6 : (R.take (i + 1))[i]? = ((swapAt groups i (i + k)).take (i + 1))[i]? := by
          rw [r1]
        rw [List.getElem?_take_of_lt (by omega), List.getElem?_take_of_lt (by omega)] at h6
        rw [h6]
        have h7 := congrArg (fun l => l[0]?) hdrop
        simpa [List.getElem?_drop] using h7
      refine ⟨hRi, ?_⟩
      rw [List.drop_eq_getElem_cons hRlen, List.map_cons, r2]
      have h8 : R[i] = g := by
        rw [List.getElem?_eq_getElem hRlen] at hRhead
        exact Option.some.inj hRhead
      rw [h8, hgid]
      rfl

theorem Climbs_of_tree : ∀ (groups : List PW_GROUP), TreeInvariant groups → Climbs 0 groups := by
  have key : ∀ (groups : List PW_GROUP) (n : Nat),
      (∀ g, groups[0]? = some g → g.usLevel ≤ n) →
      (∀ i g h, groups[i]? = some g → groups[i + 1]? = some h → h.usLevel ≤ g.usLevel + 1) →
      Climbs n groups := by
    intro groups
    induction groups with
    | nil => intro n _ _; trivial
    | cons g rest ih =>
      intro n h0 hch
      refine ⟨h0 g List.getElem?_cons_zero, ih (g.usLevel + 1) ?_ ?_⟩
      · intro x hx
        exact hch 0 g x List.getElem?_cons_zero (by simpa using hx)
      · intro i a b ha hb
        exact hch (i + 1) a b (by simpa using ha) (by simpa using hb)
  intro groups ht
  exact key groups 0 (fun g hg => by rw [ht.1 g hg]) ht.2

theorem groupAncestors_length : ∀ (groups stack : List PW_GROUP),
    (groupAncestors stack groups).length = groups.length := by
  intro groups
  induction groups with
  | nil => intro stack; rfl
  | cons g rest ih => intro stack; simp [groupAncestors, ih]

theorem groupsInTree_fst (groups : List PW_GROUP) :
    (groupsInTree groups).map Prod.fst = groups := by
  unfold groupsInTree
  rw [List.map_fst_zip]
  rw [groupAncestors_length]

theorem pParents_other (pp : List (List Nat)) (l j : Nat) (x : List Nat) (h : j ≠ l) :
    ((pp ++ List.replicate (l + 1 - pp.length) []).set l x).getD j [] = pp.getD j [] := by
  rw [List.getD_eq_getElem?_getD, List.getD_eq_getElem?_getD, List.getElem?_set_ne (Ne.symm h)]
  by_cases hj : j < pp.length
  · rw [List.getElem?_append_left hj]
  · rw [List.getElem?_append_right (by omega), List.getElem?_eq_none (by omega : pp.length ≤ j)]
    cases hr : (List.replicate (l + 1 - pp.length) ([] : List Nat))[j - pp.length]? with
    | none => rfl
    | some y =>
      have := List.getElem?_mem hr
      rw [List.mem_replicate] at this
      rw [this.2]
      rfl

theorem pParents_self (pp : List (List Nat)) (l : Nat) (x : List Nat) :
    ((pp ++ List.replicate (l + 1 - pp.length) []).set l x).getD l [] = x := by
  rw [List.getD_eq_getElem?_getD, List.getElem?_set_self (by
    simp only [List.length_append, List.length_replicate]
    omega)]
  rfl

/-- The names that `SortGroupList` builds are the fully qualified names of the
groups with their ancestors. -/
theorem build_fqgn : ∀ (groups stack : List PW_GROUP) (pParents : List (List Nat)),
    Climbs stack.length groups →
    (∀ j p, stack[j]? = some p → cstr (pParents.getD j []) = groupName p) →
    SortGroupList.build pParents groups = (groups.zip (groupAncestors stack groups)).map fqgn := by
  intro groups
  induction groups with
  | nil => intro stack pParents _ _; rfl
  | cons g rest ih =>
    intro stack pParents hc hp
    obtain ⟨hl, hrest⟩ := hc
    unfold SortGroupList.build groupAncestors
    simp only [List.zip_cons_cons, List.map_cons]
    have hlen : (stack.take g.usLevel ++ [g]).length = g.usLevel + 1 := by
      simp only [List.length_append, List.length_take, List.length_singleton]
      omega
    have hparents : (List.range g.usLevel).map (fun j => cstr (pParents.getD j []) ++ [10])
        = (stack.take g.usLevel).map (fun p => groupName p ++ [10]) := by
      apply List.ext_getElem?
      intro t
      rw [List.getElem?_map, List.getElem?_map, List.getElem?_take]
      by_cases ht : t < g.usLevel
      · simp only [ht, if_true]
        have hts : t < stack.length := by omega
        rw [List.getElem?_range ht, List.getElem?_eq_getElem hts, Option.map_some',
          Option.map_some', hp t stack[t] (List.getElem?_eq_getElem hts)]
      · simp only [ht, if_false, Option.map_none']
        rw [List.getElem?_eq_none (by rw [List.length_range]; omega)]
        rfl
    rw [hparents]
    congr 1
    apply ih (stack.take g.usLevel ++ [g])
    · rw [hlen]; exact hrest
    · intro j p hj
      by_cases hjl : j = g.usLevel
      · subst hjl
        rw [pParents_self]
        have : (stack.take g.usLevel ++ [g])[g.usLevel]? = some g := by
          rw [List.getElem?_append_right (by simp only [List.length_take]; omega)]
          simp only [List.length_take]
          have : g.usLevel - min g.usLevel stack.length = 0 := by omega
          rw [this]
          exact List.getElem?_cons_zero
        rw [this] at hj
        simp only [Option.some.injEq] at hj
        rw [← hj]
        exact cstr_idem _
      · rw [pParents_other _ _ _ _ hjl]
        have hjlt : j < g.usLevel := by
          have := (List.getElem?_eq_some_iff.mp hj).1
          rw [hlen] at this
          omega
        rw [List.getElem?_append_left (by simp only [List.length_take]; omega), List.getElem?_take] at hj
        simp only [hjlt, if_true] at hj
        exact hp j p hj

theorem groupsInTree_build (groups : List PW_GROUP) (ht : TreeInvariant groups) :
    SortGroupList.build [] groups = (groupsInTree groups).map fqgn :=
  build_fqgn groups [] [] (Climbs_of_tree groups ht) (fun j p h => by simp at h)

/-- Every group has as many ancestors as its level says. -/
theorem ancestors_length : ∀ (groups stack : List PW_GROUP), Climbs stack.length groups →
    ∀ a ∈ groups.zip (groupAncestors stack groups), a.2.length = a.1.usLevel := by
  intro groups
  induction groups with
  | nil => intro stack _ a ha; simp [groupAncestors] at ha
  | cons g rest ih =>
    intro stack hc a ha
    obtain ⟨hl, hrest⟩ := hc
    unfold groupAncestors at ha
    rw [List.zip_cons_cons] at ha
    rcases List.mem_cons.mp ha with h1 | h1
    · rw [h1]
      simp only [List.length_take]
      omega
    · apply ih (stack.take g.usLevel ++ [g]) _ a h1
      have hlen : (stack.take g.usLevel ++ [g]).length = g.usLevel + 1 := by
        simp only [List.length_append, List.length_take, List.length_singleton]
        omega
      rw [hlen]
      exact hrest

/-- The ancestors of a group are in the array, each with the ancestors before
it as its own. -/
theorem ancestors_closed : ∀ (groups stack : List PW_GROUP)
    (seen : List (PW_GROUP × List PW_GROUP)), Climbs stack.length groups →
    (∀ j p, stack[j]? = some p → (p, stack.take j) ∈ seen) →
    ∀ a ∈ groups.zip (groupAncestors stack groups), ∀ j p, a.2[j]? = some p →
      (p, a.2.take j) ∈ seen ++ groups.zip (groupAncestors stack groups) := by
  intro groups
  induction groups with
  | nil => intro stack seen _ _ a ha; simp [groupAncestors] at ha
  | cons g rest ih =>
    intro stack seen hc hs a ha j p hj
    obtain ⟨hl, hrest⟩ := hc
    unfold groupAncestors at ha ⊢
    rw [List.zip_cons_cons] at ha ⊢
    have hlen : (stack.take g.usLevel ++ [g]).length = g.usLevel + 1 := by
      simp only [List.length_append, List.length_take, List.length_singleton]
      omega
    have hhead : ∀ j p, (stack.take g.usLevel)[j]? = some p →
        (p, (stack.take g.usLevel).take j) ∈ seen := by
      intro j p hjp
      rw [List.getElem?_take] at hjp
      by_cases hjl : j < g.usLevel
      · simp only [hjl, if_true] at hjp
        have := hs j p hjp
        rw [List.take_take]
        have hmin : min j g.usLevel = j := by omega
        rw [hmin]
        exact this
      · simp only [hjl, if_false] at hjp
        exact absurd hjp (by simp)
    rcases List.mem_cons.mp ha with h1 | h1
    · rw [h1] at hj ⊢
      exact List.mem_append_left _ (hhead j p hj)
    · have h2 := ih (stack.take g.usLevel ++ [g]) (seen ++ [(g, stack.take g.usLevel)])
        (by rw [hlen]; exact hrest)
        (by
          intro j p hjp
          by_cases hjl : j < g.usLevel
          · rw [List.getElem?_append_left (by simp only [List.length_take]; omega)] at hjp
            have h3 := hhead j p hjp
            rw [List.take_append_of_le_length (by simp only [List.length_take]; omega)]
            exact List.mem_append_left _ h3
          · have hje : j = g.usLevel := by
              have := (List.getElem?_eq_some_iff.mp hjp).1
              rw [hlen] at this
              omega
            subst hje
            have hg : (stack.take g.usLevel ++ [g])[g.usLevel]? = some g := by
              rw [List.getElem?_append_right (by simp only [List.length_take]; omega)]
              simp only [List.length_take]
              have : g.usLevel - min g.usLevel stack.length = 0 := by omega
              rw [this]
              exact List.getElem?_cons_zero
            rw [hg] at hjp
            simp only [Option.some.injEq] at hjp
            rw [← hjp]
            have htk : (stack.take g.usLevel ++ [g]).take g.usLevel = stack.take g.usLevel := by
              rw [List.take_append_of_le_length (by simp only [List.length_take]; omega), List.take_take]
              simp
            rw [htk]
            simp)
        a h1 j p hj
      simpa [List.append_assoc] using h2

theorem groupsInTree_closed (groups : List PW_GROUP) (ht : TreeInvariant groups) :
    ∀ a ∈ groupsInTree groups, ∀ j p, a.2[j]? = some p →
      (p, a.2.take j) ∈ groupsInTree groups := by
  intro a ha j p hj
  have := ancestors_closed groups [] [] (Climbs_of_tree groups ht)
    (fun j p h => by simp at h) a ha j p hj
  simpa using this

theorem groupsInTree_length (groups : List PW_GROUP) (ht : TreeInvariant groups) :
    ∀ a ∈ groupsInTree groups, a.2.length = a.1.usLevel :=
  ancestors_length groups [] (Climbs_of_tree groups ht)

theorem exists_perm_map {α β : Type} (f : α → β) :
    ∀ (S M : List β), S.Perm M → ∀ (Z : List α), Z.map f = M →
      ∃ Z' : List α, Z'.Perm Z ∧ Z'.map f = S := by
  intro S M h
  induction h with
  | nil => intro Z hZ; exact ⟨Z, List.Perm.refl _, hZ⟩
  | cons x _ ih =>
    intro Z hZ
    cases Z with
    | nil => simp at hZ
    | cons z Z0 =>
      simp only [List.map_cons, List.cons.injEq] at hZ
      obtain ⟨Z1, h1, h2⟩ := ih Z0 hZ.2
      exact ⟨z :: Z1, h1.cons z, by simp [h2, hZ.1]⟩
  | swap x y l =>
    intro Z hZ
    cases Z with
    | nil => simp at hZ
    | cons z Z0 =>
      cases Z0 with
      | nil => simp at hZ
      | cons z2 Z1 =>
        simp only [List.map_cons, List.cons.injEq] at hZ
        exact ⟨z2 :: z :: Z1, List.Perm.swap _ _ _, by simp [hZ.1, hZ.2.1, hZ.2.2]⟩
  | trans _ _ ih1 ih2 =>
    intro Z hZ
    obtain ⟨Z1, h1, h2⟩ := ih2 Z hZ
    obtain ⟨Z2, h3, h4⟩ := ih1 Z1 h2
    exact ⟨Z2, h3.trans h1, h4⟩

theorem eq_of_perm_map {α β : Type} (f : α → β) :
    ∀ (l1 l2 : List α), l1.Perm l2 → l1.map f = l2.map f → (l1.map f).Nodup → l1 = l2 := by
  intro l1
  induction l1 with
  | nil => intro l2 hp _ _; exact hp.symm.eq_nil.symm
  | cons a t ih =>
    intro l2 hp hm hn
    cases l2 with
    | nil => simp at hm
    | cons b t2 =>
      simp only [List.map_cons, List.cons.injEq] at hm
      rw [List.map_cons, List.nodup_cons] at hn
      have hb : b ∈ a :: t := hp.symm.subset (List.mem_cons_self _ _)
      have hab : a = b := by
        rcases List.mem_cons.mp hb with h1 | h1
        · exact h1.symm
        · exfalso
          apply hn.1
          rw [hm.1]
          exact List.mem_map_of_mem _ h1
      subst hab
      rw [ih t2 ((List.perm_cons _).mp hp) hm.2 hn.2]

theorem idOf_key (a : PW_GROUP × List PW_GROUP) (h : a.1.uGroupId < U32) :
    SortGroupList.idOf (fqgn a) = a.1.uGroupId := by
  unfold fqgn
  have h1 : (a.2.map (fun p => groupName p ++ [10])).flatten ++ groupName a.1 ++ [10, 10]
      ++ _ltot (toLong a.1.uGroupId)
      = ((a.2.map (fun p => groupName p ++ [10])).flatten ++ groupName a.1 ++ [10]) ++ [10]
        ++ _ltot (toLong a.1.uGroupId) := by simp
  rw [h1, idOf_fqgn _ _ (ltot_no_newline _), ttol_ltot _ h]

/-- What the scan of `SortGroupList` returns bounds the name length, as a
`DWORD`, and the level of every group. -/
theorem sortScan_spec : ∀ (groups : List PW_GROUP) (a b : Nat),
    a ≤ (SortGroupList.scan a b groups).1 ∧ b ≤ (SortGroupList.scan a b groups).2
    ∧ ∀ g ∈ groups, (groupName g).length % U32 ≤ (SortGroupList.scan a b groups).1
        ∧ g.usLevel ≤ (SortGroupList.scan a b groups).2 := by
  intro groups
  induction groups with
  | nil => intro a b; exact ⟨le_refl _, le_refl _, fun g hg => absurd hg (List.not_mem_nil _)⟩
  | cons p rest ih =>
    intro a b
    unfold SortGroupList.scan
    simp only []
    have ha : a ≤ (if tcslen (p.pszGroupName.getD []) % U32 > a
        then tcslen (p.pszGroupName.getD []) % U32 else a)
        ∧ tcslen (p.pszGroupName.getD []) % U32
          ≤ (if tcslen (p.pszGroupName.getD []) % U32 > a
            then tcslen (p.pszGroupName.getD []) % U32 else a) := by
      split_ifs <;> omega
    have hb : b ≤ (if p.usLevel > b then p.usLevel else b)
        ∧ p.usLevel ≤ (if p.usLevel > b then p.usLevel else b) := by
      split_ifs <;> omega
    generalize (if tcslen (p.pszGroupName.getD []) % U32 > a
      then tcslen (p.pszGroupName.getD []) % U32 else a) = a1 at ha ⊢
    generalize (if p.usLevel > b then p.usLevel else b) = b1 at hb ⊢
    obtain ⟨h1, h2, h3⟩ := ih a1 b1
    refine ⟨le_trans ha.1 h1, le_trans hb.1 h2, ?_⟩
    intro g hg
    rcases List.mem_cons.mp hg with hgp | hgr
    · subst hgp
      exact ⟨le_trans ha.2 h1, le_trans hb.2 h2⟩
    · exact h3 g hgr

theorem decimalDigits_length : ∀ (fuel n : Nat), (decimalDigits fuel n).length ≤ fuel := by
  intro fuel
  induction fuel with
  | zero => intro n; simp [decimalDigits]
  | succ k ih =>
    intro n
    unfold decimalDigits
    split_ifs
    · simp
    · have := ih (n / 10)
      simp only [List.length_append, List.length_singleton]
      omega

theorem ltot_length (v : Int) : (_ltot v).length ≤ 11 := by
  unfold _ltot
  have := decimalDigits_length 10 v.natAbs
  split_ifs
  · simp only [List.length_cons]; omega
  · omega

theorem flatten_names_length (L : Nat) : ∀ (ps : List PW_GROUP),
    (∀ p ∈ ps, (groupName p).length ≤ L) →
    ((ps.map (fun p => groupName p ++ [10])).flatten).length ≤ ps.length * (L + 1) := by
  intro ps
  induction ps with
  | nil => intro _; simp
  | cons p rest ih =>
    intro h
    have h1 := h p (List.mem_cons_self _ _)
    have h2 := ih (fun q hq => h q (List.mem_cons_of_mem _ hq))
    simp only [List.map_cons, List.flatten_cons, List.length_append, List.length_cons,
      List.length_nil, Nat.add_mul]
    omega

/-- A fully qualified name fits the buffer that `SortGroupList` sizes for it. -/
theorem fqgn_fits (groups : List PW_GROUP) (ht : TreeInvariant groups)
    (hshort : ∀ g ∈ groups, tcslen (g.pszGroupName.getD []) < U32) :
    ∀ a ∈ groupsInTree groups,
      (fqgn a).length < ((SortGroupList.scan 0 0 groups).1 + 1)
        * ((SortGroupList.scan 0 0 groups).2 + 1) + 13 := by
  intro a ha
  obtain ⟨_, _, hsc0⟩ := sortScan_spec groups 0 0
  have hsc : ∀ g ∈ groups, (groupName g).length ≤ (SortGroupList.scan 0 0 groups).1
      ∧ g.usLevel ≤ (SortGroupList.scan 0 0 groups).2 := by
    intro g hg
    have h1 := hsc0 g hg
    have h2 : (groupName g).length < U32 := hshort g hg
    rw [Nat.mod_eq_of_lt h2] at h1
    exact h1
  clear hsc0
  generalize (SortGroupList.scan 0 0 groups).1 = L at hsc ⊢
  generalize (SortGroupList.scan 0 0 groups).2 = V at hsc ⊢
  have hfst := groupsInTree_fst groups
  have hinG : ∀ b ∈ groupsInTree groups, b.1 ∈ groups := by
    intro b hb
    have := List.mem_map_of_mem Prod.fst hb
    rwa [hfst] at this
  have hanc : ∀ p ∈ a.2, (groupName p).length ≤ L := by
    intro p hp
    obtain ⟨j, hj⟩ := List.getElem?_of_mem hp
    exact (hsc p (hinG _ (groupsInTree_closed groups ht a ha j p hj))).1
  have hlen := groupsInTree_length groups ht a ha
  have h1 := flatten_names_length L a.2 hanc
  have h2 := hsc a.1 (hinG a ha)
  have h3 := ltot_length (toLong a.1.uGroupId)
  unfold fqgn
  simp only [List.length_append, List.length_cons, List.length_nil]
  have h4 : a.2.length * (L + 1) ≤ V * (L + 1) := by
    apply Nat.mul_le_mul_right
    omega
  have h5 : (L + 1) * (V + 1) = V * (L + 1) + (L + 1) := by ring
  omega

theorem build_fits (groups : List PW_GROUP) (ht : TreeInvariant groups)
    (hshort : ∀ g ∈ groups, tcslen (g.pszGroupName.getD []) < U32)
    (hfit : ((SortGroupList.scan 0 0 groups).1 + 1)
      * ((SortGroupList.scan 0 0 groups).2 + 1) + 13 < U32) :
    (SortGroupList.build [] groups).any (fun s => decide (s.length
        ≥ (((SortGroupList.scan 0 0 groups).1 + 1)
          * ((SortGroupList.scan 0 0 groups).2 + 1) + 13) % U32)) = false := by
  rw [Nat.mod_eq_of_lt hfit, groupsInTree_build _ ht]
  rw [List.any_eq_false]
  intro s hs
  obtain ⟨a, ha, rfl⟩ := List.mem_map.mp hs
  have := fqgn_fits groups ht hshort a ha
  simp only [decide_eq_true_eq]
  omega

/-- What `SortGroupList` computes for more than one group: the groups in the
order of their fully qualified names, as the bubble sort compares them. -/
theorem SortGroupList_sorted (E : Env) (m : CPwManager) (hlen : 1 < m.m_pGroups.length)
    (ht : TreeInvariant m.m_pGroups) (hid : ∀ g ∈ m.m_pGroups, g.uGroupId < U32)
    (hnd : (m.m_pGroups.map (fun g => g.uGroupId)).Nodup)
    (halloc : SortGroupListAllocates E m.m_pGroups) :
    ∃ Z, Z.Perm (groupsInTree m.m_pGroups)
      ∧ List.Pairwise (fun a b => _tcsicmp (fqgn a) (fqgn b) ≤ 0) Z
      ∧ m.SortGroupList E = some (FixGroupTree { m with m_pGroups := Z.map Prod.fst }) := by
  obtain ⟨S, hb, hperm, hsorted⟩ := bubble_sorts (m.m_pGroups.length + 1)
    (SortGroupList.build [] m.m_pGroups) [] (by simp) List.Pairwise.nil (by
      rw [groupsInTree_build _ ht, List.length_map]
      have := congrArg List.length (groupsInTree_fst m.m_pGroups)
      simp only [List.length_map] at this
      omega)
  rw [List.append_nil] at hb hperm
  rw [groupsInTree_build _ ht] at hperm
  obtain ⟨Z, hZ1, hZ2⟩ := exists_perm_map fqgn S _ hperm (groupsInTree m.m_pGroups) rfl
  have hZid : ∀ a ∈ Z, a.1.uGroupId < U32 := by
    intro a ha
    have h1 : a.1 ∈ (groupsInTree m.m_pGroups).map Prod.fst :=
      List.mem_map_of_mem _ (hZ1.subset ha)
    rw [groupsInTree_fst] at h1
    exact hid _ h1
  have hSid : S.map SortGroupList.idOf = (Z.map Prod.fst).map (fun g => g.uGroupId) := by
    rw [← hZ2, List.map_map, List.map_map]
    apply List.map_congr_left
    intro a ha
    exact idOf_key a (hZid a ha)
  have hZfst : (Z.map Prod.fst).Perm m.m_pGroups := by
    have := hZ1.map Prod.fst
    rwa [groupsInTree_fst] at this
  have hplace := place_spec S 0 m.m_pGroups (by
    rw [List.drop_zero, hSid]
    exact hZfst.map _)
  simp only [List.drop_zero] at hplace
  have hpp : (SortGroupList.place 0 S m.m_pGroups).Perm m.m_pGroups :=
    place_perm S 0 m.m_pGroups (by
      rw [List.drop_zero, hSid]
      exact hZfst.map _)
  have heq : SortGroupList.place 0 S m.m_pGroups = Z.map Prod.fst := by
    apply eq_of_perm_map (fun g : PW_GROUP => g.uGroupId)
    · exact hpp.trans hZfst.symm
    · rw [hplace.2, hSid]
    · exact (hpp.map _).nodup_iff.mpr hnd
  refine ⟨Z, hZ1, ?_, ?_⟩
  · rw [← hZ2] at hsorted
    exact (List.pairwise_map.mp hsorted)
  · unfold SortGroupList
    have hgt : ¬ (m.m_pGroups.length ≤ 1) := by omega
    obtain ⟨a0, a1, a2, a3, a4⟩ := halloc
    have hfits := build_fits m.m_pGroups ht a0 a4
    rw [Nat.mod_eq_of_lt a4] at hfits
    simp only [hgt, if_false, a1, a2, a3, Nat.mod_eq_of_lt a4, Bool.not_true,
      Bool.false_eq_true, hfits, hb, heq]

/-! ## Fully qualified names as strings -/

theorem ltot_chars (v : Int) : ∀ c ∈ _ltot v, c = 45 ∨ (48 ≤ c ∧ c ≤ 57) := by
  intro c hc
  unfold _ltot at hc
  split_ifs at hc
  · rcases List.mem_cons.mp hc with h | h
    · left; exact h
    · right; exact decimalDigits_digits _ _ c h
  · right; exact decimalDigits_digits _ _ c hc

theorem ltot_lower (v : Int) : (_ltot v).map tolower = _ltot v := by
  have h : ∀ l : List Nat, (∀ c ∈ l, c = 45 ∨ (48 ≤ c ∧ c ≤ 57)) → l.map tolower = l := by
    intro l
    induction l with
    | nil => intro _; rfl
    | cons c cs ih =>
      intro hl
      rw [List.map_cons, ih (fun x hx => hl x (List.mem_cons_of_mem _ hx))]
      have hc := hl c (List.mem_cons_self _ _)
      have : tolower c = c := by
        unfold tolower
        have h2 : ¬ (65 ≤ c ∧ c ≤ 90) := by omega
        simp only [h2, if_false]
      rw [this]
  exact h _ (ltot_chars v)

theorem cstr_self : ∀ (s : List Nat), (∀ c ∈ s, c ≠ 0) → cstr s = s := by
  intro s
  induction s with
  | nil => intro _; rfl
  | cons c cs ih =>
    intro h
    unfold cstr
    have hc : (c != 0) = true := by simpa using h c (List.mem_cons_self _ _)
    rw [List.takeWhile_cons]
    simp only [hc, if_true]
    have := ih (fun x hx => h x (List.mem_cons_of_mem _ hx))
    unfold cstr at this
    rw [this]

theorem groupName_no_zero (g : PW_GROUP) : ∀ c ∈ groupName g, c ≠ 0 := cstr_no_zero _

theorem fqgn_no_zero (a : PW_GROUP × List PW_GROUP) : ∀ c ∈ fqgn a, c ≠ 0 := by
  intro c hc
  unfold fqgn at hc
  simp only [List.mem_append, List.mem_flatten, List.mem_map, List.mem_cons,
    List.mem_singleton, List.not_mem_nil, or_false] at hc
  rcases hc with ((⟨l, ⟨p, _, hl⟩, hcl⟩ | h) | h) | h
  · rw [← hl] at hcl
    rcases List.mem_append.mp hcl with h1 | h1
    · exact groupName_no_zero p c h1
    · simp only [List.mem_singleton] at h1
      omega
  · exact groupName_no_zero _ c h
  · omega
  · rcases ltot_chars _ c h with h1 | h1 <;> omega

theorem tcsicmp_fqgn (a b : PW_GROUP × List PW_GROUP) :
    _tcsicmp (fqgn a) (fqgn b) = compareChars (lowerKey a) (lowerKey b) := by
  unfold _tcsicmp lowerKey
  rw [cstr_self _ (fqgn_no_zero a), cstr_self _ (fqgn_no_zero b)]

theorem tcsicmp_names (g h : PW_GROUP) :
    _tcsicmp (groupName g) (groupName h) = compareChars (lowerName g) (lowerName h) := by
  unfold _tcsicmp lowerName groupName
  rw [cstr_idem, cstr_idem]

theorem lowerKey_eq (a : PW_GROUP × List PW_GROUP) :
    lowerKey a = (a.2.map (fun p => lowerName p ++ [10])).flatten ++ lowerName a.1 ++ [10, 10]
      ++ _ltot (toLong a.1.uGroupId) := by
  unfold lowerKey fqgn
  simp only [List.map_append, List.map_flatten, List.map_map, ltot_lower]
  have h10 : List.map tolower [10, 10] = [10, 10] := by decide
  rw [h10]
  congr 4
  apply List.map_congr_left
  intro p _
  simp only [Function.comp, List.map_append, lowerName]
  rfl

theorem lowerName_no_zero (g : PW_GROUP) : ∀ c ∈ lowerName g, c ≠ 0 := by
  intro c hc
  unfold lowerName at hc
  obtain ⟨d, hd, hdc⟩ := List.mem_map.mp hc
  rw [← hdc]
  exact tolower_ne_zero d (groupName_no_zero g d hd)

theorem lowerName_chars (g : PW_GROUP) (h : ∀ c ∈ groupName g, 10 < c) :
    ∀ c ∈ lowerName g, 10 < c := by
  intro c hc
  unfold lowerName at hc
  obtain ⟨d, hd, hdc⟩ := List.mem_map.mp hc
  rw [← hdc]
  have := h d hd
  unfold tolower
  split_ifs <;> omega

theorem lowerName_ne_nil (g : PW_GROUP) (h : groupName g ≠ []) : lowerName g ≠ [] := by
  unfold lowerName
  intro hn
  exact h (List.map_eq_nil_iff.mp hn)

/-! ## Comparison of strings with a common beginning -/

theorem compareChars_cons (a b : Nat) (x y : List Nat) :
    compareChars (a :: x) (b :: y)
      = if a = b then compareChars x y else (a : Int) - (b : Int) := rfl

theorem compareChars_append (P x y : List Nat) :
    compareChars (P ++ x) (P ++ y) = compareChars x y := by
  induction P with
  | nil => rfl
  | cons c P ih =>
    rw [List.cons_append, List.cons_append, compareChars_cons]
    simp only [if_true]
    exact ih

/-- A string that lies between two strings with a common beginning begins the
same way. -/
theorem compareChars_between : ∀ (P x y z : List Nat),
    compareChars (P ++ x) y < 0 → compareChars y (P ++ z) < 0 → ∃ y', y = P ++ y' := by
  intro P
  induction P with
  | nil => intro x y z _ _; exact ⟨y, rfl⟩
  | cons c P ih =>
    intro x y z h1 h2
    cases y with
    | nil =>
      rw [List.cons_append] at h1
      unfold compareChars at h1
      omega
    | cons d y0 =>
      rw [List.cons_append] at h1 h2
      unfold compareChars at h1 h2
      by_cases hcd : c = d
      · subst hcd
        simp only [if_true] at h1 h2
        obtain ⟨y', hy⟩ := ih x y0 z h1 h2
        exact ⟨y', by rw [hy]; rfl⟩
      · have hdc : ¬ d = c := fun h => hcd h.symm
        simp only [hcd, hdc, if_false] at h1 h2
        omega

theorem compareChars_newline (x y : List Nat) (c : Nat) (h : 10 < c) :
    compareChars (10 :: x) (c :: y) < 0 := by
  unfold compareChars
  have : ¬ (10 = c) := by omega
  simp only [this, if_false]
  omega

/-- Two names followed by a line feed compare like the names. -/
theorem compareChars_names : ∀ (na nb ra rb : List Nat), (∀ c ∈ na, 10 < c) →
    (∀ c ∈ nb, 10 < c) → na ≠ nb →
    compareChars (na ++ 10 :: ra) (nb ++ 10 :: rb) < 0 → compareChars na nb < 0 := by
  intro na
  induction na with
  | nil =>
    intro nb ra rb _ hb hne _
    cases nb with
    | nil => exact absurd rfl hne
    | cons d nb =>
      unfold compareChars
      have := hb d (List.mem_cons_self _ _)
      omega
  | cons c na ih =>
    intro nb ra rb ha hb hne h
    have hc := ha c (List.mem_cons_self _ _)
    cases nb with
    | nil =>
      rw [List.nil_append, List.cons_append] at h
      unfold compareChars at h
      have : ¬ (c = 10) := by omega
      simp only [this, if_false] at h
      omega
    | cons d nb =>
      rw [List.cons_append, List.cons_append] at h
      unfold compareChars at h ⊢
      by_cases hcd : c = d
      · subst hcd
        simp only [if_true] at h ⊢
        exact ih nb ra rb (fun x hx => ha x (List.mem_cons_of_mem _ hx))
          (fun x hx => hb x (List.mem_cons_of_mem _ hx))
          (fun heq => hne (by rw [heq])) h
      · simp only [hcd, if_false] at h ⊢
        exact h

/-! ## Reading the names back from a fully qualified name -/

theorem split_newline : ∀ (u v s t : List Nat), (∀ c ∈ u, c ≠ 10) → (∀ c ∈ v, c ≠ 10) →
    u ++ 10 :: s = v ++ 10 :: t → u = v ∧ s = t := by
  intro u
  induction u with
  | nil =>
    intro v s t _ hv h
    cases v with
    | nil => simpa using h
    | cons d v =>
      simp only [List.nil_append, List.cons_append, List.cons.injEq] at h
      exact absurd h.1.symm (hv d (List.mem_cons_self _ _))
  | cons c u ih =>
    intro v s t hu hv h
    cases v with
    | nil =>
      simp only [List.nil_append, List.cons_append, List.cons.injEq] at h
      exact absurd h.1 (hu c (List.mem_cons_self _ _))
    | cons d v =>
      simp only [List.cons_append, List.cons.injEq] at h
      obtain ⟨h1, h2⟩ := ih v s t (fun x hx => hu x (List.mem_cons_of_mem _ hx))
        (fun x hx => hv x (List.mem_cons_of_mem _ hx)) h.2
      exact ⟨by rw [h.1, h1], h2⟩

/-- Names followed by a line feed each can be read back from the string. -/
theorem names_decode : ∀ (A B : List (List Nat)) (rA rB : List Nat),
    (∀ x ∈ A, ∀ c ∈ x, c ≠ 10) → (∀ x ∈ B, ∀ c ∈ x, c ≠ 10) →
    (A.map (fun x => x ++ [10])).flatten ++ rA = (B.map (fun x => x ++ [10])).flatten ++ rB →
    A.length ≤ B.length →
    A = B.take A.length
      ∧ rA = ((B.drop A.length).map (fun x => x ++ [10])).flatten ++ rB := by
  intro A
  induction A with
  | nil => intro B rA rB _ _ h _; simpa using h
  | cons x A ih =>
    intro B rA rB hA hB h hl
    cases B with
    | nil => simp at hl
    | cons y B =>
      simp only [List.map_cons, List.flatten_cons, List.append_assoc, List.singleton_append]
        at h
      obtain ⟨h1, h2⟩ := split_newline x y _ _ (hA x (List.mem_cons_self _ _))
        (hB y (List.mem_cons_self _ _)) h
      obtain ⟨h3, h4⟩ := ih B rA rB (fun z hz => hA z (List.mem_cons_of_mem _ hz))
        (fun z hz => hB z (List.mem_cons_of_mem _ hz)) h2
        (by simp only [List.length_cons] at hl; omega)
      refine ⟨?_, ?_⟩
      · simp only [List.length_cons, List.take_succ_cons]
        rw [h1, ← h3]
      · simpa using h4

/-! ## Groups with their ancestors in the order of the names -/

theorem closed_take (T : List (PW_GROUP × List PW_GROUP)) (cs : List PW_GROUP) (k : Nat)
    (hc : ∀ j p, cs[j]? = some p → (p, cs.take j) ∈ T) :
    ∀ j p, (cs.take k)[j]? = some p → (p, (cs.take k).take j) ∈ T := by
  intro j p hj
  rw [List.getElem?_take] at hj
  by_cases hjk : j < k
  · simp only [hjk, if_true] at hj
    rw [List.take_take]
    have : min j k = j := by omega
    rw [this]
    exact hc j p hj
  · simp only [hjk, if_false] at hj
    exact absurd hj (by simp)

/-- Chains of ancestors with the same names are the same chain. -/
theorem chains_eq (T : List (PW_GROUP × List PW_GROUP))
    (hsib : ∀ a ∈ T, ∀ b ∈ T, a.2 = b.2 → lowerName a.1 = lowerName b.1 → a.1 = b.1)
    (c1 c2 : List PW_GROUP) (h1 : ∀ j p, c1[j]? = some p → (p, c1.take j) ∈ T)
    (h2 : ∀ j p, c2[j]? = some p → (p, c2.take j) ∈ T)
    (hn : c1.map lowerName = c2.map lowerName) : c1 = c2 := by
  have hlen : c1.length = c2.length := by
    have := congrArg List.length hn
    simpa using this
  have key : ∀ n, n ≤ c1.length → c1.take n = c2.take n := by
    intro n
    induction n with
    | zero => intro _; rfl
    | succ n ih =>
      intro hle
      have hn1 : n < c1.length := by omega
      have hn2 : n < c2.length := by omega
      have hpre := ih (by omega)
      have e1 : c1[n]? = some c1[n] := List.getElem?_eq_getElem hn1
      have e2 : c2[n]? = some c2[n] := List.getElem?_eq_getElem hn2
      have hname : lowerName c1[n] = lowerName c2[n] := by
        have h3 := congrArg (fun l => l[n]?) hn
        simp only [List.getElem?_map, e1, e2, Option.map_some', Option.some.injEq] at h3
        exact h3
      have heq : c1[n] = c2[n] :=
        hsib _ (h1 n _ e1) _ (h2 n _ e2) hpre hname
      rw [List.take_succ, List.take_succ, hpre, e1, e2, heq]
  have := key c1.length (le_refl _)
  rw [List.take_length] at this
  rw [this, hlen, List.take_length]

theorem flatten_names (c : List PW_GROUP) :
    (c.map (fun p => lowerName p ++ [10])).flatten
      = ((c.map lowerName).map (fun x => x ++ [10])).flatten := by
  rw [List.map_map]
  rfl

/-- The name of the parent group comes before the name of the group. -/
theorem parent_lt (pg g : PW_GROUP) (pc : List PW_GROUP) (hne : lowerName g ≠ [])
    (hch : ∀ c ∈ lowerName g, 10 < c) :
    compareChars (lowerKey (pg, pc)) (lowerKey (g, pc ++ [pg])) < 0 := by
  rw [lowerKey_eq, lowerKey_eq]
  simp only []
  have e1 : (pc.map (fun p => lowerName p ++ [10])).flatten ++ lowerName pg ++ [10, 10]
        ++ _ltot (toLong pg.uGroupId)
      = ((pc.map (fun p => lowerName p ++ [10])).flatten ++ lowerName pg ++ [10])
        ++ (10 :: _ltot (toLong pg.uGroupId)) := by simp
  have e2 : ((pc ++ [pg]).map (fun p => lowerName p ++ [10])).flatten ++ lowerName g ++ [10, 10]
        ++ _ltot (toLong g.uGroupId)
      = ((pc.map (fun p => lowerName p ++ [10])).flatten ++ lowerName pg ++ [10])
        ++ (lowerName g ++ [10, 10] ++ _ltot (toLong g.uGroupId)) := by simp
  rw [e1, e2, compareChars_append]
  obtain ⟨c, rest, hg⟩ := List.exists_cons_of_ne_nil hne
  rw [hg, List.cons_append, List.cons_append]
  exact compareChars_newline _ _ c (hch c (by rw [hg]; exact List.mem_cons_self _ _))

/-- A group whose name lies between the name of a group and the name of that
group's parent has the parent among its ancestors, with the same ancestors
before it. -/
theorem between_chain (T : List (PW_GROUP × List PW_GROUP))
    (hclosed : ∀ a ∈ T, ∀ j p, a.2[j]? = some p → (p, a.2.take j) ∈ T)
    (hnames : ∀ a ∈ T, lowerName a.1 ≠ [] ∧ ∀ c ∈ lowerName a.1, 10 < c)
    (hsib : ∀ a ∈ T, ∀ b ∈ T, a.2 = b.2 → lowerName a.1 = lowerName b.1 → a.1 = b.1)
    (pg g : PW_GROUP) (pc : List PW_GROUP) (h : PW_GROUP × List PW_GROUP)
    (hp : (pg, pc) ∈ T) (hy : (g, pc ++ [pg]) ∈ T) (hh : h ∈ T)
    (h1 : compareChars (lowerKey (pg, pc)) (lowerKey h) < 0)
    (h2 : compareChars (lowerKey h) (lowerKey (g, pc ++ [pg])) < 0) :
    h.2.take (pc.length + 1) = pc ++ [pg] := by
  have hyc : ∀ j p, (pc ++ [pg])[j]? = some p → (p, (pc ++ [pg]).take j) ∈ T :=
    hclosed _ hy
  have hhc : ∀ j p, h.2[j]? = some p → (p, h.2.take j) ∈ T := hclosed _ hh
  have hfree : ∀ (cs : List PW_GROUP), (∀ j p, cs[j]? = some p → (p, cs.take j) ∈ T) →
      ∀ x ∈ cs.map lowerName, x ≠ [] ∧ ∀ ch ∈ x, ch ≠ 10 := by
    intro cs hc x hx
    obtain ⟨q, hq, hqx⟩ := List.mem_map.mp hx
    obtain ⟨j, hj⟩ := List.getElem?_of_mem hq
    have := hnames _ (hc j q hj)
    rw [← hqx]
    exact ⟨this.1, fun ch hch => by have := this.2 ch hch; omega⟩
  have hfh : ∀ ch ∈ lowerName h.1, ch ≠ 10 := fun ch hch => by
    have := (hnames _ hh).2 ch hch
    omega
  -- the two names that enclose the name of `h` begin the same way
  have e1 : lowerKey (pg, pc)
      = (((pc ++ [pg]).map lowerName).map (fun x => x ++ [10])).flatten
        ++ (10 :: _ltot (toLong pg.uGroupId)) := by
    rw [lowerKey_eq, ← flatten_names]
    simp
  have e2 : lowerKey (g, pc ++ [pg])
      = (((pc ++ [pg]).map lowerName).map (fun x => x ++ [10])).flatten
        ++ (lowerName g ++ [10, 10] ++ _ltot (toLong g.uGroupId)) := by
    rw [lowerKey_eq, ← flatten_names]
    simp
  have e3 : lowerKey h
      = ((h.2.map lowerName).map (fun x => x ++ [10])).flatten
        ++ (lowerName h.1 ++ 10 :: 10 :: _ltot (toLong h.1.uGroupId)) := by
    rw [lowerKey_eq, ← flatten_names]
    simp
  rw [e1] at h1
  rw [e2] at h2
  obtain ⟨t, ht⟩ := compareChars_between _ _ _ _ h1 h2
  rw [e3] at ht
  by_cases hle : ((pc ++ [pg]).map lowerName).length ≤ (h.2.map lowerName).length
  · obtain ⟨d1, _⟩ := names_decode _ _ t _ (fun x hx => (hfree _ hyc x hx).2)
      (fun x hx => (hfree _ hhc x hx).2) ht.symm hle
    simp only [List.length_map, List.length_append, List.length_singleton] at d1 hle
    rw [← List.map_take] at d1
    exact (chains_eq T hsib _ _ hyc (closed_take T h.2 _ hhc) d1).symm
  · exfalso
    have hlt : (h.2.map lowerName).length < ((pc ++ [pg]).map lowerName).length := by omega
    obtain ⟨d1, d2⟩ := names_decode _ _ _ t (fun x hx => (hfree _ hhc x hx).2)
      (fun x hx => (hfree _ hyc x hx).2) ht (by omega)
    simp only [List.length_map, List.length_append, List.length_singleton] at d1 d2 hlt
    have hdrop : ((pc ++ [pg]).map lowerName).drop h.2.length ≠ [] := by
      intro hnil
      have := congrArg List.length hnil
      simp only [List.length_drop, List.length_map, List.length_append, List.length_singleton,
        List.length_nil] at this
      omega
    obtain ⟨x, A3, hx⟩ := List.exists_cons_of_ne_nil hdrop
    have hxmem : x ∈ (pc ++ [pg]).map lowerName :=
      List.mem_of_mem_drop (by rw [hx]; exact List.mem_cons_self _ _)
    rw [hx] at d2
    simp only [List.map_cons, List.flatten_cons, List.append_assoc, List.singleton_append]
      at d2
    obtain ⟨s1, s2⟩ := split_newline _ _ _ _ hfh (hfree _ hyc x hxmem).2 d2
    have hA3 : A3 = [] := by
      cases A3 with
      | nil => rfl
      | cons x2 A4 =>
        exfalso
        have hx2mem : x2 ∈ (pc ++ [pg]).map lowerName :=
          List.mem_of_mem_drop (by
            rw [hx]
            exact List.mem_cons_of_mem _ (List.mem_cons_self _ _))
        have s3 : ([] : List Nat) ++ 10 :: _ltot (toLong h.1.uGroupId)
            = x2 ++ 10 :: ((A4.map (fun x => x ++ [10])).flatten ++ t) := by
          rw [List.nil_append, s2]
          simp
        obtain ⟨s4, _⟩ := split_newline _ _ _ _ (by simp) (hfree _ hyc x2 hx2mem).2 s3
        exact (hfree _ hyc x2 hx2mem).1 s4.symm
    rw [hA3] at hx
    have hlen2 : h.2.length = pc.length := by
      have := congrArg List.length hx
      simp only [List.length_drop, List.length_map, List.length_append, List.length_singleton,
        List.length_cons, List.length_nil] at this
      omega
    have hpcn : pc.map lowerName = h.2.map lowerName := by
      rw [d1, hlen2, List.map_append, List.take_left' (by simp)]
    have hxpg : x = lowerName pg := by
      rw [hlen2, List.map_append, List.drop_left' (by simp)] at hx
      simp only [List.map_cons, List.map_nil, List.cons.injEq, and_true] at hx
      exact hx.symm
    have hpcs : ∀ j p, pc[j]? = some p → (p, pc.take j) ∈ T := hclosed _ hp
    have hchain : pc = h.2 := chains_eq T hsib _ _ hpcs hhc hpcn
    have hgrp : pg = h.1 := hsib _ hp _ hh hchain (by rw [← hxpg, ← s1])
    have hself : h = (pg, pc) := by
      rw [hgrp, hchain]
    rw [hself, e1, compareChars_self] at h1
    omega

/-- The parent of a group of the tree, with the parent's ancestors. -/
theorem parent_mem (T : List (PW_GROUP × List PW_GROUP))
    (hclosed : ∀ a ∈ T, ∀ j p, a.2[j]? = some p → (p, a.2.take j) ∈ T)
    (y : PW_GROUP × List PW_GROUP) (hy : y ∈ T) (hne : y.2 ≠ []) :
    ∃ pg pc, y.2 = pc ++ [pg] ∧ (pg, pc) ∈ T := by
  refine ⟨y.2.getLast hne, y.2.dropLast, (List.dropLast_append_getLast hne).symm, ?_⟩
  have h1 : y.2[y.2.dropLast.length]? = some (y.2.getLast hne) := by
    conv_lhs => rw [← List.dropLast_append_getLast hne]
    rw [List.getElem?_append_right (by simp), List.length_dropLast]
    simp
  have h2 := hclosed y hy _ _ h1
  have h3 : y.2.take y.2.dropLast.length = y.2.dropLast := by
    conv_lhs => rw [← List.dropLast_append_getLast hne]
    rw [List.length_dropLast]
    simp
  rw [h3] at h2
  exact h2

/-- In the order of the names every group follows its parent, with nothing but
groups below that parent in between: the scan finds the same ancestors. -/
theorem scan_sorted (T : List (PW_GROUP × List PW_GROUP))
    (hclosed : ∀ a ∈ T, ∀ j p, a.2[j]? = some p → (p, a.2.take j) ∈ T)
    (hlen : ∀ a ∈ T, a.2.length = a.1.usLevel)
    (hnames : ∀ a ∈ T, lowerName a.1 ≠ [] ∧ ∀ c ∈ lowerName a.1, 10 < c)
    (hsib : ∀ a ∈ T, ∀ b ∈ T, a.2 = b.2 → lowerName a.1 = lowerName b.1 → a.1 = b.1) :
    ∀ (L A : List (PW_GROUP × List PW_GROUP)) (x : PW_GROUP × List PW_GROUP),
      (A ++ x :: L).Perm T →
      List.Pairwise (fun a b => compareChars (lowerKey a) (lowerKey b) < 0) (A ++ x :: L) →
      groupAncestors (x.2 ++ [x.1]) (L.map Prod.fst) = L.map Prod.snd := by
  intro L
  induction L with
  | nil => intro A x _ _; rfl
  | cons y L ih =>
    intro A x hperm hsorted
    have hy : y ∈ T := hperm.subset (by simp)
    have hx : x ∈ T := hperm.subset (by simp)
    have hxy : compareChars (lowerKey x) (lowerKey y) < 0 := by
      have h1 := (List.pairwise_append.mp hsorted).2.1
      exact (List.pairwise_cons.mp h1).1 y (List.mem_cons_self _ _)
    have hstep : (x.2 ++ [x.1]).take y.1.usLevel = y.2 := by
      rw [← hlen y hy]
      by_cases hne : y.2 = []
      · rw [hne]
        rfl
      · obtain ⟨pg, pc, hyc, hp⟩ := parent_mem T hclosed y hy hne
        have hyT : (y.1, pc ++ [pg]) ∈ T := by rw [← hyc]; exact hy
        have hpy : compareChars (lowerKey (pg, pc)) (lowerKey y) < 0 := by
          have := parent_lt pg y.1 pc (hnames y hy).1 (hnames y hy).2
          rw [← hyc] at this
          exact this
        have hpin : (pg, pc) ∈ A ++ x :: y :: L := hperm.symm.subset hp
        rcases List.mem_append.mp hpin with h1 | h1
        · -- the parent stands before `x`
          have hpx : compareChars (lowerKey (pg, pc)) (lowerKey x) < 0 :=
            (List.pairwise_append.mp hsorted).2.2 _ h1 x (List.mem_cons_self _ _)
          have hxy2 : compareChars (lowerKey x) (lowerKey (y.1, pc ++ [pg])) < 0 := by
            rw [← hyc]
            exact hxy
          have hb := between_chain T hclosed hnames hsib pg y.1 pc x hp hyT hx hpx hxy2
          have hl : pc.length + 1 ≤ x.2.length := by
            have := congrArg List.length hb
            simp only [List.length_take, List.length_append, List.length_singleton] at this
            omega
          rw [hyc, List.length_append, List.length_singleton,
            List.take_append_of_le_length hl, hb]
        · rcases List.mem_cons.mp h1 with h2 | h2
          · -- the parent is `x`
            rw [← h2]
            simp only []
            rw [hyc]
            simp
          · exfalso
            have hrest := (List.pairwise_append.mp hsorted).2.1
            have hyl := (List.pairwise_cons.mp (List.pairwise_cons.mp hrest).2)
            rcases List.mem_cons.mp h2 with h3 | h3
            · rw [h3, compareChars_self] at hpy
              omega
            · have := hyl.1 _ h3
              have hneg := compareChars_neg (lowerKey y) (lowerKey (pg, pc))
              omega
    unfold groupAncestors
    simp only [List.map_cons]
    rw [hstep]
    congr 1
    apply ih (A ++ [x]) y
    · simpa using hperm
    · simpa using hsorted

theorem sorted_head (T : List (PW_GROUP × List PW_GROUP))
    (hclosed : ∀ a ∈ T, ∀ j p, a.2[j]? = some p → (p, a.2.take j) ∈ T)
    (hnames : ∀ a ∈ T, lowerName a.1 ≠ [] ∧ ∀ c ∈ lowerName a.1, 10 < c)
    (z : PW_GROUP × List PW_GROUP) (L : List (PW_GROUP × List PW_GROUP))
    (hperm : (z :: L).Perm T)
    (hsorted : List.Pairwise (fun a b => compareChars (lowerKey a) (lowerKey b) < 0) (z :: L)) :
    z.2 = [] := by
  by_contra hne
  have hz : z ∈ T := hperm.subset (List.mem_cons_self _ _)
  obtain ⟨pg, pc, hzc, hp⟩ := parent_mem T hclosed z hz hne
  have hpz : compareChars (lowerKey (pg, pc)) (lowerKey z) < 0 := by
    have := parent_lt pg z.1 pc (hnames z hz).1 (hnames z hz).2
    rw [← hzc] at this
    exact this
  have hpin : (pg, pc) ∈ z :: L := hperm.symm.subset hp
  rcases List.mem_cons.mp hpin with h1 | h1
  · rw [h1, compareChars_self] at hpz
    omega
  · have := (List.pairwise_cons.mp hsorted).1 _ h1
    have hneg := compareChars_neg (lowerKey z) (lowerKey (pg, pc))
    omega

/-- The groups in the order of the names have the ancestors they had. -/
theorem groupsInTree_sorted (T : List (PW_GROUP × List PW_GROUP))
    (hclosed : ∀ a ∈ T, ∀ j p, a.2[j]? = some p → (p, a.2.take j) ∈ T)
    (hlen : ∀ a ∈ T, a.2.length = a.1.usLevel)
    (hnames : ∀ a ∈ T, lowerName a.1 ≠ [] ∧ ∀ c ∈ lowerName a.1, 10 < c)
    (hsib : ∀ a ∈ T, ∀ b ∈ T, a.2 = b.2 → lowerName a.1 = lowerName b.1 → a.1 = b.1)
    (Z : List (PW_GROUP × List PW_GROUP)) (hperm : Z.Perm T)
    (hsorted : List.Pairwise (fun a b => compareChars (lowerKey a) (lowerKey b) < 0) Z) :
    groupsInTree (Z.map Prod.fst) = Z := by
  unfold groupsInTree
  symm
  apply List.zip_of_prod rfl
  cases Z with
  | nil => rfl
  | cons z L =>
    have hz := sorted_head T hclosed hnames z L hperm hsorted
    have hscan := scan_sorted T hclosed hlen hnames hsib L [] z hperm hsorted
    rw [hz] at hscan
    simp only [List.map_cons]
    unfold groupAncestors
    rw [hz]
    simp only [List.take_nil, List.nil_append] at hscan ⊢
    rw [hscan]

theorem Climbs_of_lengths : ∀ (groups stack : List PW_GROUP),
    (∀ a ∈ groups.zip (groupAncestors stack groups), a.2.length = a.1.usLevel) →
    Climbs stack.length groups := by
  intro groups
  induction groups with
  | nil => intro stack _; trivial
  | cons g rest ih =>
    intro stack h
    unfold groupAncestors at h
    rw [List.zip_cons_cons] at h
    have h1 := h _ (List.mem_cons_self _ _)
    simp only [List.length_take] at h1
    have hl : g.usLevel ≤ stack.length := by omega
    refine ⟨hl, ?_⟩
    have h2 := ih (stack.take g.usLevel ++ [g]) (fun a ha => h a (List.mem_cons_of_mem _ ha))
    have hlen : (stack.take g.usLevel ++ [g]).length = g.usLevel + 1 := by
      simp only [List.length_append, List.length_take, List.length_singleton]
      omega
    rw [hlen] at h2
    exact h2

theorem tree_of_Climbs : ∀ (groups : List PW_GROUP) (n : Nat), Climbs n groups →
    (∀ g, groups[0]? = some g → g.usLevel ≤ n)
    ∧ ∀ i g h, groups[i]? = some g → groups[i + 1]? = some h → h.usLevel ≤ g.usLevel + 1 := by
  intro groups
  induction groups with
  | nil => intro n _; simp
  | cons a rest ih =>
    intro n hc
    obtain ⟨h1, h2⟩ := hc
    obtain ⟨i1, i2⟩ := ih (a.usLevel + 1) h2
    refine ⟨?_, ?_⟩
    · intro g hg
      simp only [List.getElem?_cons_zero, Option.some.injEq] at hg
      rw [← hg]
      exact h1
    · intro i g h hg hh
      cases i with
      | zero =>
        simp only [List.getElem?_cons_zero, Option.some.injEq] at hg
        rw [← hg]
        exact i1 h (by simpa using hh)
      | succ i =>
        exact i2 i g h (by simpa using hg) (by simpa using hh)

theorem TreeInvariant_of_lengths (groups : List PW_GROUP)
    (h : ∀ a ∈ groupsInTree groups, a.2.length = a.1.usLevel) : TreeInvariant groups := by
  have hc := Climbs_of_lengths groups [] h
  obtain ⟨h1, h2⟩ := tree_of_Climbs groups 0 hc
  exact ⟨fun g hg => by have := h1 g hg; omega, h2⟩

theorem lowerKey_no_zero (a : PW_GROUP × List PW_GROUP) : ∀ c ∈ lowerKey a, c ≠ 0 := by
  intro c hc
  unfold lowerKey at hc
  obtain ⟨d, hd, hdc⟩ := List.mem_map.mp hc
  rw [← hdc]
  exact tolower_ne_zero d (fqgn_no_zero a d hd)

theorem idOf_lowerKey (a : PW_GROUP × List PW_GROUP) (h : a.1.uGroupId < U32) :
    SortGroupList.idOf (lowerKey a) = a.1.uGroupId := by
  rw [lowerKey_eq]
  have h1 : (a.2.map (fun p => lowerName p ++ [10])).flatten ++ lowerName a.1 ++ [10, 10]
      ++ _ltot (toLong a.1.uGroupId)
      = ((a.2.map (fun p => lowerName p ++ [10])).flatten ++ lowerName a.1 ++ [10]) ++ [10]
        ++ _ltot (toLong a.1.uGroupId) := by simp
  rw [h1, idOf_fqgn _ _ (ltot_no_newline _), ttol_ltot _ h]

/-- Names in the order of the bubble sort, of groups with different ids, are
in strict order. -/
theorem sorted_strict (Z : List (PW_GROUP × List PW_GROUP))
    (hle : List.Pairwise (fun a b => _tcsicmp (fqgn a) (fqgn b) ≤ 0) Z)
    (hnd : (Z.map (fun a => a.1.uGroupId)).Nodup) (hid : ∀ a ∈ Z, a.1.uGroupId < U32) :
    List.Pairwise (fun a b => compareChars (lowerKey a) (lowerKey b) < 0) Z := by
  have hne : List.Pairwise (fun a b : PW_GROUP × List PW_GROUP => a.1.uGroupId ≠ b.1.uGroupId) Z :=
    List.pairwise_map.mp hnd
  refine List.Pairwise.imp_of_mem ?_ (hle.and hne)
  intro a b ha hb hab
  obtain ⟨h1, h2⟩ := hab
  rw [tcsicmp_fqgn] at h1
  rcases lt_or_eq_of_le h1 with h3 | h3
  · exact h3
  · exfalso
    have h4 := (compareChars_eq_zero _ _ (lowerKey_no_zero a) (lowerKey_no_zero b)).mp h3
    have h5 := congrArg SortGroupList.idOf h4
    rw [idOf_lowerKey a (hid a ha), idOf_lowerKey b (hid b hb)] at h5
    exact h2 h5

/-- Siblings stand in the order of their names. -/
theorem siblings_ordered (T : List (PW_GROUP × List PW_GROUP))
    (hnames : ∀ a ∈ T, lowerName a.1 ≠ [] ∧ ∀ c ∈ lowerName a.1, 10 < c)
    (hsib : ∀ a ∈ T, ∀ b ∈ T, a.2 = b.2 → lowerName a.1 = lowerName b.1 → a.1 = b.1)
    (a b : PW_GROUP × List PW_GROUP) (ha : a ∈ T) (hb : b ∈ T)
    (hlt : compareChars (lowerKey a) (lowerKey b) < 0) (hch : a.2 = b.2) :
    _tcsicmp (groupName a.1) (groupName b.1) < 0 := by
  rw [tcsicmp_names]
  have hne : lowerName a.1 ≠ lowerName b.1 := by
    intro heq
    have h1 := hsib a ha b hb hch heq
    have h2 : a = b := Prod.ext h1 hch
    rw [h2, compareChars_self] at hlt
    omega
  rw [lowerKey_eq, lowerKey_eq, hch] at hlt
  simp only [List.append_assoc, compareChars_append] at hlt
  exact compareChars_names _ _ _ _ (hnames a ha).2 (hnames b hb).2 hne hlt

set_option maxRecDepth 100000 in
/-- C27, as stated, fails.  Each of the three arrays satisfies the tree
invariant and has pairwise distinct ids, and every allocation succeeds.  With
two groups "A" at level 0, the child "X" of the first one (id 10) ends behind
the second one (id 9) and so has another parent.  A child whose name is a tabulator, and a child with the
empty name, end before their parent: they are the first group afterwards, and
`FixGroupTree` puts them on level 0.  And with an allocator that fails,
`SortGroupList` returns with the sample tree in the order it had. -/
theorem C27_sort_group_list_dfs_counterexample :
    ((sampleNamesakes.SortGroupList (sampleEnv none)).map (fun m => (groupsInTree m.m_pGroups).map
        (fun a => (a.1.uGroupId, a.1.usLevel, a.2.map (fun p => p.uGroupId)))))
      = some [(10, 0, []), (9, 0, []), (11, 1, [9])]
    ∧ (groupsInTree sampleNamesakes.m_pGroups).map
        (fun a => (a.1.uGroupId, a.1.usLevel, a.2.map (fun p => p.uGroupId)))
      = [(10, 0, []), (11, 1, [10]), (9, 0, [])]
    ∧ ((sampleTabName.SortGroupList (sampleEnv none)).map (fun m => (groupsInTree m.m_pGroups).map
        (fun a => (a.1.uGroupId, a.1.usLevel, a.2.map (fun p => p.uGroupId)))))
      = some [(11, 0, []), (10, 0, []), (12, 1, [10])]
    ∧ (groupsInTree sampleTabName.m_pGroups).map
        (fun a => (a.1.uGroupId, a.1.usLevel, a.2.map (fun p => p.uGroupId)))
      = [(10, 0, []), (11, 1, [10]), (12, 1, [10])]
    ∧ ((sampleEmptyName.SortGroupList (sampleEnv none)).map (fun m => (groupsInTree m.m_pGroups).map
        (fun a => (a.1.uGroupId, a.1.usLevel, a.2.map (fun p => p.uGroupId)))))
      = some [(6, 0, []), (5, 0, [])]
    ∧ (groupsInTree sampleEmptyName.m_pGroups).map
        (fun a => (a.1.uGroupId, a.1.usLevel, a.2.map (fun p => p.uGroupId)))
      = [(5, 0, []), (6, 1, [5])]
    ∧ (sampleTree.SortGroupList { sampleEnv none with allocOk := fun _ => false }).map
        (fun m => m.m_pGroups.map (fun g => g.uGroupId)) = some [11, 12, 13, 14] := by
  refine ⟨by decide, by decide, by decide, by decide, by decide, by decide, by decide⟩

/-- C27, amended.  For a group array that satisfies the tree invariant with
levels below 65535, has pairwise distinct ids, names that are non-empty and
made of characters above the line feed, and no two siblings whose names are
equal ignoring case, and for which (when it has more than one group) the
allocations of `SortGroupList` succeed with sizes that have not wrapped (the
length of every name and the buffer size `dwMaxString`), `SortGroupList`
returns, and afterwards: nothing but the group array has changed; the array is
a permutation of the original groups;
every group has the ancestors, and so the parent group, that it had before;
of two groups with the same ancestors the one that stands first has the
smaller name ignoring case; and the tree invariant holds.  An array with its
levels lists a tree depth first, so this is the depth-first order of the
original tree with siblings in the order of their names. -/
theorem C27_sort_group_list_dfs (E : Env) (m : CPwManager) (ht : TreeInvariant m.m_pGroups)
    (hlv : ∀ g ∈ m.m_pGroups, g.usLevel < 65535)
    (hnd : (m.m_pGroups.map (fun g => g.uGroupId)).Nodup)
    (hid : ∀ g ∈ m.m_pGroups, g.uGroupId < U32)
    (hnames : NamesSortable m.m_pGroups) (hsib : SiblingNamesDistinct m.m_pGroups)
    (halloc : 1 < m.m_pGroups.length → SortGroupListAllocates E m.m_pGroups) :
    ∃ m', m.SortGroupList E = some m'
      ∧ m' = { m with m_pGroups := m'.m_pGroups }
      ∧ m'.m_pGroups.Perm m.m_pGroups
      ∧ (groupsInTree m'.m_pGroups).Perm (groupsInTree m.m_pGroups)
      ∧ List.Pairwise (fun a b => a.2 = b.2 → _tcsicmp (groupName a.1) (groupName b.1) < 0)
          (groupsInTree m'.m_pGroups)
      ∧ TreeInvariant m'.m_pGroups := by
  by_cases hlen : m.m_pGroups.length ≤ 1
  · refine ⟨m, ?_, rfl, List.Perm.refl _, List.Perm.refl _, ?_, ht⟩
    · unfold SortGroupList
      simp only [hlen, if_true]
    · apply pairwise_of_length_le_one
      unfold groupsInTree
      rw [List.length_zip, groupAncestors_length]
      simpa using hlen
  · have hfst := groupsInTree_fst m.m_pGroups
    have hinG : ∀ a ∈ groupsInTree m.m_pGroups, a.1 ∈ m.m_pGroups := by
      intro a ha
      have := List.mem_map_of_mem Prod.fst ha
      rwa [hfst] at this
    have hclosed := groupsInTree_closed m.m_pGroups ht
    have hlenT := groupsInTree_length m.m_pGroups ht
    have hnamesT : ∀ a ∈ groupsInTree m.m_pGroups,
        lowerName a.1 ≠ [] ∧ ∀ c ∈ lowerName a.1, 10 < c := by
      intro a ha
      have := hnames a.1 (hinG a ha)
      exact ⟨lowerName_ne_nil _ this.1, lowerName_chars _ this.2⟩
    have hsibT : ∀ a ∈ groupsInTree m.m_pGroups, ∀ b ∈ groupsInTree m.m_pGroups,
        a.2 = b.2 → lowerName a.1 = lowerName b.1 → a.1 = b.1 := by
      intro a ha b hb hch hn
      apply hsib a ha b hb hch
      rw [tcsicmp_names, hn, compareChars_self]
    obtain ⟨Z, hZ1, hZ2, hZ3⟩ :=
      SortGroupList_sorted E m (by omega) ht hid hnd (halloc (by omega))
    have hZfst : (Z.map Prod.fst).Perm m.m_pGroups := by
      have := hZ1.map Prod.fst
      rwa [hfst] at this
    have hstrict := sorted_strict Z hZ2
      (by
        have h1 : (Z.map (fun a => a.1.uGroupId))
            = (Z.map Prod.fst).map (fun g => g.uGroupId) := by
          rw [List.map_map]
          rfl
        rw [h1]
        exact (hZfst.map _).nodup_iff.mpr hnd)
      (fun a ha => hid _ (hinG a (hZ1.subset ha)))
    have htree := groupsInTree_sorted _ hclosed hlenT hnamesT hsibT Z hZ1 hstrict
    have hinv : TreeInvariant (Z.map Prod.fst) := by
      apply TreeInvariant_of_lengths
      rw [htree]
      intro a ha
      exact hlenT a (hZ1.subset ha)
    have hfix : FixGroupTree ({ m with m_pGroups := Z.map Prod.fst } : CPwManager)
        = { m with m_pGroups := Z.map Prod.fst } :=
      FixGroupTree_id _ (fun g hg => hlv g (hZfst.subset hg)) hinv
    rw [hfix] at hZ3
    refine ⟨_, hZ3, rfl, hZfst, ?_, ?_, hinv⟩
    · show (groupsInTree (Z.map Prod.fst)).Perm _
      rw [htree]
      exact hZ1
    · show List.Pairwise _ (groupsInTree (Z.map Prod.fst))
      rw [htree]
      refine List.Pairwise.imp_of_mem ?_ hstrict
      intro a b ha hb hlt hch
      exact siblings_ordered _ hnamesT hsibT a b (hZ1.subset ha) (hZ1.subset hb) hlt hch

set_option maxRecDepth 100000 in
/-- The amended C27 at the sample tree: "Home" comes first, then "Net" with
its children "Bank" and "mail". -/
theorem C27_sort_group_list_dfs_witness :
    ∃ m', sampleTree.SortGroupList (sampleEnv none) = some m'
      ∧ m'.m_pGroups.map (fun g => (g.uGroupId, g.usLevel)) = [(14, 0), (11, 0), (13, 1), (12, 1)]
      ∧ TreeInvariant m'.m_pGroups := by
  obtain ⟨m', h1, _, _, _, _, h6⟩ :=
    C27_sort_group_list_dfs (sampleEnv none) sampleTree sampleTree_tree
    (by decide) (by decide) (by decide) (by unfold NamesSortable; decide)
    (by unfold SiblingNamesDistinct; decide)
    (fun _ => ⟨by decide, by decide, by decide, by decide, by decide⟩)
  have hd : (sampleTree.SortGroupList (sampleEnv none)).map
      (fun m => m.m_pGroups.map (fun g => (g.uGroupId, g.usLevel)))
      = some [(14, 0), (11, 0), (13, 1), (12, 1)] := by decide
  rw [h1] at hd
  simp only [Option.map_some', Option.some.injEq] at hd
  exact ⟨m', h1, hd, h6⟩

end KeePass
